import Mathlib

/-!
# Cardinal3D half-edge mesh: local operators of `student/meshedit.cpp`

A shallow embedding of the half-edge mesh and of the local topology operators
`flip_edge`, `split_edge` and `collapse_edge`.

Elements live in four arenas indexed by natural numbers (the handles).  The
fields of the C++ records become functions from handles to values; a field
write `h->next() = x` becomes a pointwise update.  `new_vertex()` and its
siblings allocate the next free index; `erase` sets a tombstone flag and leaves
every stored field in place, as the deferred erase of the storage layer does.
-/

namespace Cardinal3D

/-! ## Data model -/

/-- A 3D point.  Coordinates are rationals: only the algebra of the source's
    vector arithmetic is modelled, not its floating-point rounding. -/
structure Vec3 where
  x : ℚ
  y : ℚ
  z : ℚ
deriving DecidableEq

/-- Sum of two points. -/
def Vec3.add (p q : Vec3) : Vec3 := ⟨p.x + q.x, p.y + q.y, p.z + q.z⟩

/-- Scaling of a point. -/
def Vec3.smul (c : ℚ) (p : Vec3) : Vec3 := ⟨c * p.x, c * p.y, c * p.z⟩

/-- Pointwise update of a field table: the write `tbl[i] = x`. -/
def upd {α : Type} (f : Nat → α) (i : Nat) (x : α) : Nat → α :=
  fun j => if j = i then x else f j

/-- The origin of the coordinates, the value of a default-constructed `Vec3`. -/
def Vec3.zero : Vec3 := ⟨0, 0, 0⟩

/-- The mesh: element counts, the five half-edge fields, the per-element
    representative half-edges, vertex positions, the boundary marker of faces,
    the tombstones of the deferred erase, and the cached `new_pos` slots of
    vertices, edges and faces that the subdivision passes fill. -/
structure Mesh where
  nV : Nat
  nE : Nat
  nF : Nat
  nH : Nat
  hVertex : Nat → Nat
  hTwin : Nat → Nat
  hNext : Nat → Nat
  hEdge : Nat → Nat
  hFace : Nat → Nat
  vHalfedge : Nat → Nat
  vPos : Nat → Vec3
  eHalfedge : Nat → Nat
  fHalfedge : Nat → Nat
  fBoundary : Nat → Bool
  vErased : Nat → Bool
  eErased : Nat → Bool
  fErased : Nat → Bool
  hErased : Nat → Bool
  vNewPos : Nat → Vec3 := fun _ => Vec3.zero
  eNewPos : Nat → Vec3 := fun _ => Vec3.zero
  fNewPos : Nat → Vec3 := fun _ => Vec3.zero

namespace Mesh

/-- The write `h->vertex() = v`. -/
@[simp] def setVertex (m : Mesh) (h v : Nat) : Mesh := { m with hVertex := upd m.hVertex h v }
/-- The write `h->twin() = t`. -/
@[simp] def setTwin (m : Mesh) (h t : Nat) : Mesh := { m with hTwin := upd m.hTwin h t }
/-- The write `h->next() = n`. -/
@[simp] def setNext (m : Mesh) (h n : Nat) : Mesh := { m with hNext := upd m.hNext h n }
/-- The write `h->edge() = e`. -/
@[simp] def setEdge (m : Mesh) (h e : Nat) : Mesh := { m with hEdge := upd m.hEdge h e }
/-- The write `h->face() = f`. -/
@[simp] def setFace (m : Mesh) (h f : Nat) : Mesh := { m with hFace := upd m.hFace h f }
/-- The write `v->halfedge() = h`. -/
@[simp] def setVHalfedge (m : Mesh) (v h : Nat) : Mesh :=
  { m with vHalfedge := upd m.vHalfedge v h }
/-- The write `v->pos = p`. -/
@[simp] def setPos (m : Mesh) (v : Nat) (p : Vec3) : Mesh := { m with vPos := upd m.vPos v p }
/-- The write `e->halfedge() = h`. -/
@[simp] def setEHalfedge (m : Mesh) (e h : Nat) : Mesh :=
  { m with eHalfedge := upd m.eHalfedge e h }
/-- The write `f->halfedge() = h`. -/
@[simp] def setFHalfedge (m : Mesh) (f h : Nat) : Mesh :=
  { m with fHalfedge := upd m.fHalfedge f h }

/-- The call `new_vertex()`: the handle is the next free index, the record's
    fields are not set. -/
@[simp] def new_vertex (m : Mesh) : Nat × Mesh :=
  (m.nV, { m with nV := m.nV + 1, vErased := upd m.vErased m.nV false })
/-- The call `new_edge()`. -/
@[simp] def new_edge (m : Mesh) : Nat × Mesh :=
  (m.nE, { m with nE := m.nE + 1, eErased := upd m.eErased m.nE false })
/-- The call `new_face()`; a face made by an operator is not a boundary face. -/
@[simp] def new_face (m : Mesh) : Nat × Mesh :=
  (m.nF, { m with nF := m.nF + 1, fErased := upd m.fErased m.nF false,
                  fBoundary := upd m.fBoundary m.nF false })
/-- The call `new_halfedge()`. -/
@[simp] def new_halfedge (m : Mesh) : Nat × Mesh :=
  (m.nH, { m with nH := m.nH + 1, hErased := upd m.hErased m.nH false })

/-- The call `erase(v)` on a vertex: deferred, only the tombstone is set. -/
@[simp] def eraseV (m : Mesh) (v : Nat) : Mesh := { m with vErased := upd m.vErased v true }
/-- The call `erase(e)` on an edge. -/
@[simp] def eraseE (m : Mesh) (e : Nat) : Mesh := { m with eErased := upd m.eErased e true }
/-- The call `erase(f)` on a face. -/
@[simp] def eraseF (m : Mesh) (f : Nat) : Mesh := { m with fErased := upd m.fErased f true }
/-- The call `erase(h)` on a half-edge. -/
@[simp] def eraseH (m : Mesh) (h : Nat) : Mesh := { m with hErased := upd m.hErased h true }

/-- Modelled from the spec: `Edge::center()` is declared in `geometry/halfedge.h`,
    which is not under `src/`; the spec calls it the edge midpoint, the mean of
    the positions of the edge's two endpoints. -/
def center (m : Mesh) (e : Nat) : Vec3 :=
  Vec3.smul (1 / 2)
    (Vec3.add (m.vPos (m.hVertex (m.eHalfedge e)))
              (m.vPos (m.hVertex (m.hTwin (m.eHalfedge e)))))

/-- Modelled from the spec: `Edge::on_boundary()` is declared in
    `geometry/halfedge.h`, which is not under `src/`; an edge is a boundary edge
    when one of its two half-edges lies on a face carrying the boundary marker. -/
def on_boundary (m : Mesh) (e : Nat) : Bool :=
  m.fBoundary (m.hFace (m.eHalfedge e)) || m.fBoundary (m.hFace (m.hTwin (m.eHalfedge e)))

end Mesh

/-! ## `flip_edge` -/

/-- The loop `do { h = h->next(); } while (h->next() != target);` of
    `flip_edge`, started at `h`: the half-edge found, or `none` when the loop has
    not stopped after `fuel` rounds. -/
def lastBefore (m : Mesh) (target : Nat) : Nat → Nat → Option Nat
  | 0, _ => none
  | fuel + 1, h =>
    if m.hNext (m.hNext h) = target then some (m.hNext h)
    else lastBefore m target fuel (m.hNext h)

/-- The rewiring block of `flip_edge` (lines 195-218), with the half-edges
    `h4` and `h5` found by the two loops.  All reads come before the first
    write, as in the source. -/
def flipRewire (m : Mesh) (e h4 h5 : Nat) : Mesh :=
  let h0 := m.eHalfedge e
  let h1 := m.hTwin (m.eHalfedge e)
  let h2 := m.hNext h0
  let h3 := m.hNext h1
  let h6 := m.hNext h2
  let h7 := m.hNext h3
  let v0 := m.hVertex (m.hNext h0)
  let v1 := m.hVertex (m.hNext h1)
  let v2 := m.hVertex (m.hNext (m.hNext h0))
  let v3 := m.hVertex (m.hNext (m.hNext h1))
  let f0 := m.hFace h0
  let f1 := m.hFace h1
  let m := m.setVertex h0 v3
  let m := m.setNext h0 h6
  let m := m.setVertex h1 v2
  let m := m.setNext h1 h7
  let m := m.setNext h2 h1
  let m := m.setFace h2 f1
  let m := m.setNext h3 h0
  let m := m.setFace h3 f0
  let m := m.setNext h4 h3
  let m := m.setNext h5 h2
  let m := m.setVHalfedge v0 h2
  let m := m.setVHalfedge v1 h3
  let m := m.setFHalfedge f0 h0
  let m := m.setFHalfedge f1 h1
  m

/-- `Halfedge_Mesh::flip_edge`.  The result is `none` when one of the two
    predecessor loops does not stop (it cannot stop later than after `nH`
    rounds when it stops at all); otherwise it is the returned optional
    (`none` for `std::nullopt`) together with the mesh after the call. -/
def flip_edge (m : Mesh) (e : Nat) : Option (Option Nat × Mesh) :=
  if m.on_boundary e then some (none, m)
  else
    match lastBefore m (m.eHalfedge e) m.nH (m.eHalfedge e),
          lastBefore m (m.hTwin (m.eHalfedge e)) m.nH (m.hTwin (m.eHalfedge e)) with
    | some h4, some h5 => some (some e, flipRewire m e h4 h5)
    | _, _ => none

/-! ## `split_edge` -/

/-- The guard of `split_edge` (lines 230-231): some incident face is not closed
    by three `next` steps. -/
def splitDeclines (m : Mesh) (e : Nat) : Bool :=
  m.hNext (m.hNext (m.hNext (m.eHalfedge e))) != m.eHalfedge e ||
  m.hNext (m.hNext (m.hNext (m.hTwin (m.eHalfedge e)))) != m.hTwin (m.eHalfedge e)

/-- The body of `split_edge` after its guard (lines 237-351), statement by
    statement; the self-assignments `h2->edge() = h2->edge()` read the field in
    the state they are executed in. -/
def splitRewire (m : Mesh) (e : Nat) : Nat × Mesh :=
  let v1 := m.hVertex (m.eHalfedge e)
  let v2 := m.hVertex (m.hTwin (m.eHalfedge e))
  let v3 := m.hVertex (m.hNext (m.hNext (m.eHalfedge e)))
  let v4 := m.hVertex (m.hNext (m.hNext (m.hTwin (m.eHalfedge e))))
  let (v5, m) := m.new_vertex
  let h1 := m.eHalfedge e
  let h2 := m.hNext h1
  let h3 := m.hNext h2
  let h4 := m.hTwin h1
  let h5 := m.hNext h4
  let h6 := m.hNext h5
  let (h7, m) := m.new_halfedge
  let (h8, m) := m.new_halfedge
  let (h9, m) := m.new_halfedge
  let (h10, m) := m.new_halfedge
  let (h11, m) := m.new_halfedge
  let (h12, m) := m.new_halfedge
  let e1 := e
  let (e2, m) := m.new_edge
  let (e3, m) := m.new_edge
  let (e4, m) := m.new_edge
  let f1 := m.hFace h1
  let f2 := m.hFace h4
  let (f3, m) := m.new_face
  let (f4, m) := m.new_face
  let m := m.setPos v5 (m.center e)
  let m := m.setVHalfedge v5 h12
  let m := ((((m.setVertex h1 v1).setEdge h1 e1).setTwin h1 h12).setNext h1 h7).setFace h1 f1
  let m := m.setVertex h2 v2
  let m := m.setEdge h2 (m.hEdge h2)
  let m := m.setTwin h2 (m.hTwin h2)
  let m := (m.setNext h2 h8).setFace h2 f2
  let m := m.setVertex h3 v3
  let m := m.setEdge h3 (m.hEdge h3)
  let m := m.setTwin h3 (m.hTwin h3)
  let m := (m.setNext h3 h1).setFace h3 f1
  let m := ((((m.setVertex h4 v2).setEdge h4 e2).setTwin h4 h9).setNext h4 h10).setFace h4 f3
  let m := m.setVertex h5 v1
  let m := m.setEdge h5 (m.hEdge h5)
  let m := m.setTwin h5 (m.hTwin h5)
  let m := (m.setNext h5 h11).setFace h5 f4
  let m := m.setVertex h6 v4
  let m := m.setEdge h6 (m.hEdge h6)
  let m := m.setTwin h6 (m.hTwin h6)
  let m := (m.setNext h6 h4).setFace h6 f3
  let m := ((((m.setVertex h7 v5).setEdge h7 e3).setTwin h7 h8).setNext h7 h3).setFace h7 f1
  let m := ((((m.setVertex h8 v3).setEdge h8 e3).setTwin h8 h7).setNext h8 h9).setFace h8 f2
  let m := ((((m.setVertex h9 v5).setEdge h9 e2).setTwin h9 h4).setNext h9 h2).setFace h9 f2
  let m := ((((m.setVertex h10 v5).setEdge h10 e4).setTwin h10 h11).setNext h10 h6).setFace h10 f3
  let m := ((((m.setVertex h11 v4).setEdge h11 e4).setTwin h11 h10).setNext h11 h12).setFace h11 f4
  let m := ((((m.setVertex h12 v5).setEdge h12 e1).setTwin h12 h1).setNext h12 h5).setFace h12 f4
  let m := (((m.setEHalfedge e1 h1).setEHalfedge e2 h4).setEHalfedge e3 h7).setEHalfedge e4 h10
  let m := (((m.setFHalfedge f1 h1).setFHalfedge f2 h2).setFHalfedge f3 h4).setFHalfedge f4 h5
  (v5, m)

/-- `Halfedge_Mesh::split_edge`: the returned optional and the mesh after the
    call.  The function has no loop, so it always returns. -/
def split_edge (m : Mesh) (e : Nat) : Option Nat × Mesh :=
  if splitDeclines m e then (none, m)
  else ((splitRewire m e).1, (splitRewire m e).2)

/-! ## `collapse_edge`

The source's `assert`s are compiled out in release builds.  The flag `dbg`
says whether they are compiled in; a failing assertion then aborts the call,
which, like a loop that does not stop, is the result `none`. -/

/-- One fan walk of `can_collapse_edge` (lines 76-88), the `do ... while`
    around the origin of `hstart`, entered at `h` with the set `seen`.
    `none`: no return; `some none`: the lambda returns `false`;
    `some (some seen')`: the walk is complete. -/
def fanScan (dbg : Bool) (m : Mesh) (wl : List Nat) (hstart : Nat) :
    Nat → Nat → List Nat → Option (Option (List Nat))
  | 0, _, _ => none
  | fuel + 1, h, seen =>
    let other := m.hVertex (m.hTwin h)
    if dbg && m.hVertex h != m.hVertex hstart then none
    else if decide (other ∈ seen) && !decide (m.hFace h ∈ wl) &&
        !decide (m.hFace (m.hTwin h) ∈ wl) then some none
    else if m.hNext (m.hTwin h) = hstart then some (some (other :: seen))
    else fanScan dbg m wl hstart fuel (m.hNext (m.hTwin h)) (other :: seen)

/-- The lambda `can_collapse_edge` (lines 63-91); `none` when it does not
    return. -/
def can_collapse_edge (dbg : Bool) (m : Mesh) (e : Nat) : Option Bool :=
  if m.hTwin (m.eHalfedge e) = m.hNext (m.eHalfedge e) then some false
  else
    let wl := [m.hFace (m.eHalfedge e), m.hFace (m.hTwin (m.eHalfedge e))]
    match fanScan dbg m wl (m.eHalfedge e) m.nH (m.eHalfedge e) [] with
    | none => none
    | some none => some false
    | some (some seen) =>
      match fanScan dbg m wl (m.hTwin (m.eHalfedge e)) m.nH (m.hTwin (m.eHalfedge e)) seen with
      | none => none
      | some none => some false
      | some (some _) => some true

/-- First loop of `process_outbound_edges` (lines 104-109): every half-edge of
    the fan after `hstart` gets the origin `v`. -/
def fanAssign (dbg : Bool) (v hstart : Nat) : Nat → Mesh → Nat → Option Mesh
  | 0, _, _ => none
  | fuel + 1, m, h =>
    if m.hNext (m.hTwin h) = hstart then some m
    else
      let h' := m.hNext (m.hTwin h)
      if dbg && m.hVertex h' != m.hVertex hstart then none
      else fanAssign dbg v hstart fuel (m.setVertex h' v) h'

/-- Second loop of `process_outbound_edges` (lines 112-115): a walk that only
    asserts. -/
def fanRecheck (dbg : Bool) (m : Mesh) (hstart : Nat) : Nat → Nat → Option Unit
  | 0, _ => none
  | fuel + 1, h =>
    if m.hNext (m.hTwin h) = hstart then some ()
    else
      let h' := m.hNext (m.hTwin h)
      if dbg && m.hVertex h' == m.hVertex hstart then none
      else fanRecheck dbg m hstart fuel h'

/-- Third loop of `process_outbound_edges` (lines 118-126): the half-edge
    before `hstart` on its face skips `hstart`. -/
def unlink (hstart : Nat) : Nat → Mesh → Nat → Option Mesh
  | 0, _, _ => none
  | fuel + 1, m, h =>
    let next := m.hNext h
    if next = hstart then some (m.setNext h (m.hNext hstart))
    else if next ≠ hstart then unlink hstart fuel m next
    else some m

/-- The block of lines 134-146, run when the face of `h1` has shrunk to two
    sides: the two sides are merged into one edge. -/
def mergeTwoGon (m : Mesh) (v h1 : Nat) : Mesh :=
  let m := m.setVHalfedge (m.hVertex h1) (m.hTwin (m.hNext h1))
  let m := m.setVHalfedge (m.hVertex (m.hNext h1)) (m.hTwin h1)
  let m := m.setTwin (m.hTwin h1) (m.hTwin (m.hNext h1))
  let m := m.setTwin (m.hTwin (m.hNext h1)) (m.hTwin h1)
  let m := m.setEdge (m.hTwin h1) (m.hEdge (m.hNext h1))
  let m := m.setEHalfedge (m.hEdge (m.hTwin h1)) (m.hTwin h1)
  let m := m.setVHalfedge v (m.hTwin (m.hNext h1))
  let m := m.eraseF (m.hFace h1)
  let m := m.eraseE (m.hEdge h1)
  let m := m.eraseH (m.hNext h1)
  let m := m.eraseH h1
  m

/-- The lambda `process_outbound_edges` (lines 102-152) with the captured new
    vertex `v`. -/
def process_outbound_edges (dbg : Bool) (v : Nat) (m : Mesh) (hstart : Nat) : Option Mesh :=
  match fanAssign dbg v hstart m.nH m hstart with
  | none => none
  | some m =>
    match fanRecheck dbg m hstart m.nH hstart with
    | none => none
    | some _ =>
      match unlink hstart m.nH m hstart with
      | none => none
      | some m =>
        let m := m.setFHalfedge (m.hFace hstart) (m.hNext hstart)
        let h1 := m.hNext hstart
        let m :=
          if h1 = m.hNext (m.hNext h1) ∧ m.hEdge h1 ≠ m.hEdge (m.hNext h1) then mergeTwoGon m v h1
          else m
        let m := m.eraseV (m.hVertex hstart)
        let m := m.eraseH hstart
        some m

/-- `Halfedge_Mesh::collapse_edge`: `none` when the call does not return,
    otherwise the returned optional and the mesh after the call. -/
def collapse_edge (dbg : Bool) (m : Mesh) (e : Nat) : Option (Option Nat × Mesh) :=
  match can_collapse_edge dbg m e with
  | none => none
  | some false => some (none, m)
  | some true =>
    let (v, m) := m.new_vertex
    let m := m.setVHalfedge v (m.hNext (m.eHalfedge e))
    let m := m.setPos v (m.center e)
    match process_outbound_edges dbg v m (m.eHalfedge e) with
    | none => none
    | some m =>
      match process_outbound_edges dbg v m (m.hTwin (m.eHalfedge e)) with
      | none => none
      | some m => some (some v, m.eraseE e)

/-! ## Traversal and well-formedness -/

/-- The traversal `do { ...; h = h->next(); } while (h != start);` started at
    `h`: the half-edges visited, cut after `fuel` of them. -/
def cycleFrom (m : Mesh) (start : Nat) : Nat → Nat → List Nat
  | 0, _ => []
  | fuel + 1, h => h :: (if m.hNext h = start then [] else cycleFrom m start fuel (m.hNext h))

/-- The half-edges of face `f`, in `next` order from its stored half-edge. -/
def faceHalfedges (m : Mesh) (f : Nat) : List Nat :=
  cycleFrom m (m.fHalfedge f) m.nH (m.fHalfedge f)

/-- The vertex cycle of face `f`: the origins of its half-edges, in order. -/
def faceVertices (m : Mesh) (f : Nat) : List Nat :=
  (faceHalfedges m f).map m.hVertex

/-- The vertices joined to `v` by a live half-edge leaving `v`. -/
def neighbours (m : Mesh) (v : Nat) : List Nat :=
  ((List.range m.nH).filter
      (fun h => !m.hErased h && decide (m.hVertex h = v))).map (fun h => m.hVertex (m.hTwin h))

/-- Handle `h` names an allocated half-edge that is not marked erased. -/
def hLive (m : Mesh) (h : Nat) : Prop := h < m.nH ∧ m.hErased h = false
/-- Handle `v` names an allocated vertex that is not marked erased. -/
def vLive (m : Mesh) (v : Nat) : Prop := v < m.nV ∧ m.vErased v = false
/-- Handle `e` names an allocated edge that is not marked erased. -/
def eLive (m : Mesh) (e : Nat) : Prop := e < m.nE ∧ m.eErased e = false
/-- Handle `f` names an allocated face that is not marked erased. -/
def fLive (m : Mesh) (f : Nat) : Prop := f < m.nF ∧ m.fErased f = false

instance (m : Mesh) (h : Nat) : Decidable (hLive m h) := by unfold hLive; infer_instance
instance (m : Mesh) (h : Nat) : Decidable (vLive m h) := by unfold vLive; infer_instance
instance (m : Mesh) (h : Nat) : Decidable (eLive m h) := by unfold eLive; infer_instance
instance (m : Mesh) (h : Nat) : Decidable (fLive m h) := by unfold fLive; infer_instance

/-- Invariant 1: on live half-edges `twin` is an involution without fixed
    point that stays among the live half-edges. -/
def TwinOK (m : Mesh) : Prop :=
  ∀ h, h < m.nH → m.hErased h = false →
    hLive m (m.hTwin h) ∧ m.hTwin h ≠ h ∧ m.hTwin (m.hTwin h) = h

/-- Invariant 2: `next` stays among the live half-edges and on the same live
    face, the `next` cycle through every live half-edge is closed, and every
    live face stores a live half-edge that names it. -/
def FaceOK (m : Mesh) : Prop :=
  (∀ h, h < m.nH → m.hErased h = false →
    hLive m (m.hNext h) ∧ fLive m (m.hFace h) ∧ m.hFace (m.hNext h) = m.hFace h ∧
    ∃ k, k < m.nH ∧ m.hNext^[k + 1] h = h) ∧
  (∀ f, f < m.nF → m.fErased f = false →
    hLive m (m.fHalfedge f) ∧ m.hFace (m.fHalfedge f) = f)

/-- The live half-edges that name the edge of `h` are `h` and its twin only. -/
def EdgePair (m : Mesh) (h : Nat) : Prop :=
  ∀ h', h' < m.nH → m.hErased h' = false → m.hEdge h' = m.hEdge h →
    h' = h ∨ h' = m.hTwin h

instance (m : Mesh) (h : Nat) : Decidable (EdgePair m h) := by unfold EdgePair; infer_instance

/-- Invariant 3: the edge of a live half-edge is live and is shared by exactly
    that half-edge and its twin, and every live edge stores a live half-edge
    that names it. -/
def EdgeOK (m : Mesh) : Prop :=
  (∀ h, h < m.nH → m.hErased h = false →
    eLive m (m.hEdge h) ∧ m.hEdge (m.hTwin h) = m.hEdge h ∧ EdgePair m h) ∧
  (∀ e, e < m.nE → m.eErased e = false →
    hLive m (m.eHalfedge e) ∧ m.hEdge (m.eHalfedge e) = e)

/-- Invariant 4, first half, and the orientation of the data model: the origin
    of a live half-edge is a live vertex, every live vertex stores a live
    half-edge that originates at it, and the twin of a half-edge is oppositely
    oriented, that is, it originates where the half-edge ends, at the origin of
    the half-edge's `next`. -/
def VertexOK (m : Mesh) : Prop :=
  (∀ h, h < m.nH → m.hErased h = false → vLive m (m.hVertex h)) ∧
  (∀ v, v < m.nV → m.vErased v = false →
    hLive m (m.vHalfedge v) ∧ m.hVertex (m.vHalfedge v) = v) ∧
  (∀ h, h < m.nH → m.hErased h = false → m.hVertex (m.hNext h) = m.hVertex (m.hTwin h))

/-- The well-formedness predicate on the live part of the mesh. -/
def WellFormed (m : Mesh) : Prop := TwinOK m ∧ FaceOK m ∧ EdgeOK m ∧ VertexOK m

instance (m : Mesh) : Decidable (TwinOK m) := by unfold TwinOK; infer_instance
instance (m : Mesh) : Decidable (FaceOK m) := by unfold FaceOK; infer_instance
instance (m : Mesh) : Decidable (EdgeOK m) := by unfold EdgeOK; infer_instance
instance (m : Mesh) : Decidable (VertexOK m) := by unfold VertexOK; infer_instance
instance (m : Mesh) : Decidable (WellFormed m) := by unfold WellFormed; infer_instance

/-- Half-edge `h` lies on a face of exactly three sides whose vertex cycle,
    read from `h`, is `(a, b, c)`. -/
def TriAt (m : Mesh) (h a b c : Nat) : Prop :=
  m.hNext (m.hNext (m.hNext h)) = h ∧ m.hNext h ≠ h ∧
  m.hVertex h = a ∧ m.hVertex (m.hNext h) = b ∧ m.hVertex (m.hNext (m.hNext h)) = c

instance (m : Mesh) (h a b c : Nat) : Decidable (TriAt m h a b c) := by
  unfold TriAt; infer_instance

/-! ## Hypotheses and results of the operators -/

/-- Hypotheses of a flip between two distinct triangles: the mesh is
    well-formed, `e` is a live non-boundary edge, its half-edge runs `a -> b` in
    the triangle `(a, b, c)` and its twin lies in the triangle `(b, a, d)` of
    another face. -/
def FlipPre (m : Mesh) (e a b c d : Nat) : Prop :=
  WellFormed m ∧ eLive m e ∧ m.on_boundary e = false ∧
  TriAt m (m.eHalfedge e) a b c ∧ TriAt m (m.hTwin (m.eHalfedge e)) b a d ∧
  m.hFace (m.eHalfedge e) ≠ m.hFace (m.hTwin (m.eHalfedge e))

/-- The facts a flip between two distinct triangles rests on, with names for
    the half-edges `h0 -> h2 -> h6` of the first triangle, `h1 -> h3 -> h7` of
    the second one, and for their faces `f0` and `f1`. -/
structure FlipCtx (m : Mesh) (e a b c d h0 h1 h2 h3 h6 h7 f0 f1 : Nat) : Prop where
  wf : WellFormed m
  he : eLive m e
  hnb : m.on_boundary e = false
  hh0 : m.eHalfedge e = h0
  hh1 : m.hTwin h0 = h1
  hh2 : m.hNext h0 = h2
  hh3 : m.hNext h1 = h3
  hh6 : m.hNext h2 = h6
  hh7 : m.hNext h3 = h7
  c0 : m.hNext h6 = h0
  c1 : m.hNext h7 = h1
  hf0 : m.hFace h0 = f0
  g1 : m.hFace h2 = f0
  g2 : m.hFace h6 = f0
  hf1 : m.hFace h1 = f1
  g3 : m.hFace h3 = f1
  g4 : m.hFace h7 = f1
  hf : f0 ≠ f1
  va : m.hVertex h0 = a
  vb : m.hVertex h2 = b
  vc : m.hVertex h6 = c
  vb' : m.hVertex h1 = b
  va' : m.hVertex h3 = a
  vd : m.hVertex h7 = d
  hl : hLive m h0
  l1 : hLive m h2
  l2 : hLive m h6
  l3 : hLive m h1
  l4 : hLive m h3
  l5 : hLive m h7
  d1 : h2 ≠ h0
  d2 : h6 ≠ h0
  d3 : h6 ≠ h2
  d4 : h3 ≠ h1
  d5 : h7 ≠ h1
  d6 : h7 ≠ h3
  x01 : h0 ≠ h1
  x03 : h0 ≠ h3
  x07 : h0 ≠ h7
  x21 : h2 ≠ h1
  x23 : h2 ≠ h3
  x27 : h2 ≠ h7
  x61 : h6 ≠ h1
  x63 : h6 ≠ h3
  x67 : h6 ≠ h7
  hn3 : 3 ≤ m.nH

/-- The mesh after a flip between two triangles. -/
def flipped (m : Mesh) (e : Nat) : Mesh :=
  flipRewire m e (m.hNext (m.hNext (m.eHalfedge e)))
    (m.hNext (m.hNext (m.hTwin (m.eHalfedge e))))

/-- The facts a split between two distinct triangles rests on, with the
    source's names for the half-edges `h1 -> h2 -> h3` of the first triangle,
    `h4 -> h5 -> h6` of the second one (here `p1` to `p6`), for their faces
    `f1` and `f2` (here `q1`, `q2`) and for the four vertices `v1` to `v4`. -/
structure SplitCtx (m : Mesh) (e p1 p2 p3 p4 p5 p6 q1 q2 v1 v2 v3 v4 : Nat) : Prop where
  wf : WellFormed m
  he : eLive m e
  hp1 : m.eHalfedge e = p1
  hp2 : m.hNext p1 = p2
  hp3 : m.hNext p2 = p3
  c0 : m.hNext p3 = p1
  hp4 : m.hTwin p1 = p4
  hp5 : m.hNext p4 = p5
  hp6 : m.hNext p5 = p6
  c1 : m.hNext p6 = p4
  t41 : m.hTwin p4 = p1
  fa1 : m.hFace p1 = q1
  fa2 : m.hFace p2 = q1
  fa3 : m.hFace p3 = q1
  fa4 : m.hFace p4 = q2
  fa5 : m.hFace p5 = q2
  fa6 : m.hFace p6 = q2
  hq : q1 ≠ q2
  ve1 : m.hVertex p1 = v1
  ve2 : m.hVertex p2 = v2
  ve3 : m.hVertex p3 = v3
  ve4 : m.hVertex p4 = v2
  ve5 : m.hVertex p5 = v1
  ve6 : m.hVertex p6 = v4
  ed1 : m.hEdge p1 = e
  ed4 : m.hEdge p4 = e
  l1 : hLive m p1
  l2 : hLive m p2
  l3 : hLive m p3
  l4 : hLive m p4
  l5 : hLive m p5
  l6 : hLive m p6
  n12 : p1 ≠ p2
  n13 : p1 ≠ p3
  n14 : p1 ≠ p4
  n15 : p1 ≠ p5
  n16 : p1 ≠ p6
  n23 : p2 ≠ p3
  n24 : p2 ≠ p4
  n25 : p2 ≠ p5
  n26 : p2 ≠ p6
  n34 : p3 ≠ p4
  n35 : p3 ≠ p5
  n36 : p3 ≠ p6
  n45 : p4 ≠ p5
  n46 : p4 ≠ p6
  n56 : p5 ≠ p6

/-- Hypotheses of a split between two distinct triangles: the mesh is
    well-formed, `e` is live, each of its two sides is a face of exactly three
    sides, and the two faces differ. -/
def SplitPre (m : Mesh) (e : Nat) : Prop :=
  WellFormed m ∧ eLive m e ∧
  (m.hNext (m.hNext (m.hNext (m.eHalfedge e))) = m.eHalfedge e ∧
    m.hNext (m.eHalfedge e) ≠ m.eHalfedge e) ∧
  (m.hNext (m.hNext (m.hNext (m.hTwin (m.eHalfedge e)))) = m.hTwin (m.eHalfedge e) ∧
    m.hNext (m.hTwin (m.eHalfedge e)) ≠ m.hTwin (m.eHalfedge e)) ∧
  m.hFace (m.eHalfedge e) ≠ m.hFace (m.hTwin (m.eHalfedge e))

/-- A local operator call: the operator and the edge it is given. -/
inductive LocalOp where
  | flip (e : Nat)
  | split (e : Nat)

/-- The edge `e` is live and lies between two distinct faces of exactly three
    sides each. -/
def TwoTriangles (m : Mesh) (e : Nat) : Prop :=
  eLive m e ∧
  (m.hNext (m.hNext (m.hNext (m.eHalfedge e))) = m.eHalfedge e ∧
    m.hNext (m.eHalfedge e) ≠ m.eHalfedge e) ∧
  (m.hNext (m.hNext (m.hNext (m.hTwin (m.eHalfedge e)))) = m.hTwin (m.eHalfedge e) ∧
    m.hNext (m.hTwin (m.eHalfedge e)) ≠ m.hTwin (m.eHalfedge e)) ∧
  m.hFace (m.eHalfedge e) ≠ m.hFace (m.hTwin (m.eHalfedge e))

instance (m : Mesh) (e : Nat) : Decidable (TwoTriangles m e) := by
  unfold TwoTriangles; infer_instance

/-- One successful call: the mesh after it, or `none` when the edge is not
    between two distinct triangles or the operator returns no result. -/
def applyOp (m : Mesh) : LocalOp → Option Mesh
  | LocalOp.flip e =>
    if TwoTriangles m e then
      match flip_edge m e with
      | some (some _, m') => some m'
      | _ => none
    else none
  | LocalOp.split e =>
    if TwoTriangles m e then
      match split_edge m e with
      | (some _, m') => some m'
      | _ => none
    else none

/-- A sequence of successful calls, each on the mesh the previous one left. -/
def runOps : Mesh → List LocalOp → Option Mesh
  | m, [] => some m
  | m, op :: ops =>
    match applyOp m op with
    | some m' => runOps m' ops
    | none => none

/-- One step of the walk around a vertex: `h->twin()->next()`. -/
def fanStep (m : Mesh) (h : Nat) : Nat := m.hNext (m.hTwin h)

/-- The walk `twin().next()` from `h` reaches every live half-edge `g`. -/
def FanReaches (m : Mesh) (h : Nat) : Prop :=
  ∀ g, g < m.nH → m.hErased g = false → m.hVertex h = m.hVertex g →
    ∃ k, k < m.nH ∧ (fanStep m)^[k] h = g

instance (m : Mesh) (h : Nat) : Decidable (FanReaches m h) := by
  unfold FanReaches; infer_instance

/-- Invariant 4, second half: walking `twin().next()` from a live half-edge
    visits every live half-edge that leaves the same vertex. -/
def FanOK (m : Mesh) : Prop :=
  ∀ h, h < m.nH → m.hErased h = false → FanReaches m h

/-- Invariant 5, no degenerate loops: the two ends of a live half-edge are
    different vertices. -/
def NoLoops (m : Mesh) : Prop :=
  ∀ h, h < m.nH → m.hErased h = false → m.hVertex (m.hTwin h) ≠ m.hVertex h

instance (m : Mesh) : Decidable (FanOK m) := by unfold FanOK; infer_instance
instance (m : Mesh) : Decidable (NoLoops m) := by unfold NoLoops; infer_instance

/-- The invariants 1 to 5 of the data model together. -/
def Valid (m : Mesh) : Prop := WellFormed m ∧ FanOK m ∧ NoLoops m

instance (m : Mesh) : Decidable (Valid m) := by unfold Valid; infer_instance

/-- The result of `process_outbound_edges` with its loops replaced by what they
    leave: `f` is the origin table after the first loop and `z` the half-edge
    the third loop rewrites. -/
def processResult (m : Mesh) (v hstart z : Nat) (f : Nat → Nat) : Mesh :=
  let m := { m with hVertex := f }
  let m := m.setNext z (m.hNext hstart)
  let m := m.setFHalfedge (m.hFace hstart) (m.hNext hstart)
  let h1 := m.hNext hstart
  let m :=
    if h1 = m.hNext (m.hNext h1) ∧ m.hEdge h1 ≠ m.hEdge (m.hNext h1) then mergeTwoGon m v h1
    else m
  let m := m.eraseV (m.hVertex hstart)
  let m := m.eraseH hstart
  m

/-! ## The mesh a collapse leaves -/

/-- The live half-edges `g` and `g'`, when they are on one face and leave the
    same vertex, are one half-edge. -/
def FacePair (m : Mesh) (g g' : Nat) : Prop :=
  m.hErased g = false → m.hErased g' = false →
    m.hFace g = m.hFace g' → m.hVertex g = m.hVertex g' → g = g'

instance (m : Mesh) (g g' : Nat) : Decidable (FacePair m g g') := by
  unfold FacePair; infer_instance

/-- Invariant 5, first half: two different live half-edges of one face never
    leave the same vertex. -/
def SimpleFaces (m : Mesh) : Prop :=
  ∀ g, g < m.nH → ∀ g', g' < m.nH → FacePair m g g'

/-- The live half-edges `g` and `g'` join the same two vertices, in the same or
    in the opposite direction. -/
def SameEnds (m : Mesh) (g g' : Nat) : Prop :=
  (m.hVertex g = m.hVertex g' ∧ m.hVertex (m.hTwin g) = m.hVertex (m.hTwin g')) ∨
  (m.hVertex g = m.hVertex (m.hTwin g') ∧ m.hVertex (m.hTwin g) = m.hVertex g')

instance (m : Mesh) (g g' : Nat) : Decidable (SameEnds m g g') := by
  unfold SameEnds; infer_instance

/-- No two vertices are joined by more than one edge: live half-edges that join
    the same two vertices belong to one edge. -/
def SimpleGraph (m : Mesh) : Prop :=
  ∀ g, g < m.nH → ∀ g', g' < m.nH → m.hErased g = false → m.hErased g' = false →
    SameEnds m g g' → m.hEdge g = m.hEdge g'

/-- The live face `f` contains the vertex `p`: a live half-edge of `f` leaves
    `p`. -/
def FaceHas (m : Mesh) (f p : Nat) : Prop :=
  ∃ h, h < m.nH ∧ m.hErased h = false ∧ m.hFace h = f ∧ m.hVertex h = p

instance (m : Mesh) : Decidable (SimpleFaces m) := by unfold SimpleFaces; infer_instance
instance (m : Mesh) : Decidable (SimpleGraph m) := by unfold SimpleGraph; infer_instance
instance (m : Mesh) (f p : Nat) : Decidable (FaceHas m f p) := by
  unfold FaceHas; infer_instance

/-- The face `f` is live and contains both `p` and `q`. -/
def FaceJoins (m : Mesh) (f p q : Nat) : Prop :=
  f < m.nF ∧ m.fErased f = false ∧ FaceHas m f p ∧ FaceHas m f q

instance (m : Mesh) (f p q : Nat) : Decidable (FaceJoins m f p q) := by
  unfold FaceJoins; infer_instance

/-- The live half-edges `g` and `g'` of live edges, when they join the same two
    vertices, belong to one edge, or one of the faces `f0`, `f1` is live and
    contains both vertices. -/
def ExceptPair (m : Mesh) (f0 f1 g g' : Nat) : Prop :=
  m.hErased g = false → m.hErased g' = false →
    eLive m (m.hEdge g) → eLive m (m.hEdge g') → SameEnds m g g' →
    m.hEdge g = m.hEdge g' ∨
      FaceJoins m f0 (m.hVertex g) (m.hVertex (m.hTwin g)) ∨
      FaceJoins m f1 (m.hVertex g) (m.hVertex (m.hTwin g))

instance (m : Mesh) (f0 f1 g g' : Nat) : Decidable (ExceptPair m f0 f1 g g') := by
  unfold ExceptPair; infer_instance

/-- Two vertices are joined by more than one live edge only across one of the
    faces `f0`, `f1`. -/
def SimpleExcept (m : Mesh) (f0 f1 : Nat) : Prop :=
  ∀ g, g < m.nH → ∀ g', g' < m.nH → ExceptPair m f0 f1 g g'

instance (m : Mesh) (f0 f1 : Nat) : Decidable (SimpleExcept m f0 f1) := by
  unfold SimpleExcept; infer_instance

/-- The twin table after the merge of the two-sided face `x`, `y`, when the
    merge is run (`A`). -/
def mergeTwin (T : Nat → Nat) (A : Bool) (x y : Nat) : Nat → Nat :=
  if A then upd (upd T (T x) (T y)) (T y) (T x) else T

/-- The edge table after the merge of the two-sided face `x`, `y`. -/
def mergeEdge (T E : Nat → Nat) (A : Bool) (x y : Nat) : Nat → Nat :=
  if A then upd E (T x) (E y) else E

/-- An erase that is run only with the merge. -/
def mergeFlag (fl : Nat → Bool) (A : Bool) (i : Nat) : Nat → Bool :=
  if A then upd fl i true else fl

/-- The vertex a vertex of the mesh becomes when `a` and `b` are merged into
    `v`. -/
def mergedVertex (a b v p : Nat) : Nat := if p = a ∨ p = b then v else p

/-- The half-edges around a live edge `e` of a mesh that satisfies the
    invariants, when the half-edge after `h0` is not its twin: `h0` from `a` to
    `b` on the face `f0` is followed by `x1` and `y1`, its twin `h1` on the
    face `f1` is followed by `s`. -/
structure EdgeNbhd (m : Mesh) (e h0 h1 x1 y1 s a b f0 f1 : Nat) : Prop where
  e0 : m.eHalfedge e = h0
  t0 : m.hTwin h0 = h1
  t1 : m.hTwin h1 = h0
  n0 : m.hNext h0 = x1
  n1 : m.hNext x1 = y1
  n2 : m.hNext h1 = s
  va : m.hVertex h0 = a
  vb : m.hVertex h1 = b
  vx : m.hVertex x1 = b
  vs : m.hVertex s = a
  ab : a ≠ b
  f0a : m.hFace h0 = f0
  f0x : m.hFace x1 = f0
  f0y : m.hFace y1 = f0
  f1b : m.hFace h1 = f1
  f1s : m.hFace s = f1
  ff : f0 ≠ f1
  l0 : hLive m h0
  l1 : hLive m h1
  lx : hLive m x1
  ly : hLive m y1
  ls : hLive m s
  ed0 : m.hEdge h0 = e
  ed1 : m.hEdge h1 = e

/-- The mesh `m'` left by a successful `collapse_edge m e`, field by field:
    `h0`, `h1` are the half-edges of `e`, `x1`, `y1` follow `h0` on its face,
    `s` follows `h1` and `w` precedes it; `A1` and `A2` say whether the first
    and the second call of `process_outbound_edges` merged a two-sided face. -/
structure CollapseCtx (m m' : Mesh) (e v h0 h1 x1 y1 s w : Nat) (A1 A2 : Bool) : Prop where
  n3 : m.hNext w = h1
  lw : hLive m w
  c1 : A1 = true ↔ (m.hNext y1 = h0 ∧ m.hEdge x1 ≠ m.hEdge y1)
  c2 : A2 = true ↔ (m.hNext s = w ∧
    mergeEdge m.hTwin m.hEdge A1 x1 y1 s ≠ mergeEdge m.hTwin m.hEdge A1 x1 y1 w)
  vnew : v = m.nV
  cH : m'.nH = m.nH
  cE : m'.nE = m.nE
  cF : m'.nF = m.nF
  face : m'.hFace = m.hFace
  vert : ∀ g, hLive m g → g ≠ h0 → g ≠ h1 →
    m'.hVertex g = mergedVertex (m.hVertex h0) (m.hVertex h1) v (m.hVertex g)
  twin : m'.hTwin = mergeTwin (mergeTwin m.hTwin A1 x1 y1) A2 s w
  edge : m'.hEdge =
    mergeEdge (mergeTwin m.hTwin A1 x1 y1) (mergeEdge m.hTwin m.hEdge A1 x1 y1) A2 s w
  herased : m'.hErased =
    upd (mergeFlag (mergeFlag (upd (mergeFlag (mergeFlag m.hErased A1 y1) A1 x1) h0 true)
      A2 w) A2 s) h1 true
  eerased : m'.eErased =
    upd (mergeFlag (mergeFlag m.eErased A1 (m.hEdge x1)) A2
      (mergeEdge m.hTwin m.hEdge A1 x1 y1 s)) e true
  ferased : m'.fErased =
    mergeFlag (mergeFlag m.fErased A1 (m.hFace x1)) A2 (m.hFace s)

/-! ## The stubs -/

/-- `Halfedge_Mesh::erase_vertex` (lines 40-44): the stub returns
    `std::nullopt`; the result is the returned optional and the mesh after the
    call. -/
def erase_vertex (m : Mesh) (_v : Nat) : Option Nat × Mesh := (none, m)

/-- `Halfedge_Mesh::erase_edge` (lines 50-54): the stub returns `std::nullopt`. -/
def erase_edge (m : Mesh) (_e : Nat) : Option Nat × Mesh := (none, m)

/-- `Halfedge_Mesh::collapse_face` (lines 165-169): the stub returns
    `std::nullopt`. -/
def collapse_face (m : Mesh) (_f : Nat) : Option Nat × Mesh := (none, m)

/-- `Halfedge_Mesh::bevel_vertex` (lines 386-393): the stub returns
    `std::nullopt`. -/
def bevel_vertex (m : Mesh) (_v : Nat) : Option Nat × Mesh := (none, m)

/-- `Halfedge_Mesh::bevel_edge` (lines 403-410): the stub returns
    `std::nullopt`. -/
def bevel_edge (m : Mesh) (_e : Nat) : Option Nat × Mesh := (none, m)

/-! ## `bevel_face` -/

/-- First loop of `bevel_face` (lines 427-434): one new vertex per half-edge of
    the face, at the position of the half-edge's origin; the pairs
    `(v_old, v)` are collected in `vertices`. -/
def bevelCopies (h_start : Nat) : Nat → Mesh → Nat → List (Nat × Nat) →
    Option (Mesh × List (Nat × Nat))
  | 0, _, _, _ => none
  | fuel + 1, m, h, vertices =>
    let v_old := m.hVertex h
    let (v, m) := m.new_vertex
    let m := m.setPos v (m.vPos v_old)
    let vertices := vertices ++ [(v_old, v)]
    let h := m.hNext h
    if h = h_start then some (m, vertices) else bevelCopies h_start fuel m h vertices

/-- The call `side_face_hs.at(i).push_back(x)` on the vector of `num` vectors
    kept as a table; `none` when `at` throws. -/
def pushAt (num : Nat) (side : Nat → List Nat) (i x : Nat) : Option (Nat → List Nat) :=
  if i < num then some (upd side i (side i ++ [x])) else none

/-- The element creation of one round of the second loop of `bevel_face`
    (lines 449-476), for the pairs `(v2, v0)` and `(_, v1)` read from
    `vertices`: the mesh and the half-edges `h0`, `h1`, `h0_side`, `h1_side`. -/
def bevelRound (m : Mesh) (f v2 v0 v1 : Nat) : Mesh × Nat × Nat × Nat × Nat :=
  let (e, m) := m.new_edge
  let (h0, m) := m.new_halfedge
  let (h1, m) := m.new_halfedge
  let m := m.setVHalfedge v0 h0
  let m := m.setFHalfedge f h0
  let m := m.setEHalfedge e h0
  let m := m.setTwin h0 h1
  let m := m.setEdge h0 e
  let m := m.setVertex h0 v0
  let m := m.setFace h0 f
  let m := m.setTwin h1 h0
  let m := m.setEdge h1 e
  let m := m.setVertex h1 v1
  let m := m.setFace h1 f
  let (e_side, m) := m.new_edge
  let (h0_side, m) := m.new_halfedge
  let (h1_side, m) := m.new_halfedge
  let m := m.setEHalfedge e_side h0_side
  let m := m.setTwin h0_side h1_side
  let m := m.setEdge h0_side e_side
  let m := m.setVertex h0_side v0
  let m := m.setTwin h1_side h0_side
  let m := m.setEdge h1_side e_side
  let m := m.setVertex h1_side v2
  (m, h0, h1, h0_side, h1_side)

/-- The four `push_back` calls on `side_face_hs` of one round of the second
    loop (lines 479-483); `none` when an `at` throws. -/
def bevelPush (num : Nat) (side_face_hs : Nat → List Nat) (vi h h1 h0_side h1_side : Nat) :
    Option (Nat → List Nat) :=
  match pushAt num side_face_hs vi h with
  | none => none
  | some side_face_hs =>
    match pushAt num side_face_hs vi h1 with
    | none => none
    | some side_face_hs =>
      match pushAt num side_face_hs vi h0_side with
      | none => none
      | some side_face_hs =>
        let prev_vi := if vi = 0 then num - 1 else vi - 1
        pushAt num side_face_hs prev_vi h1_side

/-- Second loop of `bevel_face` (lines 442-486): per half-edge `h` of the face
    an edge of the inset face with its half-edges `h0`, `h1` and a side edge
    with its half-edges `h0_side`, `h1_side`; `num` is the size of
    `side_face_hs`. -/
def bevelRing (h_start f : Nat) (vertices : List (Nat × Nat)) (num : Nat) :
    Nat → Mesh → Nat → Nat → List Nat → (Nat → List Nat) →
    Option (Mesh × List Nat × (Nat → List Nat))
  | 0, _, _, _, _, _ => none
  | fuel + 1, m, vi, h, top_face_hs, side_face_hs =>
    match vertices[vi]?, vertices[vi + 1]? with
    | some (v2, v0), some (_, v1) =>
      let (m, h0, h1, h0_side, h1_side) := bevelRound m f v2 v0 v1
      let top_face_hs := top_face_hs ++ [h0]
      match bevelPush num side_face_hs vi h h1 h0_side h1_side with
      | none => none
      | some side_face_hs =>
        let h := m.hNext h
        if h = h_start then some (m, top_face_hs, side_face_hs)
        else bevelRing h_start f vertices num fuel m (vi + 1) h top_face_hs side_face_hs
    | _, _ => none

/-- Third loop of `bevel_face` (lines 489-491): consecutive entries of
    `top_face_hs` are linked by `next`. -/
def linkTop : List Nat → Mesh → Mesh
  | a :: b :: rest, m => linkTop (b :: rest) (m.setNext a b)
  | _, m => m

/-- The innermost loop of `bevel_face` (lines 499-503): `h` gets as `next` the
    half-edge of the side face that leaves the vertex `h` ends at. -/
def sideNext (h : Nat) : List Nat → Mesh → Mesh
  | [], m => m
  | next :: rest, m =>
    sideNext h rest (if m.hVertex next = m.hVertex (m.hTwin h) then m.setNext h next else m)

/-- The loop over the half-edges of one side face (lines 496-504). -/
def sideFace (f_side : Nat) (face_hs : List Nat) : List Nat → Mesh → Mesh
  | [], m => m
  | h :: rest, m =>
    let m := m.setFace h f_side
    let m := m.setFHalfedge f_side h
    let m := sideNext h face_hs m
    sideFace f_side face_hs rest m

/-- Fourth loop of `bevel_face` (lines 493-505) over the entries of
    `side_face_hs` still to visit: one new face per entry; `none` when the
    assertion fails. -/
def sideFaces (dbg : Bool) (side_face_hs : Nat → List Nat) : List Nat → Mesh → Option Mesh
  | [], m => some m
  | k :: rest, m =>
    if dbg && (side_face_hs k).length != 4 then none
    else
      let (f_side, m) := m.new_face
      sideFaces dbg side_face_hs rest (sideFace f_side (side_face_hs k) (side_face_hs k) m)

/-- `Halfedge_Mesh::bevel_face` (lines 421-511): `none` when the call does not
    return, otherwise the returned optional and the mesh after the call. -/
def bevel_face (dbg : Bool) (m : Mesh) (f : Nat) : Option (Option Nat × Mesh) :=
  let h_start := m.fHalfedge f
  match bevelCopies h_start m.nH m h_start [] with
  | none => none
  | some (m, vertices) =>
    match vertices[0]? with
    | none => none
    | some first =>
      let vertices := vertices ++ [first]
      let num_edges := vertices.length - 1
      match bevelRing h_start f vertices num_edges m.nH m 0 h_start [] (fun _ => []) with
      | none => none
      | some (m, top_face_hs, side_face_hs) =>
        match top_face_hs[0]? with
        | none => none
        | some t0 =>
          let m := linkTop (top_face_hs ++ [t0]) m
          match sideFaces dbg side_face_hs (List.range num_edges) m with
          | none => none
          | some m => some (some f, m)

/-! ## `bevel_face_positions` -/

/-- Difference of two points. -/
def Vec3.sub (p q : Vec3) : Vec3 := ⟨p.x - q.x, p.y - q.y, p.z - q.z⟩

/-- The traversal `do { new_halfedges.push_back(h); h = h->next(); }
    while (h != start);`: the half-edges collected, `none` when the loop has
    not stopped after `fuel` rounds. -/
def collectCycle (m : Mesh) (start : Nat) : Nat → Nat → Option (List Nat)
  | 0, _ => none
  | fuel + 1, h =>
    if m.hNext h = start then some [h]
    else (collectCycle m start fuel (m.hNext h)).map (fun l => h :: l)

/-- The body of the loop of `bevel_face_positions` (lines 614-621) for the
    half-edge `h` and its start position.  `Face::normal()` and
    `Vec3::valid()` are declared outside `src/` and are parameters. -/
def bevelStep (normal : Mesh → Nat → Vec3) (valid : Vec3 → Bool) (face : Nat)
    (tangent_offset normal_offset : ℚ) (m : Mesh) (h : Nat) (start : Vec3) : Mesh :=
  let normal_delta := Vec3.smul normal_offset (normal m face)
  let tangent := Vec3.sub start (m.vPos (m.hVertex (m.hTwin h)))
  let tangent_delta := Vec3.smul tangent_offset tangent
  let new_pos := Vec3.add (Vec3.add start normal_delta) tangent_delta
  if valid new_pos then m.setPos (m.hVertex h) new_pos else m

/-- The loop of `bevel_face_positions` (lines 613-622) from index `i` on, over
    the half-edges still to visit; `none` when `start_positions.at(i)`
    throws. -/
def bevelMove (normal : Mesh → Nat → Vec3) (valid : Vec3 → Bool)
    (start_positions : List Vec3) (face : Nat) (tangent_offset normal_offset : ℚ) :
    List Nat → Nat → Mesh → Option Mesh
  | [], _, m => some m
  | h :: rest, i, m =>
    match start_positions[i]? with
    | none => none
    | some start =>
      bevelMove normal valid start_positions face tangent_offset normal_offset rest (i + 1)
        (bevelStep normal valid face tangent_offset normal_offset m h start)

/-- The mesh after the first `k` rounds of the loop of `bevel_face_positions`
    over the half-edges `hs`. -/
def bevelStates (normal : Mesh → Nat → Vec3) (valid : Vec3 → Bool)
    (start_positions : List Vec3) (face : Nat) (tangent_offset normal_offset : ℚ)
    (hs : List Nat) (m : Mesh) : Nat → Mesh
  | 0 => m
  | k + 1 =>
    bevelStep normal valid face tangent_offset normal_offset
      (bevelStates normal valid start_positions face tangent_offset normal_offset hs m k)
      (hs.getD k 0) (start_positions.getD k Vec3.zero)

/-- `Halfedge_Mesh::bevel_face_positions` (lines 596-623).  The member
    `flip_orientation` of the mesh, `Face::normal()` and `Vec3::valid()` are
    declared outside `src/` and are parameters; the offsets are rationals.
    `none` when the call does not return. -/
def bevel_face_positions (flip_orientation : Bool) (normal : Mesh → Nat → Vec3)
    (valid : Vec3 → Bool) (m : Mesh) (start_positions : List Vec3) (face : Nat)
    (tangent_offset normal_offset : ℚ) : Option Mesh :=
  let normal_offset := if flip_orientation then -normal_offset else normal_offset
  match collectCycle m (m.fHalfedge face) m.nH (m.fHalfedge face) with
  | none => none
  | some new_halfedges =>
    if tangent_offset > 3 / 2 ∨ tangent_offset < -1 then some m
    else bevelMove normal valid start_positions face tangent_offset normal_offset
      new_halfedges 0 m

/-! ## `triangulate` -/

/-- The body of the `while` loop of `triangulate` (lines 641-661): the triangle
    `ha`, `hb`, `hc` is cut off the face; the mesh and the new half-edge
    `ha_next`. -/
def fanRound (m : Mesh) (h_start ha hb h : Nat) : Mesh × Nat :=
  let (e, m) := m.new_edge
  let (hc, m) := m.new_halfedge
  let (ha_next, m) := m.new_halfedge
  let (f, m) := m.new_face
  let m := m.setEHalfedge e hc
  let m := m.setNext ha hb
  let m := m.setFace ha f
  let m := m.setNext hb hc
  let m := m.setFace hb f
  let m := m.setNext hc ha
  let m := m.setFace hc f
  let m := m.setTwin hc ha_next
  let m := m.setVertex hc (m.hVertex h)
  let m := m.setEdge hc e
  let m := m.setNext ha_next h
  let m := m.setFace ha_next (m.hFace h)
  let m := m.setTwin ha_next hc
  let m := m.setVertex ha_next (m.hVertex h_start)
  let m := m.setEdge ha_next e
  let m := m.setFHalfedge f hb
  (m, ha_next)

/-- The `while` loop of `triangulate` (lines 640-665) for one face: each round
    cuts the triangle `ha`, `hb`, `hc` off the face.  The result is the mesh
    with the values of `ha` and `h` at the exit of the loop. -/
def fanCut (h_start : Nat) : Nat → Mesh → Nat → Nat → Nat → Option (Mesh × Nat × Nat)
  | 0, _, _, _, _ => none
  | fuel + 1, m, ha, hb, h =>
    if m.hNext h = h_start then some (m, ha, h)
    else
      let (m, ha_next) := fanRound m h_start ha hb h
      fanCut h_start fuel m ha_next h (m.hNext h)

/-- The body of the `for` loop of `triangulate` (lines 636-669) for the face
    `face`. -/
def triangulateFace (m : Mesh) (face : Nat) : Option Mesh :=
  let h_start := m.fHalfedge face
  let ha := h_start
  let hb := m.hNext ha
  let h := m.hNext hb
  match fanCut h_start m.nH m ha hb h with
  | none => none
  | some (m, ha, h) =>
    let m := m.setNext h ha
    some (m.setFHalfedge face h)

/-- The `for` loop of `triangulate` over the faces present at entry that are
    still to visit. -/
def triangulateFaces : List Nat → Mesh → Option Mesh
  | [], m => some m
  | face :: rest, m =>
    match triangulateFace m face with
    | none => none
    | some m => triangulateFaces rest m

/-- The `for` loop of `triangulate` from face `k` on while there is a face
    `k`, the faces that the loop itself appends included. -/
def triangulateAppended : Nat → Nat → Mesh → Option Mesh
  | 0, _, _ => none
  | fuel + 1, k, m =>
    if k < m.nF then
      match triangulateFace m k with
      | none => none
      | some m => triangulateAppended fuel (k + 1) m
    else some m

/-- `Halfedge_Mesh::triangulate` (lines 628-673); `none` when the call does not
    return.  The face collection is declared in `geometry/halfedge.h`, which is
    not under `src/`; `revisit` says whether the iterator `last_face` saved at
    entry stays behind the faces that the loop appends, so that the loop visits
    them as well, or bounds the faces present at entry.  The faces are visited
    in insertion order. -/
def triangulate (revisit : Bool) (m : Mesh) : Option Mesh :=
  if m.nF = 0 then some m
  else
    match triangulateFaces (List.range m.nF) m with
    | none => none
    | some m1 => if revisit then triangulateAppended (m1.nH + 1) m.nF m1 else some m1

/-! ## Subdivision positions -/

/-- Sum of a list of points. -/
def Vec3.sum (l : List Vec3) : Vec3 := l.foldl Vec3.add Vec3.zero

/-- Modelled from the spec: `Face::center()` is declared in
    `geometry/halfedge.h`, which is not under `src/`; the spec calls it the
    centroid, the arithmetic mean of the positions of the face's boundary
    vertices. -/
def face_center (m : Mesh) (f : Nat) : Vec3 :=
  Vec3.smul (1 / ((faceVertices m f).length : ℚ)) (Vec3.sum ((faceVertices m f).map m.vPos))

/-- `Halfedge_Mesh::linear_subdivide_positions` (lines 731-750): three loops
    over the vertices, the edges and the faces of the mesh. -/
def linear_subdivide_positions (m : Mesh) : Mesh :=
  let m := (List.range m.nV).foldl
    (fun m v => { m with vNewPos := upd m.vNewPos v (m.vPos v) }) m
  let m := (List.range m.nE).foldl
    (fun m e => { m with eNewPos := upd m.eNewPos e (m.center e) }) m
  (List.range m.nF).foldl
    (fun m f => { m with fNewPos := upd m.fNewPos f (face_center m f) }) m

/-- The `do ... while` loop of `catmullclark_subdivide_positions` around one
    vertex (lines 786-791): the number of rounds and the two sums; `none` when
    the loop has not stopped after `fuel` rounds. -/
def fanSums (m : Mesh) (h_start : Nat) : Nat → Nat → Nat → Vec3 → Vec3 →
    Option (Nat × Vec3 × Vec3)
  | 0, _, _, _, _ => none
  | fuel + 1, h, n, face_sum, edge_sum =>
    let n := n + 1
    let face_sum := Vec3.add face_sum (m.fNewPos (m.hFace h))
    let edge_sum := Vec3.add edge_sum (m.eNewPos (m.hEdge h))
    let h := m.hNext (m.hTwin h)
    if h = h_start then some (n, face_sum, edge_sum)
    else fanSums m h_start fuel h n face_sum edge_sum

/-- The vertex rule `(Q + 2 * R + (n - 3) * S) / n` of lines 792-795. -/
def ccVertexRule (n : Nat) (face_sum edge_sum S : Vec3) : Vec3 :=
  let Q := Vec3.smul (1 / (n : ℚ)) face_sum
  let R := Vec3.smul (1 / (n : ℚ)) edge_sum
  Vec3.smul (1 / (n : ℚ))
    (Vec3.add (Vec3.add Q (Vec3.smul 2 R)) (Vec3.smul (((n : ℤ) - 3 : ℤ) : ℚ) S))

/-- The loop over the vertices of `catmullclark_subdivide_positions`
    (lines 780-796). -/
def ccVertices : List Nat → Mesh → Option Mesh
  | [], m => some m
  | v :: rest, m =>
    match fanSums m (m.vHalfedge v) m.nH (m.vHalfedge v) 0 Vec3.zero Vec3.zero with
    | none => none
    | some (n, face_sum, edge_sum) =>
      ccVertices rest
        { m with vNewPos := upd m.vNewPos v (ccVertexRule n face_sum edge_sum (m.vPos v)) }

/-- The edge rule of lines 773-777: the mean of the positions of the two
    endpoints and of the `new_pos` of the two faces at the edge. -/
def ccEdgeRule (m : Mesh) (e : Nat) : Vec3 :=
  Vec3.smul (1 / 4)
    (Vec3.add (Vec3.add (Vec3.add (m.vPos (m.hVertex (m.eHalfedge e)))
        (m.vPos (m.hVertex (m.hTwin (m.eHalfedge e)))))
      (m.fNewPos (m.hFace (m.eHalfedge e))))
      (m.fNewPos (m.hFace (m.hTwin (m.eHalfedge e)))))

/-- `Halfedge_Mesh::catmullclark_subdivide_positions` (lines 762-797); `none`
    when the call does not return. -/
def catmullclark_subdivide_positions (m : Mesh) : Option Mesh :=
  let m := (List.range m.nF).foldl
    (fun m f => { m with fNewPos := upd m.fNewPos f (face_center m f) }) m
  let m := (List.range m.nE).foldl
    (fun m e => { m with eNewPos := upd m.eNewPos e (ccEdgeRule m e) }) m
  ccVertices (List.range m.nV) m

/-- The traversal `do { ...; h = h->twin()->next(); } while (h != start);`
    around a vertex, started at `h`: the half-edges visited, cut after `fuel`
    of them. -/
def fanFrom (m : Mesh) (start : Nat) : Nat → Nat → List Nat
  | 0, _ => []
  | fuel + 1, h =>
    h :: (if fanStep m h = start then [] else fanFrom m start fuel (fanStep m h))

/-- The half-edges that leave the vertex `v`, in the order of the walk
    `twin().next()` from its stored half-edge; their number is the valence of
    `v`. -/
def vertexFan (m : Mesh) (v : Nat) : List Nat :=
  fanFrom m (m.vHalfedge v) m.nH (m.vHalfedge v)

/-! ## The states of `bevel_face`

The meshes and vectors that the four loops of `bevel_face` leave, written as
tables over the indices.  The new half-edges of round `i` of the second loop
are `nH + 4 i` (`h0`), `nH + 4 i + 1` (`h1`), `nH + 4 i + 2` (`h0_side`) and
`nH + 4 i + 3` (`h1_side`). -/

/-- The `i`-th half-edge of face `f`, counted from its stored half-edge. -/
def faceH (m : Mesh) (f i : Nat) : Nat := m.hNext^[i] (m.fHalfedge f)

/-- Face `f` of the well-formed mesh `m` is live and its `next` cycle from the
    stored half-edge closes after exactly `n` steps. -/
structure FaceCyc (m : Mesh) (f n : Nat) : Prop where
  wf : WellFormed m
  fl : fLive m f
  pos : 0 < n
  per : faceH m f n = faceH m f 0
  min : ∀ i, 0 < i → i < n → faceH m f i ≠ faceH m f 0

/-- The place of half-edge `x` among the first `n` half-edges of face `f`, and
    `n` when it is not one of them. -/
def cycIdx (m : Mesh) (f n x : Nat) : Nat :=
  if h : ∃ k, k < n ∧ faceH m f k = x then Nat.find h else n

/-- The vector `vertices` after `i` rounds of the first loop of `bevel_face`. -/
def bevelPairs (m : Mesh) (f i : Nat) : List (Nat × Nat) :=
  (List.range i).map (fun j => (m.hVertex (faceH m f j), m.nV + j))

/-- The mesh after `i` rounds of the first loop of `bevel_face`. -/
def bevelCopied (m : Mesh) (f i : Nat) : Mesh :=
  { m with
    nV := m.nV + i
    vPos := fun v =>
      if m.nV ≤ v ∧ v < m.nV + i then m.vPos (m.hVertex (faceH m f (v - m.nV))) else m.vPos v
    vErased := fun v => if m.nV ≤ v ∧ v < m.nV + i then false else m.vErased v }

/-- The mesh after the first loop of `bevel_face` on a face of `n` sides and
    `i` rounds of the second loop. -/
def bevelRinged (m : Mesh) (f n i : Nat) : Mesh :=
  { bevelCopied m f n with
    nE := m.nE + 2 * i
    nH := m.nH + 4 * i
    eErased := fun e => if m.nE ≤ e ∧ e < m.nE + 2 * i then false else m.eErased e
    hErased := fun h => if m.nH ≤ h ∧ h < m.nH + 4 * i then false else m.hErased h
    vHalfedge := fun v =>
      if m.nV ≤ v ∧ v < m.nV + i then m.nH + 4 * (v - m.nV) else m.vHalfedge v
    fHalfedge := fun x => if x = f ∧ 0 < i then m.nH + 4 * (i - 1) else m.fHalfedge x
    eHalfedge := fun e =>
      if m.nE ≤ e ∧ e < m.nE + 2 * i then m.nH + 2 * (e - m.nE) else m.eHalfedge e
    hTwin := fun h =>
      if m.nH ≤ h ∧ h < m.nH + 4 * i then (if (h - m.nH) % 2 = 0 then h + 1 else h - 1)
      else m.hTwin h
    hEdge := fun h =>
      if m.nH ≤ h ∧ h < m.nH + 4 * i then m.nE + (h - m.nH) / 2 else m.hEdge h
    hVertex := fun h =>
      if m.nH ≤ h ∧ h < m.nH + 4 * i then
        (if (h - m.nH) % 4 = 3 then m.hVertex (faceH m f ((h - m.nH) / 4))
         else if (h - m.nH) % 4 = 1 then
           m.nV + (if (h - m.nH) / 4 + 1 = n then 0 else (h - m.nH) / 4 + 1)
         else m.nV + (h - m.nH) / 4)
      else m.hVertex h
    hFace := fun h =>
      if (m.nH ≤ h ∧ h < m.nH + 4 * i) ∧ (h - m.nH) % 4 ≤ 1 then f else m.hFace h }

/-- The vector `top_face_hs` after `i` rounds of the second loop. -/
def bevelTop (m : Mesh) (i : Nat) : List Nat :=
  (List.range i).map (fun j => m.nH + 4 * j)

/-- The three half-edges that round `k` of the second loop pushes on entry `k`
    of `side_face_hs`. -/
def bevelOwn (m : Mesh) (f k : Nat) : List Nat :=
  [faceH m f k, m.nH + 4 * k + 1, m.nH + 4 * k + 2]

/-- The vector `side_face_hs` after `i` rounds of the second loop on a face of
    `n` sides. -/
def bevelSide (m : Mesh) (f n i : Nat) : Nat → List Nat :=
  fun k =>
    if k + 1 = n then
      (if 0 < i then [m.nH + 3] else []) ++ (if k < i then bevelOwn m f k else [])
    else
      (if k < i then bevelOwn m f k else []) ++
        (if k + 1 < i then [m.nH + 4 * (k + 1) + 3] else [])

/-- The mesh after the second loop and `i` rounds of the third loop. -/
def bevelLinked (m : Mesh) (f n i : Nat) : Mesh :=
  { bevelRinged m f n n with
    hNext := fun h =>
      if (m.nH ≤ h ∧ h < m.nH + 4 * i) ∧ (h - m.nH) % 4 = 0 then
        m.nH + 4 * (if (h - m.nH) / 4 + 1 = n then 0 else (h - m.nH) / 4 + 1)
      else m.hNext h }

/-- The index before `k` in the ring of `n` sides. -/
def ringPrev (n k : Nat) : Nat := if k = 0 then n - 1 else k - 1

/-- The index after `k` in the ring of `n` sides. -/
def ringNext (n k : Nat) : Nat := if k + 1 = n then 0 else k + 1

/-- The mesh after the third loop and `j` rounds of the fourth loop, on a face
    of `n` sides with different vertices. -/
def bevelSided (m : Mesh) (f n j : Nat) : Mesh :=
  { bevelLinked m f n n with
    nF := m.nF + j
    fErased := fun x => if m.nF ≤ x ∧ x < m.nF + j then false else m.fErased x
    fBoundary := fun x => if m.nF ≤ x ∧ x < m.nF + j then false else m.fBoundary x
    fHalfedge := fun x =>
      if x = f then m.nH + 4 * (n - 1)
      else if m.nF ≤ x ∧ x < m.nF + j then
        (if x - m.nF + 1 = n then m.nH + 4 * (x - m.nF) + 2 else m.nH + 4 * (x - m.nF + 1) + 3)
      else m.fHalfedge x
    hFace := fun h =>
      if m.nH ≤ h ∧ h < m.nH + 4 * n then
        (if (h - m.nH) % 4 = 0 then f
         else if (h - m.nH) % 4 = 1 then
           (if (h - m.nH) / 4 < j then m.nF + (h - m.nH) / 4 else f)
         else if (h - m.nH) % 4 = 2 then
           (if (h - m.nH) / 4 < j then m.nF + (h - m.nH) / 4 else m.hFace h)
         else
           (if ringPrev n ((h - m.nH) / 4) < j then m.nF + ringPrev n ((h - m.nH) / 4)
            else m.hFace h))
      else if cycIdx m f n h < j then m.nF + cycIdx m f n h
      else m.hFace h
    hNext := fun h =>
      if m.nH ≤ h ∧ h < m.nH + 4 * n then
        (if (h - m.nH) % 4 = 0 then m.nH + 4 * ringNext n ((h - m.nH) / 4)
         else if (h - m.nH) % 4 = 1 then
           (if (h - m.nH) / 4 < j then h + 1 else m.hNext h)
         else if (h - m.nH) % 4 = 2 then
           (if (h - m.nH) / 4 < j then faceH m f ((h - m.nH) / 4) else m.hNext h)
         else
           (if ringPrev n ((h - m.nH) / 4) < j then m.nH + 4 * ringPrev n ((h - m.nH) / 4) + 1
            else m.hNext h))
      else if cycIdx m f n h < j then m.nH + 4 * ringNext n (cycIdx m f n h) + 3
      else m.hNext h }

/-- The mesh `M` that `bevel_face` leaves on the face `f` of `n` sides with
    different vertices of the mesh `m`, field by field: the half-edges of the
    face are `faceH m f k`, and round `i` of the second loop made the
    half-edges `nH + 4 i` to `nH + 4 i + 3`, the edges `nE + 2 i` and
    `nE + 2 i + 1`, the vertex `nV + i` and the face `nF + i`. -/
structure BevelOut (m : Mesh) (f n : Nat) (M : Mesh) : Prop where
  cV : M.nV = m.nV + n
  cE : M.nE = m.nE + 2 * n
  cF : M.nF = m.nF + n
  cH : M.nH = m.nH + 4 * n
  herO : ∀ x, x < m.nH → M.hErased x = m.hErased x
  herN : ∀ x, m.nH ≤ x → x < m.nH + 4 * n → M.hErased x = false
  verO : ∀ v, v < m.nV → M.vErased v = m.vErased v
  verN : ∀ i, i < n → M.vErased (m.nV + i) = false
  eerO : ∀ e, e < m.nE → M.eErased e = m.eErased e
  eerN : ∀ e, m.nE ≤ e → e < m.nE + 2 * n → M.eErased e = false
  ferO : ∀ y, y < m.nF → M.fErased y = m.fErased y
  ferN : ∀ i, i < n → M.fErased (m.nF + i) = false
  twO : ∀ x, x < m.nH → M.hTwin x = m.hTwin x
  tw0 : ∀ i, i < n → M.hTwin (m.nH + 4 * i) = m.nH + 4 * i + 1
  tw1 : ∀ i, i < n → M.hTwin (m.nH + 4 * i + 1) = m.nH + 4 * i
  tw2 : ∀ i, i < n → M.hTwin (m.nH + 4 * i + 2) = m.nH + 4 * i + 3
  tw3 : ∀ i, i < n → M.hTwin (m.nH + 4 * i + 3) = m.nH + 4 * i + 2
  vxO : ∀ x, x < m.nH → M.hVertex x = m.hVertex x
  vx0 : ∀ i, i < n → M.hVertex (m.nH + 4 * i) = m.nV + i
  vx1 : ∀ i, i < n → M.hVertex (m.nH + 4 * i + 1) = m.nV + ringNext n i
  vx2 : ∀ i, i < n → M.hVertex (m.nH + 4 * i + 2) = m.nV + i
  vx3 : ∀ i, i < n → M.hVertex (m.nH + 4 * i + 3) = m.hVertex (faceH m f i)
  edO : ∀ x, x < m.nH → M.hEdge x = m.hEdge x
  ed0 : ∀ i, i < n → M.hEdge (m.nH + 4 * i) = m.nE + 2 * i
  ed1 : ∀ i, i < n → M.hEdge (m.nH + 4 * i + 1) = m.nE + 2 * i
  ed2 : ∀ i, i < n → M.hEdge (m.nH + 4 * i + 2) = m.nE + 2 * i + 1
  ed3 : ∀ i, i < n → M.hEdge (m.nH + 4 * i + 3) = m.nE + 2 * i + 1
  fcC : ∀ k, k < n → M.hFace (faceH m f k) = m.nF + k
  fcO : ∀ x, x < m.nH → (∀ k, k < n → x ≠ faceH m f k) → M.hFace x = m.hFace x
  fc0 : ∀ i, i < n → M.hFace (m.nH + 4 * i) = f
  fc1 : ∀ i, i < n → M.hFace (m.nH + 4 * i + 1) = m.nF + i
  fc2 : ∀ i, i < n → M.hFace (m.nH + 4 * i + 2) = m.nF + i
  fc3 : ∀ i, i < n → M.hFace (m.nH + 4 * i + 3) = m.nF + ringPrev n i
  nxC : ∀ k, k < n → M.hNext (faceH m f k) = m.nH + 4 * ringNext n k + 3
  nxO : ∀ x, x < m.nH → (∀ k, k < n → x ≠ faceH m f k) → M.hNext x = m.hNext x
  nx0 : ∀ i, i < n → M.hNext (m.nH + 4 * i) = m.nH + 4 * ringNext n i
  nx1 : ∀ i, i < n → M.hNext (m.nH + 4 * i + 1) = m.nH + 4 * i + 2
  nx2 : ∀ i, i < n → M.hNext (m.nH + 4 * i + 2) = faceH m f i
  nx3 : ∀ i, i < n → M.hNext (m.nH + 4 * i + 3) = m.nH + 4 * ringPrev n i + 1
  vhO : ∀ v, v < m.nV → M.vHalfedge v = m.vHalfedge v
  vhN : ∀ i, i < n → M.vHalfedge (m.nV + i) = m.nH + 4 * i
  ehO : ∀ e, e < m.nE → M.eHalfedge e = m.eHalfedge e
  eh0 : ∀ i, i < n → M.eHalfedge (m.nE + 2 * i) = m.nH + 4 * i
  eh1 : ∀ i, i < n → M.eHalfedge (m.nE + 2 * i + 1) = m.nH + 4 * i + 2
  fhT : M.fHalfedge f = m.nH + 4 * (n - 1)
  fhO : ∀ y, y < m.nF → y ≠ f → M.fHalfedge y = m.fHalfedge y
  fhN : ∀ k, k < n → M.fHalfedge (m.nF + k) =
    if k + 1 = n then m.nH + 4 * k + 2 else m.nH + 4 * (k + 1) + 3
  posO : ∀ v, v < m.nV → M.vPos v = m.vPos v
  posN : ∀ i, i < n → M.vPos (m.nV + i) = m.vPos (m.hVertex (faceH m f i))

/-! ## The states of `triangulate`

The meshes that the loop of `triangulate` leaves on one face, written as
tables over the indices.  Round `s` of the loop makes the edge `nE + s`, the
half-edges `nH + 2 s` (`hc`) and `nH + 2 s + 1` (`ha_next`) and the face
`nF + s`. -/

/-- The half-edge `ha` after `t` rounds of the loop of `triangulate` on face
    `y`. -/
def fanHa (m : Mesh) (y t : Nat) : Nat :=
  if t = 0 then faceH m y 0 else m.nH + 2 * (t - 1) + 1

/-- The mesh after `t` rounds of the loop of `triangulate` on the face `y` of
    `n` sides. -/
def fanCutState (m : Mesh) (y n t : Nat) : Mesh :=
  { m with
    nE := m.nE + t
    nH := m.nH + 2 * t
    nF := m.nF + t
    eErased := fun e => if m.nE ≤ e ∧ e < m.nE + t then false else m.eErased e
    hErased := fun h => if m.nH ≤ h ∧ h < m.nH + 2 * t then false else m.hErased h
    fErased := fun x => if m.nF ≤ x ∧ x < m.nF + t then false else m.fErased x
    fBoundary := fun x => if m.nF ≤ x ∧ x < m.nF + t then false else m.fBoundary x
    eHalfedge := fun e =>
      if m.nE ≤ e ∧ e < m.nE + t then m.nH + 2 * (e - m.nE) else m.eHalfedge e
    fHalfedge := fun x =>
      if m.nF ≤ x ∧ x < m.nF + t then faceH m y (x - m.nF + 1) else m.fHalfedge x
    hTwin := fun h =>
      if m.nH ≤ h ∧ h < m.nH + 2 * t then (if (h - m.nH) % 2 = 0 then h + 1 else h - 1)
      else m.hTwin h
    hEdge := fun h =>
      if m.nH ≤ h ∧ h < m.nH + 2 * t then m.nE + (h - m.nH) / 2 else m.hEdge h
    hVertex := fun h =>
      if m.nH ≤ h ∧ h < m.nH + 2 * t then
        (if (h - m.nH) % 2 = 0 then m.hVertex (faceH m y ((h - m.nH) / 2 + 2))
         else m.hVertex (faceH m y 0))
      else m.hVertex h
    hFace := fun h =>
      if m.nH ≤ h ∧ h < m.nH + 2 * t then
        (if (h - m.nH) % 2 = 0 then m.nF + (h - m.nH) / 2
         else if (h - m.nH) / 2 + 1 < t then m.nF + ((h - m.nH) / 2 + 1)
         else m.hFace (faceH m y ((h - m.nH) / 2 + 2)))
      else if cycIdx m y n h = 0 then (if 0 < t then m.nF else m.hFace h)
      else if cycIdx m y n h ≤ t then m.nF + (cycIdx m y n h - 1)
      else m.hFace h
    hNext := fun h =>
      if m.nH ≤ h ∧ h < m.nH + 2 * t then
        (if (h - m.nH) % 2 = 0 then fanHa m y ((h - m.nH) / 2)
         else faceH m y ((h - m.nH) / 2 + 2))
      else if 1 ≤ cycIdx m y n h ∧ cycIdx m y n h ≤ t then m.nH + 2 * (cycIdx m y n h - 1)
      else m.hNext h }

/-- The mesh after the body of the `for` loop of `triangulate` for the face
    `y` of `n` sides. -/
def fanned (m : Mesh) (y n : Nat) : Mesh :=
  ((fanCutState m y n (n - 3)).setNext (faceH m y (n - 1)) (fanHa m y (n - 3))).setFHalfedge y
    (faceH m y (n - 1))

/-- The number of rounds of the `while` loop of `triangulate` on the faces
    before face `y`: a face of `n` sides takes `n - 3` rounds. -/
def cutsBefore (m : Mesh) (y : Nat) : Nat :=
  ((List.range y).map (fun z => (faceVertices m z).length - 3)).sum

/-- The fan that `triangulate` puts in the place of the face `y` of the mesh
    `m`: with `v_0, ..., v_(n-1)` the vertex cycle of `y` in `m`, the face `y`
    of `M` is the triangle `v_0, v_(n-2), v_(n-1)` and the `n - 3` faces of `M`
    from `nF + cutsBefore m y` on are the triangles `v_0, v_(s+1), v_(s+2)`,
    each up to the starting point of its cycle. -/
def FanDesc (m M : Mesh) (y : Nat) : Prop :=
  List.IsRotated
      [(faceVertices m y).getD 0 0, (faceVertices m y).getD ((faceVertices m y).length - 2) 0,
        (faceVertices m y).getD ((faceVertices m y).length - 1) 0]
      (faceVertices M y) ∧
    ∀ s, s < (faceVertices m y).length - 3 →
      List.IsRotated
        [(faceVertices m y).getD 0 0, (faceVertices m y).getD (s + 1) 0,
          (faceVertices m y).getD (s + 2) 0]
        (faceVertices M (m.nF + cutsBefore m y + s))

instance (m M : Mesh) (y : Nat) : Decidable (FanDesc m M y) := by
  unfold FanDesc; infer_instance

/-- The mesh `M` that the body of the `for` loop of `triangulate` leaves on the
    face `y` of `n` sides of the mesh `m`, field by field. -/
structure FanOut (m : Mesh) (y n : Nat) (M : Mesh) : Prop where
  cV : M.nV = m.nV
  cE : M.nE = m.nE + (n - 3)
  cF : M.nF = m.nF + (n - 3)
  cH : M.nH = m.nH + 2 * (n - 3)
  vhA : M.vHalfedge = m.vHalfedge
  posA : M.vPos = m.vPos
  verA : M.vErased = m.vErased
  herO : ∀ x, x < m.nH → M.hErased x = m.hErased x
  herN : ∀ x, m.nH ≤ x → x < m.nH + 2 * (n - 3) → M.hErased x = false
  eerO : ∀ e, e < m.nE → M.eErased e = m.eErased e
  eerN : ∀ s, s < n - 3 → M.eErased (m.nE + s) = false
  ferO : ∀ z, z < m.nF → M.fErased z = m.fErased z
  ferN : ∀ s, s < n - 3 → M.fErased (m.nF + s) = false
  twO : ∀ x, x < m.nH → M.hTwin x = m.hTwin x
  twC : ∀ s, s < n - 3 → M.hTwin (m.nH + 2 * s) = m.nH + 2 * s + 1
  twA : ∀ s, s < n - 3 → M.hTwin (m.nH + 2 * s + 1) = m.nH + 2 * s
  vxO : ∀ x, x < m.nH → M.hVertex x = m.hVertex x
  vxC : ∀ s, s < n - 3 → M.hVertex (m.nH + 2 * s) = m.hVertex (faceH m y (s + 2))
  vxA : ∀ s, s < n - 3 → M.hVertex (m.nH + 2 * s + 1) = m.hVertex (faceH m y 0)
  edO : ∀ x, x < m.nH → M.hEdge x = m.hEdge x
  edC : ∀ s, s < n - 3 → M.hEdge (m.nH + 2 * s) = m.nE + s
  edA : ∀ s, s < n - 3 → M.hEdge (m.nH + 2 * s + 1) = m.nE + s
  ehO : ∀ e, e < m.nE → M.eHalfedge e = m.eHalfedge e
  ehN : ∀ s, s < n - 3 → M.eHalfedge (m.nE + s) = m.nH + 2 * s
  fcO : ∀ x, x < m.nH → (∀ i, i < n → x ≠ faceH m y i) → M.hFace x = m.hFace x
  fcG : ∀ i, i < n → M.hFace (faceH m y i) =
    if i = 0 then (if 0 < n - 3 then m.nF else y)
    else if i ≤ n - 3 then m.nF + (i - 1) else y
  fcC : ∀ s, s < n - 3 → M.hFace (m.nH + 2 * s) = m.nF + s
  fcA : ∀ s, s < n - 3 → M.hFace (m.nH + 2 * s + 1) =
    if s + 1 < n - 3 then m.nF + (s + 1) else y
  nxO : ∀ x, x < m.nH → (∀ i, i < n → x ≠ faceH m y i) → M.hNext x = m.hNext x
  nxG : ∀ i, i < n → M.hNext (faceH m y i) =
    if i + 1 = n then fanHa m y (n - 3)
    else if 1 ≤ i ∧ i ≤ n - 3 then m.nH + 2 * (i - 1) else faceH m y (i + 1)
  nxC : ∀ s, s < n - 3 → M.hNext (m.nH + 2 * s) = fanHa m y s
  nxA : ∀ s, s < n - 3 → M.hNext (m.nH + 2 * s + 1) = faceH m y (s + 2)
  fhY : M.fHalfedge y = faceH m y (n - 1)
  fhO : ∀ z, z < m.nF → z ≠ y → M.fHalfedge z = m.fHalfedge z
  fhN : ∀ s, s < n - 3 → M.fHalfedge (m.nF + s) = faceH m y (s + 1)

/-! ## The representatives a collapse leaves -/

/-- The table of the vertices' stored half-edges after the merge of the
    two-sided face `x`, `y`, when the merge is run (`A`): `p` and `q` are the
    origins of `x` and `y`, and `tx`, `ty` their twins. -/
def mergeVRep (R : Nat → Nat) (A : Bool) (p q v tx ty : Nat) : Nat → Nat :=
  if A then upd (upd (upd R p ty) q tx) v ty else R

/-- The table of the edges' stored half-edges after the merge of the two-sided
    face `x`, `y`: `k` is the edge of `y` and `tx` the twin of `x`. -/
def mergeERep (R : Nat → Nat) (A : Bool) (k tx : Nat) : Nat → Nat :=
  if A then upd R k tx else R

/-- The `next` table, the stored half-edges and the vertex records of the mesh
    `m'` left by a successful `collapse_edge m e`, with the names of
    `CollapseCtx`; `z` is the half-edge before `h0` on its face. -/
structure CollapseReps (m m' : Mesh) (v h0 h1 x1 y1 s w z : Nat) (A1 A2 : Bool) : Prop where
  n4 : m.hNext z = h0
  lz : hLive m z
  cV : m'.nV = m.nV + 1
  next : m'.hNext = upd (upd m.hNext z x1) w s
  vrep : m'.vHalfedge =
    mergeVRep (mergeVRep (upd m.vHalfedge v x1) A1 (m.hVertex x1) (m.hVertex y1) v
        (m.hTwin x1) (m.hTwin y1))
      A2 v (m.hVertex w) v (mergeTwin m.hTwin A1 x1 y1 s) (mergeTwin m.hTwin A1 x1 y1 w)
  erep : m'.eHalfedge =
    mergeERep (mergeERep m.eHalfedge A1 (m.hEdge y1) (m.hTwin x1)) A2
      (mergeEdge m.hTwin m.hEdge A1 x1 y1 w) (mergeTwin m.hTwin A1 x1 y1 s)
  frep : m'.fHalfedge = upd (upd m.fHalfedge (m.hFace h0) x1) (m.hFace h1) s
  verased : m'.vErased =
    upd (upd (upd m.vErased v false) (m.hVertex h0) true) (m.hVertex h1) true

/-- The two triangles around the edge of `h0` in a triangle mesh: `y1` leads
    back to `h0` and `s` to `w`, with the facts on their origins and the
    half-edges of the two faces `f0` and `f1`. -/
structure TriNbhd (m : Mesh) (h0 h1 x1 y1 s w a b f0 f1 : Nat) : Prop where
  ny : m.hNext y1 = h0
  ns : m.hNext s = w
  exy : m.hEdge x1 ≠ m.hEdge y1
  vya : m.hVertex y1 ≠ a
  vyb : m.hVertex y1 ≠ b
  vwa : m.hVertex w ≠ a
  vwb : m.hVertex w ≠ b
  vtx : m.hVertex (m.hTwin x1) = m.hVertex y1
  vty : m.hVertex (m.hTwin y1) = a
  vts : m.hVertex (m.hTwin s) = m.hVertex w
  vtw : m.hVertex (m.hTwin w) = b
  fw : m.hFace w = f1
  on0 : ∀ g, hLive m g → m.hFace g = f0 → g = h0 ∨ g = x1 ∨ g = y1
  on1 : ∀ g, hLive m g → m.hFace g = f1 → g = h1 ∨ g = s ∨ g = w
  x0 : x1 ≠ h0
  y0 : y1 ≠ h0
  xy : x1 ≠ y1
  s1 : s ≠ h1
  w1 : w ≠ h1
  sw : s ≠ w

/-- The twin table `T`, the edge table `E` and the table `R` of the edges'
    stored half-edges satisfy the invariants 1 and 3 on the half-edges `P` and
    the edges `Q`. -/
def TwinEdgeOK (P Q : Nat → Prop) (T E R : Nat → Nat) : Prop :=
  (∀ g, P g → P (T g) ∧ T g ≠ g ∧ T (T g) = g ∧ Q (E g) ∧ E (T g) = E g ∧
    ∀ g', P g' → E g' = E g → g' = g ∨ g' = T g) ∧
  (∀ k, Q k → P (R k) ∧ E (R k) = k)

/-- Every live half-edge is one of the three sides of the face it names: three
    `next` steps lead back to it, and the face's stored half-edge is among the
    three. -/
def TriangleMesh (m : Mesh) : Prop :=
  ∀ g, g < m.nH → m.hErased g = false →
    m.hNext (m.hNext (m.hNext g)) = g ∧
    (m.fHalfedge (m.hFace g) = g ∨ m.fHalfedge (m.hFace g) = m.hNext g ∨
      m.fHalfedge (m.hFace g) = m.hNext (m.hNext g))

instance (m : Mesh) : Decidable (TriangleMesh m) := by unfold TriangleMesh; infer_instance

/-- Half-edge `g` is a side of a face of three sides whose record stores one
    of the three. -/
def TriSide (m : Mesh) (g : Nat) : Prop :=
  m.hNext (m.hNext (m.hNext g)) = g ∧
  (m.fHalfedge (m.hFace g) = g ∨ m.fHalfedge (m.hFace g) = m.hNext g ∨
    m.fHalfedge (m.hFace g) = m.hNext (m.hNext g))

/-- Half-edge `g` is a side of a face of two sides that are the two half-edges
    of one edge, and the record of the face stores one of the two. -/
def LensSide (m : Mesh) (g : Nat) : Prop :=
  m.hNext (m.hNext g) = g ∧ m.hTwin g = m.hNext g ∧
  (m.fHalfedge (m.hFace g) = g ∨ m.fHalfedge (m.hFace g) = m.hNext g)

instance (m : Mesh) (g : Nat) : Decidable (TriSide m g) := by unfold TriSide; infer_instance
instance (m : Mesh) (g : Nat) : Decidable (LensSide m g) := by unfold LensSide; infer_instance

/-- Every live face is a triangle or a face of two sides on one edge, the
    remnant of a collapse on two triangles that share all three sides. -/
def TriLensMesh (m : Mesh) : Prop :=
  ∀ g, g < m.nH → m.hErased g = false → TriSide m g ∨ LensSide m g

instance (m : Mesh) : Decidable (TriLensMesh m) := by unfold TriLensMesh; infer_instance

/-- The two-sided face with the sides `x` and `y` has been removed from `m'`:
    both sides and the face are marked erased, and the half-edges their
    records name as twins, when both are live, are mutual twins on one live
    edge whose stored half-edge is one of them. -/
def TwoGonMerged (m' : Mesh) (x y : Nat) : Prop :=
  m'.hErased x = true ∧ m'.hErased y = true ∧ m'.fErased (m'.hFace x) = true ∧
  (hLive m' (m'.hTwin x) → hLive m' (m'.hTwin y) →
    m'.hTwin (m'.hTwin x) = m'.hTwin y ∧ m'.hTwin (m'.hTwin y) = m'.hTwin x ∧
    m'.hEdge (m'.hTwin x) = m'.hEdge (m'.hTwin y) ∧ eLive m' (m'.hEdge (m'.hTwin x)) ∧
    (m'.eHalfedge (m'.hEdge (m'.hTwin x)) = m'.hTwin x ∨
      m'.eHalfedge (m'.hEdge (m'.hTwin x)) = m'.hTwin y))

instance (m' : Mesh) (x y : Nat) : Decidable (TwoGonMerged m' x y) := by
  unfold TwoGonMerged; infer_instance

/-! ## `loop_subdivide` and `isotropic_remesh` -/

/-- `Halfedge_Mesh::loop_subdivide` (lines 806-850): the body holds comments
    and no statement, so the mesh after the call is the mesh before it. -/
def loop_subdivide (m : Mesh) : Mesh := m

/-- `Halfedge_Mesh::isotropic_remesh` (lines 857-877): the body is the one
    statement `return false;`.  The result is the returned flag and the mesh
    after the call. -/
def isotropic_remesh (m : Mesh) : Bool × Mesh := (false, m)

/-! ## Quadrics and edge records -/

/-- Modelled from the spec: the 4-vector of the vector library, which is
    declared outside `src/`; coordinates are rationals. -/
structure Vec4 where
  x : ℚ
  y : ℚ
  z : ℚ
  w : ℚ
deriving DecidableEq

/-- Modelled from the spec: the 4×4 matrix type of the vector library, which is
    declared outside `src/`, with column access: `c0` to `c3` are `cols[0]` to
    `cols[3]`. -/
structure Mat4 where
  c0 : Vec4
  c1 : Vec4
  c2 : Vec4
  c3 : Vec4
deriving DecidableEq

/-- The first three coordinates, `Vec4::xyz()`. -/
def Vec4.xyz (v : Vec4) : Vec3 := ⟨v.x, v.y, v.z⟩

/-- The dot product `dot(Vec4, Vec4)`. -/
def Vec4.dot (u v : Vec4) : ℚ := u.x * v.x + u.y * v.y + u.z * v.z + u.w * v.w

/-- Sum of two 4-vectors. -/
def Vec4.add (u v : Vec4) : Vec4 := ⟨u.x + v.x, u.y + v.y, u.z + v.z, u.w + v.w⟩

/-- Scaling of a 4-vector. -/
def Vec4.smul (c : ℚ) (v : Vec4) : Vec4 := ⟨c * v.x, c * v.y, c * v.z, c * v.w⟩

/-- Matrix addition, `Mat4 + Mat4`. -/
def Mat4.add (A B : Mat4) : Mat4 :=
  ⟨Vec4.add A.c0 B.c0, Vec4.add A.c1 B.c1, Vec4.add A.c2 B.c2, Vec4.add A.c3 B.c3⟩

/-- The outer product `outer(u, v)`: entry `(i, j)` is `u_i * v_j`, so column
    `j` is `u` scaled by `v_j`. -/
def Mat4.outer (u v : Vec4) : Mat4 :=
  ⟨Vec4.smul v.x u, Vec4.smul v.y u, Vec4.smul v.z u, Vec4.smul v.w u⟩

/-- The dot product of two points. -/
def Vec3.dot (p q : Vec3) : ℚ := p.x * q.x + p.y * q.y + p.z * q.z

/-- The quadratic form `xᵗ K x`, the sum of `x_i * K_ij * x_j` over the sixteen
    entries of `K`. -/
def quadForm (K : Mat4) (x : Vec4) : ℚ :=
  x.x * K.c0.x * x.x + x.y * K.c0.y * x.x + x.z * K.c0.z * x.x + x.w * K.c0.w * x.x +
  x.x * K.c1.x * x.y + x.y * K.c1.y * x.y + x.z * K.c1.z * x.y + x.w * K.c1.w * x.y +
  x.x * K.c2.x * x.z + x.y * K.c2.y * x.z + x.z * K.c2.z * x.z + x.w * K.c2.w * x.z +
  x.x * K.c3.x * x.w + x.y * K.c3.y * x.w + x.z * K.c3.z * x.w + x.w * K.c3.w * x.w

/-- The functions and constants of the geometry and vector libraries that
    `simplify` and `Edge_Record` use and that are declared outside `src/`:
    `Face::normal()`, `Mat4::axes`, `Mat4::inverse()`, `Vec4::valid()`, the
    value of a default-constructed `Mat4`, and the address `&*e` of an edge
    record. -/
structure VecLib where
  normal : Mesh → Nat → Vec3
  axes : Vec3 → Vec3 → Vec3 → Mat4
  inverse : Mat4 → Mat4
  valid : Vec4 → Bool
  mat0 : Mat4
  addr : Nat → Nat

/-- The value of `vertex_quadrics[v]`: the stored matrix, or a
    default-constructed one when the map has no entry for `v`. -/
def quadricAt (lib : VecLib) (vertex_quadrics : Nat → Option Mat4) (v : Nat) : Mat4 :=
  (vertex_quadrics v).getD lib.mat0

/-- The map after the access `vertex_quadrics[v]`, which inserts a
    default-constructed entry when there is none. -/
def quadricTouch (lib : VecLib) (vertex_quadrics : Nat → Option Mat4) (v : Nat) :
    Nat → Option Mat4 :=
  match vertex_quadrics v with
  | some _ => vertex_quadrics
  | none => upd vertex_quadrics v (some lib.mat0)

/-- The helper type `Edge_Record` (lines 880-917). -/
structure Edge_Record where
  edge : Nat
  optimal : Vec3
  cost : ℚ
deriving DecidableEq

/-- The combined quadric `K` of the constructor of `Edge_Record` (line 894). -/
def edgeQuadric (lib : VecLib) (m : Mesh) (vertex_quadrics : Nat → Option Mat4) (e : Nat) :
    Mat4 :=
  Mat4.add (quadricAt lib vertex_quadrics (m.hVertex (m.eHalfedge e)))
    (quadricAt lib vertex_quadrics (m.hVertex (m.hTwin (m.eHalfedge e))))

/-- The constructor `Edge_Record(vertex_quadrics, e)` (lines 883-913): the
    record, and the map `vertex_quadrics` after the two accesses. -/
def Edge_Record.create (lib : VecLib) (m : Mesh) (vertex_quadrics : Nat → Option Mat4)
    (e : Nat) : Edge_Record × (Nat → Option Mat4) :=
  let K := edgeQuadric lib m vertex_quadrics e
  let A := lib.axes K.c0.xyz K.c1.xyz K.c2.xyz
  let _b := Vec3.smul (-1) K.c3.xyz
  let inverse := lib.inverse A
  let invalid := !lib.valid inverse.c0 || !lib.valid inverse.c1 || !lib.valid inverse.c2 ||
    !lib.valid inverse.c3
  let optimal := if invalid then m.center e else m.center e
  let x : Vec4 := ⟨optimal.x, optimal.y, optimal.z, 1⟩
  let cost := Vec4.dot ⟨Vec4.dot x K.c0, Vec4.dot x K.c1, Vec4.dot x K.c2, Vec4.dot x K.c3⟩ x
  (⟨e, optimal, cost⟩,
    quadricTouch lib (quadricTouch lib vertex_quadrics (m.hVertex (m.eHalfedge e)))
      (m.hVertex (m.hTwin (m.eHalfedge e))))

/-- The comparison `operator<` of edge records (lines 920-927): by cost, and
    between equal costs by the address of the edge. -/
def Edge_Record.lt (lib : VecLib) (r1 r2 : Edge_Record) : Bool :=
  if r1.cost ≠ r2.cost then decide (r1.cost < r2.cost)
  else decide (lib.addr r1.edge < lib.addr r2.edge)

/-! ## `PQueue`

The member `queue` is a `std::set<Edge_Record>` ordered by `operator<`: it is
modelled by the list of its elements in increasing order, the order in which
the set iterates. -/

/-- `PQueue::insert` (lines 984-986), `std::set::insert`: the item goes to its
    place in the order; an item equivalent to an element of the set is not
    inserted. -/
def PQueue.insert (lib : VecLib) (item : Edge_Record) : List Edge_Record → List Edge_Record
  | [] => [item]
  | r :: q =>
    if Edge_Record.lt lib item r then item :: r :: q
    else if Edge_Record.lt lib r item then r :: PQueue.insert lib item q
    else r :: q

/-- `PQueue::remove` (lines 987-991): the element equivalent to the item, if
    there is one, is erased. -/
def PQueue.remove (lib : VecLib) (item : Edge_Record) (q : List Edge_Record) :
    List Edge_Record :=
  q.filter (fun r => Edge_Record.lt lib r item || Edge_Record.lt lib item r)

/-- `PQueue::top` (lines 992-994), the first element of the set; `none` on an
    empty queue, where the source dereferences `end()`. -/
def PQueue.top (q : List Edge_Record) : Option Edge_Record := q.head?

/-- `PQueue::pop` (lines 995-997): the first element is erased. -/
def PQueue.pop (q : List Edge_Record) : List Edge_Record := q.tail

/-- The invariant of `std::set`: the elements are in strictly increasing
    order. -/
def PQueue.Sorted (lib : VecLib) (q : List Edge_Record) : Prop :=
  q.Pairwise (fun r1 r2 => Edge_Record.lt lib r1 r2 = true)

instance (lib : VecLib) (q : List Edge_Record) : Decidable (PQueue.Sorted lib q) := by
  unfold PQueue.Sorted; infer_instance

/-- A library whose functions are constant and whose edge addresses are the
    edge handles. -/
def plainLib : VecLib where
  normal := fun _ _ => Vec3.zero
  axes := fun _ _ _ => ⟨⟨0, 0, 0, 0⟩, ⟨0, 0, 0, 0⟩, ⟨0, 0, 0, 0⟩, ⟨0, 0, 0, 0⟩⟩
  inverse := fun A => A
  valid := fun _ => true
  mat0 := ⟨⟨0, 0, 0, 0⟩, ⟨0, 0, 0, 0⟩, ⟨0, 0, 0, 0⟩, ⟨0, 0, 0, 0⟩⟩
  addr := fun e => e

/-! ## Element counts -/

/-- The number of records of an arena of size `n` that are not marked erased:
    the size of the element list once the erased elements are removed. -/
def liveCount (n : Nat) (erased : Nat → Bool) : Nat :=
  (List.range n).countP (fun i => !erased i)

/-- The number of vertices, `vertices.size()` once erased elements are removed. -/
def n_vertices (m : Mesh) : Nat := liveCount m.nV m.vErased

/-- The number of edges, `edges.size()` once erased elements are removed. -/
def n_edges (m : Mesh) : Nat := liveCount m.nE m.eErased

/-- The number of faces, `faces.size()` once erased elements are removed. -/
def n_faces (m : Mesh) : Nat := liveCount m.nF m.fErased

/-- The number of half-edges, `halfedges.size()` once erased elements are
    removed. -/
def n_halfedges (m : Mesh) : Nat := liveCount m.nH m.hErased

/-! ## `simplify` -/

/-- The walk `do { ...; h = h->twin()->next(); } while (h != h_start);` around
    a vertex: the half-edges visited, `none` when the walk has not come back
    after `fuel` rounds. -/
def fanWalk (m : Mesh) (h_start : Nat) : Nat → Nat → Option (List Nat)
  | 0, _ => none
  | fuel + 1, h =>
    if fanStep m h = h_start then some [h]
    else (fanWalk m h_start fuel (fanStep m h)).map (fun l => h :: l)

/-- The quadric of a face (lines 1041-1045): the outer product of the plane
    `(N, -N·p)` with itself. -/
def faceQuadric (lib : VecLib) (m : Mesh) (face : Nat) : Mat4 :=
  let N := lib.normal m face
  let p := face_center m face
  let d := Vec3.dot N p * -1
  let v : Vec4 := ⟨N.x, N.y, N.z, d⟩
  Mat4.outer v v

/-- The map `face_quadrics` after the first loop of `simplify` (lines
    1040-1046): an entry for every face of the mesh. -/
def faceQuadrics (lib : VecLib) (m : Mesh) : Nat → Option Mat4 :=
  fun f => if f < m.nF ∧ m.fErased f = false then some (faceQuadric lib m f) else none

/-- The body of the second loop of `simplify` (lines 1049-1056): the sum of the
    quadrics of the faces around `vertex`, from a default-constructed matrix;
    `none` when the walk does not come back. -/
def vertexQuadric (lib : VecLib) (m : Mesh) (face_quadrics : Nat → Option Mat4)
    (vertex : Nat) : Option Mat4 :=
  (fanWalk m (m.vHalfedge vertex) m.nH (m.vHalfedge vertex)).map
    (fun l => l.foldl
      (fun face_quadric_sum h =>
        Mat4.add face_quadric_sum ((face_quadrics (m.hFace h)).getD lib.mat0)) lib.mat0)

/-- The elements of an arena of size `n` that are not marked erased, in the
    order of their list. -/
def liveList (n : Nat) (erased : Nat → Bool) : List Nat :=
  (List.range n).filter (fun i => !erased i)

/-- The second loop of `simplify` (lines 1048-1057) over the vertices in the
    list `vs`. -/
def initVertexQuadrics (lib : VecLib) (m : Mesh) (face_quadrics : Nat → Option Mat4) :
    List Nat → (Nat → Option Mat4) → Option (Nat → Option Mat4)
  | [], vq => some vq
  | vertex :: vs, vq =>
    match vertexQuadric lib m face_quadrics vertex with
    | none => none
    | some q => initVertexQuadrics lib m face_quadrics vs (upd vq vertex (some q))

/-- The maps and the queue that `simplify` keeps next to the mesh. -/
structure SimplifyState where
  mesh : Mesh
  vertex_quadrics : Nat → Option Mat4
  edge_records : Nat → Option Edge_Record
  edge_queue : List Edge_Record

/-- The two statements `edge_records[edge] = {vertex_quadrics, edge};
    edge_queue.insert(edge_records[edge]);` (lines 1061-1062 and 1123-1124). -/
def addRecord (lib : VecLib) (s : SimplifyState) (edge : Nat) : SimplifyState :=
  { s with
    vertex_quadrics := (Edge_Record.create lib s.mesh s.vertex_quadrics edge).2
    edge_records :=
      upd s.edge_records edge (some (Edge_Record.create lib s.mesh s.vertex_quadrics edge).1)
    edge_queue :=
      PQueue.insert lib (Edge_Record.create lib s.mesh s.vertex_quadrics edge).1 s.edge_queue }

/-- The lambda `get_touching_edges_to_vertex` (lines 1072-1081): the set of the
    edges of the half-edges around `v`, as a list without repetition. -/
def get_touching_edges_to_vertex (m : Mesh) (v : Nat) : Option (List Nat) :=
  (fanWalk m (m.vHalfedge v) m.nH (m.vHalfedge v)).map (fun l => (l.map m.hEdge).dedup)

/-- The lambda `get_touching_edges` (lines 1084-1092): the edges around the two
    ends of `e`, without `e` itself. -/
def get_touching_edges (m : Mesh) (e : Nat) : Option (List Nat) :=
  match get_touching_edges_to_vertex m (m.hVertex (m.eHalfedge e)) with
  | none => none
  | some t1 =>
    match get_touching_edges_to_vertex m (m.hVertex (m.hTwin (m.eHalfedge e))) with
    | none => none
    | some t2 => some ((t1 ++ t2).dedup.erase e)

/-- The loop of lines 1104-1109: the tracked record of every touching edge
    that has one is removed from the queue. -/
def removeTouching (lib : VecLib) (edge_records : Nat → Option Edge_Record) :
    List Nat → List Edge_Record → List Edge_Record
  | [], q => q
  | edge :: es, q =>
    match edge_records edge with
    | some r => removeTouching lib edge_records es (PQueue.remove lib r q)
    | none => removeTouching lib edge_records es q

/-- The loop of lines 1120-1126: every touching edge that has a tracked record
    gets a new record, which is inserted into the queue. -/
def addBack (lib : VecLib) : List Nat → SimplifyState → SimplifyState
  | [], s => s
  | edge :: es, s =>
    match s.edge_records edge with
    | some _ => addBack lib es (addRecord lib s edge)
    | none => addBack lib es s

/-- Modelled from the spec: `collapse_edge_erase` is declared in
    `geometry/halfedge.h`, which is not under `src/`; the spec calls it the
    erase-and-finalize variant of the collapse, which runs `collapse_edge` and
    removes the erased elements at once.  In the arena a tombstoned element is
    a removed element, so the call is `collapse_edge`. -/
def collapse_edge_erase (dbg : Bool) (m : Mesh) (e : Nat) : Option (Option Nat × Mesh) :=
  collapse_edge dbg m e

/-- The matrix `quadric_new` of a round (lines 1097-1099): the sum of the
    quadrics that `vertex_quadrics` gives for the two ends of the popped
    edge. -/
def quadricNew (lib : VecLib) (s : SimplifyState) (er : Edge_Record) : Mat4 :=
  let va := s.mesh.hVertex (s.mesh.eHalfedge er.edge)
  let vb := s.mesh.hVertex (s.mesh.hTwin (s.mesh.eHalfedge er.edge))
  let q1 := quadricAt lib s.vertex_quadrics va
  let q2 := quadricAt lib (quadricTouch lib s.vertex_quadrics va) vb
  Mat4.add q1 q2

/-- The map `vertex_quadrics` after the two accesses and the two `erase`
    calls of lines 1097-1101. -/
def quadricsErased (lib : VecLib) (s : SimplifyState) (er : Edge_Record) : Nat → Option Mat4 :=
  let va := s.mesh.hVertex (s.mesh.eHalfedge er.edge)
  let vb := s.mesh.hVertex (s.mesh.hTwin (s.mesh.eHalfedge er.edge))
  upd (upd (quadricTouch lib (quadricTouch lib s.vertex_quadrics va) vb) va none) vb none

/-- The part of the loop body of `simplify` before the collapse (lines
    1095-1109): the record popped, the state with the queue after the pop and
    the removals and with the two vertex quadrics erased, the new quadric and
    the touching edges. -/
def beforeCollapse (lib : VecLib) (s : SimplifyState) :
    Option (Edge_Record × SimplifyState × Mat4 × List Nat) :=
  match PQueue.top s.edge_queue with
  | none => none
  | some er =>
    match get_touching_edges s.mesh er.edge with
    | none => none
    | some touching_edges =>
      some (er,
        { s with
          vertex_quadrics := quadricsErased lib s er
          edge_queue := removeTouching lib s.edge_records touching_edges
            (PQueue.pop s.edge_queue) },
        quadricNew lib s er, touching_edges)

/-- One round of the loop of `simplify` (lines 1094-1127); `none` when the
    round does not finish. -/
def simplifyIter (dbg : Bool) (lib : VecLib) (s : SimplifyState) : Option SimplifyState :=
  match beforeCollapse lib s with
  | none => none
  | some (er, s, quadric_new, touching_edges) =>
    match collapse_edge_erase dbg s.mesh er.edge with
    | none => none
    | some (none, mesh) =>
      some (addBack lib touching_edges
        { s with mesh := mesh, edge_records := upd s.edge_records er.edge none })
    | some (some v, mesh) =>
      let mesh := mesh.setPos v er.optimal
      match get_touching_edges_to_vertex mesh v with
      | none => none
      | some touching_edges =>
        some (addBack lib touching_edges
          { s with
            mesh := mesh
            vertex_quadrics := upd s.vertex_quadrics v (some quadric_new)
            edge_records := upd s.edge_records er.edge none })

/-- The loop `for (iter = 0; iter < num_deletions; ++iter)`. -/
def simplifyLoop (dbg : Bool) (lib : VecLib) : Nat → SimplifyState → Option SimplifyState
  | 0, s => some s
  | n + 1, s =>
    match simplifyIter dbg lib s with
    | none => none
    | some s => simplifyLoop dbg lib n s

/-- The state of `simplify` when the three loops of lines 1040-1063 have run:
    the face quadrics, the vertex quadrics and a record in the queue for every
    edge; `none` when a walk around a vertex does not come back. -/
def simplifyInit (lib : VecLib) (m : Mesh) : Option SimplifyState :=
  match initVertexQuadrics lib m (faceQuadrics lib m) (liveList m.nV m.vErased)
      (fun _ => none) with
  | none => none
  | some vq =>
    some ((liveList m.nE m.eErased).foldl (addRecord lib) ⟨m, vq, fun _ => none, []⟩)

/-- `Halfedge_Mesh::simplify` (lines 1011-1130): the returned flag and the mesh
    after the call, `none` when the call does not return.  `faces.size()` and
    `num_deletions` are of type `size_t`, and `faces.size() - min_faces` is
    computed modulo `2^64`. -/
def simplify (dbg : Bool) (lib : VecLib) (m : Mesh) : Option (Bool × Mesh) :=
  match simplifyInit lib m with
  | none => none
  | some s =>
    let num_deletions := n_faces m / 4
    let min_faces := 1
    if num_deletions ≥ (n_faces m + (2 ^ 64 - min_faces)) % 2 ^ 64 then some (false, m)
    else
      match simplifyLoop dbg lib num_deletions s with
      | none => none
      | some s => some (true, s.mesh)

/-! ## Fans as orbits -/

/-- A system of fans: on the half-edges `P` the step `σ` stays in `P` and
    keeps the label `L`, it is injective, and it leads from every half-edge to
    every half-edge with the same label. -/
def FanSys (P : Nat → Prop) (σ : Nat → Nat) (L : Nat → Nat) : Prop :=
  (∀ g, P g → P (σ g) ∧ L (σ g) = L g) ∧
  (∀ g g', P g → P g' → σ g = σ g' → g = g') ∧
  (∀ h g, P h → P g → L h = L g → ∃ k, σ^[k] h = g)

/-! ## The runs of `simplify` -/

/-- The two triangles of the edge `e` share all three of their sides: the
    side after `e` on one triangle and the side before `e` on the other are
    one edge, and so are the two remaining sides. -/
def PillowEdge (m : Mesh) (e : Nat) : Prop :=
  m.hEdge (m.hNext (m.eHalfedge e)) = m.hEdge (m.hNext (m.hNext (m.hTwin (m.eHalfedge e)))) ∧
  m.hEdge (m.hNext (m.hNext (m.eHalfedge e))) = m.hEdge (m.hNext (m.hTwin (m.eHalfedge e)))

instance (m : Mesh) (e : Nat) : Decidable (PillowEdge m e) := by
  unfold PillowEdge; infer_instance

/-- The invariant of the loop of `simplify`: the mesh satisfies the invariants
    1 to 5 and its faces are triangles or two-sided faces on one edge, the
    queue is in order, a tracked record names the edge it is tracked for, every
    record in the queue is the tracked record of its edge, and the edge of
    every record in the queue is live. -/
def SimplifyInv (lib : VecLib) (s : SimplifyState) : Prop :=
  (Valid s.mesh ∧ TriLensMesh s.mesh) ∧
  PQueue.Sorted lib s.edge_queue ∧
  (∀ x r, s.edge_records x = some r → r.edge = x) ∧
  (∀ r, r ∈ s.edge_queue → s.edge_records r.edge = some r) ∧
  (∀ r, r ∈ s.edge_queue → eLive s.mesh r.edge)

/-- In the next `k` rounds of the loop from the state `s`, as far as the run
    goes, no round pops an edge whose two triangles share all three sides. -/
def pillowFree (dbg : Bool) (lib : VecLib) : Nat → SimplifyState → Bool
  | 0, _ => true
  | k + 1, s =>
    match PQueue.top s.edge_queue with
    | none => true
    | some er =>
      !decide (PillowEdge s.mesh er.edge) &&
        (match simplifyIter dbg lib s with
         | none => true
         | some s' => pillowFree dbg lib k s')

/-- In the next `k` rounds of the loop from the state `s`, as far as the run
    goes, the collapse of every round returns a vertex: none is declined. -/
def allCollapsed (dbg : Bool) (lib : VecLib) : Nat → SimplifyState → Bool
  | 0, _ => true
  | k + 1, s =>
    match PQueue.top s.edge_queue with
    | none => true
    | some er =>
      (match collapse_edge_erase dbg s.mesh er.edge with
       | some (some _, _) => true
       | _ => false) &&
        (match simplifyIter dbg lib s with
         | none => true
         | some s' => allCollapsed dbg lib k s')

/-- In the run of `simplify` on the mesh `m`, none of the `faces.size() / 4`
    collapses is declined. -/
def noneDeclined (dbg : Bool) (lib : VecLib) (m : Mesh) : Bool :=
  match simplifyInit lib m with
  | none => true
  | some s => allCollapsed dbg lib (n_faces m / 4) s

/-- In the run of `simplify` on the mesh `m`, none of the `faces.size() / 4`
    rounds pops an edge whose two triangles share all three sides. -/
def noPillowPopped (dbg : Bool) (lib : VecLib) (m : Mesh) : Bool :=
  match simplifyInit lib m with
  | none => true
  | some s => pillowFree dbg lib (n_faces m / 4) s

/-- The state of `simplify` on the mesh `m` at the head of the round `k` of its
    loop; `none` when the run does not get there. -/
def stateAfter (dbg : Bool) (lib : VecLib) (m : Mesh) (k : Nat) : Option SimplifyState :=
  match simplifyInit lib m with
  | none => none
  | some s => simplifyLoop dbg lib k s

/-! ## Test meshes -/

/-- Table lookup with default `0`. -/
def tbl (l : List Nat) (i : Nat) : Nat := l.getD i 0

/-- A tetrahedron on the vertices 0..3 with faces (0,1,2), (1,0,3), (1,3,2),
    (0,2,3); half-edges are numbered face by face. -/
def tetra : Mesh where
  nV := 4
  nE := 6
  nF := 4
  nH := 12
  hVertex := tbl [0, 1, 2, 1, 0, 3, 1, 3, 2, 0, 2, 3]
  hTwin := tbl [3, 8, 9, 0, 11, 6, 5, 10, 1, 2, 7, 4]
  hNext := tbl [1, 2, 0, 4, 5, 3, 7, 8, 6, 10, 11, 9]
  hEdge := tbl [0, 1, 2, 0, 3, 4, 4, 5, 1, 2, 5, 3]
  hFace := tbl [0, 0, 0, 1, 1, 1, 2, 2, 2, 3, 3, 3]
  vHalfedge := tbl [0, 1, 2, 5]
  vPos := fun v => ⟨v, v * v, v * v * v⟩
  eHalfedge := tbl [0, 1, 2, 4, 5, 7]
  fHalfedge := tbl [0, 3, 6, 9]
  fBoundary := fun _ => false
  vErased := fun _ => false
  eErased := fun _ => false
  fErased := fun _ => false
  hErased := fun _ => false

/-- An octahedron: poles 0 and 1, equator 2, 3, 4, 5; half-edges are numbered
    face by face. -/
def octa : Mesh where
  nV := 6
  nE := 12
  nF := 8
  nH := 24
  hVertex := tbl [0, 2, 3, 0, 3, 4, 0, 4, 5, 0, 5, 2, 1, 3, 2, 1, 4, 3, 1, 5, 4, 1, 2, 5]
  hTwin := tbl [11, 13, 3, 2, 16, 6, 5, 19, 9, 8, 22, 0, 17, 1, 21, 20, 4, 12, 23, 7, 15, 14, 10, 18]
  hNext := tbl [1, 2, 0, 4, 5, 3, 7, 8, 6, 10, 11, 9, 13, 14, 12, 16, 17, 15, 19, 20, 18, 22, 23, 21]
  hEdge := tbl [0, 1, 2, 2, 3, 4, 4, 5, 6, 6, 7, 0, 8, 1, 9, 10, 3, 8, 11, 5, 10, 9, 7, 11]
  hFace := tbl [0, 0, 0, 1, 1, 1, 2, 2, 2, 3, 3, 3, 4, 4, 4, 5, 5, 5, 6, 6, 6, 7, 7, 7]
  vHalfedge := tbl [0, 12, 1, 2, 5, 8]
  vPos := fun v => ⟨v, v * v, v * v * v⟩
  eHalfedge := tbl [0, 1, 2, 4, 5, 7, 8, 10, 12, 14, 15, 18]
  fHalfedge := tbl [0, 3, 6, 9, 12, 15, 18, 21]
  fBoundary := fun _ => false
  vErased := fun _ => false
  eErased := fun _ => false
  fErased := fun _ => false
  hErased := fun _ => false

/-- A single triangle (0,1,2), face 0, whose other side is the boundary loop,
    face 1. -/
def oneTri : Mesh where
  nV := 3
  nE := 3
  nF := 2
  nH := 6
  hVertex := tbl [0, 1, 2, 1, 0, 2]
  hTwin := tbl [3, 5, 4, 0, 2, 1]
  hNext := tbl [1, 2, 0, 4, 5, 3]
  hEdge := tbl [0, 1, 2, 0, 2, 1]
  hFace := tbl [0, 0, 0, 1, 1, 1]
  vHalfedge := tbl [0, 1, 2]
  vPos := fun v => ⟨v, v * v, v * v * v⟩
  eHalfedge := tbl [0, 1, 2]
  fHalfedge := tbl [0, 3]
  fBoundary := fun f => decide (f ∈ [1])
  vErased := fun _ => false
  eErased := fun _ => false
  fErased := fun _ => false
  hErased := fun _ => false

/-- A single quadrilateral (0,1,2,3), face 0, whose other side is the boundary
    loop, face 1. -/
def square : Mesh where
  nV := 4
  nE := 4
  nF := 2
  nH := 8
  hVertex := tbl [0, 1, 2, 3, 3, 2, 1, 0]
  hTwin := tbl [6, 5, 4, 7, 2, 1, 0, 3]
  hNext := tbl [1, 2, 3, 0, 5, 6, 7, 4]
  hEdge := tbl [0, 1, 2, 3, 2, 1, 0, 3]
  hFace := tbl [0, 0, 0, 0, 1, 1, 1, 1]
  vHalfedge := tbl [0, 1, 2, 3]
  vPos := fun v => ⟨v, v * v, v * v * v⟩
  eHalfedge := tbl [0, 1, 2, 3]
  fHalfedge := tbl [0, 4]
  fBoundary := fun f => decide (f ∈ [1])
  vErased := fun _ => false
  eErased := fun _ => false
  fErased := fun _ => false
  hErased := fun _ => false

/-- A triangular bipyramid: equator 0, 1, 2, apexes 3 and 4; half-edges are
    numbered face by face. -/
def bipyramid : Mesh where
  nV := 5
  nE := 9
  nF := 6
  nH := 18
  hVertex := tbl [3, 0, 1, 3, 1, 2, 3, 2, 0, 4, 1, 0, 4, 2, 1, 4, 0, 2]
  hTwin := tbl [8, 10, 3, 2, 13, 6, 5, 16, 0, 14, 1, 15, 17, 4, 9, 11, 7, 12]
  hNext := tbl [1, 2, 0, 4, 5, 3, 7, 8, 6, 10, 11, 9, 13, 14, 12, 16, 17, 15]
  hEdge := tbl [0, 1, 2, 2, 3, 4, 4, 5, 0, 6, 1, 7, 8, 3, 6, 7, 5, 8]
  hFace := tbl [0, 0, 0, 1, 1, 1, 2, 2, 2, 3, 3, 3, 4, 4, 4, 5, 5, 5]
  vHalfedge := tbl [1, 2, 5, 0, 9]
  vPos := fun v => ⟨v, v * v, v * v * v⟩
  eHalfedge := tbl [0, 1, 2, 4, 5, 7, 9, 11, 12]
  fHalfedge := tbl [0, 3, 6, 9, 12, 15]
  fBoundary := fun _ => false
  vErased := fun _ => false
  eErased := fun _ => false
  fErased := fun _ => false
  hErased := fun _ => false

/-- A three-sided face folded onto a dangling edge: face 0 has the sides 0->1,
    1->0 and the loop 0->0, so edge 0 has face 0 on both of its sides; the other
    side of the loop is the boundary face 1. -/
def spur : Mesh where
  nV := 2
  nE := 2
  nF := 2
  nH := 4
  hVertex := tbl [0, 1, 0, 0]
  hTwin := tbl [1, 0, 3, 2]
  hNext := tbl [1, 2, 0, 3]
  hEdge := tbl [0, 0, 1, 1]
  hFace := tbl [0, 0, 0, 1]
  vHalfedge := tbl [0, 1]
  vPos := fun v => ⟨v, v * v, v * v * v⟩
  eHalfedge := tbl [0, 2]
  fHalfedge := tbl [0, 3]
  fBoundary := fun f => decide (f ∈ [1])
  vErased := fun _ => false
  eErased := fun _ => false
  fErased := fun _ => false
  hErased := fun _ => false

/-- The tetrahedron after `bevel_face` on its face 0: the new vertices 4, 5, 6
    are the copies of 0, 1, 2 and the inset face is face 0. -/
def beveledTetra : Mesh :=
  match bevel_face true tetra 0 with
  | some (_, m) => m
  | none => tetra

/-- Two triangles on the vertices 0, 1, 2 glued along all three edges: the
    faces (0,1,2) and (1,0,2); half-edges are numbered face by face. -/
def pillow : Mesh where
  nV := 3
  nE := 3
  nF := 2
  nH := 6
  hVertex := tbl [0, 1, 2, 1, 0, 2]
  hTwin := tbl [3, 5, 4, 0, 2, 1]
  hNext := tbl [1, 2, 0, 4, 5, 3]
  hEdge := tbl [0, 1, 2, 0, 2, 1]
  hFace := tbl [0, 0, 0, 1, 1, 1]
  vHalfedge := tbl [0, 1, 2]
  vPos := fun v => ⟨v, v * v, v * v * v⟩
  eHalfedge := tbl [0, 1, 2]
  fHalfedge := tbl [0, 3]
  fBoundary := fun _ => false
  vErased := fun _ => false
  eErased := fun _ => false
  fErased := fun _ => false
  hErased := fun _ => false

/-- The mesh without elements. -/
def emptyMesh : Mesh where
  nV := 0
  nE := 0
  nF := 0
  nH := 0
  hVertex := fun _ => 0
  hTwin := fun _ => 0
  hNext := fun _ => 0
  hEdge := fun _ => 0
  hFace := fun _ => 0
  vHalfedge := fun _ => 0
  vPos := fun _ => Vec3.zero
  eHalfedge := fun _ => 0
  fHalfedge := fun _ => 0
  fBoundary := fun _ => false
  vErased := fun _ => false
  eErased := fun _ => false
  fErased := fun _ => false
  hErased := fun _ => false

/-- Two pillows side by side: the faces (0,1,2), (1,0,2) on the vertices 0, 1,
    2 and the faces (3,4,5), (4,3,5) on the vertices 3, 4, 5. -/
def twoPillows : Mesh where
  nV := 6
  nE := 6
  nF := 4
  nH := 12
  hVertex := tbl [0, 1, 2, 1, 0, 2, 3, 4, 5, 4, 3, 5]
  hTwin := tbl [3, 5, 4, 0, 2, 1, 9, 11, 10, 6, 8, 7]
  hNext := tbl [1, 2, 0, 4, 5, 3, 7, 8, 6, 10, 11, 9]
  hEdge := tbl [0, 1, 2, 0, 2, 1, 3, 4, 5, 3, 5, 4]
  hFace := tbl [0, 0, 0, 1, 1, 1, 2, 2, 2, 3, 3, 3]
  vHalfedge := tbl [0, 1, 2, 6, 7, 8]
  vPos := fun v => ⟨v, v * v, v * v * v⟩
  eHalfedge := tbl [0, 1, 2, 6, 7, 8]
  fHalfedge := tbl [0, 3, 6, 9]
  fBoundary := fun _ => false
  vErased := fun _ => false
  eErased := fun _ => false
  fErased := fun _ => false
  hErased := fun _ => false

/-- The face of two sides on one edge that a collapse leaves of a pillow:
    the half-edges 0 and 1 are twins and follow each other. -/
def lens : Mesh where
  nV := 2
  nE := 1
  nF := 1
  nH := 2
  hVertex := tbl [0, 1]
  hTwin := tbl [1, 0]
  hNext := tbl [1, 0]
  hEdge := tbl [0, 0]
  hFace := tbl [0, 0]
  vHalfedge := tbl [0, 1]
  vPos := fun v => ⟨v, 0, 0⟩
  eHalfedge := tbl [0]
  fHalfedge := tbl [0]
  fBoundary := fun _ => false
  vErased := fun _ => false
  eErased := fun _ => false
  fErased := fun _ => false
  hErased := fun _ => false

/-- An icosahedron: the vertex 0 on top, the ring 1 to 5 below it, the ring 6
    to 10 below that and the vertex 11 at the bottom; 12 vertices, 30 edges,
    20 triangles. -/
def icosa : Mesh where
  nV := 12
  nE := 30
  nF := 20
  nH := 60
  hVertex := tbl [0, 1, 2, 0, 2, 3, 0, 3, 4, 0, 4, 5, 0, 5, 1, 1, 6, 2, 2, 6, 7, 2, 7, 3, 3, 7, 8, 3, 8, 4, 4, 8, 9, 4, 9, 5, 5, 9, 10, 5, 10, 1, 1, 10, 6, 11, 7, 6, 11, 8, 7, 11, 9, 8, 11, 10, 9, 11, 6, 10]
  hTwin := tbl [14, 17, 3, 2, 23, 6, 5, 29, 9, 8, 35, 12, 11, 41, 0, 44, 18, 1, 16, 46, 21, 20, 24, 4, 22, 49, 27, 26, 30, 7, 28, 52, 33, 32, 36, 10, 34, 55, 39, 38, 42, 13, 40, 58, 15, 50, 19, 57, 53, 25, 45, 56, 31, 48, 59, 37, 51, 47, 43, 54]
  hNext := tbl [1, 2, 0, 4, 5, 3, 7, 8, 6, 10, 11, 9, 13, 14, 12, 16, 17, 15, 19, 20, 18, 22, 23, 21, 25, 26, 24, 28, 29, 27, 31, 32, 30, 34, 35, 33, 37, 38, 36, 40, 41, 39, 43, 44, 42, 46, 47, 45, 49, 50, 48, 52, 53, 51, 55, 56, 54, 58, 59, 57]
  hEdge := tbl [0, 1, 2, 2, 3, 4, 4, 5, 6, 6, 7, 8, 8, 9, 0, 10, 11, 1, 11, 12, 13, 13, 14, 3, 14, 15, 16, 16, 17, 5, 17, 18, 19, 19, 20, 7, 20, 21, 22, 22, 23, 9, 23, 24, 10, 25, 12, 26, 27, 15, 25, 28, 18, 27, 29, 21, 28, 26, 24, 29]
  hFace := tbl [0, 0, 0, 1, 1, 1, 2, 2, 2, 3, 3, 3, 4, 4, 4, 5, 5, 5, 6, 6, 6, 7, 7, 7, 8, 8, 8, 9, 9, 9, 10, 10, 10, 11, 11, 11, 12, 12, 12, 13, 13, 13, 14, 14, 14, 15, 15, 15, 16, 16, 16, 17, 17, 17, 18, 18, 18, 19, 19, 19]
  vHalfedge := tbl [0, 1, 2, 5, 8, 11, 16, 20, 26, 32, 38, 45]
  vPos := fun v => ⟨(tbl [0, 10, 3, 0, 0, 3, 8, 0, 0, 0, 8, 0] v : ℚ) / 10 - (tbl [0, 0, 0, 8, 8, 0, 0, 3, 10, 3, 0, 0] v : ℚ) / 10,
    (tbl [0, 0, 19, 12, 0, 0, 12, 19, 0, 0, 0, 0] v : ℚ) / 20 - (tbl [0, 0, 0, 0, 12, 19, 0, 0, 0, 19, 12, 0] v : ℚ) / 20,
    (tbl [2, 1, 1, 1, 1, 1, 0, 0, 0, 0, 0, 0] v : ℚ) / 2 - (tbl [0, 0, 0, 0, 0, 0, 1, 1, 1, 1, 1, 2] v : ℚ) / 2⟩
  eHalfedge := tbl [0, 1, 2, 4, 5, 7, 8, 10, 11, 13, 15, 16, 19, 20, 22, 25, 26, 28, 31, 32, 34, 37, 38, 40, 43, 45, 47, 48, 51, 54]
  fHalfedge := tbl [0, 3, 6, 9, 12, 15, 18, 21, 24, 27, 30, 33, 36, 39, 42, 45, 48, 51, 54, 57]
  fBoundary := fun _ => false
  vErased := fun _ => false
  eErased := fun _ => false
  fErased := fun _ => false
  hErased := fun _ => false

/-! ## Field updates and traversals -/

set_option linter.unusedVariables false
set_option linter.unreachableTactic false
set_option linter.unusedTactic false
set_option linter.unnecessarySeqFocus false

@[simp] theorem upd_apply {α : Type} (f : Nat → α) (i : Nat) (x : α) (j : Nat) :
    upd f i x j = if j = i then x else f j := rfl

theorem cycleFrom_congr (m m' : Mesh) (s : Nat) (P : Nat → Prop)
    (hn : ∀ h, P h → m'.hNext h = m.hNext h) (hc : ∀ h, P h → P (m.hNext h)) :
    ∀ fuel h, P h →
      cycleFrom m' s fuel h = cycleFrom m s fuel h ∧ ∀ x ∈ cycleFrom m s fuel h, P x := by
  intro fuel
  induction fuel with
  | zero => intro h _; simp [cycleFrom]
  | succ n ih =>
    intro h hP
    obtain ⟨ih1, ih2⟩ := ih (m.hNext h) (hc h hP)
    simp only [cycleFrom, hn h hP]
    refine ⟨?_, ?_⟩
    · by_cases hs : m.hNext h = s
      · simp [hs]
      · simp [hs, ih1]
    · intro x hx
      by_cases hs : m.hNext h = s
      · simp [hs] at hx; subst hx; exact hP
      · simp [hs] at hx
        rcases hx with hx | hx
        · subst hx; exact hP
        · exact ih2 x hx

theorem lastBefore_tri {m : Mesh} {h a b c : Nat} (t : TriAt m h a b c) (fuel : Nat) :
    lastBefore m h (fuel + 2) h = some (m.hNext (m.hNext h)) := by
  obtain ⟨h3, hne, -⟩ := t
  have h2 : m.hNext (m.hNext h) ≠ h := by
    intro hh
    rw [hh] at h3
    exact hne h3
  simp [lastBefore, h2, h3]

/-- The two triangles on either side of an edge, when their faces differ,
    consist of six different half-edges. -/
theorem six_distinct {m : Mesh} (wf : WellFormed m) {h a b c a' b' c' : Nat}
    (hl : hLive m h) (t0 : TriAt m h a b c) (t1 : TriAt m (m.hTwin h) a' b' c')
    (_hf : m.hFace h ≠ m.hFace (m.hTwin h)) :
    (m.hNext h ≠ h ∧ m.hNext (m.hNext h) ≠ h ∧ m.hNext (m.hNext h) ≠ m.hNext h) ∧
    (m.hNext (m.hTwin h) ≠ m.hTwin h ∧ m.hNext (m.hNext (m.hTwin h)) ≠ m.hTwin h ∧
      m.hNext (m.hNext (m.hTwin h)) ≠ m.hNext (m.hTwin h)) ∧
    (m.hFace (m.hNext h) = m.hFace h ∧ m.hFace (m.hNext (m.hNext h)) = m.hFace h ∧
      m.hFace (m.hNext (m.hTwin h)) = m.hFace (m.hTwin h) ∧
      m.hFace (m.hNext (m.hNext (m.hTwin h))) = m.hFace (m.hTwin h)) ∧
    (hLive m (m.hNext h) ∧ hLive m (m.hNext (m.hNext h)) ∧ hLive m (m.hTwin h) ∧
      hLive m (m.hNext (m.hTwin h)) ∧ hLive m (m.hNext (m.hNext (m.hTwin h)))) := by
  obtain ⟨tw, ⟨fo, -⟩, -, -⟩ := wf
  have tri : ∀ x p q r, TriAt m x p q r →
      m.hNext x ≠ x ∧ m.hNext (m.hNext x) ≠ x ∧ m.hNext (m.hNext x) ≠ m.hNext x := by
    intro x p q r ⟨h3, hne, _⟩
    refine ⟨hne, ?_, ?_⟩
    · intro hh; rw [hh] at h3; exact hne h3
    · intro hh; rw [hh, hh] at h3; exact hne h3
  have l1 := (fo h hl.1 hl.2)
  have l2 := (fo _ l1.1.1 l1.1.2)
  have lt := (tw h hl.1 hl.2).1
  have l3 := (fo _ lt.1 lt.2)
  have l4 := (fo _ l3.1.1 l3.1.2)
  refine ⟨tri _ _ _ _ t0, tri _ _ _ _ t1, ⟨l1.2.2.1, ?_, l3.2.2.1, ?_⟩, l1.1, l2.1, lt, l3.1, l4.1⟩
  · rw [l2.2.2.1, l1.2.2.1]
  · rw [l4.2.2.1, l3.2.2.1]


theorem iterate_flip_outside (m m' : Mesh) (S : Nat → Prop)
    (hS : ∀ x, S x → S (m.hNext x)) (hN : ∀ x, ¬ S x → m'.hNext x = m.hNext x)
    (h : Nat) (k : Nat) (hk : m.hNext^[k] h = h) (hh : ¬ S h) :
    ∀ j, j ≤ k → m'.hNext^[j] h = m.hNext^[j] h ∧ ¬ S (m.hNext^[j] h) := by
  have hSi : ∀ i x, S x → S (m.hNext^[i] x) := by
    intro i
    induction i with
    | zero => intro x hx; simpa using hx
    | succ i ih => intro x hx; rw [Function.iterate_succ_apply']; exact hS _ (ih x hx)
  have out : ∀ j, j ≤ k → ¬ S (m.hNext^[j] h) := by
    intro j hj hs
    apply hh
    have := hSi (k - j) _ hs
    rw [← Function.iterate_add_apply, Nat.sub_add_cancel hj, hk] at this
    exact this
  intro j
  induction j with
  | zero => intro _; exact ⟨rfl, by simpa using hh⟩
  | succ j ih =>
    intro hj
    obtain ⟨e1, e2⟩ := ih (by omega)
    refine ⟨?_, out _ hj⟩
    rw [Function.iterate_succ_apply', Function.iterate_succ_apply', e1, hN _ e2]

theorem flipCtx_of_pre {m : Mesh} {e a b c d : Nat} (pre : FlipPre m e a b c d) :
    FlipCtx m e a b c d (m.eHalfedge e) (m.hTwin (m.eHalfedge e)) (m.hNext (m.eHalfedge e))
      (m.hNext (m.hTwin (m.eHalfedge e))) (m.hNext (m.hNext (m.eHalfedge e)))
      (m.hNext (m.hNext (m.hTwin (m.eHalfedge e)))) (m.hFace (m.eHalfedge e))
      (m.hFace (m.hTwin (m.eHalfedge e))) := by
  obtain ⟨wf, he, hnb, t0, t1, hf⟩ := pre
  have hl : hLive m (m.eHalfedge e) := (wf.2.2.1.2 e he.1 he.2).1
  obtain ⟨⟨d1, d2, d3⟩, ⟨d4, d5, d6⟩, ⟨g1, g2, g3, g4⟩, l1, l2, l3, l4, l5⟩ :=
    six_distinct wf hl t0 t1 hf
  obtain ⟨c0, -, va, vb, vc⟩ := t0
  obtain ⟨c1, -, vb', va', vd⟩ := t1
  have hn3 : 3 ≤ m.nH := by
    have := hl.1; have := l1.1; have := l2.1
    omega
  exact
    { wf := wf, he := he, hnb := hnb, hh0 := rfl, hh1 := rfl, hh2 := rfl, hh3 := rfl,
      hh6 := rfl, hh7 := rfl, c0 := c0, c1 := c1, hf0 := rfl, g1 := g1, g2 := g2, hf1 := rfl,
      g3 := g3, g4 := g4, hf := hf, va := va, vb := vb, vc := vc, vb' := vb', va' := va',
      vd := vd, hl := hl, l1 := l1, l2 := l2, l3 := l3, l4 := l4, l5 := l5, d1 := d1, d2 := d2,
      d3 := d3, d4 := d4, d5 := d5, d6 := d6,
      x01 := fun h => hf (congrArg m.hFace h),
      x03 := fun h => hf ((congrArg m.hFace h).trans g3),
      x07 := fun h => hf ((congrArg m.hFace h).trans g4),
      x21 := fun h => hf (g1.symm.trans (congrArg m.hFace h)),
      x23 := fun h => hf (g1.symm.trans ((congrArg m.hFace h).trans g3)),
      x27 := fun h => hf (g1.symm.trans ((congrArg m.hFace h).trans g4)),
      x61 := fun h => hf (g2.symm.trans (congrArg m.hFace h)),
      x63 := fun h => hf (g2.symm.trans ((congrArg m.hFace h).trans g3)),
      x67 := fun h => hf (g2.symm.trans ((congrArg m.hFace h).trans g4)),
      hn3 := hn3 }

theorem flip_wf_ctx {m : Mesh} {e a b c d h0 h1 h2 h3 h6 h7 f0 f1 : Nat}
    (X : FlipCtx m e a b c d h0 h1 h2 h3 h6 h7 f0 f1) :
    WellFormed (flipRewire m e h6 h7) := by
  obtain ⟨wf, he, hnb, hh0, hh1, hh2, hh3, hh6, hh7, c0, c1, hf0, g1, g2, hf1,
    g3, g4, hf, va, vb, vc, vb', va', vd, hl, l1, l2, l3, l4, l5,
    d1, d2, d3, d4, d5, d6, x01, x03, x07, x21, x23, x27, x61, x63, x67, hn3⟩ := X
  generalize hm' : flipRewire m e h6 h7 = m'
  have N : ∀ h, m'.hNext h = if h = h7 then h2 else if h = h6 then h3 else if h = h3 then h0
      else if h = h2 then h1 else if h = h1 then h7 else if h = h0 then h6 else m.hNext h := by
    intro h; subst hm'; simp [flipRewire, hh0, hh1, hh2, hh3, hh6, hh7]
  have F : ∀ h, m'.hFace h = if h = h3 then f0 else if h = h2 then f1 else m.hFace h := by
    intro h; subst hm'; simp [flipRewire, hh0, hh1, hh2, hh3, hh6, hh7, hf0, hf1]
  have V : ∀ h, m'.hVertex h = if h = h1 then c else if h = h0 then d else m.hVertex h := by
    intro h; subst hm'; simp [flipRewire, hh0, hh1, hh2, hh3, hh6, hh7, vc, vd]
  have VH : ∀ v, m'.vHalfedge v = if v = a then h3 else if v = b then h2 else m.vHalfedge v := by
    intro h; subst hm'; simp [flipRewire, hh0, hh1, hh2, hh3, hh6, hh7, va', vb]
  have FH : ∀ f, m'.fHalfedge f = if f = f1 then h1 else if f = f0 then h0 else m.fHalfedge f := by
    intro h; subst hm'; simp [flipRewire, hh0, hh1, hh2, hh3, hh6, hh7, hf0, hf1]
  have R : m'.nV = m.nV ∧ m'.nE = m.nE ∧ m'.nF = m.nF ∧ m'.nH = m.nH ∧
      m'.vErased = m.vErased ∧ m'.eErased = m.eErased ∧ m'.fErased = m.fErased ∧
      m'.hErased = m.hErased ∧ m'.hTwin = m.hTwin ∧ m'.hEdge = m.hEdge ∧
      m'.eHalfedge = m.eHalfedge := by
    subst hm'; simp [flipRewire]
  obtain ⟨r1, r2, r3, r4, r5, r6, r7, r8, r9, r10, r11⟩ := R
  obtain ⟨tw, ⟨fo1, fo2⟩, ⟨eo1, eo2⟩, vo1, vo2, vo3⟩ := wf
  have fl0 : fLive m f0 := by have := (fo1 h0 hl.1 hl.2).2.1; rwa [hf0] at this
  have fl1 : fLive m f1 := by have := (fo1 h1 l3.1 l3.2).2.1; rwa [hf1] at this
  refine ⟨?_, ⟨?_, ?_⟩, ⟨?_, ?_⟩, ?_, ?_, ?_⟩
  · intro h hlt her
    simp only [hLive, r4, r8, r9] at *
    exact tw h hlt her
  · intro h hlt her
    simp only [r4, r8] at hlt her
    obtain ⟨q1, q2, q3, k, hk, q4⟩ := fo1 h hlt her
    have hL : ∀ x, hLive m' x ↔ hLive m x := by intro x; simp [hLive, r4, r8]
    have fL : ∀ x, fLive m' x ↔ fLive m x := by intro x; simp [fLive, r3, r7]
    rw [hL, fL, r4]
    by_cases k0 : h = h0
    · rw [k0]
      refine ⟨?_, ?_, ?_, 2, by omega, ?_⟩ <;>
        simp [N, F, Function.iterate_succ, hf0, l2, fl0, g2,
          x01, x01.symm, d1, d1.symm, x03, x03.symm, d2, d2.symm, x07, x07.symm, x21, x21.symm, d4, d4.symm, x61, x61.symm, d5, d5.symm,
          x23, x23.symm, d3, d3.symm, x27, x27.symm, x63, x63.symm, d6, d6.symm, x67, x67.symm]
    by_cases k1 : h = h1
    · rw [k1]
      refine ⟨?_, ?_, ?_, 2, by omega, ?_⟩ <;>
        simp [N, F, Function.iterate_succ, hf1, l5, fl1, g4,
          x01, x01.symm, d1, d1.symm, x03, x03.symm, d2, d2.symm, x07, x07.symm, x21, x21.symm, d4, d4.symm, x61, x61.symm, d5, d5.symm,
          x23, x23.symm, d3, d3.symm, x27, x27.symm, x63, x63.symm, d6, d6.symm, x67, x67.symm]
    by_cases k2 : h = h2
    · rw [k2]
      refine ⟨?_, ?_, ?_, 2, by omega, ?_⟩ <;>
        simp [N, F, Function.iterate_succ, hf1, l3, fl1, g1,
          x01, x01.symm, d1, d1.symm, x03, x03.symm, d2, d2.symm, x07, x07.symm, x21, x21.symm, d4, d4.symm, x61, x61.symm, d5, d5.symm,
          x23, x23.symm, d3, d3.symm, x27, x27.symm, x63, x63.symm, d6, d6.symm, x67, x67.symm]
    by_cases k3 : h = h3
    · rw [k3]
      refine ⟨?_, ?_, ?_, 2, by omega, ?_⟩ <;>
        simp [N, F, Function.iterate_succ, hf0, hl, fl0, g3,
          x01, x01.symm, d1, d1.symm, x03, x03.symm, d2, d2.symm, x07, x07.symm, x21, x21.symm, d4, d4.symm, x61, x61.symm, d5, d5.symm,
          x23, x23.symm, d3, d3.symm, x27, x27.symm, x63, x63.symm, d6, d6.symm, x67, x67.symm]
    by_cases k6 : h = h6
    · rw [k6]
      refine ⟨?_, ?_, ?_, 2, by omega, ?_⟩ <;>
        simp [N, F, Function.iterate_succ, hf0, l4, fl0, g2, g3,
          x01, x01.symm, d1, d1.symm, x03, x03.symm, d2, d2.symm, x07, x07.symm, x21, x21.symm, d4, d4.symm, x61, x61.symm, d5, d5.symm,
          x23, x23.symm, d3, d3.symm, x27, x27.symm, x63, x63.symm, d6, d6.symm, x67, x67.symm]
    by_cases k7 : h = h7
    · rw [k7]
      refine ⟨?_, ?_, ?_, 2, by omega, ?_⟩ <;>
        simp [N, F, Function.iterate_succ, hf1, l1, fl1, g1, g4,
          x01, x01.symm, d1, d1.symm, x03, x03.symm, d2, d2.symm, x07, x07.symm, x21, x21.symm, d4, d4.symm, x61, x61.symm, d5, d5.symm,
          x23, x23.symm, d3, d3.symm, x27, x27.symm, x63, x63.symm, d6, d6.symm, x67, x67.symm]
    have out := iterate_flip_outside m m'
      (fun x => x = h0 ∨ x = h1 ∨ x = h2 ∨ x = h3 ∨ x = h6 ∨ x = h7)
      (by
        rintro x (rfl | rfl | rfl | rfl | rfl | rfl) <;> simp [hh2, hh3, hh6, hh7, c0, c1])
      (by
        intro x hx
        simp only [not_or] at hx
        obtain ⟨y0, y1, y2, y3, y6, y7⟩ := hx
        simp [N, y0, y1, y2, y3, y6, y7])
      h (k + 1) q4 (by simp [k0, k1, k2, k3, k6, k7])
    obtain ⟨o1, o2⟩ := out 1 (by omega)
    simp only [Function.iterate_one, not_or] at o1 o2
    refine ⟨?_, ?_, ?_, k, hk, ?_⟩
    · rw [o1]; exact q1
    · simpa [F, k2, k3] using q2
    · rw [o1]; simp [F, k2, k3, o2.2.2.1, o2.2.2.2.1, q3]
    · rw [(out (k + 1) (le_refl _)).1, q4]
  · intro f hlt her
    simp only [r3, r7] at hlt her
    obtain ⟨q1, q2⟩ := fo2 f hlt her
    have hL : ∀ x, hLive m' x ↔ hLive m x := by intro x; simp [hLive, r4, r8]
    rw [hL]
    by_cases j1 : f = f1
    · subst j1
      simp [FH, F, l3, x21.symm, d4.symm, hf1]
    by_cases j0 : f = f0
    · subst j0
      simp [FH, F, j1, hl, x03, d1.symm, hf0]
    have y2 : m.fHalfedge f ≠ h2 := fun hh => j0 (by rw [← q2, hh, g1])
    have y3 : m.fHalfedge f ≠ h3 := fun hh => j1 (by rw [← q2, hh, g3])
    simp [FH, F, j0, j1, y2, y3, q1, q2]
  · intro h hlt her
    simp only [r4, r8] at hlt her
    simp only [eLive, EdgePair, r2, r6, r9, r10, r4, r8]
    exact eo1 h hlt her
  · intro e' hlt her
    simp only [r2, r6] at hlt her
    simp only [hLive, r4, r8, r10, r11]
    exact eo2 e' hlt her
  · intro h hlt her
    simp only [r4, r8] at hlt her
    have vL : ∀ x, vLive m' x ↔ vLive m x := by intro x; simp [vLive, r1, r5]
    rw [vL, V]
    split_ifs
    · rw [← vc]; exact vo1 _ l2.1 l2.2
    · rw [← vd]; exact vo1 _ l5.1 l5.2
    · exact vo1 h hlt her
  · intro v hlt her
    simp only [r1, r5] at hlt her
    obtain ⟨q1, q2⟩ := vo2 v hlt her
    have hL : ∀ x, hLive m' x ↔ hLive m x := by intro x; simp [hLive, r4, r8]
    rw [hL]
    by_cases j1 : v = a
    · subst j1
      simp [VH, V, l4, d4, x03.symm, va']
    by_cases j0 : v = b
    · subst j0
      simp [VH, V, j1, l1, x21, d1, vb]
    have y0 : m.vHalfedge v ≠ h0 := fun hh => j1 (by rw [← q2, hh, va])
    have y1 : m.vHalfedge v ≠ h1 := fun hh => j0 (by rw [← q2, hh, vb'])
    simp [VH, V, j0, j1, y0, y1, q1, q2]
  · intro h hlt her
    simp only [r4, r8] at hlt her
    rw [r9]
    have tne : ∀ x y, hLive m x → m.hTwin x = y → m.hTwin y = x := by
      intro x y hx hxy; rw [← hxy]; exact (tw x hx.1 hx.2).2.2
    have t10 : m.hTwin h1 = h0 := tne h0 h1 hl hh1
    have o2 := vo3 h2 l1.1 l1.2
    have o3 := vo3 h3 l4.1 l4.2
    have o6 := vo3 h6 l2.1 l2.2
    have o7 := vo3 h7 l5.1 l5.2
    rw [hh6, vc] at o2
    rw [hh7, vd] at o3
    rw [c0, va] at o6
    rw [c1, vb'] at o7
    have nt : ∀ x, hLive m x → x ≠ h0 → x ≠ h1 → m.hTwin x ≠ h0 ∧ m.hTwin x ≠ h1 := by
      intro x hx n0 n1
      constructor
      · intro hh; exact n1 (by rw [← tne x h0 hx hh, hh1])
      · intro hh; exact n0 (by rw [← tne x h1 hx hh, t10])
    by_cases k0 : h = h0
    · rw [k0]
      simp [N, V, hh1, vc, x01, x01.symm, d1, d1.symm, x03, x03.symm, d2, d2.symm, x07, x07.symm, x21, x21.symm, d4, d4.symm, x61, x61.symm, d5, d5.symm,
        x23, x23.symm, d3, d3.symm, x27, x27.symm, x63, x63.symm, d6, d6.symm, x67, x67.symm]
    by_cases k1 : h = h1
    · rw [k1]
      simp [N, V, t10, vd, x01, x01.symm, d1, d1.symm, x03, x03.symm, d2, d2.symm, x07, x07.symm, x21, x21.symm, d4, d4.symm, x61, x61.symm, d5, d5.symm,
        x23, x23.symm, d3, d3.symm, x27, x27.symm, x63, x63.symm, d6, d6.symm, x67, x67.symm]
    by_cases k2 : h = h2
    · rw [k2]
      obtain ⟨n0, n1⟩ := nt h2 l1 d1 x21
      simp [N, V, n0, n1, o2, x01, x01.symm, d1, d1.symm, x03, x03.symm, d2, d2.symm, x07, x07.symm, x21, x21.symm, d4, d4.symm, x61, x61.symm, d5, d5.symm,
        x23, x23.symm, d3, d3.symm, x27, x27.symm, x63, x63.symm, d6, d6.symm, x67, x67.symm]
    by_cases k3 : h = h3
    · rw [k3]
      obtain ⟨n0, n1⟩ := nt h3 l4 x03.symm d4
      simp [N, V, n0, n1, o3, x01, x01.symm, d1, d1.symm, x03, x03.symm, d2, d2.symm, x07, x07.symm, x21, x21.symm, d4, d4.symm, x61, x61.symm, d5, d5.symm,
        x23, x23.symm, d3, d3.symm, x27, x27.symm, x63, x63.symm, d6, d6.symm, x67, x67.symm]
    by_cases k6 : h = h6
    · rw [k6]
      obtain ⟨n0, n1⟩ := nt h6 l2 d2 x61
      simp [N, V, n0, n1, o6, va', x01, x01.symm, d1, d1.symm, x03, x03.symm, d2, d2.symm, x07, x07.symm, x21, x21.symm, d4, d4.symm, x61, x61.symm, d5, d5.symm,
        x23, x23.symm, d3, d3.symm, x27, x27.symm, x63, x63.symm, d6, d6.symm, x67, x67.symm]
    by_cases k7 : h = h7
    · rw [k7]
      obtain ⟨n0, n1⟩ := nt h7 l5 x07.symm d5
      simp [N, V, n0, n1, o7, vb, x01, x01.symm, d1, d1.symm, x03, x03.symm, d2, d2.symm, x07, x07.symm, x21, x21.symm, d4, d4.symm, x61, x61.symm, d5, d5.symm,
        x23, x23.symm, d3, d3.symm, x27, x27.symm, x63, x63.symm, d6, d6.symm, x67, x67.symm]
    obtain ⟨n0, n1⟩ := nt h ⟨hlt, her⟩ k0 k1
    have m0 : m.hNext h ≠ h0 := by
      intro hh
      obtain ⟨-, -, -, k, hk, q4⟩ := fo1 h hlt her
      have out := iterate_flip_outside m m
        (fun x => x = h0 ∨ x = h2 ∨ x = h6)
        (by rintro x (rfl | rfl | rfl) <;> simp [hh2, hh6, c0])
        (fun _ _ => rfl) h (k + 1) q4 (by simp [k0, k2, k6]) 1 (by omega)
      exact out.2 (Or.inl (by simpa using hh))
    have m1 : m.hNext h ≠ h1 := by
      intro hh
      obtain ⟨-, -, -, k, hk, q4⟩ := fo1 h hlt her
      have out := iterate_flip_outside m m
        (fun x => x = h1 ∨ x = h3 ∨ x = h7)
        (by rintro x (rfl | rfl | rfl) <;> simp [hh3, hh7, c1])
        (fun _ _ => rfl) h (k + 1) q4 (by simp [k1, k3, k7]) 1 (by omega)
      exact out.2 (Or.inl (by simpa using hh))
    simp [N, V, k0, k1, k2, k3, k6, k7, n0, n1, m0, m1, vo3 h hlt her]

theorem flip_wf (m : Mesh) (e a b c d : Nat) (pre : FlipPre m e a b c d) :
    WellFormed (flipped m e) :=
  flip_wf_ctx (flipCtx_of_pre pre)

theorem flip_edge_eq_ctx {m : Mesh} {e a b c d h0 h1 h2 h3 h6 h7 f0 f1 : Nat}
    (X : FlipCtx m e a b c d h0 h1 h2 h3 h6 h7 f0 f1) :
    flip_edge m e = some (some e, flipRewire m e h6 h7) := by
  obtain ⟨wf, he, hnb, hh0, hh1, hh2, hh3, hh6, hh7, c0, c1, hf0, g1, g2, hf1,
    g3, g4, hf, va, vb, vc, vb', va', vd, hl, l1, l2, l3, l4, l5,
    d1, d2, d3, d4, d5, d6, x01, x03, x07, x21, x23, x27, x61, x63, x67, hn3⟩ := X
  obtain ⟨n, hn⟩ : ∃ n, m.nH = n + 3 := ⟨m.nH - 3, by omega⟩
  have p0 := lastBefore_tri (m := m) (h := h0) (a := a) (b := b) (c := c)
    ⟨by rw [hh2, hh6, c0], by rw [hh2]; exact d1, va, by rw [hh2]; exact vb,
      by rw [hh2, hh6]; exact vc⟩ (n + 1)
  have p1 := lastBefore_tri (m := m) (h := h1) (a := b) (b := a) (c := d)
    ⟨by rw [hh3, hh7, c1], by rw [hh3]; exact d4, vb', by rw [hh3]; exact va',
      by rw [hh3, hh7]; exact vd⟩ (n + 1)
  simp only [hh2, hh3, hh6, hh7] at p0 p1
  simp only [flip_edge, hnb, hh0, hh1, hn, p0, p1]
  simp

theorem flip_edge_eq (m : Mesh) (e a b c d : Nat) (pre : FlipPre m e a b c d) :
    flip_edge m e = some (some e, flipped m e) :=
  flip_edge_eq_ctx (flipCtx_of_pre pre)

theorem flipped_same (m : Mesh) (e : Nat) :
    (flipped m e).nV = m.nV ∧ (flipped m e).nE = m.nE ∧ (flipped m e).nF = m.nF ∧
    (flipped m e).nH = m.nH ∧ (flipped m e).vErased = m.vErased ∧
    (flipped m e).eErased = m.eErased ∧ (flipped m e).fErased = m.fErased ∧
    (flipped m e).hErased = m.hErased ∧ (flipped m e).hTwin = m.hTwin ∧
    (flipped m e).hEdge = m.hEdge ∧ (flipped m e).eHalfedge = m.eHalfedge ∧
    (flipped m e).fBoundary = m.fBoundary ∧ (flipped m e).vPos = m.vPos := by
  simp [flipped, flipRewire]

theorem flipped_vertex (m : Mesh) (e a b c d : Nat) (pre : FlipPre m e a b c d) (h : Nat) :
    (flipped m e).hVertex h =
      if h = m.hTwin (m.eHalfedge e) then c else if h = m.eHalfedge e then d
      else m.hVertex h := by
  obtain ⟨-, -, -, t0, t1, -⟩ := pre
  simp [flipped, flipRewire, t0.2.2.2.2, t1.2.2.2.2]

theorem flipped_faces_ctx {m : Mesh} {e a b c d h0 h1 h2 h3 h6 h7 f0 f1 : Nat}
    (X : FlipCtx m e a b c d h0 h1 h2 h3 h6 h7 f0 f1) :
    (flipRewire m e h6 h7).hFace h0 = f0 ∧
    (flipRewire m e h6 h7).hFace h1 = f1 ∧
    faceVertices (flipRewire m e h6 h7) f0 = [d, c, a] ∧
    faceVertices (flipRewire m e h6 h7) f1 = [c, d, b] ∧
    ∀ f, fLive m f → f ≠ f0 → f ≠ f1 →
      faceVertices (flipRewire m e h6 h7) f = faceVertices m f := by
  have wf' := X.wf
  obtain ⟨wf, he, hnb, hh0, hh1, hh2, hh3, hh6, hh7, c0, c1, hf0, g1, g2, hf1,
    g3, g4, hf, va, vb, vc, vb', va', vd, hl, l1, l2, l3, l4, l5,
    d1, d2, d3, d4, d5, d6, x01, x03, x07, x21, x23, x27, x61, x63, x67, hn3⟩ := X
  obtain ⟨n, hn⟩ : ∃ n, m.nH = n + 3 := ⟨m.nH - 3, by omega⟩
  have hff : f0 ≠ f1 := hf
  refine ⟨?_, ?_, ?_, ?_, ?_⟩
  · simp [flipRewire, hh0, hh1, hh2, hh3, hh6, hh7, hf0, hf1,
      x01, x01.symm, d1, d1.symm, x03, x03.symm, d2, d2.symm, x07, x07.symm, x21, x21.symm, d4, d4.symm, x61, x61.symm, d5, d5.symm,
      x23, x23.symm, d3, d3.symm, x27, x27.symm, x63, x63.symm, d6, d6.symm, x67, x67.symm,
      va, vb, vc, vd, va', vb', c0, c1, g1, g2, g3, g4]
  · simp [flipRewire, hh0, hh1, hh2, hh3, hh6, hh7, hf0, hf1,
      x01, x01.symm, d1, d1.symm, x03, x03.symm, d2, d2.symm, x07, x07.symm, x21, x21.symm, d4, d4.symm, x61, x61.symm, d5, d5.symm,
      x23, x23.symm, d3, d3.symm, x27, x27.symm, x63, x63.symm, d6, d6.symm, x67, x67.symm,
      va, vb, vc, vd, va', vb', c0, c1, g1, g2, g3, g4]
  · simp [faceVertices, faceHalfedges, cycleFrom, hn, hff, flipRewire, hh0, hh1, hh2, hh3, hh6, hh7, hf0, hf1,
      x01, x01.symm, d1, d1.symm, x03, x03.symm, d2, d2.symm, x07, x07.symm, x21, x21.symm, d4, d4.symm, x61, x61.symm, d5, d5.symm,
      x23, x23.symm, d3, d3.symm, x27, x27.symm, x63, x63.symm, d6, d6.symm, x67, x67.symm,
      va, vb, vc, vd, va', vb', c0, c1, g1, g2, g3, g4]
  · simp [faceVertices, faceHalfedges, cycleFrom, hn, hff, flipRewire, hh0, hh1, hh2, hh3, hh6, hh7, hf0, hf1,
      x01, x01.symm, d1, d1.symm, x03, x03.symm, d2, d2.symm, x07, x07.symm, x21, x21.symm, d4, d4.symm, x61, x61.symm, d5, d5.symm,
      x23, x23.symm, d3, d3.symm, x27, x27.symm, x63, x63.symm, d6, d6.symm, x67, x67.symm,
      va, vb, vc, vd, va', vb', c0, c1, g1, g2, g3, g4]
  · intro f fl n0 n1
    obtain ⟨sl, sf⟩ := wf'.2.1.2 f fl.1 fl.2
    have key := cycleFrom_congr m (flipRewire m e h6 h7) (m.fHalfedge f)
      (fun h => hLive m h ∧ m.hFace h = f)
      (by
        rintro h ⟨_, hhf⟩
        have y0 : h ≠ h0 := fun hh => n0 (by rw [← hhf, hh, hf0])
        have y1 : h ≠ h1 := fun hh => n1 (by rw [← hhf, hh, hf1])
        have y2 : h ≠ h2 := fun hh => n0 (by rw [← hhf, hh, g1])
        have y3 : h ≠ h3 := fun hh => n1 (by rw [← hhf, hh, g3])
        have y6 : h ≠ h6 := fun hh => n0 (by rw [← hhf, hh, g2])
        have y7 : h ≠ h7 := fun hh => n1 (by rw [← hhf, hh, g4])
        simp [flipRewire, hh0, hh1, hh2, hh3, hh6, hh7, y0, y1, y2, y3, y6, y7])
      (by
        rintro h ⟨hhl, hhf⟩
        obtain ⟨q1, -, q2, -⟩ := wf'.2.1.1 h hhl.1 hhl.2
        exact ⟨q1, by rw [q2, hhf]⟩)
      m.nH (m.fHalfedge f) ⟨sl, sf⟩
    have e1 : (flipRewire m e h6 h7).fHalfedge f = m.fHalfedge f := by
      simp [flipRewire, hh0, hh1, hf0, hf1, n0, n1]
    have e2 : (flipRewire m e h6 h7).nH = m.nH := by simp [flipRewire]
    unfold faceVertices faceHalfedges
    rw [e1, e2, key.1]
    apply List.map_congr_left
    intro h hmem
    obtain ⟨_, hhf⟩ := key.2 h hmem
    have y0 : h ≠ h0 := fun hh => n0 (by rw [← hhf, hh, hf0])
    have y1 : h ≠ h1 := fun hh => n1 (by rw [← hhf, hh, hf1])
    simp [flipRewire, hh0, hh1, y0, y1]

theorem flipped_faces (m : Mesh) (e a b c d : Nat) (pre : FlipPre m e a b c d) :
    (flipped m e).hFace (m.eHalfedge e) = m.hFace (m.eHalfedge e) ∧
    (flipped m e).hFace (m.hTwin (m.eHalfedge e)) = m.hFace (m.hTwin (m.eHalfedge e)) ∧
    faceVertices (flipped m e) (m.hFace (m.eHalfedge e)) = [d, c, a] ∧
    faceVertices (flipped m e) (m.hFace (m.hTwin (m.eHalfedge e))) = [c, d, b] ∧
    ∀ f, fLive m f → f ≠ m.hFace (m.eHalfedge e) → f ≠ m.hFace (m.hTwin (m.eHalfedge e)) →
      faceVertices (flipped m e) f = faceVertices m f :=
  flipped_faces_ctx (flipCtx_of_pre pre)

theorem flip_pre_again (m : Mesh) (e a b c d : Nat) (pre : FlipPre m e a b c d) :
    FlipPre (flipped m e) e d c a b := by
  have wf2 := flip_wf m e a b c d pre
  have X := flipCtx_of_pre pre
  revert X wf2
  unfold flipped
  generalize m.eHalfedge e = h0
  generalize m.hTwin h0 = h1
  generalize m.hNext h0 = h2
  generalize m.hNext h1 = h3
  generalize m.hNext h2 = h6
  generalize m.hNext h3 = h7
  generalize m.hFace h0 = f0
  generalize m.hFace h1 = f1
  intro wf2 X
  obtain ⟨wf, he, hnb, hh0, hh1, hh2, hh3, hh6, hh7, c0, c1, hf0, g1, g2, hf1,
    g3, g4, hf, va, vb, vc, vb', va', vd, hl, l1, l2, l3, l4, l5,
    d1, d2, d3, d4, d5, d6, x01, x03, x07, x21, x23, x27, x61, x63, x67, hn3⟩ := X
  have hb : (flipRewire m e h6 h7).on_boundary e = false := by
    simpa [Mesh.on_boundary, flipRewire, hh0, hh1, hh2, hh3, hf0, hf1, x01, x01.symm, d1, d1.symm, x21,
      x21.symm, x03, x03.symm, d4, d4.symm] using hnb
  refine ⟨wf2, ?_, hb, ?_, ?_, ?_⟩
  · simpa [eLive, flipRewire] using he
  · simp [TriAt, flipRewire, hh0, hh1, hh2, hh3, hh6, hh7, hf0, hf1,
      x01, x01.symm, d1, d1.symm, x03, x03.symm, d2, d2.symm, x07, x07.symm, x21, x21.symm, d4, d4.symm, x61, x61.symm, d5, d5.symm,
      x23, x23.symm, d3, d3.symm, x27, x27.symm, x63, x63.symm, d6, d6.symm, x67, x67.symm,
      va, vb, vc, vd, va', vb', c0, c1, g1, g2, g3, g4]
  · simp [TriAt, flipRewire, hh0, hh1, hh2, hh3, hh6, hh7, hf0, hf1,
      x01, x01.symm, d1, d1.symm, x03, x03.symm, d2, d2.symm, x07, x07.symm, x21, x21.symm, d4, d4.symm, x61, x61.symm, d5, d5.symm,
      x23, x23.symm, d3, d3.symm, x27, x27.symm, x63, x63.symm, d6, d6.symm, x67, x67.symm,
      va, vb, vc, vd, va', vb', c0, c1, g1, g2, g3, g4]
  · simpa [TriAt, flipRewire, hh0, hh1, hh2, hh3, hh6, hh7, hf0, hf1,
      x01, x01.symm, d1, d1.symm, x03, x03.symm, d2, d2.symm, x07, x07.symm, x21, x21.symm, d4, d4.symm, x61, x61.symm, d5, d5.symm,
      x23, x23.symm, d3, d3.symm, x27, x27.symm, x63, x63.symm, d6, d6.symm, x67, x67.symm,
      va, vb, vc, vd, va', vb', c0, c1, g1, g2, g3, g4] using hf

theorem mem_neighbours (m : Mesh) (v w : Nat) :
    w ∈ neighbours m v ↔
      ∃ h, h < m.nH ∧ m.hErased h = false ∧ m.hVertex h = v ∧ m.hVertex (m.hTwin h) = w := by
  simp [neighbours, and_assoc]

theorem lastBefore_isSome (m : Mesh) (t : Nat) :
    ∀ j x fuel, m.hNext^[j + 2] x = t → j + 1 ≤ fuel → (lastBefore m t fuel x).isSome := by
  intro j
  induction j with
  | zero =>
    intro x fuel hx hf
    obtain ⟨n, rfl⟩ : ∃ n, fuel = n + 1 := ⟨fuel - 1, by omega⟩
    simp only [Function.iterate_succ, Function.iterate_zero, Function.comp_apply, id_eq] at hx
    simp [lastBefore, hx]
  | succ j ih =>
    intro x fuel hx hf
    obtain ⟨n, rfl⟩ : ∃ n, fuel = n + 1 := ⟨fuel - 1, by omega⟩
    rw [Function.iterate_succ_apply] at hx
    unfold lastBefore
    split_ifs
    · rfl
    · exact ih (m.hNext x) n hx (by omega)

/-- C1: on a well-formed mesh, for a non-boundary edge `e` whose half-edge runs
    `a -> b` in the triangle `(a, b, c)` and whose twin lies in the triangle
    `(b, a, d)` of another face, `flip_edge` returns `e`, allocates and erases
    nothing, keeps `e`'s two half-edges, which now run `d -> c` and `c -> d`,
    makes the two incident faces the triangles `(d, c, a)` and `(c, d, b)`, and
    leaves the vertex cycle of every other live face as it was. -/
theorem flip_edge_rotates_diagonal (m : Mesh) (e a b c d : Nat)
    (wf : WellFormed m) (he : eLive m e) (hnb : m.on_boundary e = false)
    (t0 : TriAt m (m.eHalfedge e) a b c)
    (t1 : TriAt m (m.hTwin (m.eHalfedge e)) b a d)
    (hf : m.hFace (m.eHalfedge e) ≠ m.hFace (m.hTwin (m.eHalfedge e))) :
    ∃ m', flip_edge m e = some (some e, m') ∧
      (m'.nV = m.nV ∧ m'.nE = m.nE ∧ m'.nF = m.nF ∧ m'.nH = m.nH) ∧
      (m'.vErased = m.vErased ∧ m'.eErased = m.eErased ∧ m'.fErased = m.fErased ∧
        m'.hErased = m.hErased) ∧
      (m'.eHalfedge e = m.eHalfedge e ∧ m'.hTwin = m.hTwin ∧ m'.hEdge = m.hEdge) ∧
      (m'.hVertex (m'.eHalfedge e) = d ∧ m'.hVertex (m'.hTwin (m'.eHalfedge e)) = c) ∧
      (m'.hFace (m'.eHalfedge e) = m.hFace (m.eHalfedge e) ∧
        m'.hFace (m'.hTwin (m'.eHalfedge e)) = m.hFace (m.hTwin (m.eHalfedge e))) ∧
      faceVertices m' (m.hFace (m.eHalfedge e)) = [d, c, a] ∧
      faceVertices m' (m.hFace (m.hTwin (m.eHalfedge e))) = [c, d, b] ∧
      ∀ f, fLive m f → f ≠ m.hFace (m.eHalfedge e) → f ≠ m.hFace (m.hTwin (m.eHalfedge e)) →
        faceVertices m' f = faceVertices m f := by
  have pre : FlipPre m e a b c d := ⟨wf, he, hnb, t0, t1, hf⟩
  have hl : hLive m (m.eHalfedge e) := (wf.2.2.1.2 e he.1 he.2).1
  have ht : m.hTwin (m.eHalfedge e) ≠ m.eHalfedge e := (wf.1 _ hl.1 hl.2).2.1
  obtain ⟨s1, s2, s3, s4, s5, s6, s7, s8, s9, s10, s11, -, -⟩ := flipped_same m e
  obtain ⟨f1, f2, f3, f4, f5⟩ := flipped_faces m e a b c d pre
  refine ⟨flipped m e, flip_edge_eq m e a b c d pre, ⟨s1, s2, s3, s4⟩, ⟨s5, s6, s7, s8⟩,
    ⟨by rw [s11], s9, s10⟩, ⟨?_, ?_⟩, ⟨?_, ?_⟩, f3, f4, f5⟩
  · rw [s11, flipped_vertex m e a b c d pre]; simp [ht.symm]
  · rw [s11, s9, flipped_vertex m e a b c d pre]; simp
  · rw [s11]; exact f1
  · rw [s11, s9]; exact f2

/-- Witness for C1: edge 0 of the tetrahedron, between the triangles (0,1,2) and (1,0,3). -/
theorem flip_edge_rotates_diagonal_witness :
    WellFormed tetra ∧ TriAt tetra 0 0 1 2 ∧ TriAt tetra 3 1 0 3 ∧
    ∃ m', flip_edge tetra 0 = some (some 0, m') ∧
      faceVertices m' 0 = [3, 2, 0] ∧ faceVertices m' 1 = [2, 3, 1] :=
  ⟨by decide, by decide, by decide,
    (flip_edge_rotates_diagonal tetra 0 0 1 2 3 (by decide) (by decide) (by decide)
      (by decide) (by decide) (by decide)).imp
      (fun _ h => ⟨h.1, h.2.2.2.2.2.2.1, h.2.2.2.2.2.2.2.1⟩)⟩

/-- C3: on a well-formed mesh and a live edge `e`, `flip_edge` always returns;
    it returns no result exactly when `e` is a boundary edge, and then leaves
    the mesh alone, and for every non-boundary edge it returns `e` itself. -/
theorem flip_edge_declines_iff_boundary (m : Mesh) (e : Nat)
    (wf : WellFormed m) (he : eLive m e) :
    (m.on_boundary e = true → flip_edge m e = some (none, m)) ∧
    (m.on_boundary e = false → ∃ m', flip_edge m e = some (some e, m')) ∧
    ((∃ m', flip_edge m e = some (none, m')) ↔ m.on_boundary e = true) := by
  have hl : hLive m (m.eHalfedge e) := (wf.2.2.1.2 e he.1 he.2).1
  have hl1 : hLive m (m.hTwin (m.eHalfedge e)) := (wf.1 _ hl.1 hl.2).1
  have term : ∀ x, hLive m x → (lastBefore m x m.nH x).isSome := by
    intro x hx
    obtain ⟨-, -, -, k, hk, hc⟩ := wf.2.1.1 x hx.1 hx.2
    rcases Nat.eq_zero_or_pos k with rfl | hpos
    · simp only [zero_add, Function.iterate_one] at hc
      exact lastBefore_isSome m x 0 x m.nH (by simp [Function.iterate_succ, hc]) (by omega)
    · obtain ⟨j, rfl⟩ : ∃ j, k = j + 1 := ⟨k - 1, by omega⟩
      exact lastBefore_isSome m x j x m.nH hc (by omega)
  obtain ⟨h4, e4⟩ := Option.isSome_iff_exists.mp (term _ hl)
  obtain ⟨h5, e5⟩ := Option.isSome_iff_exists.mp (term _ hl1)
  have A : m.on_boundary e = true → flip_edge m e = some (none, m) := by
    intro hb; simp [flip_edge, hb]
  have B : m.on_boundary e = false → flip_edge m e = some (some e, flipRewire m e h4 h5) := by
    intro hb; simp [flip_edge, hb, e4, e5]
  refine ⟨A, fun hb => ⟨_, B hb⟩, ?_, ?_⟩
  · rintro ⟨m', hm'⟩
    by_contra hb
    simp only [Bool.not_eq_true] at hb
    rw [B hb] at hm'
    simp at hm'
  · intro hb; exact ⟨m, A hb⟩

/-- Witness for C3: edge 0 of the tetrahedron is flipped, edge 0 of the single
    triangle is on the boundary and is declined. -/
theorem flip_edge_declines_iff_boundary_witness :
    (∃ m', flip_edge tetra 0 = some (some 0, m')) ∧
    flip_edge oneTri 0 = some (none, oneTri) :=
  ⟨(flip_edge_declines_iff_boundary tetra 0 (by decide) (by decide)).2.1 (by decide),
   (flip_edge_declines_iff_boundary oneTri 0 (by decide) (by decide)).1 (by decide)⟩

/-- C2 (amended): on a well-formed mesh, for a non-boundary edge `e` between two
    distinct triangles `(a, b, c)` and `(b, a, d)`, two flips in a row both
    return `e`; afterwards `e` joins `a` and `b` again (its half-edges
    reversed), every vertex has the neighbours it had, every live face other
    than the two incident ones has its old vertex cycle, and the two incident
    faces have exchanged their triangles: the face of `e`'s half-edge now
    holds `(b, a, d)` and the face of its twin holds `(a, b, c)`. -/
theorem flip_edge_twice_restores (m : Mesh) (e a b c d : Nat)
    (wf : WellFormed m) (he : eLive m e) (hnb : m.on_boundary e = false)
    (t0 : TriAt m (m.eHalfedge e) a b c)
    (t1 : TriAt m (m.hTwin (m.eHalfedge e)) b a d)
    (hf : m.hFace (m.eHalfedge e) ≠ m.hFace (m.hTwin (m.eHalfedge e))) :
    ∃ m1 m2, flip_edge m e = some (some e, m1) ∧ flip_edge m1 e = some (some e, m2) ∧
      (m2.hVertex (m2.eHalfedge e) = b ∧ m2.hVertex (m2.hTwin (m2.eHalfedge e)) = a) ∧
      (∀ v w, w ∈ neighbours m2 v ↔ w ∈ neighbours m v) ∧
      faceVertices m2 (m.hFace (m.eHalfedge e)) = [b, a, d] ∧
      faceVertices m2 (m.hFace (m.hTwin (m.eHalfedge e))) = [a, b, c] ∧
      ∀ f, fLive m f → f ≠ m.hFace (m.eHalfedge e) → f ≠ m.hFace (m.hTwin (m.eHalfedge e)) →
        faceVertices m2 f = faceVertices m f := by
  have pre : FlipPre m e a b c d := ⟨wf, he, hnb, t0, t1, hf⟩
  have pre2 := flip_pre_again m e a b c d pre
  have hl : hLive m (m.eHalfedge e) := (wf.2.2.1.2 e he.1 he.2).1
  obtain ⟨tl, tne, tt⟩ := wf.1 _ hl.1 hl.2
  obtain ⟨s1, s2, s3, s4, s5, s6, s7, s8, s9, s10, s11, -, -⟩ := flipped_same m e
  obtain ⟨u1, u2, u3, u4, u5, u6, u7, u8, u9, u10, u11, -, -⟩ := flipped_same (flipped m e) e
  obtain ⟨f1, f2, -, -, f5⟩ := flipped_faces m e a b c d pre
  obtain ⟨-, -, k3, k4, k5⟩ := flipped_faces (flipped m e) e d c a b pre2
  have V1 := flipped_vertex m e a b c d pre
  have V2 := flipped_vertex (flipped m e) e d c a b pre2
  simp only [s11, s9, f1, f2] at k3 k4 k5 V2
  have V : ∀ h, (flipped (flipped m e) e).hVertex h =
      if h = m.hTwin (m.eHalfedge e) then a else if h = m.eHalfedge e then b
      else m.hVertex h := by
    intro h
    rw [V2, V1]
    split_ifs <;> rfl
  refine ⟨flipped m e, flipped (flipped m e) e, flip_edge_eq m e a b c d pre,
    flip_edge_eq _ e d c a b pre2, ⟨?_, ?_⟩, ?_, k3, k4, ?_⟩
  · rw [u11, s11, V]; simp [tne.symm]
  · rw [u11, s11, u9, s9, V]; simp
  · intro v w
    rw [mem_neighbours, mem_neighbours, u4, s4, u8, s8, u9, s9]
    constructor
    · rintro ⟨h, hlt, her, hv, hw⟩
      rw [V] at hv hw
      by_cases q1 : h = m.hTwin (m.eHalfedge e)
      · refine ⟨m.eHalfedge e, hl.1, hl.2, ?_, ?_⟩
        · rw [t0.2.2.1]; simpa [q1] using hv
        · rw [t1.2.2.1]; simpa [q1, tt, tne.symm] using hw
      by_cases q0 : h = m.eHalfedge e
      · refine ⟨m.hTwin (m.eHalfedge e), tl.1, tl.2, ?_, ?_⟩
        · rw [t1.2.2.1]; simpa [q0, tne.symm] using hv
        · rw [tt, t0.2.2.1]; simpa [q0] using hw
      have q2 : m.hTwin h ≠ m.hTwin (m.eHalfedge e) := by
        intro hh
        have := congrArg m.hTwin hh
        rw [(wf.1 h hlt her).2.2, tt] at this
        exact q0 this
      have q3 : m.hTwin h ≠ m.eHalfedge e := by
        intro hh
        have := congrArg m.hTwin hh
        rw [(wf.1 h hlt her).2.2] at this
        exact q1 this
      exact ⟨h, hlt, her, by simpa [q0, q1] using hv, by simpa [q2, q3] using hw⟩
    · rintro ⟨h, hlt, her, hv, hw⟩
      by_cases q1 : h = m.hTwin (m.eHalfedge e)
      · refine ⟨m.eHalfedge e, hl.1, hl.2, ?_, ?_⟩
        · rw [V]; rw [q1, t1.2.2.1] at hv; simpa [tne.symm] using hv
        · rw [V]; rw [q1, tt, t0.2.2.1] at hw; simpa using hw
      by_cases q0 : h = m.eHalfedge e
      · refine ⟨m.hTwin (m.eHalfedge e), tl.1, tl.2, ?_, ?_⟩
        · rw [V]; rw [q0, t0.2.2.1] at hv; simpa using hv
        · rw [V, tt]; rw [q0, t1.2.2.1] at hw; simpa [tne.symm] using hw
      have q2 : m.hTwin h ≠ m.hTwin (m.eHalfedge e) := by
        intro hh
        have := congrArg m.hTwin hh
        rw [(wf.1 h hlt her).2.2, tt] at this
        exact q0 this
      have q3 : m.hTwin h ≠ m.eHalfedge e := by
        intro hh
        have := congrArg m.hTwin hh
        rw [(wf.1 h hlt her).2.2] at this
        exact q1 this
      exact ⟨h, hlt, her, by rw [V]; simpa [q0, q1] using hv, by rw [V]; simpa [q2, q3] using hw⟩
  · intro f fl n0 n1
    have fl1 : fLive (flipped m e) f := by simpa [fLive, s3, s7] using fl
    rw [k5 f fl1 n0 n1, f5 f fl n0 n1]

/-- Witness for C2 (amended): edge 0 of the tetrahedron. -/
theorem flip_edge_twice_restores_witness :
    WellFormed tetra ∧
    ∃ m1 m2, flip_edge tetra 0 = some (some 0, m1) ∧ flip_edge m1 0 = some (some 0, m2) ∧
      faceVertices m2 0 = [1, 0, 3] ∧ faceVertices m2 1 = [0, 1, 2] :=
  ⟨by decide,
    (flip_edge_twice_restores tetra 0 0 1 2 3 (by decide) (by decide) (by decide)
      (by decide) (by decide) (by decide)).imp
      (fun _ h => h.imp (fun _ h => ⟨h.1, h.2.1, h.2.2.2.2.1, h.2.2.2.2.2.1⟩))⟩

/-- Counterexample to C2 as stated: flipping edge 0 of the tetrahedron twice
    leaves face 0 with the vertex cycle (1, 0, 3), while it was (0, 1, 2)
    before: vertex 2 was on face 0 and is not any more. -/
theorem flip_edge_twice_faces_counterexample :
    ∃ m1 m2, flip_edge tetra 0 = some (some 0, m1) ∧ flip_edge m1 0 = some (some 0, m2) ∧
      faceVertices tetra 0 = [0, 1, 2] ∧ faceVertices m2 0 = [1, 0, 3] ∧
      2 ∈ faceVertices tetra 0 ∧ 2 ∉ faceVertices m2 0 :=
  ⟨_, _, rfl, rfl, by decide, by decide, by decide, by decide⟩

theorem splitRewire_fst (m : Mesh) (e : Nat) : (splitRewire m e).1 = m.nV := rfl

theorem splitRewire_counts (m : Mesh) (e : Nat) :
    (splitRewire m e).2.nV = m.nV + 1 ∧ (splitRewire m e).2.nE = m.nE + 3 ∧
    (splitRewire m e).2.nH = m.nH + 6 ∧ (splitRewire m e).2.nF = m.nF + 2 :=
  ⟨rfl, rfl, rfl, rfl⟩

theorem splitRewire_erased (m : Mesh) (e : Nat) :
    (splitRewire m e).2.vErased = upd m.vErased m.nV false ∧
    (splitRewire m e).2.eErased =
      upd (upd (upd m.eErased m.nE false) (m.nE + 1) false) (m.nE + 2) false ∧
    (splitRewire m e).2.hErased =
      upd (upd (upd (upd (upd (upd m.hErased m.nH false) (m.nH + 1) false) (m.nH + 2) false)
        (m.nH + 3) false) (m.nH + 4) false) (m.nH + 5) false ∧
    (splitRewire m e).2.fErased = upd (upd m.fErased m.nF false) (m.nF + 1) false :=
  ⟨rfl, rfl, rfl, rfl⟩

theorem split_edge_ok (m : Mesh) (e : Nat) (h : splitDeclines m e = false) :
    split_edge m e = (some m.nV, (splitRewire m e).2) := by
  unfold split_edge
  rw [h]
  rfl

/-- C6: `split_edge` returns no result if and only if following `next` three
    times from `e`'s half-edge, or from its twin, does not lead back to the
    start, that is, one of the two incident faces is not a triangle. -/
theorem split_edge_declines_iff (m : Mesh) (e : Nat) :
    (split_edge m e).1 = none ↔
      (m.hNext (m.hNext (m.hNext (m.eHalfedge e))) ≠ m.eHalfedge e ∨
       m.hNext (m.hNext (m.hNext (m.hTwin (m.eHalfedge e)))) ≠ m.hTwin (m.eHalfedge e)) := by
  by_cases h : splitDeclines m e = true
  · have h' := h
    simp only [splitDeclines, Bool.or_eq_true, bne_iff_ne, ne_eq] at h'
    simp only [split_edge, h, if_true, true_iff]
    exact h'
  · simp only [Bool.not_eq_true] at h
    rw [split_edge_ok m e h]
    simp only [splitDeclines, Bool.or_eq_false_iff, bne_eq_false_iff_eq] at h
    simp [h.1, h.2]

/-- C4: when both faces at `e` close after three `next` steps, `split_edge`
    returns a vertex and the mesh has exactly 1 more vertex, 3 more edges,
    6 more half-edges and 2 more faces; no element that existed before has
    its erase mark changed and none of the new elements is marked erased. -/
theorem split_edge_counts (m : Mesh) (e : Nat)
    (t0 : m.hNext (m.hNext (m.hNext (m.eHalfedge e))) = m.eHalfedge e)
    (t1 : m.hNext (m.hNext (m.hNext (m.hTwin (m.eHalfedge e)))) = m.hTwin (m.eHalfedge e)) :
    ∃ v m', split_edge m e = (some v, m') ∧
      m'.nV = m.nV + 1 ∧ m'.nE = m.nE + 3 ∧ m'.nH = m.nH + 6 ∧ m'.nF = m.nF + 2 ∧
      (∀ i, i < m.nV → m'.vErased i = m.vErased i) ∧
      (∀ i, i < m.nE → m'.eErased i = m.eErased i) ∧
      (∀ i, i < m.nH → m'.hErased i = m.hErased i) ∧
      (∀ i, i < m.nF → m'.fErased i = m.fErased i) ∧
      (∀ i, m.nV ≤ i → i < m'.nV → m'.vErased i = false) ∧
      (∀ i, m.nE ≤ i → i < m'.nE → m'.eErased i = false) ∧
      (∀ i, m.nH ≤ i → i < m'.nH → m'.hErased i = false) ∧
      (∀ i, m.nF ≤ i → i < m'.nF → m'.fErased i = false) := by
  have hd : splitDeclines m e = false := by simp [splitDeclines, t0, t1]
  obtain ⟨c1, c2, c3, c4⟩ := splitRewire_counts m e
  obtain ⟨x1, x2, x3, x4⟩ := splitRewire_erased m e
  refine ⟨m.nV, (splitRewire m e).2, split_edge_ok m e hd, c1, c2, c3, c4, ?_, ?_, ?_, ?_, ?_, ?_,
    ?_, ?_⟩
  · intro i hi; rw [x1]; simp [Nat.ne_of_lt hi]
  · intro i hi; rw [x2]
    simp [show i ≠ m.nE by omega, show i ≠ m.nE + 1 by omega, show i ≠ m.nE + 2 by omega]
  · intro i hi; rw [x3]
    simp [show i ≠ m.nH by omega, show i ≠ m.nH + 1 by omega, show i ≠ m.nH + 2 by omega,
      show i ≠ m.nH + 3 by omega, show i ≠ m.nH + 4 by omega, show i ≠ m.nH + 5 by omega]
  · intro i hi; rw [x4]
    simp [show i ≠ m.nF by omega, show i ≠ m.nF + 1 by omega]
  · intro i h1 h2; rw [x1]; rw [c1] at h2
    simp [show i = m.nV by omega]
  · intro i h1 h2; rw [x2]; rw [c2] at h2
    simp only [upd_apply]; split_ifs <;> first | rfl | omega
  · intro i h1 h2; rw [x3]; rw [c3] at h2
    simp only [upd_apply]; split_ifs <;> first | rfl | omega
  · intro i h1 h2; rw [x4]; rw [c4] at h2
    simp only [upd_apply]; split_ifs <;> first | rfl | omega

/-- Witness for C4: edge 0 of the tetrahedron. -/
theorem split_edge_counts_witness :
    ∃ v m', split_edge tetra 0 = (some v, m') ∧
      m'.nV = 5 ∧ m'.nE = 9 ∧ m'.nH = 18 ∧ m'.nF = 6 :=
  (split_edge_counts tetra 0 (by decide) (by decide)).imp
    (fun _ h => h.imp (fun _ h => ⟨h.1, h.2.1, h.2.2.1, h.2.2.2.1, h.2.2.2.2.1⟩))

/-- C7: a call of `flip_edge`, `split_edge` or `collapse_edge` that returns no
    result leaves the mesh exactly as it was: the mesh after the call is the
    mesh before the call, in every count, field, position and erase mark. -/
theorem declined_leaves_mesh_unchanged (dbg : Bool) (m : Mesh) (e : Nat) :
    (∀ m', flip_edge m e = some (none, m') → m' = m) ∧
    (∀ m', split_edge m e = (none, m') → m' = m) ∧
    (∀ m', collapse_edge dbg m e = some (none, m') → m' = m) := by
  refine ⟨?_, ?_, ?_⟩
  · intro m' h
    unfold flip_edge at h
    split_ifs at h
    · simp only [Option.some.injEq, Prod.mk.injEq, true_and] at h
      exact h.symm
    · split at h <;> simp at h
  · intro m' h
    by_cases hd : splitDeclines m e = true
    · simp only [split_edge, hd, if_true, Prod.mk.injEq, true_and] at h
      exact h.symm
    · simp only [Bool.not_eq_true] at hd
      rw [split_edge_ok m e hd] at h
      simp at h
  · intro m' h
    unfold collapse_edge at h
    split at h
    · simp at h
    · simp only [Option.some.injEq, Prod.mk.injEq, true_and] at h
      exact h.symm
    · simp only at h
      split at h
      · simp at h
      · split at h <;> simp at h

/-- Witness for C7: the boundary edge 0 of the single triangle is not flipped,
    edge 0 of the quadrilateral is not split, edge 1 of the bipyramid is not
    collapsed, and each time the mesh after the call is the mesh before it. -/
theorem declined_leaves_mesh_unchanged_witness :
    (∃ m', flip_edge oneTri 0 = some (none, m') ∧ m' = oneTri) ∧
    (∃ m', split_edge square 0 = (none, m') ∧ m' = square) ∧
    (∃ m', collapse_edge true bipyramid 1 = some (none, m') ∧ m' = bipyramid) :=
  ⟨⟨oneTri, rfl, (declined_leaves_mesh_unchanged true oneTri 0).1 oneTri rfl⟩,
   ⟨square, rfl, (declined_leaves_mesh_unchanged true square 0).2.1 square rfl⟩,
   ⟨bipyramid, rfl, (declined_leaves_mesh_unchanged true bipyramid 1).2.2 bipyramid rfl⟩⟩

set_option maxRecDepth 10000

theorem split_next {m : Mesh} {e p1 p2 p3 p4 p5 p6 q1 q2 v1 v2 v3 v4 : Nat}
    (X : SplitCtx m e p1 p2 p3 p4 p5 p6 q1 q2 v1 v2 v3 v4) (h : Nat) :
    (splitRewire m e).2.hNext h =
      if h = m.nH + 5 then p5 else if h = m.nH + 4 then m.nH + 5 else if h = m.nH + 3 then p6
      else if h = m.nH + 2 then p2 else if h = m.nH + 1 then m.nH + 2 else if h = m.nH then p3
      else if h = p6 then p4 else if h = p5 then m.nH + 4 else if h = p4 then m.nH + 3
      else if h = p3 then p1 else if h = p2 then m.nH + 1 else if h = p1 then m.nH
      else m.hNext h := by
  dsimp only [splitRewire, Mesh.new_vertex, Mesh.new_halfedge, Mesh.new_edge, Mesh.new_face,
    Mesh.setPos, Mesh.setVHalfedge, Mesh.setVertex, Mesh.setEdge, Mesh.setTwin, Mesh.setNext,
    Mesh.setFace, Mesh.setEHalfedge, Mesh.setFHalfedge, upd_apply]
  simp only [X.hp1, X.hp2, X.hp3, X.hp4, X.hp5, X.hp6, Nat.add_assoc, Nat.reduceAdd]

theorem upd_self {α : Type} (f : Nat → α) (i : Nat) : upd f i (f i) = f := by
  funext j
  simp only [upd_apply]
  split_ifs with h
  · rw [h]
  · rfl

theorem split_twin {m : Mesh} {e p1 p2 p3 p4 p5 p6 q1 q2 v1 v2 v3 v4 : Nat}
    (X : SplitCtx m e p1 p2 p3 p4 p5 p6 q1 q2 v1 v2 v3 v4) (h : Nat) :
    (splitRewire m e).2.hTwin h =
      if h = m.nH + 5 then p1 else if h = m.nH + 4 then m.nH + 3 else if h = m.nH + 3 then m.nH + 4
      else if h = m.nH + 2 then p4 else if h = m.nH + 1 then m.nH else if h = m.nH then m.nH + 1
      else if h = p4 then m.nH + 2 else if h = p1 then m.nH + 5
      else m.hTwin h := by
  dsimp only [splitRewire, Mesh.new_vertex, Mesh.new_halfedge, Mesh.new_edge, Mesh.new_face,
    Mesh.setPos, Mesh.setVHalfedge, Mesh.setVertex, Mesh.setEdge, Mesh.setTwin, Mesh.setNext,
    Mesh.setFace, Mesh.setEHalfedge, Mesh.setFHalfedge]
  (try simp only [upd_self])
  simp only [upd_apply, X.hp1, X.hp2, X.hp3, X.hp4, X.hp5, X.hp6, Nat.add_assoc, Nat.reduceAdd]

theorem split_edge_field {m : Mesh} {e p1 p2 p3 p4 p5 p6 q1 q2 v1 v2 v3 v4 : Nat}
    (X : SplitCtx m e p1 p2 p3 p4 p5 p6 q1 q2 v1 v2 v3 v4) (h : Nat) :
    (splitRewire m e).2.hEdge h =
      if h = m.nH + 5 then e else if h = m.nH + 4 then m.nE + 2 else if h = m.nH + 3 then m.nE + 2
      else if h = m.nH + 2 then m.nE else if h = m.nH + 1 then m.nE + 1
      else if h = m.nH then m.nE + 1
      else if h = p4 then m.nE else if h = p1 then e
      else m.hEdge h := by
  dsimp only [splitRewire, Mesh.new_vertex, Mesh.new_halfedge, Mesh.new_edge, Mesh.new_face,
    Mesh.setPos, Mesh.setVHalfedge, Mesh.setVertex, Mesh.setEdge, Mesh.setTwin, Mesh.setNext,
    Mesh.setFace, Mesh.setEHalfedge, Mesh.setFHalfedge]
  (try simp only [upd_self])
  simp only [upd_apply, X.hp1, X.hp2, X.hp3, X.hp4, X.hp5, X.hp6, Nat.add_assoc, Nat.reduceAdd]

theorem split_face {m : Mesh} {e p1 p2 p3 p4 p5 p6 q1 q2 v1 v2 v3 v4 : Nat}
    (X : SplitCtx m e p1 p2 p3 p4 p5 p6 q1 q2 v1 v2 v3 v4) (h : Nat) :
    (splitRewire m e).2.hFace h =
      if h = m.nH + 5 then m.nF + 1 else if h = m.nH + 4 then m.nF + 1
      else if h = m.nH + 3 then m.nF
      else if h = m.nH + 2 then q2 else if h = m.nH + 1 then q2 else if h = m.nH then q1
      else if h = p6 then m.nF else if h = p5 then m.nF + 1 else if h = p4 then m.nF
      else if h = p3 then q1 else if h = p2 then q2
      else m.hFace h := by
  dsimp only [splitRewire, Mesh.new_vertex, Mesh.new_halfedge, Mesh.new_edge, Mesh.new_face,
    Mesh.setPos, Mesh.setVHalfedge, Mesh.setVertex, Mesh.setEdge, Mesh.setTwin, Mesh.setNext,
    Mesh.setFace, Mesh.setEHalfedge, Mesh.setFHalfedge]
  (try simp only [upd_self])
  simp only [upd_apply, X.hp1, X.hp2, X.hp3, X.hp4, X.hp5, X.hp6, X.fa1, X.fa4, Nat.add_assoc,
    Nat.reduceAdd]

theorem split_vertex {m : Mesh} {e p1 p2 p3 p4 p5 p6 q1 q2 v1 v2 v3 v4 : Nat}
    (X : SplitCtx m e p1 p2 p3 p4 p5 p6 q1 q2 v1 v2 v3 v4) (h : Nat) :
    (splitRewire m e).2.hVertex h =
      if h = m.nH + 5 then m.nV else if h = m.nH + 4 then v4 else if h = m.nH + 3 then m.nV
      else if h = m.nH + 2 then m.nV else if h = m.nH + 1 then v3 else if h = m.nH then m.nV
      else m.hVertex h := by
  have raw : (splitRewire m e).2.hVertex h =
      if h = m.nH + 5 then m.nV else if h = m.nH + 4 then m.hVertex p6
      else if h = m.nH + 3 then m.nV
      else if h = m.nH + 2 then m.nV else if h = m.nH + 1 then m.hVertex p3
      else if h = m.nH then m.nV
      else if h = p6 then m.hVertex p6 else if h = p5 then m.hVertex p1
      else if h = p4 then m.hVertex p4 else if h = p3 then m.hVertex p3
      else if h = p2 then m.hVertex p4 else m.hVertex h := by
    dsimp only [splitRewire, Mesh.new_vertex, Mesh.new_halfedge, Mesh.new_edge, Mesh.new_face,
      Mesh.setPos, Mesh.setVHalfedge, Mesh.setVertex, Mesh.setEdge, Mesh.setTwin, Mesh.setNext,
      Mesh.setFace, Mesh.setEHalfedge, Mesh.setFHalfedge]
    (try simp only [upd_self])
    simp only [upd_apply, X.hp1, X.hp2, X.hp3, X.hp4, X.hp5, X.hp6, Nat.add_assoc,
      Nat.reduceAdd]
  rw [raw, X.ve1, X.ve3, X.ve4, X.ve6]
  by_cases a5 : h = m.nH + 5
  · rw [if_pos a5, if_pos a5]
  rw [if_neg a5, if_neg a5]
  by_cases a4 : h = m.nH + 4
  · rw [if_pos a4, if_pos a4]
  rw [if_neg a4, if_neg a4]
  by_cases a3 : h = m.nH + 3
  · rw [if_pos a3, if_pos a3]
  rw [if_neg a3, if_neg a3]
  by_cases a2 : h = m.nH + 2
  · rw [if_pos a2, if_pos a2]
  rw [if_neg a2, if_neg a2]
  by_cases a1 : h = m.nH + 1
  · rw [if_pos a1, if_pos a1]
  rw [if_neg a1, if_neg a1]
  by_cases a0 : h = m.nH
  · rw [if_pos a0, if_pos a0]
  rw [if_neg a0, if_neg a0]
  by_cases b6 : h = p6
  · rw [if_pos b6, b6, X.ve6]
  rw [if_neg b6]
  by_cases b5 : h = p5
  · rw [if_pos b5, b5, X.ve5]
  rw [if_neg b5]
  by_cases b4 : h = p4
  · rw [if_pos b4, b4, X.ve4]
  rw [if_neg b4]
  by_cases b3 : h = p3
  · rw [if_pos b3, b3, X.ve3]
  rw [if_neg b3]
  by_cases b2 : h = p2
  · rw [if_pos b2, b2, X.ve2]
  rw [if_neg b2]

theorem split_reps {m : Mesh} {e p1 p2 p3 p4 p5 p6 q1 q2 v1 v2 v3 v4 : Nat}
    (X : SplitCtx m e p1 p2 p3 p4 p5 p6 q1 q2 v1 v2 v3 v4) :
    (∀ v, (splitRewire m e).2.vHalfedge v = if v = m.nV then m.nH + 5 else m.vHalfedge v) ∧
    (∀ x, (splitRewire m e).2.eHalfedge x =
      if x = m.nE + 2 then m.nH + 3 else if x = m.nE + 1 then m.nH else if x = m.nE then p4
      else m.eHalfedge x) ∧
    (∀ f, (splitRewire m e).2.fHalfedge f =
      if f = m.nF + 1 then p5 else if f = m.nF then p4 else if f = q2 then p2
      else if f = q1 then p1 else m.fHalfedge f) := by
  refine ⟨?_, ?_, ?_⟩ <;> intro x <;>
  dsimp only [splitRewire, Mesh.new_vertex, Mesh.new_halfedge, Mesh.new_edge, Mesh.new_face,
    Mesh.setPos, Mesh.setVHalfedge, Mesh.setVertex, Mesh.setEdge, Mesh.setTwin, Mesh.setNext,
    Mesh.setFace, Mesh.setEHalfedge, Mesh.setFHalfedge] <;>
  (try simp only [upd_self]) <;>
  simp only [upd_apply, X.hp1, X.hp2, X.hp3, X.hp4, X.hp5, X.hp6, X.fa1, X.fa4, Nat.add_assoc,
    Nat.reduceAdd]

theorem splitCtx_of_pre {m : Mesh} {e : Nat} (pre : SplitPre m e) :
    SplitCtx m e (m.eHalfedge e) (m.hNext (m.eHalfedge e)) (m.hNext (m.hNext (m.eHalfedge e)))
      (m.hTwin (m.eHalfedge e)) (m.hNext (m.hTwin (m.eHalfedge e)))
      (m.hNext (m.hNext (m.hTwin (m.eHalfedge e))))
      (m.hFace (m.eHalfedge e)) (m.hFace (m.hTwin (m.eHalfedge e)))
      (m.hVertex (m.eHalfedge e)) (m.hVertex (m.hTwin (m.eHalfedge e)))
      (m.hVertex (m.hNext (m.hNext (m.eHalfedge e))))
      (m.hVertex (m.hNext (m.hNext (m.hTwin (m.eHalfedge e))))) := by
  obtain ⟨wf, he, ⟨c0, d0⟩, ⟨c1, d1'⟩, hf⟩ := pre
  have hl : hLive m (m.eHalfedge e) := (wf.2.2.1.2 e he.1 he.2).1
  have t0 : TriAt m (m.eHalfedge e) _ _ _ := ⟨c0, d0, rfl, rfl, rfl⟩
  have t1 : TriAt m (m.hTwin (m.eHalfedge e)) _ _ _ := ⟨c1, d1', rfl, rfl, rfl⟩
  obtain ⟨⟨d1, d2, d3⟩, ⟨d4, d5, d6⟩, ⟨g1, g2, g3, g4⟩, l1, l2, l3, l4, l5⟩ :=
    six_distinct wf hl t0 t1 hf
  have tt := (wf.1 _ hl.1 hl.2).2.2
  have o1 := wf.2.2.2.2.2 _ hl.1 hl.2
  have o4 := wf.2.2.2.2.2 _ l3.1 l3.2
  rw [tt] at o4
  have e1 := (wf.2.2.1.2 e he.1 he.2).2
  have e4 := (wf.2.2.1.1 _ hl.1 hl.2).2.1
  rw [e1] at e4
  exact
    { wf := wf, he := he, hp1 := rfl, hp2 := rfl, hp3 := rfl, c0 := c0, hp4 := rfl, hp5 := rfl,
      hp6 := rfl, c1 := c1, t41 := tt, fa1 := rfl, fa2 := g1, fa3 := g2, fa4 := rfl, fa5 := g3,
      fa6 := g4, hq := hf, ve1 := rfl, ve2 := o1, ve3 := rfl, ve4 := rfl, ve5 := o4, ve6 := rfl,
      ed1 := e1, ed4 := e4, l1 := hl, l2 := l1, l3 := l2, l4 := l3, l5 := l4, l6 := l5,
      n12 := d1.symm, n13 := d2.symm,
      n14 := fun h => hf (congrArg m.hFace h),
      n15 := fun h => hf ((congrArg m.hFace h).trans g3),
      n16 := fun h => hf ((congrArg m.hFace h).trans g4),
      n23 := d3.symm,
      n24 := fun h => hf (g1.symm.trans (congrArg m.hFace h)),
      n25 := fun h => hf (g1.symm.trans ((congrArg m.hFace h).trans g3)),
      n26 := fun h => hf (g1.symm.trans ((congrArg m.hFace h).trans g4)),
      n34 := fun h => hf (g2.symm.trans (congrArg m.hFace h)),
      n35 := fun h => hf (g2.symm.trans ((congrArg m.hFace h).trans g3)),
      n36 := fun h => hf (g2.symm.trans ((congrArg m.hFace h).trans g4)),
      n45 := d4.symm, n46 := d5.symm, n56 := d6.symm }

theorem old_ne_new {x n : Nat} (hx : x < n) (k : Nat) : ¬ (x = n + k) := by omega
theorem new_ne_old {x n : Nat} (hx : x < n) (k : Nat) : ¬ (n + k = x) := by omega
theorem old_ne_top {x n : Nat} (hx : x < n) : ¬ (x = n) := by omega
theorem top_ne_old {x n : Nat} (hx : x < n) : ¬ (n = x) := by omega

theorem split_live (m : Mesh) (e : Nat) :
    (∀ x, hLive (splitRewire m e).2 x ↔ hLive m x ∨ (m.nH ≤ x ∧ x < m.nH + 6)) ∧
    (∀ x, vLive (splitRewire m e).2 x ↔ vLive m x ∨ x = m.nV) ∧
    (∀ x, eLive (splitRewire m e).2 x ↔ eLive m x ∨ (m.nE ≤ x ∧ x < m.nE + 3)) ∧
    (∀ x, fLive (splitRewire m e).2 x ↔ fLive m x ∨ (m.nF ≤ x ∧ x < m.nF + 2)) := by
  obtain ⟨c1, c2, c3, c4⟩ := splitRewire_counts m e
  obtain ⟨x1, x2, x3, x4⟩ := splitRewire_erased m e
  refine ⟨?_, ?_, ?_, ?_⟩ <;> intro x
  · simp only [hLive, c3, x3, upd_apply]
    constructor
    · rintro ⟨h1, h2⟩
      by_cases hx : x < m.nH
      · left; refine ⟨hx, ?_⟩
        simpa [old_ne_new hx, old_ne_top hx] using h2
      · right; omega
    · rintro (⟨h1, h2⟩ | ⟨h1, h2⟩)
      · refine ⟨by omega, ?_⟩; simpa [old_ne_new h1, old_ne_top h1] using h2
      · refine ⟨by omega, ?_⟩
        obtain ⟨k, hk, rfl⟩ : ∃ k, k < 6 ∧ x = m.nH + k := ⟨x - m.nH, by omega, by omega⟩
        interval_cases k <;> simp
  · simp only [vLive, c1, x1, upd_apply]
    constructor
    · rintro ⟨h1, h2⟩
      by_cases hx : x < m.nV
      · left; refine ⟨hx, ?_⟩
        simpa [old_ne_top hx] using h2
      · right; omega
    · rintro (⟨h1, h2⟩ | rfl)
      · refine ⟨by omega, ?_⟩; simpa [old_ne_top h1] using h2
      · exact ⟨by omega, by simp⟩
  · simp only [eLive, c2, x2, upd_apply]
    constructor
    · rintro ⟨h1, h2⟩
      by_cases hx : x < m.nE
      · left; refine ⟨hx, ?_⟩
        simpa [old_ne_new hx, old_ne_top hx] using h2
      · right; omega
    · rintro (⟨h1, h2⟩ | ⟨h1, h2⟩)
      · refine ⟨by omega, ?_⟩; simpa [old_ne_new h1, old_ne_top h1] using h2
      · refine ⟨by omega, ?_⟩
        obtain ⟨k, hk, rfl⟩ : ∃ k, k < 3 ∧ x = m.nE + k := ⟨x - m.nE, by omega, by omega⟩
        interval_cases k <;> simp
  · simp only [fLive, c4, x4, upd_apply]
    constructor
    · rintro ⟨h1, h2⟩
      by_cases hx : x < m.nF
      · left; refine ⟨hx, ?_⟩
        simpa [old_ne_new hx, old_ne_top hx] using h2
      · right; omega
    · rintro (⟨h1, h2⟩ | ⟨h1, h2⟩)
      · refine ⟨by omega, ?_⟩; simpa [old_ne_new h1, old_ne_top h1] using h2
      · refine ⟨by omega, ?_⟩
        obtain ⟨k, hk, rfl⟩ : ∃ k, k < 2 ∧ x = m.nF + k := ⟨x - m.nF, by omega, by omega⟩
        interval_cases k <;> simp

theorem split_twinOK {m : Mesh} {e p1 p2 p3 p4 p5 p6 q1 q2 v1 v2 v3 v4 : Nat}
    (X : SplitCtx m e p1 p2 p3 p4 p5 p6 q1 q2 v1 v2 v3 v4) :
    TwinOK (splitRewire m e).2 := by
  obtain ⟨hL, -, -, -⟩ := split_live m e
  have T := split_twin X
  obtain ⟨tw, -⟩ := X.wf
  have b1 := X.l1.1
  have b4 := X.l4.1
  intro h hlt her
  have hl' : hLive (splitRewire m e).2 h := ⟨hlt, her⟩
  rw [hL] at hl'
  simp only [hL]
  rcases hl' with hl | ⟨g1, g2⟩
  · have bh := hl.1
    obtain ⟨t1, t2, t3⟩ := tw h hl.1 hl.2
    have bt := t1.1
    by_cases k1 : h = p1
    · rw [k1]
      simp [T, old_ne_new b1, old_ne_top b1, new_ne_old b1, top_ne_old b1, X.n14]
    by_cases k4 : h = p4
    · rw [k4]
      simp [T, old_ne_new b4, old_ne_top b4, new_ne_old b4, top_ne_old b4, X.n14.symm]
    have u1 : m.hTwin h ≠ p1 := by
      intro hh; apply k4; rw [← t3, hh, X.hp4]
    have u4 : m.hTwin h ≠ p4 := by
      intro hh; apply k1; rw [← t3, hh, X.t41]
    simp [T, old_ne_new bh, old_ne_top bh, old_ne_new bt, old_ne_top bt, k1, k4, u1, u4, t1, t2,
      t3]
  · obtain ⟨k, hk, rfl⟩ : ∃ k, k < 6 ∧ h = m.nH + k := ⟨h - m.nH, by omega, by omega⟩
    interval_cases k <;>
      simp [T, old_ne_new b1, old_ne_top b1, new_ne_old b1, top_ne_old b1, old_ne_new b4,
        old_ne_top b4, new_ne_old b4, top_ne_old b4, X.n14, X.n14.symm, X.l1, X.l4]

theorem split_vertexOK {m : Mesh} {e p1 p2 p3 p4 p5 p6 q1 q2 v1 v2 v3 v4 : Nat}
    (X : SplitCtx m e p1 p2 p3 p4 p5 p6 q1 q2 v1 v2 v3 v4) :
    VertexOK (splitRewire m e).2 := by
  obtain ⟨hL, vL, eL, fL⟩ := split_live m e
  have N := split_next X
  have T := split_twin X
  have E := split_edge_field X
  have F := split_face X
  have V := split_vertex X
  obtain ⟨VH, EH, FH⟩ := split_reps X
  obtain ⟨tw, ⟨fo1, fo2⟩, ⟨eo1, eo2⟩, vo1, vo2, vo3⟩ := X.wf
  have b1 := X.l1.1
  have b2 := X.l2.1
  have b3 := X.l3.1
  have b4 := X.l4.1
  have b5 := X.l5.1
  have b6 := X.l6.1
  have lv3 : vLive m v3 := by have := vo1 p3 X.l3.1 X.l3.2; rwa [X.ve3] at this
  have lv4 : vLive m v4 := by have := vo1 p6 X.l6.1 X.l6.2; rwa [X.ve6] at this
  have lv1 : vLive m v1 := by have := vo1 p1 X.l1.1 X.l1.2; rwa [X.ve1] at this
  have lv2 : vLive m v2 := by have := vo1 p4 X.l4.1 X.l4.2; rwa [X.ve4] at this
  have o2 := vo3 p2 X.l2.1 X.l2.2
  have o3 := vo3 p3 X.l3.1 X.l3.2
  have o5 := vo3 p5 X.l5.1 X.l5.2
  have o6 := vo3 p6 X.l6.1 X.l6.2
  rw [X.hp3, X.ve3] at o2
  rw [X.c0, X.ve1] at o3
  rw [X.hp6, X.ve6] at o5
  rw [X.c1, X.ve4] at o6
  have tback : ∀ x y, hLive m x → m.hTwin x = y → m.hTwin y = x := by
    intro x y hx hxy; rw [← hxy]; exact (tw x hx.1 hx.2).2.2
  have nt : ∀ x, hLive m x → x ≠ p1 → x ≠ p4 →
      m.hTwin x ≠ p1 ∧ m.hTwin x ≠ p4 ∧ m.hTwin x < m.nH := by
    intro x hx n1 n4
    refine ⟨?_, ?_, (tw x hx.1 hx.2).1.1⟩
    · intro hh; exact n4 (by rw [← tback x p1 hx hh, X.hp4])
    · intro hh; exact n1 (by rw [← tback x p4 hx hh, X.t41])
  refine ⟨?_, ?_, ?_⟩
  · intro h hlt her
    have hl' : hLive (splitRewire m e).2 h := ⟨hlt, her⟩
    rw [hL] at hl'
    rw [vL]
    rcases hl' with hl | ⟨g1, g2⟩
    · have bh := hl.1
      left
      simpa [V, old_ne_new bh, old_ne_top bh] using vo1 h hl.1 hl.2
    · obtain ⟨k, hk, rfl⟩ : ∃ k, k < 6 ∧ h = m.nH + k := ⟨h - m.nH, by omega, by omega⟩
      interval_cases k <;> simp [V, lv3, lv4]
  · intro v hlt her
    have hl' : vLive (splitRewire m e).2 v := ⟨hlt, her⟩
    rw [vL] at hl'
    rw [hL]
    rcases hl' with hl | rfl
    · obtain ⟨q1', q2'⟩ := vo2 v hl.1 hl.2
      have bq := q1'.1
      have bv := hl.1
      simp [VH, V, old_ne_top bv, old_ne_new bq, old_ne_top bq, q1', q2']
    · simp [VH, V]
  · intro h hlt her
    have hl' : hLive (splitRewire m e).2 h := ⟨hlt, her⟩
    rw [hL] at hl'
    rcases hl' with hl | ⟨g1, g2⟩
    · have bh := hl.1
      by_cases k1 : h = p1
      · rw [k1]
        simp [N, T, V, old_ne_new b1, old_ne_top b1, new_ne_old b1, top_ne_old b1, old_ne_new b2, old_ne_top
        b2, new_ne_old b2, top_ne_old b2, old_ne_new b3, old_ne_top b3, new_ne_old b3,
        top_ne_old b3, old_ne_new b4, old_ne_top b4, new_ne_old b4, top_ne_old b4, old_ne_new
        b5, old_ne_top b5, new_ne_old b5, top_ne_old b5, old_ne_new b6, old_ne_top b6,
        new_ne_old b6, top_ne_old b6, X.n12, X.n12.symm, X.n13, X.n13.symm, X.n14, X.n14.symm,
        X.n15, X.n15.symm, X.n16, X.n16.symm, X.n23, X.n23.symm, X.n24, X.n24.symm, X.n25,
        X.n25.symm, X.n26, X.n26.symm, X.n34, X.n34.symm, X.n35, X.n35.symm, X.n36, X.n36.symm,
        X.n45, X.n45.symm, X.n46, X.n46.symm, X.n56, X.n56.symm, X.hp2, X.hp3, X.c0, X.hp4,
        X.hp5, X.hp6, X.c1, X.t41, X.ve1, X.ve2, X.ve3, X.ve4, X.ve5, X.ve6]
      by_cases k2 : h = p2
      · rw [k2]
        obtain ⟨u1, u4, ub⟩ := nt p2 X.l2 X.n12.symm X.n24
        simp [N, T, V, u1, u4, old_ne_new ub, old_ne_top ub, o2, old_ne_new b1, old_ne_top b1, new_ne_old b1, top_ne_old b1, old_ne_new b2, old_ne_top
        b2, new_ne_old b2, top_ne_old b2, old_ne_new b3, old_ne_top b3, new_ne_old b3,
        top_ne_old b3, old_ne_new b4, old_ne_top b4, new_ne_old b4, top_ne_old b4, old_ne_new
        b5, old_ne_top b5, new_ne_old b5, top_ne_old b5, old_ne_new b6, old_ne_top b6,
        new_ne_old b6, top_ne_old b6, X.n12, X.n12.symm, X.n13, X.n13.symm, X.n14, X.n14.symm,
        X.n15, X.n15.symm, X.n16, X.n16.symm, X.n23, X.n23.symm, X.n24, X.n24.symm, X.n25,
        X.n25.symm, X.n26, X.n26.symm, X.n34, X.n34.symm, X.n35, X.n35.symm, X.n36, X.n36.symm,
        X.n45, X.n45.symm, X.n46, X.n46.symm, X.n56, X.n56.symm, X.hp2, X.hp3, X.c0, X.hp4,
        X.hp5, X.hp6, X.c1, X.t41, X.ve1, X.ve2, X.ve3, X.ve4, X.ve5, X.ve6]
      by_cases k3 : h = p3
      · rw [k3]
        obtain ⟨u1, u4, ub⟩ := nt p3 X.l3 X.n13.symm X.n34
        simp [N, T, V, u1, u4, old_ne_new ub, old_ne_top ub, o3, old_ne_new b1, old_ne_top b1, new_ne_old b1, top_ne_old b1, old_ne_new b2, old_ne_top
        b2, new_ne_old b2, top_ne_old b2, old_ne_new b3, old_ne_top b3, new_ne_old b3,
        top_ne_old b3, old_ne_new b4, old_ne_top b4, new_ne_old b4, top_ne_old b4, old_ne_new
        b5, old_ne_top b5, new_ne_old b5, top_ne_old b5, old_ne_new b6, old_ne_top b6,
        new_ne_old b6, top_ne_old b6, X.n12, X.n12.symm, X.n13, X.n13.symm, X.n14, X.n14.symm,
        X.n15, X.n15.symm, X.n16, X.n16.symm, X.n23, X.n23.symm, X.n24, X.n24.symm, X.n25,
        X.n25.symm, X.n26, X.n26.symm, X.n34, X.n34.symm, X.n35, X.n35.symm, X.n36, X.n36.symm,
        X.n45, X.n45.symm, X.n46, X.n46.symm, X.n56, X.n56.symm, X.hp2, X.hp3, X.c0, X.hp4,
        X.hp5, X.hp6, X.c1, X.t41, X.ve1, X.ve2, X.ve3, X.ve4, X.ve5, X.ve6]
      by_cases k4 : h = p4
      · rw [k4]
        simp [N, T, V, old_ne_new b1, old_ne_top b1, new_ne_old b1, top_ne_old b1, old_ne_new b2, old_ne_top
        b2, new_ne_old b2, top_ne_old b2, old_ne_new b3, old_ne_top b3, new_ne_old b3,
        top_ne_old b3, old_ne_new b4, old_ne_top b4, new_ne_old b4, top_ne_old b4, old_ne_new
        b5, old_ne_top b5, new_ne_old b5, top_ne_old b5, old_ne_new b6, old_ne_top b6,
        new_ne_old b6, top_ne_old b6, X.n12, X.n12.symm, X.n13, X.n13.symm, X.n14, X.n14.symm,
        X.n15, X.n15.symm, X.n16, X.n16.symm, X.n23, X.n23.symm, X.n24, X.n24.symm, X.n25,
        X.n25.symm, X.n26, X.n26.symm, X.n34, X.n34.symm, X.n35, X.n35.symm, X.n36, X.n36.symm,
        X.n45, X.n45.symm, X.n46, X.n46.symm, X.n56, X.n56.symm, X.hp2, X.hp3, X.c0, X.hp4,
        X.hp5, X.hp6, X.c1, X.t41, X.ve1, X.ve2, X.ve3, X.ve4, X.ve5, X.ve6]
      by_cases k5 : h = p5
      · rw [k5]
        obtain ⟨u1, u4, ub⟩ := nt p5 X.l5 X.n15.symm X.n45.symm
        simp [N, T, V, u1, u4, old_ne_new ub, old_ne_top ub, o5, old_ne_new b1, old_ne_top b1, new_ne_old b1, top_ne_old b1, old_ne_new b2, old_ne_top
        b2, new_ne_old b2, top_ne_old b2, old_ne_new b3, old_ne_top b3, new_ne_old b3,
        top_ne_old b3, old_ne_new b4, old_ne_top b4, new_ne_old b4, top_ne_old b4, old_ne_new
        b5, old_ne_top b5, new_ne_old b5, top_ne_old b5, old_ne_new b6, old_ne_top b6,
        new_ne_old b6, top_ne_old b6, X.n12, X.n12.symm, X.n13, X.n13.symm, X.n14, X.n14.symm,
        X.n15, X.n15.symm, X.n16, X.n16.symm, X.n23, X.n23.symm, X.n24, X.n24.symm, X.n25,
        X.n25.symm, X.n26, X.n26.symm, X.n34, X.n34.symm, X.n35, X.n35.symm, X.n36, X.n36.symm,
        X.n45, X.n45.symm, X.n46, X.n46.symm, X.n56, X.n56.symm, X.hp2, X.hp3, X.c0, X.hp4,
        X.hp5, X.hp6, X.c1, X.t41, X.ve1, X.ve2, X.ve3, X.ve4, X.ve5, X.ve6]
      by_cases k6 : h = p6
      · rw [k6]
        obtain ⟨u1, u4, ub⟩ := nt p6 X.l6 X.n16.symm X.n46.symm
        simp [N, T, V, u1, u4, old_ne_new ub, old_ne_top ub, o6, old_ne_new b1, old_ne_top b1, new_ne_old b1, top_ne_old b1, old_ne_new b2, old_ne_top
        b2, new_ne_old b2, top_ne_old b2, old_ne_new b3, old_ne_top b3, new_ne_old b3,
        top_ne_old b3, old_ne_new b4, old_ne_top b4, new_ne_old b4, top_ne_old b4, old_ne_new
        b5, old_ne_top b5, new_ne_old b5, top_ne_old b5, old_ne_new b6, old_ne_top b6,
        new_ne_old b6, top_ne_old b6, X.n12, X.n12.symm, X.n13, X.n13.symm, X.n14, X.n14.symm,
        X.n15, X.n15.symm, X.n16, X.n16.symm, X.n23, X.n23.symm, X.n24, X.n24.symm, X.n25,
        X.n25.symm, X.n26, X.n26.symm, X.n34, X.n34.symm, X.n35, X.n35.symm, X.n36, X.n36.symm,
        X.n45, X.n45.symm, X.n46, X.n46.symm, X.n56, X.n56.symm, X.hp2, X.hp3, X.c0, X.hp4,
        X.hp5, X.hp6, X.c1, X.t41, X.ve1, X.ve2, X.ve3, X.ve4, X.ve5, X.ve6]
      obtain ⟨u1, u4, ub⟩ := nt h hl k1 k4
      have bn := (fo1 h hl.1 hl.2).1.1
      simp [N, T, V, k1, k2, k3, k4, k5, k6, u1, u4, old_ne_new ub, old_ne_top ub,
        old_ne_new bh, old_ne_top bh, old_ne_new bn, old_ne_top bn, vo3 h hl.1 hl.2]
    · obtain ⟨k, hk, rfl⟩ : ∃ k, k < 6 ∧ h = m.nH + k := ⟨h - m.nH, by omega, by omega⟩
      interval_cases k <;>
      simp [N, T, V, old_ne_new b1, old_ne_top b1, new_ne_old b1, top_ne_old b1, old_ne_new b2, old_ne_top
        b2, new_ne_old b2, top_ne_old b2, old_ne_new b3, old_ne_top b3, new_ne_old b3,
        top_ne_old b3, old_ne_new b4, old_ne_top b4, new_ne_old b4, top_ne_old b4, old_ne_new
        b5, old_ne_top b5, new_ne_old b5, top_ne_old b5, old_ne_new b6, old_ne_top b6,
        new_ne_old b6, top_ne_old b6, X.n12, X.n12.symm, X.n13, X.n13.symm, X.n14, X.n14.symm,
        X.n15, X.n15.symm, X.n16, X.n16.symm, X.n23, X.n23.symm, X.n24, X.n24.symm, X.n25,
        X.n25.symm, X.n26, X.n26.symm, X.n34, X.n34.symm, X.n35, X.n35.symm, X.n36, X.n36.symm,
        X.n45, X.n45.symm, X.n46, X.n46.symm, X.n56, X.n56.symm, X.hp2, X.hp3, X.c0, X.hp4,
        X.hp5, X.hp6, X.c1, X.t41, X.ve1, X.ve2, X.ve3, X.ve4, X.ve5, X.ve6]

theorem split_edge_classes {m : Mesh} {e p1 p2 p3 p4 p5 p6 q1 q2 v1 v2 v3 v4 : Nat}
    (X : SplitCtx m e p1 p2 p3 p4 p5 p6 q1 q2 v1 v2 v3 v4) (h : Nat)
    (hl' : hLive (splitRewire m e).2 h) :
    ((splitRewire m e).2.hEdge h = e ∧
      (h = p1 ∧ (splitRewire m e).2.hTwin h = m.nH + 5 ∨
       h = m.nH + 5 ∧ (splitRewire m e).2.hTwin h = p1)) ∨
    ((splitRewire m e).2.hEdge h = m.nE ∧
      (h = p4 ∧ (splitRewire m e).2.hTwin h = m.nH + 2 ∨
       h = m.nH + 2 ∧ (splitRewire m e).2.hTwin h = p4)) ∨
    ((splitRewire m e).2.hEdge h = m.nE + 1 ∧
      (h = m.nH ∧ (splitRewire m e).2.hTwin h = m.nH + 1 ∨
       h = m.nH + 1 ∧ (splitRewire m e).2.hTwin h = m.nH)) ∨
    ((splitRewire m e).2.hEdge h = m.nE + 2 ∧
      (h = m.nH + 3 ∧ (splitRewire m e).2.hTwin h = m.nH + 4 ∨
       h = m.nH + 4 ∧ (splitRewire m e).2.hTwin h = m.nH + 3)) ∨
    (hLive m h ∧ h ≠ p1 ∧ h ≠ p4 ∧ (splitRewire m e).2.hEdge h = m.hEdge h ∧
      m.hEdge h ≠ e ∧ m.hEdge h < m.nE ∧ (splitRewire m e).2.hTwin h = m.hTwin h) := by
  obtain ⟨hL, vL, eL, fL⟩ := split_live m e
  have N := split_next X
  have T := split_twin X
  have E := split_edge_field X
  have F := split_face X
  have V := split_vertex X
  obtain ⟨VH, EH, FH⟩ := split_reps X
  obtain ⟨tw, ⟨fo1, fo2⟩, ⟨eo1, eo2⟩, vo1, vo2, vo3⟩ := X.wf
  have b1 := X.l1.1
  have b2 := X.l2.1
  have b3 := X.l3.1
  have b4 := X.l4.1
  have b5 := X.l5.1
  have b6 := X.l6.1
  rw [hL] at hl'
  rcases hl' with hl | ⟨g1, g2⟩
  · have bh := hl.1
    by_cases k1 : h = p1
    · left; rw [k1]
      simp [E, T, old_ne_new b1, old_ne_top b1, new_ne_old b1, top_ne_old b1, old_ne_new b2, old_ne_top
        b2, new_ne_old b2, top_ne_old b2, old_ne_new b3, old_ne_top b3, new_ne_old b3,
        top_ne_old b3, old_ne_new b4, old_ne_top b4, new_ne_old b4, top_ne_old b4, old_ne_new
        b5, old_ne_top b5, new_ne_old b5, top_ne_old b5, old_ne_new b6, old_ne_top b6,
        new_ne_old b6, top_ne_old b6, X.n12, X.n12.symm, X.n13, X.n13.symm, X.n14, X.n14.symm,
        X.n15, X.n15.symm, X.n16, X.n16.symm, X.n23, X.n23.symm, X.n24, X.n24.symm, X.n25,
        X.n25.symm, X.n26, X.n26.symm, X.n34, X.n34.symm, X.n35, X.n35.symm, X.n36, X.n36.symm,
        X.n45, X.n45.symm, X.n46, X.n46.symm, X.n56, X.n56.symm, X.hp2, X.hp3, X.c0, X.hp4,
        X.hp5, X.hp6, X.c1, X.t41, X.ve1, X.ve2, X.ve3, X.ve4, X.ve5, X.ve6]
    by_cases k4 : h = p4
    · right; left; rw [k4]
      simp [E, T, old_ne_new b1, old_ne_top b1, new_ne_old b1, top_ne_old b1, old_ne_new b2, old_ne_top
        b2, new_ne_old b2, top_ne_old b2, old_ne_new b3, old_ne_top b3, new_ne_old b3,
        top_ne_old b3, old_ne_new b4, old_ne_top b4, new_ne_old b4, top_ne_old b4, old_ne_new
        b5, old_ne_top b5, new_ne_old b5, top_ne_old b5, old_ne_new b6, old_ne_top b6,
        new_ne_old b6, top_ne_old b6, X.n12, X.n12.symm, X.n13, X.n13.symm, X.n14, X.n14.symm,
        X.n15, X.n15.symm, X.n16, X.n16.symm, X.n23, X.n23.symm, X.n24, X.n24.symm, X.n25,
        X.n25.symm, X.n26, X.n26.symm, X.n34, X.n34.symm, X.n35, X.n35.symm, X.n36, X.n36.symm,
        X.n45, X.n45.symm, X.n46, X.n46.symm, X.n56, X.n56.symm, X.hp2, X.hp3, X.c0, X.hp4,
        X.hp5, X.hp6, X.c1, X.t41, X.ve1, X.ve2, X.ve3, X.ve4, X.ve5, X.ve6]
    right; right; right; right
    obtain ⟨w1, w2, w3⟩ := eo1 h hl.1 hl.2
    have ne : m.hEdge h ≠ e := by
      intro hh
      have := (eo1 p1 X.l1.1 X.l1.2).2.2 h hl.1 hl.2 (by rw [hh, X.ed1])
      rw [X.hp4] at this
      rcases this with r | r
      · exact k1 r
      · exact k4 r
    refine ⟨hl, k1, k4, ?_, ne, w1.1, ?_⟩
    · simp [E, k1, k4, old_ne_new bh, old_ne_top bh]
    · simp [T, k1, k4, old_ne_new bh, old_ne_top bh]
  · obtain ⟨k, hk, rfl⟩ : ∃ k, k < 6 ∧ h = m.nH + k := ⟨h - m.nH, by omega, by omega⟩
    interval_cases k <;>
    simp [E, T, old_ne_new b1, old_ne_top b1, new_ne_old b1, top_ne_old b1, old_ne_new b2, old_ne_top
        b2, new_ne_old b2, top_ne_old b2, old_ne_new b3, old_ne_top b3, new_ne_old b3,
        top_ne_old b3, old_ne_new b4, old_ne_top b4, new_ne_old b4, top_ne_old b4, old_ne_new
        b5, old_ne_top b5, new_ne_old b5, top_ne_old b5, old_ne_new b6, old_ne_top b6,
        new_ne_old b6, top_ne_old b6, X.n12, X.n12.symm, X.n13, X.n13.symm, X.n14, X.n14.symm,
        X.n15, X.n15.symm, X.n16, X.n16.symm, X.n23, X.n23.symm, X.n24, X.n24.symm, X.n25,
        X.n25.symm, X.n26, X.n26.symm, X.n34, X.n34.symm, X.n35, X.n35.symm, X.n36, X.n36.symm,
        X.n45, X.n45.symm, X.n46, X.n46.symm, X.n56, X.n56.symm, X.hp2, X.hp3, X.c0, X.hp4,
        X.hp5, X.hp6, X.c1, X.t41, X.ve1, X.ve2, X.ve3, X.ve4, X.ve5, X.ve6]

theorem split_edgeOK {m : Mesh} {e p1 p2 p3 p4 p5 p6 q1 q2 v1 v2 v3 v4 : Nat}
    (X : SplitCtx m e p1 p2 p3 p4 p5 p6 q1 q2 v1 v2 v3 v4) :
    EdgeOK (splitRewire m e).2 := by
  obtain ⟨hL, vL, eL, fL⟩ := split_live m e
  have N := split_next X
  have T := split_twin X
  have E := split_edge_field X
  have F := split_face X
  have V := split_vertex X
  obtain ⟨VH, EH, FH⟩ := split_reps X
  obtain ⟨tw, ⟨fo1, fo2⟩, ⟨eo1, eo2⟩, vo1, vo2, vo3⟩ := X.wf
  have b1 := X.l1.1
  have b2 := X.l2.1
  have b3 := X.l3.1
  have b4 := X.l4.1
  have b5 := X.l5.1
  have b6 := X.l6.1
  have cls := split_edge_classes X
  have el := X.he.1
  have tback : ∀ x y, hLive m x → m.hTwin x = y → m.hTwin y = x := by
    intro x y hx hxy; rw [← hxy]; exact (tw x hx.1 hx.2).2.2
  refine ⟨?_, ?_⟩
  · intro h hlt her
    have hl' : hLive (splitRewire m e).2 h := ⟨hlt, her⟩
    refine ⟨?_, ?_, ?_⟩
    · rw [eL]
      rcases cls h hl' with ⟨a1, ⟨a2, a3⟩ | ⟨a2, a3⟩⟩ | ⟨a1, ⟨a2, a3⟩ | ⟨a2, a3⟩⟩ | ⟨a1, ⟨a2, a3⟩ | ⟨a2, a3⟩⟩ |
        ⟨a1, ⟨a2, a3⟩ | ⟨a2, a3⟩⟩ | ⟨a1, a2, a3, a4, a5, a6, a7⟩
      · left; rw [a1]; exact X.he
      · left; rw [a1]; exact X.he
      · right; omega
      · right; omega
      · right; omega
      · right; omega
      · right; omega
      · right; omega
      · left; rw [a4]; exact (eo1 h a1.1 a1.2).1
    · rcases cls h hl' with ⟨a1, ⟨a2, a3⟩ | ⟨a2, a3⟩⟩ | ⟨a1, ⟨a2, a3⟩ | ⟨a2, a3⟩⟩ | ⟨a1, ⟨a2, a3⟩ | ⟨a2, a3⟩⟩ |
        ⟨a1, ⟨a2, a3⟩ | ⟨a2, a3⟩⟩ | ⟨a1, a2, a3, a4, a5, a6, a7⟩
      · rw [a3, a1]; simp [E]
      · rw [a3, a1]; simp [E, old_ne_new b1, old_ne_top b1, new_ne_old b1, top_ne_old b1, old_ne_new b2, old_ne_top
        b2, new_ne_old b2, top_ne_old b2, old_ne_new b3, old_ne_top b3, new_ne_old b3,
        top_ne_old b3, old_ne_new b4, old_ne_top b4, new_ne_old b4, top_ne_old b4, old_ne_new
        b5, old_ne_top b5, new_ne_old b5, top_ne_old b5, old_ne_new b6, old_ne_top b6,
        new_ne_old b6, top_ne_old b6, X.n12, X.n12.symm, X.n13, X.n13.symm, X.n14, X.n14.symm,
        X.n15, X.n15.symm, X.n16, X.n16.symm, X.n23, X.n23.symm, X.n24, X.n24.symm, X.n25,
        X.n25.symm, X.n26, X.n26.symm, X.n34, X.n34.symm, X.n35, X.n35.symm, X.n36, X.n36.symm,
        X.n45, X.n45.symm, X.n46, X.n46.symm, X.n56, X.n56.symm, X.hp2, X.hp3, X.c0, X.hp4,
        X.hp5, X.hp6, X.c1, X.t41, X.ve1, X.ve2, X.ve3, X.ve4, X.ve5, X.ve6]
      · rw [a3, a1]; simp [E]
      · rw [a3, a1]; simp [E, old_ne_new b1, old_ne_top b1, new_ne_old b1, top_ne_old b1, old_ne_new b2, old_ne_top
        b2, new_ne_old b2, top_ne_old b2, old_ne_new b3, old_ne_top b3, new_ne_old b3,
        top_ne_old b3, old_ne_new b4, old_ne_top b4, new_ne_old b4, top_ne_old b4, old_ne_new
        b5, old_ne_top b5, new_ne_old b5, top_ne_old b5, old_ne_new b6, old_ne_top b6,
        new_ne_old b6, top_ne_old b6, X.n12, X.n12.symm, X.n13, X.n13.symm, X.n14, X.n14.symm,
        X.n15, X.n15.symm, X.n16, X.n16.symm, X.n23, X.n23.symm, X.n24, X.n24.symm, X.n25,
        X.n25.symm, X.n26, X.n26.symm, X.n34, X.n34.symm, X.n35, X.n35.symm, X.n36, X.n36.symm,
        X.n45, X.n45.symm, X.n46, X.n46.symm, X.n56, X.n56.symm, X.hp2, X.hp3, X.c0, X.hp4,
        X.hp5, X.hp6, X.c1, X.t41, X.ve1, X.ve2, X.ve3, X.ve4, X.ve5, X.ve6]
      · rw [a3, a1]; simp [E]
      · rw [a3, a1]; simp [E]
      · rw [a3, a1]; simp [E]
      · rw [a3, a1]; simp [E]
      · rw [a7, a4]
        obtain ⟨w1, w2, w3⟩ := eo1 h a1.1 a1.2
        obtain ⟨t1, t2, t3⟩ := tw h a1.1 a1.2
        have bt := t1.1
        have u1 : m.hTwin h ≠ p1 := by
          intro hh; exact a3 (by rw [← tback h p1 a1 hh, X.hp4])
        have u4 : m.hTwin h ≠ p4 := by
          intro hh; exact a2 (by rw [← tback h p4 a1 hh, X.t41])
        simp [E, u1, u4, old_ne_new bt, old_ne_top bt, w2]
    · intro h' hlt' her' hee
      have hl2 : hLive (splitRewire m e).2 h' := ⟨hlt', her'⟩
      rcases cls h hl' with ⟨a1, ⟨a2, a3⟩ | ⟨a2, a3⟩⟩ | ⟨a1, ⟨a2, a3⟩ | ⟨a2, a3⟩⟩ | ⟨a1, ⟨a2, a3⟩ | ⟨a2, a3⟩⟩ |
        ⟨a1, ⟨a2, a3⟩ | ⟨a2, a3⟩⟩ | ⟨a1, a2, a3, a4, a5, a6, a7⟩ <;>
      rcases cls h' hl2 with ⟨c1, ⟨c2, c3⟩ | ⟨c2, c3⟩⟩ | ⟨c1, ⟨c2, c3⟩ | ⟨c2, c3⟩⟩ | ⟨c1, ⟨c2, c3⟩ | ⟨c2, c3⟩⟩ |
        ⟨c1, ⟨c2, c3⟩ | ⟨c2, c3⟩⟩ | ⟨c1, c2, c3, c4, c5, c6, c7⟩ <;>
      first
      | omega
      | (left; omega)
      | (right; omega)
      | (have q := (eo1 h a1.1 a1.2).2.2 h' c1.1 c1.2 (by rw [← c4, ← a4, hee])
         rw [a7]
         exact q)
  · intro x hlt her
    have hl' : eLive (splitRewire m e).2 x := ⟨hlt, her⟩
    rw [eL] at hl'
    rw [hL]
    rcases hl' with hl | ⟨g1, g2⟩
    · obtain ⟨w1, w2⟩ := eo2 x hl.1 hl.2
      have bx := hl.1
      have bw := w1.1
      by_cases kx : x = e
      · rw [kx]
        have : m.eHalfedge e = p1 := X.hp1
        simp [EH, E, this, old_ne_new el, old_ne_top el, X.l1, old_ne_new b1, old_ne_top b1, new_ne_old b1, top_ne_old b1, old_ne_new b2, old_ne_top
        b2, new_ne_old b2, top_ne_old b2, old_ne_new b3, old_ne_top b3, new_ne_old b3,
        top_ne_old b3, old_ne_new b4, old_ne_top b4, new_ne_old b4, top_ne_old b4, old_ne_new
        b5, old_ne_top b5, new_ne_old b5, top_ne_old b5, old_ne_new b6, old_ne_top b6,
        new_ne_old b6, top_ne_old b6, X.n12, X.n12.symm, X.n13, X.n13.symm, X.n14, X.n14.symm,
        X.n15, X.n15.symm, X.n16, X.n16.symm, X.n23, X.n23.symm, X.n24, X.n24.symm, X.n25,
        X.n25.symm, X.n26, X.n26.symm, X.n34, X.n34.symm, X.n35, X.n35.symm, X.n36, X.n36.symm,
        X.n45, X.n45.symm, X.n46, X.n46.symm, X.n56, X.n56.symm, X.hp2, X.hp3, X.c0, X.hp4,
        X.hp5, X.hp6, X.c1, X.t41, X.ve1, X.ve2, X.ve3, X.ve4, X.ve5, X.ve6]
      have u1 : m.eHalfedge x ≠ p1 := by
        intro hh; apply kx; rw [← w2, hh, X.ed1]
      have u4 : m.eHalfedge x ≠ p4 := by
        intro hh; apply kx; rw [← w2, hh, X.ed4]
      simp [EH, E, old_ne_new bx, old_ne_top bx, old_ne_new bw, old_ne_top bw, u1, u4, w1, w2]
    · obtain ⟨k, hk, rfl⟩ : ∃ k, k < 3 ∧ x = m.nE + k := ⟨x - m.nE, by omega, by omega⟩
      interval_cases k <;>
      simp [EH, E, X.l4, old_ne_new b1, old_ne_top b1, new_ne_old b1, top_ne_old b1, old_ne_new b2, old_ne_top
        b2, new_ne_old b2, top_ne_old b2, old_ne_new b3, old_ne_top b3, new_ne_old b3,
        top_ne_old b3, old_ne_new b4, old_ne_top b4, new_ne_old b4, top_ne_old b4, old_ne_new
        b5, old_ne_top b5, new_ne_old b5, top_ne_old b5, old_ne_new b6, old_ne_top b6,
        new_ne_old b6, top_ne_old b6, X.n12, X.n12.symm, X.n13, X.n13.symm, X.n14, X.n14.symm,
        X.n15, X.n15.symm, X.n16, X.n16.symm, X.n23, X.n23.symm, X.n24, X.n24.symm, X.n25,
        X.n25.symm, X.n26, X.n26.symm, X.n34, X.n34.symm, X.n35, X.n35.symm, X.n36, X.n36.symm,
        X.n45, X.n45.symm, X.n46, X.n46.symm, X.n56, X.n56.symm, X.hp2, X.hp3, X.c0, X.hp4,
        X.hp5, X.hp6, X.c1, X.t41, X.ve1, X.ve2, X.ve3, X.ve4, X.ve5, X.ve6]

theorem iterate_live_outside (m m' : Mesh) (S L : Nat → Prop)
    (hS : ∀ x, S x → S (m.hNext x)) (hL : ∀ x, L x → L (m.hNext x))
    (hN : ∀ x, L x → ¬ S x → m'.hNext x = m.hNext x)
    (h : Nat) (k : Nat) (hk : m.hNext^[k] h = h) (hh : ¬ S h) (hl : L h) :
    ∀ j, j ≤ k → m'.hNext^[j] h = m.hNext^[j] h ∧ ¬ S (m.hNext^[j] h) ∧ L (m.hNext^[j] h) := by
  have out := iterate_flip_outside m m S hS (fun _ _ => rfl) h k hk hh
  intro j
  induction j with
  | zero => intro _; exact ⟨rfl, by simpa using hh, by simpa using hl⟩
  | succ j ih =>
    intro hj
    obtain ⟨e1, e2, e3⟩ := ih (by omega)
    refine ⟨?_, (out _ hj).2, ?_⟩
    · rw [Function.iterate_succ_apply', Function.iterate_succ_apply', e1, hN _ e3 e2]
    · rw [Function.iterate_succ_apply']; exact hL _ e3

theorem split_faceOK {m : Mesh} {e p1 p2 p3 p4 p5 p6 q1 q2 v1 v2 v3 v4 : Nat}
    (X : SplitCtx m e p1 p2 p3 p4 p5 p6 q1 q2 v1 v2 v3 v4) :
    FaceOK (splitRewire m e).2 := by
  obtain ⟨hL, vL, eL, fL⟩ := split_live m e
  have N := split_next X
  have T := split_twin X
  have E := split_edge_field X
  have F := split_face X
  have V := split_vertex X
  obtain ⟨VH, EH, FH⟩ := split_reps X
  obtain ⟨tw, ⟨fo1, fo2⟩, ⟨eo1, eo2⟩, vo1, vo2, vo3⟩ := X.wf
  have b1 := X.l1.1
  have b2 := X.l2.1
  have b3 := X.l3.1
  have b4 := X.l4.1
  have b5 := X.l5.1
  have b6 := X.l6.1
  obtain ⟨c1', c2', c3', c4'⟩ := splitRewire_counts m e
  have fq1 : fLive m q1 := by have := (fo1 p1 X.l1.1 X.l1.2).2.1; rwa [X.fa1] at this
  have fq2 : fLive m q2 := by have := (fo1 p4 X.l4.1 X.l4.2).2.1; rwa [X.fa4] at this
  have fq1' := fq1.1
  have fq2' := fq2.1
  refine ⟨?_, ?_⟩
  · intro h hlt her
    have hl' : hLive (splitRewire m e).2 h := ⟨hlt, her⟩
    rw [hL] at hl'
    rw [c3']
    rcases hl' with hl | ⟨g1, g2⟩
    · have bh := hl.1
      by_cases k1 : h = p1
      · rw [k1]
        refine ⟨?_, ?_, ?_, 2, by omega, ?_⟩ <;>
        simp [N, F, hL, fL, Function.iterate_succ, fq1, fq2, fq1', fq2', X.l1, X.l2, X.l3, X.l4, X.l5, X.l6,
          old_ne_new b1, old_ne_top b1, new_ne_old b1, top_ne_old b1, old_ne_new b2, old_ne_top
        b2, new_ne_old b2, top_ne_old b2, old_ne_new b3, old_ne_top b3, new_ne_old b3,
        top_ne_old b3, old_ne_new b4, old_ne_top b4, new_ne_old b4, top_ne_old b4, old_ne_new
        b5, old_ne_top b5, new_ne_old b5, top_ne_old b5, old_ne_new b6, old_ne_top b6,
        new_ne_old b6, top_ne_old b6, X.n12, X.n12.symm, X.n13, X.n13.symm, X.n14, X.n14.symm,
        X.n15, X.n15.symm, X.n16, X.n16.symm, X.n23, X.n23.symm, X.n24, X.n24.symm, X.n25,
        X.n25.symm, X.n26, X.n26.symm, X.n34, X.n34.symm, X.n35, X.n35.symm, X.n36, X.n36.symm,
        X.n45, X.n45.symm, X.n46, X.n46.symm, X.n56, X.n56.symm, X.hp2, X.hp3, X.c0, X.hp4,
        X.hp5, X.hp6, X.c1, X.t41, X.fa1, X.fa2, X.fa3, X.fa4, X.fa5, X.fa6, X.hq, X.hq.symm]
      by_cases k2 : h = p2
      · rw [k2]
        refine ⟨?_, ?_, ?_, 2, by omega, ?_⟩ <;>
        simp [N, F, hL, fL, Function.iterate_succ, fq1, fq2, fq1', fq2', X.l1, X.l2, X.l3, X.l4, X.l5, X.l6,
          old_ne_new b1, old_ne_top b1, new_ne_old b1, top_ne_old b1, old_ne_new b2, old_ne_top
        b2, new_ne_old b2, top_ne_old b2, old_ne_new b3, old_ne_top b3, new_ne_old b3,
        top_ne_old b3, old_ne_new b4, old_ne_top b4, new_ne_old b4, top_ne_old b4, old_ne_new
        b5, old_ne_top b5, new_ne_old b5, top_ne_old b5, old_ne_new b6, old_ne_top b6,
        new_ne_old b6, top_ne_old b6, X.n12, X.n12.symm, X.n13, X.n13.symm, X.n14, X.n14.symm,
        X.n15, X.n15.symm, X.n16, X.n16.symm, X.n23, X.n23.symm, X.n24, X.n24.symm, X.n25,
        X.n25.symm, X.n26, X.n26.symm, X.n34, X.n34.symm, X.n35, X.n35.symm, X.n36, X.n36.symm,
        X.n45, X.n45.symm, X.n46, X.n46.symm, X.n56, X.n56.symm, X.hp2, X.hp3, X.c0, X.hp4,
        X.hp5, X.hp6, X.c1, X.t41, X.fa1, X.fa2, X.fa3, X.fa4, X.fa5, X.fa6, X.hq, X.hq.symm]
      by_cases k3 : h = p3
      · rw [k3]
        refine ⟨?_, ?_, ?_, 2, by omega, ?_⟩ <;>
        simp [N, F, hL, fL, Function.iterate_succ, fq1, fq2, fq1', fq2', X.l1, X.l2, X.l3, X.l4, X.l5, X.l6,
          old_ne_new b1, old_ne_top b1, new_ne_old b1, top_ne_old b1, old_ne_new b2, old_ne_top
        b2, new_ne_old b2, top_ne_old b2, old_ne_new b3, old_ne_top b3, new_ne_old b3,
        top_ne_old b3, old_ne_new b4, old_ne_top b4, new_ne_old b4, top_ne_old b4, old_ne_new
        b5, old_ne_top b5, new_ne_old b5, top_ne_old b5, old_ne_new b6, old_ne_top b6,
        new_ne_old b6, top_ne_old b6, X.n12, X.n12.symm, X.n13, X.n13.symm, X.n14, X.n14.symm,
        X.n15, X.n15.symm, X.n16, X.n16.symm, X.n23, X.n23.symm, X.n24, X.n24.symm, X.n25,
        X.n25.symm, X.n26, X.n26.symm, X.n34, X.n34.symm, X.n35, X.n35.symm, X.n36, X.n36.symm,
        X.n45, X.n45.symm, X.n46, X.n46.symm, X.n56, X.n56.symm, X.hp2, X.hp3, X.c0, X.hp4,
        X.hp5, X.hp6, X.c1, X.t41, X.fa1, X.fa2, X.fa3, X.fa4, X.fa5, X.fa6, X.hq, X.hq.symm]
      by_cases k4 : h = p4
      · rw [k4]
        refine ⟨?_, ?_, ?_, 2, by omega, ?_⟩ <;>
        simp [N, F, hL, fL, Function.iterate_succ, fq1, fq2, fq1', fq2', X.l1, X.l2, X.l3, X.l4, X.l5, X.l6,
          old_ne_new b1, old_ne_top b1, new_ne_old b1, top_ne_old b1, old_ne_new b2, old_ne_top
        b2, new_ne_old b2, top_ne_old b2, old_ne_new b3, old_ne_top b3, new_ne_old b3,
        top_ne_old b3, old_ne_new b4, old_ne_top b4, new_ne_old b4, top_ne_old b4, old_ne_new
        b5, old_ne_top b5, new_ne_old b5, top_ne_old b5, old_ne_new b6, old_ne_top b6,
        new_ne_old b6, top_ne_old b6, X.n12, X.n12.symm, X.n13, X.n13.symm, X.n14, X.n14.symm,
        X.n15, X.n15.symm, X.n16, X.n16.symm, X.n23, X.n23.symm, X.n24, X.n24.symm, X.n25,
        X.n25.symm, X.n26, X.n26.symm, X.n34, X.n34.symm, X.n35, X.n35.symm, X.n36, X.n36.symm,
        X.n45, X.n45.symm, X.n46, X.n46.symm, X.n56, X.n56.symm, X.hp2, X.hp3, X.c0, X.hp4,
        X.hp5, X.hp6, X.c1, X.t41, X.fa1, X.fa2, X.fa3, X.fa4, X.fa5, X.fa6, X.hq, X.hq.symm]
      by_cases k5 : h = p5
      · rw [k5]
        refine ⟨?_, ?_, ?_, 2, by omega, ?_⟩ <;>
        simp [N, F, hL, fL, Function.iterate_succ, fq1, fq2, fq1', fq2', X.l1, X.l2, X.l3, X.l4, X.l5, X.l6,
          old_ne_new b1, old_ne_top b1, new_ne_old b1, top_ne_old b1, old_ne_new b2, old_ne_top
        b2, new_ne_old b2, top_ne_old b2, old_ne_new b3, old_ne_top b3, new_ne_old b3,
        top_ne_old b3, old_ne_new b4, old_ne_top b4, new_ne_old b4, top_ne_old b4, old_ne_new
        b5, old_ne_top b5, new_ne_old b5, top_ne_old b5, old_ne_new b6, old_ne_top b6,
        new_ne_old b6, top_ne_old b6, X.n12, X.n12.symm, X.n13, X.n13.symm, X.n14, X.n14.symm,
        X.n15, X.n15.symm, X.n16, X.n16.symm, X.n23, X.n23.symm, X.n24, X.n24.symm, X.n25,
        X.n25.symm, X.n26, X.n26.symm, X.n34, X.n34.symm, X.n35, X.n35.symm, X.n36, X.n36.symm,
        X.n45, X.n45.symm, X.n46, X.n46.symm, X.n56, X.n56.symm, X.hp2, X.hp3, X.c0, X.hp4,
        X.hp5, X.hp6, X.c1, X.t41, X.fa1, X.fa2, X.fa3, X.fa4, X.fa5, X.fa6, X.hq, X.hq.symm]
      by_cases k6 : h = p6
      · rw [k6]
        refine ⟨?_, ?_, ?_, 2, by omega, ?_⟩ <;>
        simp [N, F, hL, fL, Function.iterate_succ, fq1, fq2, fq1', fq2', X.l1, X.l2, X.l3, X.l4, X.l5, X.l6,
          old_ne_new b1, old_ne_top b1, new_ne_old b1, top_ne_old b1, old_ne_new b2, old_ne_top
        b2, new_ne_old b2, top_ne_old b2, old_ne_new b3, old_ne_top b3, new_ne_old b3,
        top_ne_old b3, old_ne_new b4, old_ne_top b4, new_ne_old b4, top_ne_old b4, old_ne_new
        b5, old_ne_top b5, new_ne_old b5, top_ne_old b5, old_ne_new b6, old_ne_top b6,
        new_ne_old b6, top_ne_old b6, X.n12, X.n12.symm, X.n13, X.n13.symm, X.n14, X.n14.symm,
        X.n15, X.n15.symm, X.n16, X.n16.symm, X.n23, X.n23.symm, X.n24, X.n24.symm, X.n25,
        X.n25.symm, X.n26, X.n26.symm, X.n34, X.n34.symm, X.n35, X.n35.symm, X.n36, X.n36.symm,
        X.n45, X.n45.symm, X.n46, X.n46.symm, X.n56, X.n56.symm, X.hp2, X.hp3, X.c0, X.hp4,
        X.hp5, X.hp6, X.c1, X.t41, X.fa1, X.fa2, X.fa3, X.fa4, X.fa5, X.fa6, X.hq, X.hq.symm]
      obtain ⟨w1, w2, w3, k, hk, w4⟩ := fo1 h hl.1 hl.2
      have out := iterate_live_outside m (splitRewire m e).2
        (fun x => x = p1 ∨ x = p2 ∨ x = p3 ∨ x = p4 ∨ x = p5 ∨ x = p6) (hLive m)
        (by
          rintro x (rfl | rfl | rfl | rfl | rfl | rfl) <;>
          simp [X.hp2, X.hp3, X.c0, X.hp5, X.hp6, X.c1])
        (fun x hx => (fo1 x hx.1 hx.2).1)
        (by
          intro x hx hs
          simp only [not_or] at hs
          obtain ⟨y1, y2, y3, y4, y5, y6⟩ := hs
          have bx := hx.1
          simp [N, y1, y2, y3, y4, y5, y6, old_ne_new bx, old_ne_top bx])
        h (k + 1) w4 (by simp [k1, k2, k3, k4, k5, k6]) hl
      obtain ⟨o1, o2, o3⟩ := out 1 (by omega)
      simp only [Function.iterate_one, not_or] at o1 o2 o3
      have bn := o3.1
      refine ⟨?_, ?_, ?_, k, by omega, ?_⟩
      · rw [o1, hL]; exact Or.inl w1
      · rw [fL]; left
        simpa [F, k1, k2, k3, k4, k5, k6, old_ne_new bh, old_ne_top bh] using w2
      · rw [o1]
        simp [F, k1, k2, k3, k4, k5, k6, old_ne_new bh, old_ne_top bh, old_ne_new bn,
          old_ne_top bn, o2.1, o2.2.1, o2.2.2.1, o2.2.2.2.1, o2.2.2.2.2.1, o2.2.2.2.2.2, w3]
      · rw [(out (k + 1) (le_refl _)).1, w4]
    · obtain ⟨k, hk, rfl⟩ : ∃ k, k < 6 ∧ h = m.nH + k := ⟨h - m.nH, by omega, by omega⟩
      interval_cases k <;>
      refine ⟨?_, ?_, ?_, 2, by omega, ?_⟩ <;>
      simp [N, F, hL, fL, Function.iterate_succ, fq1, fq2, fq1', fq2', X.l1, X.l2, X.l3, X.l4, X.l5, X.l6,
        old_ne_new b1, old_ne_top b1, new_ne_old b1, top_ne_old b1, old_ne_new b2, old_ne_top
        b2, new_ne_old b2, top_ne_old b2, old_ne_new b3, old_ne_top b3, new_ne_old b3,
        top_ne_old b3, old_ne_new b4, old_ne_top b4, new_ne_old b4, top_ne_old b4, old_ne_new
        b5, old_ne_top b5, new_ne_old b5, top_ne_old b5, old_ne_new b6, old_ne_top b6,
        new_ne_old b6, top_ne_old b6, X.n12, X.n12.symm, X.n13, X.n13.symm, X.n14, X.n14.symm,
        X.n15, X.n15.symm, X.n16, X.n16.symm, X.n23, X.n23.symm, X.n24, X.n24.symm, X.n25,
        X.n25.symm, X.n26, X.n26.symm, X.n34, X.n34.symm, X.n35, X.n35.symm, X.n36, X.n36.symm,
        X.n45, X.n45.symm, X.n46, X.n46.symm, X.n56, X.n56.symm, X.hp2, X.hp3, X.c0, X.hp4,
        X.hp5, X.hp6, X.c1, X.t41, X.fa1, X.fa2, X.fa3, X.fa4, X.fa5, X.fa6, X.hq, X.hq.symm]
  · intro f hlt her
    have hl' : fLive (splitRewire m e).2 f := ⟨hlt, her⟩
    rw [fL] at hl'
    rw [hL]
    rcases hl' with hl | ⟨g1, g2⟩
    · have bf := hl.1
      obtain ⟨w1, w2⟩ := fo2 f hl.1 hl.2
      have bw := w1.1
      by_cases j2 : f = q2
      · rw [j2]
        simp [FH, F, old_ne_new fq2', old_ne_top fq2', X.l1, X.l2, X.l3, X.l4, X.l5, X.l6,
          old_ne_new b1, old_ne_top b1, new_ne_old b1, top_ne_old b1, old_ne_new b2, old_ne_top
        b2, new_ne_old b2, top_ne_old b2, old_ne_new b3, old_ne_top b3, new_ne_old b3,
        top_ne_old b3, old_ne_new b4, old_ne_top b4, new_ne_old b4, top_ne_old b4, old_ne_new
        b5, old_ne_top b5, new_ne_old b5, top_ne_old b5, old_ne_new b6, old_ne_top b6,
        new_ne_old b6, top_ne_old b6, X.n12, X.n12.symm, X.n13, X.n13.symm, X.n14, X.n14.symm,
        X.n15, X.n15.symm, X.n16, X.n16.symm, X.n23, X.n23.symm, X.n24, X.n24.symm, X.n25,
        X.n25.symm, X.n26, X.n26.symm, X.n34, X.n34.symm, X.n35, X.n35.symm, X.n36, X.n36.symm,
        X.n45, X.n45.symm, X.n46, X.n46.symm, X.n56, X.n56.symm, X.hp2, X.hp3, X.c0, X.hp4,
        X.hp5, X.hp6, X.c1, X.t41, X.fa1, X.fa2, X.fa3, X.fa4, X.fa5, X.fa6, X.hq, X.hq.symm]
      by_cases j1 : f = q1
      · rw [j1]
        simp [FH, F, old_ne_new fq1', old_ne_top fq1', X.l1, X.l2, X.l3, X.l4, X.l5, X.l6,
          old_ne_new b1, old_ne_top b1, new_ne_old b1, top_ne_old b1, old_ne_new b2, old_ne_top
        b2, new_ne_old b2, top_ne_old b2, old_ne_new b3, old_ne_top b3, new_ne_old b3,
        top_ne_old b3, old_ne_new b4, old_ne_top b4, new_ne_old b4, top_ne_old b4, old_ne_new
        b5, old_ne_top b5, new_ne_old b5, top_ne_old b5, old_ne_new b6, old_ne_top b6,
        new_ne_old b6, top_ne_old b6, X.n12, X.n12.symm, X.n13, X.n13.symm, X.n14, X.n14.symm,
        X.n15, X.n15.symm, X.n16, X.n16.symm, X.n23, X.n23.symm, X.n24, X.n24.symm, X.n25,
        X.n25.symm, X.n26, X.n26.symm, X.n34, X.n34.symm, X.n35, X.n35.symm, X.n36, X.n36.symm,
        X.n45, X.n45.symm, X.n46, X.n46.symm, X.n56, X.n56.symm, X.hp2, X.hp3, X.c0, X.hp4,
        X.hp5, X.hp6, X.c1, X.t41, X.fa1, X.fa2, X.fa3, X.fa4, X.fa5, X.fa6, X.hq, X.hq.symm]
      have y1 : m.fHalfedge f ≠ p1 := fun hh => j1 (by rw [← w2, hh, X.fa1])
      have y2 : m.fHalfedge f ≠ p2 := fun hh => j1 (by rw [← w2, hh, X.fa2])
      have y3 : m.fHalfedge f ≠ p3 := fun hh => j1 (by rw [← w2, hh, X.fa3])
      have y4 : m.fHalfedge f ≠ p4 := fun hh => j2 (by rw [← w2, hh, X.fa4])
      have y5 : m.fHalfedge f ≠ p5 := fun hh => j2 (by rw [← w2, hh, X.fa5])
      have y6 : m.fHalfedge f ≠ p6 := fun hh => j2 (by rw [← w2, hh, X.fa6])
      simp [FH, F, j1, j2, y1, y2, y3, y4, y5, y6, old_ne_new bf, old_ne_top bf,
        old_ne_new bw, old_ne_top bw, w1, w2]
    · obtain ⟨k, hk, rfl⟩ : ∃ k, k < 2 ∧ f = m.nF + k := ⟨f - m.nF, by omega, by omega⟩
      interval_cases k <;>
      simp [FH, F, X.l1, X.l2, X.l3, X.l4, X.l5, X.l6,
        old_ne_new b1, old_ne_top b1, new_ne_old b1, top_ne_old b1, old_ne_new b2, old_ne_top
        b2, new_ne_old b2, top_ne_old b2, old_ne_new b3, old_ne_top b3, new_ne_old b3,
        top_ne_old b3, old_ne_new b4, old_ne_top b4, new_ne_old b4, top_ne_old b4, old_ne_new
        b5, old_ne_top b5, new_ne_old b5, top_ne_old b5, old_ne_new b6, old_ne_top b6,
        new_ne_old b6, top_ne_old b6, X.n12, X.n12.symm, X.n13, X.n13.symm, X.n14, X.n14.symm,
        X.n15, X.n15.symm, X.n16, X.n16.symm, X.n23, X.n23.symm, X.n24, X.n24.symm, X.n25,
        X.n25.symm, X.n26, X.n26.symm, X.n34, X.n34.symm, X.n35, X.n35.symm, X.n36, X.n36.symm,
        X.n45, X.n45.symm, X.n46, X.n46.symm, X.n56, X.n56.symm, X.hp2, X.hp3, X.c0, X.hp4,
        X.hp5, X.hp6, X.c1, X.t41, X.fa1, X.fa2, X.fa3, X.fa4, X.fa5, X.fa6, X.hq, X.hq.symm]

theorem split_wf (m : Mesh) (e : Nat) (pre : SplitPre m e) :
    WellFormed (splitRewire m e).2 :=
  ⟨split_twinOK (splitCtx_of_pre pre), split_faceOK (splitCtx_of_pre pre),
    split_edgeOK (splitCtx_of_pre pre), split_vertexOK (splitCtx_of_pre pre)⟩

theorem split_new_vertex_fields (m : Mesh) (e : Nat) :
    (splitRewire m e).2.vHalfedge m.nV = m.nH + 5 ∧
    (splitRewire m e).2.hVertex (m.nH + 5) = m.nV ∧
    (splitRewire m e).2.hEdge (m.nH + 5) = e ∧
    (splitRewire m e).2.hTwin (m.nH + 5) = m.eHalfedge e ∧
    (splitRewire m e).2.vPos m.nV = m.center e := by
  refine ⟨?_, ?_, ?_, ?_, ?_⟩ <;>
  dsimp only [splitRewire, Mesh.new_vertex, Mesh.new_halfedge, Mesh.new_edge, Mesh.new_face,
    Mesh.setPos, Mesh.setVHalfedge, Mesh.setVertex, Mesh.setEdge, Mesh.setTwin, Mesh.setNext,
    Mesh.setFace, Mesh.setEHalfedge, Mesh.setFHalfedge, Mesh.center] <;>
  (try simp only [upd_self]) <;>
  simp only [upd_apply, Nat.add_assoc, Nat.reduceAdd, if_true]

theorem split_vertex_raw (m : Mesh) (e h : Nat) :
    (splitRewire m e).2.hVertex h =
      if h = m.nH + 5 then m.nV
      else if h = m.nH + 4 then m.hVertex (m.hNext (m.hNext (m.hTwin (m.eHalfedge e))))
      else if h = m.nH + 3 then m.nV
      else if h = m.nH + 2 then m.nV
      else if h = m.nH + 1 then m.hVertex (m.hNext (m.hNext (m.eHalfedge e)))
      else if h = m.nH then m.nV
      else if h = m.hNext (m.hNext (m.hTwin (m.eHalfedge e))) then
        m.hVertex (m.hNext (m.hNext (m.hTwin (m.eHalfedge e))))
      else if h = m.hNext (m.hTwin (m.eHalfedge e)) then m.hVertex (m.eHalfedge e)
      else if h = m.hTwin (m.eHalfedge e) then m.hVertex (m.hTwin (m.eHalfedge e))
      else if h = m.hNext (m.hNext (m.eHalfedge e)) then
        m.hVertex (m.hNext (m.hNext (m.eHalfedge e)))
      else if h = m.hNext (m.eHalfedge e) then m.hVertex (m.hTwin (m.eHalfedge e))
      else m.hVertex h := by
  dsimp only [splitRewire, Mesh.new_vertex, Mesh.new_halfedge, Mesh.new_edge, Mesh.new_face,
    Mesh.setPos, Mesh.setVHalfedge, Mesh.setVertex, Mesh.setEdge, Mesh.setTwin, Mesh.setNext,
    Mesh.setFace, Mesh.setEHalfedge, Mesh.setFHalfedge]
  (try simp only [upd_self])
  simp only [upd_apply, Nat.add_assoc, Nat.reduceAdd]

/-- C5: on a well-formed mesh, when `split_edge` returns a vertex for a live
    edge `e`, that vertex is the one vertex the call has created, its stored
    half-edge originates at it and belongs to the edge record `e`, which is an
    old record and so none of the three new edges, and the twin of that
    half-edge originates at one of the two endpoints `e` had before the call. -/
theorem split_edge_returns_new_vertex (m m' : Mesh) (e v : Nat)
    (wf : WellFormed m) (he : eLive m e) (hs : split_edge m e = (some v, m')) :
    v = m.nV ∧ m'.nV = m.nV + 1 ∧
    m'.hVertex (m'.vHalfedge v) = v ∧
    m'.hEdge (m'.vHalfedge v) = e ∧ e < m.nE ∧
    (m'.hVertex (m'.hTwin (m'.vHalfedge v)) = m.hVertex (m.eHalfedge e) ∨
     m'.hVertex (m'.hTwin (m'.vHalfedge v)) = m.hVertex (m.hTwin (m.eHalfedge e))) := by
  have hd : splitDeclines m e = false := by
    by_contra hd
    simp only [Bool.not_eq_false] at hd
    simp [split_edge, hd] at hs
  rw [split_edge_ok m e hd] at hs
  simp only [Prod.mk.injEq, Option.some.injEq] at hs
  obtain ⟨rfl, rfl⟩ := hs
  obtain ⟨f1, f2, f3, f4, -⟩ := split_new_vertex_fields m e
  have hl : hLive m (m.eHalfedge e) := (wf.2.2.1.2 e he.1 he.2).1
  have b1 := hl.1
  simp only [splitDeclines, Bool.or_eq_false_iff, bne_eq_false_iff_eq] at hd
  obtain ⟨c0, c1⟩ := hd
  refine ⟨rfl, rfl, ?_, ?_, he.1, ?_⟩
  · rw [f1, f2]
  · rw [f1, f3]
  · rw [f1, f4, split_vertex_raw]
    simp only [old_ne_new b1, old_ne_top b1, if_false]
    by_cases a6 : m.eHalfedge e = m.hNext (m.hNext (m.hTwin (m.eHalfedge e)))
    · left; rw [if_pos a6, ← a6]
    rw [if_neg a6]
    by_cases a5 : m.eHalfedge e = m.hNext (m.hTwin (m.eHalfedge e))
    · left; rw [if_pos a5]
    rw [if_neg a5]
    by_cases a4 : m.eHalfedge e = m.hTwin (m.eHalfedge e)
    · right; rw [if_pos a4]
    rw [if_neg a4]
    by_cases a3 : m.eHalfedge e = m.hNext (m.hNext (m.eHalfedge e))
    · left; rw [if_pos a3, ← a3]
    rw [if_neg a3]
    by_cases a2 : m.eHalfedge e = m.hNext (m.eHalfedge e)
    · right; rw [if_pos a2]
    rw [if_neg a2]
    left; trivial

/-- Witness for C5: splitting edge 0 of the tetrahedron returns the new
    vertex 4. -/
theorem split_edge_returns_new_vertex_witness :
    WellFormed tetra ∧ ∃ m', split_edge tetra 0 = (some 4, m') ∧ m'.nV = 5 ∧
      m'.hVertex (m'.vHalfedge 4) = 4 ∧ m'.hEdge (m'.vHalfedge 4) = 0 :=
  ⟨by decide, _, rfl,
    (split_edge_returns_new_vertex tetra _ 0 4 (by decide) (by decide) rfl).2.1,
    (split_edge_returns_new_vertex tetra _ 0 4 (by decide) (by decide) rfl).2.2.1,
    (split_edge_returns_new_vertex tetra _ 0 4 (by decide) (by decide) rfl).2.2.2.1⟩

theorem applyOp_wf (m m' : Mesh) (op : LocalOp) (wf : WellFormed m)
    (h : applyOp m op = some m') : WellFormed m' := by
  cases op with
  | flip e =>
    simp only [applyOp] at h
    split_ifs at h with tt
    obtain ⟨he, ⟨c0, d0⟩, ⟨c1, d1⟩, hf⟩ := tt
    have hl : hLive m (m.eHalfedge e) := (wf.2.2.1.2 e he.1 he.2).1
    have l4 : hLive m (m.hTwin (m.eHalfedge e)) := (wf.1 _ hl.1 hl.2).1
    have hb : m.on_boundary e = false := by
      by_contra hb
      simp only [Bool.not_eq_false] at hb
      simp [flip_edge, hb] at h
    have o1 := wf.2.2.2.2.2 _ hl.1 hl.2
    have o4 := wf.2.2.2.2.2 _ l4.1 l4.2
    rw [(wf.1 _ hl.1 hl.2).2.2] at o4
    have pre : FlipPre m e (m.hVertex (m.eHalfedge e)) (m.hVertex (m.hNext (m.eHalfedge e)))
        (m.hVertex (m.hNext (m.hNext (m.eHalfedge e))))
        (m.hVertex (m.hNext (m.hNext (m.hTwin (m.eHalfedge e))))) :=
      ⟨wf, he, hb, ⟨c0, d0, rfl, rfl, rfl⟩, ⟨c1, d1, o1.symm, o4, rfl⟩, hf⟩
    rw [flip_edge_eq m e _ _ _ _ pre] at h
    simp only [Option.some.injEq] at h
    rw [← h]
    exact flip_wf m e _ _ _ _ pre
  | split e =>
    simp only [applyOp] at h
    split_ifs at h with tt
    obtain ⟨he, ⟨c0, d0⟩, ⟨c1, d1⟩, hf⟩ := tt
    have hd : splitDeclines m e = false := by simp [splitDeclines, c0, c1]
    rw [split_edge_ok m e hd] at h
    simp only [Option.some.injEq] at h
    rw [← h]
    exact split_wf m e ⟨wf, he, ⟨c0, d0⟩, ⟨c1, d1⟩, hf⟩

/-- C10 (amended): the well-formedness predicate (twin an involution without
    fixed point, closed face cycles whose half-edges name the face, each edge
    shared by exactly a half-edge and its oppositely oriented twin and storing
    one of them, each vertex storing a half-edge that originates at it) holds
    after every sequence of successful `flip_edge` and `split_edge` calls, each
    made on an edge between two distinct triangles of the mesh it is given. -/
theorem flip_split_preserve_wellformed (ops : List LocalOp) (m m' : Mesh)
    (wf : WellFormed m) (h : runOps m ops = some m') : WellFormed m' := by
  induction ops generalizing m with
  | nil =>
    simp only [runOps, Option.some.injEq] at h
    rw [← h]; exact wf
  | cons op ops ih =>
    simp only [runOps] at h
    split at h
    · rename_i m1 h1
      exact ih m1 (applyOp_wf m m1 op wf h1) h
    · simp at h

/-- Witness for C10 (amended): a flip of edge 0 of the tetrahedron, then a split
    of the same edge, then a flip of edge 1. -/
theorem flip_split_preserve_wellformed_witness :
    WellFormed tetra ∧
    ∃ m', runOps tetra [LocalOp.flip 0, LocalOp.split 0, LocalOp.flip 1] = some m' ∧
      WellFormed m' :=
  ⟨by decide, _, rfl,
    flip_split_preserve_wellformed [LocalOp.flip 0, LocalOp.split 0, LocalOp.flip 1] tetra _
      (by decide) rfl⟩

/-- Counterexample to C10 as stated: the folded face `spur` is well-formed, both
    sides of its edge 0 close after three `next` steps, so `split_edge` goes
    through and returns the new vertex 2, and the mesh it leaves is not
    well-formed. -/
theorem split_same_face_counterexample :
    WellFormed spur ∧ (split_edge spur 0).1 = some 2 ∧ ¬ WellFormed (split_edge spur 0).2 := by
  decide

/-- What the first loop of `process_outbound_edges` leaves: only origins
    change; with `t` the number of rounds, the half-edges that get the origin
    `v` are the `t` fan steps after `h`, none of them is `hstart`, and one step
    more leads to `hstart`. -/
theorem fanAssign_spec (dbg : Bool) (v hstart : Nat) :
    ∀ (fuel : Nat) (m : Mesh) (h : Nat) (m' : Mesh),
      fanAssign dbg v hstart fuel m h = some m' →
      ∃ f t, m' = { m with hVertex := f } ∧ t < fuel ∧ (fanStep m)^[t + 1] h = hstart ∧
        (∀ j, 1 ≤ j → j ≤ t → (fanStep m)^[j] h ≠ hstart) ∧
        (∀ g, (∃ j, 1 ≤ j ∧ j ≤ t ∧ (fanStep m)^[j] h = g) → f g = v) ∧
        (∀ g, (∀ j, 1 ≤ j → j ≤ t → (fanStep m)^[j] h ≠ g) → f g = m.hVertex g) := by
  intro fuel
  induction fuel with
  | zero => intro m h m' hh; simp [fanAssign] at hh
  | succ n ih =>
    intro m h m' hh
    unfold fanAssign at hh
    simp only at hh
    split_ifs at hh with c1 c2
    · simp only [Option.some.injEq] at hh
      subst hh
      refine ⟨m.hVertex, 0, rfl, by omega, ?_, ?_, ?_, ?_⟩
      · simpa [fanStep] using c1
      · intro j h1 h2; omega
      · rintro g ⟨j, h1, h2, -⟩; omega
      · intro g _; rfl
    · obtain ⟨f, t, e1, e2, e3, e4, e5, e6⟩ := ih _ _ _ hh
      have fs : fanStep (m.setVertex (m.hNext (m.hTwin h)) v) = fanStep m := rfl
      rw [fs] at e3 e4 e5 e6
      have it : ∀ j, (fanStep m)^[j] (m.hNext (m.hTwin h)) = (fanStep m)^[j + 1] h := by
        intro j; rw [Function.iterate_succ_apply]; rfl
      refine ⟨f, t + 1, ?_, by omega, ?_, ?_, ?_, ?_⟩
      · rw [e1]; rfl
      · rw [← it]; exact e3
      · intro j h1 h2
        rcases Nat.eq_or_lt_of_le h1 with r | r
        · rw [← r]; simpa [fanStep] using c1
        · obtain ⟨i, rfl⟩ : ∃ i, j = i + 1 := ⟨j - 1, by omega⟩
          rw [← it]; exact e4 i (by omega) (by omega)
      · rintro g ⟨j, h1, h2, h3⟩
        by_cases hg : ∃ i, 1 ≤ i ∧ i ≤ t ∧ (fanStep m)^[i] (m.hNext (m.hTwin h)) = g
        · exact e5 g hg
        · have : j = 1 := by
            by_contra hj
            obtain ⟨i, rfl⟩ : ∃ i, j = i + 1 := ⟨j - 1, by omega⟩
            exact hg ⟨i, by omega, by omega, by rw [it]; exact h3⟩
          subst this
          rw [e6 g (fun i a b c => hg ⟨i, a, b, c⟩)]
          have : m.hNext (m.hTwin h) = g := by simpa [fanStep] using h3
          simp [this]
      · intro g hg
        rw [e6 g (fun i a b => by rw [it]; exact hg (i + 1) (by omega) (by omega))]
        have : g ≠ m.hNext (m.hTwin h) := by
          intro hh2
          exact hg 1 (le_refl _) (by omega) (by simp [fanStep, hh2])
        simp [this]

/-- What the third loop of `process_outbound_edges` leaves: one `next` field
    is rewritten, the one of the half-edge before `hstart` on the cycle walked
    from `h`. -/
theorem unlink_spec (hstart : Nat) :
    ∀ (fuel : Nat) (m : Mesh) (h : Nat) (m' : Mesh),
      unlink hstart fuel m h = some m' →
      ∃ j, m.hNext (m.hNext^[j] h) = hstart ∧
        m' = m.setNext (m.hNext^[j] h) (m.hNext hstart) := by
  intro fuel
  induction fuel with
  | zero => intro m h m' hh; simp [unlink] at hh
  | succ n ih =>
    intro m h m' hh
    unfold unlink at hh
    simp only at hh
    split_ifs at hh with c1
    · simp only [Option.some.injEq] at hh
      exact ⟨0, c1, hh.symm⟩
    · obtain ⟨j, e1, e2⟩ := ih _ _ _ hh
      exact ⟨j + 1, by rw [Function.iterate_succ_apply]; exact e1,
        by rw [Function.iterate_succ_apply]; exact e2⟩

theorem process_spec (dbg : Bool) (v : Nat) (m : Mesh) (hstart : Nat) (m' : Mesh)
    (hh : process_outbound_edges dbg v m hstart = some m') :
    ∃ f t j, m' = processResult m v hstart (m.hNext^[j] hstart) f ∧
      m.hNext (m.hNext^[j] hstart) = hstart ∧
      t < m.nH ∧ (fanStep m)^[t + 1] hstart = hstart ∧
      (∀ i, 1 ≤ i → i ≤ t → (fanStep m)^[i] hstart ≠ hstart) ∧
      (∀ g, (∃ i, 1 ≤ i ∧ i ≤ t ∧ (fanStep m)^[i] hstart = g) → f g = v) ∧
      (∀ g, (∀ i, 1 ≤ i → i ≤ t → (fanStep m)^[i] hstart ≠ g) → f g = m.hVertex g) := by
  unfold process_outbound_edges at hh
  split at hh
  · simp at hh
  · rename_i m1 h1
    obtain ⟨f, t, e1, e2, e3, e4, e5, e6⟩ := fanAssign_spec dbg v hstart _ _ _ _ h1
    split at hh
    · simp at hh
    · split at hh
      · simp at hh
      · rename_i m2 h2
        obtain ⟨j, u1, u2⟩ := unlink_spec hstart _ _ _ _ h2
        simp only [Option.some.injEq] at hh
        subst e1
        refine ⟨f, t, j, ?_, u1, e2, e3, e4, e5, e6⟩
        rw [← hh, u2]
        rfl

theorem iterate_live (m : Mesh) (wf : WellFormed m) (h : Nat) (hl : hLive m h) :
    ∀ j, hLive m (m.hNext^[j] h) ∧ m.hFace (m.hNext^[j] h) = m.hFace h := by
  intro j
  induction j with
  | zero => exact ⟨hl, rfl⟩
  | succ j ih =>
    rw [Function.iterate_succ_apply']
    obtain ⟨q1, -, q3, -⟩ := wf.2.1.1 _ ih.1.1 ih.1.2
    exact ⟨q1, by rw [q3, ih.2]⟩

theorem next_inj (m : Mesh) (wf : WellFormed m) (x y : Nat) (hx : hLive m x) (hy : hLive m y)
    (h : m.hNext x = m.hNext y) : x = y := by
  obtain ⟨-, -, -, k, -, ck⟩ := wf.2.1.1 x hx.1 hx.2
  obtain ⟨-, -, -, l, -, cl⟩ := wf.2.1.1 y hy.1 hy.2
  have px : Function.IsPeriodicPt m.hNext ((k + 1) * (l + 1)) x :=
    Function.IsPeriodicPt.mul_const ck _
  have py : Function.IsPeriodicPt m.hNext ((k + 1) * (l + 1)) y :=
    Function.IsPeriodicPt.const_mul cl _
  obtain ⟨n, hn⟩ : ∃ n, (k + 1) * (l + 1) = n + 1 := ⟨(k + 1) * (l + 1) - 1, by
    have : 0 < (k + 1) * (l + 1) := Nat.mul_pos (by omega) (by omega)
    omega⟩
  rw [hn] at px py
  have ex : m.hNext^[n] (m.hNext x) = x := by
    rw [← Function.iterate_succ_apply]; exact px
  have ey : m.hNext^[n] (m.hNext y) = y := by
    rw [← Function.iterate_succ_apply]; exact py
  rw [← ex, ← ey, h]

theorem fan_live (m : Mesh) (wf : WellFormed m) (h : Nat) (hl : hLive m h) :
    ∀ j, hLive m ((fanStep m)^[j] h) ∧ m.hVertex ((fanStep m)^[j] h) = m.hVertex h := by
  intro j
  induction j with
  | zero => exact ⟨hl, rfl⟩
  | succ j ih =>
    rw [Function.iterate_succ_apply']
    obtain ⟨t1, t2, t3⟩ := wf.1 _ ih.1.1 ih.1.2
    obtain ⟨q1, -⟩ := wf.2.1.1 _ t1.1 t1.2
    have o := wf.2.2.2.2.2 _ t1.1 t1.2
    rw [t3] at o
    exact ⟨q1, by rw [← ih.2]; exact o⟩

theorem fan_mod (f : Nat → Nat) (h t : Nat) (hp : f^[t + 1] h = h) (k : Nat) :
    ∃ i, i ≤ t ∧ f^[k] h = f^[i] h := by
  have hp' : Function.IsPeriodicPt f (t + 1) h := hp
  refine ⟨k % (t + 1), ?_, (hp'.iterate_mod_apply k).symm⟩
  have := Nat.mod_lt k (show 0 < t + 1 by omega)
  omega

/-- When the face of `h0`, with `h0` taken out by rewriting the `next` of its
    predecessor `z`, passes the two-sides test of `process_outbound_edges`, the
    face was a triangle: `z` is the half-edge after `next h0`. -/
theorem merge_cond_triangle (m : Mesh) (wf : WellFormed m) (h0 z : Nat)
    (hl : hLive m h0) (zl : hLive m z) (hz : m.hNext z = h0)
    (c1 : m.hNext h0 = upd m.hNext z (m.hNext h0) (upd m.hNext z (m.hNext h0) (m.hNext h0)))
    (c2 : m.hEdge (m.hNext h0) ≠ m.hEdge (upd m.hNext z (m.hNext h0) (m.hNext h0))) :
    m.hNext h0 ≠ z ∧ m.hNext (m.hNext h0) = z := by
  have xl : hLive m (m.hNext h0) := (wf.2.1.1 _ hl.1 hl.2).1
  have yl : hLive m (m.hNext (m.hNext h0)) := (wf.2.1.1 _ xl.1 xl.2).1
  by_cases hx : m.hNext h0 = z
  · exfalso; apply c2
    simp [hx]
  · refine ⟨hx, ?_⟩
    simp only [upd_apply, hx, if_false] at c1
    by_contra hy
    simp only [hy, if_false] at c1
    have e1 : h0 = m.hNext (m.hNext h0) := next_inj m wf _ _ hl yl c1
    have e2 : m.hNext h0 = z := next_inj m wf _ _ xl zl (by rw [← e1, hz])
    exact hx e2

theorem processResult_frame (m : Mesh) (v hs z : Nat) (f : Nat → Nat) :
    (processResult m v hs z f).nV = m.nV ∧ (processResult m v hs z f).nH = m.nH ∧
    (processResult m v hs z f).nE = m.nE ∧ (processResult m v hs z f).nF = m.nF ∧
    (processResult m v hs z f).vPos = m.vPos ∧
    (processResult m v hs z f).hVertex = f ∧
    (processResult m v hs z f).hNext = upd m.hNext z (m.hNext hs) ∧
    (processResult m v hs z f).vErased (f hs) = true ∧
    (processResult m v hs z f).hErased hs = true ∧
    (∀ g, m.vErased g = true → (processResult m v hs z f).vErased g = true) ∧
    (∀ g, m.hErased g = true → (processResult m v hs z f).hErased g = true) ∧
    (∀ g, m.eErased g = true → (processResult m v hs z f).eErased g = true) := by
  unfold processResult
  simp only [Mesh.setNext, Mesh.setFHalfedge, Mesh.eraseV, Mesh.eraseH]
  split_ifs with c <;> simp [mergeTwoGon] <;>
    first
    | (refine ⟨?_, ?_, ?_⟩ <;> intro g hg <;> simp [hg])
    | (refine ⟨?_, ?_⟩ <;> intro g hg <;> simp [hg])

/-- The fields `process_outbound_edges` leaves when the face of `hstart` has
    shrunk to the two half-edges `x` and `y` and these are merged. -/
theorem processResult_merge (M : Mesh) (v hs z x y : Nat) (f : Nat → Nat)
    (hx : upd M.hNext z (M.hNext hs) hs = x) (hy : upd M.hNext z (M.hNext hs) x = y)
    (c1 : x = upd M.hNext z (M.hNext hs) y) (c2 : M.hEdge x ≠ M.hEdge y)
    (tx : M.hTwin x ≠ x) (ty : M.hTwin y ≠ y) :
    (processResult M v hs z f).hTwin =
      upd (upd M.hTwin (M.hTwin x) (M.hTwin y)) (M.hTwin y) (M.hTwin x) ∧
    (processResult M v hs z f).hEdge = upd M.hEdge (M.hTwin x) (M.hEdge y) ∧
    (processResult M v hs z f).eHalfedge = upd M.eHalfedge (M.hEdge y) (M.hTwin x) ∧
    (processResult M v hs z f).vHalfedge =
      upd (upd (upd M.vHalfedge (f x) (M.hTwin y)) (f y) (M.hTwin x)) v (M.hTwin y) ∧
    (processResult M v hs z f).fHalfedge = upd M.fHalfedge (M.hFace hs) x ∧
    (processResult M v hs z f).hFace = M.hFace ∧
    (processResult M v hs z f).fErased = upd M.fErased (M.hFace x) true ∧
    (processResult M v hs z f).eErased = upd M.eErased (M.hEdge x) true ∧
    (processResult M v hs z f).hErased = upd (upd (upd M.hErased y true) x true) hs true ∧
    (processResult M v hs z f).vErased = upd M.vErased (f hs) true ∧
    (processResult M v hs z f).fBoundary = M.fBoundary := by
  have C : upd M.hNext z (M.hNext hs) hs =
      upd M.hNext z (M.hNext hs)
        (upd M.hNext z (M.hNext hs) (upd M.hNext z (M.hNext hs) hs)) ∧
    M.hEdge (upd M.hNext z (M.hNext hs) hs) ≠
      M.hEdge (upd M.hNext z (M.hNext hs) (upd M.hNext z (M.hNext hs) hs)) := by
    rw [hx, hy]; exact ⟨c1, c2⟩
  have e1 : upd M.hTwin (M.hTwin x) (M.hTwin y) y = M.hTwin y := by
    simp only [upd_apply]; split_ifs <;> rfl
  have e2 : upd M.hTwin (M.hTwin x) (M.hTwin y) x = M.hTwin x := by
    simp only [upd_apply, tx.symm, if_false]
  have e3 : upd (upd M.hTwin (M.hTwin x) (M.hTwin y)) (M.hTwin y) (M.hTwin x) x = M.hTwin x := by
    simp only [upd_apply, tx.symm, if_false]; split_ifs <;> rfl
  have e4 : upd (upd M.hTwin (M.hTwin x) (M.hTwin y)) (M.hTwin y) (M.hTwin x) y = M.hTwin y := by
    simp only [upd_apply, ty.symm, if_false]; split_ifs <;> rfl
  have e5 : upd M.hEdge (M.hTwin x) (M.hEdge y) (M.hTwin x) = M.hEdge y := by
    simp only [upd_apply, if_true]
  have e6 : upd M.hEdge (M.hTwin x) (M.hEdge y) x = M.hEdge x := by
    simp only [upd_apply, tx.symm, if_false]
  unfold processResult
  simp only [Mesh.setNext, Mesh.setFHalfedge, Mesh.eraseV, Mesh.eraseH]
  rw [if_pos C]
  simp only [mergeTwoGon, Mesh.setVHalfedge, Mesh.setTwin, Mesh.setEdge, Mesh.setEHalfedge,
    Mesh.eraseF, Mesh.eraseE, Mesh.eraseH, hx, hy, e1, e2, e3, e4, e5, e6, and_self]

/-- The fields `process_outbound_edges` leaves when no face is merged away. -/
theorem processResult_nomerge (M : Mesh) (v hs z x y : Nat) (f : Nat → Nat)
    (hx : upd M.hNext z (M.hNext hs) hs = x) (hy : upd M.hNext z (M.hNext hs) x = y)
    (c : ¬ (x = upd M.hNext z (M.hNext hs) y ∧ M.hEdge x ≠ M.hEdge y)) :
    (processResult M v hs z f).hTwin = M.hTwin ∧
    (processResult M v hs z f).hEdge = M.hEdge ∧
    (processResult M v hs z f).eHalfedge = M.eHalfedge ∧
    (processResult M v hs z f).vHalfedge = M.vHalfedge ∧
    (processResult M v hs z f).fHalfedge = upd M.fHalfedge (M.hFace hs) x ∧
    (processResult M v hs z f).hFace = M.hFace ∧
    (processResult M v hs z f).fErased = M.fErased ∧
    (processResult M v hs z f).eErased = M.eErased ∧
    (processResult M v hs z f).hErased = upd M.hErased hs true ∧
    (processResult M v hs z f).vErased = upd M.vErased (f hs) true ∧
    (processResult M v hs z f).fBoundary = M.fBoundary := by
  have C : ¬ (upd M.hNext z (M.hNext hs) hs =
      upd M.hNext z (M.hNext hs)
        (upd M.hNext z (M.hNext hs) (upd M.hNext z (M.hNext hs) hs)) ∧
    M.hEdge (upd M.hNext z (M.hNext hs) hs) ≠
      M.hEdge (upd M.hNext z (M.hNext hs) (upd M.hNext z (M.hNext hs) hs))) := by
    rw [hx, hy]; exact c
  unfold processResult
  simp only [Mesh.setNext, Mesh.setFHalfedge, Mesh.eraseV, Mesh.eraseH]
  rw [if_neg C]
  simp only [hx, and_self]

/-- What the first call of `process_outbound_edges` in `collapse_edge` leaves
    untouched: the representative of `e`, the twin of that half-edge, and the
    fan walk around the other endpoint of `e`. -/
theorem collapse_first_call (m M : Mesh) (e v z : Nat) (f : Nat → Nat)
    (hv : Valid m) (he : eLive m e)
    (guard : m.hTwin (m.eHalfedge e) ≠ m.hNext (m.eHalfedge e))
    (eT : M.hTwin = m.hTwin) (eN : M.hNext = m.hNext) (eE : M.hEdge = m.hEdge)
    (eEH : M.eHalfedge = m.eHalfedge)
    (zl : hLive m z) (hzn : m.hNext z = m.eHalfedge e) :
    (processResult M v (m.eHalfedge e) z f).eHalfedge e = m.eHalfedge e ∧
    (processResult M v (m.eHalfedge e) z f).hTwin (m.eHalfedge e) = m.hTwin (m.eHalfedge e) ∧
    (∀ u, hLive m u → m.hVertex u = m.hVertex (m.hTwin (m.eHalfedge e)) →
      fanStep (processResult M v (m.eHalfedge e) z f) u = fanStep m u) := by
  obtain ⟨wf, fan, nl⟩ := hv
  obtain ⟨tw, ⟨fo1, fo2⟩, ⟨eo1, eo2⟩, vo1, vo2, vo3⟩ := wf
  have wf : WellFormed m := ⟨tw, ⟨fo1, fo2⟩, ⟨eo1, eo2⟩, vo1, vo2, vo3⟩
  obtain ⟨hl, ed0⟩ := eo2 e he.1 he.2
  generalize hh0 : m.eHalfedge e = h0 at *
  obtain ⟨l1, t1, t2⟩ := tw h0 hl.1 hl.2
  have xl : hLive m (m.hNext h0) := (fo1 h0 hl.1 hl.2).1
  have yl : hLive m (m.hNext (m.hNext h0)) := (fo1 _ xl.1 xl.2).1
  have ab : m.hVertex (m.hTwin h0) ≠ m.hVertex h0 := nl h0 hl.1 hl.2
  have ox := vo3 h0 hl.1 hl.2
  have oz := vo3 z zl.1 zl.2
  rw [hzn] at oz
  have hx0 : m.hNext h0 ≠ h0 := by
    intro hh; rw [hh] at ox; exact ab ox.symm
  have hx : upd M.hNext z (M.hNext h0) h0 = m.hNext h0 := by
    rw [eN]; simp only [upd_apply]; split_ifs <;> rfl
  obtain ⟨-, -, -, -, -, -, fN, -⟩ := processResult_frame M v h0 z f
  have twin_back : ∀ u w, hLive m u → m.hTwin u = w → m.hTwin w = u := by
    intro u w hu huw; rw [← huw]; exact (tw u hu.1 hu.2).2.2
  have nextOK : ∀ u, hLive m u → m.hVertex u = m.hVertex (m.hTwin h0) →
      upd M.hNext z (M.hNext h0) (m.hTwin u) = m.hNext (m.hTwin u) := by
    intro u hu huv
    have : m.hTwin u ≠ z := by
      intro hh
      have := twin_back u z hu hh
      rw [← this, ← oz] at huv
      exact ab huv.symm
    rw [eN]; simp [this]
  by_cases C : m.hNext h0 = upd M.hNext z (M.hNext h0) (upd M.hNext z (M.hNext h0) (m.hNext h0)) ∧
      M.hEdge (m.hNext h0) ≠ M.hEdge (upd M.hNext z (M.hNext h0) (m.hNext h0))
  · obtain ⟨c1, c2⟩ := C
    have c1' := c1
    have c2' := c2
    rw [eN] at c1'
    rw [eN, eE] at c2'
    obtain ⟨xz, yz⟩ := merge_cond_triangle m wf h0 z hl zl hzn c1' c2'
    have hy : upd M.hNext z (M.hNext h0) (m.hNext h0) = m.hNext (m.hNext h0) := by
      rw [eN]; simp [xz]
    rw [hy] at c1 c2
    obtain ⟨lx, tx1, tx2⟩ := tw _ xl.1 xl.2
    obtain ⟨ly, ty1, ty2⟩ := tw _ yl.1 yl.2
    obtain ⟨pT, pE, pEH, -⟩ := processResult_merge M v h0 z _ _ f hx hy c1 c2
      (by rw [eT]; exact tx1) (by rw [eT]; exact ty1)
    rw [eT] at pT
    rw [eT, eE, eEH] at pEH
    have oxx := vo3 _ xl.1 xl.2
    have oyy := vo3 _ yl.1 yl.2
    have ny : m.hNext (m.hNext (m.hNext h0)) = h0 := by rw [yz]; exact hzn
    rw [ny] at oyy
    have nlx := nl _ xl.1 xl.2
    -- the origin of y is not b, the origin of twin y is a
    have vy : m.hVertex (m.hNext (m.hNext h0)) ≠ m.hVertex (m.hTwin h0) := by
      rw [oxx, ← ox]; exact nlx
    have y1 : m.hNext (m.hNext h0) ≠ m.hTwin h0 := fun hh => vy (by rw [hh])
    have y0 : m.hNext (m.hNext h0) ≠ h0 := by
      intro hh; rw [yz] at hh; rw [hh] at hzn; exact hx0 hzn
    have ey : m.hEdge (m.hNext (m.hNext h0)) ≠ e := by
      intro hh
      rcases (eo1 h0 hl.1 hl.2).2.2 _ yl.1 yl.2 (by rw [hh, ed0]) with r | r
      · exact y0 r
      · exact y1 r
    have n1 : h0 ≠ m.hTwin (m.hNext h0) := by
      intro hh; exact guard (twin_back _ _ xl hh.symm)
    have n2 : h0 ≠ m.hTwin (m.hNext (m.hNext h0)) := by
      intro hh; exact y1 (twin_back _ _ yl hh.symm).symm
    refine ⟨?_, ?_, ?_⟩
    · rw [pEH]; simp [Ne.symm ey, hh0]
    · rw [pT]; simp [n1, n2]
    · intro u hu huv
      have u1 : u ≠ m.hTwin (m.hNext h0) := by
        intro hh; rw [hh, ← oxx] at huv; exact vy huv
      have u2 : u ≠ m.hTwin (m.hNext (m.hNext h0)) := by
        intro hh; rw [hh, ← oyy] at huv; exact ab huv.symm
      unfold fanStep
      rw [fN, pT]
      simp only [upd_apply, u1, u2, if_false]
      have := nextOK u hu huv
      simpa only [upd_apply] using this
  · have hy : upd M.hNext z (M.hNext h0) (m.hNext h0) =
        upd M.hNext z (M.hNext h0) (m.hNext h0) := rfl
    obtain ⟨pT, pE, pEH, -⟩ := processResult_nomerge M v h0 z _ _ f hx hy C
    rw [eT] at pT
    rw [eEH] at pEH
    refine ⟨?_, ?_, ?_⟩
    · rw [pEH, hh0]
    · rw [pT]
    · intro u hu huv
      unfold fanStep
      rw [fN, pT]
      exact nextOK u hu huv


theorem can_collapse_guard (dbg : Bool) (m : Mesh) (e : Nat)
    (h : can_collapse_edge dbg m e = some true) :
    m.hTwin (m.eHalfedge e) ≠ m.hNext (m.eHalfedge e) := by
  intro hh
  simp [can_collapse_edge, hh] at h

/-- The two calls of `process_outbound_edges` behind a successful
    `collapse_edge`, with their loops replaced by what they leave. -/
theorem collapse_edge_spec (dbg : Bool) (m m' : Mesh) (e v : Nat)
    (hc : collapse_edge dbg m e = some (some v, m')) :
    can_collapse_edge dbg m e = some true ∧ v = m.nV ∧
    ∃ m1 m2,
      process_outbound_edges dbg m.nV
        ((m.new_vertex.2.setVHalfedge m.nV (m.hNext (m.eHalfedge e))).setPos m.nV (m.center e))
        (m.eHalfedge e) = some m1 ∧
      process_outbound_edges dbg m.nV m1 (m1.hTwin (m1.eHalfedge e)) = some m2 ∧
      m' = m2.eraseE e := by
  unfold collapse_edge at hc
  split at hc
  · simp at hc
  · simp at hc
  · rename_i hcc
    simp only at hc
    split at hc
    · simp at hc
    · rename_i m1 h1
      split at hc
      · simp at hc
      · rename_i m2 h2
        simp only [Option.some.injEq, Prod.mk.injEq] at hc
        exact ⟨hcc, hc.1.symm, m1, m2, h1, h2, hc.2.symm⟩

/-- C8: on a mesh that satisfies the invariants 1 to 5, when `collapse_edge`
    returns a vertex for a live edge `e`, that vertex is the one vertex the
    call has created, its position is the midpoint of the positions of the two
    endpoints of `e`, both endpoints and `e` are marked erased, and every
    half-edge that originated at one of the two endpoints and is not marked
    erased after the call originates at the returned vertex. -/
theorem collapse_edge_merges_endpoints (dbg : Bool) (m m' : Mesh) (e v : Nat)
    (hv : Valid m) (he : eLive m e)
    (hc : collapse_edge dbg m e = some (some v, m')) :
    v = m.nV ∧ m'.nV = m.nV + 1 ∧
    m'.vPos v = Vec3.smul (1 / 2)
      (Vec3.add (m.vPos (m.hVertex (m.eHalfedge e)))
        (m.vPos (m.hVertex (m.hTwin (m.eHalfedge e))))) ∧
    m'.vErased (m.hVertex (m.eHalfedge e)) = true ∧
    m'.vErased (m.hVertex (m.hTwin (m.eHalfedge e))) = true ∧
    m'.eErased e = true ∧
    ∀ h, h < m.nH →
      (m.hVertex h = m.hVertex (m.eHalfedge e) ∨
        m.hVertex h = m.hVertex (m.hTwin (m.eHalfedge e))) →
      m'.hErased h = false → m'.hVertex h = v := by
  obtain ⟨hcc, rfl, m1, m2, p1, p2, rfl⟩ := collapse_edge_spec dbg m m' e v hc
  have guard := can_collapse_guard dbg m e hcc
  have wf := hv.1
  obtain ⟨hl, ed0⟩ := wf.2.2.1.2 e he.1 he.2
  obtain ⟨l1, t1, t2⟩ := wf.1 _ hl.1 hl.2
  have ab : m.hVertex (m.hTwin (m.eHalfedge e)) ≠ m.hVertex (m.eHalfedge e) :=
    hv.2.2 _ hl.1 hl.2
  generalize hM : (m.new_vertex.2.setVHalfedge m.nV (m.hNext (m.eHalfedge e))).setPos m.nV
    (m.center e) = M at p1
  have MT : M.hTwin = m.hTwin := by rw [← hM]; rfl
  have MN : M.hNext = m.hNext := by rw [← hM]; rfl
  have ME : M.hEdge = m.hEdge := by rw [← hM]; rfl
  have MV : M.hVertex = m.hVertex := by rw [← hM]; rfl
  have MEH : M.eHalfedge = m.eHalfedge := by rw [← hM]; rfl
  have MnH : M.nH = m.nH := by rw [← hM]; rfl
  have MnV : M.nV = m.nV + 1 := by rw [← hM]; rfl
  have MP : M.vPos m.nV = m.center e := by rw [← hM]; simp
  have MHX : M.hErased = m.hErased := by rw [← hM]; rfl
  have fsM : fanStep M = fanStep m := by unfold fanStep; rw [MT, MN]
  obtain ⟨f1, t1', j1, r1, z1, a2, a3, a4, a5, a6⟩ := process_spec dbg _ _ _ _ p1
  rw [MN] at z1 r1
  rw [fsM] at a3 a4 a5 a6
  rw [MV] at a6
  have zl := (iterate_live m wf _ hl j1).1
  obtain ⟨k1, k2, k3⟩ := collapse_first_call m M e m.nV _ f1 hv he guard MT MN ME MEH zl z1
  rw [← r1] at k1 k2 k3
  obtain ⟨q1, q2, q3, q4, q5, q6, q7, q8, q9, q10, q11, q12⟩ :=
    processResult_frame M m.nV (m.eHalfedge e) (m.hNext^[j1] (m.eHalfedge e)) f1
  rw [← r1] at q1 q2 q3 q4 q5 q6 q7 q8 q9 q10 q11 q12
  rw [k1, k2] at p2
  obtain ⟨f2, t2', j2, r2, z2, b2, b3, b4, b5, b6⟩ := process_spec dbg _ _ _ _ p2
  obtain ⟨s1, s2, s3, s4, s5, s6, s7, s8, s9, s10, s11, s12⟩ :=
    processResult_frame m1 m.nV (m.hTwin (m.eHalfedge e))
      (m1.hNext^[j2] (m.hTwin (m.eHalfedge e))) f2
  rw [← r2] at s1 s2 s3 s4 s5 s6 s7 s8 s9 s10 s11 s12
  -- the fan of the second endpoint is the same before and after the first call
  have fan2 : ∀ i, (fanStep m1)^[i] (m.hTwin (m.eHalfedge e)) =
      (fanStep m)^[i] (m.hTwin (m.eHalfedge e)) := by
    intro i
    induction i with
    | zero => rfl
    | succ i ih =>
      rw [Function.iterate_succ_apply', Function.iterate_succ_apply', ih]
      obtain ⟨w1, w2⟩ := fan_live m wf _ l1 i
      exact k3 _ w1 w2
  simp only [fan2] at b3 b4 b5 b6
  rw [q6] at b6
  -- origins of the two half-edges of e after the loops
  have f1h0 : f1 (m.eHalfedge e) = m.hVertex (m.eHalfedge e) := a6 _ a4
  have f1h1 : f1 (m.hTwin (m.eHalfedge e)) = m.hVertex (m.hTwin (m.eHalfedge e)) := by
    apply a6
    intro i _ _ hh
    have := (fan_live m wf _ hl i).2
    rw [hh] at this
    exact ab this
  have f2h1 : f2 (m.hTwin (m.eHalfedge e)) = m.hVertex (m.hTwin (m.eHalfedge e)) := by
    rw [b6 _ b4, f1h1]
  rw [f1h0] at q8
  rw [f2h1] at s8
  refine ⟨rfl, ?_, ?_, ?_, ?_, ?_, ?_⟩
  · show m2.nV = m.nV + 1
    rw [s1, q1, MnV]
  · show m2.vPos m.nV = _
    rw [s5, q5, MP]; rfl
  · show m2.vErased _ = true
    exact s10 _ q8
  · show m2.vErased _ = true
    exact s8
  · simp
  · intro h hlt hor her
    show m2.hVertex h = m.nV
    have her2 : m2.hErased h = false := her
    have her1 : m1.hErased h = false := by
      by_contra hh
      simp only [Bool.not_eq_false] at hh
      rw [s11 _ hh] at her2
      exact Bool.noConfusion her2
    have her0 : m.hErased h = false := by
      by_contra hh
      simp only [Bool.not_eq_false] at hh
      rw [← MHX] at hh
      rw [q11 _ hh] at her1
      exact Bool.noConfusion her1
    rw [s6]
    rcases hor with ha | hb
    · obtain ⟨k, -, hk⟩ := hv.2.1 _ hl.1 hl.2 h hlt her0 ha.symm
      obtain ⟨i, hi, hki⟩ := fan_mod (fanStep m) _ _ a3 k
      rw [hki] at hk
      have i0 : i ≠ 0 := by
        rintro rfl
        simp only [Function.iterate_zero, id_eq] at hk
        rw [← hk, q9] at her1
        exact Bool.noConfusion her1
      have v1 : f1 h = m.nV := a5 h ⟨i, by omega, hi, hk⟩
      by_cases hw : ∃ i, 1 ≤ i ∧ i ≤ t2' ∧ (fanStep m)^[i] (m.hTwin (m.eHalfedge e)) = h
      · exact b5 h hw
      · rw [b6 h (fun i x y z => hw ⟨i, x, y, z⟩), v1]
    · obtain ⟨k, -, hk⟩ := hv.2.1 _ l1.1 l1.2 h hlt her0 hb.symm
      obtain ⟨i, hi, hki⟩ := fan_mod (fanStep m) _ _ b3 k
      rw [hki] at hk
      have i0 : i ≠ 0 := by
        rintro rfl
        simp only [Function.iterate_zero, id_eq] at hk
        rw [← hk, s9] at her2
        exact Bool.noConfusion her2
      exact b5 h ⟨i, by omega, hi, hk⟩

/-- Witness for C8: collapsing edge 0 of the tetrahedron, which joins the
    vertices 0 and 1, returns the new vertex 4. -/
theorem collapse_edge_merges_endpoints_witness :
    Valid tetra ∧ ∃ m', collapse_edge true tetra 0 = some (some 4, m') ∧ m'.nV = 5 ∧
      m'.vErased 0 = true ∧ m'.vErased 1 = true ∧ m'.eErased 0 = true :=
  ⟨by decide, _, rfl,
    (collapse_edge_merges_endpoints true tetra _ 0 4 (by decide) (by decide) rfl).2.1,
    (collapse_edge_merges_endpoints true tetra _ 0 4 (by decide) (by decide) rfl).2.2.2.1,
    (collapse_edge_merges_endpoints true tetra _ 0 4 (by decide) (by decide) rfl).2.2.2.2.1,
    (collapse_edge_merges_endpoints true tetra _ 0 4 (by decide) (by decide) rfl).2.2.2.2.2.1⟩

/-! ## collapse_edge: edges between the same two vertices -/

/-- What a completed fan walk of `can_collapse_edge` has checked: every end of
    a visited half-edge is in the returned set, the set only grows, and a
    visited half-edge whose end was in the set the walk started with has one of
    its two faces in the whitelist. -/
theorem fanScan_spec (dbg : Bool) (m : Mesh) (wl : List Nat) (hstart : Nat) :
    ∀ (fuel h : Nat) (seen seen' : List Nat),
      fanScan dbg m wl hstart fuel h seen = some (some seen') →
      ∃ t, (fanStep m)^[t + 1] h = hstart ∧
        (∀ j, j ≤ t → m.hVertex (m.hTwin ((fanStep m)^[j] h)) ∈ seen') ∧
        (∀ x, x ∈ seen → x ∈ seen') ∧
        (∀ j, j ≤ t → m.hVertex (m.hTwin ((fanStep m)^[j] h)) ∈ seen →
          m.hFace ((fanStep m)^[j] h) ∈ wl ∨ m.hFace (m.hTwin ((fanStep m)^[j] h)) ∈ wl) := by
  intro fuel
  induction fuel with
  | zero => intro h seen seen' hh; simp [fanScan] at hh
  | succ n ih =>
    intro h seen seen' hh
    unfold fanScan at hh
    simp only at hh
    split_ifs at hh with c1 c2 c3
    · simp at hh
    · simp only [Option.some.injEq] at hh
      subst hh
      have wlh : m.hVertex (m.hTwin h) ∈ seen →
          m.hFace h ∈ wl ∨ m.hFace (m.hTwin h) ∈ wl := by
        intro hs
        by_contra hn
        simp only [not_or] at hn
        apply c2
        simp [hs, hn.1, hn.2]
      refine ⟨0, by simpa [fanStep] using c3, ?_, ?_, ?_⟩
      · intro j hj
        obtain rfl : j = 0 := by omega
        simp
      · intro x hx; simp [hx]
      · intro j hj
        obtain rfl : j = 0 := by omega
        simpa using wlh
    · obtain ⟨t, e1, e2, e3, e4⟩ := ih _ _ _ hh
      have wlh : m.hVertex (m.hTwin h) ∈ seen →
          m.hFace h ∈ wl ∨ m.hFace (m.hTwin h) ∈ wl := by
        intro hs
        by_contra hn
        simp only [not_or] at hn
        apply c2
        simp [hs, hn.1, hn.2]
      have it : ∀ j, (fanStep m)^[j] (m.hNext (m.hTwin h)) = (fanStep m)^[j + 1] h := by
        intro j; rw [Function.iterate_succ_apply]; rfl
      refine ⟨t + 1, by rw [← it]; exact e1, ?_, ?_, ?_⟩
      · intro j hj
        rcases Nat.eq_zero_or_pos j with rfl | hp
        · exact e3 _ (by simp)
        · obtain ⟨i, rfl⟩ : ∃ i, j = i + 1 := ⟨j - 1, by omega⟩
          rw [← it]; exact e2 i (by omega)
      · intro x hx; exact e3 x (by simp [hx])
      · intro j hj hs
        rcases Nat.eq_zero_or_pos j with rfl | hp
        · simpa using wlh (by simpa using hs)
        · obtain ⟨i, rfl⟩ : ∃ i, j = i + 1 := ⟨j - 1, by omega⟩
          rw [← it] at hs ⊢
          exact e4 i (by omega) (by simp [hs])

/-- What `can_collapse_edge` has checked when it returns `true`: a half-edge of
    the fan of `e`'s twin whose end is also the end of a half-edge of the fan
    of `e`'s half-edge has a face of `e` on one of its two sides. -/
theorem can_collapse_spec (dbg : Bool) (m : Mesh) (e : Nat)
    (h : can_collapse_edge dbg m e = some true) :
    m.hTwin (m.eHalfedge e) ≠ m.hNext (m.eHalfedge e) ∧
    ∃ t1 t2, (fanStep m)^[t1 + 1] (m.eHalfedge e) = m.eHalfedge e ∧
      (fanStep m)^[t2 + 1] (m.hTwin (m.eHalfedge e)) = m.hTwin (m.eHalfedge e) ∧
      ∀ i j, i ≤ t1 → j ≤ t2 →
        m.hVertex (m.hTwin ((fanStep m)^[j] (m.hTwin (m.eHalfedge e)))) =
          m.hVertex (m.hTwin ((fanStep m)^[i] (m.eHalfedge e))) →
        (m.hFace ((fanStep m)^[j] (m.hTwin (m.eHalfedge e))) = m.hFace (m.eHalfedge e) ∨
         m.hFace ((fanStep m)^[j] (m.hTwin (m.eHalfedge e))) =
            m.hFace (m.hTwin (m.eHalfedge e))) ∨
        (m.hFace (m.hTwin ((fanStep m)^[j] (m.hTwin (m.eHalfedge e)))) =
            m.hFace (m.eHalfedge e) ∨
         m.hFace (m.hTwin ((fanStep m)^[j] (m.hTwin (m.eHalfedge e)))) =
            m.hFace (m.hTwin (m.eHalfedge e))) := by
  unfold can_collapse_edge at h
  split_ifs at h with g
  · simp at h
  simp only at h
  split at h
  · simp at h
  · simp at h
  · rename_i seen hs1
    split at h
    · simp at h
    · simp at h
    · rename_i seen2 hs2
      obtain ⟨t1, a1, a2, a3, a4⟩ := fanScan_spec dbg m _ _ _ _ _ _ hs1
      obtain ⟨t2, b1, b2, b3, b4⟩ := fanScan_spec dbg m _ _ _ _ _ _ hs2
      refine ⟨g, t1, t2, a1, b1, ?_⟩
      intro i j hi hj hv
      have := b4 j hj (by rw [hv]; exact a2 i hi)
      simpa using this

/-- The fields `process_outbound_edges` leaves, with the merge of the two-sided
    face as a flag. -/
theorem processResult_fields (M : Mesh) (v hs z x y : Nat) (f : Nat → Nat) (A : Bool)
    (hx : upd M.hNext z (M.hNext hs) hs = x) (hy : upd M.hNext z (M.hNext hs) x = y)
    (hA : A = true ↔ (x = upd M.hNext z (M.hNext hs) y ∧ M.hEdge x ≠ M.hEdge y))
    (tx : A = true → M.hTwin x ≠ x) (ty : A = true → M.hTwin y ≠ y) :
    (processResult M v hs z f).hTwin = mergeTwin M.hTwin A x y ∧
    (processResult M v hs z f).hEdge = mergeEdge M.hTwin M.hEdge A x y ∧
    (processResult M v hs z f).hFace = M.hFace ∧
    (processResult M v hs z f).fErased = mergeFlag M.fErased A (M.hFace x) ∧
    (processResult M v hs z f).eErased = mergeFlag M.eErased A (M.hEdge x) ∧
    (processResult M v hs z f).hErased = upd (mergeFlag (mergeFlag M.hErased A y) A x) hs true := by
  cases A with
  | true =>
    obtain ⟨c1, c2⟩ := hA.1 rfl
    obtain ⟨p1, p2, -, -, -, p6, p7, p8, p9, -⟩ :=
      processResult_merge M v hs z x y f hx hy c1 c2 (tx rfl) (ty rfl)
    exact ⟨p1, p2, p6, p7, p8, p9⟩
  | false =>
    have c : ¬ (x = upd M.hNext z (M.hNext hs) y ∧ M.hEdge x ≠ M.hEdge y) := by
      intro hh; have := hA.2 hh; exact Bool.noConfusion this
    obtain ⟨p1, p2, -, -, -, p6, p7, p8, p9, -⟩ :=
      processResult_nomerge M v hs z x y f hx hy c
    exact ⟨p1, p2, p6, p7, p8, p9⟩

theorem wf_twin {m : Mesh} (wf : WellFormed m) {g : Nat} (hl : hLive m g) :
    hLive m (m.hTwin g) ∧ m.hTwin g ≠ g ∧ m.hTwin (m.hTwin g) = g :=
  wf.1 g hl.1 hl.2

theorem wf_next {m : Mesh} (wf : WellFormed m) {g : Nat} (hl : hLive m g) :
    hLive m (m.hNext g) ∧ m.hFace (m.hNext g) = m.hFace g ∧
    m.hVertex (m.hNext g) = m.hVertex (m.hTwin g) :=
  ⟨(wf.2.1.1 g hl.1 hl.2).1, (wf.2.1.1 g hl.1 hl.2).2.2.1, wf.2.2.2.2.2 g hl.1 hl.2⟩

theorem wf_edge {m : Mesh} (wf : WellFormed m) {g : Nat} (hl : hLive m g) :
    eLive m (m.hEdge g) ∧ m.hEdge (m.hTwin g) = m.hEdge g ∧
    ∀ g', hLive m g' → m.hEdge g' = m.hEdge g → g' = g ∨ g' = m.hTwin g :=
  ⟨(wf.2.2.1.1 g hl.1 hl.2).1, (wf.2.2.1.1 g hl.1 hl.2).2.1,
    fun g' hg' => (wf.2.2.1.1 g hl.1 hl.2).2.2 g' hg'.1 hg'.2⟩

theorem twin_inj {m : Mesh} (wf : WellFormed m) {x y : Nat} (hx : hLive m x) (hy : hLive m y)
    (h : m.hTwin x = m.hTwin y) : x = y := by
  rw [← (wf_twin wf hx).2.2, ← (wf_twin wf hy).2.2, h]

theorem edgeNbhd_of (m : Mesh) (e : Nat) (hv : Valid m) (sf : SimpleFaces m) (he : eLive m e)
    (guard : m.hTwin (m.eHalfedge e) ≠ m.hNext (m.eHalfedge e)) :
    EdgeNbhd m e (m.eHalfedge e) (m.hTwin (m.eHalfedge e)) (m.hNext (m.eHalfedge e))
      (m.hNext (m.hNext (m.eHalfedge e))) (m.hNext (m.hTwin (m.eHalfedge e)))
      (m.hVertex (m.eHalfedge e)) (m.hVertex (m.hTwin (m.eHalfedge e)))
      (m.hFace (m.eHalfedge e)) (m.hFace (m.hTwin (m.eHalfedge e))) := by
  obtain ⟨wf, fan, nl⟩ := hv
  obtain ⟨hl, ed0⟩ := wf.2.2.1.2 e he.1 he.2
  obtain ⟨l1, t1, t2⟩ := wf_twin wf hl
  obtain ⟨lx, fx, vx⟩ := wf_next wf hl
  obtain ⟨ly, fy, vy⟩ := wf_next wf lx
  obtain ⟨ls, fs, vs⟩ := wf_next wf l1
  have ab := nl _ hl.1 hl.2
  refine ⟨rfl, rfl, t2, rfl, rfl, rfl, rfl, rfl, vx, by rw [vs, t2], Ne.symm ab, rfl, fx,
    by rw [fy, fx], rfl, fs, ?_, hl, l1, lx, ly, ls, ed0, by rw [(wf_edge wf hl).2.1, ed0]⟩
  intro hf
  apply guard
  exact sf _ l1.1 _ lx.1 l1.2 lx.2 (by rw [fx, hf]) vx.symm

theorem mergeTwin_ne {m : Mesh} (wf : WellFormed m) (A : Bool) {x y : Nat}
    (lx : hLive m x) (ly : hLive m y) (hxy : A = true → x ≠ y) {u : Nat} (lu : hLive m u) :
    mergeTwin m.hTwin A x y u ≠ u := by
  cases A with
  | false => exact (wf_twin wf lu).2.1
  | true =>
    have xy := hxy rfl
    have txy : m.hTwin x ≠ m.hTwin y := fun h => xy (twin_inj wf lx ly h)
    simp only [mergeTwin, if_true, upd_apply]
    split_ifs with h1 h2
    · rw [h1]; exact txy
    · rw [h2]; exact Ne.symm txy
    · exact (wf_twin wf lu).2.1

/-- The first call of `process_outbound_edges` in `collapse_edge`: it merges
    the face of `h0` away exactly when that face is a triangle. -/
theorem collapse_call1 {m : Mesh} {e h0 h1 x1 y1 s a b f0 f1 : Nat}
    (nb : EdgeNbhd m e h0 h1 x1 y1 s a b f0 f1) (wf : WellFormed m)
    (M : Mesh) (v z : Nat) (f : Nat → Nat)
    (MT : M.hTwin = m.hTwin) (MN : M.hNext = m.hNext) (ME : M.hEdge = m.hEdge)
    (MF : M.hFace = m.hFace) (MHX : M.hErased = m.hErased) (MEX : M.eErased = m.eErased)
    (MFX : M.fErased = m.fErased) (zl : hLive m z) (hz : m.hNext z = h0) :
    ∃ A1 : Bool, (A1 = true ↔ (m.hNext y1 = h0 ∧ m.hEdge x1 ≠ m.hEdge y1)) ∧
      (processResult M v h0 z f).hTwin = mergeTwin m.hTwin A1 x1 y1 ∧
      (processResult M v h0 z f).hEdge = mergeEdge m.hTwin m.hEdge A1 x1 y1 ∧
      (processResult M v h0 z f).hFace = m.hFace ∧
      (processResult M v h0 z f).fErased = mergeFlag m.fErased A1 (m.hFace x1) ∧
      (processResult M v h0 z f).eErased = mergeFlag m.eErased A1 (m.hEdge x1) ∧
      (processResult M v h0 z f).hErased =
        upd (mergeFlag (mergeFlag m.hErased A1 y1) A1 x1) h0 true := by
  have hx : upd M.hNext z (M.hNext h0) h0 = x1 := by
    rw [MN, nb.n0]; simp only [upd_apply]; split_ifs
    · rfl
    · exact nb.n0
  by_cases hT0 : m.hNext y1 = h0 ∧ m.hEdge x1 ≠ m.hEdge y1
  · have yz : y1 = z := next_inj m wf _ _ nb.ly zl (by rw [hT0.1, hz])
    have xy : x1 ≠ y1 := fun h => hT0.2 (by rw [h])
    have xz : x1 ≠ z := by rw [← yz]; exact xy
    have hy : upd M.hNext z (M.hNext h0) x1 = y1 := by
      rw [MN]; simp only [upd_apply, xz, if_false]; exact nb.n1
    have hA : x1 = upd M.hNext z (M.hNext h0) y1 ∧ M.hEdge x1 ≠ M.hEdge y1 := by
      rw [MN, ME, nb.n0]
      refine ⟨?_, hT0.2⟩
      simp only [upd_apply, yz, if_true]
    obtain ⟨p1, p2, p3, p4, p5, p6⟩ := processResult_fields M v h0 z x1 y1 f true hx hy
      ⟨fun _ => hA, fun _ => rfl⟩
      (fun _ => by rw [MT]; exact (wf_twin wf nb.lx).2.1)
      (fun _ => by rw [MT]; exact (wf_twin wf nb.ly).2.1)
    refine ⟨true, ⟨fun _ => hT0, fun _ => rfl⟩, ?_, ?_, ?_, ?_, ?_, ?_⟩
    · rw [p1, MT]
    · rw [p2, MT, ME]
    · rw [p3, MF]
    · rw [p4, MFX, MF]
    · rw [p5, MEX, ME]
    · rw [p6, MHX]
  · have tri := merge_cond_triangle m wf h0 z nb.l0 zl hz
    rw [nb.n0] at tri
    have hA : ¬ (x1 = upd M.hNext z (M.hNext h0) (upd M.hNext z (M.hNext h0) x1) ∧
        M.hEdge x1 ≠ M.hEdge (upd M.hNext z (M.hNext h0) x1)) := by
      rw [MN, ME, nb.n0]
      rintro ⟨k1, k2⟩
      obtain ⟨xz, nxz⟩ := tri k1 k2
      apply hT0
      have e1 : upd m.hNext z x1 x1 = y1 := by
        simp only [upd_apply, xz, if_false]; exact nb.n1
      rw [e1] at k2
      refine ⟨?_, k2⟩
      rw [← nb.n1, nxz, hz]
    obtain ⟨p1, p2, p3, p4, p5, p6⟩ := processResult_fields M v h0 z x1 _ f false hx rfl
      ⟨fun h => Bool.noConfusion h, fun h => absurd h hA⟩
      (fun h => Bool.noConfusion h) (fun h => Bool.noConfusion h)
    refine ⟨false, ⟨fun h => Bool.noConfusion h, fun h => absurd h hT0⟩, ?_, ?_, ?_, ?_, ?_, ?_⟩
    · rw [p1, MT]; rfl
    · rw [p2, MT, ME]; rfl
    · rw [p3, MF]
    · rw [p4, MFX]; rfl
    · rw [p5, MEX]; rfl
    · rw [p6, MHX]; rfl

/-- The second call of `process_outbound_edges` in `collapse_edge`, on the mesh
    `m1` the first call has left: `w` is the half-edge before `h1`, and the
    face of `h1` is merged away exactly when it is a triangle whose two other
    sides are on different edges of `m1`. -/
theorem collapse_call2 {m : Mesh} {e h0 h1 x1 y1 s a b f0 f1 : Nat}
    (nb : EdgeNbhd m e h0 h1 x1 y1 s a b f0 f1) (wf : WellFormed m)
    (m1 : Mesh) (v z1 w : Nat) (f : Nat → Nat) (A1 : Bool)
    (c1 : A1 = true ↔ (m.hNext y1 = h0 ∧ m.hEdge x1 ≠ m.hEdge y1))
    (T1 : m1.hTwin = mergeTwin m.hTwin A1 x1 y1)
    (E1 : m1.hEdge = mergeEdge m.hTwin m.hEdge A1 x1 y1)
    (N1 : m1.hNext = upd m.hNext z1 x1) (F1 : m1.hFace = m.hFace)
    (FX1 : m1.fErased = mergeFlag m.fErased A1 (m.hFace x1))
    (EX1 : m1.eErased = mergeFlag m.eErased A1 (m.hEdge x1))
    (HX1 : m1.hErased = upd (mergeFlag (mergeFlag m.hErased A1 y1) A1 x1) h0 true)
    (z1f : m.hFace z1 = f0) (wl : hLive m w) (wf1 : m.hFace w = f1)
    (hw : m1.hNext w = h1) :
    m.hNext w = h1 ∧
    ∃ A2 : Bool, (A2 = true ↔ (m.hNext s = w ∧
        mergeEdge m.hTwin m.hEdge A1 x1 y1 s ≠ mergeEdge m.hTwin m.hEdge A1 x1 y1 w)) ∧
      (processResult m1 v h1 w f).hTwin = mergeTwin (mergeTwin m.hTwin A1 x1 y1) A2 s w ∧
      (processResult m1 v h1 w f).hEdge =
        mergeEdge (mergeTwin m.hTwin A1 x1 y1) (mergeEdge m.hTwin m.hEdge A1 x1 y1) A2 s w ∧
      (processResult m1 v h1 w f).hFace = m.hFace ∧
      (processResult m1 v h1 w f).fErased =
        mergeFlag (mergeFlag m.fErased A1 (m.hFace x1)) A2 (m.hFace s) ∧
      (processResult m1 v h1 w f).eErased =
        mergeFlag (mergeFlag m.eErased A1 (m.hEdge x1)) A2
          (mergeEdge m.hTwin m.hEdge A1 x1 y1 s) ∧
      (processResult m1 v h1 w f).hErased =
        upd (mergeFlag (mergeFlag (upd (mergeFlag (mergeFlag m.hErased A1 y1) A1 x1) h0 true)
          A2 w) A2 s) h1 true := by
  have offz : ∀ u, m.hFace u = f1 → u ≠ z1 := by
    intro u hu h; rw [h, z1f] at hu; exact nb.ff hu
  have n1u : ∀ u, m.hFace u = f1 → m1.hNext u = m.hNext u := by
    intro u hu; rw [N1]; simp only [upd_apply, offz u hu, if_false]
  have nw : m.hNext w = h1 := by rw [← n1u w wf1]; exact hw
  have nh1 : m1.hNext h1 = s := by rw [n1u h1 nb.f1b]; exact nb.n2
  have lns := wf_next wf nb.ls
  have fns : m.hFace (m.hNext s) = f1 := by rw [lns.2.1]; exact nb.f1s
  have hx : upd m1.hNext w (m1.hNext h1) h1 = s := by
    simp only [upd_apply, nh1]; split_ifs <;> rfl
  have xy : A1 = true → x1 ≠ y1 := fun h hh => (c1.1 h).2 (by rw [hh])
  refine ⟨nw, ?_⟩
  by_cases hT1 : m.hNext s = w ∧
      mergeEdge m.hTwin m.hEdge A1 x1 y1 s ≠ mergeEdge m.hTwin m.hEdge A1 x1 y1 w
  · have sw : s ≠ w := fun h => hT1.2 (by rw [h])
    have hy : upd m1.hNext w (m1.hNext h1) s = w := by
      simp only [upd_apply, sw, if_false]; rw [n1u s nb.f1s]; exact hT1.1
    have hA : s = upd m1.hNext w (m1.hNext h1) w ∧ m1.hEdge s ≠ m1.hEdge w := by
      rw [E1]; refine ⟨?_, hT1.2⟩
      simp only [upd_apply, if_true, nh1]
    obtain ⟨p1, p2, p3, p4, p5, p6⟩ := processResult_fields m1 v h1 w s w f true hx hy
      ⟨fun _ => hA, fun _ => rfl⟩
      (fun _ => by rw [T1]; exact mergeTwin_ne wf A1 nb.lx nb.ly xy nb.ls)
      (fun _ => by rw [T1]; exact mergeTwin_ne wf A1 nb.lx nb.ly xy wl)
    refine ⟨true, ⟨fun _ => hT1, fun _ => rfl⟩, ?_, ?_, ?_, ?_, ?_, ?_⟩
    · rw [p1, T1]
    · rw [p2, T1, E1]
    · rw [p3, F1]
    · rw [p4, FX1, F1]
    · rw [p5, EX1, E1]
    · rw [p6, HX1]
  · have hA : ¬ (s = upd m1.hNext w (m1.hNext h1) (upd m1.hNext w (m1.hNext h1) s) ∧
        m1.hEdge s ≠ m1.hEdge (upd m1.hNext w (m1.hNext h1) s)) := by
      rintro ⟨k1, k2⟩
      by_cases sw : s = w
      · apply k2
        simp only [upd_apply, sw, if_true, nh1]
      · have e1 : upd m1.hNext w (m1.hNext h1) s = m.hNext s := by
          simp only [upd_apply, sw, if_false]; exact n1u s nb.f1s
        rw [e1] at k1 k2
        by_cases nsw : m.hNext s = w
        · apply hT1
          rw [nsw, E1] at k2
          exact ⟨nsw, k2⟩
        · simp only [upd_apply, nsw, if_false] at k1
          rw [n1u _ fns] at k1
          have e2 : h1 = m.hNext s := next_inj m wf _ _ nb.l1 lns.1 (by rw [nb.n2]; exact k1)
          exact sw (next_inj m wf _ _ nb.ls wl (by rw [← e2, nw]))
    obtain ⟨p1, p2, p3, p4, p5, p6⟩ := processResult_fields m1 v h1 w s _ f false hx rfl
      ⟨fun h => Bool.noConfusion h, fun h => absurd h hA⟩
      (fun h => Bool.noConfusion h) (fun h => Bool.noConfusion h)
    refine ⟨false, ⟨fun h => Bool.noConfusion h, fun h => absurd h hT1⟩, ?_, ?_, ?_, ?_, ?_, ?_⟩
    · rw [p1, T1]; rfl
    · rw [p2, T1, E1]; rfl
    · rw [p3, F1]
    · rw [p4, FX1]; rfl
    · rw [p5, EX1]; rfl
    · rw [p6, HX1]; rfl

/-- The mesh a successful `collapse_edge` leaves, field by field, on a mesh
    that satisfies the invariants 1 to 5. -/
theorem collapse_ctx (dbg : Bool) (m m' : Mesh) (e v : Nat)
    (hv : Valid m) (sf : SimpleFaces m) (he : eLive m e)
    (hc : collapse_edge dbg m e = some (some v, m')) :
    ∃ w A1 A2,
      EdgeNbhd m e (m.eHalfedge e) (m.hTwin (m.eHalfedge e)) (m.hNext (m.eHalfedge e))
        (m.hNext (m.hNext (m.eHalfedge e))) (m.hNext (m.hTwin (m.eHalfedge e)))
        (m.hVertex (m.eHalfedge e)) (m.hVertex (m.hTwin (m.eHalfedge e)))
        (m.hFace (m.eHalfedge e)) (m.hFace (m.hTwin (m.eHalfedge e))) ∧
      CollapseCtx m m' e v (m.eHalfedge e) (m.hTwin (m.eHalfedge e)) (m.hNext (m.eHalfedge e))
        (m.hNext (m.hNext (m.eHalfedge e))) (m.hNext (m.hTwin (m.eHalfedge e))) w A1 A2 := by
  obtain ⟨hcc, rfl, m1, m2, p1, p2, rfl⟩ := collapse_edge_spec dbg m m' e v hc
  have guard := can_collapse_guard dbg m e hcc
  have nb := edgeNbhd_of m e hv sf he guard
  have wf := hv.1
  have hl := nb.l0
  have l1 := nb.l1
  have ab : m.hVertex (m.hTwin (m.eHalfedge e)) ≠ m.hVertex (m.eHalfedge e) := Ne.symm nb.ab
  generalize hM : (m.new_vertex.2.setVHalfedge m.nV (m.hNext (m.eHalfedge e))).setPos m.nV
    (m.center e) = M at p1
  have MT : M.hTwin = m.hTwin := by rw [← hM]; rfl
  have MN : M.hNext = m.hNext := by rw [← hM]; rfl
  have ME : M.hEdge = m.hEdge := by rw [← hM]; rfl
  have MV : M.hVertex = m.hVertex := by rw [← hM]; rfl
  have MF : M.hFace = m.hFace := by rw [← hM]; rfl
  have MEH : M.eHalfedge = m.eHalfedge := by rw [← hM]; rfl
  have MnH : M.nH = m.nH := by rw [← hM]; rfl
  have MnE : M.nE = m.nE := by rw [← hM]; rfl
  have MnF : M.nF = m.nF := by rw [← hM]; rfl
  have MHX : M.hErased = m.hErased := by rw [← hM]; rfl
  have MEX : M.eErased = m.eErased := by rw [← hM]; rfl
  have MFX : M.fErased = m.fErased := by rw [← hM]; rfl
  have fsM : fanStep M = fanStep m := by unfold fanStep; rw [MT, MN]
  obtain ⟨fa, ta, j1, r1, z1, a2, a3, a4, a5, a6⟩ := process_spec dbg _ _ _ _ p1
  rw [MN] at z1 r1
  rw [fsM] at a3 a4 a5 a6
  rw [MV] at a6
  have zl := iterate_live m wf _ hl j1
  obtain ⟨k1, k2, k3⟩ := collapse_first_call m M e m.nV _ fa hv he guard MT MN ME MEH zl.1 z1
  rw [← r1] at k1 k2 k3
  obtain ⟨q1, q2, q3, q4, q5, q6, q7, -⟩ :=
    processResult_frame M m.nV (m.eHalfedge e) (m.hNext^[j1] (m.eHalfedge e)) fa
  rw [← r1] at q1 q2 q3 q4 q5 q6 q7
  obtain ⟨A1, c1, T1, E1, F1, FX1, EX1, HX1⟩ :=
    collapse_call1 nb wf M m.nV _ fa MT MN ME MF MHX MEX MFX zl.1 z1
  rw [← r1] at T1 E1 F1 FX1 EX1 HX1
  rw [k1, k2] at p2
  obtain ⟨fb, tb, j2, r2, z2, b2, b3, b4, b5, b6⟩ := process_spec dbg _ _ _ _ p2
  obtain ⟨s1, s2, s3, s4, s5, s6, s7, -⟩ :=
    processResult_frame m1 m.nV (m.hTwin (m.eHalfedge e))
      (m1.hNext^[j2] (m.hTwin (m.eHalfedge e))) fb
  rw [← r2] at s1 s2 s3 s4 s5 s6 s7
  have N1 : m1.hNext = upd m.hNext (m.hNext^[j1] (m.eHalfedge e)) (m.hNext (m.eHalfedge e)) := by
    rw [q7, MN]
  have it2 : ∀ j, hLive m (m1.hNext^[j] (m.hTwin (m.eHalfedge e))) ∧
      m.hFace (m1.hNext^[j] (m.hTwin (m.eHalfedge e))) = m.hFace (m.hTwin (m.eHalfedge e)) := by
    intro j
    induction j with
    | zero => exact ⟨l1, rfl⟩
    | succ j ih =>
      rw [Function.iterate_succ_apply']
      have ne : m1.hNext^[j] (m.hTwin (m.eHalfedge e)) ≠ m.hNext^[j1] (m.eHalfedge e) := by
        intro h
        have := ih.2
        rw [h, zl.2] at this
        exact nb.ff this
      have : m1.hNext (m1.hNext^[j] (m.hTwin (m.eHalfedge e))) =
          m.hNext (m1.hNext^[j] (m.hTwin (m.eHalfedge e))) :=
        (congrFun N1 _).trans (by simp only [upd_apply, ne, if_false])
      rw [this]
      obtain ⟨w1, w2, -⟩ := wf_next wf ih.1
      exact ⟨w1, by rw [w2, ih.2]⟩
  obtain ⟨nw, A2, c2, T2, E2, F2, FX2, EX2, HX2⟩ :=
    collapse_call2 nb wf m1 m.nV _ _ fb A1 c1 T1 E1 N1 F1 FX1 EX1 HX1 zl.2 (it2 j2).1 (it2 j2).2 z2
  rw [← r2] at T2 E2 F2 FX2 EX2 HX2
  -- the fan of the second endpoint is the same before and after the first call
  have fan2 : ∀ i, (fanStep m1)^[i] (m.hTwin (m.eHalfedge e)) =
      (fanStep m)^[i] (m.hTwin (m.eHalfedge e)) := by
    intro i
    induction i with
    | zero => rfl
    | succ i ih =>
      rw [Function.iterate_succ_apply', Function.iterate_succ_apply', ih]
      obtain ⟨w1, w2⟩ := fan_live m wf _ l1 i
      exact k3 _ w1 w2
  simp only [fan2] at b3 b4 b5 b6
  rw [q6] at b6
  refine ⟨_, A1, A2, nb, ⟨nw, (it2 j2).1, c1, c2, rfl, ?_, ?_, ?_, F2, ?_, T2, E2, HX2, ?_, FX2⟩⟩
  · show m2.nH = m.nH
    rw [s2, q2, MnH]
  · show m2.nE = m.nE
    rw [s3, q3, MnE]
  · show m2.nF = m.nF
    rw [s4, q4, MnF]
  · intro g lg g0 g1
    show m2.hVertex g = _
    rw [s6]
    by_cases ha : m.hVertex g = m.hVertex (m.eHalfedge e)
    · obtain ⟨k, -, hk⟩ := hv.2.1 _ hl.1 hl.2 g lg.1 lg.2 ha.symm
      obtain ⟨i, hi, hki⟩ := fan_mod (fanStep m) _ _ a3 k
      rw [hki] at hk
      have i0 : i ≠ 0 := by
        rintro rfl
        simp only [Function.iterate_zero, id_eq] at hk
        exact g0 hk.symm
      have v1 : fa g = m.nV := a5 g ⟨i, by omega, hi, hk⟩
      have : fb g = m.nV := by
        by_cases hw : ∃ i, 1 ≤ i ∧ i ≤ tb ∧ (fanStep m)^[i] (m.hTwin (m.eHalfedge e)) = g
        · exact b5 g hw
        · rw [b6 g (fun i x y z => hw ⟨i, x, y, z⟩), v1]
      rw [this]; simp [mergedVertex, ha]
    · by_cases hb : m.hVertex g = m.hVertex (m.hTwin (m.eHalfedge e))
      · obtain ⟨k, -, hk⟩ := hv.2.1 _ l1.1 l1.2 g lg.1 lg.2 hb.symm
        obtain ⟨i, hi, hki⟩ := fan_mod (fanStep m) _ _ b3 k
        rw [hki] at hk
        have i0 : i ≠ 0 := by
          rintro rfl
          simp only [Function.iterate_zero, id_eq] at hk
          exact g1 hk.symm
        rw [b5 g ⟨i, by omega, hi, hk⟩]; simp [mergedVertex, hb]
      · have e1 : fb g = fa g := by
          apply b6
          intro i _ _ hh
          have := (fan_live m wf _ l1 i).2
          rw [hh] at this
          exact hb this
        have e2 : fa g = m.hVertex g := by
          apply a6
          intro i _ _ hh
          have := (fan_live m wf _ hl i).2
          rw [hh] at this
          exact ha this
        rw [e1, e2]; simp [mergedVertex, ha, hb]
  · show upd m2.eErased e true = _
    rw [EX2]

theorem collapse_hlive {m m' : Mesh} {e v h0 h1 x1 y1 s w : Nat} {A1 A2 : Bool}
    (cx : CollapseCtx m m' e v h0 h1 x1 y1 s w A1 A2) (g : Nat) :
    hLive m' g ↔ (hLive m g ∧ g ≠ h0 ∧ g ≠ h1 ∧ (A1 = true → g ≠ x1 ∧ g ≠ y1) ∧
      (A2 = true → g ≠ s ∧ g ≠ w)) := by
  unfold hLive
  rw [cx.cH, cx.herased]
  cases A1 <;> cases A2 <;> simp [mergeFlag, upd_apply] <;> tauto

theorem collapse_elive {m m' : Mesh} {e v h0 h1 x1 y1 s w : Nat} {A1 A2 : Bool}
    (cx : CollapseCtx m m' e v h0 h1 x1 y1 s w A1 A2) (x : Nat) :
    eLive m' x ↔ (eLive m x ∧ x ≠ e ∧ (A1 = true → x ≠ m.hEdge x1) ∧
      (A2 = true → x ≠ mergeEdge m.hTwin m.hEdge A1 x1 y1 s)) := by
  unfold eLive
  rw [cx.cE, cx.eerased]
  cases A1 <;> cases A2 <;> simp [mergeFlag, upd_apply] <;> tauto

theorem collapse_flive {m m' : Mesh} {e v h0 h1 x1 y1 s w : Nat} {A1 A2 : Bool}
    (cx : CollapseCtx m m' e v h0 h1 x1 y1 s w A1 A2) (f : Nat) :
    fLive m' f ↔ (fLive m f ∧ (A1 = true → f ≠ m.hFace x1) ∧
      (A2 = true → f ≠ m.hFace s)) := by
  unfold fLive
  rw [cx.cF, cx.ferased]
  cases A1 <;> cases A2 <;> simp [mergeFlag, upd_apply] <;> tauto

theorem ne_of_f {α : Type} (f : Nat → α) {u u' : Nat} {p q : α} (hu : f u = p) (hu' : f u' = q)
    (pq : p ≠ q) : u ≠ u' := fun h => pq (by rw [← hu, ← hu', h])

theorem twin_swap {m : Mesh} (wf : WellFormed m) {u h : Nat} (lu : hLive m u)
    (hh : m.hTwin u = h) : u = m.hTwin h := by
  rw [← hh, (wf_twin wf lu).2.2]

/-- The half-edge before `h1` on its face: it is on the face `f1` and ends at
    `b`. -/
theorem collapse_w {m m' : Mesh} {e v h0 h1 x1 y1 s a b f0 f1 w : Nat} {A1 A2 : Bool}
    (nb : EdgeNbhd m e h0 h1 x1 y1 s a b f0 f1)
    (cx : CollapseCtx m m' e v h0 h1 x1 y1 s w A1 A2) (wf : WellFormed m) :
    m.hFace w = f1 ∧ m.hVertex (m.hTwin w) = b ∧ w ≠ h0 ∧ w ≠ h1 ∧ w ≠ x1 ∧ w ≠ y1 := by
  obtain ⟨-, k2, k3⟩ := wf_next wf cx.lw
  rw [cx.n3] at k2 k3
  have fw : m.hFace w = f1 := by rw [← k2, nb.f1b]
  have vtw : m.hVertex (m.hTwin w) = b := by rw [← k3, nb.vb]
  refine ⟨fw, vtw, ne_of_f m.hFace fw nb.f0a nb.ff.symm, ?_,
    ne_of_f m.hFace fw nb.f0x nb.ff.symm, ne_of_f m.hFace fw nb.f0y nb.ff.symm⟩
  intro h
  rw [h, nb.t1, nb.va] at vtw
  exact nb.ab vtw

/-- The triangle the first call merges away: `y1` leads back to `h0`, leaves a
    vertex other than `a` and `b`, and its twin leaves `a`. -/
theorem collapse_tri0 {m m' : Mesh} {e v h0 h1 x1 y1 s a b f0 f1 w : Nat} {A1 A2 : Bool}
    (nb : EdgeNbhd m e h0 h1 x1 y1 s a b f0 f1)
    (cx : CollapseCtx m m' e v h0 h1 x1 y1 s w A1 A2) (hv : Valid m) (h1t : A1 = true) :
    m.hNext y1 = h0 ∧ m.hVertex (m.hTwin y1) = a ∧ m.hVertex y1 ≠ a ∧ m.hVertex y1 ≠ b ∧
    x1 ≠ y1 ∧ y1 ≠ h0 ∧ m.hTwin x1 ≠ m.hTwin y1 := by
  have wf := hv.1
  obtain ⟨ny, exy⟩ := cx.c1.1 h1t
  obtain ⟨-, -, k3⟩ := wf_next wf nb.ly
  rw [ny, nb.va] at k3
  have nl := hv.2.2 _ nb.ly.1 nb.ly.2
  rw [← k3] at nl
  obtain ⟨-, -, j3⟩ := wf_next wf nb.lx
  rw [nb.n1] at j3
  have nlx := hv.2.2 _ nb.lx.1 nb.lx.2
  rw [← j3, nb.vx] at nlx
  have xy : x1 ≠ y1 := fun h => exy (by rw [h])
  refine ⟨ny, k3.symm, Ne.symm nl, nlx, xy, ?_, fun h => xy (twin_inj wf nb.lx nb.ly h)⟩
  intro h
  exact Ne.symm nl (by rw [h, nb.va])

/-- The triangle the second call merges away: `s` leads to `w`, which leaves
    the vertex `s` ends at. -/
theorem collapse_tri1 {m m' : Mesh} {e v h0 h1 x1 y1 s a b f0 f1 w : Nat} {A1 A2 : Bool}
    (nb : EdgeNbhd m e h0 h1 x1 y1 s a b f0 f1)
    (cx : CollapseCtx m m' e v h0 h1 x1 y1 s w A1 A2) (hv : Valid m) (h2t : A2 = true) :
    m.hNext s = w ∧ m.hVertex w = m.hVertex (m.hTwin s) ∧ s ≠ w ∧ m.hVertex w ≠ a ∧
    m.hVertex w ≠ b := by
  have wf := hv.1
  obtain ⟨nsw, e12⟩ := cx.c2.1 h2t
  obtain ⟨-, -, k3⟩ := wf_next wf nb.ls
  rw [nsw] at k3
  have nl := hv.2.2 _ nb.ls.1 nb.ls.2
  rw [← k3, nb.vs] at nl
  have nlw := hv.2.2 _ cx.lw.1 cx.lw.2
  rw [(collapse_w nb cx wf).2.1] at nlw
  exact ⟨nsw, k3, fun h => e12 (by rw [h]), nl, Ne.symm nlw⟩

/-- When both calls merge a triangle away, on a mesh without double edges, the
    second merge does not meet the half-edges the first has rewritten. -/
theorem collapse_disjoint {m m' : Mesh} {e v h0 h1 x1 y1 s a b f0 f1 w : Nat} {A1 A2 : Bool}
    (nb : EdgeNbhd m e h0 h1 x1 y1 s a b f0 f1)
    (cx : CollapseCtx m m' e v h0 h1 x1 y1 s w A1 A2) (hv : Valid m) (sg : SimpleGraph m)
    (h2t : A2 = true) :
    mergeTwin m.hTwin A1 x1 y1 s = m.hTwin s ∧ mergeTwin m.hTwin A1 x1 y1 w = m.hTwin w ∧
    mergeEdge m.hTwin m.hEdge A1 x1 y1 s = m.hEdge s ∧
    mergeEdge m.hTwin m.hEdge A1 x1 y1 w = m.hEdge w := by
  have wf := hv.1
  obtain ⟨nsw, vw, sw, wa, wb⟩ := collapse_tri1 nb cx hv h2t
  obtain ⟨fw, vtw, w0, w1, wx, wy⟩ := collapse_w nb cx wf
  have e12 := (cx.c2.1 h2t).2
  cases A1 with
  | false => exact ⟨rfl, rfl, rfl, rfl⟩
  | true =>
    obtain ⟨ny, vty, ya, yb, xy, y0, txy⟩ := collapse_tri0 nb cx hv rfl
    obtain ⟨-, -, vtx⟩ := wf_next wf nb.lx
    rw [nb.n1] at vtx
    obtain ⟨ltx, -, ttx⟩ := wf_twin wf nb.lx
    obtain ⟨lty, -, tty⟩ := wf_twin wf nb.ly
    have s1 : s ≠ m.hTwin x1 := ne_of_f m.hVertex nb.vs vtx.symm (Ne.symm ya)
    have w2 : w ≠ m.hTwin y1 := ne_of_f m.hVertex rfl vty wa
    have es : mergeEdge m.hTwin m.hEdge true x1 y1 s = m.hEdge s := by
      simp only [mergeEdge, if_true, upd_apply, s1, if_false]
    have w1' : w ≠ m.hTwin x1 := by
      intro h
      apply e12
      have se : SameEnds m s (m.hTwin y1) := by
        left
        refine ⟨by rw [nb.vs, vty], ?_⟩
        rw [tty, ← vw, h, ← vtx]
      have := sg _ nb.ls.1 _ lty.1 nb.ls.2 lty.2 se
      rw [(wf_edge wf nb.ly).2.1] at this
      rw [es, this]
      simp only [mergeEdge, if_true, upd_apply, h]
    have s2 : s ≠ m.hTwin y1 := by
      intro h
      have se : SameEnds m w (m.hTwin x1) := by
        left
        refine ⟨by rw [vw, h, tty, ← vtx], ?_⟩
        rw [ttx, vtw, nb.vx]
      have := sg _ cx.lw.1 _ ltx.1 cx.lw.2 ltx.2 se
      rw [(wf_edge wf nb.lx).2.1] at this
      rcases (wf_edge wf nb.lx).2.2 w cx.lw this with r | r
      · exact wx r
      · exact w1' r
    refine ⟨?_, ?_, es, ?_⟩
    · simp only [mergeTwin, if_true, upd_apply, s1, s2, if_false]
    · simp only [mergeTwin, if_true, upd_apply, w1', w2, if_false]
    · simp only [mergeEdge, if_true, upd_apply, w1', if_false]

/-- After the first merge: a half-edge that survives has, among the half-edges
    of the mesh before the call, one on its edge with the same merged ends. -/
theorem collapse_pre1 {m m' : Mesh} {e v h0 h1 x1 y1 s a b f0 f1 w : Nat} {A1 A2 : Bool}
    (nb : EdgeNbhd m e h0 h1 x1 y1 s a b f0 f1)
    (cx : CollapseCtx m m' e v h0 h1 x1 y1 s w A1 A2) (hv : Valid m)
    (g : Nat) (lg : hLive m g) (g0 : g ≠ h0) (g1 : g ≠ h1) :
    ∃ g', hLive m g' ∧ m.hEdge g' = mergeEdge m.hTwin m.hEdge A1 x1 y1 g ∧
      mergedVertex a b v (m.hVertex g') = mergedVertex a b v (m.hVertex g) ∧
      mergedVertex a b v (m.hVertex (m.hTwin g')) =
        m'.hVertex (mergeTwin m.hTwin A1 x1 y1 g) := by
  have wf := hv.1
  have K := cx.vert
  rw [nb.va, nb.vb] at K
  obtain ⟨ltg, -, ttg⟩ := wf_twin wf lg
  have tg0 : m.hTwin g ≠ h0 := fun h => g1 (by rw [twin_swap wf lg h, nb.t0])
  have tg1 : m.hTwin g ≠ h1 := fun h => g0 (by rw [twin_swap wf lg h, nb.t1])
  have dflt : ∃ g', hLive m g' ∧ m.hEdge g' = m.hEdge g ∧
      mergedVertex a b v (m.hVertex g') = mergedVertex a b v (m.hVertex g) ∧
      mergedVertex a b v (m.hVertex (m.hTwin g')) = m'.hVertex (m.hTwin g) :=
    ⟨g, lg, rfl, rfl, (K _ ltg tg0 tg1).symm⟩
  cases A1 with
  | false => exact dflt
  | true =>
    obtain ⟨ny, vty, ya, yb, xy, y0, txy⟩ := collapse_tri0 nb cx hv rfl
    obtain ⟨-, -, vtx⟩ := wf_next wf nb.lx
    rw [nb.n1] at vtx
    obtain ⟨ltx, -, ttx⟩ := wf_twin wf nb.lx
    obtain ⟨lty, -, tty⟩ := wf_twin wf nb.ly
    have x0 : x1 ≠ h0 := ne_of_f m.hVertex nb.vx nb.va nb.ab.symm
    have x1' : x1 ≠ h1 := ne_of_f m.hFace nb.f0x nb.f1b nb.ff
    have y1' : y1 ≠ h1 := ne_of_f m.hFace nb.f0y nb.f1b nb.ff
    have tx0 : m.hTwin x1 ≠ h0 := fun h => x1' (by rw [twin_swap wf nb.lx h, nb.t0])
    have tx1 : m.hTwin x1 ≠ h1 := fun h => x0 (by rw [twin_swap wf nb.lx h, nb.t1])
    have ty0 : m.hTwin y1 ≠ h0 := fun h => y1' (by rw [twin_swap wf nb.ly h, nb.t0])
    have ty1 : m.hTwin y1 ≠ h1 := fun h => y0 (by rw [twin_swap wf nb.ly h, nb.t1])
    by_cases c1 : g = m.hTwin y1
    · refine ⟨g, lg, ?_, rfl, ?_⟩
      · rw [c1]; simp only [mergeEdge, if_true, upd_apply, Ne.symm txy, if_false]
      · have : mergeTwin m.hTwin true x1 y1 g = m.hTwin x1 := by
          rw [c1]; simp only [mergeTwin, if_true, upd_apply]
        rw [this, K _ ltx tx0 tx1, c1, tty, vtx]
    · by_cases c2 : g = m.hTwin x1
      · refine ⟨y1, nb.ly, ?_, ?_, ?_⟩
        · rw [c2]; simp only [mergeEdge, if_true, upd_apply]
        · rw [c2, vtx]
        · have : mergeTwin m.hTwin true x1 y1 g = m.hTwin y1 := by
            rw [c2]; simp only [mergeTwin, if_true, upd_apply, txy, if_false]
          rw [this, K _ lty ty0 ty1]
      · have e1 : mergeEdge m.hTwin m.hEdge true x1 y1 g = m.hEdge g := by
          simp only [mergeEdge, if_true, upd_apply, c2, if_false]
        have e2 : mergeTwin m.hTwin true x1 y1 g = m.hTwin g := by
          simp only [mergeTwin, if_true, upd_apply, c1, c2, if_false]
        rw [e1, e2]; exact dflt

/-- A half-edge that survives `collapse_edge` has, among the half-edges of the
    mesh before the call, one on its edge whose two ends are the ends it has
    now, up to the merge of `a` and `b` into `v`. -/
theorem collapse_preimage {m m' : Mesh} {e v h0 h1 x1 y1 s a b f0 f1 w : Nat} {A1 A2 : Bool}
    (nb : EdgeNbhd m e h0 h1 x1 y1 s a b f0 f1)
    (cx : CollapseCtx m m' e v h0 h1 x1 y1 s w A1 A2) (hv : Valid m) (sg : SimpleGraph m)
    (g : Nat) (lg' : hLive m' g) :
    ∃ g', hLive m g' ∧ m.hEdge g' = m'.hEdge g ∧
      mergedVertex a b v (m.hVertex g') = m'.hVertex g ∧
      mergedVertex a b v (m.hVertex (m.hTwin g')) = m'.hVertex (m'.hTwin g) := by
  have wf := hv.1
  have K := cx.vert
  rw [nb.va, nb.vb] at K
  obtain ⟨lg, g0, g1, gA1, gA2⟩ := (collapse_hlive cx g).1 lg'
  have Kg := K g lg g0 g1
  obtain ⟨g', p1, p2, p3, p4⟩ := collapse_pre1 nb cx hv g lg g0 g1
  have tw := cx.twin
  have ed := cx.edge
  cases A2 with
  | false =>
    refine ⟨g', p1, ?_, ?_, ?_⟩
    · rw [ed]; exact p2
    · rw [Kg]; exact p3
    · rw [tw]; exact p4
  | true =>
    obtain ⟨d1, d2, d3, d4⟩ := collapse_disjoint nb cx hv sg rfl
    obtain ⟨nsw, vw, sw, wa, wb⟩ := collapse_tri1 nb cx hv rfl
    obtain ⟨fw, vtw, w0, w1, wx, wy⟩ := collapse_w nb cx wf
    obtain ⟨lts, -, tts⟩ := wf_twin wf nb.ls
    obtain ⟨ltw, -, ttw⟩ := wf_twin wf cx.lw
    have s0 : s ≠ h0 := ne_of_f m.hFace nb.f1s nb.f0a nb.ff.symm
    have s1 : s ≠ h1 := ne_of_f m.hVertex nb.vs nb.vb nb.ab
    have ts0 : m.hTwin s ≠ h0 := fun h => s1 (by rw [twin_swap wf nb.ls h, nb.t0])
    have ts1 : m.hTwin s ≠ h1 := fun h => s0 (by rw [twin_swap wf nb.ls h, nb.t1])
    have tw0 : m.hTwin w ≠ h0 := fun h => w1 (by rw [twin_swap wf cx.lw h, nb.t0])
    have tw1 : m.hTwin w ≠ h1 := fun h => w0 (by rw [twin_swap wf cx.lw h, nb.t1])
    have tsw : m.hTwin s ≠ m.hTwin w := fun h => sw (twin_inj wf nb.ls cx.lw h)
    have twe : m'.hTwin g = if g = m.hTwin w then m.hTwin s else
        if g = m.hTwin s then m.hTwin w else mergeTwin m.hTwin A1 x1 y1 g := by
      rw [tw]
      show (if true = true then upd (upd (mergeTwin m.hTwin A1 x1 y1)
        (mergeTwin m.hTwin A1 x1 y1 s) (mergeTwin m.hTwin A1 x1 y1 w))
        (mergeTwin m.hTwin A1 x1 y1 w) (mergeTwin m.hTwin A1 x1 y1 s) else _) g = _
      simp only [if_true, upd_apply, d1, d2]
    have ede : m'.hEdge g = if g = m.hTwin s then m.hEdge w else
        mergeEdge m.hTwin m.hEdge A1 x1 y1 g := by
      rw [ed]
      show (if true = true then upd (mergeEdge m.hTwin m.hEdge A1 x1 y1)
        (mergeTwin m.hTwin A1 x1 y1 s) (mergeEdge m.hTwin m.hEdge A1 x1 y1 w) else _) g = _
      simp only [if_true, upd_apply, d1, d4]
    by_cases c1 : g = m.hTwin s
    · refine ⟨w, cx.lw, ?_, ?_, ?_⟩
      · rw [ede, if_pos c1]
      · rw [Kg, c1, vw]
      · rw [twe, if_neg (by rw [c1]; exact tsw), if_pos c1, K _ ltw tw0 tw1]
    · by_cases c2 : g = m.hTwin w
      · refine ⟨g', p1, ?_, ?_, ?_⟩
        · rw [ede, if_neg c1]; exact p2
        · rw [Kg]; exact p3
        · rw [twe, if_pos c2, K _ lts ts0 ts1, ← vw]
          rw [p4]
          have : mergeTwin m.hTwin A1 x1 y1 g = w := by
            cases A1 with
            | false => show m.hTwin g = w; rw [c2, ttw]
            | true =>
              have q1 : m.hTwin w ≠ m.hTwin y1 := fun h => wy (twin_inj wf cx.lw nb.ly h)
              have q2 : m.hTwin w ≠ m.hTwin x1 := fun h => wx (twin_inj wf cx.lw nb.lx h)
              rw [c2]
              simp only [mergeTwin, if_true, upd_apply, q1, q2, if_false]
              exact ttw
          rw [this, K _ cx.lw w0 w1]
      · refine ⟨g', p1, ?_, ?_, ?_⟩
        · rw [ede, if_neg c1]; exact p2
        · rw [Kg]; exact p3
        · rw [twe, if_neg c2, if_neg c1]; exact p4

theorem mergedVertex_inj (a b v x x' : Nat) (hx : x < v) (hx' : x' < v)
    (h : mergedVertex a b v x = mergedVertex a b v x') :
    x = x' ∨ ((x = a ∨ x = b) ∧ (x' = a ∨ x' = b)) := by
  unfold mergedVertex at h
  split_ifs at h with c1 c2 c2
  · exact Or.inr ⟨c1, c2⟩
  · omega
  · omega
  · exact Or.inl h

theorem mergedVertex_ab (a b v x : Nat) (h : x = a ∨ x = b) : mergedVertex a b v x = v := by
  unfold mergedVertex; rw [if_pos h]

theorem mergedVertex_other (a b v x : Nat) (ha : x ≠ a) (hb : x ≠ b) :
    mergedVertex a b v x = x := by
  unfold mergedVertex; rw [if_neg (by tauto)]

/-- Two half-edges on different edges, neither on `e`, whose ends fall together
    when `a` and `b` are merged: one of the two edges joins `a` and the other
    joins `b` to one common neighbour `y`. -/
theorem collapse_double {m : Mesh} {e h0 h1 x1 y1 s a b f0 f1 : Nat}
    (nb : EdgeNbhd m e h0 h1 x1 y1 s a b f0 f1) (hv : Valid m) (sg : SimpleGraph m)
    (v : Nat) (hvn : v = m.nV) (p q : Nat) (lp : hLive m p) (lq : hLive m q)
    (pe : m.hEdge p ≠ e) (qe : m.hEdge q ≠ e) (pq : m.hEdge p ≠ m.hEdge q)
    (k1 : mergedVertex a b v (m.hVertex p) = mergedVertex a b v (m.hVertex q))
    (k2 : mergedVertex a b v (m.hVertex (m.hTwin p)) =
      mergedVertex a b v (m.hVertex (m.hTwin q))) :
    ∃ gA gB y, hLive m gA ∧ hLive m gB ∧
      ((m.hEdge gA = m.hEdge p ∧ m.hEdge gB = m.hEdge q) ∨
        (m.hEdge gA = m.hEdge q ∧ m.hEdge gB = m.hEdge p)) ∧
      m.hVertex gA = a ∧ m.hVertex gB = b ∧
      m.hVertex (m.hTwin gA) = y ∧ m.hVertex (m.hTwin gB) = y ∧ y ≠ a ∧ y ≠ b ∧
      ((mergedVertex a b v (m.hVertex p) = v ∧
          mergedVertex a b v (m.hVertex (m.hTwin p)) = y) ∨
        (mergedVertex a b v (m.hVertex p) = y ∧
          mergedVertex a b v (m.hVertex (m.hTwin p)) = v)) := by
  have wf := hv.1
  obtain ⟨ltp, -, ttp⟩ := wf_twin wf lp
  obtain ⟨ltq, -, ttq⟩ := wf_twin wf lq
  have bp : m.hVertex p < v := by rw [hvn]; exact (wf.2.2.2.1 p lp.1 lp.2).1
  have bq : m.hVertex q < v := by rw [hvn]; exact (wf.2.2.2.1 q lq.1 lq.2).1
  have bp' : m.hVertex (m.hTwin p) < v := by rw [hvn]; exact (wf.2.2.2.1 _ ltp.1 ltp.2).1
  have bq' : m.hVertex (m.hTwin q) < v := by rw [hvn]; exact (wf.2.2.2.1 _ ltq.1 ltq.2).1
  have nlp := hv.2.2 p lp.1 lp.2
  have nlq := hv.2.2 q lq.1 lq.2
  have notab : ∀ u, hLive m u → m.hEdge u ≠ e →
      ¬ ((m.hVertex u = a ∨ m.hVertex u = b) ∧
        (m.hVertex (m.hTwin u) = a ∨ m.hVertex (m.hTwin u) = b)) := by
    intro u lu ue hh
    have nlu := hv.2.2 u lu.1 lu.2
    apply ue
    rw [← nb.ed0]
    apply sg _ lu.1 _ nb.l0.1 lu.2 nb.l0.2
    unfold SameEnds
    rw [nb.t0, nb.va, nb.vb]
    rcases hh with ⟨r1 | r1, r2 | r2⟩
    · rw [r1, r2] at nlu; exact absurd rfl nlu
    · exact Or.inl ⟨r1, r2⟩
    · exact Or.inr ⟨r1, r2⟩
    · rw [r1, r2] at nlu; exact absurd rfl nlu
  have ep := (wf_edge wf lp).2.1
  have eq := (wf_edge wf lq).2.1
  by_cases hPQ : m.hVertex p = m.hVertex q
  · by_cases hPQ' : m.hVertex (m.hTwin p) = m.hVertex (m.hTwin q)
    · exact absurd (sg _ lp.1 _ lq.1 lp.2 lq.2 (Or.inl ⟨hPQ, hPQ'⟩)) pq
    · rcases mergedVertex_inj a b v _ _ bp' bq' k2 with r | ⟨r1, r2⟩
      · exact absurd r hPQ'
      · have pa : m.hVertex p ≠ a := fun h => notab p lp pe ⟨Or.inl h, r1⟩
        have pb : m.hVertex p ≠ b := fun h => notab p lp pe ⟨Or.inr h, r1⟩
        have fin : (mergedVertex a b v (m.hVertex p) = v ∧
            mergedVertex a b v (m.hVertex (m.hTwin p)) = m.hVertex p) ∨
          (mergedVertex a b v (m.hVertex p) = m.hVertex p ∧
            mergedVertex a b v (m.hVertex (m.hTwin p)) = v) :=
          Or.inr ⟨mergedVertex_other a b v _ pa pb, mergedVertex_ab a b v _ r1⟩
        rcases r1 with r1 | r1
        · have r2' : m.hVertex (m.hTwin q) = b := by
            rcases r2 with r2 | r2
            · exact absurd (r1.trans r2.symm) hPQ'
            · exact r2
          exact ⟨m.hTwin p, m.hTwin q, m.hVertex p, ltp, ltq, Or.inl ⟨ep, eq⟩, r1, r2',
            by rw [ttp], by rw [ttq, hPQ], pa, pb, fin⟩
        · have r2' : m.hVertex (m.hTwin q) = a := by
            rcases r2 with r2 | r2
            · exact r2
            · exact absurd (r1.trans r2.symm) hPQ'
          exact ⟨m.hTwin q, m.hTwin p, m.hVertex p, ltq, ltp, Or.inr ⟨eq, ep⟩, r2', r1,
            by rw [ttq, hPQ], by rw [ttp], pa, pb, fin⟩
  · rcases mergedVertex_inj a b v _ _ bp bq k1 with r | ⟨r1, r2⟩
    · exact absurd r hPQ
    · have pa : m.hVertex (m.hTwin p) ≠ a := fun h => notab p lp pe ⟨r1, Or.inl h⟩
      have pb : m.hVertex (m.hTwin p) ≠ b := fun h => notab p lp pe ⟨r1, Or.inr h⟩
      have qa : m.hVertex (m.hTwin q) ≠ a := fun h => notab q lq qe ⟨r2, Or.inl h⟩
      have qb : m.hVertex (m.hTwin q) ≠ b := fun h => notab q lq qe ⟨r2, Or.inr h⟩
      have hPQ' : m.hVertex (m.hTwin p) = m.hVertex (m.hTwin q) := by
        rw [mergedVertex_other a b v _ pa pb, mergedVertex_other a b v _ qa qb] at k2
        exact k2
      have fin : (mergedVertex a b v (m.hVertex p) = v ∧
          mergedVertex a b v (m.hVertex (m.hTwin p)) = m.hVertex (m.hTwin p)) ∨
        (mergedVertex a b v (m.hVertex p) = m.hVertex (m.hTwin p) ∧
          mergedVertex a b v (m.hVertex (m.hTwin p)) = v) :=
        Or.inl ⟨mergedVertex_ab a b v _ r1, mergedVertex_other a b v _ pa pb⟩
      rcases r1 with r1 | r1
      · have r2' : m.hVertex q = b := by
          rcases r2 with r2 | r2
          · exact absurd (r1.trans r2.symm) hPQ
          · exact r2
        exact ⟨p, q, m.hVertex (m.hTwin p), lp, lq, Or.inl ⟨rfl, rfl⟩, r1, r2',
          rfl, hPQ'.symm, pa, pb, fin⟩
      · have r2' : m.hVertex q = a := by
          rcases r2 with r2 | r2
          · exact r2
          · exact absurd (r1.trans r2.symm) hPQ
        exact ⟨q, p, m.hVertex (m.hTwin p), lq, lp, Or.inr ⟨rfl, rfl⟩, r2', r1,
          hPQ'.symm, rfl, pa, pb, fin⟩

theorem faceJoins_symm {m : Mesh} {f p q : Nat} (h : FaceJoins m f p q) : FaceJoins m f q p :=
  ⟨h.1, h.2.1, h.2.2.2, h.2.2.1⟩

/-- The case analysis behind the whitelist: when an edge from `a` and an edge from `b` to one common
    neighbour `y` both survive the collapse of `e`, the half-edge from `b` to
    `y` passed the whitelist test of `can_collapse_edge`, and the face it
    passed with, a face of `e`, survives and contains the merged vertex and
    `y`. -/
theorem collapse_shared {m m' : Mesh} {e v h0 h1 x1 y1 s a b f0 f1 w : Nat} {A1 A2 : Bool}
    (nb : EdgeNbhd m e h0 h1 x1 y1 s a b f0 f1)
    (cx : CollapseCtx m m' e v h0 h1 x1 y1 s w A1 A2) (hv : Valid m)
    (sf : SimpleFaces m) (sg : SimpleGraph m)
    (gA gB y : Nat) (lA : hLive m gA) (lB : hLive m gB)
    (vA : m.hVertex gA = a) (vB : m.hVertex gB = b)
    (tA : m.hVertex (m.hTwin gA) = y) (tB : m.hVertex (m.hTwin gB) = y)
    (ya : y ≠ a) (yb : y ≠ b)
    (eA : eLive m' (m.hEdge gA)) (eB : eLive m' (m.hEdge gB))
    (scan : (m.hFace gB = f0 ∨ m.hFace gB = f1) ∨
      (m.hFace (m.hTwin gB) = f0 ∨ m.hFace (m.hTwin gB) = f1)) :
    FaceJoins m' f0 v y ∨ FaceJoins m' f1 v y := by
  have wf := hv.1
  have K := cx.vert
  rw [nb.va, nb.vb] at K
  obtain ⟨-, -, A1A, A2A⟩ := (collapse_elive cx _).1 eA
  obtain ⟨-, -, A1B, A2B⟩ := (collapse_elive cx _).1 eB
  obtain ⟨fw, vtw, w0, w1, wx, wy⟩ := collapse_w nb cx wf
  obtain ⟨ltB, -, ttB⟩ := wf_twin wf lB
  have x0 : x1 ≠ h0 := ne_of_f m.hVertex nb.vx nb.va nb.ab.symm
  have x1' : x1 ≠ h1 := ne_of_f m.hFace nb.f0x nb.f1b nb.ff
  have xs : x1 ≠ s := ne_of_f m.hFace nb.f0x nb.f1s nb.ff
  have y1' : y1 ≠ h1 := ne_of_f m.hFace nb.f0y nb.f1b nb.ff
  have ys : y1 ≠ s := ne_of_f m.hFace nb.f0y nb.f1s nb.ff
  have s0 : s ≠ h0 := ne_of_f m.hFace nb.f1s nb.f0a nb.ff.symm
  have s1 : s ≠ h1 := ne_of_f m.hVertex nb.vs nb.vb nb.ab
  have fl0 : fLive m f0 := by
    have := (wf.2.1.1 h0 nb.l0.1 nb.l0.2).2.1
    rw [nb.f0a] at this; exact this
  have fl1 : fLive m f1 := by
    have := (wf.2.1.1 h1 nb.l1.1 nb.l1.2).2.1
    rw [nb.f1b] at this; exact this
  have kv : ∀ u, u = a ∨ u = b → mergedVertex a b v u = v := mergedVertex_ab a b v
  have ky : mergedVertex a b v y = y := mergedVertex_other a b v y ya yb
  -- the half-edge before the origin of `gB` on the face of its twin
  have back : ∀ f, m.hFace (m.hTwin gB) = f →
      m.hFace (m.hNext (m.hTwin gB)) = f ∧ m.hVertex (m.hNext (m.hTwin gB)) = b := by
    intro f hf
    obtain ⟨-, k2, k3⟩ := wf_next wf ltB
    rw [ttB, vB] at k3
    exact ⟨by rw [k2, hf], k3⟩
  rcases scan with (c | c) | (c | c)
  · -- `gB` is on the face of `h0`: it is `x1`
    have gx : gB = x1 := sf _ lB.1 _ nb.lx.1 lB.2 nb.lx.2 (by rw [c, nb.f0x]) (by rw [vB, nb.vx])
    rw [gx] at A1B tB
    obtain ⟨-, -, vtx⟩ := wf_next wf nb.lx
    rw [nb.n1, tB] at vtx
    have y0 : y1 ≠ h0 := ne_of_f m.hVertex vtx nb.va ya
    cases A1 with
    | true => exact absurd rfl (A1B rfl)
    | false =>
      refine Or.inl ⟨?_, ?_, ⟨x1, ?_, ?_, ?_, ?_⟩, ⟨y1, ?_, ?_, ?_, ?_⟩⟩
      · rw [cx.cF]; exact fl0.1
      · exact ((collapse_flive cx f0).2 ⟨fl0, fun h => Bool.noConfusion h,
          fun _ => by rw [nb.f1s]; exact nb.ff⟩).2
      · rw [cx.cH]; exact nb.lx.1
      · exact ((collapse_hlive cx x1).2 ⟨nb.lx, x0, x1', fun h => Bool.noConfusion h,
          fun _ => ⟨xs, Ne.symm wx⟩⟩).2
      · rw [cx.face]; exact nb.f0x
      · rw [K _ nb.lx x0 x1', nb.vx]; exact kv _ (Or.inr rfl)
      · rw [cx.cH]; exact nb.ly.1
      · exact ((collapse_hlive cx y1).2 ⟨nb.ly, y0, y1', fun h => Bool.noConfusion h,
          fun _ => ⟨ys, Ne.symm wy⟩⟩).2
      · rw [cx.face]; exact nb.f0y
      · rw [K _ nb.ly y0 y1', vtx]; exact ky
  · -- `gB` is on the face of `h1`: it is `h1`, which ends at `a`
    have gh : gB = h1 := sf _ lB.1 _ nb.l1.1 lB.2 nb.l1.2 (by rw [c, nb.f1b]) (by rw [vB, nb.vb])
    rw [gh, nb.t1, nb.va] at tB
    exact absurd tB.symm ya
  · -- the twin of `gB` is on the face of `h0`: it is `h0`
    obtain ⟨k2, k3⟩ := back f0 c
    have lnt := (wf_next wf ltB).1
    have nx : m.hNext (m.hTwin gB) = x1 :=
      sf _ lnt.1 _ nb.lx.1 lnt.2 nb.lx.2 (by rw [k2, nb.f0x]) (by rw [k3, nb.vx])
    have th : m.hTwin gB = h0 := next_inj m wf _ _ ltB nb.l0 (by rw [nx, nb.n0])
    have gh : gB = h1 := by rw [twin_swap wf lB th, nb.t0]
    rw [gh, nb.t1, nb.va] at tB
    exact absurd tB.symm ya
  · -- the twin of `gB` is on the face of `h1`: it is `w`
    obtain ⟨k2, k3⟩ := back f1 c
    have lnt := (wf_next wf ltB).1
    have nx : m.hNext (m.hTwin gB) = h1 :=
      sf _ lnt.1 _ nb.l1.1 lnt.2 nb.l1.2 (by rw [k2, nb.f1b]) (by rw [k3, nb.vb])
    have tw : m.hTwin gB = w := next_inj m wf _ _ ltB cx.lw (by rw [nx, cx.n3])
    have gw : gB = m.hTwin w := twin_swap wf lB tw
    rw [tw] at tB
    by_cases nsw : m.hNext s = w
    · -- the face of `h1` is a triangle: the edge of `s` joins `a` and `y`
      obtain ⟨-, -, j3⟩ := wf_next wf nb.ls
      rw [nsw, tB] at j3
      have es : m.hEdge gA = m.hEdge s :=
        sg _ lA.1 _ nb.ls.1 lA.2 nb.ls.2 (Or.inl ⟨by rw [vA, nb.vs], by rw [tA, ← j3]⟩)
      have esw : m.hEdge s ≠ m.hEdge w := by
        intro hu
        rcases (wf_edge wf nb.ls).2.2 w cx.lw hu.symm with r | r
        · have n3 := cx.n3
          rw [r] at nsw n3
          exact s1 (by rw [← nsw, n3])
        · have hb := vtw
          rw [r, (wf_twin wf nb.ls).2.2, nb.vs] at hb
          exact nb.ab hb
      cases A2 with
      | true =>
        obtain ⟨-, -, d3, -⟩ := collapse_disjoint nb cx hv sg rfl
        rw [d3] at A2A
        exact absurd es (A2A rfl)
      | false =>
        have ee : mergeEdge m.hTwin m.hEdge A1 x1 y1 s = mergeEdge m.hTwin m.hEdge A1 x1 y1 w := by
          by_contra hh
          exact Bool.noConfusion (cx.c2.2 ⟨nsw, hh⟩)
        cases A1 with
        | false => exact absurd ee esw
        | true =>
          obtain ⟨ny, vty, yya, yyb, xy, yy0, txy⟩ := collapse_tri0 nb cx hv rfl
          obtain ⟨-, -, vtx⟩ := wf_next wf nb.lx
          rw [nb.n1] at vtx
          have s1 : s ≠ m.hTwin x1 := ne_of_f m.hVertex nb.vs vtx.symm (Ne.symm yya)
          have es1 : mergeEdge m.hTwin m.hEdge true x1 y1 s = m.hEdge s := by
            simp only [mergeEdge, if_true, upd_apply, s1, if_false]
          by_cases wtx : w = m.hTwin x1
          · have : gB = x1 := by rw [gw, wtx, (wf_twin wf nb.lx).2.2]
            rw [this] at A1B
            exact absurd rfl (A1B rfl)
          · have ew1 : mergeEdge m.hTwin m.hEdge true x1 y1 w = m.hEdge w := by
              simp only [mergeEdge, if_true, upd_apply, wtx, if_false]
            rw [es1, ew1] at ee
            exact absurd ee esw
    · -- the face of `h1` has more than three sides and survives
      have a2 : A2 = false := by
        cases A2 with
        | false => rfl
        | true => exact absurd (cx.c2.1 rfl).1 nsw
      subst a2
      refine Or.inr ⟨?_, ?_, ⟨s, ?_, ?_, ?_, ?_⟩, ⟨w, ?_, ?_, ?_, ?_⟩⟩
      · rw [cx.cF]; exact fl1.1
      · exact ((collapse_flive cx f1).2 ⟨fl1, fun _ => by rw [nb.f0x]; exact nb.ff.symm,
          fun h => Bool.noConfusion h⟩).2
      · rw [cx.cH]; exact nb.ls.1
      · exact ((collapse_hlive cx s).2 ⟨nb.ls, s0, s1, fun _ => ⟨Ne.symm xs, Ne.symm ys⟩,
          fun h => Bool.noConfusion h⟩).2
      · rw [cx.face]; exact nb.f1s
      · rw [K _ nb.ls s0 s1, nb.vs]; exact kv _ (Or.inl rfl)
      · rw [cx.cH]; exact cx.lw.1
      · exact ((collapse_hlive cx w).2 ⟨cx.lw, w0, w1, fun _ => ⟨wx, wy⟩,
          fun h => Bool.noConfusion h⟩).2
      · rw [cx.face]; exact fw
      · rw [K _ cx.lw w0 w1, tB]; exact ky

/-- On a mesh that satisfies the invariants 1 to 5 and in which no two vertices
    are joined by more than one edge, after a collapse of `e` that returns a
    vertex two vertices are joined by more than one live edge only across a
    face of `e` that survives: the whitelist of `can_collapse_edge`. -/
theorem collapse_simpleExcept (dbg : Bool) (m m' : Mesh) (e v : Nat)
    (hv : Valid m) (sf : SimpleFaces m) (sg : SimpleGraph m) (he : eLive m e)
    (hc : collapse_edge dbg m e = some (some v, m')) :
    SimpleExcept m' (m.hFace (m.eHalfedge e)) (m.hFace (m.hTwin (m.eHalfedge e))) := by
  obtain ⟨w, A1, A2, nb, cx⟩ := collapse_ctx dbg m m' e v hv sf he hc
  obtain ⟨hcc, -⟩ := collapse_edge_spec dbg m m' e v hc
  obtain ⟨-, t1, t2, per1, per2, scan⟩ := can_collapse_spec dbg m e hcc
  have wf := hv.1
  unfold SimpleExcept
  intro g hg g' hg'
  unfold ExceptPair
  intro eg eg' lE lE' se
  by_cases eq : m'.hEdge g = m'.hEdge g'
  · exact Or.inl eq
  refine Or.inr ?_
  obtain ⟨p, lp, p2, p3, p4⟩ := collapse_preimage nb cx hv sg g ⟨hg, eg⟩
  obtain ⟨q, lq, q2, q3, q4⟩ := collapse_preimage nb cx hv sg g' ⟨hg', eg'⟩
  have pe : m.hEdge p ≠ e := by rw [p2]; exact ((collapse_elive cx _).1 lE).2.1
  have qe : m.hEdge q ≠ e := by rw [q2]; exact ((collapse_elive cx _).1 lE').2.1
  have pq : m.hEdge p ≠ m.hEdge q := by rw [p2, q2]; exact eq
  obtain ⟨ltq, -, ttq⟩ := wf_twin wf lq
  obtain ⟨r, lr, er, k1, k2⟩ : ∃ r, hLive m r ∧ m.hEdge r = m.hEdge q ∧
      mergedVertex (m.hVertex (m.eHalfedge e)) (m.hVertex (m.hTwin (m.eHalfedge e))) v
          (m.hVertex p) =
        mergedVertex (m.hVertex (m.eHalfedge e)) (m.hVertex (m.hTwin (m.eHalfedge e))) v
          (m.hVertex r) ∧
      mergedVertex (m.hVertex (m.eHalfedge e)) (m.hVertex (m.hTwin (m.eHalfedge e))) v
          (m.hVertex (m.hTwin p)) =
        mergedVertex (m.hVertex (m.eHalfedge e)) (m.hVertex (m.hTwin (m.eHalfedge e))) v
          (m.hVertex (m.hTwin r)) := by
    rcases se with ⟨s1, s2⟩ | ⟨s1, s2⟩
    · exact ⟨q, lq, rfl, by rw [p3, q3, s1], by rw [p4, q4, s2]⟩
    · exact ⟨m.hTwin q, ltq, (wf_edge wf lq).2.1, by rw [p3, q4, s1], by rw [p4, ttq, q3, s2]⟩
  obtain ⟨gA, gB, y, lA, lB, eAB, vA, vB, tA, tB, ya, yb, fin⟩ :=
    collapse_double nb hv sg v cx.vnew p r lp lr pe (by rw [er]; exact qe)
      (by rw [er]; exact pq) k1 k2
  have sc : (m.hFace gB = m.hFace (m.eHalfedge e) ∨
      m.hFace gB = m.hFace (m.hTwin (m.eHalfedge e))) ∨
      (m.hFace (m.hTwin gB) = m.hFace (m.eHalfedge e) ∨
        m.hFace (m.hTwin gB) = m.hFace (m.hTwin (m.eHalfedge e))) := by
    obtain ⟨k, -, hk⟩ := hv.2.1 _ nb.l0.1 nb.l0.2 gA lA.1 lA.2 vA.symm
    obtain ⟨i, hi, hki⟩ := fan_mod (fanStep m) _ _ per1 k
    rw [hki] at hk
    obtain ⟨k', -, hk'⟩ := hv.2.1 _ nb.l1.1 nb.l1.2 gB lB.1 lB.2 vB.symm
    obtain ⟨j, hj, hkj⟩ := fan_mod (fanStep m) _ _ per2 k'
    rw [hkj] at hk'
    have := scan i j hi hj (by rw [hk, hk', tA, tB])
    rw [hk'] at this
    exact this
  have eA : eLive m' (m.hEdge gA) := by
    rcases eAB with ⟨x1, -⟩ | ⟨x1, -⟩
    · rw [x1, p2]; exact lE
    · rw [x1, er, q2]; exact lE'
  have eB : eLive m' (m.hEdge gB) := by
    rcases eAB with ⟨-, x1⟩ | ⟨-, x1⟩
    · rw [x1, er, q2]; exact lE'
    · rw [x1, p2]; exact lE
  have sh := collapse_shared nb cx hv sf sg gA gB y lA lB vA vB tA tB ya yb eA eB sc
  rcases fin with ⟨f1, f2⟩ | ⟨f1, f2⟩
  · rw [← p3, ← p4, f1, f2]; exact sh
  · rw [← p3, ← p4, f1, f2]
    exact sh.imp faceJoins_symm faceJoins_symm

/-- C17: `erase_vertex`, `erase_edge`, `collapse_face`, `bevel_vertex` and
    `bevel_edge` return no result on every mesh and every handle, and the mesh
    after the call is the mesh before it. -/
theorem stubs_decline (m : Mesh) (i : Nat) :
    erase_vertex m i = (none, m) ∧ erase_edge m i = (none, m) ∧
    collapse_face m i = (none, m) ∧ bevel_vertex m i = (none, m) ∧
    bevel_edge m i = (none, m) :=
  ⟨rfl, rfl, rfl, rfl, rfl⟩

/-- C15: with a tangent offset above 1.5 or below -1.0, `bevel_face_positions`
    returns the mesh it was given whenever the walk around the face returns;
    with a tangent offset of exactly -1.0 or 1.5 it goes on to the loop that
    moves the vertices. -/
theorem bevel_face_positions_range (fo : Bool) (normal : Mesh → Nat → Vec3)
    (valid : Vec3 → Bool) (m : Mesh) (sp : List Vec3) (face : Nat) (t no : ℚ) :
    ((t > 3 / 2 ∨ t < -1) →
      bevel_face_positions fo normal valid m sp face t no =
        (collectCycle m (m.fHalfedge face) m.nH (m.fHalfedge face)).map (fun _ => m)) ∧
    ((t = 3 / 2 ∨ t = -1) →
      bevel_face_positions fo normal valid m sp face t no =
        (collectCycle m (m.fHalfedge face) m.nH (m.fHalfedge face)).bind
          (fun hs => bevelMove normal valid sp face t (if fo then -no else no) hs 0 m)) := by
  constructor
  · intro h
    unfold bevel_face_positions
    cases collectCycle m (m.fHalfedge face) m.nH (m.fHalfedge face) with
    | none => rfl
    | some hs => simp only [if_pos h, Option.map_some']
  · intro h
    have h' : ¬ (t > 3 / 2 ∨ t < -1) := by
      rcases h with h | h <;> rw [h] <;> norm_num
    unfold bevel_face_positions
    cases collectCycle m (m.fHalfedge face) m.nH (m.fHalfedge face) with
    | none => rfl
    | some hs => simp only [if_neg h', Option.some_bind]

/-- Witness for C15: on face 0 of the tetrahedron the tangent offset 2 leaves
    the mesh as it is, and the tangent offset 1.5 moves vertex 0. -/
theorem bevel_face_positions_range_witness :
    bevel_face_positions false (fun _ _ => Vec3.zero) (fun _ => true) tetra
      [⟨0, 0, 0⟩, ⟨1, 1, 1⟩, ⟨2, 4, 8⟩] 0 2 0 = some tetra ∧
    ∃ m', bevel_face_positions false (fun _ _ => Vec3.zero) (fun _ => true) tetra
      [⟨0, 0, 0⟩, ⟨1, 1, 1⟩, ⟨2, 4, 8⟩] 0 (3 / 2) 0 = some m' ∧
      m'.vPos 0 ≠ tetra.vPos 0 := by
  refine ⟨?_, ?_⟩
  · rw [(bevel_face_positions_range false (fun _ _ => Vec3.zero) (fun _ => true) tetra
      [⟨0, 0, 0⟩, ⟨1, 1, 1⟩, ⟨2, 4, 8⟩] 0 2 0).1 (Or.inl (by norm_num))]
    rfl
  · rw [(bevel_face_positions_range false (fun _ _ => Vec3.zero) (fun _ => true) tetra
      [⟨0, 0, 0⟩, ⟨1, 1, 1⟩, ⟨2, 4, 8⟩] 0 (3 / 2) 0).2 (Or.inl rfl)]
    refine ⟨_, rfl, ?_⟩
    simp [bevelMove, bevelStep, tetra, tbl, upd, Vec3.add, Vec3.sub, Vec3.smul, Vec3.zero]

theorem cycleFrom_next_congr (m m' : Mesh) (hN : m'.hNext = m.hNext) (s : Nat) :
    ∀ fuel h, cycleFrom m' s fuel h = cycleFrom m s fuel h := by
  intro fuel
  induction fuel with
  | zero => intro h; rfl
  | succ n ih => intro h; simp only [cycleFrom, hN, ih]

theorem face_center_congr (m m' : Mesh) (hN : m'.hNext = m.hNext) (hH : m'.nH = m.nH)
    (hF : m'.fHalfedge = m.fHalfedge) (hV : m'.hVertex = m.hVertex) (hP : m'.vPos = m.vPos)
    (f : Nat) : face_center m' f = face_center m f := by
  unfold face_center faceVertices faceHalfedges
  rw [hH, hF, hV, hP, cycleFrom_next_congr m m' hN]

theorem face_center_newPos (m : Mesh) (a b c : Nat → Vec3) (f : Nat) :
    face_center { m with vNewPos := a, eNewPos := b, fNewPos := c } f = face_center m f :=
  face_center_congr m { m with vNewPos := a, eNewPos := b, fNewPos := c } rfl rfl rfl rfl rfl f

theorem fold_vNewPos (g : Mesh → Nat → Vec3)
    (hg : ∀ m x i, g { m with vNewPos := x } i = g m i) :
    ∀ (l : List Nat) (m : Mesh),
      l.foldl (fun m v => { m with vNewPos := upd m.vNewPos v (g m v) }) m =
        { m with vNewPos := fun i => if i ∈ l then g m i else m.vNewPos i } := by
  intro l
  induction l with
  | nil => intro m; simp
  | cons a l ih =>
    intro m
    rw [List.foldl_cons, ih]
    simp only [hg]
    congr 1
    funext i
    by_cases h1 : i ∈ l
    · simp [h1]
    · by_cases h2 : i = a
      · simp [h1, h2, upd]
      · simp [h1, h2, upd]

theorem fold_eNewPos (g : Mesh → Nat → Vec3)
    (hg : ∀ m x i, g { m with eNewPos := x } i = g m i) :
    ∀ (l : List Nat) (m : Mesh),
      l.foldl (fun m v => { m with eNewPos := upd m.eNewPos v (g m v) }) m =
        { m with eNewPos := fun i => if i ∈ l then g m i else m.eNewPos i } := by
  intro l
  induction l with
  | nil => intro m; simp
  | cons a l ih =>
    intro m
    rw [List.foldl_cons, ih]
    simp only [hg]
    congr 1
    funext i
    by_cases h1 : i ∈ l
    · simp [h1]
    · by_cases h2 : i = a
      · simp [h1, h2, upd]
      · simp [h1, h2, upd]

theorem fold_fNewPos (g : Mesh → Nat → Vec3)
    (hg : ∀ m x i, g { m with fNewPos := x } i = g m i) :
    ∀ (l : List Nat) (m : Mesh),
      l.foldl (fun m v => { m with fNewPos := upd m.fNewPos v (g m v) }) m =
        { m with fNewPos := fun i => if i ∈ l then g m i else m.fNewPos i } := by
  intro l
  induction l with
  | nil => intro m; simp
  | cons a l ih =>
    intro m
    rw [List.foldl_cons, ih]
    simp only [hg]
    congr 1
    funext i
    by_cases h1 : i ∈ l
    · simp [h1]
    · by_cases h2 : i = a
      · simp [h1, h2, upd]
      · simp [h1, h2, upd]

/-- C19: after `linear_subdivide_positions` the `new_pos` of every vertex is
    its position, the `new_pos` of every edge is the midpoint of the positions
    of its two endpoints, the `new_pos` of every face is the arithmetic mean of
    the positions of its boundary vertices, and no position, no connectivity
    field, no count and no erase mark has changed. -/
theorem linear_subdivide_positions_spec (m : Mesh) :
    (∀ v, v < m.nV → (linear_subdivide_positions m).vNewPos v = m.vPos v) ∧
    (∀ e, e < m.nE → (linear_subdivide_positions m).eNewPos e =
      Vec3.smul (1 / 2) (Vec3.add (m.vPos (m.hVertex (m.eHalfedge e)))
        (m.vPos (m.hVertex (m.hTwin (m.eHalfedge e)))))) ∧
    (∀ f, f < m.nF → (linear_subdivide_positions m).fNewPos f =
      Vec3.smul (1 / ((faceVertices m f).length : ℚ))
        (Vec3.sum ((faceVertices m f).map m.vPos))) ∧
    (linear_subdivide_positions m).vPos = m.vPos ∧
    (linear_subdivide_positions m).hVertex = m.hVertex ∧
    (linear_subdivide_positions m).hTwin = m.hTwin ∧
    (linear_subdivide_positions m).hNext = m.hNext ∧
    (linear_subdivide_positions m).hEdge = m.hEdge ∧
    (linear_subdivide_positions m).hFace = m.hFace ∧
    (linear_subdivide_positions m).vHalfedge = m.vHalfedge ∧
    (linear_subdivide_positions m).eHalfedge = m.eHalfedge ∧
    (linear_subdivide_positions m).fHalfedge = m.fHalfedge ∧
    (linear_subdivide_positions m).fBoundary = m.fBoundary ∧
    (linear_subdivide_positions m).nV = m.nV ∧ (linear_subdivide_positions m).nE = m.nE ∧
    (linear_subdivide_positions m).nF = m.nF ∧ (linear_subdivide_positions m).nH = m.nH ∧
    (linear_subdivide_positions m).vErased = m.vErased ∧
    (linear_subdivide_positions m).eErased = m.eErased ∧
    (linear_subdivide_positions m).fErased = m.fErased ∧
    (linear_subdivide_positions m).hErased = m.hErased := by
  have e1 := fold_vNewPos (fun m v => m.vPos v) (fun _ _ _ => rfl)
  have e2 := fold_eNewPos (fun m e => m.center e) (fun _ _ _ => rfl)
  have e3 := fold_fNewPos (fun m f => face_center m f)
    (fun m x i => face_center_congr m { m with fNewPos := x } rfl rfl rfl rfl rfl i)
  unfold linear_subdivide_positions
  simp only [e1, e2, e3, List.mem_range, and_true, and_self]
  refine ⟨?_, ?_, ?_⟩
  · intro v hv; simp only [if_pos hv]
  · intro e he; simp only [if_pos he]; rfl
  · intro f hf
    simp only [if_pos hf]
    rw [face_center_newPos]
    rfl

/-- Witness for C19: on the tetrahedron the `new_pos` of edge 0, which joins
    the vertices 0 and 1, is the midpoint of their positions. -/
theorem linear_subdivide_positions_spec_witness :
    (linear_subdivide_positions tetra).eNewPos 0 =
      Vec3.smul (1 / 2) (Vec3.add (tetra.vPos 0) (tetra.vPos 1)) :=
  (linear_subdivide_positions_spec tetra).2.1 0 (by decide)

theorem fanStep_inj (m : Mesh) (wf : WellFormed m) (x y : Nat) (hx : hLive m x)
    (hy : hLive m y) (h : fanStep m x = fanStep m y) : x = y := by
  have tx := wf.1 x hx.1 hx.2
  have ty := wf.1 y hy.1 hy.2
  have := next_inj m wf _ _ tx.1 ty.1 h
  rw [← tx.2.2, ← ty.2.2, this]

/-- The walk around the origin of a live half-edge `h` comes back to `h`: there
    is a least number of steps, below the number of half-edges, that does. -/
theorem fan_period (m : Mesh) (hv : Valid m) (h : Nat) (hl : hLive m h) :
    ∃ t, t < m.nH ∧ (fanStep m)^[t + 1] h = h ∧ ∀ j, j < t → (fanStep m)^[j + 1] h ≠ h := by
  have wf := hv.1
  obtain ⟨-, -, -, k, -, ck⟩ := wf.2.1.1 h hl.1 hl.2
  have pl := (iterate_live m wf h hl k).1
  have tp := wf.1 _ pl.1 pl.2
  have np : m.hNext (m.hNext^[k] h) = h :=
    (Function.iterate_succ_apply' m.hNext k h).symm.trans ck
  have vg : m.hVertex h = m.hVertex (m.hTwin (m.hNext^[k] h)) := by
    rw [← wf.2.2.2.2.2 _ pl.1 pl.2, np]
  obtain ⟨j, hj, ej⟩ := hv.2.1 h hl.1 hl.2 _ tp.1.1 tp.1.2 vg
  have cl : ∃ t, t < m.nH ∧ (fanStep m)^[t + 1] h = h := by
    refine ⟨j, hj, ?_⟩
    rw [Function.iterate_succ_apply', ej]
    unfold fanStep
    rw [tp.2.2, np]
  classical
  refine ⟨Nat.find cl, (Nat.find_spec cl).1, (Nat.find_spec cl).2, ?_⟩
  intro i hi hh
  exact Nat.find_min cl hi ⟨by have := (Nat.find_spec cl).1; omega, hh⟩

theorem fanFrom_eq (m : Mesh) (s : Nat) :
    ∀ (fuel t h : Nat), t < fuel → (fanStep m)^[t + 1] h = s →
      (∀ j, j < t → (fanStep m)^[j + 1] h ≠ s) →
      fanFrom m s fuel h = (List.range (t + 1)).map (fun i => (fanStep m)^[i] h) := by
  intro fuel
  induction fuel with
  | zero => intro t h ht; omega
  | succ n ih =>
    intro t h ht hc hm
    unfold fanFrom
    cases t with
    | zero =>
      have : fanStep m h = s := by simpa using hc
      simp [this]
    | succ t =>
      have ne : fanStep m h ≠ s := by simpa using hm 0 (by omega)
      rw [if_neg ne, ih t (fanStep m h) (by omega)
        (by rw [← Function.iterate_succ_apply]; exact hc)
        (fun j hj => by rw [← Function.iterate_succ_apply]; exact hm (j + 1) (by omega))]
      rw [List.range_succ_eq_map (t + 1)]
      simp only [List.map_cons, List.map_map, Function.iterate_zero, id_eq]
      congr 1

theorem fanSums_eq (m : Mesh) (s : Nat) :
    ∀ (fuel t h n : Nat) (fs es : Vec3), t < fuel → (fanStep m)^[t + 1] h = s →
      (∀ j, j < t → (fanStep m)^[j + 1] h ≠ s) →
      fanSums m s fuel h n fs es =
        some (n + (fanFrom m s fuel h).length,
          ((fanFrom m s fuel h).map (fun g => m.fNewPos (m.hFace g))).foldl Vec3.add fs,
          ((fanFrom m s fuel h).map (fun g => m.eNewPos (m.hEdge g))).foldl Vec3.add es) := by
  intro fuel
  induction fuel with
  | zero => intro t h n fs es ht; omega
  | succ k ih =>
    intro t h n fs es ht hc hm
    unfold fanSums fanFrom
    simp only [show m.hNext (m.hTwin h) = fanStep m h from rfl]
    cases t with
    | zero =>
      have : fanStep m h = s := by simpa using hc
      simp [this]
    | succ t =>
      have ne : fanStep m h ≠ s := by simpa using hm 0 (by omega)
      simp only [ne, if_false]
      rw [ih t (fanStep m h) (n + 1) (Vec3.add fs (m.fNewPos (m.hFace h)))
        (Vec3.add es (m.eNewPos (m.hEdge h))) (by omega)
        (by rw [← Function.iterate_succ_apply]; exact hc)
        (fun j hj => by rw [← Function.iterate_succ_apply]; exact hm (j + 1) (by omega))]
      simp only [List.length_cons, List.map_cons, List.foldl_cons]
      congr 2
      omega

theorem fanFrom_congr (m m' : Mesh) (hs : fanStep m' = fanStep m) (s : Nat) :
    ∀ fuel h, fanFrom m' s fuel h = fanFrom m s fuel h := by
  intro fuel
  induction fuel with
  | zero => intro h; rfl
  | succ n ih => intro h; simp only [fanFrom, hs, ih]

theorem fanSums_vNewPos (m : Mesh) (x : Nat → Vec3) (s : Nat) :
    ∀ fuel h n a b, fanSums { m with vNewPos := x } s fuel h n a b = fanSums m s fuel h n a b := by
  intro fuel
  induction fuel with
  | zero => intro h n a b; rfl
  | succ k ih => intro h n a b; simp only [fanSums, ih]

theorem fan_iterate_cancel (m : Mesh) (wf : WellFormed m) (h : Nat) (hl : hLive m h) (d : Nat) :
    ∀ i, (fanStep m)^[i] h = (fanStep m)^[i + d] h → h = (fanStep m)^[d] h := by
  intro i
  induction i with
  | zero => intro e; simpa using e
  | succ i ih =>
    intro e
    apply ih
    have e' : fanStep m ((fanStep m)^[i] h) = fanStep m ((fanStep m)^[i + d] h) := by
      have a1 := Function.iterate_succ_apply' (fanStep m) i h
      have a2 := Function.iterate_succ_apply' (fanStep m) (i + d) h
      rw [← a1, ← a2, show (i + d).succ = i + 1 + d by omega]
      exact e
    exact fanStep_inj m wf _ _ (fan_live m wf h hl i).1 (fan_live m wf h hl (i + d)).1 e'

/-- The fan of a live vertex lists, without repetition, exactly the live
    half-edges that leave the vertex. -/
theorem vertexFan_spec (m : Mesh) (hv : Valid m) (v : Nat) (lv : v < m.nV)
    (le : m.vErased v = false) :
    (vertexFan m v).Nodup ∧ (∀ g, g ∈ vertexFan m v ↔ (hLive m g ∧ m.hVertex g = v)) ∧
    ∃ t, t < m.nH ∧ (fanStep m)^[t + 1] (m.vHalfedge v) = m.vHalfedge v ∧
      ∀ j, j < t → (fanStep m)^[j + 1] (m.vHalfedge v) ≠ m.vHalfedge v := by
  have wf := hv.1
  obtain ⟨hl, hvv⟩ := wf.2.2.2.2.1 v lv le
  obtain ⟨t, ht, hc, hm⟩ := fan_period m hv _ hl
  have eq := fanFrom_eq m (m.vHalfedge v) m.nH t (m.vHalfedge v) ht hc hm
  unfold vertexFan
  rw [eq]
  refine ⟨?_, ?_, t, ht, hc, hm⟩
  · apply List.Nodup.map_on _ (List.nodup_range _)
    have key : ∀ i j, i < j → j ≤ t →
        (fanStep m)^[i] (m.vHalfedge v) ≠ (fanStep m)^[j] (m.vHalfedge v) := by
      intro i j hij hj e
      have e2 : (fanStep m)^[i] (m.vHalfedge v) = (fanStep m)^[i + (j - i)] (m.vHalfedge v) := by
        rw [show i + (j - i) = j by omega]; exact e
      have := fan_iterate_cancel m wf _ hl (j - i) i e2
      obtain ⟨d, hd⟩ : ∃ d, j - i = d + 1 := ⟨j - i - 1, by omega⟩
      rw [hd] at this
      exact hm d (by omega) this.symm
    intro i hi j hj e
    simp only [List.mem_range] at hi hj
    rcases Nat.lt_trichotomy i j with c | c | c
    · exact absurd e (key i j c (by omega))
    · exact c
    · exact absurd e.symm (key j i c (by omega))
  · intro g
    simp only [List.mem_map, List.mem_range]
    constructor
    · rintro ⟨i, -, rfl⟩
      obtain ⟨a, b⟩ := fan_live m wf _ hl i
      exact ⟨a, by rw [b, hvv]⟩
    · rintro ⟨gl, gv⟩
      obtain ⟨k, -, hk⟩ := hv.2.1 _ hl.1 hl.2 g gl.1 gl.2 (by rw [hvv, gv])
      obtain ⟨i, hi, hki⟩ := fan_mod (fanStep m) _ _ hc k
      exact ⟨i, by omega, by rw [← hki, hk]⟩

/-- The `new_pos` the vertex loop of `catmullclark_subdivide_positions` gives
    the vertex `v`, from the fan of `v` in `m`. -/
theorem ccVertices_eq (m0 : Mesh)
    (R : Nat → Vec3)
    (hR : ∀ v, R v = ccVertexRule (vertexFan m0 v).length
      (Vec3.sum ((vertexFan m0 v).map (fun g => m0.fNewPos (m0.hFace g))))
      (Vec3.sum ((vertexFan m0 v).map (fun g => m0.eNewPos (m0.hEdge g)))) (m0.vPos v)) :
    ∀ (l : List Nat) (x : Nat → Vec3),
      (∀ v, v ∈ l → ∃ t, t < m0.nH ∧ (fanStep m0)^[t + 1] (m0.vHalfedge v) = m0.vHalfedge v ∧
        ∀ j, j < t → (fanStep m0)^[j + 1] (m0.vHalfedge v) ≠ m0.vHalfedge v) →
      ccVertices l { m0 with vNewPos := x } =
        some { m0 with vNewPos := fun i => if i ∈ l then R i else x i } := by
  intro l
  induction l with
  | nil => intro x _; simp [ccVertices]
  | cons a l ih =>
    intro x hcl
    obtain ⟨t, ht, hc, hm⟩ := hcl a (List.mem_cons_self a l)
    unfold ccVertices
    simp only
    rw [fanSums_vNewPos, fanSums_eq m0 _ m0.nH t _ 0 Vec3.zero Vec3.zero ht hc hm]
    simp only [Nat.zero_add]
    have := ih (upd x a (R a)) (fun v hv => hcl v (List.mem_cons_of_mem a hv))
    rw [hR a] at this
    unfold vertexFan Vec3.sum at this
    rw [this]
    congr 2
    funext i
    by_cases h1 : i ∈ l
    · simp [h1]
    · by_cases h2 : i = a
      · subst h2
        simp only [h1, if_false, upd_apply, if_true, List.mem_cons, true_or, hR]
        rfl
      · simp [h1, h2, upd]

/-- C20: on a mesh that satisfies the invariants and has no erased vertex,
    `catmullclark_subdivide_positions` returns, and afterwards the `new_pos` of
    every face is the mean of the positions of its boundary vertices, the
    `new_pos` of every edge is the mean of the positions of its two endpoints
    and of the `new_pos` of the two faces at its half-edges, and the `new_pos`
    of every vertex is `(Q + 2R + (n - 3)S) / n`, where the `n` half-edges of
    its fan are exactly the live half-edges that leave it, `Q` is the mean of
    the `new_pos` of their faces, `R` the mean of the `new_pos` of their edges
    and `S` the position of the vertex; positions are not changed. -/
theorem catmullclark_subdivide_positions_spec (m : Mesh) (hv : Valid m)
    (hl : ∀ v, v < m.nV → m.vErased v = false) :
    ∃ m', catmullclark_subdivide_positions m = some m' ∧
      (∀ f, f < m.nF → m'.fNewPos f =
        Vec3.smul (1 / ((faceVertices m f).length : ℚ))
          (Vec3.sum ((faceVertices m f).map m.vPos))) ∧
      (∀ e, e < m.nE → m'.eNewPos e =
        Vec3.smul (1 / 4)
          (Vec3.add (Vec3.add (Vec3.add (m.vPos (m.hVertex (m.eHalfedge e)))
              (m.vPos (m.hVertex (m.hTwin (m.eHalfedge e)))))
            (m'.fNewPos (m.hFace (m.eHalfedge e))))
            (m'.fNewPos (m.hFace (m.hTwin (m.eHalfedge e)))))) ∧
      (∀ v, v < m.nV →
        (vertexFan m v).Nodup ∧ (∀ g, g ∈ vertexFan m v ↔ (hLive m g ∧ m.hVertex g = v)) ∧
        m'.vNewPos v =
          Vec3.smul (1 / ((vertexFan m v).length : ℚ))
            (Vec3.add
              (Vec3.add
                (Vec3.smul (1 / ((vertexFan m v).length : ℚ))
                  (Vec3.sum ((vertexFan m v).map (fun g => m'.fNewPos (m.hFace g)))))
                (Vec3.smul 2
                  (Vec3.smul (1 / ((vertexFan m v).length : ℚ))
                    (Vec3.sum ((vertexFan m v).map (fun g => m'.eNewPos (m.hEdge g)))))))
              (Vec3.smul ((((vertexFan m v).length : ℤ) - 3 : ℤ) : ℚ) (m.vPos v)))) ∧
      m'.vPos = m.vPos := by
  have e1 := fold_fNewPos (fun m f => face_center m f)
    (fun m x i => face_center_congr m { m with fNewPos := x } rfl rfl rfl rfl rfl i)
  have e2 := fold_eNewPos (fun m e => ccEdgeRule m e) (fun _ _ _ => rfl)
  obtain ⟨F1, hF1⟩ : ∃ F1 : Nat → Vec3,
      F1 = fun i => if i ∈ List.range m.nF then face_center m i else m.fNewPos i := ⟨_, rfl⟩
  obtain ⟨E1, hE1⟩ : ∃ E1 : Nat → Vec3,
      E1 = fun i => if i ∈ List.range m.nE then ccEdgeRule { m with fNewPos := F1 } i
        else m.eNewPos i := ⟨_, rfl⟩
  have cm : catmullclark_subdivide_positions m =
      ccVertices (List.range m.nV) { m with fNewPos := F1, eNewPos := E1, vNewPos := m.vNewPos } := by
    unfold catmullclark_subdivide_positions
    simp only [e1, e2]
    rw [hE1, hF1]
  have fs : fanStep { m with fNewPos := F1, eNewPos := E1 } = fanStep m := rfl
  have vf : ∀ v, vertexFan { m with fNewPos := F1, eNewPos := E1 } v = vertexFan m v := by
    intro v
    exact fanFrom_congr m _ fs _ _ _
  have key := ccVertices_eq { m with fNewPos := F1, eNewPos := E1 } _ (fun v => rfl)
    (List.range m.nV) m.vNewPos
    (fun v hvr => (vertexFan_spec m hv v (List.mem_range.1 hvr)
      (hl v (List.mem_range.1 hvr))).2.2)
  rw [key] at cm
  refine ⟨_, cm, ?_, ?_, ?_, rfl⟩
  · intro f hf
    show F1 f = _
    rw [hF1]
    simp only [List.mem_range, if_pos hf]
    rfl
  · intro e he
    show E1 e = _
    rw [hE1]
    simp only [List.mem_range, if_pos he]
    rfl
  · intro v hvl
    obtain ⟨a, b, -⟩ := vertexFan_spec m hv v hvl (hl v hvl)
    refine ⟨a, b, ?_⟩
    simp only [List.mem_range, if_pos hvl, vf]
    rfl

/-- Witness for C20: the tetrahedron satisfies the hypotheses. -/
theorem catmullclark_subdivide_positions_spec_witness :
    Valid tetra ∧ (∀ v, v < tetra.nV → tetra.vErased v = false) ∧
    ∃ m', catmullclark_subdivide_positions tetra = some m' ∧ m'.vPos = tetra.vPos :=
  ⟨by decide, by decide,
    (catmullclark_subdivide_positions_spec tetra (by decide) (by decide)).imp
      (fun _ h => ⟨h.1, h.2.2.2.2⟩)⟩

theorem bevelStep_fields (normal : Mesh → Nat → Vec3) (valid : Vec3 → Bool) (face : Nat)
    (t no : ℚ) (m : Mesh) (h : Nat) (start : Vec3) :
    (bevelStep normal valid face t no m h start).hVertex = m.hVertex ∧
    (bevelStep normal valid face t no m h start).hTwin = m.hTwin ∧
    (bevelStep normal valid face t no m h start).hNext = m.hNext ∧
    (bevelStep normal valid face t no m h start).hEdge = m.hEdge ∧
    (bevelStep normal valid face t no m h start).hFace = m.hFace ∧
    (bevelStep normal valid face t no m h start).fHalfedge = m.fHalfedge ∧
    (bevelStep normal valid face t no m h start).nH = m.nH ∧
    (∀ x, x ≠ m.hVertex h → (bevelStep normal valid face t no m h start).vPos x = m.vPos x) := by
  unfold bevelStep
  simp only
  split_ifs with c
  · refine ⟨rfl, rfl, rfl, rfl, rfl, rfl, rfl, ?_⟩
    intro x hx
    simp [upd, hx]
  · exact ⟨rfl, rfl, rfl, rfl, rfl, rfl, rfl, fun _ _ => rfl⟩

theorem bevelStates_fields (normal : Mesh → Nat → Vec3) (valid : Vec3 → Bool)
    (sp : List Vec3) (face : Nat) (t no : ℚ) (hs : List Nat) (m : Mesh) :
    ∀ k, (bevelStates normal valid sp face t no hs m k).hVertex = m.hVertex ∧
      (bevelStates normal valid sp face t no hs m k).hTwin = m.hTwin ∧
      (bevelStates normal valid sp face t no hs m k).hNext = m.hNext ∧
      (bevelStates normal valid sp face t no hs m k).hEdge = m.hEdge ∧
      (bevelStates normal valid sp face t no hs m k).hFace = m.hFace ∧
      (bevelStates normal valid sp face t no hs m k).fHalfedge = m.fHalfedge ∧
      (bevelStates normal valid sp face t no hs m k).nH = m.nH ∧
      (∀ x, (∀ j, j < k → m.hVertex (hs.getD j 0) ≠ x) →
        (bevelStates normal valid sp face t no hs m k).vPos x = m.vPos x) := by
  intro k
  induction k with
  | zero => exact ⟨rfl, rfl, rfl, rfl, rfl, rfl, rfl, fun _ _ => rfl⟩
  | succ k ih =>
    obtain ⟨a1, a2, a3, a4, a5, a6, a7, a8⟩ := ih
    obtain ⟨b1, b2, b3, b4, b5, b6, b7, b8⟩ := bevelStep_fields normal valid face t no
      (bevelStates normal valid sp face t no hs m k) (hs.getD k 0) (sp.getD k Vec3.zero)
    refine ⟨b1.trans a1, b2.trans a2, b3.trans a3, b4.trans a4, b5.trans a5, b6.trans a6,
      b7.trans a7, ?_⟩
    intro x hx
    show (bevelStep normal valid face t no _ _ _).vPos x = _
    rw [b8 x (by rw [a1]; exact Ne.symm (hx k (by omega)))]
    exact a8 x (fun j hj => hx j (by omega))

theorem bevelMove_states (normal : Mesh → Nat → Vec3) (valid : Vec3 → Bool)
    (sp : List Vec3) (face : Nat) (t no : ℚ) (hs : List Nat) (m : Mesh)
    (hlen : hs.length ≤ sp.length) :
    ∀ (l pre : List Nat), hs = pre ++ l →
      bevelMove normal valid sp face t no l pre.length
          (bevelStates normal valid sp face t no hs m pre.length) =
        some (bevelStates normal valid sp face t no hs m hs.length) := by
  intro l
  induction l with
  | nil =>
    intro pre hp
    rw [hp]; simp [bevelMove]
  | cons h l ih =>
    intro pre hp
    have hi : pre.length < sp.length := by
      have : hs.length = pre.length + (l.length + 1) := by rw [hp]; simp
      omega
    have e1 : sp[pre.length]? = some (sp.getD pre.length Vec3.zero) := by
      rw [List.getElem?_eq_getElem hi, List.getD_eq_getElem _ _ hi]
    have e2 : hs.getD pre.length 0 = h := by
      rw [hp, List.getD_append_right _ _ _ _ (le_refl _)]; simp
    unfold bevelMove
    rw [e1]
    simp only
    have := ih (pre ++ [h]) (by rw [hp]; simp)
    simp only [List.length_append, List.length_singleton] at this
    rw [← this]
    congr 1
    show _ = bevelStep normal valid face t no _ _ _
    rw [e2]

theorem bevelStates_final (normal : Mesh → Nat → Vec3) (valid : Vec3 → Bool)
    (m : Mesh) (sp : List Vec3) (face : Nat) (t no : ℚ) (hs : List Nat)
    (hd : ∀ j, j < hs.length → ∀ i, i < j →
      m.hVertex (hs.getD i 0) ≠ m.hVertex (hs.getD j 0))
    (i : Nat) (hi : i < hs.length) :
    (bevelStates normal valid sp face t no hs m hs.length).vPos (m.hVertex (hs.getD i 0)) =
      if valid (Vec3.add
          (Vec3.add (sp.getD i Vec3.zero)
            (Vec3.smul no (normal (bevelStates normal valid sp face t no hs m i) face)))
          (Vec3.smul t (Vec3.sub (sp.getD i Vec3.zero)
            ((bevelStates normal valid sp face t no hs m i).vPos
              (m.hVertex (m.hTwin (hs.getD i 0))))))) = true
      then Vec3.add
          (Vec3.add (sp.getD i Vec3.zero)
            (Vec3.smul no (normal (bevelStates normal valid sp face t no hs m i) face)))
          (Vec3.smul t (Vec3.sub (sp.getD i Vec3.zero)
            ((bevelStates normal valid sp face t no hs m i).vPos
              (m.hVertex (m.hTwin (hs.getD i 0))))))
      else m.vPos (m.hVertex (hs.getD i 0)) := by
  obtain ⟨a1, a2, a3, -, -, a6, -, a8⟩ := bevelStates_fields normal valid sp face t no hs m i
  -- the later rounds do not touch the origin of the `i`-th half-edge
  have later : ∀ k, i + 1 ≤ k → k ≤ hs.length →
      (bevelStates normal valid sp face t no hs m k).vPos (m.hVertex (hs.getD i 0)) =
        (bevelStates normal valid sp face t no hs m (i + 1)).vPos (m.hVertex (hs.getD i 0)) := by
    intro k hk
    induction k with
    | zero => omega
    | succ k ih =>
      intro hkl
      rcases Nat.eq_or_lt_of_le hk with e | l
      · rw [← e]
      · have b := (bevelStep_fields normal valid face t no
          (bevelStates normal valid sp face t no hs m k)
          (hs.getD k 0) (sp.getD k Vec3.zero)).2.2.2.2.2.2.2
        have c1 := (bevelStates_fields normal valid sp face t no hs m k).1
        show (bevelStep normal valid face t no _ _ _).vPos _ = _
        rw [b _ (by rw [c1]; exact hd k (by omega) i (by omega))]
        exact ih (by omega) (by omega)
  rw [later hs.length (by omega) (le_refl _)]
  show (bevelStep normal valid face t no _ _ _).vPos _ = _
  unfold bevelStep
  simp only [a1, a2]
  split_ifs with c
  · simp [upd]
  · exact a8 _ (fun j hj => hd i hi j hj)

/-- The walk `do { ...; h = h->next(); } while (h != start)`: the list it
    returns holds the half-edges after `h` along `next`, in order. -/
theorem collectCycle_getD (m : Mesh) (start : Nat) :
    ∀ (fuel h : Nat) (l : List Nat), collectCycle m start fuel h = some l →
      ∀ i, i < l.length → l.getD i 0 = m.hNext^[i] h := by
  intro fuel
  induction fuel with
  | zero => intro h l hl; simp [collectCycle] at hl
  | succ n ih =>
    intro h l hl i hi
    unfold collectCycle at hl
    split_ifs at hl with c
    · rw [← Option.some.inj hl] at hi ⊢
      simp only [List.length_singleton] at hi
      obtain rfl : i = 0 := by omega
      rfl
    · cases hr : collectCycle m start n (m.hNext h) with
      | none => rw [hr] at hl; simp at hl
      | some l' =>
        rw [hr] at hl
        simp only [Option.map_some', Option.some.injEq] at hl
        rw [← hl] at hi ⊢
        cases i with
        | zero => rfl
        | succ i =>
          simp only [List.length_cons] at hi
          rw [List.getD_cons_succ, Function.iterate_succ_apply]
          exact ih _ _ hr i (by omega)

/-- The loop of `bevel_face_positions` writes positions only. -/
theorem bevelStep_eta (normal : Mesh → Nat → Vec3) (valid : Vec3 → Bool) (face : Nat)
    (t no : ℚ) (m : Mesh) (h : Nat) (start : Vec3) :
    bevelStep normal valid face t no m h start =
      { m with vPos := (bevelStep normal valid face t no m h start).vPos } := by
  unfold bevelStep
  simp only
  split_ifs <;> rfl

theorem mesh_eta_pos (m S : Mesh) (p : Nat → Vec3) (h : S = { m with vPos := S.vPos }) :
    ({ S with vPos := p } : Mesh) = { m with vPos := p } := by
  cases m
  cases S
  simp only [Mesh.mk.injEq, true_and, and_true] at h ⊢
  obtain ⟨h1, h2, h3, h4, h5, h6, h7, h8, h9, h10, h12, h13, h14, h15, h16, h17, h18, h19,
    h20, h21⟩ := h
  exact ⟨h1, h2, h3, h4, h5, h6, h7, h8, h9, h10, h12, h13, h14, h15, h16, h17, h18, h19,
    h20, h21⟩

theorem bevelStates_eta (normal : Mesh → Nat → Vec3) (valid : Vec3 → Bool)
    (sp : List Vec3) (face : Nat) (t no : ℚ) (hs : List Nat) (m : Mesh) :
    ∀ k, bevelStates normal valid sp face t no hs m k =
      { m with vPos := (bevelStates normal valid sp face t no hs m k).vPos } := by
  intro k
  induction k with
  | zero => rfl
  | succ k ih =>
    exact (bevelStep_eta normal valid face t no
      (bevelStates normal valid sp face t no hs m k) (hs.getD k 0)
      (sp.getD k Vec3.zero)).trans (mesh_eta_pos m _ _ ih)

/-- The position of the origin of the `i`-th half-edge is final once the
    round `i` of the loop has run. -/
theorem bevelStates_later (normal : Mesh → Nat → Vec3) (valid : Vec3 → Bool)
    (m : Mesh) (sp : List Vec3) (face : Nat) (t no : ℚ) (hs : List Nat)
    (hd : ∀ j, j < hs.length → ∀ i, i < j →
      m.hVertex (hs.getD i 0) ≠ m.hVertex (hs.getD j 0))
    (i : Nat) :
    ∀ k, i + 1 ≤ k → k ≤ hs.length →
      (bevelStates normal valid sp face t no hs m k).vPos (m.hVertex (hs.getD i 0)) =
        (bevelStates normal valid sp face t no hs m (i + 1)).vPos (m.hVertex (hs.getD i 0)) := by
  intro k hk
  induction k with
  | zero => omega
  | succ k ih =>
    intro hkl
    rcases Nat.eq_or_lt_of_le hk with e | l
    · rw [← e]
    · have b := (bevelStep_fields normal valid face t no
        (bevelStates normal valid sp face t no hs m k)
        (hs.getD k 0) (sp.getD k Vec3.zero)).2.2.2.2.2.2.2
      have c1 := (bevelStates_fields normal valid sp face t no hs m k).1
      show (bevelStep normal valid face t no _ _ _).vPos _ = _
      rw [b _ (by rw [c1]; exact hd k (by omega) i (by omega))]
      exact ih (by omega) (by omega)

/-- The mesh when the round `i` of the loop of `bevel_face_positions` starts:
    the origins of the half-edges before the `i`-th are where the call leaves
    them, every other position and all the connectivity are as at the call. -/
theorem bevelStates_partial (normal : Mesh → Nat → Vec3) (valid : Vec3 → Bool)
    (m : Mesh) (sp : List Vec3) (face : Nat) (t no : ℚ) (hs : List Nat)
    (hd : ∀ j, j < hs.length → ∀ i, i < j →
      m.hVertex (hs.getD i 0) ≠ m.hVertex (hs.getD j 0))
    (i : Nat) (hi : i ≤ hs.length) :
    bevelStates normal valid sp face t no hs m i =
      { m with vPos := fun x =>
          if x ∈ (hs.take i).map m.hVertex then
            (bevelStates normal valid sp face t no hs m hs.length).vPos x
          else m.vPos x } := by
  rw [bevelStates_eta normal valid sp face t no hs m i]
  congr 1
  funext x
  by_cases c : x ∈ (hs.take i).map m.hVertex
  · rw [if_pos c]
    obtain ⟨h, hh, rfl⟩ := List.mem_map.1 c
    obtain ⟨j, hj, rfl⟩ := List.getElem_of_mem hh
    have hj' : j < i ∧ j < hs.length := by
      rw [List.length_take] at hj
      omega
    have e : (List.take i hs)[j] = hs.getD j 0 := by
      rw [List.getElem_take, List.getD_eq_getElem _ _ hj'.2]
    rw [e, bevelStates_later normal valid m sp face t no hs hd j i (by omega) hi,
      bevelStates_later normal valid m sp face t no hs hd j hs.length (by omega) (le_refl _)]
  · rw [if_neg c]
    refine (bevelStates_fields normal valid sp face t no hs m i).2.2.2.2.2.2.2 x ?_
    intro j hj h
    apply c
    rw [List.mem_map]
    refine ⟨hs.getD j 0, ?_, h⟩
    have hjl : j < hs.length := by omega
    rw [List.getD_eq_getElem _ _ hjl]
    exact List.mem_take_iff_getElem.2 ⟨j, by rw [Nat.lt_min]; exact ⟨hj, hjl⟩, rfl⟩

/-- C14 (amended): on a well-formed mesh, for a live face whose walk returns
    the half-edges `hs`, with pairwise different origins that are at their
    start positions when the call is made, and a tangent offset in
    `[-1, 1.5]`, `bevel_face_positions` returns a mesh `R` that differs from
    the mesh of the call in the positions of the origins of `hs` only.  For
    every half-edge of the face but the last, the twin of the `i`-th half-edge
    starts at the next vertex of the face, and the `i`-th vertex ends at
    `start[i] + normal * normal_offset + (start[i] - start[i+1]) *
    tangent_offset` when that point is valid and keeps its position otherwise;
    `normal` is the face normal of the mesh in which the vertices before the
    `i`-th are where `R` has them and all else is as at the call.  The normal
    offset is negated when the orientation flag is set. -/
theorem bevel_face_positions_formula (fo : Bool) (normal : Mesh → Nat → Vec3)
    (valid : Vec3 → Bool) (m : Mesh) (sp : List Vec3) (face : Nat) (t no : ℚ) (hs : List Nat)
    (wf : WellFormed m) (hf : fLive m face)
    (hc : collectCycle m (m.fHalfedge face) m.nH (m.fHalfedge face) = some hs)
    (ht : -1 ≤ t ∧ t ≤ 3 / 2) (hlen : hs.length ≤ sp.length)
    (hd : ∀ j, j < hs.length → ∀ i, i < j →
      m.hVertex (hs.getD i 0) ≠ m.hVertex (hs.getD j 0))
    (hst : ∀ j, j < hs.length → m.vPos (m.hVertex (hs.getD j 0)) = sp.getD j Vec3.zero) :
    ∃ R : Mesh, bevel_face_positions fo normal valid m sp face t no = some R ∧
      R = { m with vPos := R.vPos } ∧
      (∀ x, (∀ j, j < hs.length → m.hVertex (hs.getD j 0) ≠ x) → R.vPos x = m.vPos x) ∧
      ∀ i, i + 1 < hs.length →
        m.hVertex (m.hTwin (hs.getD i 0)) = m.hVertex (hs.getD (i + 1) 0) ∧
        R.vPos (m.hVertex (hs.getD i 0)) =
          if valid (Vec3.add
              (Vec3.add (sp.getD i Vec3.zero)
                (Vec3.smul (if fo then -no else no)
                  (normal { m with vPos := fun x =>
                    if x ∈ (hs.take i).map m.hVertex then R.vPos x else m.vPos x } face)))
              (Vec3.smul t (Vec3.sub (sp.getD i Vec3.zero) (sp.getD (i + 1) Vec3.zero)))) = true
          then Vec3.add
              (Vec3.add (sp.getD i Vec3.zero)
                (Vec3.smul (if fo then -no else no)
                  (normal { m with vPos := fun x =>
                    if x ∈ (hs.take i).map m.hVertex then R.vPos x else m.vPos x } face)))
              (Vec3.smul t (Vec3.sub (sp.getD i Vec3.zero) (sp.getD (i + 1) Vec3.zero)))
          else m.vPos (m.hVertex (hs.getD i 0)) := by
  have rng : ¬ (t > 3 / 2 ∨ t < -1) := by
    rintro (h | h)
    · exact absurd ht.2 (not_le.2 h)
    · exact absurd ht.1 (not_le.2 h)
  refine ⟨bevelStates normal valid sp face t (if fo then -no else no) hs m hs.length, ?_,
    bevelStates_eta normal valid sp face t _ hs m hs.length,
    (bevelStates_fields normal valid sp face t (if fo then -no else no) hs m hs.length).2.2.2.2.2.2.2,
    ?_⟩
  · unfold bevel_face_positions
    rw [hc]
    simp only [if_neg rng]
    exact bevelMove_states normal valid sp face t _ hs m hlen hs [] rfl
  · intro i hi
    have l0 : hLive m (m.fHalfedge face) := (wf.2.1.2 face hf.1 hf.2).1
    have gi := collectCycle_getD m _ _ _ _ hc i (by omega)
    have gi1 := collectCycle_getD m _ _ _ _ hc (i + 1) hi
    have li := (iterate_live m wf _ l0 i).1
    have tw : m.hVertex (m.hTwin (hs.getD i 0)) = m.hVertex (hs.getD (i + 1) 0) := by
      rw [gi, gi1, Function.iterate_succ_apply']
      exact (wf.2.2.2.2.2 _ li.1 li.2).symm
    refine ⟨tw, ?_⟩
    have fin := bevelStates_final normal valid m sp face t (if fo then -no else no) hs hd i
      (by omega)
    have pre : (bevelStates normal valid sp face t (if fo then -no else no) hs m i).vPos
        (m.hVertex (m.hTwin (hs.getD i 0))) = sp.getD (i + 1) Vec3.zero := by
      rw [tw, ← hst (i + 1) hi]
      refine (bevelStates_fields normal valid sp face t (if fo then -no else no) hs m
        i).2.2.2.2.2.2.2 _ ?_
      intro j hj
      exact hd (i + 1) hi j (by omega)
    rw [pre, bevelStates_partial normal valid m sp face t (if fo then -no else no) hs hd i
      (by omega)] at fin
    exact fin

/-- Witness for C14 (amended): the inset face of the beveled tetrahedron, whose
    walk returns the half-edges 20, 12, 16 with the origins 6, 4, 5, which are
    at the start positions `(2,4,8)`, `(0,0,0)`, `(1,1,1)`. -/
theorem bevel_face_positions_formula_witness :
    WellFormed beveledTetra ∧ fLive beveledTetra 0 ∧
    collectCycle beveledTetra (beveledTetra.fHalfedge 0) beveledTetra.nH
      (beveledTetra.fHalfedge 0) = some [20, 12, 16] ∧
    ∃ R : Mesh,
      bevel_face_positions false (fun _ _ => ⟨0, 0, 1⟩) (fun _ => true) beveledTetra
        [⟨2, 4, 8⟩, ⟨0, 0, 0⟩, ⟨1, 1, 1⟩] 0 1 0 = some R ∧
      R.vPos 6 = ⟨4, 8, 16⟩ ∧ R.vPos 4 = ⟨-1, -1, -1⟩ := by
  have hw : WellFormed beveledTetra := by decide
  have hc : collectCycle beveledTetra (beveledTetra.fHalfedge 0) beveledTetra.nH
      (beveledTetra.fHalfedge 0) = some [20, 12, 16] := by decide
  have hst : ∀ j, j < [20, 12, 16].length →
      beveledTetra.vPos (beveledTetra.hVertex ([20, 12, 16].getD j 0)) =
        ([⟨2, 4, 8⟩, ⟨0, 0, 0⟩, ⟨1, 1, 1⟩] : List Vec3).getD j Vec3.zero := by
    intro j hj
    have : j = 0 ∨ j = 1 ∨ j = 2 := by
      simp only [List.length_cons, List.length_nil] at hj
      omega
    rcases this with rfl | rfl | rfl <;> decide!
  obtain ⟨R, h1, -, -, h4⟩ :=
    bevel_face_positions_formula false (fun _ _ => ⟨0, 0, 1⟩) (fun _ => true) beveledTetra
      [⟨2, 4, 8⟩, ⟨0, 0, 0⟩, ⟨1, 1, 1⟩] 0 1 0 [20, 12, 16] hw (by decide) hc
      ⟨by norm_num, by norm_num⟩ (by decide) (by decide) hst
  refine ⟨hw, by decide, hc, R, h1, ?_, ?_⟩
  · have := (h4 0 (by decide)).2
    have e : beveledTetra.hVertex ([20, 12, 16].getD 0 0) = 6 := by decide
    rw [e] at this
    rw [this]
    simp [Vec3.add, Vec3.smul, Vec3.sub, Vec3.zero] <;> norm_num
  · have := (h4 1 (by decide)).2
    have e : beveledTetra.hVertex ([20, 12, 16].getD 1 0) = 4 := by decide
    rw [e] at this
    rw [this]
    simp [Vec3.add, Vec3.smul, Vec3.sub, Vec3.zero] <;> norm_num

theorem bevelStep_normal_zero (n1 n2 : Mesh → Nat → Vec3) (valid : Vec3 → Bool) (face : Nat)
    (t : ℚ) (m : Mesh) (h : Nat) (start : Vec3) :
    bevelStep n1 valid face t 0 m h start = bevelStep n2 valid face t 0 m h start := by
  unfold bevelStep
  simp [Vec3.smul]

theorem bevelMove_normal_zero (n1 n2 : Mesh → Nat → Vec3) (valid : Vec3 → Bool)
    (sp : List Vec3) (face : Nat) (t : ℚ) :
    ∀ (l : List Nat) (i : Nat) (m : Mesh),
      bevelMove n1 valid sp face t 0 l i m = bevelMove n2 valid sp face t 0 l i m := by
  intro l
  induction l with
  | nil => intro i m; rfl
  | cons h l ih =>
    intro i m
    unfold bevelMove
    cases sp[i]? with
    | none => rfl
    | some start =>
      simp only
      rw [bevelStep_normal_zero n1 n2, ih]

/-- With the normal offset 0 the face normal has no part in the result. -/
theorem bevel_face_positions_normal_zero (n1 n2 : Mesh → Nat → Vec3) (valid : Vec3 → Bool)
    (m : Mesh) (sp : List Vec3) (face : Nat) (t : ℚ) :
    bevel_face_positions false n1 valid m sp face t 0 =
      bevel_face_positions false n2 valid m sp face t 0 := by
  unfold bevel_face_positions
  cases collectCycle m (m.fHalfedge face) m.nH (m.fHalfedge face) with
  | none => rfl
  | some hs =>
    simp only
    split_ifs <;> first | rfl | exact bevelMove_normal_zero n1 n2 valid sp face t hs 0 m

/-- Counterexample to C14 as stated: on the inset face of the beveled
    tetrahedron, whose vertices 6, 4, 5 are the copies of 2, 0, 1, vertex 6 is
    joined to vertex 2 by its side edge (half-edge 22), and with the start
    positions of the three copies, the tangent offset 1 and the normal offset
    0, whatever the face normal is, vertex 6 ends at `(4, 8, 16)`, while the
    formula of the claim with the position of vertex 2 for `p` gives
    `(2, 4, 8)`. -/
theorem bevel_face_positions_opposite_counterexample :
    bevel_face true tetra 0 = some (some 0, beveledTetra) ∧
    faceVertices beveledTetra 0 = [6, 4, 5] ∧
    (beveledTetra.hVertex 22 = 6 ∧ beveledTetra.hVertex (beveledTetra.hTwin 22) = 2) ∧
    ∀ normal : Mesh → Nat → Vec3,
      (bevel_face_positions false normal (fun _ => true) beveledTetra
        [⟨2, 4, 8⟩, ⟨0, 0, 0⟩, ⟨1, 1, 1⟩] 0 1 0).map (fun m2 => m2.vPos 6) =
        some ⟨4, 8, 16⟩ ∧
      Vec3.add (Vec3.add ⟨2, 4, 8⟩ (Vec3.smul 0 (normal beveledTetra 0)))
        (Vec3.smul 1 (Vec3.sub ⟨2, 4, 8⟩ (beveledTetra.vPos 2))) = ⟨2, 4, 8⟩ ∧
      (⟨4, 8, 16⟩ : Vec3) ≠ ⟨2, 4, 8⟩ := by
  refine ⟨rfl, by decide, by decide, ?_⟩
  intro normal
  refine ⟨?_, ?_, by decide⟩
  · rw [bevel_face_positions_normal_zero normal (fun _ _ => Vec3.zero)]
    decide!
  · have : beveledTetra.vPos 2 = ⟨2, 4, 8⟩ := by decide!
    rw [this]
    simp [Vec3.add, Vec3.smul, Vec3.sub]

/-- The defect behind C16: on the inset face of the beveled tetrahedron, with
    the start positions of its three vertices, the tangent offset 1 and the
    normal offset 0, whatever the face normal is, one call of
    `bevel_face_positions` leaves vertex 6 at `(4, 8, 16)` and a second call
    with the same arguments moves it to `(5, 9, 17)`. -/
theorem bevel_face_positions_twice_differs :
    ∀ normal : Mesh → Nat → Vec3,
      (bevel_face_positions false normal (fun _ => true) beveledTetra
        [⟨2, 4, 8⟩, ⟨0, 0, 0⟩, ⟨1, 1, 1⟩] 0 1 0).map (fun m2 => m2.vPos 6) =
        some ⟨4, 8, 16⟩ ∧
      ((bevel_face_positions false normal (fun _ => true) beveledTetra
        [⟨2, 4, 8⟩, ⟨0, 0, 0⟩, ⟨1, 1, 1⟩] 0 1 0).bind
          (fun m2 => bevel_face_positions false normal (fun _ => true) m2
            [⟨2, 4, 8⟩, ⟨0, 0, 0⟩, ⟨1, 1, 1⟩] 0 1 0)).map (fun m3 => m3.vPos 6) =
        some ⟨5, 9, 17⟩ := by
  intro normal
  have e : ∀ m, bevel_face_positions false normal (fun _ => true) m
      [⟨2, 4, 8⟩, ⟨0, 0, 0⟩, ⟨1, 1, 1⟩] 0 1 0 =
      bevel_face_positions false (fun _ _ => Vec3.zero) (fun _ => true) m
      [⟨2, 4, 8⟩, ⟨0, 0, 0⟩, ⟨1, 1, 1⟩] 0 1 0 :=
    fun m => bevel_face_positions_normal_zero normal (fun _ _ => Vec3.zero) _ m _ 0 1
  simp only [e]
  exact ⟨by decide!, by decide!⟩

theorem faceH_zero (m : Mesh) (f : Nat) : faceH m f 0 = m.fHalfedge f := rfl

theorem faceH_succ (m : Mesh) (f i : Nat) : faceH m f (i + 1) = m.hNext (faceH m f i) :=
  Function.iterate_succ_apply' _ _ _

theorem faceH_live {m : Mesh} {f n : Nat} (c : FaceCyc m f n) (i : Nat) :
    hLive m (faceH m f i) ∧ m.hFace (faceH m f i) = f := by
  obtain ⟨l, e⟩ := c.wf.2.1.2 f c.fl.1 c.fl.2
  have := iterate_live m c.wf _ l i
  exact ⟨this.1, this.2.trans e⟩

theorem faceH_add {m : Mesh} {f n : Nat} (c : FaceCyc m f n) (i : Nat) :
    faceH m f (i + n) = faceH m f i := by
  unfold faceH
  rw [Function.iterate_add_apply]
  exact congrArg _ c.per

theorem faceH_cancel {m : Mesh} {f n : Nat} (c : FaceCyc m f n) (d : Nat) :
    ∀ i j, faceH m f (i + d) = faceH m f (j + d) → faceH m f i = faceH m f j := by
  induction d with
  | zero => intro i j h; exact h
  | succ d ih =>
    intro i j h
    apply ih
    rw [← Nat.add_assoc, ← Nat.add_assoc, faceH_succ, faceH_succ] at h
    exact next_inj m c.wf _ _ (faceH_live c _).1 (faceH_live c _).1 h

theorem faceH_inj {m : Mesh} {f n : Nat} (c : FaceCyc m f n) {i j : Nat} (hi : i < n)
    (hj : j < n) (h : faceH m f i = faceH m f j) : i = j := by
  by_contra ne
  rcases Nat.lt_or_gt_of_ne ne with lt | lt
  · have : faceH m f (0 + i) = faceH m f ((j - i) + i) := by
      rw [Nat.zero_add, Nat.sub_add_cancel (Nat.le_of_lt lt)]; exact h
    exact c.min (j - i) (by omega) (by omega) (faceH_cancel c i _ _ this).symm
  · have : faceH m f ((i - j) + j) = faceH m f (0 + j) := by
      rw [Nat.zero_add, Nat.sub_add_cancel (Nat.le_of_lt lt)]; exact h
    exact c.min (i - j) (by omega) (by omega) (faceH_cancel c j _ _ this)

theorem faceH_step {m : Mesh} {f n : Nat} (c : FaceCyc m f n) {i : Nat} (hi : i < n) :
    (m.hNext (faceH m f i) = m.fHalfedge f ↔ i + 1 = n) := by
  rw [← faceH_succ, ← faceH_zero]
  constructor
  · intro h
    by_contra ne
    exact c.min (i + 1) (by omega) (by omega) h
  · intro h; rw [h]; exact c.per

theorem faceH_le {m : Mesh} {f n : Nat} (c : FaceCyc m f n) : n ≤ m.nH := by
  by_contra h
  have inj : Set.InjOn (faceH m f) (Finset.range n : Set Nat) := by
    intro i hi j hj e
    exact faceH_inj c (by simpa using hi) (by simpa using hj) e
  have maps : Set.MapsTo (faceH m f) (Finset.range n : Set Nat) (Finset.range m.nH : Set Nat) := by
    intro i _
    simpa using (faceH_live c i).1.1
  have := Finset.card_le_card_of_injOn (faceH m f) maps inj
  simp at this
  omega

theorem faceCyc_exists (m : Mesh) (wf : WellFormed m) (f : Nat) (fl : fLive m f) :
    ∃ n, FaceCyc m f n := by
  obtain ⟨l, e⟩ := wf.2.1.2 f fl.1 fl.2
  obtain ⟨-, -, -, k, -, ck⟩ := wf.2.1.1 _ l.1 l.2
  have ex : ∃ n, 0 < n ∧ faceH m f n = faceH m f 0 := ⟨k + 1, by omega, ck⟩
  refine ⟨Nat.find ex, wf, fl, (Nat.find_spec ex).1, (Nat.find_spec ex).2, ?_⟩
  intro i i0 il hi
  exact Nat.find_min ex il ⟨i0, hi⟩

theorem faceH_vertex {m : Mesh} {f n : Nat} (c : FaceCyc m f n) (i : Nat) :
    m.hVertex (faceH m f i) < m.nV :=
  (c.wf.2.2.2.1 _ (faceH_live c i).1.1 (faceH_live c i).1.2).1

theorem cycIdx_faceH {m : Mesh} {f n : Nat} (c : FaceCyc m f n) {k : Nat} (hk : k < n) :
    cycIdx m f n (faceH m f k) = k := by
  unfold cycIdx
  have ex : ∃ j, j < n ∧ faceH m f j = faceH m f k := ⟨k, hk, rfl⟩
  rw [dif_pos ex]
  have s := Nat.find_spec ex
  exact faceH_inj c s.1 hk s.2

theorem cycIdx_lt {m : Mesh} {f n x : Nat} (h : cycIdx m f n x < n) :
    faceH m f (cycIdx m f n x) = x := by
  unfold cycIdx at h ⊢
  by_cases ex : ∃ j, j < n ∧ faceH m f j = x
  · rw [dif_pos ex]; exact (Nat.find_spec ex).2
  · rw [dif_neg ex] at h; omega

theorem cycIdx_le (m : Mesh) (f n x : Nat) : cycIdx m f n x ≤ n := by
  unfold cycIdx
  by_cases ex : ∃ j, j < n ∧ faceH m f j = x
  · rw [dif_pos ex]; exact Nat.le_of_lt (Nat.find_spec ex).1
  · rw [dif_neg ex]

theorem cycIdx_ne {m : Mesh} {f n : Nat} (c : FaceCyc m f n) {k x : Nat} (hk : k < n)
    (hx : x ≠ faceH m f k) : cycIdx m f n x ≠ k := by
  intro h
  apply hx
  have := cycIdx_lt (m := m) (f := f) (n := n) (x := x) (by omega)
  rw [h] at this
  exact this.symm

/-- The first loop of `bevel_face`, entered after `i` rounds. -/
theorem bevelCopies_spec {m : Mesh} {f n : Nat} (c : FaceCyc m f n) :
    ∀ k fuel i, i + k = n → 0 < k → k ≤ fuel →
      bevelCopies (m.fHalfedge f) fuel (bevelCopied m f i) (faceH m f i) (bevelPairs m f i) =
        some (bevelCopied m f n, bevelPairs m f n) := by
  intro k
  induction k with
  | zero => intro fuel i _ h; omega
  | succ k ih =>
    intro fuel i hik _ hf
    obtain ⟨fuel, rfl⟩ : ∃ t, fuel = t + 1 := ⟨fuel - 1, by omega⟩
    have vb := faceH_vertex c i
    have e1 : ((bevelCopied m f i).new_vertex.2.setPos (bevelCopied m f i).new_vertex.1
        ((bevelCopied m f i).new_vertex.2.vPos ((bevelCopied m f i).hVertex (faceH m f i)))) =
        bevelCopied m f (i + 1) := by
      unfold bevelCopied
      simp only [Mesh.new_vertex, Mesh.setPos]
      congr 1
      · funext v
        simp only [upd_apply]
        by_cases hv : v = m.nV + i
        · subst hv
          simp only [if_true]
          rw [if_neg (by omega), if_pos (by omega)]
          congr 3
          omega
        · simp only [hv, if_false]
          by_cases h2 : m.nV ≤ v ∧ v < m.nV + i
          · rw [if_pos h2, if_pos (by omega)]
          · rw [if_neg h2, if_neg (by omega)]
      · funext v
        simp only [upd_apply]
        by_cases hv : v = m.nV + i
        · subst hv
          simp
        · simp only [hv, if_false]
          by_cases h2 : m.nV ≤ v ∧ v < m.nV + i
          · rw [if_pos h2, if_pos (by omega)]
          · rw [if_neg h2, if_neg (by omega)]
    have e2 : bevelPairs m f i ++ [((bevelCopied m f i).hVertex (faceH m f i),
        (bevelCopied m f i).new_vertex.1)] = bevelPairs m f (i + 1) := by
      unfold bevelPairs bevelCopied
      simp [List.range_succ]
    have e3 : (bevelCopied m f (i + 1)).hNext (faceH m f i) = faceH m f (i + 1) := by
      rw [faceH_succ]; rfl
    unfold bevelCopies
    simp only []
    rw [e1, e2, e3]
    by_cases hl : i + 1 = n
    · have := (faceH_step c (show i < n by omega)).2 hl
      rw [← faceH_succ] at this
      rw [if_pos this, hl]
    · have : ¬ faceH m f (i + 1) = m.fHalfedge f := by
        rw [faceH_succ]
        intro h
        exact hl ((faceH_step c (show i < n by omega)).1 h)
      rw [if_neg this]
      exact ih fuel (i + 1) (by omega) (by omega) (by omega)

theorem bevelRound_spec (m : Mesh) (f n i : Nat) (hi : i < n) :
    bevelRound (bevelRinged m f n i) f (m.hVertex (faceH m f i)) (m.nV + i)
        (m.nV + ringNext n i) =
      (bevelRinged m f n (i + 1), m.nH + 4 * i, m.nH + 4 * i + 1, m.nH + 4 * i + 2,
        m.nH + 4 * i + 3) := by
  unfold bevelRound bevelRinged bevelCopied ringNext
  simp only [Mesh.new_edge, Mesh.new_halfedge, Mesh.setVHalfedge, Mesh.setFHalfedge,
    Mesh.setEHalfedge, Mesh.setTwin, Mesh.setEdge, Mesh.setVertex, Mesh.setFace]
  refine Prod.ext ?_ (by simp only [])
  simp only []
  congr 1
  all_goals funext x
  all_goals simp only [upd_apply]
  all_goals
    (split_ifs <;>
      first
      | rfl
      | omega
      | (subst_vars; first | omega | (congr 2; omega)))

theorem bevelPush_spec (m : Mesh) (f n i : Nat) (hn : 2 ≤ n) (hi : i < n) :
    bevelPush n (bevelSide m f n i) i (faceH m f i) (m.nH + 4 * i + 1) (m.nH + 4 * i + 2)
        (m.nH + 4 * i + 3) = some (bevelSide m f n (i + 1)) := by
  have hp : (if i = 0 then n - 1 else i - 1) < n := by split_ifs <;> omega
  unfold bevelPush pushAt
  simp only [if_pos hi, if_pos hp]
  congr 1
  funext k
  simp only [upd_apply, eq_self_iff_true, if_true]
  by_cases i0 : i = 0
  · subst i0
    simp only [if_true, show ¬ (0 = n - 1) by omega, if_false]
    by_cases k0 : k = 0
    · subst k0
      simp only [show ¬ (0 = n - 1) by omega, if_false, if_true]
      simp [bevelSide, bevelOwn, show ¬ (0 + 1 = n) by omega]
    · simp only [k0, if_false]
      by_cases kn : k = n - 1
      · subst kn
        simp [bevelSide, bevelOwn, show n - 1 + 1 = n by omega, show ¬ (n - 1 < 1) by omega,
          show ¬ (n - 1 = 0) by omega]
      · simp [bevelSide, bevelOwn, kn, k0, show ¬ (k + 1 = n) by omega,
          show ¬ (k < 1) by omega]
  · simp only [i0, if_false, show ¬ (i = i - 1) by omega]
    by_cases ki : k = i
    · subst ki
      simp only [show ¬ (k = k - 1) by omega, if_false, if_true]
      by_cases kn : k + 1 = n
      · simp [bevelSide, bevelOwn, kn, show 0 < k by omega, hi, show 0 < n by omega]
      · simp [bevelSide, bevelOwn, kn]
    · simp only [ki, if_false]
      by_cases kp : k = i - 1
      · subst kp
        simp only [if_true]
        simp [bevelSide, bevelOwn, show ¬ (i - 1 + 1 = n) by omega, show i - 1 < i by omega,
          show i - 1 < i + 1 by omega, show i - 1 + 1 = i by omega, ki,
          show ¬ (i = n) by omega]
      · simp only [kp, if_false]
        unfold bevelSide
        by_cases kn : k + 1 = n
        · simp only [kn, if_true]
          rw [if_pos (show 0 < i by omega), if_pos (show 0 < i + 1 by omega)]
          by_cases c : k < i
          · rw [if_pos c, if_pos (show k < i + 1 by omega)]
          · rw [if_neg c, if_neg (show ¬ k < i + 1 by omega)]
        · simp only [kn, if_false]
          by_cases c : k < i
          · rw [if_pos c, if_pos (show k < i + 1 by omega)]
            by_cases d : k + 1 < i
            · rw [if_pos d, if_pos (show k + 1 < i + 1 by omega)]
            · rw [if_neg d, if_neg (show ¬ k + 1 < i + 1 by omega)]
          · rw [if_neg c, if_neg (show ¬ k < i + 1 by omega),
              if_neg (show ¬ k + 1 < i by omega), if_neg (show ¬ k + 1 < i + 1 by omega)]

theorem bevelPairs_get (m : Mesh) (f n i : Nat) (x : Nat × Nat) (hi : i < n) :
    (bevelPairs m f n ++ [x])[i]? = some (m.hVertex (faceH m f i), m.nV + i) := by
  have hl : (bevelPairs m f n).length = n := by simp [bevelPairs]
  rw [List.getElem?_append_left (by omega)]
  simp [bevelPairs, hi]

theorem bevelPairs_next (m : Mesh) (f n i : Nat) (hi : i < n) :
    ∃ w, (bevelPairs m f n ++ [(m.hVertex (faceH m f 0), m.nV + 0)])[i + 1]? =
      some (w, m.nV + ringNext n i) := by
  have hl : (bevelPairs m f n).length = n := by simp [bevelPairs]
  unfold ringNext
  by_cases c : i + 1 = n
  · refine ⟨m.hVertex (faceH m f 0), ?_⟩
    rw [List.getElem?_append_right (by omega)]
    simp [hl, c]
  · exact ⟨_, by rw [if_neg c]; exact bevelPairs_get m f n (i + 1) _ (by omega)⟩

/-- The second loop of `bevel_face`, entered after `i` rounds. -/
theorem bevelRing_spec {m : Mesh} {f n : Nat} (c : FaceCyc m f n) (hn : 2 ≤ n) :
    ∀ k fuel i, i + k = n → 0 < k → k ≤ fuel →
      bevelRing (m.fHalfedge f) f
          (bevelPairs m f n ++ [(m.hVertex (faceH m f 0), m.nV + 0)]) n fuel
          (bevelRinged m f n i) i (faceH m f i) (bevelTop m i) (bevelSide m f n i) =
        some (bevelRinged m f n n, bevelTop m n, bevelSide m f n n) := by
  intro k
  induction k with
  | zero => intro fuel i _ h; omega
  | succ k ih =>
    intro fuel i hik _ hf
    obtain ⟨fuel, rfl⟩ : ∃ t, fuel = t + 1 := ⟨fuel - 1, by omega⟩
    have hi : i < n := by omega
    obtain ⟨w, g2⟩ := bevelPairs_next m f n i hi
    have g1 := bevelPairs_get m f n i (m.hVertex (faceH m f 0), m.nV + 0) hi
    have e3 : (bevelRinged m f n (i + 1)).hNext (faceH m f i) = faceH m f (i + 1) := by
      rw [faceH_succ]; rfl
    have e4 : bevelTop m i ++ [m.nH + 4 * i] = bevelTop m (i + 1) := by
      simp [bevelTop, List.range_succ]
    unfold bevelRing
    simp only [g1, g2, bevelRound_spec m f n i hi, bevelPush_spec m f n i hn hi, e3, e4]
    by_cases hl : i + 1 = n
    · have := (faceH_step c hi).2 hl
      rw [← faceH_succ] at this
      rw [if_pos this, hl]
    · have : ¬ faceH m f (i + 1) = m.fHalfedge f := by
        rw [faceH_succ]
        intro h
        exact hl ((faceH_step c hi).1 h)
      rw [if_neg this]
      exact ih fuel (i + 1) (by omega) (by omega) (by omega)

theorem bevelLinked_zero (m : Mesh) (f n : Nat) : bevelLinked m f n 0 = bevelRinged m f n n := by
  have e : (fun h => if (m.nH ≤ h ∧ h < m.nH + 4 * 0) ∧ (h - m.nH) % 4 = 0 then
      m.nH + 4 * (if (h - m.nH) / 4 + 1 = n then 0 else (h - m.nH) / 4 + 1)
      else m.hNext h) = (bevelRinged m f n n).hNext := by
    funext h
    rw [if_neg (by omega)]
    rfl
  unfold bevelLinked
  simp only [e]

theorem bevelLinked_step (m : Mesh) (f n i : Nat) (hi : i < n) :
    (bevelLinked m f n i).setNext (m.nH + 4 * i) (m.nH + 4 * ringNext n i) =
      bevelLinked m f n (i + 1) := by
  unfold bevelLinked ringNext
  simp only [Mesh.setNext]
  congr 1
  funext x
  simp only [upd_apply]
  split_ifs <;>
    first
    | rfl
    | omega

/-- The third loop of `bevel_face`, entered after `i` rounds. -/
theorem linkTop_spec (m : Mesh) (f n : Nat) :
    ∀ j i, i + j = n →
      linkTop ((List.range' i j).map (fun t => m.nH + 4 * t) ++ [m.nH + 4 * 0])
          (bevelLinked m f n i) = bevelLinked m f n n := by
  intro j
  induction j with
  | zero =>
    intro i hi
    simp only [Nat.add_zero] at hi
    subst hi
    simp [linkTop]
  | succ j ih =>
    intro i hi
    cases j with
    | zero =>
      have e := bevelLinked_step m f n i (by omega)
      have r0 : ringNext n i = 0 := by unfold ringNext; rw [if_pos (by omega)]
      rw [r0] at e
      simp only [List.range'_one, List.map_cons, List.map_nil, List.cons_append,
        List.nil_append, linkTop, e]
      rw [show i + 1 = n by omega]
    | succ j =>
      have e := bevelLinked_step m f n i (by omega)
      have r0 : ringNext n i = i + 1 := by unfold ringNext; rw [if_neg (by omega)]
      rw [r0] at e
      have := ih (i + 1) (by omega)
      rw [List.range'_succ] at this
      rw [List.range'_succ, List.range'_succ]
      simp only [List.map_cons, List.cons_append, linkTop, e] at this ⊢
      exact this

theorem bevelCopied_zero (m : Mesh) (f : Nat) : bevelCopied m f 0 = m := by
  have e : ∀ v, ¬ (m.nV ≤ v ∧ v < m.nV + 0) := by intro v; omega
  unfold bevelCopied
  simp only [e, if_false]
  rfl

theorem bevelRinged_zero (m : Mesh) (f n : Nat) : bevelRinged m f n 0 = bevelCopied m f n := by
  unfold bevelRinged bevelCopied
  simp only []
  congr 1 <;> funext x <;> simp <;> omega

theorem bevelSide_zero (m : Mesh) (f n : Nat) : bevelSide m f n 0 = fun _ => [] := by
  funext k
  simp [bevelSide]

theorem bevelSided_zero (m : Mesh) (f n : Nat) (hn : 0 < n) :
    bevelSided m f n 0 = bevelLinked m f n n := by
  unfold bevelSided bevelLinked bevelRinged bevelCopied ringNext ringPrev
  simp only []
  congr 1 <;> funext x <;> split_ifs <;> first | rfl | omega

theorem bevel_face_eq {m : Mesh} {f n : Nat} (c : FaceCyc m f n) (hn : 2 ≤ n) (dbg : Bool) :
    bevel_face dbg m f =
      (sideFaces dbg (bevelSide m f n n) (List.range n) (bevelSided m f n 0)).map
        (fun m' => (some f, m')) := by
  have l1 := bevelCopies_spec c n m.nH 0 (by omega) (by omega) (faceH_le c)
  rw [bevelCopied_zero] at l1
  have l2 := bevelRing_spec c hn n m.nH 0 (by omega) (by omega) (faceH_le c)
  rw [bevelRinged_zero, bevelSide_zero] at l2
  have l3 := linkTop_spec m f n n 0 (by omega)
  rw [bevelLinked_zero, ← List.range_eq_range'] at l3
  have p0 : (bevelPairs m f n)[0]? = some (m.hVertex (faceH m f 0), m.nV + 0) := by
    simp [bevelPairs, show 0 < n by omega]
  have pl : (bevelPairs m f n ++ [(m.hVertex (faceH m f 0), m.nV + 0)]).length - 1 = n := by
    simp [bevelPairs]
  have t0 : (bevelTop m n)[0]? = some (m.nH + 4 * 0) := by
    simp [bevelTop, show 0 < n by omega]
  have e0 : bevelPairs m f 0 = [] := rfl
  have e1 : bevelTop m 0 = [] := rfl
  have e2 : (bevelCopied m f n).nH = m.nH := rfl
  rw [e0] at l1
  rw [e1] at l2
  simp only [faceH_zero] at l1 l2 p0 pl
  unfold bevel_face
  simp only [l1, p0, pl, e2, l2, t0]
  rw [show bevelTop m n = List.map (fun t => m.nH + 4 * t) (List.range n) from rfl, l3,
    bevelSided_zero m f n (by omega)]
  cases sideFaces dbg (bevelSide m f n n) (List.range n) (bevelLinked m f n n) <;> rfl

theorem sideNext_frame (h : Nat) : ∀ (L : List Nat) (M : Mesh),
    ∃ N, sideNext h L M = { M with hNext := N } ∧ ∀ x, x ≠ h → N x = M.hNext x := by
  intro L
  induction L with
  | nil => intro M; exact ⟨M.hNext, rfl, fun _ _ => rfl⟩
  | cons a L ih =>
    intro M
    unfold sideNext
    by_cases c : M.hVertex a = M.hVertex (M.hTwin h)
    · rw [if_pos c]
      obtain ⟨N, e, hN⟩ := ih (M.setNext h a)
      refine ⟨N, e, ?_⟩
      intro x hx
      rw [hN x hx]
      simp [hx]
    · rw [if_neg c]
      exact ih M

theorem sideFace_frame (fs : Nat) (L0 : List Nat) : ∀ (L : List Nat) (M : Mesh),
    ∃ N F G, sideFace fs L0 L M = { M with hNext := N, hFace := F, fHalfedge := G } ∧
      (∀ x, x ∉ L → N x = M.hNext x) ∧ (∀ y, y ≠ fs → G y = M.fHalfedge y) := by
  intro L
  induction L with
  | nil => intro M; exact ⟨M.hNext, M.hFace, M.fHalfedge, rfl, fun _ _ => rfl, fun _ _ => rfl⟩
  | cons a L ih =>
    intro M
    unfold sideFace
    simp only []
    obtain ⟨N1, e1, h1⟩ := sideNext_frame a L0 ((M.setFace a fs).setFHalfedge fs a)
    rw [e1]
    obtain ⟨N, F, G, e, hN, hG⟩ := ih { (M.setFace a fs).setFHalfedge fs a with hNext := N1 }
    refine ⟨N, F, G, e, ?_, ?_⟩
    · intro x hx
      simp only [List.mem_cons, not_or] at hx
      rw [hN x hx.2]
      exact h1 x hx.1
    · intro y hy
      rw [hG y hy]
      simp [hy]

/-- The fourth loop of `bevel_face` returns when every entry of `side_face_hs`
    has four elements, and leaves untouched the vertices, the origins, the
    stored half-edges of the faces present before it and the `next` of the
    half-edges that are in no entry. -/
theorem sideFaces_frame (dbg : Bool) (side : Nat → List Nat) : ∀ (L : List Nat) (M : Mesh),
    (∀ k, k ∈ L → (side k).length = 4) →
    ∃ M', sideFaces dbg side L M = some M' ∧ M'.nV = M.nV ∧ M'.nH = M.nH ∧
      M'.vPos = M.vPos ∧ M'.vErased = M.vErased ∧ M'.hVertex = M.hVertex ∧ M.nF ≤ M'.nF ∧
      (∀ y, y < M.nF → M'.fHalfedge y = M.fHalfedge y) ∧
      (∀ x, (∀ k, k ∈ L → x ∉ side k) → M'.hNext x = M.hNext x) := by
  intro L
  induction L with
  | nil => intro M _; exact ⟨M, rfl, rfl, rfl, rfl, rfl, rfl, le_refl _, fun _ _ => rfl, fun _ _ => rfl⟩
  | cons a L ih =>
    intro M hs
    have h4 : (side a).length = 4 := hs a (List.mem_cons_self _ _)
    unfold sideFaces
    rw [if_neg (by simp [h4])]
    simp only []
    obtain ⟨N, F, G, e, hN, hG⟩ := sideFace_frame M.new_face.1 (side a) (side a) M.new_face.2
    rw [e]
    obtain ⟨M', e', q1, q2, q3, q4, q5, q6, q7, q8⟩ :=
      ih { M.new_face.2 with hNext := N, hFace := F, fHalfedge := G }
        (fun k hk => hs k (List.mem_cons_of_mem _ hk))
    refine ⟨M', e', q1, q2, q3, q4, q5, ?_, ?_, ?_⟩
    · have : M.nF + 1 ≤ M'.nF := q6
      omega
    · intro y hy
      rw [q7 y (by show y < M.nF + 1; omega)]
      exact hG y (by show y ≠ M.nF; omega)
    · intro x hx
      rw [q8 x (fun k hk => hx k (List.mem_cons_of_mem _ hk))]
      exact hN x (hx a (List.mem_cons_self _ _))

theorem bevelSide_full (m : Mesh) (f n k : Nat) (hn : 2 ≤ n) (hk : k < n) :
    bevelSide m f n n k =
      if k + 1 = n then [m.nH + 3, faceH m f k, m.nH + 4 * k + 1, m.nH + 4 * k + 2]
      else [faceH m f k, m.nH + 4 * k + 1, m.nH + 4 * k + 2, m.nH + 4 * (k + 1) + 3] := by
  unfold bevelSide bevelOwn
  by_cases c : k + 1 = n
  · simp [c, hk, show 0 < n by omega]
  · simp [c, hk, show k + 1 < n by omega]

/-- A traversal along a sequence `a 0, ..., a (n - 1)` that `next` closes. -/
theorem cycleFrom_seq (M : Mesh) (a : Nat → Nat) (n : Nat)
    (step : ∀ i, i + 1 < n → M.hNext (a i) = a (i + 1)) (last : M.hNext (a (n - 1)) = a 0)
    (ne : ∀ i, 0 < i → i < n → a i ≠ a 0) :
    ∀ k fuel i, i + k = n → 0 < k → k ≤ fuel →
      cycleFrom M (a 0) fuel (a i) = (List.range' i k).map a := by
  intro k
  induction k with
  | zero => intro fuel i _ h; omega
  | succ k ih =>
    intro fuel i hik _ hf
    obtain ⟨fuel, rfl⟩ : ∃ t, fuel = t + 1 := ⟨fuel - 1, by omega⟩
    unfold cycleFrom
    by_cases hl : i + 1 = n
    · have : M.hNext (a i) = a 0 := by
        rw [← last]; congr 2; omega
      rw [if_pos this]
      have : k = 0 := by omega
      subst this
      simp
    · have e := step i (by omega)
      rw [e, if_neg (ne (i + 1) (by omega) (by omega))]
      rw [ih fuel (i + 1) (by omega) (by omega) (by omega)]
      simp [List.range'_succ]

theorem faceHalfedges_eq {m : Mesh} {f n : Nat} (c : FaceCyc m f n) :
    faceHalfedges m f = (List.range n).map (faceH m f) := by
  unfold faceHalfedges
  have := cycleFrom_seq m (faceH m f) n (fun i _ => (faceH_succ m f i).symm)
    (by rw [← faceH_succ, Nat.sub_add_cancel c.pos]; exact c.per) c.min n m.nH 0 (by omega)
    c.pos (faceH_le c)
  rw [List.range_eq_range']
  exact this

theorem faceVertices_eq {m : Mesh} {f n : Nat} (c : FaceCyc m f n) :
    faceVertices m f = (List.range n).map (fun i => m.hVertex (faceH m f i)) := by
  unfold faceVertices
  rw [faceHalfedges_eq c, List.map_map]
  rfl

theorem sided_vertex (m : Mesh) (f n j : Nat) :
    (∀ x, x < m.nH → (bevelSided m f n j).hVertex x = m.hVertex x) ∧
    (∀ i, i < n → (bevelSided m f n j).hVertex (m.nH + 4 * i) = m.nV + i) ∧
    (∀ i, i < n → (bevelSided m f n j).hVertex (m.nH + 4 * i + 1) = m.nV + ringNext n i) ∧
    (∀ i, i < n → (bevelSided m f n j).hVertex (m.nH + 4 * i + 2) = m.nV + i) ∧
    (∀ i, i < n → (bevelSided m f n j).hVertex (m.nH + 4 * i + 3) = m.hVertex (faceH m f i)) := by
  refine ⟨?_, ?_, ?_, ?_, ?_⟩ <;> intro i hi <;>
    simp only [bevelSided, bevelLinked, bevelRinged, bevelCopied, ringNext] <;>
    split_ifs <;> first | rfl | omega | (congr 2; omega)

theorem sided_twin (m : Mesh) (f n j : Nat) :
    (∀ x, x < m.nH → (bevelSided m f n j).hTwin x = m.hTwin x) ∧
    (∀ i, i < n → (bevelSided m f n j).hTwin (m.nH + 4 * i) = m.nH + 4 * i + 1) ∧
    (∀ i, i < n → (bevelSided m f n j).hTwin (m.nH + 4 * i + 1) = m.nH + 4 * i) ∧
    (∀ i, i < n → (bevelSided m f n j).hTwin (m.nH + 4 * i + 2) = m.nH + 4 * i + 3) ∧
    (∀ i, i < n → (bevelSided m f n j).hTwin (m.nH + 4 * i + 3) = m.nH + 4 * i + 2) := by
  refine ⟨?_, ?_, ?_, ?_, ?_⟩ <;> intro i hi <;>
    simp only [bevelSided, bevelLinked, bevelRinged, bevelCopied] <;>
    split_ifs <;> first | rfl | omega

theorem sided_next_top (m : Mesh) (f n j i : Nat) (hi : i < n) :
    (bevelSided m f n j).hNext (m.nH + 4 * i) = m.nH + 4 * ringNext n i := by
  simp only [bevelSided, bevelLinked, bevelRinged, bevelCopied, ringNext]
  split_ifs <;> first | rfl | omega

theorem sided_pos (m : Mesh) (f n j : Nat) :
    (bevelSided m f n j).nV = m.nV + n ∧
    (∀ v, v < m.nV → (bevelSided m f n j).vPos v = m.vPos v ∧
      (bevelSided m f n j).vErased v = m.vErased v) ∧
    (∀ i, i < n → (bevelSided m f n j).vPos (m.nV + i) = m.vPos (m.hVertex (faceH m f i)) ∧
      (bevelSided m f n j).vErased (m.nV + i) = false) := by
  refine ⟨rfl, ?_, ?_⟩ <;> intro i hi <;>
    simp only [bevelSided, bevelLinked, bevelRinged, bevelCopied] <;>
    constructor <;> split_ifs <;> first | rfl | omega | (congr 3; omega)

theorem top_not_side {m : Mesh} {f n : Nat} (c : FaceCyc m f n) (hn : 2 ≤ n) (i k : Nat)
    (hk : k < n) : m.nH + 4 * i ∉ bevelSide m f n n k := by
  have := (faceH_live c k).1.1
  rw [bevelSide_full m f n k hn hk]
  split_ifs <;> simp <;> omega

/-- C12: on a well-formed mesh `bevel_face` on a live face `f` of `n >= 3`
    sides returns `f`; the mesh has `n` more vertices, the new vertex
    `nV + i` is live and has the position of the `i`-th vertex of `f` in
    half-edge order, every vertex present before keeps its position, and the
    vertex cycle of the returned face is the cycle of the new vertices in the
    order of their originals, read from the copy of the last one. -/
theorem bevel_face_copies (dbg : Bool) (m : Mesh) (f : Nat) (wf : WellFormed m)
    (fl : fLive m f) (h3 : 3 ≤ (faceVertices m f).length) :
    ∃ m', bevel_face dbg m f = some (some f, m') ∧
      m'.nV = m.nV + (faceVertices m f).length ∧
      (∀ i, i < (faceVertices m f).length →
        vLive m' (m.nV + i) ∧ m'.vPos (m.nV + i) = m.vPos ((faceVertices m f).getD i 0)) ∧
      (∀ v, v < m.nV → m'.vPos v = m.vPos v ∧ m'.vErased v = m.vErased v) ∧
      faceVertices m' f = (m.nV + ((faceVertices m f).length - 1)) ::
        (List.range ((faceVertices m f).length - 1)).map (fun i => m.nV + i) := by
  obtain ⟨n, c⟩ := faceCyc_exists m wf f fl
  have fv := faceVertices_eq c
  have ln : (faceVertices m f).length = n := by rw [fv]; simp
  rw [ln] at h3 ⊢
  have hn : 2 ≤ n := by omega
  obtain ⟨M, e, q1, q2, q3, q4, q5, q6, q7, q8⟩ :=
    sideFaces_frame dbg (bevelSide m f n n) (List.range n) (bevelSided m f n 0)
      (fun k hk => by
        rw [bevelSide_full m f n k hn (List.mem_range.1 hk)]
        split_ifs <;> rfl)
  obtain ⟨p1, p2, p3⟩ := sided_pos m f n 0
  obtain ⟨-, v0, -⟩ := sided_vertex m f n 0
  refine ⟨M, ?_, ?_, ?_, ?_, ?_⟩
  · rw [bevel_face_eq c hn, e]; rfl
  · rw [q1, p1]
  · intro i hi
    refine ⟨⟨by rw [q1, p1]; omega, by rw [q4]; exact (p3 i hi).2⟩, ?_⟩
    rw [q3, (p3 i hi).1, fv]
    simp [List.getD, hi]
  · intro v hv
    rw [q3, q4]
    exact p2 v hv
  · have top : ∀ i, i < n → M.hNext (m.nH + 4 * i) = m.nH + 4 * ringNext n i := by
      intro i hi
      rw [q8 _ (fun k hk => top_not_side c hn i k (List.mem_range.1 hk))]
      exact sided_next_top m f n 0 i hi
    have fh : M.fHalfedge f = m.nH + 4 * (n - 1) := by
      rw [q7 f fl.1]
      simp [bevelSided]
    have cyc := cycleFrom_seq M (fun i => if i = 0 then m.nH + 4 * (n - 1) else m.nH + 4 * (i - 1))
      n (fun i hi => by
          simp only [show ¬ (i + 1 = 0) by omega, if_false]
          by_cases i0 : i = 0
          · subst i0
            simp only [if_true]
            rw [top _ (by omega)]
            unfold ringNext
            rw [if_pos (by omega)]
          · simp only [i0, if_false]
            rw [top _ (by omega)]
            unfold ringNext
            rw [if_neg (by omega)]
            congr 2
            omega)
      (by
        simp only [show ¬ (n - 1 = 0) by omega, if_false, if_true]
        rw [top _ (by omega)]
        unfold ringNext
        rw [if_neg (by omega)]
        congr 2
        omega)
      (fun i i0 il => by
        simp only [show ¬ (i = 0) by omega, if_false, if_true]
        omega)
      n M.nH 0 (by omega) (by omega) (by rw [q2]; show n ≤ m.nH + 4 * n; omega)
    simp only [if_true] at cyc
    unfold faceVertices faceHalfedges
    rw [fh, cyc, List.map_map]
    obtain ⟨t, rfl⟩ : ∃ t, n = t + 1 := ⟨n - 1, by omega⟩
    rw [List.range'_succ]
    simp only [List.map_cons, Function.comp, if_true, Nat.add_sub_cancel]
    rw [q5, v0 t (by omega)]
    congr 1
    rw [List.range'_eq_map_range, List.map_map]
    apply List.map_congr_left
    intro i hi
    have hi := List.mem_range.1 hi
    simp only [Function.comp, show ¬ (0 + 1 + i = 0) by omega, if_false]
    rw [show 0 + 1 + i - 1 = i by omega]
    exact v0 i (by omega)

theorem bevel_face_copies_witness :
    ∃ m', bevel_face true tetra 0 = some (some 0, m') ∧
      m'.nV = tetra.nV + (faceVertices tetra 0).length ∧
      (∀ i, i < (faceVertices tetra 0).length →
        vLive m' (tetra.nV + i) ∧
          m'.vPos (tetra.nV + i) = tetra.vPos ((faceVertices tetra 0).getD i 0)) ∧
      (∀ v, v < tetra.nV → m'.vPos v = tetra.vPos v ∧ m'.vErased v = tetra.vErased v) ∧
      faceVertices m' 0 = (tetra.nV + ((faceVertices tetra 0).length - 1)) ::
        (List.range ((faceVertices tetra 0).length - 1)).map (fun i => tetra.nV + i) :=
  bevel_face_copies true tetra 0 (by decide) (by decide) (by decide)

/-- One round of the fourth loop of `bevel_face` on the entry `[a, b, c, d]`
    whose half-edges leave four different vertices `p, q, r, s` and end at
    `s, r, p, q`. -/
theorem sideFace_quad (M : Mesh) (fs a b c d p q r s : Nat)
    (va : M.hVertex a = p) (vb : M.hVertex b = q) (vc : M.hVertex c = r) (vd : M.hVertex d = s)
    (ta : M.hVertex (M.hTwin a) = s) (tb : M.hVertex (M.hTwin b) = r)
    (tc : M.hVertex (M.hTwin c) = p) (td : M.hVertex (M.hTwin d) = q)
    (pq : p ≠ q) (pr : p ≠ r) (ps : p ≠ s) (qr : q ≠ r) (qs : q ≠ s) (rs : r ≠ s) :
    sideFace fs [a, b, c, d] [a, b, c, d] M =
      { M with
        hFace := upd (upd (upd (upd M.hFace a fs) b fs) c fs) d fs
        fHalfedge := upd (upd (upd (upd M.fHalfedge fs a) fs b) fs c) fs d
        hNext := upd (upd (upd (upd M.hNext a d) b c) c a) d b } := by
  simp [sideFace, sideNext, va, vb, vc, vd, ta, tb, tc, td, pq, pr, ps, qr, qs, rs,
    pq.symm, pr.symm, ps.symm, qr.symm, qs.symm, rs.symm]

/-- The same round on the entry in the order `[d, a, b, c]`. -/
theorem sideFace_quad_last (M : Mesh) (fs a b c d p q r s : Nat)
    (va : M.hVertex a = p) (vb : M.hVertex b = q) (vc : M.hVertex c = r) (vd : M.hVertex d = s)
    (ta : M.hVertex (M.hTwin a) = s) (tb : M.hVertex (M.hTwin b) = r)
    (tc : M.hVertex (M.hTwin c) = p) (td : M.hVertex (M.hTwin d) = q)
    (pq : p ≠ q) (pr : p ≠ r) (ps : p ≠ s) (qr : q ≠ r) (qs : q ≠ s) (rs : r ≠ s) :
    sideFace fs [d, a, b, c] [d, a, b, c] M =
      { M with
        hFace := upd (upd (upd (upd M.hFace d fs) a fs) b fs) c fs
        fHalfedge := upd (upd (upd (upd M.fHalfedge fs d) fs a) fs b) fs c
        hNext := upd (upd (upd (upd M.hNext d b) a d) b c) c a } := by
  simp [sideFace, sideNext, va, vb, vc, vd, ta, tb, tc, td, pq, pr, ps, qr, qs, rs,
    pq.symm, pr.symm, ps.symm, qr.symm, qs.symm, rs.symm]

theorem mesh_ext (a b : Mesh) (h1 : a.nV = b.nV) (h2 : a.nE = b.nE) (h3 : a.nF = b.nF)
    (h4 : a.nH = b.nH) (h5 : a.hVertex = b.hVertex) (h6 : a.hTwin = b.hTwin)
    (h7 : a.hNext = b.hNext) (h8 : a.hEdge = b.hEdge) (h9 : a.hFace = b.hFace)
    (h10 : a.vHalfedge = b.vHalfedge) (h11 : a.vPos = b.vPos) (h12 : a.eHalfedge = b.eHalfedge)
    (h13 : a.fHalfedge = b.fHalfedge) (h14 : a.fBoundary = b.fBoundary)
    (h15 : a.vErased = b.vErased) (h16 : a.eErased = b.eErased) (h17 : a.fErased = b.fErased)
    (h18 : a.hErased = b.hErased) (h19 : a.vNewPos = b.vNewPos) (h20 : a.eNewPos = b.eNewPos)
    (h21 : a.fNewPos = b.fNewPos) : a = b := by
  cases a
  cases b
  simp only at h1 h2 h3 h4 h5 h6 h7 h8 h9 h10 h11 h12 h13 h14 h15 h16 h17 h18 h19 h20 h21
  simp only [Mesh.mk.injEq]
  exact ⟨h1, h2, h3, h4, h5, h6, h7, h8, h9, h10, h11, h12, h13, h14, h15, h16, h17, h18, h19,
    h20, h21⟩

theorem sided_face_out (m : Mesh) (f n j x : Nat) (hx : x < m.nH ∨ m.nH + 4 * n ≤ x) :
    (bevelSided m f n j).hFace x = (if cycIdx m f n x < j then m.nF + cycIdx m f n x else m.hFace x) := by
  simp only [bevelSided]
  rw [if_neg (by omega)]

theorem sided_face0 (m : Mesh) (f n j i : Nat) (hi : i < n) :
    (bevelSided m f n j).hFace (m.nH + 4 * i) = f := by
  have a : m.nH ≤ m.nH + 4 * i ∧ m.nH + 4 * i < m.nH + 4 * n := by omega
  have d : (m.nH + 4 * i - m.nH) / 4 = i := by omega
  have e : (m.nH + 4 * i - m.nH) % 4 = 0 := by omega
  simp only [bevelSided]
  rw [if_pos a]
  simp only [d, e]
  simp

theorem sided_face1 (m : Mesh) (f n j i : Nat) (hi : i < n) :
    (bevelSided m f n j).hFace (m.nH + 4 * i + 1) = (if i < j then m.nF + i else f) := by
  have a : m.nH ≤ m.nH + 4 * i + 1 ∧ m.nH + 4 * i + 1 < m.nH + 4 * n := by omega
  have d : (m.nH + 4 * i + 1 - m.nH) / 4 = i := by omega
  have e : (m.nH + 4 * i + 1 - m.nH) % 4 = 1 := by omega
  simp only [bevelSided]
  rw [if_pos a]
  simp only [d, e]
  simp

theorem sided_face2 (m : Mesh) (f n j i : Nat) (hi : i < n) :
    (bevelSided m f n j).hFace (m.nH + 4 * i + 2) = (if i < j then m.nF + i else m.hFace (m.nH + 4 * i + 2)) := by
  have a : m.nH ≤ m.nH + 4 * i + 2 ∧ m.nH + 4 * i + 2 < m.nH + 4 * n := by omega
  have d : (m.nH + 4 * i + 2 - m.nH) / 4 = i := by omega
  have e : (m.nH + 4 * i + 2 - m.nH) % 4 = 2 := by omega
  simp only [bevelSided]
  rw [if_pos a]
  simp only [d, e]
  simp

theorem sided_face3 (m : Mesh) (f n j i : Nat) (hi : i < n) :
    (bevelSided m f n j).hFace (m.nH + 4 * i + 3) = (if ringPrev n i < j then m.nF + ringPrev n i else m.hFace (m.nH + 4 * i + 3)) := by
  have a : m.nH ≤ m.nH + 4 * i + 3 ∧ m.nH + 4 * i + 3 < m.nH + 4 * n := by omega
  have d : (m.nH + 4 * i + 3 - m.nH) / 4 = i := by omega
  have e : (m.nH + 4 * i + 3 - m.nH) % 4 = 3 := by omega
  simp only [bevelSided]
  rw [if_pos a]
  simp only [d, e]
  simp

theorem sided_next_out (m : Mesh) (f n j x : Nat) (hx : x < m.nH ∨ m.nH + 4 * n ≤ x) :
    (bevelSided m f n j).hNext x = (if cycIdx m f n x < j then m.nH + 4 * ringNext n (cycIdx m f n x) + 3 else m.hNext x) := by
  simp only [bevelSided]
  rw [if_neg (by omega)]

theorem sided_next0 (m : Mesh) (f n j i : Nat) (hi : i < n) :
    (bevelSided m f n j).hNext (m.nH + 4 * i) = m.nH + 4 * ringNext n i := by
  have a : m.nH ≤ m.nH + 4 * i ∧ m.nH + 4 * i < m.nH + 4 * n := by omega
  have d : (m.nH + 4 * i - m.nH) / 4 = i := by omega
  have e : (m.nH + 4 * i - m.nH) % 4 = 0 := by omega
  simp only [bevelSided]
  rw [if_pos a]
  simp only [d, e]
  simp

theorem sided_next1 (m : Mesh) (f n j i : Nat) (hi : i < n) :
    (bevelSided m f n j).hNext (m.nH + 4 * i + 1) = (if i < j then m.nH + 4 * i + 1 + 1 else m.hNext (m.nH + 4 * i + 1)) := by
  have a : m.nH ≤ m.nH + 4 * i + 1 ∧ m.nH + 4 * i + 1 < m.nH + 4 * n := by omega
  have d : (m.nH + 4 * i + 1 - m.nH) / 4 = i := by omega
  have e : (m.nH + 4 * i + 1 - m.nH) % 4 = 1 := by omega
  simp only [bevelSided]
  rw [if_pos a]
  simp only [d, e]
  simp

theorem sided_next2 (m : Mesh) (f n j i : Nat) (hi : i < n) :
    (bevelSided m f n j).hNext (m.nH + 4 * i + 2) = (if i < j then faceH m f i else m.hNext (m.nH + 4 * i + 2)) := by
  have a : m.nH ≤ m.nH + 4 * i + 2 ∧ m.nH + 4 * i + 2 < m.nH + 4 * n := by omega
  have d : (m.nH + 4 * i + 2 - m.nH) / 4 = i := by omega
  have e : (m.nH + 4 * i + 2 - m.nH) % 4 = 2 := by omega
  simp only [bevelSided]
  rw [if_pos a]
  simp only [d, e]
  simp

theorem sided_next3 (m : Mesh) (f n j i : Nat) (hi : i < n) :
    (bevelSided m f n j).hNext (m.nH + 4 * i + 3) = (if ringPrev n i < j then m.nH + 4 * ringPrev n i + 1 else m.hNext (m.nH + 4 * i + 3)) := by
  have a : m.nH ≤ m.nH + 4 * i + 3 ∧ m.nH + 4 * i + 3 < m.nH + 4 * n := by omega
  have d : (m.nH + 4 * i + 3 - m.nH) / 4 = i := by omega
  have e : (m.nH + 4 * i + 3 - m.nH) % 4 = 3 := by omega
  simp only [bevelSided]
  rw [if_pos a]
  simp only [d, e]
  simp

theorem block_cases (nH n x : Nat) :
    x < nH ∨ nH + 4 * n ≤ x ∨
      ∃ q, q < n ∧ (x = nH + 4 * q ∨ x = nH + 4 * q + 1 ∨ x = nH + 4 * q + 2 ∨
        x = nH + 4 * q + 3) := by
  by_cases h1 : x < nH
  · exact Or.inl h1
  · by_cases h2 : nH + 4 * n ≤ x
    · exact Or.inr (Or.inl h2)
    · refine Or.inr (Or.inr ⟨(x - nH) / 4, by omega, ?_⟩)
      omega

theorem ringPrev_zero (n : Nat) : ringPrev n 0 = n - 1 := rfl

theorem ringPrev_pos {n i : Nat} (h : i ≠ 0) : ringPrev n i = i - 1 := by
  unfold ringPrev; rw [if_neg h]

/-- One round of the fourth loop of `bevel_face` on a face with different
    vertices. -/
theorem bevelSided_step {m : Mesh} {f n : Nat} (c : FaceCyc m f n) (hn : 2 ≤ n)
    (hd : ∀ i j, i < n → j < n → m.hVertex (faceH m f i) = m.hVertex (faceH m f j) → i = j)
    (j : Nat) (hj : j < n) :
    sideFace (m.nF + j) (bevelSide m f n n j) (bevelSide m f n n j)
        (bevelSided m f n j).new_face.2 = bevelSided m f n (j + 1) := by
  obtain ⟨vo, v0, v1, v2, v3⟩ := sided_vertex m f n j
  obtain ⟨tw, t0, t1, t2, t3⟩ := sided_twin m f n j
  have hg := (faceH_live c j).1
  have hg1 : faceH m f j < m.nH := hg.1
  have ci := cycIdx_faceH c hj
  have hfl : f < m.nF := c.fl.1
  have tl := (c.wf.1 _ hg.1 hg.2).1.1
  have ori := c.wf.2.2.2.2.2 _ hg.1 hg.2
  have pb := faceH_vertex c j
  have rj : ringNext n j < n := by unfold ringNext; split_ifs <;> omega
  have rne : ringNext n j ≠ j := by unfold ringNext; split_ifs <;> omega
  have sb := faceH_vertex c (ringNext n j)
  have ps : m.hVertex (faceH m f j) ≠ m.hVertex (faceH m f (ringNext n j)) :=
    fun h => rne (hd _ _ hj rj h).symm
  have ta : (bevelSided m f n j).hVertex ((bevelSided m f n j).hTwin (faceH m f j)) =
      m.hVertex (faceH m f (ringNext n j)) := by
    rw [tw _ hg.1, vo _ tl, ← ori, ← faceH_succ]
    unfold ringNext
    by_cases e : j + 1 = n
    · rw [if_pos e, e]; exact congrArg _ c.per
    · rw [if_neg e]
  have tb : (bevelSided m f n j).hVertex ((bevelSided m f n j).hTwin (m.nH + 4 * j + 1)) =
      m.nV + j := by rw [t1 j hj, v0 j hj]
  have tc : (bevelSided m f n j).hVertex ((bevelSided m f n j).hTwin (m.nH + 4 * j + 2)) =
      m.hVertex (faceH m f j) := by rw [t2 j hj, v3 j hj]
  have td : (bevelSided m f n j).hVertex
      ((bevelSided m f n j).hTwin (m.nH + 4 * ringNext n j + 3)) = m.nV + ringNext n j := by
    rw [t3 _ rj, v2 _ rj]
  have vd := v3 _ rj
  rw [bevelSide_full m f n j hn hj]
  by_cases e : j + 1 = n
  · have r0 : ringNext n j = 0 := by unfold ringNext; rw [if_pos e]
    have d0 : m.nH + 4 * ringNext n j + 3 = m.nH + 3 := by rw [r0]
    rw [d0] at td vd
    rw [if_pos e]
    have q := sideFace_quad_last (bevelSided m f n j).new_face.2 (m.nF + j) (faceH m f j)
      (m.nH + 4 * j + 1) (m.nH + 4 * j + 2) (m.nH + 3) (m.hVertex (faceH m f j))
      (m.nV + ringNext n j) (m.nV + j) (m.hVertex (faceH m f (ringNext n j)))
      (vo _ hg.1) (v1 j hj) (v2 j hj) vd ta tb tc td
      (by omega) (by omega) ps (by omega) (by omega) (by omega)
    rw [q]
    clear q ta tb tc td vd vo v0 v1 v2 v3 tw t0 t1 t2 t3 ps sb pb ori tl hd d0 hg rj rne
    refine mesh_ext _ _ rfl rfl rfl rfl rfl rfl ?_ rfl ?_ rfl rfl rfl ?_ ?_ rfl rfl ?_ rfl rfl
      rfl rfl
    all_goals funext x
    all_goals simp only [Mesh.new_face, upd_apply]
    · rcases block_cases m.nH n x with hx | hx | ⟨i, hi, rfl | rfl | rfl | rfl⟩
      · rw [sided_next_out m f n j x (Or.inl hx), sided_next_out m f n (j + 1) x (Or.inl hx)]
        by_cases hxa : x = faceH m f j
        · subst hxa
          rw [ci]
          try rw [r0]
          (repeat (first | rw [if_pos (by omega)] | rw [if_neg (by omega)])) <;> first | rfl | omega
        · have cn := cycIdx_ne c hj hxa
          by_cases hc : cycIdx m f n x < j
          · (repeat (first | rw [if_pos (by omega)] | rw [if_neg (by omega)])) <;> first | rfl | omega
          · (repeat (first | rw [if_pos (by omega)] | rw [if_neg (by omega)])) <;> first | rfl | omega
      · rw [sided_next_out m f n j x (Or.inr hx), sided_next_out m f n (j + 1) x (Or.inr hx)]
        have hxa : x ≠ faceH m f j := by omega
        have cn := cycIdx_ne c hj hxa
        by_cases hc : cycIdx m f n x < j
        · (repeat (first | rw [if_pos (by omega)] | rw [if_neg (by omega)])) <;> first | rfl | omega
        · (repeat (first | rw [if_pos (by omega)] | rw [if_neg (by omega)])) <;> first | rfl | omega
      · rw [sided_next0 m f n j i hi, sided_next0 m f n (j + 1) i hi]
        (repeat (first | rw [if_pos (by omega)] | rw [if_neg (by omega)])) <;> first | rfl | omega
      · rw [sided_next1 m f n j i hi, sided_next1 m f n (j + 1) i hi]
        rcases Nat.lt_trichotomy i j with h | rfl | h
        · (repeat (first | rw [if_pos (by omega)] | rw [if_neg (by omega)])) <;> first | rfl | omega
        · (repeat (first | rw [if_pos (by omega)] | rw [if_neg (by omega)])) <;> first | rfl | omega
        · (repeat (first | rw [if_pos (by omega)] | rw [if_neg (by omega)])) <;> first | rfl | omega
      · rw [sided_next2 m f n j i hi, sided_next2 m f n (j + 1) i hi]
        rcases Nat.lt_trichotomy i j with h | rfl | h
        · (repeat (first | rw [if_pos (by omega)] | rw [if_neg (by omega)])) <;> first | rfl | omega
        · (repeat (first | rw [if_pos (by omega)] | rw [if_neg (by omega)])) <;> first | rfl | omega
        · (repeat (first | rw [if_pos (by omega)] | rw [if_neg (by omega)])) <;> first | rfl | omega
      · rw [sided_next3 m f n j i hi, sided_next3 m f n (j + 1) i hi]
        by_cases i0 : i = 0
        · rw [i0, ringPrev_zero]
          rcases Nat.lt_trichotomy (n - 1) j with h | h | h
          · (repeat (first | rw [if_pos (by omega)] | rw [if_neg (by omega)])) <;> first | rfl | omega
          · (repeat (first | rw [if_pos (by omega)] | rw [if_neg (by omega)])) <;> first | rfl | omega
          · (repeat (first | rw [if_pos (by omega)] | rw [if_neg (by omega)])) <;> first | rfl | omega
        · rw [ringPrev_pos i0]
          rcases Nat.lt_trichotomy (i - 1) j with h | h | h
          · (repeat (first | rw [if_pos (by omega)] | rw [if_neg (by omega)])) <;> first | rfl | omega
          · (repeat (first | rw [if_pos (by omega)] | rw [if_neg (by omega)])) <;> first | rfl | omega
          · (repeat (first | rw [if_pos (by omega)] | rw [if_neg (by omega)])) <;> first | rfl | omega
    · rcases block_cases m.nH n x with hx | hx | ⟨i, hi, rfl | rfl | rfl | rfl⟩
      · rw [sided_face_out m f n j x (Or.inl hx), sided_face_out m f n (j + 1) x (Or.inl hx)]
        by_cases hxa : x = faceH m f j
        · subst hxa
          rw [ci]
          try rw [r0]
          (repeat (first | rw [if_pos (by omega)] | rw [if_neg (by omega)])) <;> first | rfl | omega
        · have cn := cycIdx_ne c hj hxa
          by_cases hc : cycIdx m f n x < j
          · (repeat (first | rw [if_pos (by omega)] | rw [if_neg (by omega)])) <;> first | rfl | omega
          · (repeat (first | rw [if_pos (by omega)] | rw [if_neg (by omega)])) <;> first | rfl | omega
      · rw [sided_face_out m f n j x (Or.inr hx), sided_face_out m f n (j + 1) x (Or.inr hx)]
        have hxa : x ≠ faceH m f j := by omega
        have cn := cycIdx_ne c hj hxa
        by_cases hc : cycIdx m f n x < j
        · (repeat (first | rw [if_pos (by omega)] | rw [if_neg (by omega)])) <;> first | rfl | omega
        · (repeat (first | rw [if_pos (by omega)] | rw [if_neg (by omega)])) <;> first | rfl | omega
      · rw [sided_face0 m f n j i hi, sided_face0 m f n (j + 1) i hi]
        (repeat (first | rw [if_pos (by omega)] | rw [if_neg (by omega)])) <;> first | rfl | omega
      · rw [sided_face1 m f n j i hi, sided_face1 m f n (j + 1) i hi]
        rcases Nat.lt_trichotomy i j with h | rfl | h
        · (repeat (first | rw [if_pos (by omega)] | rw [if_neg (by omega)])) <;> first | rfl | omega
        · (repeat (first | rw [if_pos (by omega)] | rw [if_neg (by omega)])) <;> first | rfl | omega
        · (repeat (first | rw [if_pos (by omega)] | rw [if_neg (by omega)])) <;> first | rfl | omega
      · rw [sided_face2 m f n j i hi, sided_face2 m f n (j + 1) i hi]
        rcases Nat.lt_trichotomy i j with h | rfl | h
        · (repeat (first | rw [if_pos (by omega)] | rw [if_neg (by omega)])) <;> first | rfl | omega
        · (repeat (first | rw [if_pos (by omega)] | rw [if_neg (by omega)])) <;> first | rfl | omega
        · (repeat (first | rw [if_pos (by omega)] | rw [if_neg (by omega)])) <;> first | rfl | omega
      · rw [sided_face3 m f n j i hi, sided_face3 m f n (j + 1) i hi]
        by_cases i0 : i = 0
        · rw [i0, ringPrev_zero]
          rcases Nat.lt_trichotomy (n - 1) j with h | h | h
          · (repeat (first | rw [if_pos (by omega)] | rw [if_neg (by omega)])) <;> first | rfl | omega
          · (repeat (first | rw [if_pos (by omega)] | rw [if_neg (by omega)])) <;> first | rfl | omega
          · (repeat (first | rw [if_pos (by omega)] | rw [if_neg (by omega)])) <;> first | rfl | omega
        · rw [ringPrev_pos i0]
          rcases Nat.lt_trichotomy (i - 1) j with h | h | h
          · (repeat (first | rw [if_pos (by omega)] | rw [if_neg (by omega)])) <;> first | rfl | omega
          · (repeat (first | rw [if_pos (by omega)] | rw [if_neg (by omega)])) <;> first | rfl | omega
          · (repeat (first | rw [if_pos (by omega)] | rw [if_neg (by omega)])) <;> first | rfl | omega
    · simp only [bevelSided]
      by_cases h1 : x = f
      · (repeat (first | rw [if_pos (by omega)] | rw [if_neg (by omega)])) <;> first | rfl | omega
      · by_cases h2 : x = m.nF + j
        · (repeat (first | rw [if_pos (by omega)] | rw [if_neg (by omega)])) <;> first | rfl | omega
        · by_cases h3 : m.nF ≤ x ∧ x < m.nF + j
          · by_cases h4 : x - m.nF + 1 = n
            · (repeat (first | rw [if_pos (by omega)] | rw [if_neg (by omega)])) <;> first | rfl | omega
            · (repeat (first | rw [if_pos (by omega)] | rw [if_neg (by omega)])) <;> first | rfl | omega
          · (repeat (first | rw [if_pos (by omega)] | rw [if_neg (by omega)])) <;> first | rfl | omega
    · simp only [bevelSided]
      by_cases h2 : x = m.nF + j
      · (repeat (first | rw [if_pos (by omega)] | rw [if_neg (by omega)])) <;> first | rfl | omega
      · by_cases h3 : m.nF ≤ x ∧ x < m.nF + j
        · (repeat (first | rw [if_pos (by omega)] | rw [if_neg (by omega)])) <;> first | rfl | omega
        · (repeat (first | rw [if_pos (by omega)] | rw [if_neg (by omega)])) <;> first | rfl | omega
    · simp only [bevelSided]
      by_cases h2 : x = m.nF + j
      · (repeat (first | rw [if_pos (by omega)] | rw [if_neg (by omega)])) <;> first | rfl | omega
      · by_cases h3 : m.nF ≤ x ∧ x < m.nF + j
        · (repeat (first | rw [if_pos (by omega)] | rw [if_neg (by omega)])) <;> first | rfl | omega
        · (repeat (first | rw [if_pos (by omega)] | rw [if_neg (by omega)])) <;> first | rfl | omega
  · have r0 : ringNext n j = j + 1 := by unfold ringNext; rw [if_neg e]
    have d0 : m.nH + 4 * ringNext n j + 3 = m.nH + 4 * (j + 1) + 3 := by rw [r0]
    rw [d0] at td vd
    rw [if_neg e]
    have q := sideFace_quad (bevelSided m f n j).new_face.2 (m.nF + j) (faceH m f j)
      (m.nH + 4 * j + 1) (m.nH + 4 * j + 2) (m.nH + 4 * (j + 1) + 3) (m.hVertex (faceH m f j))
      (m.nV + ringNext n j) (m.nV + j) (m.hVertex (faceH m f (ringNext n j)))
      (vo _ hg.1) (v1 j hj) (v2 j hj) vd ta tb tc td
      (by omega) (by omega) ps (by omega) (by omega) (by omega)
    rw [q]
    clear q ta tb tc td vd vo v0 v1 v2 v3 tw t0 t1 t2 t3 ps sb pb ori tl hd d0 hg rj rne
    refine mesh_ext _ _ rfl rfl rfl rfl rfl rfl ?_ rfl ?_ rfl rfl rfl ?_ ?_ rfl rfl ?_ rfl rfl
      rfl rfl
    all_goals funext x
    all_goals simp only [Mesh.new_face, upd_apply]
    · rcases block_cases m.nH n x with hx | hx | ⟨i, hi, rfl | rfl | rfl | rfl⟩
      · rw [sided_next_out m f n j x (Or.inl hx), sided_next_out m f n (j + 1) x (Or.inl hx)]
        by_cases hxa : x = faceH m f j
        · subst hxa
          rw [ci]
          try rw [r0]
          (repeat (first | rw [if_pos (by omega)] | rw [if_neg (by omega)])) <;> first | rfl | omega
        · have cn := cycIdx_ne c hj hxa
          by_cases hc : cycIdx m f n x < j
          · (repeat (first | rw [if_pos (by omega)] | rw [if_neg (by omega)])) <;> first | rfl | omega
          · (repeat (first | rw [if_pos (by omega)] | rw [if_neg (by omega)])) <;> first | rfl | omega
      · rw [sided_next_out m f n j x (Or.inr hx), sided_next_out m f n (j + 1) x (Or.inr hx)]
        have hxa : x ≠ faceH m f j := by omega
        have cn := cycIdx_ne c hj hxa
        by_cases hc : cycIdx m f n x < j
        · (repeat (first | rw [if_pos (by omega)] | rw [if_neg (by omega)])) <;> first | rfl | omega
        · (repeat (first | rw [if_pos (by omega)] | rw [if_neg (by omega)])) <;> first | rfl | omega
      · rw [sided_next0 m f n j i hi, sided_next0 m f n (j + 1) i hi]
        (repeat (first | rw [if_pos (by omega)] | rw [if_neg (by omega)])) <;> first | rfl | omega
      · rw [sided_next1 m f n j i hi, sided_next1 m f n (j + 1) i hi]
        rcases Nat.lt_trichotomy i j with h | rfl | h
        · (repeat (first | rw [if_pos (by omega)] | rw [if_neg (by omega)])) <;> first | rfl | omega
        · (repeat (first | rw [if_pos (by omega)] | rw [if_neg (by omega)])) <;> first | rfl | omega
        · (repeat (first | rw [if_pos (by omega)] | rw [if_neg (by omega)])) <;> first | rfl | omega
      · rw [sided_next2 m f n j i hi, sided_next2 m f n (j + 1) i hi]
        rcases Nat.lt_trichotomy i j with h | rfl | h
        · (repeat (first | rw [if_pos (by omega)] | rw [if_neg (by omega)])) <;> first | rfl | omega
        · (repeat (first | rw [if_pos (by omega)] | rw [if_neg (by omega)])) <;> first | rfl | omega
        · (repeat (first | rw [if_pos (by omega)] | rw [if_neg (by omega)])) <;> first | rfl | omega
      · rw [sided_next3 m f n j i hi, sided_next3 m f n (j + 1) i hi]
        by_cases i0 : i = 0
        · rw [i0, ringPrev_zero]
          rcases Nat.lt_trichotomy (n - 1) j with h | h | h
          · (repeat (first | rw [if_pos (by omega)] | rw [if_neg (by omega)])) <;> first | rfl | omega
          · (repeat (first | rw [if_pos (by omega)] | rw [if_neg (by omega)])) <;> first | rfl | omega
          · (repeat (first | rw [if_pos (by omega)] | rw [if_neg (by omega)])) <;> first | rfl | omega
        · rw [ringPrev_pos i0]
          rcases Nat.lt_trichotomy (i - 1) j with h | h | h
          · (repeat (first | rw [if_pos (by omega)] | rw [if_neg (by omega)])) <;> first | rfl | omega
          · (repeat (first | rw [if_pos (by omega)] | rw [if_neg (by omega)])) <;> first | rfl | omega
          · (repeat (first | rw [if_pos (by omega)] | rw [if_neg (by omega)])) <;> first | rfl | omega
    · rcases block_cases m.nH n x with hx | hx | ⟨i, hi, rfl | rfl | rfl | rfl⟩
      · rw [sided_face_out m f n j x (Or.inl hx), sided_face_out m f n (j + 1) x (Or.inl hx)]
        by_cases hxa : x = faceH m f j
        · subst hxa
          rw [ci]
          try rw [r0]
          (repeat (first | rw [if_pos (by omega)] | rw [if_neg (by omega)])) <;> first | rfl | omega
        · have cn := cycIdx_ne c hj hxa
          by_cases hc : cycIdx m f n x < j
          · (repeat (first | rw [if_pos (by omega)] | rw [if_neg (by omega)])) <;> first | rfl | omega
          · (repeat (first | rw [if_pos (by omega)] | rw [if_neg (by omega)])) <;> first | rfl | omega
      · rw [sided_face_out m f n j x (Or.inr hx), sided_face_out m f n (j + 1) x (Or.inr hx)]
        have hxa : x ≠ faceH m f j := by omega
        have cn := cycIdx_ne c hj hxa
        by_cases hc : cycIdx m f n x < j
        · (repeat (first | rw [if_pos (by omega)] | rw [if_neg (by omega)])) <;> first | rfl | omega
        · (repeat (first | rw [if_pos (by omega)] | rw [if_neg (by omega)])) <;> first | rfl | omega
      · rw [sided_face0 m f n j i hi, sided_face0 m f n (j + 1) i hi]
        (repeat (first | rw [if_pos (by omega)] | rw [if_neg (by omega)])) <;> first | rfl | omega
      · rw [sided_face1 m f n j i hi, sided_face1 m f n (j + 1) i hi]
        rcases Nat.lt_trichotomy i j with h | rfl | h
        · (repeat (first | rw [if_pos (by omega)] | rw [if_neg (by omega)])) <;> first | rfl | omega
        · (repeat (first | rw [if_pos (by omega)] | rw [if_neg (by omega)])) <;> first | rfl | omega
        · (repeat (first | rw [if_pos (by omega)] | rw [if_neg (by omega)])) <;> first | rfl | omega
      · rw [sided_face2 m f n j i hi, sided_face2 m f n (j + 1) i hi]
        rcases Nat.lt_trichotomy i j with h | rfl | h
        · (repeat (first | rw [if_pos (by omega)] | rw [if_neg (by omega)])) <;> first | rfl | omega
        · (repeat (first | rw [if_pos (by omega)] | rw [if_neg (by omega)])) <;> first | rfl | omega
        · (repeat (first | rw [if_pos (by omega)] | rw [if_neg (by omega)])) <;> first | rfl | omega
      · rw [sided_face3 m f n j i hi, sided_face3 m f n (j + 1) i hi]
        by_cases i0 : i = 0
        · rw [i0, ringPrev_zero]
          rcases Nat.lt_trichotomy (n - 1) j with h | h | h
          · (repeat (first | rw [if_pos (by omega)] | rw [if_neg (by omega)])) <;> first | rfl | omega
          · (repeat (first | rw [if_pos (by omega)] | rw [if_neg (by omega)])) <;> first | rfl | omega
          · (repeat (first | rw [if_pos (by omega)] | rw [if_neg (by omega)])) <;> first | rfl | omega
        · rw [ringPrev_pos i0]
          rcases Nat.lt_trichotomy (i - 1) j with h | h | h
          · (repeat (first | rw [if_pos (by omega)] | rw [if_neg (by omega)])) <;> first | rfl | omega
          · (repeat (first | rw [if_pos (by omega)] | rw [if_neg (by omega)])) <;> first | rfl | omega
          · (repeat (first | rw [if_pos (by omega)] | rw [if_neg (by omega)])) <;> first | rfl | omega
    · simp only [bevelSided]
      by_cases h1 : x = f
      · (repeat (first | rw [if_pos (by omega)] | rw [if_neg (by omega)])) <;> first | rfl | omega
      · by_cases h2 : x = m.nF + j
        · (repeat (first | rw [if_pos (by omega)] | rw [if_neg (by omega)])) <;> first | rfl | omega
        · by_cases h3 : m.nF ≤ x ∧ x < m.nF + j
          · by_cases h4 : x - m.nF + 1 = n
            · (repeat (first | rw [if_pos (by omega)] | rw [if_neg (by omega)])) <;> first | rfl | omega
            · (repeat (first | rw [if_pos (by omega)] | rw [if_neg (by omega)])) <;> first | rfl | omega
          · (repeat (first | rw [if_pos (by omega)] | rw [if_neg (by omega)])) <;> first | rfl | omega
    · simp only [bevelSided]
      by_cases h2 : x = m.nF + j
      · (repeat (first | rw [if_pos (by omega)] | rw [if_neg (by omega)])) <;> first | rfl | omega
      · by_cases h3 : m.nF ≤ x ∧ x < m.nF + j
        · (repeat (first | rw [if_pos (by omega)] | rw [if_neg (by omega)])) <;> first | rfl | omega
        · (repeat (first | rw [if_pos (by omega)] | rw [if_neg (by omega)])) <;> first | rfl | omega
    · simp only [bevelSided]
      by_cases h2 : x = m.nF + j
      · (repeat (first | rw [if_pos (by omega)] | rw [if_neg (by omega)])) <;> first | rfl | omega
      · by_cases h3 : m.nF ≤ x ∧ x < m.nF + j
        · (repeat (first | rw [if_pos (by omega)] | rw [if_neg (by omega)])) <;> first | rfl | omega
        · (repeat (first | rw [if_pos (by omega)] | rw [if_neg (by omega)])) <;> first | rfl | omega

/-- The fourth loop of `bevel_face`, entered after `j` rounds, on a face with
    different vertices. -/
theorem sideFaces_spec {m : Mesh} {f n : Nat} (c : FaceCyc m f n) (hn : 2 ≤ n)
    (hd : ∀ i j, i < n → j < n → m.hVertex (faceH m f i) = m.hVertex (faceH m f j) → i = j)
    (dbg : Bool) :
    ∀ k j, j + k = n →
      sideFaces dbg (bevelSide m f n n) (List.range' j k) (bevelSided m f n j) =
        some (bevelSided m f n n) := by
  intro k
  induction k with
  | zero =>
    intro j hj
    simp only [Nat.add_zero] at hj
    subst hj
    rfl
  | succ k ih =>
    intro j hj
    have h4 : (bevelSide m f n n j).length = 4 := by
      rw [bevelSide_full m f n j hn (by omega)]
      split_ifs <;> rfl
    rw [List.range'_succ]
    unfold sideFaces
    rw [if_neg (by simp [h4])]
    simp only []
    rw [show (bevelSided m f n j).new_face.1 = m.nF + j from rfl, bevelSided_step c hn hd j (by omega)]
    exact ih (j + 1) (by omega)

theorem bevel_face_closed {m : Mesh} {f n : Nat} (c : FaceCyc m f n) (hn : 2 ≤ n)
    (hd : ∀ i j, i < n → j < n → m.hVertex (faceH m f i) = m.hVertex (faceH m f j) → i = j)
    (dbg : Bool) : bevel_face dbg m f = some (some f, bevelSided m f n n) := by
  rw [bevel_face_eq c hn, List.range_eq_range', sideFaces_spec c hn hd dbg n 0 (by omega)]
  rfl

theorem sided_edge (m : Mesh) (f n j : Nat) :
    (∀ x, x < m.nH → (bevelSided m f n j).hEdge x = m.hEdge x) ∧
    (∀ i, i < n → (bevelSided m f n j).hEdge (m.nH + 4 * i) = m.nE + 2 * i) ∧
    (∀ i, i < n → (bevelSided m f n j).hEdge (m.nH + 4 * i + 1) = m.nE + 2 * i) ∧
    (∀ i, i < n → (bevelSided m f n j).hEdge (m.nH + 4 * i + 2) = m.nE + 2 * i + 1) ∧
    (∀ i, i < n → (bevelSided m f n j).hEdge (m.nH + 4 * i + 3) = m.nE + 2 * i + 1) := by
  refine ⟨?_, ?_, ?_, ?_, ?_⟩ <;> intro i hi <;>
    simp only [bevelSided, bevelLinked, bevelRinged, bevelCopied] <;>
    split_ifs <;> first | rfl | omega

theorem sided_herased (m : Mesh) (f n j : Nat) :
    (∀ x, x < m.nH → (bevelSided m f n j).hErased x = m.hErased x) ∧
    (∀ x, m.nH ≤ x → x < m.nH + 4 * n → (bevelSided m f n j).hErased x = false) := by
  refine ⟨?_, ?_⟩ <;> intro i hi <;>
    simp only [bevelSided, bevelLinked, bevelRinged, bevelCopied] <;>
    (try intro h2) <;> split_ifs <;> first | rfl | omega

theorem sided_vtable (m : Mesh) (f n j : Nat) :
    (∀ v, v < m.nV → (bevelSided m f n j).vHalfedge v = m.vHalfedge v) ∧
    (∀ i, i < n → (bevelSided m f n j).vHalfedge (m.nV + i) = m.nH + 4 * i) := by
  refine ⟨?_, ?_⟩ <;> intro i hi <;>
    simp only [bevelSided, bevelLinked, bevelRinged, bevelCopied] <;>
    split_ifs <;> first | rfl | omega

theorem sided_etable (m : Mesh) (f n j : Nat) :
    (∀ e, e < m.nE → (bevelSided m f n j).eHalfedge e = m.eHalfedge e ∧
      (bevelSided m f n j).eErased e = m.eErased e) ∧
    (∀ i, i < n → (bevelSided m f n j).eHalfedge (m.nE + 2 * i) = m.nH + 4 * i ∧
      (bevelSided m f n j).eErased (m.nE + 2 * i) = false) ∧
    (∀ i, i < n → (bevelSided m f n j).eHalfedge (m.nE + 2 * i + 1) = m.nH + 4 * i + 2 ∧
      (bevelSided m f n j).eErased (m.nE + 2 * i + 1) = false) := by
  refine ⟨?_, ?_, ?_⟩ <;> intro i hi <;>
    simp only [bevelSided, bevelLinked, bevelRinged, bevelCopied] <;>
    constructor <;> split_ifs <;> first | rfl | omega

theorem sided_ftable (m : Mesh) (f n : Nat) (hf : f < m.nF) :
    (bevelSided m f n n).fHalfedge f = m.nH + 4 * (n - 1) ∧
    (∀ y, y < m.nF → (y ≠ f → (bevelSided m f n n).fHalfedge y = m.fHalfedge y) ∧
      (bevelSided m f n n).fErased y = m.fErased y) ∧
    (∀ k, k < n → (bevelSided m f n n).fHalfedge (m.nF + k) =
        (if k + 1 = n then m.nH + 4 * k + 2 else m.nH + 4 * (k + 1) + 3) ∧
      (bevelSided m f n n).fErased (m.nF + k) = false) := by
  refine ⟨?_, ?_, ?_⟩
  · simp [bevelSided]
  · intro y hy
    simp only [bevelSided]
    constructor
    · intro ne
      rw [if_neg ne, if_neg (by omega)]
    · rw [if_neg (by omega)]
  · intro k hk
    simp only [bevelSided]
    constructor
    · rw [if_neg (by omega), if_pos (by omega)]
      split_ifs <;> first | rfl | omega
    · rw [if_pos (by omega)]

theorem ringNext_lt {n i : Nat} (hi : i < n) : ringNext n i < n := by
  unfold ringNext; split_ifs <;> omega

theorem ringPrev_lt {n i : Nat} (hi : i < n) : ringPrev n i < n := by
  unfold ringPrev; split_ifs <;> omega

theorem ringPrev_next {n i : Nat} (hi : i < n) : ringPrev n (ringNext n i) = i := by
  unfold ringPrev ringNext
  by_cases h : i + 1 = n
  · simp only [h, if_true]; omega
  · simp only [h, if_false, show ¬ (i + 1 = 0) by omega]; omega

theorem ringNext_prev {n i : Nat} (hi : i < n) : ringNext n (ringPrev n i) = i := by
  unfold ringPrev ringNext
  by_cases h : i = 0
  · simp only [h, if_true, show n - 1 + 1 = n by omega]
  · simp only [h, if_false, show ¬ (i - 1 + 1 = n) by omega]; omega

theorem ringNext_mod {n : Nat} (hn : 0 < n) (a : Nat) : ringNext n (a % n) = (a + 1) % n := by
  unfold ringNext
  have hlt := Nat.mod_lt a hn
  by_cases h1 : n = 1
  · subst h1
    simp [Nat.mod_one]
  · have e : (a + 1) % n = (a % n + 1) % n := by
      rw [Nat.add_mod, Nat.mod_eq_of_lt (show 1 < n by omega)]
    rw [e]
    by_cases c : a % n + 1 = n
    · rw [if_pos c, c, Nat.mod_self]
    · rw [if_neg c]
      exact (Nat.mod_eq_of_lt (show a % n + 1 < n by omega)).symm

theorem bevelOut_of {m : Mesh} {f n : Nat} (c : FaceCyc m f n) (hn : 2 ≤ n) :
    BevelOut m f n (bevelSided m f n n) := by
  obtain ⟨vo, v0, v1, v2, v3⟩ := sided_vertex m f n n
  obtain ⟨tw, t0, t1, t2, t3⟩ := sided_twin m f n n
  obtain ⟨eo, e0, e1, e2, e3⟩ := sided_edge m f n n
  obtain ⟨ho, hw⟩ := sided_herased m f n n
  obtain ⟨vt0, vt1⟩ := sided_vtable m f n n
  obtain ⟨et0, et1, et2⟩ := sided_etable m f n n
  obtain ⟨ft0, ft1, ft2⟩ := sided_ftable m f n c.fl.1
  obtain ⟨-, p1, p2⟩ := sided_pos m f n n
  have inc : ∀ k, k < n → cycIdx m f n (faceH m f k) < n := by
    intro k hk; rw [cycIdx_faceH c hk]; exact hk
  have outc : ∀ x, (∀ k, k < n → x ≠ faceH m f k) → ¬ cycIdx m f n x < n := by
    intro x hx h
    exact hx _ h (cycIdx_lt h).symm
  exact {
    cV := rfl, cE := rfl, cF := rfl, cH := rfl
    herO := ho, herN := hw
    verO := fun v hv => (p1 v hv).2
    verN := fun i hi => (p2 i hi).2
    eerO := fun e he => (et0 e he).2
    eerN := fun e h1 h2 => by
      rcases Nat.mod_two_eq_zero_or_one (e - m.nE) with h | h
      · have := (et1 ((e - m.nE) / 2) (by omega)).2
        rw [show m.nE + 2 * ((e - m.nE) / 2) = e by omega] at this
        exact this
      · have := (et2 ((e - m.nE) / 2) (by omega)).2
        rw [show m.nE + 2 * ((e - m.nE) / 2) + 1 = e by omega] at this
        exact this
    ferO := fun y hy => (ft1 y hy).2
    ferN := fun i hi => (ft2 i hi).2
    twO := tw, tw0 := t0, tw1 := t1, tw2 := t2, tw3 := t3
    vxO := vo, vx0 := v0, vx1 := v1, vx2 := v2, vx3 := v3
    edO := eo, ed0 := e0, ed1 := e1, ed2 := e2, ed3 := e3
    fcC := fun k hk => by
      rw [sided_face_out m f n n _ (Or.inl (faceH_live c k).1.1), if_pos (inc k hk),
        cycIdx_faceH c hk]
    fcO := fun x hx ne => by
      rw [sided_face_out m f n n _ (Or.inl hx), if_neg (outc x ne)]
    fc0 := fun i hi => sided_face0 m f n n i hi
    fc1 := fun i hi => by rw [sided_face1 m f n n i hi, if_pos hi]
    fc2 := fun i hi => by rw [sided_face2 m f n n i hi, if_pos hi]
    fc3 := fun i hi => by rw [sided_face3 m f n n i hi, if_pos (ringPrev_lt hi)]
    nxC := fun k hk => by
      rw [sided_next_out m f n n _ (Or.inl (faceH_live c k).1.1), if_pos (inc k hk),
        cycIdx_faceH c hk]
    nxO := fun x hx ne => by
      rw [sided_next_out m f n n _ (Or.inl hx), if_neg (outc x ne)]
    nx0 := fun i hi => sided_next0 m f n n i hi
    nx1 := fun i hi => by rw [sided_next1 m f n n i hi, if_pos hi]
    nx2 := fun i hi => by rw [sided_next2 m f n n i hi, if_pos hi]
    nx3 := fun i hi => by rw [sided_next3 m f n n i hi, if_pos (ringPrev_lt hi)]
    vhO := vt0, vhN := vt1
    ehO := fun e he => (et0 e he).1
    eh0 := fun i hi => (et1 i hi).1
    eh1 := fun i hi => (et2 i hi).1
    fhT := ft0
    fhO := fun y hy ne => (ft1 y hy).1 ne
    fhN := fun k hk => (ft2 k hk).1
    posO := fun v hv => (p1 v hv).1
    posN := fun i hi => (p2 i hi).1 }

theorem bevelOut_live_old {m M : Mesh} {f n : Nat} (o : BevelOut m f n M) {x : Nat}
    (hl : hLive m x) : hLive M x :=
  ⟨by rw [o.cH]; have := hl.1; omega, by rw [o.herO x hl.1]; exact hl.2⟩

theorem bevelOut_live_new {m M : Mesh} {f n : Nat} (o : BevelOut m f n M) {x : Nat}
    (h1 : m.nH ≤ x) (h2 : x < m.nH + 4 * n) : hLive M x :=
  ⟨by rw [o.cH]; exact h2, o.herN x h1 h2⟩

theorem bevelOut_live_cases {m M : Mesh} {f n : Nat} (o : BevelOut m f n M) {x : Nat}
    (hl : hLive M x) :
    hLive m x ∨ ∃ i, i < n ∧ (x = m.nH + 4 * i ∨ x = m.nH + 4 * i + 1 ∨
      x = m.nH + 4 * i + 2 ∨ x = m.nH + 4 * i + 3) := by
  have h1 := hl.1
  rw [o.cH] at h1
  rcases block_cases m.nH n x with h | h | h
  · exact Or.inl ⟨h, by rw [← o.herO x h]; exact hl.2⟩
  · omega
  · exact Or.inr h

theorem bevelOut_vlive_old {m M : Mesh} {f n : Nat} (o : BevelOut m f n M) {v : Nat}
    (hl : vLive m v) : vLive M v :=
  ⟨by rw [o.cV]; have := hl.1; omega, by rw [o.verO v hl.1]; exact hl.2⟩

theorem bevelOut_vlive_new {m M : Mesh} {f n : Nat} (o : BevelOut m f n M) {i : Nat}
    (hi : i < n) : vLive M (m.nV + i) :=
  ⟨by rw [o.cV]; omega, o.verN i hi⟩

theorem bevelOut_elive_old {m M : Mesh} {f n : Nat} (o : BevelOut m f n M) {e : Nat}
    (hl : eLive m e) : eLive M e :=
  ⟨by rw [o.cE]; have := hl.1; omega, by rw [o.eerO e hl.1]; exact hl.2⟩

theorem bevelOut_elive_new {m M : Mesh} {f n : Nat} (o : BevelOut m f n M) {e : Nat}
    (h1 : m.nE ≤ e) (h2 : e < m.nE + 2 * n) : eLive M e :=
  ⟨by rw [o.cE]; exact h2, o.eerN e h1 h2⟩

theorem bevelOut_flive_old {m M : Mesh} {f n : Nat} (o : BevelOut m f n M) {y : Nat}
    (hl : fLive m y) : fLive M y :=
  ⟨by rw [o.cF]; have := hl.1; omega, by rw [o.ferO y hl.1]; exact hl.2⟩

theorem bevelOut_flive_new {m M : Mesh} {f n : Nat} (o : BevelOut m f n M) {i : Nat}
    (hi : i < n) : fLive M (m.nF + i) :=
  ⟨by rw [o.cF]; omega, o.ferN i hi⟩

theorem bevelOut_twinOK {m M : Mesh} {f n : Nat} (c : FaceCyc m f n)
    (o : BevelOut m f n M) : TwinOK M := by
  intro h hlt her
  rcases bevelOut_live_cases o ⟨hlt, her⟩ with hl | ⟨i, hi, rfl | rfl | rfl | rfl⟩
  · obtain ⟨tl, tne, tt⟩ := c.wf.1 h hl.1 hl.2
    rw [o.twO h hl.1]
    exact ⟨bevelOut_live_old o tl, tne, by rw [o.twO _ tl.1]; exact tt⟩
  · rw [o.tw0 i hi]
    exact ⟨bevelOut_live_new o (by omega) (by omega), by omega, o.tw1 i hi⟩
  · rw [o.tw1 i hi]
    exact ⟨bevelOut_live_new o (by omega) (by omega), by omega, o.tw0 i hi⟩
  · rw [o.tw2 i hi]
    exact ⟨bevelOut_live_new o (by omega) (by omega), by omega, o.tw3 i hi⟩
  · rw [o.tw3 i hi]
    exact ⟨bevelOut_live_new o (by omega) (by omega), by omega, o.tw2 i hi⟩

theorem bevelOut_edge_new {m M : Mesh} {f n : Nat} (o : BevelOut m f n M) {x : Nat}
    (h1 : m.nH ≤ x) (h2 : x < m.nH + 4 * n) :
    M.hEdge x = m.nE + (x - m.nH) / 2 ∧
      M.hTwin x = (if (x - m.nH) % 2 = 0 then x + 1 else x - 1) := by
  rcases block_cases m.nH n x with h | h | ⟨i, hi, rfl | rfl | rfl | rfl⟩
  · omega
  · omega
  · rw [o.ed0 i hi, o.tw0 i hi, if_pos (by omega)]; exact ⟨by omega, rfl⟩
  · rw [o.ed1 i hi, o.tw1 i hi, if_neg (by omega)]; exact ⟨by omega, by omega⟩
  · rw [o.ed2 i hi, o.tw2 i hi, if_pos (by omega)]; exact ⟨by omega, rfl⟩
  · rw [o.ed3 i hi, o.tw3 i hi, if_neg (by omega)]; exact ⟨by omega, by omega⟩

theorem bevelOut_edgeOK {m M : Mesh} {f n : Nat} (c : FaceCyc m f n)
    (o : BevelOut m f n M) : EdgeOK M := by
  have tOK := bevelOut_twinOK c o
  constructor
  · intro h hlt her
    rcases bevelOut_live_cases o ⟨hlt, her⟩ with hl | hnew
    · obtain ⟨el, et, ep⟩ := c.wf.2.2.1.1 h hl.1 hl.2
      obtain ⟨tl, -, -⟩ := c.wf.1 h hl.1 hl.2
      refine ⟨by rw [o.edO h hl.1]; exact bevelOut_elive_old o el, ?_, ?_⟩
      · rw [o.twO h hl.1, o.edO _ tl.1, o.edO h hl.1]; exact et
      · intro h' hlt' her' he
        rw [o.edO h hl.1] at he
        rw [o.twO h hl.1]
        rcases bevelOut_live_cases o ⟨hlt', her'⟩ with hl' | hnew'
        · rw [o.edO h' hl'.1] at he
          exact ep h' hl'.1 hl'.2 he
        · have b1 : m.nH ≤ h' := by
            obtain ⟨i, hi, r | r | r | r⟩ := hnew' <;> omega
          have b2 : h' < m.nH + 4 * n := by
            obtain ⟨i, hi, r | r | r | r⟩ := hnew' <;> omega
          have := (bevelOut_edge_new o b1 b2).1
          have := el.1
          omega
    · have b1 : m.nH ≤ h := by
        obtain ⟨i, hi, r | r | r | r⟩ := hnew <;> omega
      have b2 : h < m.nH + 4 * n := by
        obtain ⟨i, hi, r | r | r | r⟩ := hnew <;> omega
      obtain ⟨e1, e2⟩ := bevelOut_edge_new o b1 b2
      have tb1 : m.nH ≤ M.hTwin h := by rw [e2]; split_ifs <;> omega
      have tb2 : M.hTwin h < m.nH + 4 * n := by rw [e2]; split_ifs <;> omega
      refine ⟨by rw [e1]; exact bevelOut_elive_new o (by omega) (by omega), ?_, ?_⟩
      · rw [(bevelOut_edge_new o tb1 tb2).1, e1, e2]
        split_ifs <;> omega
      · intro h' hlt' her' he
        rw [e1] at he
        rcases bevelOut_live_cases o ⟨hlt', her'⟩ with hl' | hnew'
        · rw [o.edO h' hl'.1] at he
          have := (c.wf.2.2.1.1 h' hl'.1 hl'.2).1.1
          omega
        · have b1' : m.nH ≤ h' := by
            obtain ⟨i, hi, r | r | r | r⟩ := hnew' <;> omega
          have b2' : h' < m.nH + 4 * n := by
            obtain ⟨i, hi, r | r | r | r⟩ := hnew' <;> omega
          rw [(bevelOut_edge_new o b1' b2').1] at he
          rw [e2]
          split_ifs <;> omega
  · intro e hlt her
    rw [o.cE] at hlt
    by_cases he : e < m.nE
    · rw [o.eerO e he] at her
      obtain ⟨hl, ee⟩ := c.wf.2.2.1.2 e he her
      rw [o.ehO e he]
      exact ⟨bevelOut_live_old o hl, by rw [o.edO _ hl.1]; exact ee⟩
    · rcases Nat.mod_two_eq_zero_or_one (e - m.nE) with h | h
      · have ee : e = m.nE + 2 * ((e - m.nE) / 2) := by omega
        rw [ee, o.eh0 _ (by omega)]
        exact ⟨bevelOut_live_new o (by omega) (by omega), o.ed0 _ (by omega)⟩
      · have ee : e = m.nE + 2 * ((e - m.nE) / 2) + 1 := by omega
        rw [ee, o.eh1 _ (by omega)]
        exact ⟨bevelOut_live_new o (by omega) (by omega), o.ed2 _ (by omega)⟩

theorem faceH_ring {m : Mesh} {f n : Nat} (c : FaceCyc m f n) {k : Nat} (hk : k < n) :
    faceH m f (ringNext n k) = m.hNext (faceH m f k) := by
  unfold ringNext
  rw [← faceH_succ]
  by_cases e : k + 1 = n
  · rw [if_pos e, e]; exact c.per.symm
  · rw [if_neg e]

theorem bevelOut_vertexOK {m M : Mesh} {f n : Nat} (c : FaceCyc m f n)
    (o : BevelOut m f n M) : VertexOK M := by
  refine ⟨?_, ?_, ?_⟩
  · intro h hlt her
    rcases bevelOut_live_cases o ⟨hlt, her⟩ with hl | ⟨i, hi, rfl | rfl | rfl | rfl⟩
    · rw [o.vxO h hl.1]
      exact bevelOut_vlive_old o (c.wf.2.2.2.1 h hl.1 hl.2)
    · rw [o.vx0 i hi]; exact bevelOut_vlive_new o hi
    · rw [o.vx1 i hi]; exact bevelOut_vlive_new o (ringNext_lt hi)
    · rw [o.vx2 i hi]; exact bevelOut_vlive_new o hi
    · rw [o.vx3 i hi]
      exact bevelOut_vlive_old o (c.wf.2.2.2.1 _ (faceH_live c i).1.1 (faceH_live c i).1.2)
  · intro v hlt her
    rw [o.cV] at hlt
    by_cases hv : v < m.nV
    · rw [o.verO v hv] at her
      obtain ⟨hl, ee⟩ := c.wf.2.2.2.2.1 v hv her
      rw [o.vhO v hv]
      exact ⟨bevelOut_live_old o hl, by rw [o.vxO _ hl.1]; exact ee⟩
    · have ee : v = m.nV + (v - m.nV) := by omega
      rw [ee, o.vhN _ (by omega)]
      exact ⟨bevelOut_live_new o (by omega) (by omega), o.vx0 _ (by omega)⟩
  · intro h hlt her
    rcases bevelOut_live_cases o ⟨hlt, her⟩ with hl | ⟨i, hi, rfl | rfl | rfl | rfl⟩
    · obtain ⟨tl, -, -⟩ := c.wf.1 h hl.1 hl.2
      have ori := c.wf.2.2.2.2.2 h hl.1 hl.2
      rw [o.twO h hl.1, o.vxO _ tl.1, ← ori]
      by_cases ex : ∃ k, k < n ∧ h = faceH m f k
      · obtain ⟨k, hk, rfl⟩ := ex
        rw [o.nxC k hk, o.vx3 _ (ringNext_lt hk), faceH_ring c hk]
      · have ne : ∀ k, k < n → h ≠ faceH m f k := fun k hk e => ex ⟨k, hk, e⟩
        rw [o.nxO h hl.1 ne, o.vxO _ (c.wf.2.1.1 h hl.1 hl.2).1.1]
    · rw [o.nx0 i hi, o.tw0 i hi, o.vx0 _ (ringNext_lt hi), o.vx1 i hi]
    · rw [o.nx1 i hi, o.tw1 i hi, o.vx2 i hi, o.vx0 i hi]
    · rw [o.nx2 i hi, o.tw2 i hi, o.vxO _ (faceH_live c i).1.1, o.vx3 i hi]
    · rw [o.nx3 i hi, o.tw3 i hi, o.vx1 _ (ringPrev_lt hi), o.vx2 i hi, ringNext_prev hi]

/-- The four half-edges of side face `k` of the bevel follow one another. -/
theorem bevelOut_quad {m M : Mesh} {f n : Nat} (o : BevelOut m f n M) {k : Nat} (hk : k < n) :
    M.hNext (faceH m f k) = m.nH + 4 * ringNext n k + 3 ∧
    M.hNext (m.nH + 4 * ringNext n k + 3) = m.nH + 4 * k + 1 ∧
    M.hNext (m.nH + 4 * k + 1) = m.nH + 4 * k + 2 ∧
    M.hNext (m.nH + 4 * k + 2) = faceH m f k := by
  refine ⟨o.nxC k hk, ?_, o.nx1 k hk, o.nx2 k hk⟩
  rw [o.nx3 _ (ringNext_lt hk), ringPrev_next hk]

theorem bevelOut_top_iter {m M : Mesh} {f n : Nat} (o : BevelOut m f n M) (hn : 0 < n)
    (a : Nat) : ∀ t, M.hNext^[t] (m.nH + 4 * (a % n)) = m.nH + 4 * ((a + t) % n) := by
  intro t
  induction t with
  | zero => rfl
  | succ t ih =>
    rw [Function.iterate_succ_apply', ih, o.nx0 _ (Nat.mod_lt _ hn), ringNext_mod hn]
    rfl

theorem faceH_back {m : Mesh} {f n : Nat} (c : FaceCyc m f n) {x k : Nat} (hx : hLive m x)
    (hk : k < n) (e : m.hNext x = faceH m f k) : ∃ j, j < n ∧ x = faceH m f j := by
  by_cases k0 : k = 0
  · subst k0
    refine ⟨n - 1, by have := c.pos; omega, ?_⟩
    apply next_inj m c.wf _ _ hx (faceH_live c _).1
    rw [e, ← faceH_succ, Nat.sub_add_cancel c.pos]
    exact c.per.symm
  · refine ⟨k - 1, by omega, ?_⟩
    apply next_inj m c.wf _ _ hx (faceH_live c _).1
    rw [e, ← faceH_succ, Nat.sub_add_cancel (by omega)]

theorem bevelOut_faceOK {m M : Mesh} {f n : Nat} (c : FaceCyc m f n)
    (o : BevelOut m f n M) : FaceOK M := by
  have hn := c.pos
  have hH : M.nH = m.nH + 4 * n := o.cH
  constructor
  · intro h hlt her
    rcases bevelOut_live_cases o ⟨hlt, her⟩ with hl | ⟨i, hi, rfl | rfl | rfl | rfl⟩
    · by_cases ex : ∃ k, k < n ∧ h = faceH m f k
      · obtain ⟨k, hk, rfl⟩ := ex
        obtain ⟨q1, q2, q3, q4⟩ := bevelOut_quad o hk
        have rl := ringNext_lt hk
        refine ⟨by rw [q1]; exact bevelOut_live_new o (by omega) (by omega),
          by rw [o.fcC k hk]; exact bevelOut_flive_new o hk, ?_, 3, by omega, ?_⟩
        · rw [q1, o.fc3 _ rl, ringPrev_next hk, o.fcC k hk]
        · show M.hNext (M.hNext (M.hNext (M.hNext (faceH m f k)))) = faceH m f k
          rw [q1, q2, q3, q4]
      · have ne : ∀ k, k < n → h ≠ faceH m f k := fun k hk e => ex ⟨k, hk, e⟩
        obtain ⟨nl, fl, fe, k, hk, ck⟩ := c.wf.2.1.1 h hl.1 hl.2
        have ne' : ∀ k, k < n → m.hNext h ≠ faceH m f k := by
          intro k hk e
          exact ex (faceH_back c hl hk e)
        refine ⟨by rw [o.nxO h hl.1 ne]; exact bevelOut_live_old o nl,
          by rw [o.fcO h hl.1 ne]; exact bevelOut_flive_old o fl, ?_, k, by omega, ?_⟩
        · rw [o.nxO h hl.1 ne, o.fcO _ nl.1 ne', o.fcO h hl.1 ne]; exact fe
        · have := iterate_live_outside m M (fun x => ∃ k, k < n ∧ x = faceH m f k) (hLive m)
            (fun x ⟨k, hk, e⟩ => ⟨ringNext n k, ringNext_lt hk, by
              rw [faceH_ring c hk, e]⟩)
            (fun x hx => (c.wf.2.1.1 x hx.1 hx.2).1)
            (fun x hx nS => o.nxO x hx.1 (fun k hk e => nS ⟨k, hk, e⟩))
            h (k + 1) ck ex hl (k + 1) (le_refl _)
          rw [this.1]
          exact ck
    · have rl := ringNext_lt hi
      refine ⟨by rw [o.nx0 i hi]; exact bevelOut_live_new o (by omega) (by omega),
        by rw [o.fc0 i hi]; exact bevelOut_flive_old o c.fl, ?_, n - 1, by omega, ?_⟩
      · rw [o.nx0 i hi, o.fc0 _ (ringNext_lt hi), o.fc0 i hi]
      · have := bevelOut_top_iter o hn i n
        rw [Nat.add_mod_right, Nat.mod_eq_of_lt hi] at this
        rw [Nat.sub_add_cancel hn]
        exact this
    · obtain ⟨q1, q2, q3, q4⟩ := bevelOut_quad o hi
      refine ⟨by rw [q3]; exact bevelOut_live_new o (by omega) (by omega),
        by rw [o.fc1 i hi]; exact bevelOut_flive_new o hi, ?_, 3, by omega, ?_⟩
      · rw [q3, o.fc2 i hi, o.fc1 i hi]
      · show M.hNext (M.hNext (M.hNext (M.hNext (m.nH + 4 * i + 1)))) = m.nH + 4 * i + 1
        rw [q3, q4, q1, q2]
    · obtain ⟨q1, q2, q3, q4⟩ := bevelOut_quad o hi
      refine ⟨by rw [q4]; exact bevelOut_live_old o (faceH_live c i).1,
        by rw [o.fc2 i hi]; exact bevelOut_flive_new o hi, ?_, 3, by omega, ?_⟩
      · rw [q4, o.fcC i hi, o.fc2 i hi]
      · show M.hNext (M.hNext (M.hNext (M.hNext (m.nH + 4 * i + 2)))) = m.nH + 4 * i + 2
        rw [q4, q1, q2, q3]
    · have pl := ringPrev_lt hi
      obtain ⟨q1, q2, q3, q4⟩ := bevelOut_quad o pl
      rw [ringNext_prev hi] at q1 q2
      refine ⟨by rw [q2]; exact bevelOut_live_new o (by omega) (by omega),
        by rw [o.fc3 i hi]; exact bevelOut_flive_new o pl, ?_, 3, by omega, ?_⟩
      · rw [q2, o.fc1 _ pl, o.fc3 i hi]
      · show M.hNext (M.hNext (M.hNext (M.hNext (m.nH + 4 * i + 3)))) = m.nH + 4 * i + 3
        rw [q2, q3, q4, q1]
  · intro y hlt her
    rw [o.cF] at hlt
    by_cases hy : y < m.nF
    · rw [o.ferO y hy] at her
      by_cases yf : y = f
      · subst yf
        rw [o.fhT]
        exact ⟨bevelOut_live_new o (by omega) (by omega), o.fc0 _ (by omega)⟩
      · obtain ⟨hl, fe⟩ := c.wf.2.1.2 y hy her
        rw [o.fhO y hy yf]
        refine ⟨bevelOut_live_old o hl, ?_⟩
        rw [o.fcO _ hl.1 (fun k hk e => yf (by rw [← fe, e]; exact (faceH_live c k).2))]
        exact fe
    · have ee : y = m.nF + (y - m.nF) := by omega
      have hk : y - m.nF < n := by omega
      rw [ee, o.fhN _ hk]
      by_cases e : y - m.nF + 1 = n
      · rw [if_pos e]
        exact ⟨bevelOut_live_new o (by omega) (by omega), o.fc2 _ hk⟩
      · rw [if_neg e]
        refine ⟨bevelOut_live_new o (by omega) (by omega), ?_⟩
        rw [o.fc3 _ (by omega)]
        unfold ringPrev
        rw [if_neg (by omega)]
        rfl

/-- The mesh that `bevel_face` leaves is well-formed. -/
theorem bevelOut_wf {m M : Mesh} {f n : Nat} (c : FaceCyc m f n) (o : BevelOut m f n M) :
    WellFormed M :=
  ⟨bevelOut_twinOK c o, bevelOut_faceOK c o, bevelOut_edgeOK c o, bevelOut_vertexOK c o⟩

theorem cycleFrom_four (M : Mesh) (w x y z fuel : Nat) (h1 : M.hNext w = x)
    (h2 : M.hNext x = y) (h3 : M.hNext y = z) (h4 : M.hNext z = w) (n1 : x ≠ w) (n2 : y ≠ w)
    (n3 : z ≠ w) (hf : 4 ≤ fuel) : cycleFrom M w fuel w = [w, x, y, z] := by
  obtain ⟨k, rfl⟩ : ∃ k, fuel = k + 4 := ⟨fuel - 4, by omega⟩
  simp [cycleFrom, h1, h2, h3, h4, n1, n2, n3]

theorem faceVertices_getD {m : Mesh} {f n : Nat} (c : FaceCyc m f n) {i : Nat} (hi : i < n) :
    (faceVertices m f).getD i 0 = m.hVertex (faceH m f i) ∧
      (faceHalfedges m f).getD i 0 = faceH m f i := by
  rw [faceVertices_eq c, faceHalfedges_eq c]
  simp [List.getD, hi]

/-- C13: on a well-formed mesh `bevel_face` on a live face `f` whose `n >= 3`
    vertices are different adds `n` faces, `2 n` edges and `4 n` half-edges;
    each new face `nF + i` is live, its vertex cycle is, up to the starting
    point, `old_i, old_(i+1), new_(i+1), new_i`, and it contains the `i`-th
    half-edge of `f`, which still runs from `old_i` to `old_(i+1)`; the
    resulting mesh is well-formed. -/
theorem bevel_face_ring (dbg : Bool) (m : Mesh) (f : Nat) (wf : WellFormed m) (fl : fLive m f)
    (h3 : 3 ≤ (faceVertices m f).length) (nd : (faceVertices m f).Nodup) :
    ∃ m', bevel_face dbg m f = some (some f, m') ∧
      m'.nF = m.nF + (faceVertices m f).length ∧
      m'.nE = m.nE + 2 * (faceVertices m f).length ∧
      m'.nH = m.nH + 4 * (faceVertices m f).length ∧
      (∀ i, i < (faceVertices m f).length →
        fLive m' (m.nF + i) ∧
        List.IsRotated
          [(faceVertices m f).getD i 0,
           (faceVertices m f).getD ((i + 1) % (faceVertices m f).length) 0,
           m.nV + (i + 1) % (faceVertices m f).length, m.nV + i]
          (faceVertices m' (m.nF + i)) ∧
        (faceHalfedges m f).getD i 0 ∈ faceHalfedges m' (m.nF + i) ∧
        m'.hVertex ((faceHalfedges m f).getD i 0) = (faceVertices m f).getD i 0 ∧
        m'.hVertex (m'.hTwin ((faceHalfedges m f).getD i 0)) =
          (faceVertices m f).getD ((i + 1) % (faceVertices m f).length) 0) ∧
      WellFormed m' := by
  obtain ⟨n, c⟩ := faceCyc_exists m wf f fl
  have fv := faceVertices_eq c
  have ln : (faceVertices m f).length = n := by rw [fv]; simp
  have hd : ∀ i j, i < n → j < n → m.hVertex (faceH m f i) = m.hVertex (faceH m f j) → i = j := by
    intro i j hi hj e
    rw [fv] at nd
    exact List.inj_on_of_nodup_map nd (List.mem_range.2 hi) (List.mem_range.2 hj) e
  rw [ln] at h3 ⊢
  have hn : 2 ≤ n := by omega
  have o := bevelOut_of c hn
  have W := bevelOut_wf c o
  refine ⟨bevelSided m f n n, bevel_face_closed c hn hd dbg, o.cF, o.cE, o.cH, ?_, W⟩
  intro i hi
  have rm : ringNext n i = (i + 1) % n := by
    have := ringNext_mod (n := n) (by omega) i
    rw [Nat.mod_eq_of_lt hi] at this
    exact this
  have rl := ringNext_lt hi
  rw [← rm]
  obtain ⟨g1, g2⟩ := faceVertices_getD c hi
  obtain ⟨g3, -⟩ := faceVertices_getD c rl
  rw [g1, g2, g3]
  obtain ⟨q1, q2, q3, q4⟩ := bevelOut_quad o hi
  have gl := (faceH_live c i).1
  have gl1 : faceH m f i < m.nH := gl.1
  have vg : (bevelSided m f n n).hVertex (faceH m f i) = m.hVertex (faceH m f i) := o.vxO _ gl1
  have ori := W.2.2.2.2.2 _ (bevelOut_live_old o gl).1 (bevelOut_live_old o gl).2
  have vt : (bevelSided m f n n).hVertex ((bevelSided m f n n).hTwin (faceH m f i)) =
      m.hVertex (faceH m f (ringNext n i)) := by
    rw [← ori, q1, o.vx3 _ rl]
  have hH : (bevelSided m f n n).nH = m.nH + 4 * n := o.cH
  refine ⟨bevelOut_flive_new o hi, ?_, ?_, vg, vt⟩
  · unfold faceVertices faceHalfedges
    rw [o.fhN i hi]
    by_cases e : i + 1 = n
    · rw [if_pos e, cycleFrom_four _ _ _ _ _ _ q4 q1 q2 q3 (by omega) (by omega) (by omega)
        (by omega)]
      refine ⟨3, ?_⟩
      simp [List.rotate, vg, o.vx1 i hi, o.vx2 i hi, o.vx3 _ rl]
    · have r1 : ringNext n i = i + 1 := by unfold ringNext; rw [if_neg e]
      rw [r1] at q1 q2
      rw [if_neg e, cycleFrom_four _ _ _ _ _ _ q2 q3 q4 q1 (by omega) (by omega) (by omega)
        (by omega)]
      refine ⟨1, ?_⟩
      simp [List.rotate, vg, o.vx1 i hi, o.vx2 i hi, o.vx3 _ (show i + 1 < n by omega), r1]
  · unfold faceHalfedges
    rw [o.fhN i hi]
    by_cases e : i + 1 = n
    · rw [if_pos e, cycleFrom_four _ _ _ _ _ _ q4 q1 q2 q3 (by omega) (by omega) (by omega)
        (by omega)]
      simp
    · have r1 : ringNext n i = i + 1 := by unfold ringNext; rw [if_neg e]
      rw [r1] at q1 q2
      rw [if_neg e, cycleFrom_four _ _ _ _ _ _ q2 q3 q4 q1 (by omega) (by omega) (by omega)
        (by omega)]
      simp

theorem bevel_face_ring_witness :
    ∃ m', bevel_face true tetra 0 = some (some 0, m') ∧
      m'.nF = tetra.nF + (faceVertices tetra 0).length ∧
      m'.nE = tetra.nE + 2 * (faceVertices tetra 0).length ∧
      m'.nH = tetra.nH + 4 * (faceVertices tetra 0).length ∧
      (∀ i, i < (faceVertices tetra 0).length →
        fLive m' (tetra.nF + i) ∧
        List.IsRotated
          [(faceVertices tetra 0).getD i 0,
           (faceVertices tetra 0).getD ((i + 1) % (faceVertices tetra 0).length) 0,
           tetra.nV + (i + 1) % (faceVertices tetra 0).length, tetra.nV + i]
          (faceVertices m' (tetra.nF + i)) ∧
        (faceHalfedges tetra 0).getD i 0 ∈ faceHalfedges m' (tetra.nF + i) ∧
        m'.hVertex ((faceHalfedges tetra 0).getD i 0) = (faceVertices tetra 0).getD i 0 ∧
        m'.hVertex (m'.hTwin ((faceHalfedges tetra 0).getD i 0)) =
          (faceVertices tetra 0).getD ((i + 1) % (faceVertices tetra 0).length) 0) ∧
      WellFormed m' :=
  bevel_face_ring true tetra 0 (by decide) (by decide) (by decide) (by decide)

theorem cut_face_out (m : Mesh) (y n t x : Nat) (hx : x < m.nH ∨ m.nH + 2 * t ≤ x) :
    (fanCutState m y n t).hFace x = (if cycIdx m y n x = 0 then (if 0 < t then m.nF else m.hFace x)
      else if cycIdx m y n x ≤ t then m.nF + (cycIdx m y n x - 1) else m.hFace x) := by
  simp only [fanCutState]
  rw [if_neg (by omega)]

theorem cut_faceC (m : Mesh) (y n t s : Nat) (hs : s < t) :
    (fanCutState m y n t).hFace (m.nH + 2 * s) = m.nF + s := by
  have a : m.nH ≤ m.nH + 2 * s ∧ m.nH + 2 * s < m.nH + 2 * t := by omega
  have d : (m.nH + 2 * s - m.nH) / 2 = s := by omega
  have e : (m.nH + 2 * s - m.nH) % 2 = 0 := by omega
  simp only [fanCutState]
  rw [if_pos a]
  simp only [d, e]
  simp

theorem cut_faceA (m : Mesh) (y n t s : Nat) (hs : s < t) :
    (fanCutState m y n t).hFace (m.nH + 2 * s + 1) = (if s + 1 < t then m.nF + (s + 1) else m.hFace (faceH m y (s + 2))) := by
  have a : m.nH ≤ m.nH + 2 * s + 1 ∧ m.nH + 2 * s + 1 < m.nH + 2 * t := by omega
  have d : (m.nH + 2 * s + 1 - m.nH) / 2 = s := by omega
  have e : (m.nH + 2 * s + 1 - m.nH) % 2 = 1 := by omega
  simp only [fanCutState]
  rw [if_pos a]
  simp only [d, e]
  simp

theorem cut_next_out (m : Mesh) (y n t x : Nat) (hx : x < m.nH ∨ m.nH + 2 * t ≤ x) :
    (fanCutState m y n t).hNext x = (if 1 ≤ cycIdx m y n x ∧ cycIdx m y n x ≤ t then m.nH + 2 * (cycIdx m y n x - 1)
      else m.hNext x) := by
  simp only [fanCutState]
  rw [if_neg (by omega)]

theorem cut_nextC (m : Mesh) (y n t s : Nat) (hs : s < t) :
    (fanCutState m y n t).hNext (m.nH + 2 * s) = fanHa m y s := by
  have a : m.nH ≤ m.nH + 2 * s ∧ m.nH + 2 * s < m.nH + 2 * t := by omega
  have d : (m.nH + 2 * s - m.nH) / 2 = s := by omega
  have e : (m.nH + 2 * s - m.nH) % 2 = 0 := by omega
  simp only [fanCutState]
  rw [if_pos a]
  simp only [d, e]
  simp

theorem cut_nextA (m : Mesh) (y n t s : Nat) (hs : s < t) :
    (fanCutState m y n t).hNext (m.nH + 2 * s + 1) = faceH m y (s + 2) := by
  have a : m.nH ≤ m.nH + 2 * s + 1 ∧ m.nH + 2 * s + 1 < m.nH + 2 * t := by omega
  have d : (m.nH + 2 * s + 1 - m.nH) / 2 = s := by omega
  have e : (m.nH + 2 * s + 1 - m.nH) % 2 = 1 := by omega
  simp only [fanCutState]
  rw [if_pos a]
  simp only [d, e]
  simp

theorem cut_vertex_out (m : Mesh) (y n t x : Nat) (hx : x < m.nH ∨ m.nH + 2 * t ≤ x) :
    (fanCutState m y n t).hVertex x = m.hVertex x := by
  simp only [fanCutState]
  rw [if_neg (by omega)]

theorem cut_vertexC (m : Mesh) (y n t s : Nat) (hs : s < t) :
    (fanCutState m y n t).hVertex (m.nH + 2 * s) = m.hVertex (faceH m y (s + 2)) := by
  have a : m.nH ≤ m.nH + 2 * s ∧ m.nH + 2 * s < m.nH + 2 * t := by omega
  have d : (m.nH + 2 * s - m.nH) / 2 = s := by omega
  have e : (m.nH + 2 * s - m.nH) % 2 = 0 := by omega
  simp only [fanCutState]
  rw [if_pos a]
  simp only [d, e]
  simp

theorem cut_vertexA (m : Mesh) (y n t s : Nat) (hs : s < t) :
    (fanCutState m y n t).hVertex (m.nH + 2 * s + 1) = m.hVertex (faceH m y 0) := by
  have a : m.nH ≤ m.nH + 2 * s + 1 ∧ m.nH + 2 * s + 1 < m.nH + 2 * t := by omega
  have d : (m.nH + 2 * s + 1 - m.nH) / 2 = s := by omega
  have e : (m.nH + 2 * s + 1 - m.nH) % 2 = 1 := by omega
  simp only [fanCutState]
  rw [if_pos a]
  simp only [d, e]
  simp

theorem cut_twin_out (m : Mesh) (y n t x : Nat) (hx : x < m.nH ∨ m.nH + 2 * t ≤ x) :
    (fanCutState m y n t).hTwin x = m.hTwin x := by
  simp only [fanCutState]
  rw [if_neg (by omega)]

theorem cut_twinC (m : Mesh) (y n t s : Nat) (hs : s < t) :
    (fanCutState m y n t).hTwin (m.nH + 2 * s) = m.nH + 2 * s + 1 := by
  have a : m.nH ≤ m.nH + 2 * s ∧ m.nH + 2 * s < m.nH + 2 * t := by omega
  have d : (m.nH + 2 * s - m.nH) / 2 = s := by omega
  have e : (m.nH + 2 * s - m.nH) % 2 = 0 := by omega
  simp only [fanCutState]
  rw [if_pos a]
  simp only [d, e]
  simp

theorem cut_twinA (m : Mesh) (y n t s : Nat) (hs : s < t) :
    (fanCutState m y n t).hTwin (m.nH + 2 * s + 1) = m.nH + 2 * s := by
  have a : m.nH ≤ m.nH + 2 * s + 1 ∧ m.nH + 2 * s + 1 < m.nH + 2 * t := by omega
  have d : (m.nH + 2 * s + 1 - m.nH) / 2 = s := by omega
  have e : (m.nH + 2 * s + 1 - m.nH) % 2 = 1 := by omega
  simp only [fanCutState]
  rw [if_pos a]
  simp only [d, e]
  simp

theorem cut_edge_out (m : Mesh) (y n t x : Nat) (hx : x < m.nH ∨ m.nH + 2 * t ≤ x) :
    (fanCutState m y n t).hEdge x = m.hEdge x := by
  simp only [fanCutState]
  rw [if_neg (by omega)]

theorem cut_edgeC (m : Mesh) (y n t s : Nat) (hs : s < t) :
    (fanCutState m y n t).hEdge (m.nH + 2 * s) = m.nE + s := by
  have a : m.nH ≤ m.nH + 2 * s ∧ m.nH + 2 * s < m.nH + 2 * t := by omega
  have d : (m.nH + 2 * s - m.nH) / 2 = s := by omega
  have e : (m.nH + 2 * s - m.nH) % 2 = 0 := by omega
  simp only [fanCutState]
  rw [if_pos a]
  simp only [d]

theorem cut_edgeA (m : Mesh) (y n t s : Nat) (hs : s < t) :
    (fanCutState m y n t).hEdge (m.nH + 2 * s + 1) = m.nE + s := by
  have a : m.nH ≤ m.nH + 2 * s + 1 ∧ m.nH + 2 * s + 1 < m.nH + 2 * t := by omega
  have d : (m.nH + 2 * s + 1 - m.nH) / 2 = s := by omega
  have e : (m.nH + 2 * s + 1 - m.nH) % 2 = 1 := by omega
  simp only [fanCutState]
  rw [if_pos a]
  simp only [d]

theorem pair_cases (nH t x : Nat) :
    x < nH ∨ nH + 2 * t ≤ x ∨ ∃ s, s < t ∧ (x = nH + 2 * s ∨ x = nH + 2 * s + 1) := by
  by_cases h1 : x < nH
  · exact Or.inl h1
  · by_cases h2 : nH + 2 * t ≤ x
    · exact Or.inr (Or.inl h2)
    · refine Or.inr (Or.inr ⟨(x - nH) / 2, by omega, ?_⟩)
      omega

theorem cycIdx_out {m : Mesh} {f n : Nat} (c : FaceCyc m f n) {x : Nat} (hx : m.nH ≤ x) :
    cycIdx m f n x = n := by
  have h1 := cycIdx_le m f n x
  by_contra h
  have h2 := cycIdx_lt (m := m) (f := f) (n := n) (x := x) (by omega)
  have := (faceH_live c (cycIdx m f n x)).1.1
  rw [h2] at this
  omega

theorem fanCutState_counts (m : Mesh) (y n t : Nat) :
    (fanCutState m y n t).nH = m.nH + 2 * t ∧ (fanCutState m y n t).nE = m.nE + t ∧
      (fanCutState m y n t).nF = m.nF + t := ⟨rfl, rfl, rfl⟩

theorem fanRound_spec {m : Mesh} {y n : Nat} (c : FaceCyc m y n) (t : Nat) (ht : t + 3 ≤ n) :
    fanRound (fanCutState m y n t) (faceH m y 0) (fanHa m y t) (faceH m y (t + 1))
        (faceH m y (t + 2)) = (fanCutState m y n (t + 1), m.nH + 2 * t + 1) := by
  have g0 : faceH m y 0 < m.nH := (faceH_live c 0).1.1
  have g1 : faceH m y (t + 1) < m.nH := (faceH_live c _).1.1
  have g2 : faceH m y (t + 2) < m.nH := (faceH_live c _).1.1
  have i0 := cycIdx_faceH c (show 0 < n by omega)
  have i1 := cycIdx_faceH c (show t + 1 < n by omega)
  have i2 := cycIdx_faceH c (show t + 2 < n by omega)
  have ne12 : faceH m y (t + 2) ≠ faceH m y (t + 1) := fun h => by
    have := faceH_inj c (by omega) (by omega) h; omega
  have ne02 : faceH m y (t + 2) ≠ faceH m y 0 := fun h => by
    have := faceH_inj c (by omega) (by omega) h; omega
  have ne01 : faceH m y (t + 1) ≠ faceH m y 0 := fun h => by
    have := faceH_inj c (by omega) (by omega) h; omega
  have neha : faceH m y (t + 2) ≠ fanHa m y t := by
    unfold fanHa
    split_ifs
    · exact ne02
    · omega
  have s1 : m.hNext (faceH m y 0) = faceH m y 1 := (faceH_succ m y 0).symm
  unfold fanRound
  simp only [Mesh.new_edge, Mesh.new_halfedge, Mesh.new_face, Mesh.setEHalfedge, Mesh.setNext,
    Mesh.setFace, Mesh.setTwin, Mesh.setVertex, Mesh.setEdge, Mesh.setFHalfedge]
  refine Prod.ext ?_ rfl
  refine mesh_ext _ _ rfl rfl rfl rfl ?_ ?_ ?_ ?_ ?_ rfl rfl ?_ ?_ ?_ rfl ?_ ?_ ?_ rfl rfl rfl
  all_goals funext x
  all_goals simp only [upd_apply, (fanCutState_counts m y n t).1, (fanCutState_counts m y n t).2.1,
    (fanCutState_counts m y n t).2.2]
  · rw [cut_vertex_out m y n t _ (Or.inl g2), cut_vertex_out m y n t _ (Or.inl g0)]
    rcases pair_cases m.nH (t + 1) x with hx | hx | ⟨s, hs, rfl | rfl⟩
    · rw [cut_vertex_out m y n t x (Or.inl hx), cut_vertex_out m y n (t + 1) x (Or.inl hx)]
      (repeat (first | rw [if_pos (by omega)] | rw [if_neg (by omega)])) <;> first | rfl | omega
    · rw [cut_vertex_out m y n t x (Or.inr (by omega)),
        cut_vertex_out m y n (t + 1) x (Or.inr hx)]
      (repeat (first | rw [if_pos (by omega)] | rw [if_neg (by omega)])) <;> first | rfl | omega
    · by_cases st : s = t
      · subst st
        rw [cut_vertexC m y n (s + 1) s (by omega)]
        (repeat (first | rw [if_pos (by omega)] | rw [if_neg (by omega)])) <;> first | rfl | omega
      · rw [cut_vertexC m y n t s (by omega), cut_vertexC m y n (t + 1) s (by omega)]
        (repeat (first | rw [if_pos (by omega)] | rw [if_neg (by omega)])) <;> first | rfl | omega
    · by_cases st : s = t
      · subst st
        rw [cut_vertexA m y n (s + 1) s (by omega)]
        (repeat (first | rw [if_pos (by omega)] | rw [if_neg (by omega)])) <;> first | rfl | omega
      · rw [cut_vertexA m y n t s (by omega), cut_vertexA m y n (t + 1) s (by omega)]
        (repeat (first | rw [if_pos (by omega)] | rw [if_neg (by omega)])) <;> first | rfl | omega
  · rcases pair_cases m.nH (t + 1) x with hx | hx | ⟨s, hs, rfl | rfl⟩
    · rw [cut_twin_out m y n t x (Or.inl hx), cut_twin_out m y n (t + 1) x (Or.inl hx)]
      (repeat (first | rw [if_pos (by omega)] | rw [if_neg (by omega)])) <;> first | rfl | omega
    · rw [cut_twin_out m y n t x (Or.inr (by omega)),
        cut_twin_out m y n (t + 1) x (Or.inr hx)]
      (repeat (first | rw [if_pos (by omega)] | rw [if_neg (by omega)])) <;> first | rfl | omega
    · by_cases st : s = t
      · subst st
        rw [cut_twinC m y n (s + 1) s (by omega)]
        (repeat (first | rw [if_pos (by omega)] | rw [if_neg (by omega)])) <;> first | rfl | omega
      · rw [cut_twinC m y n t s (by omega), cut_twinC m y n (t + 1) s (by omega)]
        (repeat (first | rw [if_pos (by omega)] | rw [if_neg (by omega)])) <;> first | rfl | omega
    · by_cases st : s = t
      · subst st
        rw [cut_twinA m y n (s + 1) s (by omega)]
        (repeat (first | rw [if_pos (by omega)] | rw [if_neg (by omega)])) <;> first | rfl | omega
      · rw [cut_twinA m y n t s (by omega), cut_twinA m y n (t + 1) s (by omega)]
        (repeat (first | rw [if_pos (by omega)] | rw [if_neg (by omega)])) <;> first | rfl | omega
  · skip
    rcases pair_cases m.nH (t + 1) x with hx | hx | ⟨s, hs, rfl | rfl⟩
    · rw [cut_next_out m y n t x (Or.inl hx), cut_next_out m y n (t + 1) x (Or.inl hx)]
      by_cases xb : x = faceH m y (t + 1)
      · rw [xb, i1]
        (repeat (first | rw [if_pos (by omega)] | rw [if_neg (by omega)])) <;> first | rfl | omega
      · have cb := cycIdx_ne c (show t + 1 < n by omega) xb
        by_cases xa : x = faceH m y 0
        · rw [xa, i0]
          rw [xa] at xb
          by_cases t0 : t = 0
          · subst t0
            simp only [fanHa, if_true, if_false]
            (repeat (first | rw [if_pos (by omega)] | rw [if_neg (by omega)])) <;> first | rfl | omega
          · simp only [fanHa, if_neg t0, if_true, if_false]
            (repeat (first | rw [if_pos (by omega)] | rw [if_neg (by omega)])) <;> first | rfl | omega
        · have ca := cycIdx_ne c (show 0 < n by omega) xa
          by_cases hc : cycIdx m y n x ≤ t
          · by_cases t0 : t = 0
            · subst t0
              simp only [fanHa, if_true, if_false]
              (repeat (first | rw [if_pos (by omega)] | rw [if_neg (by omega)])) <;> first | rfl | omega
            · simp only [fanHa, if_neg t0, if_true, if_false]
              (repeat (first | rw [if_pos (by omega)] | rw [if_neg (by omega)])) <;> first | rfl | omega
          · by_cases t0 : t = 0
            · subst t0
              simp only [fanHa, if_true, if_false]
              (repeat (first | rw [if_pos (by omega)] | rw [if_neg (by omega)])) <;> first | rfl | omega
            · simp only [fanHa, if_neg t0, if_true, if_false]
              (repeat (first | rw [if_pos (by omega)] | rw [if_neg (by omega)])) <;> first | rfl | omega
    · rw [cut_next_out m y n t x (Or.inr (by omega)),
        cut_next_out m y n (t + 1) x (Or.inr hx), cycIdx_out c (show m.nH ≤ x by omega)]
      by_cases t0 : t = 0
      · subst t0
        simp only [fanHa, if_true, if_false]
        (repeat (first | rw [if_pos (by omega)] | rw [if_neg (by omega)])) <;> first | rfl | omega
      · simp only [fanHa, if_neg t0, if_true, if_false]
        (repeat (first | rw [if_pos (by omega)] | rw [if_neg (by omega)])) <;> first | rfl | omega
    · by_cases st : s = t
      · subst st
        rw [cut_nextC m y n (s + 1) s (by omega)]
        (repeat (first | rw [if_pos (by omega)] | rw [if_neg (by omega)])) <;> first | rfl | omega
      · rw [cut_nextC m y n t s (by omega), cut_nextC m y n (t + 1) s (by omega)]
        by_cases t0 : t = 0
        · omega
        · simp only [fanHa, if_neg t0, if_true, if_false]
          (repeat (first | rw [if_pos (by omega)] | rw [if_neg (by omega)])) <;> first | rfl | omega
    · by_cases st : s = t
      · subst st
        rw [cut_nextA m y n (s + 1) s (by omega)]
        (repeat (first | rw [if_pos (by omega)] | rw [if_neg (by omega)])) <;> first | rfl | omega
      · rw [cut_nextA m y n t s (by omega), cut_nextA m y n (t + 1) s (by omega)]
        by_cases t0 : t = 0
        · omega
        · simp only [fanHa, if_neg t0, if_true, if_false]
          by_cases sp : s + 1 = t
          · subst sp
            (repeat (first | rw [if_pos (by omega)] | rw [if_neg (by omega)])) <;> first | rfl | omega
          · (repeat (first | rw [if_pos (by omega)] | rw [if_neg (by omega)])) <;> first | rfl | omega
  · rcases pair_cases m.nH (t + 1) x with hx | hx | ⟨s, hs, rfl | rfl⟩
    · rw [cut_edge_out m y n t x (Or.inl hx), cut_edge_out m y n (t + 1) x (Or.inl hx)]
      (repeat (first | rw [if_pos (by omega)] | rw [if_neg (by omega)])) <;> first | rfl | omega
    · rw [cut_edge_out m y n t x (Or.inr (by omega)),
        cut_edge_out m y n (t + 1) x (Or.inr hx)]
      (repeat (first | rw [if_pos (by omega)] | rw [if_neg (by omega)])) <;> first | rfl | omega
    · by_cases st : s = t
      · subst st
        rw [cut_edgeC m y n (s + 1) s (by omega)]
        (repeat (first | rw [if_pos (by omega)] | rw [if_neg (by omega)])) <;> first | rfl | omega
      · rw [cut_edgeC m y n t s (by omega), cut_edgeC m y n (t + 1) s (by omega)]
        (repeat (first | rw [if_pos (by omega)] | rw [if_neg (by omega)])) <;> first | rfl | omega
    · by_cases st : s = t
      · subst st
        rw [cut_edgeA m y n (s + 1) s (by omega)]
        (repeat (first | rw [if_pos (by omega)] | rw [if_neg (by omega)])) <;> first | rfl | omega
      · rw [cut_edgeA m y n t s (by omega), cut_edgeA m y n (t + 1) s (by omega)]
        (repeat (first | rw [if_pos (by omega)] | rw [if_neg (by omega)])) <;> first | rfl | omega
  · have hv : (if faceH m y (t + 2) = m.nH + 2 * t then m.nF + t
        else if faceH m y (t + 2) = faceH m y (t + 1) then m.nF + t
        else if faceH m y (t + 2) = fanHa m y t then m.nF + t
        else (fanCutState m y n t).hFace (faceH m y (t + 2))) = m.hFace (faceH m y (t + 2)) := by
      rw [if_neg (by omega), if_neg ne12, if_neg neha, cut_face_out m y n t _ (Or.inl g2), i2,
        if_neg (by omega), if_neg (by omega)]
    rw [hv]
    rcases pair_cases m.nH (t + 1) x with hx | hx | ⟨s, hs, rfl | rfl⟩
    · rw [cut_face_out m y n t x (Or.inl hx), cut_face_out m y n (t + 1) x (Or.inl hx)]
      by_cases xb : x = faceH m y (t + 1)
      · rw [xb, i1]
        (repeat (first | rw [if_pos (by omega)] | rw [if_neg (by omega)])) <;> first | rfl | omega
      · have cb := cycIdx_ne c (show t + 1 < n by omega) xb
        by_cases xa : x = faceH m y 0
        · rw [xa, i0]
          rw [xa] at xb
          by_cases t0 : t = 0
          · subst t0
            simp only [fanHa, if_true, if_false]
            (repeat (first | rw [if_pos (by omega)] | rw [if_neg (by omega)])) <;> first | rfl | omega
          · simp only [fanHa, if_neg t0, if_true, if_false]
            (repeat (first | rw [if_pos (by omega)] | rw [if_neg (by omega)])) <;> first | rfl | omega
        · have ca := cycIdx_ne c (show 0 < n by omega) xa
          by_cases hc : cycIdx m y n x ≤ t
          · by_cases t0 : t = 0
            · subst t0
              simp only [fanHa, if_true, if_false]
              (repeat (first | rw [if_pos (by omega)] | rw [if_neg (by omega)])) <;> first | rfl | omega
            · simp only [fanHa, if_neg t0, if_true, if_false]
              (repeat (first | rw [if_pos (by omega)] | rw [if_neg (by omega)])) <;> first | rfl | omega
          · by_cases t0 : t = 0
            · subst t0
              simp only [fanHa, if_true, if_false]
              (repeat (first | rw [if_pos (by omega)] | rw [if_neg (by omega)])) <;> first | rfl | omega
            · simp only [fanHa, if_neg t0, if_true, if_false]
              (repeat (first | rw [if_pos (by omega)] | rw [if_neg (by omega)])) <;> first | rfl | omega
    · rw [cut_face_out m y n t x (Or.inr (by omega)),
        cut_face_out m y n (t + 1) x (Or.inr hx), cycIdx_out c (show m.nH ≤ x by omega)]
      by_cases t0 : t = 0
      · subst t0
        simp only [fanHa, if_true, if_false]
        (repeat (first | rw [if_pos (by omega)] | rw [if_neg (by omega)])) <;> first | rfl | omega
      · simp only [fanHa, if_neg t0, if_true, if_false]
        (repeat (first | rw [if_pos (by omega)] | rw [if_neg (by omega)])) <;> first | rfl | omega
    · by_cases st : s = t
      · subst st
        rw [cut_faceC m y n (s + 1) s (by omega)]
        (repeat (first | rw [if_pos (by omega)] | rw [if_neg (by omega)])) <;> first | rfl | omega
      · rw [cut_faceC m y n t s (by omega), cut_faceC m y n (t + 1) s (by omega)]
        by_cases t0 : t = 0
        · omega
        · simp only [fanHa, if_neg t0, if_true, if_false]
          (repeat (first | rw [if_pos (by omega)] | rw [if_neg (by omega)])) <;> first | rfl | omega
    · by_cases st : s = t
      · subst st
        rw [cut_faceA m y n (s + 1) s (by omega)]
        (repeat (first | rw [if_pos (by omega)] | rw [if_neg (by omega)])) <;> first | rfl | omega
      · rw [cut_faceA m y n t s (by omega), cut_faceA m y n (t + 1) s (by omega)]
        by_cases t0 : t = 0
        · omega
        · simp only [fanHa, if_neg t0, if_true, if_false]
          by_cases sp : s + 1 = t
          · subst sp
            (repeat (first | rw [if_pos (by omega)] | rw [if_neg (by omega)])) <;> first | rfl | omega
          · (repeat (first | rw [if_pos (by omega)] | rw [if_neg (by omega)])) <;> first | rfl | omega
  · simp only [fanCutState]
    by_cases h1 : x = m.nE + t
    · (repeat (first | rw [if_pos (by omega)] | rw [if_neg (by omega)])) <;> first | rfl | omega | (congr 1; omega)
    · by_cases h2 : m.nE ≤ x ∧ x < m.nE + t
      · (repeat (first | rw [if_pos (by omega)] | rw [if_neg (by omega)])) <;> first | rfl | omega | (congr 1; omega)
      · (repeat (first | rw [if_pos (by omega)] | rw [if_neg (by omega)])) <;> first | rfl | omega | (congr 1; omega)
  · simp only [fanCutState]
    by_cases h1 : x = m.nF + t
    · (repeat (first | rw [if_pos (by omega)] | rw [if_neg (by omega)])) <;> first | rfl | omega | (congr 1; omega)
    · by_cases h2 : m.nF ≤ x ∧ x < m.nF + t
      · (repeat (first | rw [if_pos (by omega)] | rw [if_neg (by omega)])) <;> first | rfl | omega | (congr 1; omega)
      · (repeat (first | rw [if_pos (by omega)] | rw [if_neg (by omega)])) <;> first | rfl | omega | (congr 1; omega)
  · simp only [fanCutState]
    by_cases h1 : x = m.nF + t
    · (repeat (first | rw [if_pos (by omega)] | rw [if_neg (by omega)])) <;> first | rfl | omega | (congr 1; omega)
    · by_cases h2 : m.nF ≤ x ∧ x < m.nF + t
      · (repeat (first | rw [if_pos (by omega)] | rw [if_neg (by omega)])) <;> first | rfl | omega | (congr 1; omega)
      · (repeat (first | rw [if_pos (by omega)] | rw [if_neg (by omega)])) <;> first | rfl | omega | (congr 1; omega)
  · simp only [fanCutState]
    by_cases h1 : x = m.nE + t
    · (repeat (first | rw [if_pos (by omega)] | rw [if_neg (by omega)])) <;> first | rfl | omega | (congr 1; omega)
    · by_cases h2 : m.nE ≤ x ∧ x < m.nE + t
      · (repeat (first | rw [if_pos (by omega)] | rw [if_neg (by omega)])) <;> first | rfl | omega | (congr 1; omega)
      · (repeat (first | rw [if_pos (by omega)] | rw [if_neg (by omega)])) <;> first | rfl | omega | (congr 1; omega)
  · simp only [fanCutState]
    by_cases h1 : x = m.nF + t
    · (repeat (first | rw [if_pos (by omega)] | rw [if_neg (by omega)])) <;> first | rfl | omega | (congr 1; omega)
    · by_cases h2 : m.nF ≤ x ∧ x < m.nF + t
      · (repeat (first | rw [if_pos (by omega)] | rw [if_neg (by omega)])) <;> first | rfl | omega | (congr 1; omega)
      · (repeat (first | rw [if_pos (by omega)] | rw [if_neg (by omega)])) <;> first | rfl | omega | (congr 1; omega)
  · simp only [fanCutState]
    by_cases h1 : x = m.nH + 2 * t + 1
    · (repeat (first | rw [if_pos (by omega)] | rw [if_neg (by omega)])) <;> first | rfl | omega | (congr 1; omega)
    · by_cases h3 : x = m.nH + 2 * t
      · (repeat (first | rw [if_pos (by omega)] | rw [if_neg (by omega)])) <;> first | rfl | omega | (congr 1; omega)
      · by_cases h2 : m.nH ≤ x ∧ x < m.nH + 2 * t
        · (repeat (first | rw [if_pos (by omega)] | rw [if_neg (by omega)])) <;> first | rfl | omega | (congr 1; omega)
        · (repeat (first | rw [if_pos (by omega)] | rw [if_neg (by omega)])) <;> first | rfl | omega | (congr 1; omega)

theorem fanCutState_zero (m : Mesh) (y n : Nat) : fanCutState m y n 0 = m := by
  refine mesh_ext _ _ rfl rfl rfl rfl ?_ ?_ ?_ ?_ ?_ rfl rfl ?_ ?_ ?_ rfl ?_ ?_ ?_ rfl rfl rfl
  all_goals funext x
  all_goals simp only [fanCutState]
  all_goals (repeat (first | rw [if_neg (by omega)] | rw [if_pos (by omega)]))
  · by_cases h : cycIdx m y n x = 0
    · rw [if_pos h, if_neg (by omega)]
    · rw [if_neg h, if_neg (by omega)]

/-- The `while` loop of `triangulate` on a face of `n` sides, entered after
    `t` rounds. -/
theorem fanCut_spec {m : Mesh} {y n : Nat} (c : FaceCyc m y n) :
    ∀ k fuel t, t + 3 + k = n → k < fuel →
      fanCut (m.fHalfedge y) fuel (fanCutState m y n t) (fanHa m y t) (faceH m y (t + 1))
          (faceH m y (t + 2)) =
        some (fanCutState m y n (n - 3), fanHa m y (n - 3), faceH m y (n - 1)) := by
  intro k
  induction k with
  | zero =>
    intro fuel t ht hf
    obtain ⟨fuel, rfl⟩ : ∃ j, fuel = j + 1 := ⟨fuel - 1, by omega⟩
    have g2 : faceH m y (t + 2) < m.nH := (faceH_live c _).1.1
    have i2 := cycIdx_faceH c (show t + 2 < n by omega)
    have e : (fanCutState m y n t).hNext (faceH m y (t + 2)) = m.fHalfedge y := by
      rw [cut_next_out m y n t _ (Or.inl g2), i2, if_neg (by omega)]
      exact (faceH_step c (show t + 2 < n by omega)).2 (by omega)
    unfold fanCut
    rw [if_pos e, show n - 3 = t by omega, show n - 1 = t + 2 by omega]
  | succ k ih =>
    intro fuel t ht hf
    obtain ⟨fuel, rfl⟩ : ∃ j, fuel = j + 1 := ⟨fuel - 1, by omega⟩
    have g2 : faceH m y (t + 2) < m.nH := (faceH_live c _).1.1
    have i2 := cycIdx_faceH c (show t + 2 < n by omega)
    have e : ¬ (fanCutState m y n t).hNext (faceH m y (t + 2)) = m.fHalfedge y := by
      rw [cut_next_out m y n t _ (Or.inl g2), i2, if_neg (by omega)]
      intro h
      have := (faceH_step c (show t + 2 < n by omega)).1 h
      omega
    have e2 : (fanCutState m y n (t + 1)).hNext (faceH m y (t + 2)) = faceH m y (t + 1 + 2) := by
      rw [cut_next_out m y n (t + 1) _ (Or.inl g2), i2, if_neg (by omega)]
      exact (faceH_succ m y (t + 2)).symm
    have e3 : m.nH + 2 * t + 1 = fanHa m y (t + 1) := by
      simp [fanHa]
    have r := fanRound_spec c t (by omega)
    rw [faceH_zero] at r
    unfold fanCut
    rw [if_neg e]
    simp only [r, e2, e3]
    exact ih fuel (t + 1) (by omega) (by omega)

theorem triangulateFace_closed {m : Mesh} {y n : Nat} (c : FaceCyc m y n) (h3 : 3 ≤ n) :
    triangulateFace m y = some (fanned m y n) := by
  have l := fanCut_spec c (n - 3) m.nH 0 (by omega) (by have := faceH_le c; omega)
  rw [fanCutState_zero] at l
  have e1 : m.hNext (m.fHalfedge y) = faceH m y (0 + 1) := (faceH_succ m y 0).symm
  have e2 : m.hNext (faceH m y (0 + 1)) = faceH m y (0 + 2) := (faceH_succ m y 1).symm
  have e0 : m.fHalfedge y = fanHa m y 0 := rfl
  unfold triangulateFace
  simp only [e1, e2]
  rw [show fanCut (m.fHalfedge y) m.nH m (m.fHalfedge y) (faceH m y (0 + 1)) (faceH m y (0 + 2)) =
    fanCut (m.fHalfedge y) m.nH m (fanHa m y 0) (faceH m y (0 + 1)) (faceH m y (0 + 2)) from rfl, l]
  rfl

theorem fanned_next (m : Mesh) (y n x : Nat) :
    (fanned m y n).hNext x =
      if x = faceH m y (n - 1) then fanHa m y (n - 3) else (fanCutState m y n (n - 3)).hNext x :=
  rfl

theorem fanned_fh (m : Mesh) (y n z : Nat) :
    (fanned m y n).fHalfedge z =
      if z = y then faceH m y (n - 1) else (fanCutState m y n (n - 3)).fHalfedge z :=
  rfl

theorem fanOut_of {m : Mesh} {y n : Nat} (c : FaceCyc m y n) (h3 : 3 ≤ n) :
    FanOut m y n (fanned m y n) := by
  have gl : ∀ i, faceH m y i < m.nH := fun i => (faceH_live c i).1.1
  have gf : ∀ i, m.hFace (faceH m y i) = y := fun i => (faceH_live c i).2
  have outc : ∀ x, (∀ k, k < n → x ≠ faceH m y k) → cycIdx m y n x = n := by
    intro x hx
    have h1 := cycIdx_le m y n x
    by_contra h
    have h2 : cycIdx m y n x < n := by omega
    exact hx _ h2 (cycIdx_lt h2).symm
  have hfl : y < m.nF := c.fl.1
  exact {
    cV := rfl, cE := rfl, cF := rfl, cH := rfl, vhA := rfl, posA := rfl, verA := rfl
    herO := fun x hx => by
      show (fanCutState m y n (n - 3)).hErased x = _
      simp only [fanCutState]; rw [if_neg (by omega)]
    herN := fun x h1 h2 => by
      show (fanCutState m y n (n - 3)).hErased x = _
      simp only [fanCutState]; rw [if_pos (by omega)]
    eerO := fun x hx => by
      show (fanCutState m y n (n - 3)).eErased x = _
      simp only [fanCutState]; rw [if_neg (by omega)]
    eerN := fun s hs => by
      show (fanCutState m y n (n - 3)).eErased _ = _
      simp only [fanCutState]; rw [if_pos (by omega)]
    ferO := fun x hx => by
      show (fanCutState m y n (n - 3)).fErased x = _
      simp only [fanCutState]; rw [if_neg (by omega)]
    ferN := fun s hs => by
      show (fanCutState m y n (n - 3)).fErased _ = _
      simp only [fanCutState]; rw [if_pos (by omega)]
    twO := fun x hx => cut_twin_out m y n _ x (Or.inl hx)
    twC := fun s hs => cut_twinC m y n _ s hs
    twA := fun s hs => cut_twinA m y n _ s hs
    vxO := fun x hx => cut_vertex_out m y n _ x (Or.inl hx)
    vxC := fun s hs => cut_vertexC m y n _ s hs
    vxA := fun s hs => cut_vertexA m y n _ s hs
    edO := fun x hx => cut_edge_out m y n _ x (Or.inl hx)
    edC := fun s hs => cut_edgeC m y n _ s hs
    edA := fun s hs => cut_edgeA m y n _ s hs
    ehO := fun x hx => by
      show (fanCutState m y n (n - 3)).eHalfedge x = _
      simp only [fanCutState]; rw [if_neg (by omega)]
    ehN := fun s hs => by
      show (fanCutState m y n (n - 3)).eHalfedge _ = _
      simp only [fanCutState]; rw [if_pos (by omega)]
      congr 2; omega
    fcO := fun x hx ne => by
      show (fanCutState m y n (n - 3)).hFace x = _
      rw [cut_face_out m y n _ x (Or.inl hx), outc x ne, if_neg (by omega), if_neg (by omega)]
    fcG := fun i hi => by
      show (fanCutState m y n (n - 3)).hFace _ = _
      rw [cut_face_out m y n _ _ (Or.inl (gl i)), cycIdx_faceH c hi, gf i]
    fcC := fun s hs => cut_faceC m y n _ s hs
    fcA := fun s hs => by
      show (fanCutState m y n (n - 3)).hFace _ = _
      rw [cut_faceA m y n _ s hs, gf]
    nxO := fun x hx ne => by
      rw [fanned_next, if_neg (ne _ (by omega)), cut_next_out m y n _ x (Or.inl hx), outc x ne,
        if_neg (by omega)]
    nxG := fun i hi => by
      rw [fanned_next, cut_next_out m y n _ _ (Or.inl (gl i)), cycIdx_faceH c hi]
      by_cases e : i + 1 = n
      · rw [if_pos (by rw [show n - 1 = i by omega]), if_pos e]
      · rw [if_neg (fun h => e (by have := faceH_inj c hi (by omega) h; omega)), if_neg e,
          faceH_succ]
    nxC := fun s hs => by
      rw [fanned_next, if_neg (by have := gl (n - 1); omega)]
      exact cut_nextC m y n _ s hs
    nxA := fun s hs => by
      rw [fanned_next, if_neg (by have := gl (n - 1); omega)]
      exact cut_nextA m y n _ s hs
    fhY := by rw [fanned_fh, if_pos rfl]
    fhO := fun z hz ne => by
      rw [fanned_fh, if_neg ne]
      simp only [fanCutState]; rw [if_neg (by omega)]
    fhN := fun s hs => by
      rw [fanned_fh, if_neg (by omega)]
      simp only [fanCutState]; rw [if_pos (by omega)]
      congr 1; omega }

theorem fanOut_live_old {m M : Mesh} {y n : Nat} (o : FanOut m y n M) {x : Nat}
    (hl : hLive m x) : hLive M x :=
  ⟨by rw [o.cH]; have := hl.1; omega, by rw [o.herO x hl.1]; exact hl.2⟩

theorem fanOut_live_new {m M : Mesh} {y n : Nat} (o : FanOut m y n M) {x : Nat}
    (h1 : m.nH ≤ x) (h2 : x < m.nH + 2 * (n - 3)) : hLive M x :=
  ⟨by rw [o.cH]; exact h2, o.herN x h1 h2⟩

theorem fanOut_live_cases {m M : Mesh} {y n : Nat} (o : FanOut m y n M) {x : Nat}
    (hl : hLive M x) :
    hLive m x ∨ ∃ s, s < n - 3 ∧ (x = m.nH + 2 * s ∨ x = m.nH + 2 * s + 1) := by
  have h1 := hl.1
  rw [o.cH] at h1
  rcases pair_cases m.nH (n - 3) x with h | h | h
  · exact Or.inl ⟨h, by rw [← o.herO x h]; exact hl.2⟩
  · omega
  · exact Or.inr h

theorem fanOut_vlive {m M : Mesh} {y n : Nat} (o : FanOut m y n M) {v : Nat}
    (hl : vLive m v) : vLive M v :=
  ⟨by rw [o.cV]; exact hl.1, by rw [o.verA]; exact hl.2⟩

theorem fanOut_elive_old {m M : Mesh} {y n : Nat} (o : FanOut m y n M) {e : Nat}
    (hl : eLive m e) : eLive M e :=
  ⟨by rw [o.cE]; have := hl.1; omega, by rw [o.eerO e hl.1]; exact hl.2⟩

theorem fanOut_elive_new {m M : Mesh} {y n : Nat} (o : FanOut m y n M) {s : Nat}
    (hs : s < n - 3) : eLive M (m.nE + s) :=
  ⟨by rw [o.cE]; omega, o.eerN s hs⟩

theorem fanOut_flive_old {m M : Mesh} {y n : Nat} (o : FanOut m y n M) {z : Nat}
    (hl : fLive m z) : fLive M z :=
  ⟨by rw [o.cF]; have := hl.1; omega, by rw [o.ferO z hl.1]; exact hl.2⟩

theorem fanOut_flive_new {m M : Mesh} {y n : Nat} (o : FanOut m y n M) {s : Nat}
    (hs : s < n - 3) : fLive M (m.nF + s) :=
  ⟨by rw [o.cF]; omega, o.ferN s hs⟩

theorem fanOut_twinOK {m M : Mesh} {y n : Nat} (c : FaceCyc m y n)
    (o : FanOut m y n M) : TwinOK M := by
  intro h hlt her
  rcases fanOut_live_cases o ⟨hlt, her⟩ with hl | ⟨s, hs, rfl | rfl⟩
  · obtain ⟨tl, tne, tt⟩ := c.wf.1 h hl.1 hl.2
    rw [o.twO h hl.1]
    exact ⟨fanOut_live_old o tl, tne, by rw [o.twO _ tl.1]; exact tt⟩
  · rw [o.twC s hs]
    exact ⟨fanOut_live_new o (by omega) (by omega), by omega, o.twA s hs⟩
  · rw [o.twA s hs]
    exact ⟨fanOut_live_new o (by omega) (by omega), by omega, o.twC s hs⟩

theorem fanOut_edge_new {m M : Mesh} {y n : Nat} (o : FanOut m y n M) {x : Nat}
    (h1 : m.nH ≤ x) (h2 : x < m.nH + 2 * (n - 3)) :
    M.hEdge x = m.nE + (x - m.nH) / 2 ∧
      M.hTwin x = (if (x - m.nH) % 2 = 0 then x + 1 else x - 1) := by
  rcases pair_cases m.nH (n - 3) x with h | h | ⟨s, hs, rfl | rfl⟩
  · omega
  · omega
  · rw [o.edC s hs, o.twC s hs, if_pos (by omega)]; exact ⟨by omega, rfl⟩
  · rw [o.edA s hs, o.twA s hs, if_neg (by omega)]; exact ⟨by omega, by omega⟩

theorem fanOut_edgeOK {m M : Mesh} {y n : Nat} (c : FaceCyc m y n)
    (o : FanOut m y n M) : EdgeOK M := by
  constructor
  · intro h hlt her
    rcases fanOut_live_cases o ⟨hlt, her⟩ with hl | hnew
    · obtain ⟨el, et, ep⟩ := c.wf.2.2.1.1 h hl.1 hl.2
      obtain ⟨tl, -, -⟩ := c.wf.1 h hl.1 hl.2
      refine ⟨by rw [o.edO h hl.1]; exact fanOut_elive_old o el, ?_, ?_⟩
      · rw [o.twO h hl.1, o.edO _ tl.1, o.edO h hl.1]; exact et
      · intro h' hlt' her' he
        rw [o.edO h hl.1] at he
        rw [o.twO h hl.1]
        rcases fanOut_live_cases o ⟨hlt', her'⟩ with hl' | hnew'
        · rw [o.edO h' hl'.1] at he
          exact ep h' hl'.1 hl'.2 he
        · have b1 : m.nH ≤ h' := by
            obtain ⟨i, hi, r | r⟩ := hnew' <;> omega
          have b2 : h' < m.nH + 2 * (n - 3) := by
            obtain ⟨i, hi, r | r⟩ := hnew' <;> omega
          have := (fanOut_edge_new o b1 b2).1
          have := el.1
          omega
    · have b1 : m.nH ≤ h := by
        obtain ⟨i, hi, r | r⟩ := hnew <;> omega
      have b2 : h < m.nH + 2 * (n - 3) := by
        obtain ⟨i, hi, r | r⟩ := hnew <;> omega
      obtain ⟨e1, e2⟩ := fanOut_edge_new o b1 b2
      have tb1 : m.nH ≤ M.hTwin h := by rw [e2]; split_ifs <;> omega
      have tb2 : M.hTwin h < m.nH + 2 * (n - 3) := by rw [e2]; split_ifs <;> omega
      refine ⟨by
        rw [e1, show m.nE + (h - m.nH) / 2 = m.nE + ((h - m.nH) / 2) from rfl]
        exact fanOut_elive_new o (by omega), ?_, ?_⟩
      · rw [(fanOut_edge_new o tb1 tb2).1, e1, e2]
        split_ifs <;> omega
      · intro h' hlt' her' he
        rw [e1] at he
        rcases fanOut_live_cases o ⟨hlt', her'⟩ with hl' | hnew'
        · rw [o.edO h' hl'.1] at he
          have := (c.wf.2.2.1.1 h' hl'.1 hl'.2).1.1
          omega
        · have b1' : m.nH ≤ h' := by
            obtain ⟨i, hi, r | r⟩ := hnew' <;> omega
          have b2' : h' < m.nH + 2 * (n - 3) := by
            obtain ⟨i, hi, r | r⟩ := hnew' <;> omega
          rw [(fanOut_edge_new o b1' b2').1] at he
          rw [e2]
          split_ifs <;> omega
  · intro e hlt her
    rw [o.cE] at hlt
    by_cases he : e < m.nE
    · rw [o.eerO e he] at her
      obtain ⟨hl, ee⟩ := c.wf.2.2.1.2 e he her
      rw [o.ehO e he]
      exact ⟨fanOut_live_old o hl, by rw [o.edO _ hl.1]; exact ee⟩
    · have ee : e = m.nE + (e - m.nE) := by omega
      rw [ee, o.ehN _ (by omega)]
      exact ⟨fanOut_live_new o (by omega) (by omega), o.edC _ (by omega)⟩

theorem fanHa_facts {m M : Mesh} {y n : Nat} (c : FaceCyc m y n) (h3 : 3 ≤ n)
    (o : FanOut m y n M) {s : Nat} (hs : s ≤ n - 3) :
    hLive M (fanHa m y s) ∧ M.hVertex (fanHa m y s) = m.hVertex (faceH m y 0) ∧
      M.hNext (fanHa m y s) = faceH m y (s + 1) ∧
      M.hFace (fanHa m y s) = (if s < n - 3 then m.nF + s else y) := by
  by_cases s0 : s = 0
  · subst s0
    have gl := (faceH_live c 0).1
    simp only [fanHa, if_true]
    refine ⟨fanOut_live_old o gl, o.vxO _ gl.1, ?_, ?_⟩
    · rw [o.nxG 0 (by omega), if_neg (by omega), if_neg (by omega)]
    · rw [o.fcG 0 (by omega), if_pos rfl]
      split_ifs <;> first | rfl | omega
  · simp only [fanHa, if_neg s0]
    have hs1 : s - 1 < n - 3 := by omega
    refine ⟨fanOut_live_new o (by omega) (by omega), o.vxA _ hs1, ?_, ?_⟩
    · rw [o.nxA _ hs1, show s - 1 + 2 = s + 1 by omega]
    · rw [o.fcA _ hs1, show s - 1 + 1 = s by omega]

/-- The triangle that round `s` of the loop of `triangulate` cuts off, and for
    `s = n - 3` the triangle that is left of the face. -/
theorem fanOut_tri {m M : Mesh} {y n : Nat} (c : FaceCyc m y n) (h3 : 3 ≤ n)
    (o : FanOut m y n M) {s : Nat} (hs : s ≤ n - 3) :
    M.hNext (fanHa m y s) = faceH m y (s + 1) ∧
    M.hNext (faceH m y (s + 1)) = (if s < n - 3 then m.nH + 2 * s else faceH m y (s + 2)) ∧
    M.hNext (if s < n - 3 then m.nH + 2 * s else faceH m y (s + 2)) = fanHa m y s ∧
    M.hFace (fanHa m y s) = (if s < n - 3 then m.nF + s else y) ∧
    M.hFace (faceH m y (s + 1)) = (if s < n - 3 then m.nF + s else y) ∧
    M.hFace (if s < n - 3 then m.nH + 2 * s else faceH m y (s + 2)) =
      (if s < n - 3 then m.nF + s else y) ∧
    hLive M (fanHa m y s) ∧ hLive M (faceH m y (s + 1)) ∧
    hLive M (if s < n - 3 then m.nH + 2 * s else faceH m y (s + 2)) ∧
    fLive M (if s < n - 3 then m.nF + s else y) := by
  obtain ⟨a1, a2, a3, a4⟩ := fanHa_facts c h3 o hs
  have gl : ∀ i, hLive m (faceH m y i) := fun i => (faceH_live c i).1
  by_cases e : s < n - 3
  · simp only [if_pos e] at a4 ⊢
    refine ⟨a3, ?_, o.nxC s e, a4, ?_, o.fcC s e, a1, fanOut_live_old o (gl _),
      fanOut_live_new o (by omega) (by omega), fanOut_flive_new o e⟩
    · rw [o.nxG _ (by omega), if_neg (by omega), if_pos (by omega)]
      rfl
    · rw [o.fcG _ (by omega), if_neg (by omega), if_pos (by omega)]
      rfl
  · simp only [if_neg e] at a4 ⊢
    have sk : s = n - 3 := by omega
    refine ⟨a3, ?_, ?_, a4, ?_, ?_, a1, fanOut_live_old o (gl _), fanOut_live_old o (gl _),
      fanOut_flive_old o c.fl⟩
    · rw [o.nxG _ (by omega), if_neg (by omega), if_neg (by omega)]
    · rw [o.nxG _ (by omega), if_pos (by omega), sk]
    · rw [o.fcG _ (by omega), if_neg (by omega), if_neg (by omega)]
    · rw [o.fcG _ (by omega), if_neg (by omega), if_neg (by omega)]

theorem fanOut_vertexOK {m M : Mesh} {y n : Nat} (c : FaceCyc m y n) (h3 : 3 ≤ n)
    (o : FanOut m y n M) : VertexOK M := by
  have gl : ∀ i, hLive m (faceH m y i) := fun i => (faceH_live c i).1
  refine ⟨?_, ?_, ?_⟩
  · intro h hlt her
    rcases fanOut_live_cases o ⟨hlt, her⟩ with hl | ⟨s, hs, rfl | rfl⟩
    · rw [o.vxO h hl.1]
      exact fanOut_vlive o (c.wf.2.2.2.1 h hl.1 hl.2)
    · rw [o.vxC s hs]
      exact fanOut_vlive o (c.wf.2.2.2.1 _ (gl _).1 (gl _).2)
    · rw [o.vxA s hs]
      exact fanOut_vlive o (c.wf.2.2.2.1 _ (gl _).1 (gl _).2)
  · intro v hlt her
    rw [o.cV] at hlt
    rw [o.verA] at her
    obtain ⟨hl, ee⟩ := c.wf.2.2.2.2.1 v hlt her
    rw [o.vhA]
    exact ⟨fanOut_live_old o hl, by rw [o.vxO _ hl.1]; exact ee⟩
  · intro h hlt her
    rcases fanOut_live_cases o ⟨hlt, her⟩ with hl | ⟨s, hs, rfl | rfl⟩
    · obtain ⟨tl, -, -⟩ := c.wf.1 h hl.1 hl.2
      have ori := c.wf.2.2.2.2.2 h hl.1 hl.2
      rw [o.twO h hl.1, o.vxO _ tl.1, ← ori]
      by_cases ex : ∃ k, k < n ∧ h = faceH m y k
      · obtain ⟨i, hi, rfl⟩ := ex
        rw [o.nxG i hi]
        by_cases e1 : i + 1 = n
        · rw [if_pos e1, (fanHa_facts c h3 o (le_refl _)).2.1, (faceH_step c hi).2 e1]
          rfl
        · rw [if_neg e1]
          by_cases e2 : 1 ≤ i ∧ i ≤ n - 3
          · rw [if_pos e2, o.vxC _ (by omega), ← faceH_succ]
            congr 2
            omega
          · rw [if_neg e2, o.vxO _ (gl _).1, faceH_succ]
      · have ne : ∀ k, k < n → h ≠ faceH m y k := fun k hk e => ex ⟨k, hk, e⟩
        rw [o.nxO h hl.1 ne, o.vxO _ (c.wf.2.1.1 h hl.1 hl.2).1.1]
    · rw [o.nxC s hs, o.twC s hs, o.vxA s hs, (fanHa_facts c h3 o (by omega)).2.1]
    · rw [o.nxA s hs, o.twA s hs, o.vxC s hs, o.vxO _ (gl _).1]

/-- Every half-edge of a triangle of the fan satisfies the face clause. -/
theorem fanOut_tri_ok {m M : Mesh} {y n : Nat} (c : FaceCyc m y n) (h3 : 3 ≤ n)
    (o : FanOut m y n M) {s : Nat} (hs : s ≤ n - 3) (h : Nat)
    (hh : h = fanHa m y s ∨ h = faceH m y (s + 1) ∨
      h = (if s < n - 3 then m.nH + 2 * s else faceH m y (s + 2))) :
    hLive M (M.hNext h) ∧ fLive M (M.hFace h) ∧ M.hFace (M.hNext h) = M.hFace h ∧
      ∃ k, k < M.nH ∧ M.hNext^[k + 1] h = h := by
  obtain ⟨n1, n2, n3, f1, f2, f3, l1, l2, l3, fl⟩ := fanOut_tri c h3 o hs
  have hb : 2 < M.nH := by
    rw [o.cH]
    have := faceH_le c
    omega
  rcases hh with rfl | rfl | rfl
  · refine ⟨by rw [n1]; exact l2, by rw [f1]; exact fl, by rw [n1, f2, f1], 2, hb, ?_⟩
    show M.hNext (M.hNext (M.hNext _)) = _
    rw [n1, n2, n3]
  · refine ⟨by rw [n2]; exact l3, by rw [f2]; exact fl, by rw [n2, f3, f2], 2, hb, ?_⟩
    show M.hNext (M.hNext (M.hNext _)) = _
    rw [n2, n3, n1]
  · refine ⟨by rw [n3]; exact l1, by rw [f3]; exact fl, by rw [n3, f1, f3], 2, hb, ?_⟩
    show M.hNext (M.hNext (M.hNext _)) = _
    rw [n3, n1, n2]

theorem fanOut_faceOK {m M : Mesh} {y n : Nat} (c : FaceCyc m y n) (h3 : 3 ≤ n)
    (o : FanOut m y n M) : FaceOK M := by
  have gl : ∀ i, hLive m (faceH m y i) := fun i => (faceH_live c i).1
  constructor
  · intro h hlt her
    rcases fanOut_live_cases o ⟨hlt, her⟩ with hl | ⟨s, hs, rfl | rfl⟩
    · by_cases ex : ∃ k, k < n ∧ h = faceH m y k
      · obtain ⟨i, hi, rfl⟩ := ex
        by_cases i0 : i = 0
        · subst i0
          exact fanOut_tri_ok c h3 o (Nat.zero_le _) _ (Or.inl rfl)
        · by_cases il : i + 1 = n
          · refine fanOut_tri_ok c h3 o (le_refl (n - 3)) _ (Or.inr (Or.inr ?_))
            rw [if_neg (by omega)]
            congr 1
            omega
          · refine fanOut_tri_ok c h3 o (show i - 1 ≤ n - 3 by omega) _ (Or.inr (Or.inl ?_))
            congr 1
            omega
      · have ne : ∀ k, k < n → h ≠ faceH m y k := fun k hk e => ex ⟨k, hk, e⟩
        obtain ⟨nl, fl, fe, k, hk, ck⟩ := c.wf.2.1.1 h hl.1 hl.2
        have ne' : ∀ k, k < n → m.hNext h ≠ faceH m y k := by
          intro k hk e
          exact ex (faceH_back c hl hk e)
        refine ⟨by rw [o.nxO h hl.1 ne]; exact fanOut_live_old o nl,
          by rw [o.fcO h hl.1 ne]; exact fanOut_flive_old o fl, ?_, k,
          by rw [o.cH]; omega, ?_⟩
        · rw [o.nxO h hl.1 ne, o.fcO _ nl.1 ne', o.fcO h hl.1 ne]; exact fe
        · have := iterate_live_outside m M (fun x => ∃ k, k < n ∧ x = faceH m y k) (hLive m)
            (fun x ⟨k, hk, e⟩ => ⟨ringNext n k, ringNext_lt hk, by
              rw [faceH_ring c hk, e]⟩)
            (fun x hx => (c.wf.2.1.1 x hx.1 hx.2).1)
            (fun x hx nS => o.nxO x hx.1 (fun k hk e => nS ⟨k, hk, e⟩))
            h (k + 1) ck ex hl (k + 1) (le_refl _)
          rw [this.1]
          exact ck
    · refine fanOut_tri_ok c h3 o (show s ≤ n - 3 by omega) _ (Or.inr (Or.inr ?_))
      rw [if_pos hs]
    · refine fanOut_tri_ok c h3 o (show s + 1 ≤ n - 3 by omega) _ (Or.inl ?_)
      simp [fanHa]
  · intro z hlt her
    rw [o.cF] at hlt
    by_cases hz : z < m.nF
    · rw [o.ferO z hz] at her
      by_cases zy : z = y
      · subst zy
        rw [o.fhY]
        refine ⟨fanOut_live_old o (gl _), ?_⟩
        rw [o.fcG _ (by omega), if_neg (by omega), if_neg (by omega)]
      · obtain ⟨hl, fe⟩ := c.wf.2.1.2 z hz her
        rw [o.fhO z hz zy]
        refine ⟨fanOut_live_old o hl, ?_⟩
        rw [o.fcO _ hl.1 (fun k hk e => zy (by rw [← fe, e]; exact (faceH_live c k).2))]
        exact fe
    · have ee : z = m.nF + (z - m.nF) := by omega
      have hk : z - m.nF < n - 3 := by omega
      rw [ee, o.fhN _ hk]
      refine ⟨fanOut_live_old o (gl _), ?_⟩
      rw [o.fcG _ (by omega), if_neg (by omega), if_pos (by omega)]
      rfl

/-- The mesh that the body of the `for` loop of `triangulate` leaves is
    well-formed. -/
theorem fanOut_wf {m M : Mesh} {y n : Nat} (c : FaceCyc m y n) (h3 : 3 ≤ n)
    (o : FanOut m y n M) : WellFormed M :=
  ⟨fanOut_twinOK c o, fanOut_faceOK c h3 o, fanOut_edgeOK c o, fanOut_vertexOK c h3 o⟩

theorem cycleFrom_three (M : Mesh) (w x y fuel : Nat) (h1 : M.hNext w = x)
    (h2 : M.hNext x = y) (h3 : M.hNext y = w) (n1 : x ≠ w) (n2 : y ≠ w)
    (hf : 3 ≤ fuel) : cycleFrom M w fuel w = [w, x, y] := by
  obtain ⟨k, rfl⟩ : ∃ k, fuel = k + 3 := ⟨fuel - 3, by omega⟩
  simp [cycleFrom, h1, h2, h3, n1, n2]

/-- A face other than `y` keeps its half-edge cycle when the loop of
    `triangulate` has run on `y`. -/
theorem fanOut_frame {m M : Mesh} {y n : Nat} (c : FaceCyc m y n) (h3 : 3 ≤ n)
    (o : FanOut m y n M) {z nz : Nat} (cz : FaceCyc m z nz) (zy : z ≠ y) :
    FaceCyc M z nz ∧ (∀ i, faceH M z i = faceH m z i) ∧ faceVertices M z = faceVertices m z := by
  have out : ∀ i k, k < n → faceH m z i ≠ faceH m y k := by
    intro i k hk e
    apply zy
    rw [← (faceH_live cz i).2, e]
    exact (faceH_live c k).2
  have eq : ∀ i, faceH M z i = faceH m z i := by
    intro i
    induction i with
    | zero => exact o.fhO z cz.fl.1 zy
    | succ i ih =>
      rw [faceH_succ, faceH_succ, ih]
      exact o.nxO _ (faceH_live cz i).1.1 (out i)
  have cM : FaceCyc M z nz :=
    ⟨fanOut_wf c h3 o, fanOut_flive_old o cz.fl, cz.pos, by rw [eq, eq]; exact cz.per,
      fun i i0 il => by rw [eq, eq]; exact cz.min i i0 il⟩
  refine ⟨cM, eq, ?_⟩
  rw [faceVertices_eq cM, faceVertices_eq cz]
  apply List.map_congr_left
  intro i _
  rw [eq, o.vxO _ (faceH_live cz i).1.1]

theorem fanOut_new_face {m M : Mesh} {y n : Nat} (c : FaceCyc m y n) (h3 : 3 ≤ n)
    (o : FanOut m y n M) {s : Nat} (hs : s < n - 3) :
    faceVertices M (m.nF + s) =
      [m.hVertex (faceH m y (s + 1)), m.hVertex (faceH m y (s + 2)), m.hVertex (faceH m y 0)] := by
  obtain ⟨n1, n2, n3, -⟩ := fanOut_tri c h3 o (show s ≤ n - 3 by omega)
  rw [if_pos hs] at n2 n3
  have gl : ∀ i, faceH m y i < m.nH := fun i => (faceH_live c i).1.1
  have hb : 3 ≤ M.nH := by
    rw [o.cH]
    have := faceH_le c
    omega
  have na : fanHa m y s ≠ faceH m y (s + 1) := by
    unfold fanHa
    split_ifs with s0
    · intro h
      have := faceH_inj c (by omega) (by omega) h
      omega
    · have := gl (s + 1)
      omega
  unfold faceVertices faceHalfedges
  rw [o.fhN s hs, cycleFrom_three M _ _ _ _ n2 n3 n1 (by have := gl (s + 1); omega) na hb]
  simp only [List.map_cons, List.map_nil]
  rw [o.vxO _ (gl _), o.vxC s hs, (fanHa_facts c h3 o (show s ≤ n - 3 by omega)).2.1]

theorem fanOut_old_face {m M : Mesh} {y n : Nat} (c : FaceCyc m y n) (h3 : 3 ≤ n)
    (o : FanOut m y n M) :
    faceVertices M y =
      [m.hVertex (faceH m y (n - 1)), m.hVertex (faceH m y 0), m.hVertex (faceH m y (n - 2))] := by
  obtain ⟨n1, n2, n3, -⟩ := fanOut_tri c h3 o (le_refl (n - 3))
  rw [if_neg (by omega)] at n2 n3
  rw [show n - 3 + 1 = n - 2 by omega] at n1 n2
  rw [show n - 3 + 2 = n - 1 by omega] at n2 n3
  have gl : ∀ i, faceH m y i < m.nH := fun i => (faceH_live c i).1.1
  have hb : 3 ≤ M.nH := by
    rw [o.cH]
    have := faceH_le c
    omega
  have na : fanHa m y (n - 3) ≠ faceH m y (n - 1) := by
    unfold fanHa
    split_ifs with s0
    · intro h
      have := faceH_inj c (by omega) (by omega) h
      omega
    · have := gl (n - 1)
      omega
  have nb : faceH m y (n - 2) ≠ faceH m y (n - 1) := by
    intro h
    have := faceH_inj c (by omega) (by omega) h
    omega
  unfold faceVertices faceHalfedges
  rw [o.fhY, cycleFrom_three M _ _ _ _ n3 n1 n2 na nb hb]
  simp only [List.map_cons, List.map_nil]
  rw [o.vxO _ (gl _), o.vxO _ (gl _), (fanHa_facts c h3 o (le_refl _)).2.1]

/-- The body of the `for` loop of `triangulate` on a face `y` of `n >= 3`
    sides of a well-formed mesh. -/
theorem triangulateFace_spec {m : Mesh} {y n : Nat} (c : FaceCyc m y n) (h3 : 3 ≤ n) :
    ∃ M, triangulateFace m y = some M ∧ WellFormed M ∧ M.nV = m.nV ∧ M.vPos = m.vPos ∧
      M.nE = m.nE + (n - 3) ∧ M.nH = m.nH + 2 * (n - 3) ∧ M.nF = m.nF + (n - 3) ∧
      (∀ z, z < m.nF → M.fErased z = m.fErased z) ∧
      (∀ s, s < n - 3 → M.fErased (m.nF + s) = false) ∧
      (∀ z, z < m.nF → z ≠ y → m.fErased z = false → faceVertices M z = faceVertices m z) ∧
      (∀ s, s < n - 3 → faceVertices M (m.nF + s) =
        [m.hVertex (faceH m y (s + 1)), m.hVertex (faceH m y (s + 2)),
          m.hVertex (faceH m y 0)]) ∧
      faceVertices M y =
        [m.hVertex (faceH m y (n - 1)), m.hVertex (faceH m y 0),
          m.hVertex (faceH m y (n - 2))] := by
  have o := fanOut_of c h3
  refine ⟨fanned m y n, triangulateFace_closed c h3, fanOut_wf c h3 o, o.cV, o.posA, o.cE, o.cH,
    o.cF, o.ferO, o.ferN, ?_, fun s hs => fanOut_new_face c h3 o hs, fanOut_old_face c h3 o⟩
  intro z hz zy hl
  obtain ⟨nz, cz⟩ := faceCyc_exists m c.wf z ⟨hz, hl⟩
  exact (fanOut_frame c h3 o cz zy).2.2

theorem cutsBefore_succ (m : Mesh) (j : Nat) :
    cutsBefore m (j + 1) = cutsBefore m j + ((faceVertices m j).length - 3) := by
  simp [cutsBefore, List.range_succ]

theorem cutsBefore_mono (m : Mesh) {i j : Nat} (h : i ≤ j) : cutsBefore m i ≤ cutsBefore m j := by
  induction j with
  | zero =>
    have : i = 0 := by omega
    subst this
    exact le_refl _
  | succ j ih =>
    by_cases e : i = j + 1
    · subst e; exact le_refl _
    · have := ih (by omega)
      rw [cutsBefore_succ]
      omega

theorem cuts_decomp (m : Mesh) : ∀ j c, c < cutsBefore m j →
    ∃ y, y < j ∧ ∃ s, s < (faceVertices m y).length - 3 ∧ c = cutsBefore m y + s := by
  intro j
  induction j with
  | zero => intro c h; simp [cutsBefore] at h
  | succ j ih =>
    intro c h
    rw [cutsBefore_succ] at h
    by_cases hc : c < cutsBefore m j
    · obtain ⟨y, hy, s, hs, e⟩ := ih c hc
      exact ⟨y, by omega, s, hs, e⟩
    · exact ⟨j, by omega, c - cutsBefore m j, by omega, by omega⟩

theorem faceCyc_length {m : Mesh} {y n : Nat} (c : FaceCyc m y n) :
    (faceVertices m y).length = n ∧
      ∀ i, i < n → (faceVertices m y).getD i 0 = m.hVertex (faceH m y i) := by
  refine ⟨by rw [faceVertices_eq c]; simp, fun i hi => (faceVertices_getD c hi).1⟩

/-- One round of the `for` loop of `triangulate` on a face present at entry. -/
theorem triangulate_step (m : Mesh) (h3 : ∀ y, y < m.nF → 3 ≤ (faceVertices m y).length)
    (j : Nat) (hj : j < m.nF) (M : Mesh)
    (P : WellFormed M ∧ M.nV = m.nV ∧ M.vPos = m.vPos ∧ M.nE = m.nE + cutsBefore m j ∧
      M.nH = m.nH + 2 * cutsBefore m j ∧ M.nF = m.nF + cutsBefore m j ∧
      (∀ z, z < M.nF → M.fErased z = false) ∧
      (∀ z, j ≤ z → z < m.nF → faceVertices M z = faceVertices m z) ∧
      (∀ z, z < j → FanDesc m M z)) :
    ∃ M', triangulateFace M j = some M' ∧
      WellFormed M' ∧ M'.nV = m.nV ∧ M'.vPos = m.vPos ∧ M'.nE = m.nE + cutsBefore m (j + 1) ∧
      M'.nH = m.nH + 2 * cutsBefore m (j + 1) ∧ M'.nF = m.nF + cutsBefore m (j + 1) ∧
      (∀ z, z < M'.nF → M'.fErased z = false) ∧
      (∀ z, j + 1 ≤ z → z < m.nF → faceVertices M' z = faceVertices m z) ∧
      (∀ z, z < j + 1 → FanDesc m M' z) := by
  obtain ⟨wf, pV, pP, pE, pH, pF, pL, pK, pD⟩ := P
  have jM : j < M.nF := by omega
  obtain ⟨n, c⟩ := faceCyc_exists M wf j ⟨jM, pL j jM⟩
  obtain ⟨ln, gd⟩ := faceCyc_length c
  have eL := pK j (le_refl _) hj
  rw [eL] at ln gd
  have hn : 3 ≤ n := by rw [← ln]; exact h3 j hj
  obtain ⟨M', e, wf', qV, qP, qE, qH, qF, qO, qN, qK, qS, qY⟩ := triangulateFace_spec c hn
  have cs := cutsBefore_succ m j
  rw [ln] at cs
  refine ⟨M', e, wf', by rw [qV, pV], by rw [qP, pP], by rw [qE, pE, cs]; omega,
    by rw [qH, pH, cs]; omega, by rw [qF, pF, cs]; omega, ?_, ?_, ?_⟩
  · intro z hz
    rw [qF] at hz
    by_cases h : z < M.nF
    · rw [qO z h]; exact pL z h
    · have := qN (z - M.nF) (by omega)
      rw [show M.nF + (z - M.nF) = z by omega] at this
      exact this
  · intro z h1 h2
    rw [qK z (by omega) (by omega) (pL z (by omega))]
    exact pK z (by omega) h2
  · intro z hz
    by_cases zj : z = j
    · subst zj
      unfold FanDesc
      rw [ln]
      constructor
      · rw [qY, gd 0 (by omega), gd (n - 2) (by omega), gd (n - 1) (by omega)]
        exact ⟨2, rfl⟩
      · intro s hs
        rw [← pF, qS s hs, gd 0 (by omega), gd (s + 1) (by omega), gd (s + 2) (by omega)]
        exact ⟨1, rfl⟩
    · obtain ⟨d1, d2⟩ := pD z (by omega)
      have mono := cutsBefore_mono m (show z + 1 ≤ j by omega)
      rw [cutsBefore_succ] at mono
      constructor
      · rw [qK z (by omega) (by omega) (pL z (by omega))]
        exact d1
      · intro s hs
        rw [qK _ (by omega) (by omega) (pL _ (by omega))]
        exact d2 s hs

/-- The `for` loop of `triangulate` over the faces present at entry, entered
    at face `j`. -/
theorem triangulateFaces_spec (m : Mesh)
    (h3 : ∀ y, y < m.nF → 3 ≤ (faceVertices m y).length) :
    ∀ k j M, j + k = m.nF →
      (WellFormed M ∧ M.nV = m.nV ∧ M.vPos = m.vPos ∧ M.nE = m.nE + cutsBefore m j ∧
        M.nH = m.nH + 2 * cutsBefore m j ∧ M.nF = m.nF + cutsBefore m j ∧
        (∀ z, z < M.nF → M.fErased z = false) ∧
        (∀ z, j ≤ z → z < m.nF → faceVertices M z = faceVertices m z) ∧
        (∀ z, z < j → FanDesc m M z)) →
      ∃ M', triangulateFaces (List.range' j k) M = some M' ∧
        WellFormed M' ∧ M'.nV = m.nV ∧ M'.vPos = m.vPos ∧ M'.nE = m.nE + cutsBefore m m.nF ∧
        M'.nH = m.nH + 2 * cutsBefore m m.nF ∧ M'.nF = m.nF + cutsBefore m m.nF ∧
        (∀ z, z < M'.nF → M'.fErased z = false) ∧
        (∀ z, z < m.nF → FanDesc m M' z) := by
  intro k
  induction k with
  | zero =>
    intro j M hj P
    simp only [Nat.add_zero] at hj
    subst hj
    obtain ⟨wf, pV, pP, pE, pH, pF, pL, pK, pD⟩ := P
    exact ⟨M, rfl, wf, pV, pP, pE, pH, pF, pL, pD⟩
  | succ k ih =>
    intro j M hj P
    obtain ⟨M', e, P'⟩ := triangulate_step m h3 j (by omega) M P
    obtain ⟨M'', e', Q⟩ := ih (j + 1) M' (by omega) P'
    refine ⟨M'', ?_, Q⟩
    rw [List.range'_succ]
    unfold triangulateFaces
    simp only [e]
    exact e'

theorem fanDesc_lengths (m M : Mesh) (hF : M.nF = m.nF + cutsBefore m m.nF)
    (D : ∀ y, y < m.nF → FanDesc m M y) : ∀ z, z < M.nF → (faceVertices M z).length = 3 := by
  intro z hz
  by_cases h : z < m.nF
  · exact ((D z h).1.perm.length_eq).symm
  · obtain ⟨y, hy, s, hs, e⟩ := cuts_decomp m m.nF (z - m.nF) (by omega)
    have := ((D y hy).2 s hs).perm.length_eq
    rw [show m.nF + cutsBefore m y + s = z by omega] at this
    exact this.symm

/-- One round of the `for` loop of `triangulate` on a face that is a triangle
    already: only the stored half-edge of the face moves. -/
theorem triangulate_revisit (m M : Mesh) (z : Nat) (hz : z < M.nF)
    (Q : WellFormed M ∧ M.nV = m.nV ∧ M.vPos = m.vPos ∧ M.nE = m.nE + cutsBefore m m.nF ∧
      M.nH = m.nH + 2 * cutsBefore m m.nF ∧ M.nF = m.nF + cutsBefore m m.nF ∧
      (∀ z, z < M.nF → M.fErased z = false ∧ (faceVertices M z).length = 3) ∧
      (∀ y, y < m.nF → FanDesc m M y)) :
    ∃ M', triangulateFace M z = some M' ∧
      WellFormed M' ∧ M'.nV = m.nV ∧ M'.vPos = m.vPos ∧ M'.nE = m.nE + cutsBefore m m.nF ∧
      M'.nH = m.nH + 2 * cutsBefore m m.nF ∧ M'.nF = m.nF + cutsBefore m m.nF ∧
      (∀ z, z < M'.nF → M'.fErased z = false ∧ (faceVertices M' z).length = 3) ∧
      (∀ y, y < m.nF → FanDesc m M' y) := by
  obtain ⟨wf, pV, pP, pE, pH, pF, pL, pD⟩ := Q
  obtain ⟨n, c⟩ := faceCyc_exists M wf z ⟨hz, (pL z hz).1⟩
  obtain ⟨ln, gd⟩ := faceCyc_length c
  have n3 : n = 3 := by rw [← ln]; exact (pL z hz).2
  subst n3
  obtain ⟨M', e, wf', qV, qP, qE, qH, qF, qO, qN, qK, qS, qY⟩ :=
    triangulateFace_spec c (le_refl 3)
  simp only [Nat.sub_self, Nat.mul_zero, Nat.add_zero] at qE qH qF
  have rot : ∀ z', z' < M.nF → List.IsRotated (faceVertices M z') (faceVertices M' z') := by
    intro z' hz'
    by_cases e : z' = z
    · subst e
      rw [qY, faceVertices_eq c]
      exact ⟨2, rfl⟩
    · rw [qK z' hz' e (pL z' hz').1]
  refine ⟨M', e, wf', by rw [qV, pV], by rw [qP, pP], by rw [qE, pE], by rw [qH, pH],
    by rw [qF, pF], ?_, ?_⟩
  · intro z' hz'
    rw [qF] at hz'
    refine ⟨by rw [qO z' hz']; exact (pL z' hz').1, ?_⟩
    rw [← (rot z' hz').perm.length_eq]
    exact (pL z' hz').2
  · intro y hy
    obtain ⟨d1, d2⟩ := pD y hy
    refine ⟨d1.trans (rot y (by omega)), fun s hs => (d2 s hs).trans (rot _ ?_)⟩
    have := cutsBefore_mono m (show y + 1 ≤ m.nF by omega)
    rw [cutsBefore_succ] at this
    omega

/-- The `for` loop of `triangulate` over the faces that the loop itself has
    appended, entered at face `k`. -/
theorem triangulateAppended_spec (m : Mesh) :
    ∀ d fuel k M, k + d = M.nF → d < fuel →
      (WellFormed M ∧ M.nV = m.nV ∧ M.vPos = m.vPos ∧ M.nE = m.nE + cutsBefore m m.nF ∧
        M.nH = m.nH + 2 * cutsBefore m m.nF ∧ M.nF = m.nF + cutsBefore m m.nF ∧
        (∀ z, z < M.nF → M.fErased z = false ∧ (faceVertices M z).length = 3) ∧
        (∀ y, y < m.nF → FanDesc m M y)) →
      ∃ M', triangulateAppended fuel k M = some M' ∧
        WellFormed M' ∧ M'.nV = m.nV ∧ M'.vPos = m.vPos ∧ M'.nE = m.nE + cutsBefore m m.nF ∧
        M'.nH = m.nH + 2 * cutsBefore m m.nF ∧ M'.nF = m.nF + cutsBefore m m.nF ∧
        (∀ z, z < M'.nF → M'.fErased z = false ∧ (faceVertices M' z).length = 3) ∧
        (∀ y, y < m.nF → FanDesc m M' y) := by
  intro d
  induction d with
  | zero =>
    intro fuel k M hk hf Q
    obtain ⟨fuel, rfl⟩ : ∃ j, fuel = j + 1 := ⟨fuel - 1, by omega⟩
    refine ⟨M, ?_, Q⟩
    unfold triangulateAppended
    rw [if_neg (by omega)]
  | succ d ih =>
    intro fuel k M hk hf Q
    obtain ⟨fuel, rfl⟩ : ∃ j, fuel = j + 1 := ⟨fuel - 1, by omega⟩
    obtain ⟨M', e, Q'⟩ := triangulate_revisit m M k (by omega) Q
    have eF : M'.nF = M.nF := by rw [Q'.2.2.2.2.2.1, Q.2.2.2.2.2.1]
    obtain ⟨M'', e', Q''⟩ := ih fuel (k + 1) M' (by omega) (by omega) Q'
    refine ⟨M'', ?_, Q''⟩
    unfold triangulateAppended
    rw [if_pos (by omega)]
    simp only [e]
    exact e'

/-- C18: on a well-formed mesh without tombstoned faces all of whose faces
    have at least three sides, `triangulate` returns, whether or not the loop
    also visits the faces it appends; no vertex is added or moved; a face of
    `n` sides costs `n - 3` edges, `2 (n - 3)` half-edges and `n - 3` faces,
    so that the counts grow by the sum `cutsBefore m nF` of these numbers;
    afterwards every face is live and has exactly three sides; the face `y`
    with vertex cycle `v_0, ..., v_(n-1)` from its stored half-edge is replaced
    by the fan of the triangles `v_0, v_(s+1), v_(s+2)`, of which the last one
    is on the face record `y` itself; and the mesh is well-formed. -/
theorem triangulate_fans (revisit : Bool) (m : Mesh) (wf : WellFormed m)
    (hl : ∀ y, y < m.nF → m.fErased y = false)
    (h3 : ∀ y, y < m.nF → 3 ≤ (faceVertices m y).length) :
    ∃ M, triangulate revisit m = some M ∧ WellFormed M ∧ M.nV = m.nV ∧ M.vPos = m.vPos ∧
      M.nE = m.nE + cutsBefore m m.nF ∧ M.nH = m.nH + 2 * cutsBefore m m.nF ∧
      M.nF = m.nF + cutsBefore m m.nF ∧
      (∀ z, z < M.nF → M.fErased z = false ∧ (faceVertices M z).length = 3) ∧
      (∀ y, y < m.nF → FanDesc m M y) := by
  unfold triangulate
  by_cases h0 : m.nF = 0
  · rw [if_pos h0]
    refine ⟨m, rfl, wf, rfl, rfl, ?_, ?_, ?_, ?_, ?_⟩
    · rw [h0]; rfl
    · rw [h0]; rfl
    · rw [h0]; rfl
    · intro z hz; omega
    · intro y hy; omega
  · rw [if_neg h0]
    obtain ⟨M1, e1, wf1, pV, pP, pE, pH, pF, pL, pD⟩ :=
      triangulateFaces_spec m h3 m.nF 0 m (by omega)
        ⟨wf, rfl, rfl, rfl, rfl, rfl, hl, fun _ _ _ => rfl, fun z hz => by omega⟩
    have len := fanDesc_lengths m M1 pF pD
    rw [List.range_eq_range', e1]
    simp only []
    cases revisit with
    | false =>
      exact ⟨M1, rfl, wf1, pV, pP, pE, pH, pF, fun z hz => ⟨pL z hz, len z hz⟩, pD⟩
    | true =>
      simp only [if_true]
      exact triangulateAppended_spec m (cutsBefore m m.nF) (M1.nH + 1) m.nF M1 (by omega)
        (by omega) ⟨wf1, pV, pP, pE, pH, pF, fun z hz => ⟨pL z hz, len z hz⟩, pD⟩

theorem triangulate_fans_witness :
    ∃ M, triangulate true square = some M ∧ WellFormed M ∧ M.nV = square.nV ∧
      M.vPos = square.vPos ∧
      M.nE = square.nE + cutsBefore square square.nF ∧
      M.nH = square.nH + 2 * cutsBefore square square.nF ∧
      M.nF = square.nF + cutsBefore square square.nF ∧
      (∀ z, z < M.nF → M.fErased z = false ∧ (faceVertices M z).length = 3) ∧
      (∀ y, y < square.nF → FanDesc square M y) :=
  triangulate_fans true square (by decide) (by decide) (by decide)

/-- The stored half-edges and the vertex flags the first call of
    `process_outbound_edges` in `collapse_edge` leaves. -/
theorem collapse_reps1 {m : Mesh} {e h0 h1 x1 y1 s a b f0 f1 : Nat}
    (nb : EdgeNbhd m e h0 h1 x1 y1 s a b f0 f1) (wf : WellFormed m)
    (M : Mesh) (v z : Nat) (f : Nat → Nat)
    (MT : M.hTwin = m.hTwin) (MN : M.hNext = m.hNext) (ME : M.hEdge = m.hEdge)
    (MF : M.hFace = m.hFace) (zl : hLive m z) (hz : m.hNext z = h0)
    (A1 : Bool) (c1 : A1 = true ↔ (m.hNext y1 = h0 ∧ m.hEdge x1 ≠ m.hEdge y1)) :
    (processResult M v h0 z f).eHalfedge =
      mergeERep M.eHalfedge A1 (m.hEdge y1) (m.hTwin x1) ∧
    (processResult M v h0 z f).vHalfedge =
      mergeVRep M.vHalfedge A1 (f x1) (f y1) v (m.hTwin x1) (m.hTwin y1) ∧
    (processResult M v h0 z f).fHalfedge = upd M.fHalfedge f0 x1 ∧
    (processResult M v h0 z f).vErased = upd M.vErased (f h0) true := by
  have hx : upd M.hNext z (M.hNext h0) h0 = x1 := by
    rw [MN, nb.n0]; simp only [upd_apply]; split_ifs
    · rfl
    · exact nb.n0
  cases A1 with
  | true =>
    have hT0 := c1.1 rfl
    have yz : y1 = z := next_inj m wf _ _ nb.ly zl (by rw [hT0.1, hz])
    have xy : x1 ≠ y1 := fun h => hT0.2 (by rw [h])
    have xz : x1 ≠ z := by rw [← yz]; exact xy
    have hy : upd M.hNext z (M.hNext h0) x1 = y1 := by
      rw [MN]; simp only [upd_apply, xz, if_false]; exact nb.n1
    have hA : x1 = upd M.hNext z (M.hNext h0) y1 ∧ M.hEdge x1 ≠ M.hEdge y1 := by
      rw [MN, ME, nb.n0]
      refine ⟨?_, hT0.2⟩
      simp only [upd_apply, yz, if_true]
    obtain ⟨-, -, p3, p4, p5, -, -, -, -, p10, -⟩ :=
      processResult_merge M v h0 z x1 y1 f hx hy hA.1 hA.2
        (by rw [MT]; exact (wf_twin wf nb.lx).2.1) (by rw [MT]; exact (wf_twin wf nb.ly).2.1)
    refine ⟨?_, ?_, ?_, p10⟩
    · rw [p3, ME, MT]; rfl
    · rw [p4, MT]; rfl
    · rw [p5, MF, nb.f0a]
  | false =>
    have hT0 : ¬ (m.hNext y1 = h0 ∧ m.hEdge x1 ≠ m.hEdge y1) :=
      fun h => Bool.noConfusion (c1.2 h)
    have tri := merge_cond_triangle m wf h0 z nb.l0 zl hz
    rw [nb.n0] at tri
    have hA : ¬ (x1 = upd M.hNext z (M.hNext h0) (upd M.hNext z (M.hNext h0) x1) ∧
        M.hEdge x1 ≠ M.hEdge (upd M.hNext z (M.hNext h0) x1)) := by
      rw [MN, ME, nb.n0]
      rintro ⟨k1, k2⟩
      obtain ⟨xz, nxz⟩ := tri k1 k2
      apply hT0
      have e1 : upd m.hNext z x1 x1 = y1 := by
        simp only [upd_apply, xz, if_false]; exact nb.n1
      rw [e1] at k2
      refine ⟨?_, k2⟩
      rw [← nb.n1, nxz, hz]
    obtain ⟨-, -, p3, p4, p5, -, -, -, -, p10, -⟩ :=
      processResult_nomerge M v h0 z x1 _ f hx rfl hA
    refine ⟨?_, ?_, ?_, p10⟩
    · rw [p3]; rfl
    · rw [p4]; rfl
    · rw [p5, MF, nb.f0a]

/-- The stored half-edges and the vertex flags the second call of
    `process_outbound_edges` in `collapse_edge` leaves, on the mesh `m1` the
    first call has left. -/
theorem collapse_reps2 {m : Mesh} {e h0 h1 x1 y1 s a b f0 f1 : Nat}
    (nb : EdgeNbhd m e h0 h1 x1 y1 s a b f0 f1) (wf : WellFormed m)
    (m1 : Mesh) (v z1 w : Nat) (f : Nat → Nat) (A1 : Bool)
    (c1 : A1 = true ↔ (m.hNext y1 = h0 ∧ m.hEdge x1 ≠ m.hEdge y1))
    (T1 : m1.hTwin = mergeTwin m.hTwin A1 x1 y1)
    (E1 : m1.hEdge = mergeEdge m.hTwin m.hEdge A1 x1 y1)
    (N1 : m1.hNext = upd m.hNext z1 x1) (F1 : m1.hFace = m.hFace)
    (z1f : m.hFace z1 = f0) (wl : hLive m w) (wf1 : m.hFace w = f1)
    (hw : m1.hNext w = h1)
    (A2 : Bool) (c2 : A2 = true ↔ (m.hNext s = w ∧
        mergeEdge m.hTwin m.hEdge A1 x1 y1 s ≠ mergeEdge m.hTwin m.hEdge A1 x1 y1 w)) :
    (processResult m1 v h1 w f).eHalfedge =
      mergeERep m1.eHalfedge A2 (mergeEdge m.hTwin m.hEdge A1 x1 y1 w)
        (mergeTwin m.hTwin A1 x1 y1 s) ∧
    (processResult m1 v h1 w f).vHalfedge =
      mergeVRep m1.vHalfedge A2 (f s) (f w) v (mergeTwin m.hTwin A1 x1 y1 s)
        (mergeTwin m.hTwin A1 x1 y1 w) ∧
    (processResult m1 v h1 w f).fHalfedge = upd m1.fHalfedge f1 s ∧
    (processResult m1 v h1 w f).vErased = upd m1.vErased (f h1) true := by
  have offz : ∀ u, m.hFace u = f1 → u ≠ z1 := by
    intro u hu h; rw [h, z1f] at hu; exact nb.ff hu
  have n1u : ∀ u, m.hFace u = f1 → m1.hNext u = m.hNext u := by
    intro u hu; rw [N1]; simp only [upd_apply, offz u hu, if_false]
  have nw : m.hNext w = h1 := by rw [← n1u w wf1]; exact hw
  have nh1 : m1.hNext h1 = s := by rw [n1u h1 nb.f1b]; exact nb.n2
  have lns := wf_next wf nb.ls
  have fns : m.hFace (m.hNext s) = f1 := by rw [lns.2.1]; exact nb.f1s
  have hx : upd m1.hNext w (m1.hNext h1) h1 = s := by
    simp only [upd_apply, nh1]; split_ifs <;> rfl
  have xy : A1 = true → x1 ≠ y1 := fun h hh => (c1.1 h).2 (by rw [hh])
  cases A2 with
  | true =>
    have hT1 := c2.1 rfl
    have sw : s ≠ w := fun h => hT1.2 (by rw [h])
    have hy : upd m1.hNext w (m1.hNext h1) s = w := by
      simp only [upd_apply, sw, if_false]; rw [n1u s nb.f1s]; exact hT1.1
    have hA : s = upd m1.hNext w (m1.hNext h1) w ∧ m1.hEdge s ≠ m1.hEdge w := by
      rw [E1]; refine ⟨?_, hT1.2⟩
      simp only [upd_apply, if_true, nh1]
    obtain ⟨-, -, p3, p4, p5, -, -, -, -, p10, -⟩ :=
      processResult_merge m1 v h1 w s w f hx hy hA.1 hA.2
        (by rw [T1]; exact mergeTwin_ne wf A1 nb.lx nb.ly xy nb.ls)
        (by rw [T1]; exact mergeTwin_ne wf A1 nb.lx nb.ly xy wl)
    refine ⟨?_, ?_, ?_, p10⟩
    · rw [p3, E1, T1]; rfl
    · rw [p4, T1]; rfl
    · rw [p5, F1, nb.f1b]
  | false =>
    have hT1 : ¬ (m.hNext s = w ∧
        mergeEdge m.hTwin m.hEdge A1 x1 y1 s ≠ mergeEdge m.hTwin m.hEdge A1 x1 y1 w) :=
      fun h => Bool.noConfusion (c2.2 h)
    have hA : ¬ (s = upd m1.hNext w (m1.hNext h1) (upd m1.hNext w (m1.hNext h1) s) ∧
        m1.hEdge s ≠ m1.hEdge (upd m1.hNext w (m1.hNext h1) s)) := by
      rintro ⟨k1, k2⟩
      by_cases sw : s = w
      · apply k2
        simp only [upd_apply, sw, if_true, nh1]
      · have e1 : upd m1.hNext w (m1.hNext h1) s = m.hNext s := by
          simp only [upd_apply, sw, if_false]; exact n1u s nb.f1s
        rw [e1] at k1 k2
        by_cases nsw : m.hNext s = w
        · apply hT1
          rw [nsw, E1] at k2
          exact ⟨nsw, k2⟩
        · simp only [upd_apply, nsw, if_false] at k1
          rw [n1u _ fns] at k1
          have e2 : h1 = m.hNext s := next_inj m wf _ _ nb.l1 lns.1 (by rw [nb.n2]; exact k1)
          exact sw (next_inj m wf _ _ nb.ls wl (by rw [← e2, nw]))
    obtain ⟨-, -, p3, p4, p5, -, -, -, -, p10, -⟩ :=
      processResult_nomerge m1 v h1 w s _ f hx rfl hA
    refine ⟨?_, ?_, ?_, p10⟩
    · rw [p3]; rfl
    · rw [p4]; rfl
    · rw [p5, F1, nb.f1b]

/-- The mesh a successful `collapse_edge` leaves on a mesh that satisfies the
    invariants 1 to 5, with the `next` table, the stored half-edges and the
    vertex records. -/
theorem collapse_full (dbg : Bool) (m m' : Mesh) (e v : Nat)
    (hv : Valid m) (sf : SimpleFaces m) (he : eLive m e)
    (hc : collapse_edge dbg m e = some (some v, m')) :
    ∃ w z A1 A2,
      EdgeNbhd m e (m.eHalfedge e) (m.hTwin (m.eHalfedge e)) (m.hNext (m.eHalfedge e))
        (m.hNext (m.hNext (m.eHalfedge e))) (m.hNext (m.hTwin (m.eHalfedge e)))
        (m.hVertex (m.eHalfedge e)) (m.hVertex (m.hTwin (m.eHalfedge e)))
        (m.hFace (m.eHalfedge e)) (m.hFace (m.hTwin (m.eHalfedge e))) ∧
      CollapseCtx m m' e v (m.eHalfedge e) (m.hTwin (m.eHalfedge e)) (m.hNext (m.eHalfedge e))
        (m.hNext (m.hNext (m.eHalfedge e))) (m.hNext (m.hTwin (m.eHalfedge e))) w A1 A2 ∧
      CollapseReps m m' v (m.eHalfedge e) (m.hTwin (m.eHalfedge e)) (m.hNext (m.eHalfedge e))
        (m.hNext (m.hNext (m.eHalfedge e))) (m.hNext (m.hTwin (m.eHalfedge e))) w z A1 A2 := by
  obtain ⟨hcc, rfl, m1, m2, p1, p2, rfl⟩ := collapse_edge_spec dbg m m' e v hc
  have guard := can_collapse_guard dbg m e hcc
  have nb := edgeNbhd_of m e hv sf he guard
  have wf := hv.1
  have hl := nb.l0
  have l1 := nb.l1
  have ab : m.hVertex (m.hTwin (m.eHalfedge e)) ≠ m.hVertex (m.eHalfedge e) := Ne.symm nb.ab
  generalize hM : (m.new_vertex.2.setVHalfedge m.nV (m.hNext (m.eHalfedge e))).setPos m.nV
    (m.center e) = M at p1
  have MT : M.hTwin = m.hTwin := by rw [← hM]; rfl
  have MN : M.hNext = m.hNext := by rw [← hM]; rfl
  have ME : M.hEdge = m.hEdge := by rw [← hM]; rfl
  have MV : M.hVertex = m.hVertex := by rw [← hM]; rfl
  have MF : M.hFace = m.hFace := by rw [← hM]; rfl
  have MEH : M.eHalfedge = m.eHalfedge := by rw [← hM]; rfl
  have MnH : M.nH = m.nH := by rw [← hM]; rfl
  have MnE : M.nE = m.nE := by rw [← hM]; rfl
  have MnF : M.nF = m.nF := by rw [← hM]; rfl
  have MHX : M.hErased = m.hErased := by rw [← hM]; rfl
  have MEX : M.eErased = m.eErased := by rw [← hM]; rfl
  have MFX : M.fErased = m.fErased := by rw [← hM]; rfl
  have fsM : fanStep M = fanStep m := by unfold fanStep; rw [MT, MN]
  obtain ⟨fa, ta, j1, r1, z1, a2, a3, a4, a5, a6⟩ := process_spec dbg _ _ _ _ p1
  rw [MN] at z1 r1
  rw [fsM] at a3 a4 a5 a6
  rw [MV] at a6
  have zl := iterate_live m wf _ hl j1
  obtain ⟨k1, k2, k3⟩ := collapse_first_call m M e m.nV _ fa hv he guard MT MN ME MEH zl.1 z1
  rw [← r1] at k1 k2 k3
  obtain ⟨q1, q2, q3, q4, q5, q6, q7, -⟩ :=
    processResult_frame M m.nV (m.eHalfedge e) (m.hNext^[j1] (m.eHalfedge e)) fa
  rw [← r1] at q1 q2 q3 q4 q5 q6 q7
  obtain ⟨A1, c1, T1, E1, F1, FX1, EX1, HX1⟩ :=
    collapse_call1 nb wf M m.nV _ fa MT MN ME MF MHX MEX MFX zl.1 z1
  rw [← r1] at T1 E1 F1 FX1 EX1 HX1
  rw [k1, k2] at p2
  obtain ⟨fb, tb, j2, r2, z2, b2, b3, b4, b5, b6⟩ := process_spec dbg _ _ _ _ p2
  obtain ⟨s1, s2, s3, s4, s5, s6, s7, -⟩ :=
    processResult_frame m1 m.nV (m.hTwin (m.eHalfedge e))
      (m1.hNext^[j2] (m.hTwin (m.eHalfedge e))) fb
  rw [← r2] at s1 s2 s3 s4 s5 s6 s7
  have N1 : m1.hNext = upd m.hNext (m.hNext^[j1] (m.eHalfedge e)) (m.hNext (m.eHalfedge e)) := by
    rw [q7, MN]
  have it2 : ∀ j, hLive m (m1.hNext^[j] (m.hTwin (m.eHalfedge e))) ∧
      m.hFace (m1.hNext^[j] (m.hTwin (m.eHalfedge e))) = m.hFace (m.hTwin (m.eHalfedge e)) := by
    intro j
    induction j with
    | zero => exact ⟨l1, rfl⟩
    | succ j ih =>
      rw [Function.iterate_succ_apply']
      have ne : m1.hNext^[j] (m.hTwin (m.eHalfedge e)) ≠ m.hNext^[j1] (m.eHalfedge e) := by
        intro h
        have := ih.2
        rw [h, zl.2] at this
        exact nb.ff this
      have : m1.hNext (m1.hNext^[j] (m.hTwin (m.eHalfedge e))) =
          m.hNext (m1.hNext^[j] (m.hTwin (m.eHalfedge e))) :=
        (congrFun N1 _).trans (by simp only [upd_apply, ne, if_false])
      rw [this]
      obtain ⟨w1, w2, -⟩ := wf_next wf ih.1
      exact ⟨w1, by rw [w2, ih.2]⟩
  obtain ⟨nw, A2, c2, T2, E2, F2, FX2, EX2, HX2⟩ :=
    collapse_call2 nb wf m1 m.nV _ _ fb A1 c1 T1 E1 N1 F1 FX1 EX1 HX1 zl.2 (it2 j2).1 (it2 j2).2 z2
  rw [← r2] at T2 E2 F2 FX2 EX2 HX2
  -- the fan of the second endpoint is the same before and after the first call
  have fan2 : ∀ i, (fanStep m1)^[i] (m.hTwin (m.eHalfedge e)) =
      (fanStep m)^[i] (m.hTwin (m.eHalfedge e)) := by
    intro i
    induction i with
    | zero => rfl
    | succ i ih =>
      rw [Function.iterate_succ_apply', Function.iterate_succ_apply', ih]
      obtain ⟨w1, w2⟩ := fan_live m wf _ l1 i
      exact k3 _ w1 w2
  simp only [fan2] at b3 b4 b5 b6
  rw [q6] at b6

  obtain ⟨R1e, R1v, R1f, R1x⟩ :=
    collapse_reps1 nb wf M m.nV _ fa MT MN ME MF zl.1 z1 A1 c1
  rw [← r1] at R1e R1v R1f R1x
  obtain ⟨R2e, R2v, R2f, R2x⟩ :=
    collapse_reps2 nb wf m1 m.nV _ _ fb A1 c1 T1 E1 N1 F1 zl.2 (it2 j2).1 (it2 j2).2 z2 A2 c2
  rw [← r2] at R2e R2v R2f R2x
  have MVH : M.vHalfedge = upd m.vHalfedge m.nV (m.hNext (m.eHalfedge e)) := by rw [← hM]; rfl
  have MFH : M.fHalfedge = m.fHalfedge := by rw [← hM]; rfl
  have MVX : M.vErased = upd m.vErased m.nV false := by rw [← hM]; rfl
  have MnV : M.nV = m.nV + 1 := by rw [← hM]; rfl
  have cx : CollapseCtx m (m2.eraseE e) e m.nV (m.eHalfedge e) (m.hTwin (m.eHalfedge e))
      (m.hNext (m.eHalfedge e)) (m.hNext (m.hNext (m.eHalfedge e)))
      (m.hNext (m.hTwin (m.eHalfedge e))) (m1.hNext^[j2] (m.hTwin (m.eHalfedge e))) A1 A2 := by
    refine ⟨nw, (it2 j2).1, c1, c2, rfl, ?_, ?_, ?_, F2, ?_, T2, E2, HX2, ?_, FX2⟩
    · show m2.nH = m.nH
      rw [s2, q2, MnH]
    · show m2.nE = m.nE
      rw [s3, q3, MnE]
    · show m2.nF = m.nF
      rw [s4, q4, MnF]
    · intro g lg g0 g1
      show m2.hVertex g = _
      rw [s6]
      by_cases ha : m.hVertex g = m.hVertex (m.eHalfedge e)
      · obtain ⟨k, -, hk⟩ := hv.2.1 _ hl.1 hl.2 g lg.1 lg.2 ha.symm
        obtain ⟨i, hi, hki⟩ := fan_mod (fanStep m) _ _ a3 k
        rw [hki] at hk
        have i0 : i ≠ 0 := by
          rintro rfl
          simp only [Function.iterate_zero, id_eq] at hk
          exact g0 hk.symm
        have v1 : fa g = m.nV := a5 g ⟨i, by omega, hi, hk⟩
        have : fb g = m.nV := by
          by_cases hw : ∃ i, 1 ≤ i ∧ i ≤ tb ∧ (fanStep m)^[i] (m.hTwin (m.eHalfedge e)) = g
          · exact b5 g hw
          · rw [b6 g (fun i x y z => hw ⟨i, x, y, z⟩), v1]
        rw [this]; simp [mergedVertex, ha]
      · by_cases hb : m.hVertex g = m.hVertex (m.hTwin (m.eHalfedge e))
        · obtain ⟨k, -, hk⟩ := hv.2.1 _ l1.1 l1.2 g lg.1 lg.2 hb.symm
          obtain ⟨i, hi, hki⟩ := fan_mod (fanStep m) _ _ b3 k
          rw [hki] at hk
          have i0 : i ≠ 0 := by
            rintro rfl
            simp only [Function.iterate_zero, id_eq] at hk
            exact g1 hk.symm
          rw [b5 g ⟨i, by omega, hi, hk⟩]; simp [mergedVertex, hb]
        · have e1 : fb g = fa g := by
            apply b6
            intro i _ _ hh
            have := (fan_live m wf _ l1 i).2
            rw [hh] at this
            exact hb this
          have e2 : fa g = m.hVertex g := by
            apply a6
            intro i _ _ hh
            have := (fan_live m wf _ hl i).2
            rw [hh] at this
            exact ha this
          rw [e1, e2]; simp [mergedVertex, ha, hb]
    · show upd m2.eErased e true = _
      rw [EX2]

  have offA : ∀ g, m.hVertex g ≠ m.hVertex (m.eHalfedge e) → fa g = m.hVertex g := by
    intro g hg
    apply a6
    intro i _ _ hh
    have := (fan_live m wf _ hl i).2
    rw [hh] at this
    exact hg this
  have offB : ∀ g, m.hVertex g ≠ m.hVertex (m.hTwin (m.eHalfedge e)) → fb g = fa g := by
    intro g hg
    apply b6
    intro i _ _ hh
    have := (fan_live m wf _ l1 i).2
    rw [hh] at this
    exact hg this
  have fah0 : fa (m.eHalfedge e) = m.hVertex (m.eHalfedge e) := a6 _ a4
  have fbh1 : fb (m.hTwin (m.eHalfedge e)) = m.hVertex (m.hTwin (m.eHalfedge e)) := by
    rw [b6 _ b4]; exact offA _ ab
  have fax : fa (m.hNext (m.eHalfedge e)) = m.hVertex (m.hNext (m.eHalfedge e)) := by
    apply offA; rw [nb.vx]; exact ab
  have K := cx.vert
  have fbs : fb (m.hNext (m.hTwin (m.eHalfedge e))) = m.nV := by
    have s0 : m.hNext (m.hTwin (m.eHalfedge e)) ≠ m.eHalfedge e :=
      ne_of_f m.hFace nb.f1s nb.f0a nb.ff.symm
    have s1 : m.hNext (m.hTwin (m.eHalfedge e)) ≠ m.hTwin (m.eHalfedge e) := by
      intro h
      have := nb.vs
      rw [h] at this
      exact ab this
    have := K _ nb.ls s0 s1
    rw [nb.vs] at this
    have e2 : (m2.eraseE e).hVertex = fb := s6
    rw [e2] at this
    rw [this]; simp [mergedVertex]
  refine ⟨_, _, A1, A2, nb, cx, ⟨z1, zl.1, ?_, ?_, ?_, ?_, ?_, ?_⟩⟩
  · show m2.nV = m.nV + 1
    rw [s1, q1, MnV]
  · show m2.hNext = _
    rw [s7, N1]
    have hz : m.hTwin (m.eHalfedge e) ≠ m.hNext^[j1] (m.eHalfedge e) :=
      ne_of_f m.hFace rfl zl.2 nb.ff.symm
    have : upd m.hNext (m.hNext^[j1] (m.eHalfedge e)) (m.hNext (m.eHalfedge e))
        (m.hTwin (m.eHalfedge e)) = m.hNext (m.hTwin (m.eHalfedge e)) := by
      simp only [upd_apply, hz, if_false]
    rw [this]
  · show m2.vHalfedge = _
    rw [R2v, R1v, MVH, fax, fbs]
    have i1 : ∀ R p tx ty, mergeVRep R A1 p (fa (m.hNext (m.hNext (m.eHalfedge e)))) m.nV tx ty =
        mergeVRep R A1 p (m.hVertex (m.hNext (m.hNext (m.eHalfedge e)))) m.nV tx ty := by
      intro R p tx ty
      rcases Bool.eq_false_or_eq_true A1 with h | h
      · obtain ⟨-, -, ya, -⟩ := collapse_tri0 nb cx hv h
        rw [offA _ ya]
      · rw [h]; rfl
    have i2 : ∀ R p tx ty, mergeVRep R A2 p (fb (m1.hNext^[j2] (m.hTwin (m.eHalfedge e)))) m.nV
          tx ty =
        mergeVRep R A2 p (m.hVertex (m1.hNext^[j2] (m.hTwin (m.eHalfedge e)))) m.nV tx ty := by
      intro R p tx ty
      rcases Bool.eq_false_or_eq_true A2 with h | h
      · obtain ⟨-, -, -, wa, wb⟩ := collapse_tri1 nb cx hv h
        rw [offB _ wb, offA _ wa]
      · rw [h]; rfl
    rw [i1, i2]
  · show m2.eHalfedge = _
    rw [R2e, R1e, MEH]
  · show m2.fHalfedge = _
    rw [R2f, R1f, MFH]
  · show m2.vErased = _
    rw [R2x, R1x, MVX, fah0, fbh1]

theorem twinEdgeOK_of_wf {m : Mesh} (wf : WellFormed m) :
    TwinEdgeOK (hLive m) (eLive m) m.hTwin m.hEdge m.eHalfedge := by
  refine ⟨?_, ?_⟩
  · intro g pg
    obtain ⟨a1, a2, a3⟩ := wf_twin wf pg
    obtain ⟨b1, b2, b3⟩ := wf_edge wf pg
    exact ⟨a1, a2, a3, b1, b2, b3⟩
  · intro k qk
    exact wf.2.2.1.2 k qk.1 qk.2

theorem twinEdgeOK_congr {P P' Q Q' : Nat → Prop} {T E R : Nat → Nat}
    (h : TwinEdgeOK P Q T E R) (hp : ∀ g, P' g ↔ P g) (hq : ∀ k, Q' k ↔ Q k) :
    TwinEdgeOK P' Q' T E R := by
  have e1 : P' = P := funext fun g => propext (hp g)
  have e2 : Q' = Q := funext fun k => propext (hq k)
  rw [e1, e2]; exact h

/-- Taking a half-edge and its twin out, with their edge, keeps the invariants
    1 and 3. -/
theorem twinEdgeOK_remove {P Q : Nat → Prop} {T E R : Nat → Nat}
    (h : TwinEdgeOK P Q T E R) {x : Nat} (px : P x) :
    TwinEdgeOK (fun g => P g ∧ g ≠ x ∧ g ≠ T x) (fun k => Q k ∧ k ≠ E x) T E R := by
  obtain ⟨h1, h2⟩ := h
  obtain ⟨ptx, tx1, tx2, qx, ex, prx⟩ := h1 x px
  refine ⟨?_, ?_⟩
  · rintro g ⟨pg, gx, gtx⟩
    obtain ⟨ptg, tg1, tg2, qg, eg, prg⟩ := h1 g pg
    refine ⟨⟨ptg, fun e => gtx (by rw [← e, tg2]), fun e => gx (by rw [← tg2, e, tx2])⟩,
      tg1, tg2, ⟨qg, ?_⟩, eg, fun g' pg' => prg g' pg'.1⟩
    intro e
    rcases prx g pg e with r | r
    · exact gx r
    · exact gtx r
  · rintro k ⟨qk, kx⟩
    obtain ⟨prk, erk⟩ := h2 k qk
    exact ⟨⟨prk, fun e => kx (by rw [← erk, e]), fun e => kx (by rw [← erk, e, ex])⟩, erk⟩

/-- The merge of a two-sided face whose sides `x` and `y` are on different
    edges keeps the invariants 1 and 3 on the half-edges other than `x` and
    `y` and the edges other than the edge of `x`. -/
theorem twinEdgeOK_merge {P Q : Nat → Prop} {T E R : Nat → Nat}
    (h : TwinEdgeOK P Q T E R) {x y : Nat} (px : P x) (py : P y) (exy : E x ≠ E y) :
    TwinEdgeOK (fun g => P g ∧ g ≠ x ∧ g ≠ y) (fun k => Q k ∧ k ≠ E x)
      (mergeTwin T true x y) (mergeEdge T E true x y) (mergeERep R true (E y) (T x)) := by
  obtain ⟨h1, h2⟩ := h
  obtain ⟨ptx, tx1, tx2, qx, ex, prx⟩ := h1 x px
  obtain ⟨pty, ty1, ty2, qy, ey, pry⟩ := h1 y py
  have xy : x ≠ y := fun e => exy (by rw [e])
  have txy : T x ≠ T y := fun e => xy (by rw [← tx2, ← ty2, e])
  have txny : T x ≠ y := fun e => exy (by rw [← ex, e])
  have tynx : T y ≠ x := fun e => exy (by rw [← ey, e])
  have T1x : mergeTwin T true x y (T x) = T y := by simp [mergeTwin, upd_apply, txy]
  have T1y : mergeTwin T true x y (T y) = T x := by simp [mergeTwin, upd_apply]
  have T1o : ∀ g, g ≠ T x → g ≠ T y → mergeTwin T true x y g = T g := by
    intro g a b; simp [mergeTwin, upd_apply, a, b]
  have E1x : mergeEdge T E true x y (T x) = E y := by simp [mergeEdge, upd_apply]
  have E1o : ∀ g, g ≠ T x → mergeEdge T E true x y g = E g := by
    intro g a; simp [mergeEdge, upd_apply, a]
  refine ⟨?_, ?_⟩
  · rintro g ⟨pg, gx, gy⟩
    obtain ⟨ptg, tg1, tg2, qg, eg, prg⟩ := h1 g pg
    by_cases c1 : g = T x
    · subst c1
      rw [T1x, E1x, T1y, E1o (T y) (Ne.symm txy)]
      refine ⟨⟨pty, tynx, ty1⟩, Ne.symm txy, rfl, ⟨qy, Ne.symm exy⟩, ey, ?_⟩
      rintro g' ⟨pg', g'x, g'y⟩ hg'
      by_cases d1 : g' = T x
      · exact Or.inl d1
      · rw [E1o g' d1] at hg'
        rcases pry g' pg' hg' with r | r
        · exact absurd r g'y
        · exact Or.inr r
    · by_cases c2 : g = T y
      · subst c2
        rw [T1y, E1x, T1x, E1o _ (Ne.symm txy), ey]
        refine ⟨⟨ptx, tx1, txny⟩, txy, rfl, ⟨qy, Ne.symm exy⟩, rfl, ?_⟩
        rintro g' ⟨pg', g'x, g'y⟩ hg'
        by_cases d1 : g' = T x
        · exact Or.inr d1
        · rw [E1o g' d1] at hg'
          rcases pry g' pg' hg' with r | r
          · exact absurd r g'y
          · exact Or.inl r
      · have tgx : T g ≠ T x := fun e => gx (by rw [← tg2, e, tx2])
        have tgy : T g ≠ T y := fun e => gy (by rw [← tg2, e, ty2])
        have tg_x : T g ≠ x := fun e => c1 (by rw [← e, tg2])
        have tg_y : T g ≠ y := fun e => c2 (by rw [← e, tg2])
        rw [T1o g c1 c2, T1o _ tgx tgy, E1o g c1, E1o _ tgx]
        have egx : E g ≠ E x := by
          intro e
          rcases prx g pg e with r | r
          · exact gx r
          · exact c1 r
        refine ⟨⟨ptg, tg_x, tg_y⟩, tg1, tg2, ⟨qg, egx⟩, eg, ?_⟩
        rintro g' ⟨pg', g'x, g'y⟩ hg'
        by_cases d1 : g' = T x
        · rw [d1, E1x] at hg'
          rcases pry g pg hg'.symm with r | r
          · exact absurd r gy
          · exact absurd r c2
        · rw [E1o g' d1] at hg'
          exact prg g' pg' hg'
  · rintro k ⟨qk, kx⟩
    obtain ⟨prk, erk⟩ := h2 k qk
    by_cases c : k = E y
    · subst c
      have : mergeERep R true (E y) (T x) (E y) = T x := by simp [mergeERep, upd_apply]
      rw [this, E1x]
      exact ⟨⟨ptx, tx1, txny⟩, rfl⟩
    · have : mergeERep R true (E y) (T x) k = R k := by simp [mergeERep, upd_apply, c]
      rw [this]
      have rx : R k ≠ x := fun e => kx (by rw [← erk, e])
      have ry : R k ≠ y := fun e => c (by rw [← erk, e])
      have rtx : R k ≠ T x := fun e => kx (by rw [← erk, e, ex])
      rw [E1o _ rtx]
      exact ⟨⟨prk, rx, ry⟩, erk⟩

/-- The merge of a two-sided face keeps the vertex every half-edge ends at:
    `U` gives the origins, `x` ends where `y` begins and `y` where `x`
    begins. -/
theorem merge_heads (T U : Nat → Nat) (x y : Nat) (tx2 : T (T x) = x) (ty2 : T (T y) = y)
    (hx : U (T x) = U y) (hy : U (T y) = U x) (g : Nat) :
    U (mergeTwin T true x y g) = U (T g) := by
  simp only [mergeTwin, if_true, upd_apply]
  by_cases c2 : g = T y
  · rw [if_pos c2, c2, ty2, hx]
  · rw [if_neg c2]
    by_cases c1 : g = T x
    · rw [if_pos c1, c1, tx2, hy]
    · rw [if_neg c1]

/-- In a triangle mesh the live half-edges that name one face are the three
    sides of one triangle. -/
theorem tri_same_face {m : Mesh} (wf : WellFormed m) (tm : TriangleMesh m) {g g' : Nat}
    (lg : hLive m g) (lg' : hLive m g') (hf : m.hFace g' = m.hFace g) :
    g' = g ∨ g' = m.hNext g ∨ g' = m.hNext (m.hNext g) := by
  obtain ⟨t, r⟩ := tm g lg.1 lg.2
  obtain ⟨t', r'⟩ := tm g' lg'.1 lg'.2
  rw [hf] at r'
  have ln := (wf_next wf lg).1
  have ln' := (wf_next wf lg').1
  have lnn := (wf_next wf ln).1
  have lnn' := (wf_next wf ln').1
  rcases r with r | r | r <;> rcases r' with r' | r' | r' <;> rw [r] at r'
  · exact Or.inl r'.symm
  · right; right; rw [r', t']
  · right; left; rw [r', t']
  · exact Or.inr (Or.inl r'.symm)
  · exact Or.inl (next_inj m wf _ _ lg lg' r').symm
  · right; right
    have := next_inj m wf _ _ lg ln' r'
    rw [this, t']
  · exact Or.inr (Or.inr r'.symm)
  · right; left
    exact (next_inj m wf _ _ ln lg' r').symm
  · left
    exact (next_inj m wf _ _ lg lg' (next_inj m wf _ _ ln ln' r')).symm

/-- In a triangle mesh without loop edges no two half-edges of one face leave
    the same vertex. -/
theorem triangleMesh_simpleFaces {m : Mesh} (hv : Valid m) (tm : TriangleMesh m) :
    SimpleFaces m := by
  have wf := hv.1
  intro g hg g' hg' eg eg' hf hvv
  have lg : hLive m g := ⟨hg, eg⟩
  have lg' : hLive m g' := ⟨hg', eg'⟩
  rcases tri_same_face wf tm lg lg' hf.symm with r | r | r
  · exact r.symm
  · exfalso
    have := hv.2.2 g hg eg
    rw [← (wf_next wf lg).2.2, ← r] at this
    exact this hvv.symm
  · exfalso
    have e1 : m.hNext g' = g := by rw [r]; exact (tm g hg eg).1
    have := hv.2.2 g' hg' eg'
    rw [← (wf_next wf lg').2.2, e1] at this
    exact this hvv

/-- The two faces of a live edge of a triangle mesh, when the half-edge after
    `h0` is not its twin. -/
theorem triNbhd_of {m : Mesh} {e h0 h1 x1 y1 s a b f0 f1 w : Nat}
    (nb : EdgeNbhd m e h0 h1 x1 y1 s a b f0 f1) (hv : Valid m) (tm : TriangleMesh m)
    (lw : hLive m w) (n3 : m.hNext w = h1) :
    TriNbhd m h0 h1 x1 y1 s w a b f0 f1 := by
  have wf := hv.1
  have nl := hv.2.2
  have ny : m.hNext y1 = h0 := by
    have := (tm h0 nb.l0.1 nb.l0.2).1
    rw [nb.n0, nb.n1] at this
    exact this
  have lns := (wf_next wf nb.ls).1
  have ns : m.hNext s = w := by
    have := (tm h1 nb.l1.1 nb.l1.2).1
    rw [nb.n2] at this
    exact next_inj m wf _ _ lns lw (by rw [this, n3])
  obtain ⟨-, -, ox⟩ := wf_next wf nb.lx
  obtain ⟨-, -, oy⟩ := wf_next wf nb.ly
  obtain ⟨-, -, os⟩ := wf_next wf nb.ls
  obtain ⟨-, fww, ow⟩ := wf_next wf lw
  rw [nb.n1] at ox
  rw [ny, nb.va] at oy
  rw [ns] at os
  rw [n3, nb.vb] at ow
  rw [n3, nb.f1b] at fww
  have nlx := nl _ nb.lx.1 nb.lx.2
  have nly := nl _ nb.ly.1 nb.ly.2
  have nls := nl _ nb.ls.1 nb.ls.2
  have nlw := nl _ lw.1 lw.2
  rw [← ox, nb.vx] at nlx
  rw [← oy] at nly
  rw [← os, nb.vs] at nls
  rw [← ow] at nlw
  have x0 : x1 ≠ h0 := ne_of_f m.hVertex nb.vx nb.va nb.ab.symm
  have y0 : y1 ≠ h0 := ne_of_f m.hVertex rfl nb.va (Ne.symm nly)
  have xy : x1 ≠ y1 := ne_of_f m.hVertex nb.vx rfl (Ne.symm nlx)
  have exy : m.hEdge x1 ≠ m.hEdge y1 := by
    intro h
    rcases (wf_edge wf nb.lx).2.2 y1 nb.ly h.symm with r | r
    · exact xy r.symm
    · have := oy
      rw [r, (wf_twin wf nb.lx).2.2, nb.vx] at this
      exact nb.ab this
  refine ⟨ny, ns, exy, Ne.symm nly, nlx, nls, Ne.symm nlw, ox.symm, oy.symm, os.symm, ow.symm,
    fww.symm, ?_, ?_, x0, y0, xy, ne_of_f m.hVertex nb.vs nb.vb nb.ab, ?_, ?_⟩
  · intro g lg hf
    rcases tri_same_face wf tm nb.l0 lg (by rw [hf, nb.f0a]) with r | r | r
    · exact Or.inl r
    · exact Or.inr (Or.inl (by rw [r, nb.n0]))
    · exact Or.inr (Or.inr (by rw [r, nb.n0, nb.n1]))
  · intro g lg hf
    rcases tri_same_face wf tm nb.l1 lg (by rw [hf, nb.f1b]) with r | r | r
    · exact Or.inl r
    · exact Or.inr (Or.inl (by rw [r, nb.n2]))
    · exact Or.inr (Or.inr (by rw [r, nb.n2, ns]))
  · exact ne_of_f m.hVertex rfl nb.vb (Ne.symm nlw)
  · exact ne_of_f m.hVertex nb.vs rfl (Ne.symm nls)

/-- A triangle mesh is a mesh of triangles and two-sided faces. -/
theorem triLens_of_triangle {m : Mesh} (tm : TriangleMesh m) : TriLensMesh m :=
  fun g hg eg => Or.inl (tm g hg eg)

/-- The live half-edges that name the face of a side of a triangle are the
    three sides of the triangle. -/
theorem triSide_same_face {m : Mesh} (wf : WellFormed m) (lt : TriLensMesh m) {g g' : Nat}
    (lg : hLive m g) (lg' : hLive m g') (tg : TriSide m g) (hf : m.hFace g' = m.hFace g) :
    g' = g ∨ g' = m.hNext g ∨ g' = m.hNext (m.hNext g) := by
  obtain ⟨t, r⟩ := tg
  have ln := (wf_next wf lg).1
  have ln' := (wf_next wf lg').1
  have lnn := (wf_next wf ln).1
  have lnn' := (wf_next wf ln').1
  rcases lt g' lg'.1 lg'.2 with ⟨t', r'⟩ | ⟨t', -, r'⟩
  · rw [hf] at r'
    rcases r with r | r | r <;> rcases r' with r' | r' | r' <;> rw [r] at r'
    · exact Or.inl r'.symm
    · right; right; rw [r', t']
    · right; left; rw [r', t']
    · exact Or.inr (Or.inl r'.symm)
    · exact Or.inl (next_inj m wf _ _ lg lg' r').symm
    · right; right
      have := next_inj m wf _ _ lg ln' r'
      rw [this, t']
    · exact Or.inr (Or.inr r'.symm)
    · right; left
      exact (next_inj m wf _ _ ln lg' r').symm
    · left
      exact (next_inj m wf _ _ lg lg' (next_inj m wf _ _ ln ln' r')).symm
  · rw [hf] at r'
    rcases r with r | r | r <;> rcases r' with r' | r' <;> rw [r] at r'
    · exact Or.inl r'.symm
    · right; right
      exact (next_inj m wf _ _ lnn lg' (by rw [t, r'])).symm
    · exact Or.inr (Or.inl r'.symm)
    · exact Or.inl (next_inj m wf _ _ lg lg' r').symm
    · exact Or.inr (Or.inr r'.symm)
    · right; left
      exact (next_inj m wf _ _ ln lg' r').symm

/-- The live half-edges that name the face of a side of a two-sided face are
    its two sides. -/
theorem lensSide_same_face {m : Mesh} (wf : WellFormed m) (lt : TriLensMesh m) {g g' : Nat}
    (lg : hLive m g) (lg' : hLive m g') (tg : LensSide m g) (hf : m.hFace g' = m.hFace g) :
    g' = g ∨ g' = m.hNext g := by
  obtain ⟨t, -, r⟩ := tg
  have ln := (wf_next wf lg).1
  have ln' := (wf_next wf lg').1
  have lnn' := (wf_next wf ln').1
  rcases lt g' lg'.1 lg'.2 with tg' | ⟨t', -, r'⟩
  · left
    have t3' := tg'.1
    rcases triSide_same_face wf lt lg' lg tg' hf.symm with r1 | r1 | r1
    · exact r1.symm
    · have t3 : m.hNext (m.hNext (m.hNext g)) = g := by rw [r1, t3']
      rw [t] at t3
      rw [r1] at t3
      have := next_inj m wf _ _ ln' lg' t3
      rw [r1, this]
    · have t3 : m.hNext (m.hNext (m.hNext g)) = g := by rw [r1, t3']
      rw [t] at t3
      have q : m.hNext g = g' := by rw [r1, t3']
      exact q.symm.trans t3
  · rw [hf] at r'
    rcases r with r | r <;> rcases r' with r' | r' <;> rw [r] at r'
    · exact Or.inl r'.symm
    · right
      exact (next_inj m wf _ _ ln lg' (by rw [t, r'])).symm
    · exact Or.inr r'.symm
    · exact Or.inl (next_inj m wf _ _ lg lg' r').symm

/-- A mesh of triangles and two-sided faces without loop edges: no two
    half-edges of one face leave the same vertex. -/
theorem triLens_simpleFaces {m : Mesh} (hv : Valid m) (lt : TriLensMesh m) :
    SimpleFaces m := by
  have wf := hv.1
  intro g hg g' hg' eg eg' hf hvv
  have lg : hLive m g := ⟨hg, eg⟩
  have lg' : hLive m g' := ⟨hg', eg'⟩
  rcases lt g hg eg with tg | tg
  · rcases triSide_same_face wf lt lg lg' tg hf.symm with r | r | r
    · exact r.symm
    · exfalso
      have := hv.2.2 g hg eg
      rw [← (wf_next wf lg).2.2, ← r] at this
      exact this hvv.symm
    · exfalso
      have e1 : m.hNext g' = g := by rw [r]; exact tg.1
      have := hv.2.2 g' hg' eg'
      rw [← (wf_next wf lg').2.2, e1] at this
      exact this hvv
  · rcases lensSide_same_face wf lt lg lg' tg hf.symm with r | r
    · exact r.symm
    · exfalso
      have := hv.2.2 g hg eg
      rw [← (wf_next wf lg).2.2, ← r] at this
      exact this hvv.symm

/-- The two faces of a live edge of a mesh of triangles and two-sided faces,
    when the two half-edges of the edge are sides of triangles. -/
theorem triNbhd_local {m : Mesh} {e h0 h1 x1 y1 s a b f0 f1 w : Nat}
    (nb : EdgeNbhd m e h0 h1 x1 y1 s a b f0 f1) (hv : Valid m) (lt : TriLensMesh m)
    (t0 : TriSide m h0) (t1 : TriSide m h1)
    (lw : hLive m w) (n3 : m.hNext w = h1) :
    TriNbhd m h0 h1 x1 y1 s w a b f0 f1 := by
  have wf := hv.1
  have nl := hv.2.2
  have ny : m.hNext y1 = h0 := by
    have := t0.1
    rw [nb.n0, nb.n1] at this
    exact this
  have lns := (wf_next wf nb.ls).1
  have ns : m.hNext s = w := by
    have := t1.1
    rw [nb.n2] at this
    exact next_inj m wf _ _ lns lw (by rw [this, n3])
  obtain ⟨-, -, ox⟩ := wf_next wf nb.lx
  obtain ⟨-, -, oy⟩ := wf_next wf nb.ly
  obtain ⟨-, -, os⟩ := wf_next wf nb.ls
  obtain ⟨-, fww, ow⟩ := wf_next wf lw
  rw [nb.n1] at ox
  rw [ny, nb.va] at oy
  rw [ns] at os
  rw [n3, nb.vb] at ow
  rw [n3, nb.f1b] at fww
  have nlx := nl _ nb.lx.1 nb.lx.2
  have nly := nl _ nb.ly.1 nb.ly.2
  have nls := nl _ nb.ls.1 nb.ls.2
  have nlw := nl _ lw.1 lw.2
  rw [← ox, nb.vx] at nlx
  rw [← oy] at nly
  rw [← os, nb.vs] at nls
  rw [← ow] at nlw
  have x0 : x1 ≠ h0 := ne_of_f m.hVertex nb.vx nb.va nb.ab.symm
  have y0 : y1 ≠ h0 := ne_of_f m.hVertex rfl nb.va (Ne.symm nly)
  have xy : x1 ≠ y1 := ne_of_f m.hVertex nb.vx rfl (Ne.symm nlx)
  have exy : m.hEdge x1 ≠ m.hEdge y1 := by
    intro h
    rcases (wf_edge wf nb.lx).2.2 y1 nb.ly h.symm with r | r
    · exact xy r.symm
    · have := oy
      rw [r, (wf_twin wf nb.lx).2.2, nb.vx] at this
      exact nb.ab this
  refine ⟨ny, ns, exy, Ne.symm nly, nlx, nls, Ne.symm nlw, ox.symm, oy.symm, os.symm, ow.symm,
    fww.symm, ?_, ?_, x0, y0, xy, ne_of_f m.hVertex nb.vs nb.vb nb.ab, ?_, ?_⟩
  · intro g lg hf
    rcases triSide_same_face wf lt nb.l0 lg t0 (by rw [hf, nb.f0a]) with r | r | r
    · exact Or.inl r
    · exact Or.inr (Or.inl (by rw [r, nb.n0]))
    · exact Or.inr (Or.inr (by rw [r, nb.n0, nb.n1]))
  · intro g lg hf
    rcases triSide_same_face wf lt nb.l1 lg t1 (by rw [hf, nb.f1b]) with r | r | r
    · exact Or.inl r
    · exact Or.inr (Or.inl (by rw [r, nb.n2]))
    · exact Or.inr (Or.inr (by rw [r, nb.n2, ns]))
  · exact ne_of_f m.hVertex rfl nb.vb (Ne.symm nlw)
  · exact ne_of_f m.hVertex nb.vs rfl (Ne.symm nls)

/-- The two half-edges of an edge on which a collapse can succeed are sides of
    triangles. -/
theorem triSides_of_guard {m : Mesh} (wf : WellFormed m) (lt : TriLensMesh m) {h0 : Nat}
    (l0 : hLive m h0) (guard : m.hTwin h0 ≠ m.hNext h0) :
    TriSide m h0 ∧ TriSide m (m.hTwin h0) := by
  obtain ⟨l1, -, tt⟩ := wf_twin wf l0
  have a0 : TriSide m h0 := by
    rcases lt h0 l0.1 l0.2 with t | t
    · exact t
    · exact absurd t.2.1 guard
  refine ⟨a0, ?_⟩
  rcases lt _ l1.1 l1.2 with t | t
  · exact t
  · exfalso
    obtain ⟨c1, c2, -⟩ := t
    rw [tt] at c2
    -- `h0` follows its twin on a two-sided face, so its twin follows `h0`
    apply guard
    rw [← c2] at c1
    exact c1.symm

/-- Invariants 1 and 3 after the first merge of a collapse in a triangle mesh,
    on the half-edges and edges that the first call and the erase of `e`
    leave. -/
theorem collapse_sys1 {m : Mesh} {e h0 h1 x1 y1 s a b f0 f1 w : Nat}
    (nb : EdgeNbhd m e h0 h1 x1 y1 s a b f0 f1) (tn : TriNbhd m h0 h1 x1 y1 s w a b f0 f1)
    (wf : WellFormed m) :
    TwinEdgeOK (fun g => (hLive m g ∧ g ≠ h0 ∧ g ≠ h1) ∧ g ≠ x1 ∧ g ≠ y1)
      (fun k => (eLive m k ∧ k ≠ e) ∧ k ≠ m.hEdge x1)
      (mergeTwin m.hTwin true x1 y1) (mergeEdge m.hTwin m.hEdge true x1 y1)
      (mergeERep m.eHalfedge true (m.hEdge y1) (m.hTwin x1)) := by
  have s0 := twinEdgeOK_remove (twinEdgeOK_of_wf wf) nb.l0
  rw [nb.t0, nb.ed0] at s0
  exact twinEdgeOK_merge s0
    ⟨nb.lx, tn.x0, ne_of_f m.hFace nb.f0x nb.f1b nb.ff⟩
    ⟨nb.ly, tn.y0, ne_of_f m.hFace nb.f0y nb.f1b nb.ff⟩ tn.exy

/-- The sides `s` and `w` of the second triangle are among the half-edges the
    first merge leaves. -/
theorem collapse_sw1 {m : Mesh} {e h0 h1 x1 y1 s a b f0 f1 w : Nat}
    (nb : EdgeNbhd m e h0 h1 x1 y1 s a b f0 f1) (tn : TriNbhd m h0 h1 x1 y1 s w a b f0 f1)
    (lw : hLive m w) :
    ((hLive m s ∧ s ≠ h0 ∧ s ≠ h1) ∧ s ≠ x1 ∧ s ≠ y1) ∧
    ((hLive m w ∧ w ≠ h0 ∧ w ≠ h1) ∧ w ≠ x1 ∧ w ≠ y1) :=
  ⟨⟨⟨nb.ls, ne_of_f m.hFace nb.f1s nb.f0a nb.ff.symm, tn.s1⟩,
      ne_of_f m.hFace nb.f1s nb.f0x nb.ff.symm, ne_of_f m.hFace nb.f1s nb.f0y nb.ff.symm⟩,
    ⟨⟨lw, ne_of_f m.hFace tn.fw nb.f0a nb.ff.symm, tn.w1⟩,
      ne_of_f m.hFace tn.fw nb.f0x nb.ff.symm, ne_of_f m.hFace tn.fw nb.f0y nb.ff.symm⟩⟩

/-- Invariants 1 and 3 on the mesh a collapse leaves in a triangle mesh. -/
theorem collapse_twinEdge {m m' : Mesh} {e v h0 h1 x1 y1 s a b f0 f1 w : Nat} {A2 : Bool}
    (nb : EdgeNbhd m e h0 h1 x1 y1 s a b f0 f1)
    (cx : CollapseCtx m m' e v h0 h1 x1 y1 s w true A2)
    (rp : CollapseReps m m' v h0 h1 x1 y1 s w y1 true A2)
    (tn : TriNbhd m h0 h1 x1 y1 s w a b f0 f1) (wf : WellFormed m) :
    TwinEdgeOK (hLive m') (eLive m') m'.hTwin m'.hEdge m'.eHalfedge := by
  have s1 := collapse_sys1 nb tn wf
  obtain ⟨ps, pw⟩ := collapse_sw1 nb tn cx.lw
  rw [cx.twin, cx.edge, rp.erep]
  cases A2 with
  | false =>
    refine twinEdgeOK_congr s1 ?_ ?_
    · intro g
      rw [collapse_hlive cx g]
      simp
      tauto
    · intro k
      rw [collapse_elive cx k]
      simp
      tauto
  | true =>
    have e12 := (cx.c2.1 rfl).2
    have s2 := twinEdgeOK_merge s1 ps pw e12
    refine twinEdgeOK_congr s2 ?_ ?_
    · intro g
      rw [collapse_hlive cx g]
      simp
      tauto
    · intro k
      rw [collapse_elive cx k]
      simp
      tauto

/-- The twins of the two sides of a merged two-sided face: both stay, they are
    mutual twins after the merge, and the records of the two sides still name
    them. -/
theorem twinEdgeOK_outer {P Q : Nat → Prop} {T E R : Nat → Nat}
    (h : TwinEdgeOK P Q T E R) {x y : Nat} (px : P x) (py : P y) (exy : E x ≠ E y) :
    (P (T x) ∧ T x ≠ x ∧ T x ≠ y) ∧ (P (T y) ∧ T y ≠ x ∧ T y ≠ y) ∧
    mergeTwin T true x y (T x) = T y ∧ mergeTwin T true x y (T y) = T x ∧
    mergeTwin T true x y x = T x ∧ mergeTwin T true x y y = T y := by
  obtain ⟨h1, h2⟩ := h
  obtain ⟨ptx, tx1, tx2, qx, ex, prx⟩ := h1 x px
  obtain ⟨pty, ty1, ty2, qy, ey, pry⟩ := h1 y py
  have xy : x ≠ y := fun e => exy (by rw [e])
  have txy : T x ≠ T y := fun e => xy (by rw [← tx2, ← ty2, e])
  have txny : T x ≠ y := fun e => exy (by rw [← ex, e])
  have tynx : T y ≠ x := fun e => exy (by rw [← ey, e])
  refine ⟨⟨ptx, tx1, txny⟩, ⟨pty, tynx, ty1⟩, ?_, ?_, ?_, ?_⟩
  · simp [mergeTwin, upd_apply, txy]
  · simp [mergeTwin, upd_apply]
  · simp [mergeTwin, upd_apply, Ne.symm tx1, Ne.symm tynx]
  · simp [mergeTwin, upd_apply, Ne.symm ty1, Ne.symm txny]

theorem collapse_hlive_tri {m m' : Mesh} {e v h0 h1 x1 y1 s w : Nat} {A2 : Bool}
    (cx : CollapseCtx m m' e v h0 h1 x1 y1 s w true A2) (g : Nat) :
    hLive m' g ↔ (hLive m g ∧ g ≠ h0 ∧ g ≠ h1 ∧ g ≠ x1 ∧ g ≠ y1 ∧
      (A2 = true → g ≠ s ∧ g ≠ w)) := by
  rw [collapse_hlive cx g]
  simp
  tauto

/-- The merges of a collapse in a triangle mesh keep the vertex every half-edge
    ends at, read through the map that merges `a` and `b` into `v`. -/
theorem collapse_heads {m m' : Mesh} {e v h0 h1 x1 y1 s a b f0 f1 w : Nat} {A2 : Bool}
    (nb : EdgeNbhd m e h0 h1 x1 y1 s a b f0 f1)
    (cx : CollapseCtx m m' e v h0 h1 x1 y1 s w true A2)
    (tn : TriNbhd m h0 h1 x1 y1 s w a b f0 f1) (wf : WellFormed m) (g : Nat) :
    mergedVertex a b v (m.hVertex (mergeTwin m.hTwin true x1 y1 g)) =
      mergedVertex a b v (m.hVertex (m.hTwin g)) ∧
    mergedVertex a b v (m.hVertex (m'.hTwin g)) = mergedVertex a b v (m.hVertex (m.hTwin g)) := by
  have H1 : ∀ g, mergedVertex a b v (m.hVertex (mergeTwin m.hTwin true x1 y1 g)) =
      mergedVertex a b v (m.hVertex (m.hTwin g)) := by
    intro g
    refine merge_heads m.hTwin (fun g => mergedVertex a b v (m.hVertex g)) x1 y1
      (wf_twin wf nb.lx).2.2 (wf_twin wf nb.ly).2.2 ?_ ?_ g
    · show mergedVertex a b v (m.hVertex (m.hTwin x1)) = mergedVertex a b v (m.hVertex y1)
      rw [tn.vtx]
    · show mergedVertex a b v (m.hVertex (m.hTwin y1)) = mergedVertex a b v (m.hVertex x1)
      rw [tn.vty, nb.vx]; simp [mergedVertex]
  refine ⟨H1 g, ?_⟩
  rw [cx.twin]
  cases A2 with
  | false => exact H1 g
  | true =>
    have s1 := collapse_sys1 nb tn wf
    obtain ⟨ps, pw⟩ := collapse_sw1 nb tn cx.lw
    rw [← H1 g]
    refine merge_heads (mergeTwin m.hTwin true x1 y1) (fun g => mergedVertex a b v (m.hVertex g))
      s w (s1.1 s ps).2.2.1 (s1.1 w pw).2.2.1 ?_ ?_ g
    · show mergedVertex a b v (m.hVertex (mergeTwin m.hTwin true x1 y1 s)) =
        mergedVertex a b v (m.hVertex w)
      rw [H1 s, tn.vts]
    · show mergedVertex a b v (m.hVertex (mergeTwin m.hTwin true x1 y1 w)) =
        mergedVertex a b v (m.hVertex s)
      rw [H1 w, tn.vtw, nb.vs]; simp [mergedVertex]

/-- Invariant 2 on the mesh a collapse leaves in a triangle mesh. -/
theorem collapse_faceOK {m m' : Mesh} {e v h0 h1 x1 y1 s a b f0 f1 w : Nat} {A2 : Bool}
    (nb : EdgeNbhd m e h0 h1 x1 y1 s a b f0 f1)
    (cx : CollapseCtx m m' e v h0 h1 x1 y1 s w true A2)
    (rp : CollapseReps m m' v h0 h1 x1 y1 s w y1 true A2)
    (tn : TriNbhd m h0 h1 x1 y1 s w a b f0 f1) (wf : WellFormed m) (tm : TriLensMesh m) :
    FaceOK m' := by
  have HL := fun g => collapse_hlive_tri cx g
  have FL := fun f => collapse_flive cx f
  obtain ⟨ps, pw⟩ := collapse_sw1 nb tn cx.lw
  have nO : ∀ g, g ≠ y1 → g ≠ w → m'.hNext g = m.hNext g := by
    intro g p q; rw [rp.next]; simp [upd_apply, p, q]
  have nW : m'.hNext w = s := by rw [rp.next]; simp [upd_apply]
  have nS : m'.hNext s = w := by rw [nO s ps.2.2 tn.sw, tn.ns]
  have step : ∀ g, hLive m' g → g ≠ w → hLive m' (m.hNext g) ∧ m'.hNext g = m.hNext g := by
    intro g lg gw
    obtain ⟨l, g0, g1, gx, gy, g2⟩ := (HL g).1 lg
    refine ⟨(HL _).2 ⟨(wf_next wf l).1, ?_, ?_, ?_, ?_, ?_⟩, nO g gy gw⟩
    · intro h; exact gy (next_inj m wf _ _ l nb.ly (by rw [h, tn.ny]))
    · intro h; exact gw (next_inj m wf _ _ l cx.lw (by rw [h, cx.n3]))
    · intro h; exact g0 (next_inj m wf _ _ l nb.l0 (by rw [h, nb.n0]))
    · intro h; exact gx (next_inj m wf _ _ l nb.lx (by rw [h, nb.n1]))
    · intro a2
      refine ⟨?_, ?_⟩
      · intro h; exact g1 (next_inj m wf _ _ l nb.l1 (by rw [h, nb.n2]))
      · intro h; exact (g2 a2).1 (next_inj m wf _ _ l nb.ls (by rw [h, tn.ns]))
  have two : 2 < m'.nH := by
    rw [cx.cH]
    have := nb.l0.1
    have := nb.lx.1
    have := nb.ly.1
    have := tn.x0
    have := tn.y0
    have := tn.xy
    omega
  refine ⟨?_, ?_⟩
  · intro g hg eg
    have lg : hLive m' g := ⟨hg, eg⟩
    obtain ⟨l, g0, g1, gx, gy, g2⟩ := (HL g).1 lg
    have fg0 : m.hFace g ≠ f0 := by
      intro h
      rcases tn.on0 g l h with r | r | r
      exacts [g0 r, gx r, gy r]
    have fl : fLive m' (m'.hFace g) := by
      rw [cx.face]
      refine (FL _).2 ⟨(wf.2.1.1 g l.1 l.2).2.1, fun _ => by rw [nb.f0x]; exact fg0, fun a2 => ?_⟩
      rw [nb.f1s]
      intro h
      rcases tn.on1 g l h with r | r | r
      exacts [g1 r, (g2 a2).1 r, (g2 a2).2 r]
    by_cases gw : g = w
    · rw [gw] at lg ⊢
      have ls' : hLive m' s :=
        (HL s).2 ⟨ps.1.1, ps.1.2.1, ps.1.2.2, ps.2.1, ps.2.2, fun a2 => absurd gw (g2 a2).2⟩
      rw [gw] at fl
      refine ⟨by rw [nW]; exact ls', fl, by rw [cx.face, nW, nb.f1s, tn.fw], 1, by omega, ?_⟩
      show m'.hNext (m'.hNext w) = w
      rw [nW, nS]
    · obtain ⟨l1', e1⟩ := step g lg gw
      refine ⟨by rw [e1]; exact l1', fl, by rw [cx.face, e1]; exact (wf_next wf l).2.1, ?_⟩
      by_cases gs : g = s
      · refine ⟨1, by omega, ?_⟩
        show m'.hNext (m'.hNext g) = g
        rw [gs, nS, nW]
      · have n1w : m.hNext g ≠ w := fun h => gs (next_inj m wf _ _ l nb.ls (by rw [h, tn.ns]))
        obtain ⟨l2', e2⟩ := step _ l1' n1w
        rcases tm g l.1 l.2 with t3 | t2
        · have n2w : m.hNext (m.hNext g) ≠ w := by
            intro h
            have : m.hNext g = s := next_inj m wf _ _ (wf_next wf l).1 nb.ls (by rw [h, tn.ns])
            exact g1 (next_inj m wf _ _ l nb.l1 (by rw [this, nb.n2]))
          obtain ⟨l3', e3⟩ := step _ l2' n2w
          refine ⟨2, two, ?_⟩
          show m'.hNext (m'.hNext (m'.hNext g)) = g
          rw [e1, e2, e3]
          exact t3.1
        · refine ⟨1, by omega, ?_⟩
          show m'.hNext (m'.hNext g) = g
          rw [e1, e2]
          exact t2.1
  · intro f hf ef
    obtain ⟨l, c1, c2⟩ := (FL f).1 ⟨hf, ef⟩
    have ff0 : f ≠ f0 := by
      have := c1 rfl
      rwa [nb.f0x] at this
    rw [rp.frep, cx.face, nb.f0a, nb.f1b]
    by_cases ff1 : f = f1
    · have a2 : A2 = false := by
        cases hA : A2 with
        | false => rfl
        | true =>
          exfalso
          have := c2 hA
          rw [nb.f1s] at this
          exact this ff1
      have : upd (upd m.fHalfedge f0 x1) f1 s f = s := by simp [upd_apply, ff1]
      rw [this]
      exact ⟨(HL s).2 ⟨ps.1.1, ps.1.2.1, ps.1.2.2, ps.2.1, ps.2.2,
        fun h => by rw [a2] at h; exact Bool.noConfusion h⟩, by rw [nb.f1s, ff1]⟩
    · have : upd (upd m.fHalfedge f0 x1) f1 s f = m.fHalfedge f := by
        simp [upd_apply, ff0, ff1]
      rw [this]
      obtain ⟨lh, fh⟩ := wf.2.1.2 f l.1 l.2
      exact ⟨(HL _).2 ⟨lh, ne_of_f m.hFace fh nb.f0a ff0, ne_of_f m.hFace fh nb.f1b ff1,
        ne_of_f m.hFace fh nb.f0x ff0, ne_of_f m.hFace fh nb.f0y ff0,
        fun _ => ⟨ne_of_f m.hFace fh nb.f1s ff1, ne_of_f m.hFace fh tn.fw ff1⟩⟩, fh⟩

theorem collapse_vlive {m m' : Mesh} {e v h0 h1 x1 y1 s a b f0 f1 w z : Nat} {A1 A2 : Bool}
    (nb : EdgeNbhd m e h0 h1 x1 y1 s a b f0 f1)
    (cx : CollapseCtx m m' e v h0 h1 x1 y1 s w A1 A2)
    (rp : CollapseReps m m' v h0 h1 x1 y1 s w z A1 A2) (wf : WellFormed m) (p : Nat) :
    vLive m' p ↔ (p = v ∨ (vLive m p ∧ p ≠ a ∧ p ≠ b)) := by
  have la : vLive m a := by rw [← nb.va]; exact wf.2.2.2.1 h0 nb.l0.1 nb.l0.2
  have lb : vLive m b := by rw [← nb.vb]; exact wf.2.2.2.1 h1 nb.l1.1 nb.l1.2
  have hv := cx.vnew
  have la1 := la.1
  have lb1 := lb.1
  unfold vLive
  rw [rp.cV, rp.verased, nb.va, nb.vb]
  simp only [upd_apply]
  constructor
  · rintro ⟨q1, q2⟩
    by_cases pb : p = b
    · rw [if_pos pb] at q2; exact Bool.noConfusion q2
    · rw [if_neg pb] at q2
      by_cases pa : p = a
      · rw [if_pos pa] at q2; exact Bool.noConfusion q2
      · rw [if_neg pa] at q2
        by_cases pv : p = v
        · exact Or.inl pv
        · rw [if_neg pv] at q2
          exact Or.inr ⟨⟨by omega, q2⟩, pa, pb⟩
  · rintro (pv | ⟨⟨q1, q2⟩, pa, pb⟩)
    · have pb : p ≠ b := by omega
      have pa : p ≠ a := by omega
      rw [if_neg pb, if_neg pa, if_pos pv]
      exact ⟨by omega, rfl⟩
    · have pv : p ≠ v := by omega
      rw [if_neg pb, if_neg pa, if_neg pv]
      exact ⟨by omega, q2⟩

/-- Invariant 4, first half, and the orientation on the mesh a collapse leaves
    in a triangle mesh. -/
theorem collapse_vertexOK {m m' : Mesh} {e v h0 h1 x1 y1 s a b f0 f1 w : Nat} {A2 : Bool}
    (nb : EdgeNbhd m e h0 h1 x1 y1 s a b f0 f1)
    (cx : CollapseCtx m m' e v h0 h1 x1 y1 s w true A2)
    (rp : CollapseReps m m' v h0 h1 x1 y1 s w y1 true A2)
    (tn : TriNbhd m h0 h1 x1 y1 s w a b f0 f1) (wf : WellFormed m)
    (te : TwinEdgeOK (hLive m') (eLive m') m'.hTwin m'.hEdge m'.eHalfedge)
    (fo : FaceOK m') : VertexOK m' := by
  have HL := fun g => collapse_hlive_tri cx g
  have VL := fun p => collapse_vlive nb cx rp wf p
  obtain ⟨ps, pw⟩ := collapse_sw1 nb tn cx.lw
  have K : ∀ g, hLive m' g → m'.hVertex g = mergedVertex a b v (m.hVertex g) := by
    intro g lg
    obtain ⟨l, g0, g1, -⟩ := (HL g).1 lg
    have := cx.vert g l g0 g1
    rw [nb.va, nb.vb] at this
    exact this
  have la : vLive m a := by rw [← nb.va]; exact wf.2.2.2.1 h0 nb.l0.1 nb.l0.2
  have lb : vLive m b := by rw [← nb.vb]; exact wf.2.2.2.1 h1 nb.l1.1 nb.l1.2
  have hvn := cx.vnew
  have mv : ∀ p, (p = a ∨ p = b) → mergedVertex a b v p = v := fun p h => by
    simp [mergedVertex, h]
  have mo : ∀ p, p ≠ a → p ≠ b → mergedVertex a b v p = p := fun p h h' => by
    simp [mergedVertex, h, h']
  have s0 := twinEdgeOK_remove (twinEdgeOK_of_wf wf) nb.l0
  rw [nb.t0, nb.ed0] at s0
  have px : (hLive m x1 ∧ x1 ≠ h0 ∧ x1 ≠ h1) := ⟨nb.lx, tn.x0, ne_of_f m.hFace nb.f0x nb.f1b nb.ff⟩
  have py : (hLive m y1 ∧ y1 ≠ h0 ∧ y1 ≠ h1) := ⟨nb.ly, tn.y0, ne_of_f m.hFace nb.f0y nb.f1b nb.ff⟩
  obtain ⟨otx, oty, -⟩ := twinEdgeOK_outer s0 px py tn.exy
  have s1 := collapse_sys1 nb tn wf
  have nW : m'.hNext w = s := by rw [rp.next]; simp [upd_apply]
  have nO : ∀ g, g ≠ y1 → g ≠ w → m'.hNext g = m.hNext g := by
    intro g p q; rw [rp.next]; simp [upd_apply, p, q]
  refine ⟨?_, ?_, ?_⟩
  · intro g hg eg
    have lg : hLive m' g := ⟨hg, eg⟩
    obtain ⟨l, -⟩ := (HL g).1 lg
    rw [K g lg]
    by_cases c : m.hVertex g = a ∨ m.hVertex g = b
    · rw [mv _ c]; exact (VL _).2 (Or.inl rfl)
    · have ca : m.hVertex g ≠ a := fun h => c (Or.inl h)
      have cb : m.hVertex g ≠ b := fun h => c (Or.inr h)
      rw [mo _ ca cb]
      exact (VL _).2 (Or.inr ⟨wf.2.2.2.1 g l.1 l.2, ca, cb⟩)
  · intro p hp ep
    -- the half-edges the tables name
    have base : ∀ p, vLive m p → p ≠ a → p ≠ b → p ≠ m.hVertex y1 →
        (A2 = true → p ≠ m.hVertex w) →
        hLive m' (m.vHalfedge p) ∧ m'.hVertex (m.vHalfedge p) = p := by
      intro p lp pa pb pc pd
      obtain ⟨lh, vh⟩ := wf.2.2.2.2.1 p lp.1 lp.2
      have l' : hLive m' (m.vHalfedge p) :=
        (HL _).2 ⟨lh, ne_of_f m.hVertex vh nb.va pa, ne_of_f m.hVertex vh nb.vb pb,
          ne_of_f m.hVertex vh nb.vx pb, ne_of_f m.hVertex vh rfl pc,
          fun a2 => ⟨ne_of_f m.hVertex vh nb.vs pa, ne_of_f m.hVertex vh rfl (pd a2)⟩⟩
      exact ⟨l', by rw [K _ l', vh, mo _ pa pb]⟩
    have atx : (A2 = true → m.hVertex y1 ≠ m.hVertex w) →
        hLive m' (m.hTwin x1) ∧ m'.hVertex (m.hTwin x1) = m.hVertex y1 := by
      intro cd
      have l' : hLive m' (m.hTwin x1) :=
        (HL _).2 ⟨otx.1.1, otx.1.2.1, otx.1.2.2, otx.2.1, otx.2.2,
          fun a2 => ⟨ne_of_f m.hVertex tn.vtx nb.vs tn.vya, ne_of_f m.hVertex tn.vtx rfl (cd a2)⟩⟩
      exact ⟨l', by rw [K _ l', tn.vtx, mo _ tn.vya tn.vyb]⟩
    rw [rp.vrep, nb.vx]
    cases hA : A2 with
    | false =>
      rw [hA] at base atx
      simp only [mergeVRep, if_true, Bool.false_eq_true, if_false, upd_apply]
      have aty : hLive m' (m.hTwin y1) ∧ m'.hVertex (m.hTwin y1) = v := by
        have l' : hLive m' (m.hTwin y1) :=
          (HL _).2 ⟨oty.1.1, oty.1.2.1, oty.1.2.2, oty.2.1, oty.2.2,
            fun a2 => by rw [hA] at a2; exact Bool.noConfusion a2⟩
        exact ⟨l', by rw [K _ l', tn.vty, mv _ (Or.inl rfl)]⟩
      rcases (VL p).1 ⟨hp, ep⟩ with pv | ⟨lp, pa, pb⟩
      · rw [if_pos pv, pv]; exact aty
      · have pv : p ≠ v := by have := lp.1; omega
        rw [if_neg pv]
        by_cases pc : p = m.hVertex y1
        · rw [if_pos pc, pc]; exact atx (fun h => Bool.noConfusion h)
        · rw [if_neg pc, if_neg pb, if_neg pv]
          exact base p lp pa pb pc (fun h => Bool.noConfusion h)
    | true =>
      rw [hA] at base atx cx
      have e12 := (cx.c2.1 rfl).2
      obtain ⟨ots, otw, -⟩ := twinEdgeOK_outer s1 ps pw e12
      obtain ⟨hs1, -⟩ := collapse_heads nb cx tn wf s
      obtain ⟨hw1, -⟩ := collapse_heads nb cx tn wf w
      have ats : hLive m' (mergeTwin m.hTwin true x1 y1 s) ∧
          m'.hVertex (mergeTwin m.hTwin true x1 y1 s) = m.hVertex w := by
        have l' : hLive m' (mergeTwin m.hTwin true x1 y1 s) :=
          (HL _).2 ⟨ots.1.1.1, ots.1.1.2.1, ots.1.1.2.2, ots.1.2.1, ots.1.2.2,
            fun _ => ⟨ots.2.1, ots.2.2⟩⟩
        exact ⟨l', by rw [K _ l', hs1, tn.vts, mo _ tn.vwa tn.vwb]⟩
      have atw : hLive m' (mergeTwin m.hTwin true x1 y1 w) ∧
          m'.hVertex (mergeTwin m.hTwin true x1 y1 w) = v := by
        have l' : hLive m' (mergeTwin m.hTwin true x1 y1 w) :=
          (HL _).2 ⟨otw.1.1.1, otw.1.1.2.1, otw.1.1.2.2, otw.1.2.1, otw.1.2.2,
            fun _ => ⟨otw.2.1, otw.2.2⟩⟩
        exact ⟨l', by rw [K _ l', hw1, tn.vtw, mv _ (Or.inr rfl)]⟩
      simp only [mergeVRep, if_true, upd_apply]
      rcases (VL p).1 ⟨hp, ep⟩ with pv | ⟨lp, pa, pb⟩
      · rw [if_pos pv, pv]; exact atw
      · have pv : p ≠ v := by have := lp.1; omega
        rw [if_neg pv]
        by_cases pd : p = m.hVertex w
        · rw [if_pos pd, pd]; exact ats
        · rw [if_neg pd, if_neg pv, if_neg pv]
          by_cases pc : p = m.hVertex y1
          · rw [if_pos pc, pc]; exact atx (fun _ h => pd (by rw [pc, h]))
          · rw [if_neg pc, if_neg pb, if_neg pv]
            exact base p lp pa pb pc (fun _ => pd)
  · intro g hg eg
    have lg : hLive m' g := ⟨hg, eg⟩
    obtain ⟨l, g0, g1, gx, gy, g2⟩ := (HL g).1 lg
    have lt := (te.1 g lg).1
    have ln := (fo.1 g hg eg).1
    rw [K _ lt, K _ ln, (collapse_heads nb cx tn wf g).2]
    by_cases gw : g = w
    · rw [gw, nW, nb.vs, tn.vtw, mv _ (Or.inl rfl), mv _ (Or.inr rfl)]
    · rw [nO g gy gw, (wf_next wf l).2.2]

/-- On a well-formed mesh, two erased sides `x`, `y` of an erased face whose
    recorded twins are mutual twins form a merged two-sided face. -/
theorem twoGon_of_wf {m' : Mesh} (wf' : WellFormed m') (x y : Nat)
    (hx : m'.hErased x = true) (hy : m'.hErased y = true)
    (hf : m'.fErased (m'.hFace x) = true)
    (key : hLive m' (m'.hTwin x) → hLive m' (m'.hTwin y) →
      m'.hTwin (m'.hTwin x) = m'.hTwin y) :
    TwoGonMerged m' x y := by
  refine ⟨hx, hy, hf, ?_⟩
  intro lx ly
  have k := key lx ly
  obtain ⟨-, -, t2⟩ := wf_twin wf' lx
  obtain ⟨el, et, ep⟩ := wf_edge wf' lx
  obtain ⟨rl, re⟩ := wf'.2.2.1.2 _ el.1 el.2
  refine ⟨k, by rw [← k, t2], by rw [← k, et], el, ?_⟩
  rw [← k]
  exact ep _ rl re

/-- The mesh a collapse leaves in a triangle mesh is well-formed, and the
    two-sided faces it has removed are merged. -/
theorem collapse_tri_wf {m m' : Mesh} {e v h0 h1 x1 y1 s a b f0 f1 w : Nat} {A2 : Bool}
    (nb : EdgeNbhd m e h0 h1 x1 y1 s a b f0 f1)
    (cx : CollapseCtx m m' e v h0 h1 x1 y1 s w true A2)
    (rp : CollapseReps m m' v h0 h1 x1 y1 s w y1 true A2)
    (tn : TriNbhd m h0 h1 x1 y1 s w a b f0 f1) (wf : WellFormed m) (tm : TriLensMesh m) :
    WellFormed m' ∧ TwoGonMerged m' x1 y1 ∧
    (m.hTwin x1 ≠ w → m.hTwin y1 ≠ s →
      hLive m' (m'.hTwin x1) ∧ hLive m' (m'.hTwin y1)) ∧
    (m'.fErased f1 = true →
      TwoGonMerged m' s w ∧ hLive m' (m'.hTwin s) ∧ hLive m' (m'.hTwin w)) := by
  have te := collapse_twinEdge nb cx rp tn wf
  have fo := collapse_faceOK nb cx rp tn wf tm
  have vo := collapse_vertexOK nb cx rp tn wf te fo
  have wf' : WellFormed m' := by
    refine ⟨?_, fo, ⟨?_, ?_⟩, vo⟩
    · intro g hg eg
      obtain ⟨q1, q2, q3, -⟩ := te.1 g ⟨hg, eg⟩
      exact ⟨q1, q2, q3⟩
    · intro g hg eg
      obtain ⟨-, -, -, q4, q5, q6⟩ := te.1 g ⟨hg, eg⟩
      exact ⟨q4, q5, fun g' hg' eg' => q6 g' ⟨hg', eg'⟩⟩
    · intro k hk ek
      exact te.2 k ⟨hk, ek⟩
  have HL := fun g => collapse_hlive_tri cx g
  have FL := fun f => collapse_flive cx f
  obtain ⟨ps, pw⟩ := collapse_sw1 nb tn cx.lw
  have dead : ∀ g, hLive m g → ¬ hLive m' g → m'.hErased g = true := by
    intro g l nl
    cases hh : m'.hErased g with
    | true => rfl
    | false => exact absurd ⟨by rw [cx.cH]; exact l.1, hh⟩ nl
  have fdead : ∀ f, fLive m f → ¬ fLive m' f → m'.fErased f = true := by
    intro f l nl
    cases hh : m'.fErased f with
    | true => rfl
    | false => exact absurd ⟨by rw [cx.cF]; exact l.1, hh⟩ nl
  have s0 := twinEdgeOK_remove (twinEdgeOK_of_wf wf) nb.l0
  rw [nb.t0, nb.ed0] at s0
  have px : (hLive m x1 ∧ x1 ≠ h0 ∧ x1 ≠ h1) := ⟨nb.lx, tn.x0, ne_of_f m.hFace nb.f0x nb.f1b nb.ff⟩
  have py : (hLive m y1 ∧ y1 ≠ h0 ∧ y1 ≠ h1) := ⟨nb.ly, tn.y0, ne_of_f m.hFace nb.f0y nb.f1b nb.ff⟩
  obtain ⟨otx, oty, t1x, t1y, t1xx, t1yy⟩ := twinEdgeOK_outer s0 px py tn.exy
  have s1 := collapse_sys1 nb tn wf
  have lf0 : fLive m f0 := by rw [← nb.f0a]; exact (wf.2.1.1 h0 nb.l0.1 nb.l0.2).2.1
  have lf1 : fLive m f1 := by rw [← nb.f1b]; exact (wf.2.1.1 h1 nb.l1.1 nb.l1.2).2.1
  have txy' : m'.hTwin x1 = m.hTwin x1 ∧ m'.hTwin y1 = m.hTwin y1 ∧
      (hLive m' (m.hTwin x1) → hLive m' (m.hTwin y1) → m'.hTwin (m.hTwin x1) = m.hTwin y1) := by
    rw [cx.twin]
    cases hA : A2 with
    | false =>
      refine ⟨t1xx, t1yy, fun _ _ => t1x⟩
    | true =>
      rw [hA] at cx
      have e12 := (cx.c2.1 rfl).2
      obtain ⟨ots, otw, t2s, t2w, -, -⟩ := twinEdgeOK_outer s1 ps pw e12
      have o : ∀ g, g ≠ mergeTwin m.hTwin true x1 y1 s → g ≠ mergeTwin m.hTwin true x1 y1 w →
          mergeTwin (mergeTwin m.hTwin true x1 y1) true s w g =
            mergeTwin m.hTwin true x1 y1 g := by
        intro g p q
        simp only [mergeTwin, if_true, upd_apply] at p q ⊢
        rw [if_neg q, if_neg p]
      have x1s : x1 ≠ mergeTwin m.hTwin true x1 y1 s := fun h => ots.1.2.1 h.symm
      have x1w : x1 ≠ mergeTwin m.hTwin true x1 y1 w := fun h => otw.1.2.1 h.symm
      have y1s : y1 ≠ mergeTwin m.hTwin true x1 y1 s := fun h => ots.1.2.2 h.symm
      have y1w : y1 ≠ mergeTwin m.hTwin true x1 y1 w := fun h => otw.1.2.2 h.symm
      refine ⟨by rw [o x1 x1s x1w, t1xx], by rw [o y1 y1s y1w, t1yy], ?_⟩
      intro lx ly
      have hy2 := ((HL _).1 ly).2.2.2.2.2 hA
      have i1 := (s1.1 s ps).2.2.1
      have i2 := (s1.1 w pw).2.2.1
      have n1 : m.hTwin x1 ≠ mergeTwin m.hTwin true x1 y1 s := by
        intro h
        have := congrArg (mergeTwin m.hTwin true x1 y1) h
        rw [t1x, i1] at this
        exact hy2.1 this
      have n2 : m.hTwin x1 ≠ mergeTwin m.hTwin true x1 y1 w := by
        intro h
        have := congrArg (mergeTwin m.hTwin true x1 y1) h
        rw [t1x, i2] at this
        exact hy2.2 this
      rw [o _ n1 n2, t1x]
  obtain ⟨tx', ty', tk⟩ := txy'
  refine ⟨wf', ?_, ?_, ?_⟩
  · refine twoGon_of_wf wf' x1 y1 (dead _ nb.lx fun h => ((HL _).1 h).2.2.2.1 rfl)
      (dead _ nb.ly fun h => ((HL _).1 h).2.2.2.2.1 rfl) ?_ ?_
    · rw [cx.face, nb.f0x]
      exact fdead _ lf0 fun h => ((FL _).1 h).2.1 rfl (by rw [nb.f0x])
    · rw [tx', ty']
      exact tk
  · intro xw ys
    rw [tx', ty']
    exact ⟨(HL _).2 ⟨otx.1.1, otx.1.2.1, otx.1.2.2, otx.2.1, otx.2.2,
        fun _ => ⟨ne_of_f m.hVertex tn.vtx nb.vs tn.vya, xw⟩⟩,
      (HL _).2 ⟨oty.1.1, oty.1.2.1, oty.1.2.2, oty.2.1, oty.2.2,
        fun _ => ⟨ys, ne_of_f m.hVertex tn.vty rfl (Ne.symm tn.vwa)⟩⟩⟩
  · intro hf1
    have a2 : A2 = true := by
      cases hA : A2 with
      | true => rfl
      | false =>
        exfalso
        have : fLive m' f1 := (FL f1).2 ⟨lf1, fun _ => by rw [nb.f0x]; exact nb.ff.symm,
          fun h => by rw [hA] at h; exact Bool.noConfusion h⟩
        rw [this.2] at hf1
        exact Bool.noConfusion hf1
    rw [a2] at cx
    have HL := fun g => collapse_hlive_tri cx g
    have e12 := (cx.c2.1 rfl).2
    obtain ⟨ots, otw, t2s, t2w, t2ss, t2ww⟩ := twinEdgeOK_outer s1 ps pw e12
    have ts : m'.hTwin s = mergeTwin m.hTwin true x1 y1 s := by rw [cx.twin, t2ss]
    have tw : m'.hTwin w = mergeTwin m.hTwin true x1 y1 w := by rw [cx.twin, t2ww]
    have l1' : hLive m' (m'.hTwin s) := by
      rw [ts]
      exact (HL _).2 ⟨ots.1.1.1, ots.1.1.2.1, ots.1.1.2.2, ots.1.2.1, ots.1.2.2,
        fun _ => ⟨ots.2.1, ots.2.2⟩⟩
    have l2' : hLive m' (m'.hTwin w) := by
      rw [tw]
      exact (HL _).2 ⟨otw.1.1.1, otw.1.1.2.1, otw.1.1.2.2, otw.1.2.1, otw.1.2.2,
        fun _ => ⟨otw.2.1, otw.2.2⟩⟩
    refine ⟨twoGon_of_wf wf' s w (dead _ nb.ls fun h => (((HL _).1 h).2.2.2.2.2 rfl).1 rfl)
      (dead _ cx.lw fun h => (((HL _).1 h).2.2.2.2.2 rfl).2 rfl) ?_ ?_, l1', l2'⟩
    · rw [cx.face, nb.f1s]; exact hf1
    · intro _ _
      rw [ts, tw, cx.twin, t2s]

/-- C11: on a triangle mesh that satisfies the invariants 1 to 5 (every live
    half-edge is one of the three sides of the face it names), when
    `collapse_edge` returns a vertex for a live edge `e`, the live part of the
    mesh it leaves is well-formed again: every live element refers to live
    elements only, `twin` is an involution, every `next` cycle is closed and
    stays on its face, and every live vertex stores a half-edge that
    originates at it.  The two-sided face left of the first triangle of `e` is
    removed, and the twins of its two sides, when both are live, are mutual
    twins on one live edge that stores one of them; both are live when neither
    is a side of the second triangle.  The same holds for the second triangle
    when its face is marked erased, and there the two twins are always
    live. -/
theorem collapse_edge_well_formed (dbg : Bool) (m m' : Mesh) (e v : Nat)
    (hv : Valid m) (tm : TriangleMesh m) (he : eLive m e)
    (hc : collapse_edge dbg m e = some (some v, m')) :
    WellFormed m' ∧
    TwoGonMerged m' (m.hNext (m.eHalfedge e)) (m.hNext (m.hNext (m.eHalfedge e))) ∧
    (m.hTwin (m.hNext (m.eHalfedge e)) ≠ m.hNext (m.hNext (m.hTwin (m.eHalfedge e))) →
      m.hTwin (m.hNext (m.hNext (m.eHalfedge e))) ≠ m.hNext (m.hTwin (m.eHalfedge e)) →
      hLive m' (m'.hTwin (m.hNext (m.eHalfedge e))) ∧
      hLive m' (m'.hTwin (m.hNext (m.hNext (m.eHalfedge e))))) ∧
    (m'.fErased (m.hFace (m.hTwin (m.eHalfedge e))) = true →
      TwoGonMerged m' (m.hNext (m.hTwin (m.eHalfedge e)))
        (m.hNext (m.hNext (m.hTwin (m.eHalfedge e)))) ∧
      hLive m' (m'.hTwin (m.hNext (m.hTwin (m.eHalfedge e)))) ∧
      hLive m' (m'.hTwin (m.hNext (m.hNext (m.hTwin (m.eHalfedge e)))))) := by
  have sf := triangleMesh_simpleFaces hv tm
  obtain ⟨w, z, A1, A2, nb, cx, rp⟩ := collapse_full dbg m m' e v hv sf he hc
  have tn := triNbhd_of nb hv tm cx.lw cx.n3
  have a1 : A1 = true := cx.c1.2 ⟨tn.ny, tn.exy⟩
  have zy : z = m.hNext (m.hNext (m.eHalfedge e)) :=
    next_inj m hv.1 _ _ rp.lz nb.ly (by rw [rp.n4, tn.ny])
  subst a1
  subst zy
  have := collapse_tri_wf nb cx rp tn hv.1 (triLens_of_triangle tm)
  rw [tn.ns]
  exact this

/-- Witness for C11: the tetrahedron satisfies the hypotheses, and collapsing
    its edge 0, whose triangles have the further sides 1, 2 and 4, 5, returns
    the new vertex 4. -/
theorem collapse_edge_well_formed_witness :
    Valid tetra ∧ TriangleMesh tetra ∧ eLive tetra 0 ∧
    ∃ m', collapse_edge true tetra 0 = some (some 4, m') ∧ WellFormed m' ∧
      TwoGonMerged m' 1 2 ∧
      (tetra.hTwin 1 ≠ 5 → tetra.hTwin 2 ≠ 4 →
        hLive m' (m'.hTwin 1) ∧ hLive m' (m'.hTwin 2)) ∧
      (m'.fErased 1 = true →
        TwoGonMerged m' 4 5 ∧ hLive m' (m'.hTwin 4) ∧ hLive m' (m'.hTwin 5)) :=
  ⟨by decide, by decide, by decide, _, rfl,
    collapse_edge_well_formed true tetra _ 0 4 (by decide) (by decide) (by decide) rfl⟩

/-- C21: `loop_subdivide` on the tetrahedron, a triangle mesh with six edges,
    returns the mesh it was given: no vertex is added (the count stays 4) and
    no position is overwritten.  The same holds on every mesh. -/
theorem loop_subdivide_does_nothing :
    loop_subdivide tetra = tetra ∧ (loop_subdivide tetra).nV = 4 ∧ tetra.nE = 6 ∧
    TriangleMesh tetra ∧ ∀ m : Mesh, loop_subdivide m = m :=
  ⟨rfl, rfl, rfl, by decide, fun _ => rfl⟩

/-- C22: on every mesh, so on every mesh with a face that is not a triangle,
    `isotropic_remesh` returns `false` and the mesh after the call is the mesh
    before it. -/
theorem isotropic_remesh_declines (m : Mesh) : isotropic_remesh m = (false, m) := rfl

theorem edge_record_fields (lib : VecLib) (m : Mesh) (vq : Nat → Option Mat4) (e : Nat) :
    (Edge_Record.create lib m vq e).1.edge = e ∧
    (Edge_Record.create lib m vq e).1.optimal = m.center e ∧
    (Edge_Record.create lib m vq e).1.cost =
      quadForm (edgeQuadric lib m vq e) ⟨(m.center e).x, (m.center e).y, (m.center e).z, 1⟩ := by
  refine ⟨rfl, ?_, ?_⟩
  · simp only [Edge_Record.create, ite_self]
  · simp only [Edge_Record.create, ite_self, Vec4.dot, quadForm]
    ring

/-- C30: for every mesh, every edge `e`, every assignment of vertex quadrics
    and every behaviour of the library's matrix inverse and validity test, the
    record `Edge_Record(vertex_quadrics, e)` has `optimal` equal to the midpoint
    of the positions of the two endpoints of `e`, and its `cost` is `xᵗ K x`
    for `x = (optimal, 1)` and `K` the sum of the quadrics of the two
    endpoints. -/
theorem edge_record_midpoint_cost (lib : VecLib) (m : Mesh) (vq : Nat → Option Mat4)
    (e : Nat) :
    (Edge_Record.create lib m vq e).1.optimal =
      Vec3.smul (1 / 2) (Vec3.add (m.vPos (m.hVertex (m.eHalfedge e)))
        (m.vPos (m.hVertex (m.hTwin (m.eHalfedge e))))) ∧
    (Edge_Record.create lib m vq e).1.cost =
      quadForm (Mat4.add (quadricAt lib vq (m.hVertex (m.eHalfedge e)))
          (quadricAt lib vq (m.hVertex (m.hTwin (m.eHalfedge e)))))
        ⟨(Edge_Record.create lib m vq e).1.optimal.x,
          (Edge_Record.create lib m vq e).1.optimal.y,
          (Edge_Record.create lib m vq e).1.optimal.z, 1⟩ := by
  obtain ⟨-, h2, h3⟩ := edge_record_fields lib m vq e
  refine ⟨by rw [h2]; rfl, ?_⟩
  rw [h3, h2]
  rfl

/-- C23: on the tetrahedron with the quadric of the squared distance to the
    origin at every vertex, the combined quadric `K` of edge 0 (between the
    vertices at `(0,0,0)` and `(1,1,1)`) has the top-left block `2·I`, which is
    not singular, and `xᵗ K x = 2 |x|²` is least at the origin only; the record
    of the edge, for every behaviour of the library's inverse and validity
    test, has `optimal = (1/2, 1/2, 1/2)`, the midpoint, with cost `3/2`. -/
theorem edge_record_not_minimiser (lib : VecLib) :
    (Edge_Record.create lib tetra
      (fun _ => some ⟨⟨1, 0, 0, 0⟩, ⟨0, 1, 0, 0⟩, ⟨0, 0, 1, 0⟩, ⟨0, 0, 0, 0⟩⟩) 0).1 =
      ⟨0, ⟨1 / 2, 1 / 2, 1 / 2⟩, 3 / 2⟩ ∧
    edgeQuadric lib tetra
      (fun _ => some ⟨⟨1, 0, 0, 0⟩, ⟨0, 1, 0, 0⟩, ⟨0, 0, 1, 0⟩, ⟨0, 0, 0, 0⟩⟩) 0 =
      ⟨⟨2, 0, 0, 0⟩, ⟨0, 2, 0, 0⟩, ⟨0, 0, 2, 0⟩, ⟨0, 0, 0, 0⟩⟩ ∧
    (∀ p : Vec3, quadForm ⟨⟨2, 0, 0, 0⟩, ⟨0, 2, 0, 0⟩, ⟨0, 0, 2, 0⟩, ⟨0, 0, 0, 0⟩⟩
        ⟨p.x, p.y, p.z, 1⟩ = 0 ↔ p = ⟨0, 0, 0⟩) ∧
    (∀ p : Vec3, 0 ≤ quadForm ⟨⟨2, 0, 0, 0⟩, ⟨0, 2, 0, 0⟩, ⟨0, 0, 2, 0⟩, ⟨0, 0, 0, 0⟩⟩
        ⟨p.x, p.y, p.z, 1⟩) := by
  have K : edgeQuadric lib tetra
      (fun _ => some ⟨⟨1, 0, 0, 0⟩, ⟨0, 1, 0, 0⟩, ⟨0, 0, 1, 0⟩, ⟨0, 0, 0, 0⟩⟩) 0 =
      ⟨⟨2, 0, 0, 0⟩, ⟨0, 2, 0, 0⟩, ⟨0, 0, 2, 0⟩, ⟨0, 0, 0, 0⟩⟩ := by
    simp only [edgeQuadric, quadricAt, Option.getD_some, Mat4.add, Vec4.add]
    norm_num
  have F : ∀ p : Vec3, quadForm ⟨⟨2, 0, 0, 0⟩, ⟨0, 2, 0, 0⟩, ⟨0, 0, 2, 0⟩, ⟨0, 0, 0, 0⟩⟩
      ⟨p.x, p.y, p.z, 1⟩ = 2 * (p.x * p.x + p.y * p.y + p.z * p.z) := by
    intro p
    simp only [quadForm]
    ring
  have C : tetra.center 0 = ⟨1 / 2, 1 / 2, 1 / 2⟩ := by
    simp only [Mesh.center, tetra, tbl, List.getD_cons_zero, List.getD_cons_succ, Vec3.add,
      Vec3.smul]
    norm_num
  obtain ⟨h1, h2, h3⟩ := edge_record_fields lib tetra
    (fun _ => some ⟨⟨1, 0, 0, 0⟩, ⟨0, 1, 0, 0⟩, ⟨0, 0, 1, 0⟩, ⟨0, 0, 0, 0⟩⟩) 0
  refine ⟨?_, K, ?_, ?_⟩
  · rw [K, C] at h3
    rw [C] at h2
    have := F ⟨1 / 2, 1 / 2, 1 / 2⟩
    simp only at this
    rw [this] at h3
    have e3 : (Edge_Record.create lib tetra
      (fun _ => some ⟨⟨1, 0, 0, 0⟩, ⟨0, 1, 0, 0⟩, ⟨0, 0, 1, 0⟩, ⟨0, 0, 0, 0⟩⟩) 0).1.cost = 3 / 2 := by
      rw [h3]; norm_num
    cases hr : (Edge_Record.create lib tetra
      (fun _ => some ⟨⟨1, 0, 0, 0⟩, ⟨0, 1, 0, 0⟩, ⟨0, 0, 1, 0⟩, ⟨0, 0, 0, 0⟩⟩) 0).1 with
    | mk ed op co =>
      rw [hr] at h1 h2 e3
      simp only at h1 h2 e3
      rw [h1, h2, e3]
  · intro p
    rw [F p]
    constructor
    · intro h
      have hx : p.x = 0 := by nlinarith [mul_self_nonneg p.x, mul_self_nonneg p.y, mul_self_nonneg p.z]
      have hy : p.y = 0 := by nlinarith [mul_self_nonneg p.x, mul_self_nonneg p.y, mul_self_nonneg p.z]
      have hz : p.z = 0 := by nlinarith [mul_self_nonneg p.x, mul_self_nonneg p.y, mul_self_nonneg p.z]
      cases p
      simp only at hx hy hz
      rw [hx, hy, hz]
    · intro h
      rw [h]; norm_num
  · intro p
    rw [F p]
    nlinarith [mul_self_nonneg p.x, mul_self_nonneg p.y, mul_self_nonneg p.z]

theorem recLt_iff (lib : VecLib) (r1 r2 : Edge_Record) :
    Edge_Record.lt lib r1 r2 = true ↔
      (r1.cost < r2.cost ∨ (r1.cost = r2.cost ∧ lib.addr r1.edge < lib.addr r2.edge)) := by
  unfold Edge_Record.lt
  by_cases h : r1.cost = r2.cost
  · simp [h]
  · simp [h]

theorem recLt_irrefl (lib : VecLib) (r : Edge_Record) : Edge_Record.lt lib r r = false := by
  cases h : Edge_Record.lt lib r r with
  | false => rfl
  | true =>
    rcases (recLt_iff lib r r).1 h with c | ⟨-, c⟩
    · exact absurd c (lt_irrefl _)
    · exact absurd c (lt_irrefl _)

theorem recLt_trans (lib : VecLib) {r1 r2 r3 : Edge_Record}
    (h12 : Edge_Record.lt lib r1 r2 = true) (h23 : Edge_Record.lt lib r2 r3 = true) :
    Edge_Record.lt lib r1 r3 = true := by
  rw [recLt_iff] at h12 h23 ⊢
  rcases h12 with a | ⟨a, a'⟩ <;> rcases h23 with b | ⟨b, b'⟩
  · exact Or.inl (lt_trans a b)
  · exact Or.inl (by rw [← b]; exact a)
  · exact Or.inl (by rw [a]; exact b)
  · exact Or.inr ⟨a.trans b, lt_trans a' b'⟩

theorem recLt_asymm (lib : VecLib) {r1 r2 : Edge_Record}
    (h12 : Edge_Record.lt lib r1 r2 = true) : Edge_Record.lt lib r2 r1 = false := by
  cases h : Edge_Record.lt lib r2 r1 with
  | false => rfl
  | true =>
    have := recLt_trans lib h12 h
    rw [recLt_irrefl] at this
    exact Bool.noConfusion this

theorem recLt_total (lib : VecLib) (inj : Function.Injective lib.addr) (r1 r2 : Edge_Record)
    (h : r1.cost ≠ r2.cost ∨ r1.edge ≠ r2.edge) :
    Edge_Record.lt lib r1 r2 = true ∨ Edge_Record.lt lib r2 r1 = true := by
  rw [recLt_iff, recLt_iff]
  rcases lt_trichotomy r1.cost r2.cost with c | c | c
  · exact Or.inl (Or.inl c)
  · have he : r1.edge ≠ r2.edge := by
      rcases h with h | h
      · exact absurd c h
      · exact h
    have ha : lib.addr r1.edge ≠ lib.addr r2.edge := fun e => he (inj e)
    rcases Nat.lt_or_gt_of_ne ha with a | a
    · exact Or.inl (Or.inr ⟨c, a⟩)
    · exact Or.inr (Or.inr ⟨c.symm, a⟩)
  · exact Or.inr (Or.inl c)

/-- Two records are equivalent for the set, neither below the other, exactly
    when they have the same cost and the same edge. -/
theorem recLt_equiv (lib : VecLib) (inj : Function.Injective lib.addr) (r1 r2 : Edge_Record) :
    (Edge_Record.lt lib r1 r2 = false ∧ Edge_Record.lt lib r2 r1 = false) ↔
      (r1.cost = r2.cost ∧ r1.edge = r2.edge) := by
  constructor
  · rintro ⟨a, b⟩
    by_contra hne
    have : r1.cost ≠ r2.cost ∨ r1.edge ≠ r2.edge := by
      by_cases c : r1.cost = r2.cost
      · exact Or.inr (fun e => hne ⟨c, e⟩)
      · exact Or.inl c
    rcases recLt_total lib inj r1 r2 this with t | t
    · rw [a] at t; exact Bool.noConfusion t
    · rw [b] at t; exact Bool.noConfusion t
  · rintro ⟨c, e⟩
    constructor
    · cases h : Edge_Record.lt lib r1 r2 with
      | false => rfl
      | true =>
        rcases (recLt_iff lib r1 r2).1 h with t | ⟨-, t⟩
        · rw [c] at t; exact absurd t (lt_irrefl _)
        · rw [e] at t; exact absurd t (lt_irrefl _)
    · cases h : Edge_Record.lt lib r2 r1 with
      | false => rfl
      | true =>
        rcases (recLt_iff lib r2 r1).1 h with t | ⟨-, t⟩
        · rw [c] at t; exact absurd t (lt_irrefl _)
        · rw [e] at t; exact absurd t (lt_irrefl _)

theorem pqueue_mem_insert (lib : VecLib) (r : Edge_Record) (q : List Edge_Record) (x : Edge_Record)
    (hx : x ∈ PQueue.insert lib r q) : x = r ∨ x ∈ q := by
  induction q with
  | nil =>
    simp only [PQueue.insert, List.mem_singleton] at hx
    exact Or.inl hx
  | cons r0 q ih =>
    simp only [PQueue.insert] at hx
    split_ifs at hx with c1 c2
    · rcases List.mem_cons.1 hx with h | h
      · exact Or.inl h
      · exact Or.inr h
    · rcases List.mem_cons.1 hx with h | h
      · exact Or.inr (by rw [h]; exact List.mem_cons_self _ _)
      · rcases ih h with h' | h'
        · exact Or.inl h'
        · exact Or.inr (List.mem_cons_of_mem _ h')
    · exact Or.inr hx

theorem pqueue_insert_sorted (lib : VecLib) (r : Edge_Record) (q : List Edge_Record)
    (hs : PQueue.Sorted lib q) : PQueue.Sorted lib (PQueue.insert lib r q) := by
  induction q with
  | nil => simp [PQueue.insert, PQueue.Sorted]
  | cons r0 q ih =>
    unfold PQueue.Sorted at hs ih ⊢
    obtain ⟨h0, hq⟩ := List.pairwise_cons.1 hs
    simp only [PQueue.insert]
    split_ifs with c1 c2
    · refine List.pairwise_cons.2 ⟨?_, hs⟩
      intro x hx
      rcases List.mem_cons.1 hx with h | h
      · rw [h]; exact c1
      · exact recLt_trans lib c1 (h0 x h)
    · refine List.pairwise_cons.2 ⟨?_, ih hq⟩
      intro x hx
      rcases pqueue_mem_insert lib r q x hx with h | h
      · rw [h]; exact c2
      · exact h0 x h
    · exact hs

theorem pqueue_mem_insert_self (lib : VecLib) (r : Edge_Record) (q : List Edge_Record)
    (hn : ∀ x ∈ q, Edge_Record.lt lib r x = true ∨ Edge_Record.lt lib x r = true) :
    r ∈ PQueue.insert lib r q ∧ ∀ x ∈ q, x ∈ PQueue.insert lib r q := by
  induction q with
  | nil => simp [PQueue.insert]
  | cons r0 q ih =>
    obtain ⟨i1, i2⟩ := ih (fun x hx => hn x (List.mem_cons_of_mem _ hx))
    simp only [PQueue.insert]
    split_ifs with c1 c2
    · exact ⟨List.mem_cons_self _ _, fun x hx => List.mem_cons_of_mem _ hx⟩
    · refine ⟨List.mem_cons_of_mem _ i1, ?_⟩
      intro x hx
      rcases List.mem_cons.1 hx with h | h
      · rw [h]; exact List.mem_cons_self _ _
      · exact List.mem_cons_of_mem _ (i2 x h)
    · rcases hn r0 (List.mem_cons_self _ _) with h | h
      · exact absurd h c1
      · exact absurd h c2

theorem pqueue_remove_absent (lib : VecLib) (r : Edge_Record) (q : List Edge_Record)
    (hn : ∀ x ∈ q, Edge_Record.lt lib r x = true ∨ Edge_Record.lt lib x r = true) :
    PQueue.remove lib r q = q := by
  unfold PQueue.remove
  rw [List.filter_eq_self]
  intro x hx
  rcases hn x hx with h | h
  · rw [h]; simp
  · rw [h]; simp

theorem pqueue_insert_remove (lib : VecLib) (r : Edge_Record) (q : List Edge_Record)
    (hn : ∀ x ∈ q, Edge_Record.lt lib r x = true ∨ Edge_Record.lt lib x r = true) :
    PQueue.remove lib r (PQueue.insert lib r q) = q := by
  induction q with
  | nil =>
    simp [PQueue.insert, PQueue.remove, recLt_irrefl]
  | cons r0 q ih =>
    have ihq := ih (fun x hx => hn x (List.mem_cons_of_mem _ hx))
    have rest := pqueue_remove_absent lib r (r0 :: q) hn
    simp only [PQueue.insert]
    split_ifs with c1 c2
    · unfold PQueue.remove at rest ⊢
      rw [List.filter_cons, recLt_irrefl]
      simp only [Bool.or_self, Bool.false_eq_true, if_false]
      exact rest
    · unfold PQueue.remove at ihq ⊢
      rw [List.filter_cons, c2]
      simp only [Bool.true_or, if_true]
      rw [ihq]
    · rcases hn r0 (List.mem_cons_self _ _) with h | h
      · exact absurd h c1
      · exact absurd h c2

theorem pqueue_remove_sorted (lib : VecLib) (r : Edge_Record) (q : List Edge_Record)
    (hs : PQueue.Sorted lib q) : PQueue.Sorted lib (PQueue.remove lib r q) :=
  List.Pairwise.sublist (List.filter_sublist _) hs

theorem pqueue_mem_remove (lib : VecLib) (r : Edge_Record) (q : List Edge_Record)
    (x : Edge_Record) :
    x ∈ PQueue.remove lib r q ↔
      (x ∈ q ∧ (Edge_Record.lt lib x r = true ∨ Edge_Record.lt lib r x = true)) := by
  unfold PQueue.remove
  rw [List.mem_filter]
  simp

/-- C24: when different edges have different addresses, `operator<` on edge
    records is irreflexive and transitive, any two records that differ in cost
    or in edge are comparable, and a record of lower cost comes first.  On a
    queue, whose elements the set keeps in increasing order: a non-empty queue
    has a top, which is an element below every other element, `pop` removes
    that element and nothing else; `insert` of a record whose cost and edge no
    element of the queue has, followed by `remove` of the same record, gives
    the queue back; `remove` of such a record leaves the queue as it is; and
    `insert`, `remove` and `pop` keep the elements in increasing order. -/
theorem pqueue_order_and_operations (lib : VecLib) (inj : Function.Injective lib.addr) :
    (∀ r, Edge_Record.lt lib r r = false) ∧
    (∀ r1 r2 r3, Edge_Record.lt lib r1 r2 = true → Edge_Record.lt lib r2 r3 = true →
      Edge_Record.lt lib r1 r3 = true) ∧
    (∀ r1 r2 : Edge_Record, (r1.cost ≠ r2.cost ∨ r1.edge ≠ r2.edge) →
      Edge_Record.lt lib r1 r2 = true ∨ Edge_Record.lt lib r2 r1 = true) ∧
    (∀ r1 r2 : Edge_Record, r1.cost < r2.cost → Edge_Record.lt lib r1 r2 = true) ∧
    (∀ q, PQueue.Sorted lib q → q ≠ [] →
      ∃ r, PQueue.top q = some r ∧ r ∈ q ∧
        (∀ x ∈ q, x = r ∨ Edge_Record.lt lib r x = true) ∧
        q = r :: PQueue.pop q ∧ r ∉ PQueue.pop q ∧ PQueue.Sorted lib (PQueue.pop q)) ∧
    (∀ q r, (∀ x ∈ q, x.cost ≠ r.cost ∨ x.edge ≠ r.edge) →
      PQueue.remove lib r (PQueue.insert lib r q) = q ∧ PQueue.remove lib r q = q) ∧
    (∀ q r, PQueue.Sorted lib q →
      PQueue.Sorted lib (PQueue.insert lib r q) ∧ PQueue.Sorted lib (PQueue.remove lib r q)) := by
  refine ⟨recLt_irrefl lib, fun _ _ _ => recLt_trans lib, recLt_total lib inj,
    fun r1 r2 h => (recLt_iff lib r1 r2).2 (Or.inl h), ?_, ?_,
    fun q r hs => ⟨pqueue_insert_sorted lib r q hs, pqueue_remove_sorted lib r q hs⟩⟩
  · intro q hs hne
    cases q with
    | nil => exact absurd rfl hne
    | cons r q =>
      unfold PQueue.Sorted at hs
      obtain ⟨h0, hq⟩ := List.pairwise_cons.1 hs
      refine ⟨r, rfl, List.mem_cons_self _ _, ?_, rfl, ?_, hq⟩
      · intro x hx
        rcases List.mem_cons.1 hx with h | h
        · exact Or.inl h
        · exact Or.inr (h0 x h)
      · intro hin
        have := h0 r hin
        rw [recLt_irrefl] at this
        exact Bool.noConfusion this
  · intro q r hn
    have hn' : ∀ x ∈ q, Edge_Record.lt lib r x = true ∨ Edge_Record.lt lib x r = true := by
      intro x hx
      rcases hn x hx with h | h
      · exact recLt_total lib inj r x (Or.inl (Ne.symm h))
      · exact recLt_total lib inj r x (Or.inr (Ne.symm h))
    exact ⟨pqueue_insert_remove lib r q hn', pqueue_remove_absent lib r q hn'⟩

/-- Witness for C24: with the edge handles as addresses, inserting the record
    of edge 1 with cost 2 into the queue that holds the record of edge 0 with
    cost 1 and removing it again gives that queue back. -/
theorem pqueue_order_and_operations_witness :
    Function.Injective plainLib.addr ∧
    PQueue.remove plainLib ⟨1, Vec3.zero, 2⟩
      (PQueue.insert plainLib ⟨1, Vec3.zero, 2⟩ [⟨0, Vec3.zero, 1⟩]) = [⟨0, Vec3.zero, 1⟩] :=
  ⟨fun _ _ h => h,
    ((pqueue_order_and_operations plainLib (fun _ _ h => h)).2.2.2.2.2.1 [⟨0, Vec3.zero, 1⟩]
      ⟨1, Vec3.zero, 2⟩ (by
        intro x hx
        rw [List.mem_singleton] at hx
        rw [hx]
        exact Or.inr (by decide))).1⟩

/-- Counterexample for C24: the queue that holds one record `r` is in order;
    `insert` of `r`, which the set already has, changes nothing, and the
    `remove` of `r` that follows leaves the empty queue, not the queue before
    the two calls. -/
theorem pqueue_insert_remove_counterexample :
    PQueue.Sorted plainLib [⟨0, Vec3.zero, 0⟩] ∧
    PQueue.insert plainLib ⟨0, Vec3.zero, 0⟩ [⟨0, Vec3.zero, 0⟩] = [⟨0, Vec3.zero, 0⟩] ∧
    PQueue.remove plainLib ⟨0, Vec3.zero, 0⟩
      (PQueue.insert plainLib ⟨0, Vec3.zero, 0⟩ [⟨0, Vec3.zero, 0⟩]) = [] ∧
    PQueue.remove plainLib ⟨0, Vec3.zero, 0⟩
      (PQueue.insert plainLib ⟨0, Vec3.zero, 0⟩ [⟨0, Vec3.zero, 0⟩]) ≠ [⟨0, Vec3.zero, 0⟩] := by
  have h : Edge_Record.lt plainLib ⟨0, Vec3.zero, 0⟩ ⟨0, Vec3.zero, 0⟩ = false :=
    recLt_irrefl plainLib _
  refine ⟨by simp [PQueue.Sorted], ?_, ?_, ?_⟩
  · simp [PQueue.insert, h]
  · simp [PQueue.insert, PQueue.remove, h]
  · simp [PQueue.insert, PQueue.remove, h]

/-- The `next` table after a split, at the twelve half-edges of the four
    triangles. -/
theorem split_next_at {m : Mesh} {e p1 p2 p3 p4 p5 p6 q1 q2 v1 v2 v3 v4 : Nat}
    (X : SplitCtx m e p1 p2 p3 p4 p5 p6 q1 q2 v1 v2 v3 v4) :
    (splitRewire m e).2.hNext p1 = m.nH ∧ (splitRewire m e).2.hNext m.nH = p3 ∧
    (splitRewire m e).2.hNext p3 = p1 ∧
    (splitRewire m e).2.hNext p2 = m.nH + 1 ∧ (splitRewire m e).2.hNext (m.nH + 1) = m.nH + 2 ∧
    (splitRewire m e).2.hNext (m.nH + 2) = p2 ∧
    (splitRewire m e).2.hNext p4 = m.nH + 3 ∧ (splitRewire m e).2.hNext (m.nH + 3) = p6 ∧
    (splitRewire m e).2.hNext p6 = p4 ∧
    (splitRewire m e).2.hNext p5 = m.nH + 4 ∧ (splitRewire m e).2.hNext (m.nH + 4) = m.nH + 5 ∧
    (splitRewire m e).2.hNext (m.nH + 5) = p5 := by
  have b1 := X.l1.1
  have b2 := X.l2.1
  have b3 := X.l3.1
  have b4 := X.l4.1
  have b5 := X.l5.1
  have b6 := X.l6.1
  have := X.n12; have := X.n13; have := X.n14; have := X.n15; have := X.n16
  have := X.n23; have := X.n24; have := X.n25; have := X.n26
  have := X.n34; have := X.n35; have := X.n36
  have := X.n45; have := X.n46; have := X.n56
  refine ⟨?_, ?_, ?_, ?_, ?_, ?_, ?_, ?_, ?_, ?_, ?_, ?_⟩ <;>
    (rw [split_next X]; (repeat (first | rw [if_pos (by omega)] | rw [if_neg (by omega)])))

/-- The `twin` table after a split, at the four half-edges that leave the new
    vertex. -/
theorem split_twin_at {m : Mesh} {e p1 p2 p3 p4 p5 p6 q1 q2 v1 v2 v3 v4 : Nat}
    (X : SplitCtx m e p1 p2 p3 p4 p5 p6 q1 q2 v1 v2 v3 v4) :
    (splitRewire m e).2.hTwin (m.nH + 5) = p1 ∧ (splitRewire m e).2.hTwin m.nH = m.nH + 1 ∧
    (splitRewire m e).2.hTwin (m.nH + 2) = p4 ∧
    (splitRewire m e).2.hTwin (m.nH + 3) = m.nH + 4 := by
  refine ⟨?_, ?_, ?_, ?_⟩ <;>
    (rw [split_twin X]; (repeat (first | rw [if_pos (by omega)] | rw [if_neg (by omega)])))

/-- The origins after a split, at the twelve half-edges of the four
    triangles. -/
theorem split_vertex_at {m : Mesh} {e p1 p2 p3 p4 p5 p6 q1 q2 v1 v2 v3 v4 : Nat}
    (X : SplitCtx m e p1 p2 p3 p4 p5 p6 q1 q2 v1 v2 v3 v4) :
    (∀ h, h < m.nH → (splitRewire m e).2.hVertex h = m.hVertex h) ∧
    (splitRewire m e).2.hVertex m.nH = m.nV ∧ (splitRewire m e).2.hVertex (m.nH + 1) = v3 ∧
    (splitRewire m e).2.hVertex (m.nH + 2) = m.nV ∧
    (splitRewire m e).2.hVertex (m.nH + 3) = m.nV ∧
    (splitRewire m e).2.hVertex (m.nH + 4) = v4 ∧
    (splitRewire m e).2.hVertex (m.nH + 5) = m.nV := by
  refine ⟨?_, ?_, ?_, ?_, ?_, ?_, ?_⟩
  · intro h hh
    rw [split_vertex X]
    repeat (first | rw [if_pos (by omega)] | rw [if_neg (by omega)])
  all_goals (rw [split_vertex X]; (repeat (first | rw [if_pos (by omega)] | rw [if_neg (by omega)])))

/-- A face other than the two faces of the split edge keeps its half-edge
    cycle and its vertex cycle. -/
theorem split_other_face {m : Mesh} {e p1 p2 p3 p4 p5 p6 q1 q2 v1 v2 v3 v4 : Nat}
    (X : SplitCtx m e p1 p2 p3 p4 p5 p6 q1 q2 v1 v2 v3 v4) (pre : SplitPre m e)
    (f : Nat) (fl : fLive m f) (f1 : f ≠ q1) (f2 : f ≠ q2) :
    faceHalfedges (splitRewire m e).2 f = faceHalfedges m f ∧
    faceVertices (splitRewire m e).2 f = faceVertices m f := by
  have wf := X.wf
  obtain ⟨n, c⟩ := faceCyc_exists m wf f fl
  obtain ⟨-, -, rf⟩ := split_reps X
  have fn := fl.1
  have fh : (splitRewire m e).2.fHalfedge f = m.fHalfedge f := by
    rw [rf]
    rw [if_neg (by omega), if_neg (by omega), if_neg f2, if_neg f1]
  have nx : ∀ x, hLive m x → m.hFace x = f → (splitRewire m e).2.hNext x = m.hNext x := by
    intro x lx fx
    have b := lx.1
    have a1 : x ≠ p1 := ne_of_f m.hFace fx X.fa1 f1
    have a2 : x ≠ p2 := ne_of_f m.hFace fx X.fa2 f1
    have a3 : x ≠ p3 := ne_of_f m.hFace fx X.fa3 f1
    have a4 : x ≠ p4 := ne_of_f m.hFace fx X.fa4 f2
    have a5 : x ≠ p5 := ne_of_f m.hFace fx X.fa5 f2
    have a6 : x ≠ p6 := ne_of_f m.hFace fx X.fa6 f2
    rw [split_next X]
    rw [if_neg (by omega), if_neg (by omega), if_neg (by omega), if_neg (by omega),
      if_neg (by omega), if_neg (by omega), if_neg a6, if_neg a5, if_neg a4, if_neg a3,
      if_neg a2, if_neg a1]
  have it : ∀ i, faceH (splitRewire m e).2 f i = faceH m f i := by
    intro i
    induction i with
    | zero => exact fh
    | succ i ih =>
      rw [faceH_succ, faceH_succ, ih]
      exact nx _ (faceH_live c i).1 (faceH_live c i).2
  have c' : FaceCyc (splitRewire m e).2 f n := by
    refine ⟨split_wf m e pre, ((split_live m e).2.2.2 f).2 (Or.inl fl), c.pos, ?_, ?_⟩
    · rw [it, it]; exact c.per
    · intro i h0 hn
      rw [it, it]; exact c.min i h0 hn
  rw [faceHalfedges_eq c', faceHalfedges_eq c, faceVertices_eq c', faceVertices_eq c]
  refine ⟨?_, ?_⟩
  · apply List.map_congr_left
    intro i _
    exact it i
  · apply List.map_congr_left
    intro i _
    rw [it]
    exact (split_vertex_at X).1 _ (faceH_live c i).1.1

/-- A face whose half-edge cycle has three members has their three origins as
    its vertices. -/
theorem faceVertices_three (M : Mesh) (f a b c : Nat) (fh : M.fHalfedge f = a)
    (n1 : M.hNext a = b) (n2 : M.hNext b = c) (n3 : M.hNext c = a) (ba : b ≠ a) (ca : c ≠ a)
    (fuel : 3 ≤ M.nH) : faceVertices M f = [M.hVertex a, M.hVertex b, M.hVertex c] := by
  have cy := cycleFrom_three M a b c M.nH n1 n2 n3 ba ca fuel
  unfold faceVertices faceHalfedges
  rw [fh, cy]
  rfl

/-- A fan that closes after four steps. -/
theorem vertexFan_four (M : Mesh) (v a b c d : Nat) (vh : M.vHalfedge v = a)
    (s1 : fanStep M a = b) (s2 : fanStep M b = c) (s3 : fanStep M c = d)
    (s4 : fanStep M d = a) (ba : b ≠ a) (ca : c ≠ a) (da : d ≠ a) (fuel : 4 ≤ M.nH) :
    vertexFan M v = [a, b, c, d] := by
  obtain ⟨k, hk⟩ : ∃ k, M.nH = k + 4 := ⟨M.nH - 4, by omega⟩
  unfold vertexFan
  rw [vh, hk, fanFrom, s1, if_neg ba, fanFrom, s2, if_neg ca, fanFrom, s3, if_neg da, fanFrom,
    s4, if_pos rfl]

/-- The four triangles and the fan of the new vertex after a split, with the
    names of `SplitCtx`. -/
theorem split_four_ctx {m : Mesh} {e p1 p2 p3 p4 p5 p6 q1 q2 v1 v2 v3 v4 : Nat}
    (X : SplitCtx m e p1 p2 p3 p4 p5 p6 q1 q2 v1 v2 v3 v4) :
    faceVertices (splitRewire m e).2 q1 = [v1, m.nV, v3] ∧
    faceVertices (splitRewire m e).2 q2 = [v2, v3, m.nV] ∧
    faceVertices (splitRewire m e).2 m.nF = [v2, m.nV, v4] ∧
    faceVertices (splitRewire m e).2 (m.nF + 1) = [v1, v4, m.nV] ∧
    vertexFan (splitRewire m e).2 m.nV = [m.nH + 5, m.nH, m.nH + 2, m.nH + 3] ∧
    [(splitRewire m e).2.hVertex ((splitRewire m e).2.hTwin (m.nH + 5)),
      (splitRewire m e).2.hVertex ((splitRewire m e).2.hTwin m.nH),
      (splitRewire m e).2.hVertex ((splitRewire m e).2.hTwin (m.nH + 2)),
      (splitRewire m e).2.hVertex ((splitRewire m e).2.hTwin (m.nH + 3))] = [v1, v3, v2, v4] ∧
    (∀ h, hLive (splitRewire m e).2 h → (splitRewire m e).2.hVertex h = m.nV →
      h = m.nH + 5 ∨ h = m.nH ∨ h = m.nH + 2 ∨ h = m.nH + 3) := by
  have wf := X.wf
  have b1 := X.l1.1
  have b2 := X.l2.1
  have b3 := X.l3.1
  have b4 := X.l4.1
  have b5 := X.l5.1
  have b6 := X.l6.1
  have q1n : q1 < m.nF := by rw [← X.fa1]; exact (wf.2.1.1 _ X.l1.1 X.l1.2).2.1.1
  have q2n : q2 < m.nF := by rw [← X.fa4]; exact (wf.2.1.1 _ X.l4.1 X.l4.2).2.1.1
  have v3n : v3 < m.nV := by rw [← X.ve3]; exact (wf.2.2.2.1 _ X.l3.1 X.l3.2).1
  have v4n : v4 < m.nV := by rw [← X.ve6]; exact (wf.2.2.2.1 _ X.l6.1 X.l6.2).1
  have hq := X.hq
  have d13 := X.n13
  have d46 := X.n46
  have e1 : m.nH ≠ p1 := by omega
  have e2 : m.nH + 1 ≠ p2 := by omega
  have e3 : m.nH + 2 ≠ p2 := by omega
  have e4 : m.nH + 3 ≠ p4 := by omega
  have e5 : m.nH + 4 ≠ p5 := by omega
  have e6 : m.nH + 5 ≠ p5 := by omega
  have g1 : m.nH ≠ m.nH + 5 := by omega
  have g2 : m.nH + 2 ≠ m.nH + 5 := by omega
  have g3 : m.nH + 3 ≠ m.nH + 5 := by omega
  have r1 : ¬ (q1 = m.nF + 1) := by omega
  have r2 : ¬ (q1 = m.nF) := by omega
  have r3 : ¬ (q2 = m.nF + 1) := by omega
  have r4 : ¬ (q2 = m.nF) := by omega
  have r5 : ¬ (m.nF = m.nF + 1) := by omega
  obtain ⟨n1, n2, n3, n4, n5, n6, n7, n8, n9, n10, n11, n12⟩ := split_next_at X
  obtain ⟨t5, t0, t2, t3⟩ := split_twin_at X
  obtain ⟨vo, w0, w1, w2, w3, w4, w5⟩ := split_vertex_at X
  obtain ⟨rv, -, rf⟩ := split_reps X
  obtain ⟨cV, cE, cH, cF⟩ := splitRewire_counts m e
  have sl := (split_live m e).1
  have u1 := (vo _ b1).trans X.ve1
  have u2 := (vo _ b2).trans X.ve2
  have u3 := (vo _ b3).trans X.ve3
  have u4 := (vo _ b4).trans X.ve4
  have u5 := (vo _ b5).trans X.ve5
  have u6 := (vo _ b6).trans X.ve6
  have fuel3 : 3 ≤ (splitRewire m e).2.nH := by rw [cH]; exact Nat.le_add_left _ _
  have fuel4 : 4 ≤ (splitRewire m e).2.nH := by rw [cH]; exact Nat.le_add_left _ _
  have fh1 : (splitRewire m e).2.fHalfedge q1 = p1 := by
    rw [rf, if_neg r1, if_neg r2, if_neg hq, if_pos rfl]
  have fh2 : (splitRewire m e).2.fHalfedge q2 = p2 := by
    rw [rf, if_neg r3, if_neg r4, if_pos rfl]
  have fh3 : (splitRewire m e).2.fHalfedge m.nF = p4 := by
    rw [rf, if_neg r5, if_pos rfl]
  have fh4 : (splitRewire m e).2.fHalfedge (m.nF + 1) = p5 := by
    rw [rf, if_pos rfl]
  have vh : (splitRewire m e).2.vHalfedge m.nV = m.nH + 5 := by
    rw [rv, if_pos rfl]
  refine ⟨?_, ?_, ?_, ?_, ?_, ?_, ?_⟩
  · rw [faceVertices_three _ q1 p1 m.nH p3 fh1 n1 n2 n3 e1 (Ne.symm d13) fuel3, u1, w0, u3]
  · rw [faceVertices_three _ q2 p2 (m.nH + 1) (m.nH + 2) fh2 n4 n5 n6 e2 e3 fuel3, u2, w1, w2]
  · rw [faceVertices_three _ m.nF p4 (m.nH + 3) p6 fh3 n7 n8 n9 e4 (Ne.symm d46) fuel3, u4, w3,
      u6]
  · rw [faceVertices_three _ (m.nF + 1) p5 (m.nH + 4) (m.nH + 5) fh4 n10 n11 n12 e5 e6 fuel3,
      u5, w4, w5]
  · refine vertexFan_four _ m.nV _ _ _ _ vh ?_ ?_ ?_ ?_ g1 g2 g3 fuel4
    · unfold fanStep; rw [t5, n1]
    · unfold fanStep; rw [t0, n5]
    · unfold fanStep; rw [t2, n7]
    · unfold fanStep; rw [t3, n11]
  · rw [t5, t0, t2, t3, u1, w1, u4, w4]
  · intro h lh hv
    have hb := lh.1
    rw [cH] at hb
    by_cases lo : h < m.nH
    · exfalso
      have l : hLive m h := by
        rcases (sl h).1 lh with l | l
        · exact l
        · exact absurd lo (Nat.not_lt.2 l.1)
      have := (wf.2.2.2.1 h l.1 l.2).1
      rw [vo _ lo] at hv
      clear n1 n2 n3 n4 n5 n6 n7 n8 n9 n10 n11 n12 t5 t0 t2 t3 w0 w1 w2 w3 w4 w5 u1 u2 u3 u4 u5 u6
      omega
    · have c1 : h ≠ m.nH + 1 := by
        intro hh
        rw [hh, w1] at hv
        exact absurd hv (Nat.ne_of_lt v3n)
      have c4 : h ≠ m.nH + 4 := by
        intro hh
        rw [hh, w4] at hv
        exact absurd hv (Nat.ne_of_lt v4n)
      clear n1 n2 n3 n4 n5 n6 n7 n8 n9 n10 n11 n12 t5 t0 t2 t3 w0 w1 w2 w3 w4 w5 u1 u2 u3 u4 u5 u6
      omega

/-- C29: on a well-formed mesh, for a live edge `e` from `v1` to `v2` between
    two different faces of three sides, `(v1, v2, v3)` and `(v2, v1, v4)`,
    `split_edge` returns the new vertex `nV`; afterwards the two face records
    of `e` and the two new face records have the vertex cycles `(v1, nV, v3)`,
    `(v2, v3, nV)`, `(v2, nV, v4)` and `(v1, v4, nV)`, the live faces are the
    faces that were live and the two new ones, every other live face keeps its
    vertex cycle, the walk around the new vertex visits exactly four
    half-edges, which lead to `v1`, `v3`, `v2`, `v4` and are all the live
    half-edges that leave it, and the position of the new vertex is the
    midpoint of the positions of `v1` and `v2`. -/
theorem split_edge_four_triangles (m : Mesh) (e : Nat) (pre : SplitPre m e) :
    ∃ m', split_edge m e = (some m.nV, m') ∧
      m.hVertex (m.hNext (m.eHalfedge e)) = m.hVertex (m.hTwin (m.eHalfedge e)) ∧
      m.hVertex (m.hNext (m.hTwin (m.eHalfedge e))) = m.hVertex (m.eHalfedge e) ∧
      faceVertices m' (m.hFace (m.eHalfedge e)) =
        [m.hVertex (m.eHalfedge e), m.nV, m.hVertex (m.hNext (m.hNext (m.eHalfedge e)))] ∧
      faceVertices m' (m.hFace (m.hTwin (m.eHalfedge e))) =
        [m.hVertex (m.hTwin (m.eHalfedge e)), m.hVertex (m.hNext (m.hNext (m.eHalfedge e))),
          m.nV] ∧
      faceVertices m' m.nF =
        [m.hVertex (m.hTwin (m.eHalfedge e)), m.nV,
          m.hVertex (m.hNext (m.hNext (m.hTwin (m.eHalfedge e))))] ∧
      faceVertices m' (m.nF + 1) =
        [m.hVertex (m.eHalfedge e), m.hVertex (m.hNext (m.hNext (m.hTwin (m.eHalfedge e)))),
          m.nV] ∧
      (∀ f, fLive m' f ↔ (fLive m f ∨ f = m.nF ∨ f = m.nF + 1)) ∧
      (∀ f, fLive m f → f ≠ m.hFace (m.eHalfedge e) → f ≠ m.hFace (m.hTwin (m.eHalfedge e)) →
        faceVertices m' f = faceVertices m f) ∧
      vertexFan m' m.nV = [m.nH + 5, m.nH, m.nH + 2, m.nH + 3] ∧
      (vertexFan m' m.nV).map (fun h => m'.hVertex (m'.hTwin h)) =
        [m.hVertex (m.eHalfedge e), m.hVertex (m.hNext (m.hNext (m.eHalfedge e))),
          m.hVertex (m.hTwin (m.eHalfedge e)),
          m.hVertex (m.hNext (m.hNext (m.hTwin (m.eHalfedge e))))] ∧
      (∀ h, hLive m' h → m'.hVertex h = m.nV → h ∈ vertexFan m' m.nV) ∧
      m'.vPos m.nV =
        Vec3.smul (1 / 2) (Vec3.add (m.vPos (m.hVertex (m.eHalfedge e)))
          (m.vPos (m.hVertex (m.hTwin (m.eHalfedge e))))) := by
  have X := splitCtx_of_pre pre
  have dec : splitDeclines m e = false := by
    obtain ⟨-, -, ⟨t0, -⟩, ⟨t1, -⟩, -⟩ := pre
    simp [splitDeclines, t0, t1]
  obtain ⟨g1, g2, g3, g4, g5, g6, g7⟩ := split_four_ctx X
  refine ⟨(splitRewire m e).2, split_edge_ok m e dec, X.ve2, X.ve5, g1, g2, g3, g4, ?_,
    fun f fl f1 f2 => (split_other_face X pre f fl f1 f2).2, g5, ?_, ?_,
    (split_new_vertex_fields m e).2.2.2.2⟩
  · intro f
    rw [(split_live m e).2.2.2 f]
    constructor
    · rintro (h | h)
      · exact Or.inl h
      · right; omega
    · rintro (h | h | h)
      · exact Or.inl h
      · right; omega
      · right; omega
  · rw [g5]
    exact g6
  · intro h lh hv
    rw [g5]
    simp only [List.mem_cons, List.mem_singleton, List.mem_nil_iff, or_false]
    exact g7 h lh hv

/-- Witness for C29: edge 0 of the tetrahedron lies between the faces
    `(0, 1, 2)` and `(1, 0, 3)`; the split returns vertex 4 and leaves the
    faces `(0, 4, 2)`, `(1, 2, 4)`, `(1, 4, 3)` and `(0, 3, 4)`. -/
theorem split_edge_four_triangles_witness :
    SplitPre tetra 0 ∧
    ∃ m', split_edge tetra 0 = (some 4, m') ∧
      faceVertices m' 0 = [0, 4, 2] ∧ faceVertices m' 1 = [1, 2, 4] ∧
      faceVertices m' 4 = [1, 4, 3] ∧ faceVertices m' 5 = [0, 3, 4] := by
  obtain ⟨m', h0, -, -, h1, h2, h3, h4, -⟩ :=
    split_edge_four_triangles tetra 0 (by unfold SplitPre; decide)
  exact ⟨by unfold SplitPre; decide, m', h0, h1, h2, h3, h4⟩

/-- Counting over one more index. -/
theorem countP_range_succ (p : Nat → Bool) (n : Nat) :
    (List.range (n + 1)).countP p = (List.range n).countP p + (if p n = true then 1 else 0) := by
  rw [List.range_succ, List.countP_append]
  simp [List.countP_cons]

/-- Two predicates that agree below `n` count the same. -/
theorem countP_range_congr (p q : Nat → Bool) (n : Nat) (h : ∀ i, i < n → p i = q i) :
    (List.range n).countP p = (List.range n).countP q := by
  induction n with
  | zero => rfl
  | succ n ih =>
    rw [countP_range_succ, countP_range_succ, ih (fun i hi => h i (Nat.lt_succ_of_lt hi)),
      h n (Nat.lt_succ_self n)]

/-- Leaving out one counted index lowers the count by one. -/
theorem countP_range_remove (p : Nat → Bool) (n a : Nat) (ha : a < n) (pa : p a = true) :
    (List.range n).countP (fun i => p i && decide (i ≠ a)) + 1 = (List.range n).countP p := by
  induction n with
  | zero => omega
  | succ n ih =>
    rw [countP_range_succ, countP_range_succ]
    by_cases h : a = n
    · subst h
      have : (List.range a).countP (fun i => p i && decide (i ≠ a)) = (List.range a).countP p := by
        apply countP_range_congr
        intro i hi
        have : i ≠ a := by omega
        simp [this]
      rw [this]
      simp [pa]
    · have := ih (by omega)
      have hn : n ≠ a := fun h' => h h'.symm
      simp only [hn, ne_eq, not_false_eq_true, decide_True, Bool.and_true]
      simp only [ne_eq] at this
      omega

/-- Tombstoning the distinct live records of the list `l` lowers the count by
    the length of `l`. -/
theorem liveCount_remove (n : Nat) (er er' : Nat → Bool) (l : List Nat) (nd : l.Nodup)
    (hl : ∀ a ∈ l, a < n ∧ er a = false)
    (h : ∀ i, i < n → (er' i = false ↔ (er i = false ∧ i ∉ l))) :
    liveCount n er' + l.length = liveCount n er := by
  induction l generalizing er' with
  | nil =>
    unfold liveCount
    rw [countP_range_congr _ (fun i => !er i) n]
    · rfl
    · intro i hi
      have := h i hi
      simp only [List.not_mem_nil, not_false_eq_true, and_true] at this
      cases h1 : er' i <;> cases h2 : er i <;> simp_all
  | cons a l ih =>
    have nd' := (List.nodup_cons.1 nd)
    have step : (List.range n).countP (fun i => !(er i || decide (i ∈ l))) + l.length =
        (List.range n).countP (fun i => !er i) :=
      ih (fun i => er i || decide (i ∈ l)) nd'.2
      (fun b hb => hl b (List.mem_cons_of_mem _ hb))
      (fun i hi => by
        cases h2 : er i <;> simp [h2])
    have ha := hl a (List.mem_cons_self _ _)
    have rem : (List.range n).countP (fun i => !(er i || decide (i ∈ l)) && decide (i ≠ a)) + 1 =
        (List.range n).countP (fun i => !(er i || decide (i ∈ l))) :=
      countP_range_remove (fun i => !(er i || decide (i ∈ l))) n a ha.1
        (by simp [ha.2, nd'.1])
    have eq : liveCount n er' =
        (List.range n).countP (fun i => !(er i || decide (i ∈ l)) && decide (i ≠ a)) := by
      show (List.range n).countP (fun i => !er' i) = _
      apply countP_range_congr
      intro i hi
      have := h i hi
      rw [List.mem_cons, not_or] at this
      by_cases c1 : er i = false <;> by_cases c2 : i ∈ l <;> by_cases c3 : i = a <;>
        cases h1 : er' i <;> simp [h1, c1, c2, c3] at this ⊢ <;> simp_all
    rw [eq, List.length_cons]
    show _ = (List.range n).countP (fun i => !er i)
    omega

/-- The second call of `process_outbound_edges` merges its two-sided face
    unless the two triangles of the edge share both of their other sides. -/
theorem collapse_second_merge {m m' : Mesh} {e v h0 h1 x1 y1 s a b f0 f1 w : Nat} {A2 : Bool}
    (nb : EdgeNbhd m e h0 h1 x1 y1 s a b f0 f1)
    (cx : CollapseCtx m m' e v h0 h1 x1 y1 s w true A2)
    (tn : TriNbhd m h0 h1 x1 y1 s w a b f0 f1) (wf : WellFormed m)
    (hd : m.hEdge x1 ≠ m.hEdge w ∨ m.hEdge y1 ≠ m.hEdge s) :
    A2 = true ∧ mergeEdge m.hTwin m.hEdge true x1 y1 s = m.hEdge s ∧ m.hEdge s ≠ e ∧
      m.hEdge x1 ≠ e ∧ m.hEdge s ≠ m.hEdge x1 := by
  have stx : s ≠ m.hTwin x1 := by
    intro h
    have := tn.vtx
    rw [← h, nb.vs] at this
    exact tn.vya this.symm
  have sf : ∀ g, m.hFace g = f0 → s ≠ g := fun g hg => ne_of_f m.hFace nb.f1s hg nb.ff.symm
  have wf0 : ∀ g, m.hFace g = f0 → w ≠ g := fun g hg => ne_of_f m.hFace tn.fw hg nb.ff.symm
  have es : mergeEdge m.hTwin m.hEdge true x1 y1 s = m.hEdge s := by
    simp [mergeEdge, upd_apply, stx]
  have e0 : ∀ g, hLive m g → g ≠ h0 → g ≠ h1 → m.hEdge g ≠ e := by
    intro g lg g0 g1 h
    rcases (wf_edge wf nb.l0).2.2 g lg (by rw [h, nb.ed0]) with k | k
    · exact g0 k
    · rw [nb.t0] at k; exact g1 k
  have esx : m.hEdge s ≠ m.hEdge x1 := by
    intro h
    rcases (wf_edge wf nb.lx).2.2 s nb.ls h with k | k
    · exact sf x1 nb.f0x k
    · exact stx k
  refine ⟨?_, es, e0 s nb.ls (sf h0 nb.f0a) tn.s1, e0 x1 nb.lx tn.x0
    (ne_of_f m.hFace nb.f0x nb.f1b nb.ff), esx⟩
  refine cx.c2.2 ⟨tn.ns, ?_⟩
  rw [es]
  by_cases c : w = m.hTwin x1
  · have ew : mergeEdge m.hTwin m.hEdge true x1 y1 w = m.hEdge y1 := by
      simp [mergeEdge, upd_apply, c]
    rw [ew]
    have exw : m.hEdge x1 = m.hEdge w := by rw [c, (wf_edge wf nb.lx).2.1]
    rcases hd with k | k
    · exact absurd exw k
    · exact fun h => k h.symm
  · have ew : mergeEdge m.hTwin m.hEdge true x1 y1 w = m.hEdge w := by
      simp [mergeEdge, upd_apply, c]
    rw [ew]
    intro h
    rcases (wf_edge wf cx.lw).2.2 s nb.ls h with k | k
    · exact tn.sw k
    · have := tn.vtw
      rw [← k, nb.vs] at this
      exact nb.ab this

/-- The counts after a collapse that has merged both two-sided faces. -/
theorem collapse_counts_ctx {m m' : Mesh} {e v h0 h1 x1 y1 s a b f0 f1 w z : Nat}
    (nb : EdgeNbhd m e h0 h1 x1 y1 s a b f0 f1)
    (cx : CollapseCtx m m' e v h0 h1 x1 y1 s w true true)
    (rp : CollapseReps m m' v h0 h1 x1 y1 s w z true true)
    (tn : TriNbhd m h0 h1 x1 y1 s w a b f0 f1) (wf : WellFormed m) (he : eLive m e)
    (es : mergeEdge m.hTwin m.hEdge true x1 y1 s = m.hEdge s) (se : m.hEdge s ≠ e)
    (xe : m.hEdge x1 ≠ e) (sx : m.hEdge s ≠ m.hEdge x1) :
    n_vertices m' + 1 = n_vertices m ∧ n_edges m' + 3 = n_edges m ∧
    n_faces m' + 2 = n_faces m ∧ n_halfedges m' + 6 = n_halfedges m := by
  have la : vLive m a := by rw [← nb.va]; exact wf.2.2.2.1 h0 nb.l0.1 nb.l0.2
  have lb : vLive m b := by rw [← nb.vb]; exact wf.2.2.2.1 h1 nb.l1.1 nb.l1.2
  have lf0 : fLive m f0 := by rw [← nb.f0a]; exact (wf.2.1.1 _ nb.l0.1 nb.l0.2).2.1
  have lf1 : fLive m f1 := by rw [← nb.f1b]; exact (wf.2.1.1 _ nb.l1.1 nb.l1.2).2.1
  have c0 : ∀ g g', m.hFace g = f0 → m.hFace g' = f1 → g ≠ g' :=
    fun g g' h h' => ne_of_f m.hFace h h' nb.ff
  have h01 : h0 ≠ h1 := c0 _ _ nb.f0a nb.f1b
  refine ⟨?_, ?_, ?_, ?_⟩
  · unfold n_vertices
    have k := liveCount_remove m.nV m.vErased m'.vErased [a, b]
      (by simp [nb.ab]) (by
        intro p hp
        simp only [List.mem_cons, List.mem_singleton, List.mem_nil_iff, or_false] at hp
        rcases hp with rfl | rfl
        · exact la
        · exact lb)
      (by
        intro i hi
        have := la.1
        have := lb.1
        rw [rp.verased, nb.va, nb.vb, cx.vnew]
        simp only [upd_apply, List.mem_cons, List.mem_singleton, List.mem_nil_iff, or_false,
          not_or]
        have i3 : i ≠ m.nV := Nat.ne_of_lt hi
        by_cases i1 : i = a <;> by_cases i2 : i = b <;> simp [i1, i2, i3])
    have top : m'.vErased m.nV = false := by
      have n1 : m.nV ≠ a := Nat.ne_of_gt la.1
      have n2 : m.nV ≠ b := Nat.ne_of_gt lb.1
      rw [rp.verased, nb.va, nb.vb, cx.vnew]
      simp [upd_apply, n1, n2]
    rw [rp.cV]
    unfold liveCount at k ⊢
    rw [countP_range_succ, top]
    simp only [Bool.not_false, if_true, List.length_cons, List.length_nil] at k ⊢
    omega
  · unfold n_edges
    rw [cx.cE]
    refine liveCount_remove m.nE m.eErased m'.eErased [e, m.hEdge x1, m.hEdge s]
      (by simp [xe.symm, se.symm, sx.symm]) ?_ ?_
    · intro p hp
      simp only [List.mem_cons, List.mem_singleton, List.mem_nil_iff, or_false] at hp
      rcases hp with rfl | rfl | rfl
      · exact he
      · exact (wf_edge wf nb.lx).1
      · exact (wf_edge wf nb.ls).1
    · intro i hi
      have := (collapse_elive cx i)
      unfold eLive at this
      rw [cx.cE, es] at this
      simp only [List.mem_cons, List.mem_singleton, List.mem_nil_iff, or_false, not_or]
      constructor
      · intro h
        have := this.1 ⟨hi, h⟩
        exact ⟨this.1.2, this.2.1, this.2.2.1 rfl, this.2.2.2 rfl⟩
      · intro h
        exact (this.2 ⟨⟨hi, h.1⟩, h.2.1, fun _ => h.2.2.1, fun _ => h.2.2.2⟩).2
  · unfold n_faces
    rw [cx.cF]
    refine liveCount_remove m.nF m.fErased m'.fErased [f0, f1]
      (by simp [nb.ff]) ?_ ?_
    · intro p hp
      simp only [List.mem_cons, List.mem_singleton, List.mem_nil_iff, or_false] at hp
      rcases hp with rfl | rfl
      · exact lf0
      · exact lf1
    · intro i hi
      have := (collapse_flive cx i)
      unfold fLive at this
      rw [cx.cF, nb.f0x, nb.f1s] at this
      simp only [List.mem_cons, List.mem_singleton, List.mem_nil_iff, or_false, not_or]
      constructor
      · intro h
        have := this.1 ⟨hi, h⟩
        exact ⟨this.1.2, this.2.1 rfl, this.2.2 rfl⟩
      · intro h
        exact (this.2 ⟨⟨hi, h.1⟩, fun _ => h.2.1, fun _ => h.2.2⟩).2
  · unfold n_halfedges
    rw [cx.cH]
    refine liveCount_remove m.nH m.hErased m'.hErased [h0, h1, x1, y1, s, w] ?_ ?_ ?_
    · have a1 := c0 _ _ nb.f0a nb.f1s
      have a2 := c0 _ _ nb.f0a tn.fw
      have a3 := c0 _ _ nb.f0x nb.f1b
      have a4 := c0 _ _ nb.f0x nb.f1s
      have a5 := c0 _ _ nb.f0x tn.fw
      have a6 := c0 _ _ nb.f0y nb.f1b
      have a7 := c0 _ _ nb.f0y nb.f1s
      have a8 := c0 _ _ nb.f0y tn.fw
      simp [h01, tn.x0.symm, tn.y0.symm, tn.xy, tn.s1.symm, tn.w1.symm, tn.sw, a1, a2,
        a3.symm, a4, a5, a6.symm, a7, a8]
    · intro p hp
      simp only [List.mem_cons, List.mem_singleton, List.mem_nil_iff, or_false] at hp
      rcases hp with rfl | rfl | rfl | rfl | rfl | rfl
      · exact nb.l0
      · exact nb.l1
      · exact nb.lx
      · exact nb.ly
      · exact nb.ls
      · exact cx.lw
    · intro i hi
      have := (collapse_hlive cx i)
      unfold hLive at this
      rw [cx.cH] at this
      simp only [List.mem_cons, List.mem_singleton, List.mem_nil_iff, or_false, not_or]
      constructor
      · intro h
        have := this.1 ⟨hi, h⟩
        exact ⟨this.1.2, this.2.1, this.2.2.1, (this.2.2.2.1 rfl).1, (this.2.2.2.1 rfl).2,
          (this.2.2.2.2 rfl).1, (this.2.2.2.2 rfl).2⟩
      · intro h
        exact (this.2 ⟨⟨hi, h.1⟩, h.2.1, h.2.2.1, fun _ => ⟨h.2.2.2.1, h.2.2.2.2.1⟩,
          fun _ => ⟨h.2.2.2.2.2.1, h.2.2.2.2.2.2⟩⟩).2

/-- C28: on a mesh that satisfies the invariants and whose faces are all
    triangles, when `collapse_edge` succeeds on a live edge `e` whose two
    triangles do not share both of their other sides, the mesh without its
    erased elements has one vertex, three edges, two faces and six half-edges
    fewer than before, and `V - E + F` is unchanged. -/
theorem collapse_edge_counts (dbg : Bool) (m m' : Mesh) (e v : Nat)
    (hv : Valid m) (tm : TriangleMesh m) (he : eLive m e)
    (hc : collapse_edge dbg m e = some (some v, m'))
    (hd : m.hEdge (m.hNext (m.eHalfedge e)) ≠
        m.hEdge (m.hNext (m.hNext (m.hTwin (m.eHalfedge e)))) ∨
      m.hEdge (m.hNext (m.hNext (m.eHalfedge e))) ≠
        m.hEdge (m.hNext (m.hTwin (m.eHalfedge e)))) :
    n_vertices m' + 1 = n_vertices m ∧ n_edges m' + 3 = n_edges m ∧
    n_faces m' + 2 = n_faces m ∧ n_halfedges m' + 6 = n_halfedges m ∧
    (n_vertices m' : Int) - n_edges m' + n_faces m' =
      (n_vertices m : Int) - n_edges m + n_faces m := by
  have sf := triangleMesh_simpleFaces hv tm
  obtain ⟨w, z, A1, A2, nb, cx, rp⟩ := collapse_full dbg m m' e v hv sf he hc
  have tn := triNbhd_of nb hv tm cx.lw cx.n3
  have a1 : A1 = true := cx.c1.2 ⟨tn.ny, tn.exy⟩
  subst a1
  rw [tn.ns] at hd
  obtain ⟨a2, es, se, xe, sx⟩ := collapse_second_merge nb cx tn hv.1 hd
  subst a2
  obtain ⟨k1, k2, k3, k4⟩ := collapse_counts_ctx nb cx rp tn hv.1 he es se xe sx
  refine ⟨k1, k2, k3, k4, ?_⟩
  omega

/-- Witness for C28: edge 0 of the tetrahedron, whose triangles have the
    further sides 1, 2 and 3, 4; the collapse leaves 3 vertices, 3 edges,
    2 faces and 6 half-edges of 4, 6, 4 and 12. -/
theorem collapse_edge_counts_witness :
    Valid tetra ∧ TriangleMesh tetra ∧ eLive tetra 0 ∧
    ∃ m', collapse_edge true tetra 0 = some (some 4, m') ∧
      n_vertices m' + 1 = 4 ∧ n_edges m' + 3 = 6 ∧ n_faces m' + 2 = 4 ∧
      n_halfedges m' + 6 = 12 :=
  have h := collapse_edge_counts true tetra _ 0 4 (by decide) (by decide) (by decide) rfl
    (by decide)
  ⟨by decide, by decide, by decide, _, rfl, h.1, h.2.1, h.2.2.1, h.2.2.2.1⟩

/-- Counterexample for C28: the two triangles of the pillow are different faces
    and `collapse_edge` succeeds on its edge 0, but the second two-sided face
    stays, so of 3 vertices, 3 edges, 2 faces and 6 half-edges there remain 2
    vertices, 1 edge, 1 face and 2 half-edges. -/
theorem collapse_edge_counts_counterexample :
    Valid pillow ∧ TriangleMesh pillow ∧ eLive pillow 0 ∧
    pillow.hFace (pillow.eHalfedge 0) ≠ pillow.hFace (pillow.hTwin (pillow.eHalfedge 0)) ∧
    n_vertices pillow = 3 ∧ n_edges pillow = 3 ∧ n_faces pillow = 2 ∧ n_halfedges pillow = 6 ∧
    ∃ m', collapse_edge true pillow 0 = some (some 3, m') ∧
      n_vertices m' = 2 ∧ n_edges m' = 1 ∧ n_faces m' = 1 ∧ n_halfedges m' = 2 := by
  refine ⟨by decide, by decide, by decide, by decide, by decide, by decide, by decide,
    by decide, _, rfl, by decide, by decide, by decide, by decide⟩

/-- A walk that comes back after `t + 1` steps, with fuel for them, returns
    the half-edges of the fan. -/
theorem fanWalk_eq (m : Mesh) (s : Nat) :
    ∀ (fuel t h : Nat), t < fuel → (fanStep m)^[t + 1] h = s →
      (∀ j, j < t → (fanStep m)^[j + 1] h ≠ s) →
      fanWalk m s fuel h = some (fanFrom m s fuel h) := by
  intro fuel
  induction fuel with
  | zero => intro t h ht; omega
  | succ n ih =>
    intro t h ht hc hm
    unfold fanWalk fanFrom
    cases t with
    | zero =>
      have : fanStep m h = s := by simpa using hc
      simp [this]
    | succ t =>
      have ne : fanStep m h ≠ s := by simpa using hm 0 (by omega)
      rw [if_neg ne, if_neg ne, ih t (fanStep m h) (by omega)
        (by rw [← Function.iterate_succ_apply]; exact hc)
        (fun j hj => by rw [← Function.iterate_succ_apply]; exact hm (j + 1) (by omega))]
      rfl

/-- On a mesh that satisfies the invariants the walk around a live vertex
    comes back: it returns the fan of the vertex. -/
theorem fanWalk_vertex (m : Mesh) (hv : Valid m) (v : Nat) (lv : vLive m v) :
    fanWalk m (m.vHalfedge v) m.nH (m.vHalfedge v) = some (vertexFan m v) := by
  obtain ⟨-, -, t, ht, hc, hm⟩ := vertexFan_spec m hv v lv.1 lv.2
  exact fanWalk_eq m _ m.nH t _ ht hc hm

theorem mem_liveList (n : Nat) (er : Nat → Bool) (i : Nat) :
    i ∈ liveList n er ↔ (i < n ∧ er i = false) := by
  unfold liveList
  rw [List.mem_filter, List.mem_range]
  cases er i <;> simp

theorem initVertexQuadrics_some (lib : VecLib) (m : Mesh) (fq : Nat → Option Mat4)
    (hv : Valid m) :
    ∀ (vs : List Nat) (vq : Nat → Option Mat4), (∀ v ∈ vs, vLive m v) →
      ∃ vq', initVertexQuadrics lib m fq vs vq = some vq' := by
  intro vs
  induction vs with
  | nil => intro vq _; exact ⟨vq, rfl⟩
  | cons v vs ih =>
    intro vq hl
    unfold initVertexQuadrics
    have : vertexQuadric lib m fq v = some ((vertexFan m v).foldl
        (fun face_quadric_sum h =>
          Mat4.add face_quadric_sum ((fq (m.hFace h)).getD lib.mat0)) lib.mat0) := by
      unfold vertexQuadric
      rw [fanWalk_vertex m hv v (hl v (List.mem_cons_self _ _))]
      rfl
    rw [this]
    exact ih _ (fun u hu => hl u (List.mem_cons_of_mem _ hu))

theorem addRecord_mesh (lib : VecLib) (s : SimplifyState) (e : Nat) :
    (addRecord lib s e).mesh = s.mesh := rfl

theorem foldl_addRecord_mesh (lib : VecLib) (es : List Nat) (s : SimplifyState) :
    (es.foldl (addRecord lib) s).mesh = s.mesh := by
  induction es generalizing s with
  | nil => rfl
  | cons e es ih => rw [List.foldl_cons, ih, addRecord_mesh]

/-- On a mesh that satisfies the invariants the three loops at the head of
    `simplify` finish, and they leave the mesh as it is. -/
theorem simplifyInit_some (lib : VecLib) (m : Mesh) (hv : Valid m) :
    ∃ s, simplifyInit lib m = some s ∧ s.mesh = m := by
  obtain ⟨vq, h⟩ := initVertexQuadrics_some lib m (faceQuadrics lib m) hv
    (liveList m.nV m.vErased) (fun _ => none) (fun v hv' => (mem_liveList _ _ v).1 hv')
  unfold simplifyInit
  rw [h]
  exact ⟨_, rfl, foldl_addRecord_mesh lib _ _⟩

/-- On a mesh that satisfies the invariants and has exactly one face,
    `simplify` returns `false` and leaves the mesh as it is. -/
theorem simplify_one_face (dbg : Bool) (lib : VecLib) (m : Mesh) (hv : Valid m)
    (hF : n_faces m = 1) : simplify dbg lib m = some (false, m) := by
  obtain ⟨s, h, -⟩ := simplifyInit_some lib m hv
  unfold simplify
  rw [h, hF]
  rfl

theorem simplify_empty (dbg : Bool) (lib : VecLib) :
    simplify dbg lib emptyMesh = some (true, emptyMesh) := by
  rfl

theorem fanSys_iter {P : Nat → Prop} {σ L : Nat → Nat} (fs : FanSys P σ L) {h : Nat}
    (ph : P h) : ∀ k, P (σ^[k] h) ∧ L (σ^[k] h) = L h := by
  intro k
  induction k with
  | zero => exact ⟨ph, rfl⟩
  | succ k ih =>
    rw [Function.iterate_succ_apply']
    obtain ⟨a, b⟩ := fs.1 _ ih.1
    exact ⟨a, b.trans ih.2⟩

theorem reach_trans {σ : Nat → Nat} {x y z : Nat} (h1 : ∃ k, σ^[k] x = y)
    (h2 : ∃ k, σ^[k] y = z) : ∃ k, σ^[k] x = z := by
  obtain ⟨k1, e1⟩ := h1
  obtain ⟨k2, e2⟩ := h2
  exact ⟨k2 + k1, by rw [Function.iterate_add_apply, e1, e2]⟩

/-- A system of fans depends on the step and the labels on its half-edges
    only. -/
theorem fanSys_congr {P P' : Nat → Prop} {σ σ' L L' : Nat → Nat} (fs : FanSys P σ L)
    (hP : ∀ g, P' g ↔ P g) (hσ : ∀ g, P g → σ' g = σ g) (hL : ∀ g, P g → L' g = L g) :
    FanSys P' σ' L' := by
  have it : ∀ h, P h → ∀ k, σ'^[k] h = σ^[k] h := by
    intro h ph k
    induction k with
    | zero => rfl
    | succ k ih =>
      rw [Function.iterate_succ_apply', Function.iterate_succ_apply', ih,
        hσ _ (fanSys_iter fs ph k).1]
  refine ⟨?_, ?_, ?_⟩
  · intro g pg
    have pg' := (hP g).1 pg
    obtain ⟨a, b⟩ := fs.1 g pg'
    rw [hσ g pg']
    exact ⟨(hP _).2 a, by rw [hL _ a, hL _ pg', b]⟩
  · intro g g' pg pg' e
    have q := (hP g).1 pg
    have q' := (hP g').1 pg'
    rw [hσ g q, hσ g' q'] at e
    exact fs.2.1 g g' q q' e
  · intro h g ph pg e
    have q := (hP h).1 ph
    have q' := (hP g).1 pg
    rw [hL h q, hL g q'] at e
    obtain ⟨k, hk⟩ := fs.2.2 h g q q' e
    exact ⟨k, by rw [it h q k, hk]⟩

/-- Taking the half-edge `d` out of a system of fans: the half-edge `p` before
    `d` is led to the half-edge after `d`. -/
theorem fanSys_remove {P : Nat → Prop} {σ L : Nat → Nat} (fs : FanSys P σ L) (d p : Nat)
    (pd : P d) (pp : P p) (hp : σ p = d) :
    FanSys (fun g => P g ∧ g ≠ d) (upd σ p (σ d)) L := by
  have pre : ∀ g, P g → σ g = d → g = p := fun g pg e => fs.2.1 g p pg pp (e.trans hp.symm)
  have npd : p ≠ d → σ d ≠ d := by
    intro h e
    exact h (pre d pd e).symm
  refine ⟨?_, ?_, ?_⟩
  · intro g ⟨pg, gd⟩
    rw [upd_apply]
    by_cases c : g = p
    · rw [if_pos c]
      obtain ⟨a, b⟩ := fs.1 d pd
      refine ⟨⟨a, npd (c ▸ gd)⟩, ?_⟩
      rw [b, c, ← hp, (fs.1 p pp).2]
    · rw [if_neg c]
      obtain ⟨a, b⟩ := fs.1 g pg
      exact ⟨⟨a, fun e => c (pre g pg e)⟩, b⟩
  · intro g g' ⟨pg, gd⟩ ⟨pg', gd'⟩ e
    rw [upd_apply, upd_apply] at e
    by_cases c : g = p <;> by_cases c' : g' = p
    · rw [c, c']
    · rw [if_pos c, if_neg c'] at e
      exact absurd (fs.2.1 d g' pd pg' e).symm gd'
    · rw [if_neg c, if_pos c'] at e
      exact absurd (fs.2.1 g d pg pd e) gd
    · rw [if_neg c, if_neg c'] at e
      exact fs.2.1 g g' pg pg' e
  · intro h g ⟨ph, hd⟩ ⟨pg, gd⟩ e
    obtain ⟨k, hk⟩ := fs.2.2 h g ph pg e
    clear e
    induction k using Nat.strong_induction_on generalizing h with
    | _ k ih =>
      cases k with
      | zero => exact ⟨0, hk⟩
      | succ k =>
        rw [Function.iterate_succ_apply] at hk
        by_cases c : h = p
        · have sd : σ h = d := by rw [c, hp]
          rw [sd] at hk
          cases k with
          | zero => exact absurd hk.symm gd
          | succ k =>
            rw [Function.iterate_succ_apply] at hk
            obtain ⟨k', hk'⟩ := ih k (by omega) (σ d) (fs.1 d pd).1 (npd (c ▸ hd)) hk
            refine ⟨k' + 1, ?_⟩
            rw [Function.iterate_succ_apply, upd_apply, if_pos c, hk']
        · have nd : σ h ≠ d := fun e => c (pre h ph e)
          obtain ⟨k', hk'⟩ := ih k (by omega) (σ h) (fs.1 h ph).1 nd hk
          refine ⟨k' + 1, ?_⟩
          rw [Function.iterate_succ_apply, upd_apply, if_neg c, hk']

/-- Joining two fans: when the half-edges `d0` and `d1` carry the different
    labels `a` and `b`, exchanging what follows them gives a system of fans in
    which `a` and `b` are one label `v`. -/
theorem fanSys_swap {P : Nat → Prop} {σ L : Nat → Nat} (fs : FanSys P σ L) (d0 d1 a b v : Nat)
    (p0 : P d0) (p1 : P d1) (l0 : L d0 = a) (l1 : L d1 = b) (ab : a ≠ b)
    (fresh : ∀ g, P g → L g ≠ v) :
    FanSys P (upd (upd σ d0 (σ d1)) d1 (σ d0)) (fun g => mergedVertex a b v (L g)) := by
  have d01 : d0 ≠ d1 := fun e => ab (by rw [← l0, ← l1, e])
  have val : ∀ g, g ≠ d0 → g ≠ d1 → upd (upd σ d0 (σ d1)) d1 (σ d0) g = σ g := by
    intro g g0 g1
    rw [upd_apply, if_neg g1, upd_apply, if_neg g0]
  have v0 : upd (upd σ d0 (σ d1)) d1 (σ d0) d0 = σ d1 := by
    rw [upd_apply, if_neg d01, upd_apply, if_pos rfl]
  have v1 : upd (upd σ d0 (σ d1)) d1 (σ d0) d1 = σ d0 := by
    rw [upd_apply, if_pos rfl]
  -- a σ-path whose half-edges avoid `d0` and `d1` before its end is a path of the new step
  have lift : ∀ (t : Nat), (t = a ∨ t = b) → ∀ (dt : Nat), (dt = d0 ∨ dt = d1) → L dt = t →
      ∀ k u, P u → L u = t → σ^[k] u = dt →
        ∃ k', (upd (upd σ d0 (σ d1)) d1 (σ d0))^[k'] u = dt := by
    intro t ht dt hdt ldt k
    induction k with
    | zero => intro u _ _ e; exact ⟨0, e⟩
    | succ k ih =>
      intro u pu lu e
      by_cases c : u = dt
      · exact ⟨0, c⟩
      · have u0 : u ≠ d0 := by
          intro h
          rcases hdt with q | q
          · exact c (h.trans q.symm)
          · have : L d0 = L d1 := by rw [← h, lu, ← ldt, q]
            exact ab (by rw [← l0, ← l1, this])
        have u1 : u ≠ d1 := by
          intro h
          rcases hdt with q | q
          · have : L d1 = L d0 := by rw [← h, lu, ← ldt, q]
            exact ab (by rw [← l0, ← l1, this])
          · exact c (h.trans q.symm)
        rw [Function.iterate_succ_apply] at e
        obtain ⟨k', hk'⟩ := ih (σ u) (fs.1 u pu).1 ((fs.1 u pu).2.trans lu) e
        exact ⟨k' + 1, by rw [Function.iterate_succ_apply, val u u0 u1, hk']⟩
  have toD0 : ∀ u, P u → L u = a → ∃ k', (upd (upd σ d0 (σ d1)) d1 (σ d0))^[k'] u = d0 := by
    intro u pu lu
    obtain ⟨k, hk⟩ := fs.2.2 u d0 pu p0 (lu.trans l0.symm)
    exact lift a (Or.inl rfl) d0 (Or.inl rfl) l0 k u pu lu hk
  have toD1 : ∀ u, P u → L u = b → ∃ k', (upd (upd σ d0 (σ d1)) d1 (σ d0))^[k'] u = d1 := by
    intro u pu lu
    obtain ⟨k, hk⟩ := fs.2.2 u d1 pu p1 (lu.trans l1.symm)
    exact lift b (Or.inr rfl) d1 (Or.inr rfl) l1 k u pu lu hk
  have d0d1 : ∃ k', (upd (upd σ d0 (σ d1)) d1 (σ d0))^[k'] d0 = d1 := by
    obtain ⟨k, hk⟩ := toD1 (σ d1) (fs.1 d1 p1).1 ((fs.1 d1 p1).2.trans l1)
    exact ⟨k + 1, by rw [Function.iterate_succ_apply, v0, hk]⟩
  have d1d0 : ∃ k', (upd (upd σ d0 (σ d1)) d1 (σ d0))^[k'] d1 = d0 := by
    obtain ⟨k, hk⟩ := toD0 (σ d0) (fs.1 d0 p0).1 ((fs.1 d0 p0).2.trans l0)
    exact ⟨k + 1, by rw [Function.iterate_succ_apply, v1, hk]⟩
  -- every half-edge of the two fans is led to what followed it
  have stepTo : ∀ u, P u → (L u = a ∨ L u = b) →
      ∃ k', (upd (upd σ d0 (σ d1)) d1 (σ d0))^[k'] u = σ u := by
    intro u pu lu
    by_cases c0 : u = d0
    · rw [c0]
      exact reach_trans d0d1 ⟨1, by rw [Function.iterate_one, v1]⟩
    · by_cases c1 : u = d1
      · rw [c1]
        exact reach_trans d1d0 ⟨1, by rw [Function.iterate_one, v0]⟩
      · exact ⟨1, by rw [Function.iterate_one, val u c0 c1]⟩
  have path : ∀ k u, P u → (L u = a ∨ L u = b) →
      ∃ k', (upd (upd σ d0 (σ d1)) d1 (σ d0))^[k'] u = σ^[k] u := by
    intro k
    induction k with
    | zero => intro u _ _; exact ⟨0, rfl⟩
    | succ k ih =>
      intro u pu lu
      rw [Function.iterate_succ_apply]
      have lu' : L (σ u) = a ∨ L (σ u) = b := by rw [(fs.1 u pu).2]; exact lu
      exact reach_trans (stepTo u pu lu) (ih (σ u) (fs.1 u pu).1 lu')
  have mv : ∀ g, P g → (mergedVertex a b v (L g) = v ↔ (L g = a ∨ L g = b)) := by
    intro g pg
    unfold mergedVertex
    constructor
    · intro h
      by_contra c
      rw [if_neg c] at h
      exact fresh g pg h
    · intro h
      rw [if_pos h]
  refine ⟨?_, ?_, ?_⟩
  · intro g pg
    have key : P (upd (upd σ d0 (σ d1)) d1 (σ d0) g) ∧
        (L (upd (upd σ d0 (σ d1)) d1 (σ d0) g) = L g ∨
          ((L (upd (upd σ d0 (σ d1)) d1 (σ d0) g) = a ∨
            L (upd (upd σ d0 (σ d1)) d1 (σ d0) g) = b) ∧ (L g = a ∨ L g = b))) := by
      by_cases c0 : g = d0
      · rw [c0, v0]
        exact ⟨(fs.1 d1 p1).1, Or.inr ⟨Or.inr ((fs.1 d1 p1).2.trans l1), Or.inl l0⟩⟩
      · by_cases c1 : g = d1
        · rw [c1, v1]
          exact ⟨(fs.1 d0 p0).1, Or.inr ⟨Or.inl ((fs.1 d0 p0).2.trans l0), Or.inr l1⟩⟩
        · rw [val g c0 c1]
          exact ⟨(fs.1 g pg).1, Or.inl (fs.1 g pg).2⟩
    refine ⟨key.1, ?_⟩
    rcases key.2 with h | ⟨h1, h2⟩
    · show mergedVertex a b v (L _) = mergedVertex a b v (L g)
      rw [h]
    · show mergedVertex a b v (L _) = mergedVertex a b v (L g)
      unfold mergedVertex
      rw [if_pos h1, if_pos h2]
  · intro g g' pg pg' e
    by_cases c0 : g = d0 <;> by_cases c1 : g = d1 <;> by_cases c0' : g' = d0 <;>
      by_cases c1' : g' = d1
    all_goals first
      | exact absurd (c0.symm.trans c1) d01
      | exact absurd (c0'.symm.trans c1') d01
      | exact c0.trans c0'.symm
      | exact c1.trans c1'.symm
      | skip
    · rw [c0, c1', v0, v1] at e
      exact absurd (fs.2.1 d1 d0 p1 p0 e).symm d01
    · rw [c0, v0, val g' c0' c1'] at e
      exact absurd (fs.2.1 d1 g' p1 pg' e).symm c1'
    · rw [c1, c0', v0, v1] at e
      exact absurd (fs.2.1 d0 d1 p0 p1 e) d01
    · rw [c1, v1, val g' c0' c1'] at e
      exact absurd (fs.2.1 d0 g' p0 pg' e).symm c0'
    · rw [c0', v0, val g c0 c1] at e
      exact absurd (fs.2.1 g d1 pg p1 e) c1
    · rw [c1', v1, val g c0 c1] at e
      exact absurd (fs.2.1 g d0 pg p0 e) c0
    · rw [val g c0 c1, val g' c0' c1'] at e
      exact fs.2.1 g g' pg pg' e
  · intro h g ph pg e
    simp only at e
    by_cases c : L h = a ∨ L h = b
    · have cg : L g = a ∨ L g = b := by
        rw [← mv g pg, ← e, mv h ph]
        exact c
      -- through `d0`, and through `d1` when the labels differ
      have hTo : ∀ u, P u → (L u = a ∨ L u = b) →
          ∃ k', (upd (upd σ d0 (σ d1)) d1 (σ d0))^[k'] u = d0 := by
        intro u pu lu
        rcases lu with q | q
        · exact toD0 u pu q
        · exact reach_trans (toD1 u pu q) d1d0
      have fromD : ∀ u, P u → (L u = a ∨ L u = b) →
          ∃ k', (upd (upd σ d0 (σ d1)) d1 (σ d0))^[k'] d0 = u := by
        intro u pu lu
        rcases lu with q | q
        · obtain ⟨k, hk⟩ := fs.2.2 d0 u p0 pu (l0.trans q.symm)
          obtain ⟨k', hk'⟩ := path k d0 p0 (Or.inl l0)
          exact ⟨k', hk'.trans hk⟩
        · obtain ⟨k, hk⟩ := fs.2.2 d1 u p1 pu (l1.trans q.symm)
          obtain ⟨k', hk'⟩ := path k d1 p1 (Or.inr l1)
          exact reach_trans d0d1 ⟨k', hk'.trans hk⟩
      exact reach_trans (hTo h ph c) (fromD g pg cg)
    · have lh : mergedVertex a b v (L h) = L h := by
        unfold mergedVertex; rw [if_neg c]
      have cg : ¬ (L g = a ∨ L g = b) := by
        intro q
        have := (mv g pg).2 q
        rw [← e, lh] at this
        exact fresh h ph this
      have lg : mergedVertex a b v (L g) = L g := by
        unfold mergedVertex; rw [if_neg cg]
      rw [lh, lg] at e
      obtain ⟨k, hk⟩ := fs.2.2 h g ph pg e
      refine ⟨k, ?_⟩
      have it : ∀ j, (upd (upd σ d0 (σ d1)) d1 (σ d0))^[j] h = σ^[j] h := by
        intro j
        induction j with
        | zero => rfl
        | succ j ih =>
          rw [Function.iterate_succ_apply', Function.iterate_succ_apply', ih]
          obtain ⟨q1, q2⟩ := fanSys_iter fs ph j
          apply val
          · intro q
            rw [q, l0] at q2
            exact c (Or.inl q2.symm)
          · intro q
            rw [q, l1] at q2
            exact c (Or.inr q2.symm)
      rw [it, hk]

theorem fanSys_iterate_inj {P : Nat → Prop} {σ L : Nat → Nat} (fs : FanSys P σ L) :
    ∀ k x y, P x → P y → σ^[k] x = σ^[k] y → x = y := by
  intro k
  induction k with
  | zero => intro x y _ _ e; exact e
  | succ k ih =>
    intro x y px py e
    rw [Function.iterate_succ_apply, Function.iterate_succ_apply] at e
    exact fs.2.1 x y px py (ih _ _ (fs.1 x px).1 (fs.1 y py).1 e)

/-- In a system of fans on half-edges below `n`, a half-edge that is reached
    is reached in fewer than `n` steps. -/
theorem reach_bound {P : Nat → Prop} {σ L : Nat → Nat} (fs : FanSys P σ L) (n : Nat)
    (bd : ∀ g, P g → g < n) (h g : Nat) (ph : P h) (k : Nat) (hk : σ^[k] h = g) :
    ∃ k', k' < n ∧ σ^[k'] h = g := by
  induction k using Nat.strong_induction_on with
  | _ k ih =>
    by_cases c : k < n
    · exact ⟨k, c, hk⟩
    · have hmap : ∀ i ∈ Finset.range (n + 1), σ^[i] h ∈ Finset.range n := by
        intro i _
        rw [Finset.mem_range]
        exact bd _ (fanSys_iter fs ph i).1
      obtain ⟨i, hi, j, hj, ij, e⟩ := Finset.exists_ne_map_eq_of_card_lt_of_maps_to
        (by rw [Finset.card_range, Finset.card_range]; exact Nat.lt_succ_self n) hmap
      rw [Finset.mem_range] at hi hj
      have per : ∃ p, 1 ≤ p ∧ p ≤ n ∧ σ^[p] h = h := by
        rcases Nat.lt_or_gt_of_ne ij with q | q
        · refine ⟨j - i, by omega, by omega, ?_⟩
          have : σ^[i] (σ^[j - i] h) = σ^[i] h := by
            rw [← Function.iterate_add_apply, show i + (j - i) = j by omega, e]
          exact fanSys_iterate_inj fs i _ _ (fanSys_iter fs ph _).1 ph this
        · refine ⟨i - j, by omega, by omega, ?_⟩
          have : σ^[j] (σ^[i - j] h) = σ^[j] h := by
            rw [← Function.iterate_add_apply, show j + (i - j) = i by omega, e]
          exact fanSys_iterate_inj fs j _ _ (fanSys_iter fs ph _).1 ph this
      obtain ⟨p, p1, pn, hp⟩ := per
      have : σ^[k - p] h = g := by
        rw [← hk]
        conv_rhs => rw [show k = (k - p) + p by omega, Function.iterate_add_apply, hp]
      exact ih (k - p) (by omega) this

/-- The fans of a mesh that satisfies the invariants. -/
theorem fanSys_of_valid (m : Mesh) (hv : Valid m) : FanSys (hLive m) (fanStep m) m.hVertex := by
  refine ⟨?_, ?_, ?_⟩
  · intro g hl
    exact fan_live m hv.1 g hl 1
  · intro g g' hl hl' e
    exact fanStep_inj m hv.1 g g' hl hl' e
  · intro h g hl lg e
    obtain ⟨k, -, hk⟩ := hv.2.1 h hl.1 hl.2 g lg.1 lg.2 e
    exact ⟨k, hk⟩

/-- A system of fans on the live half-edges of a mesh gives the second half of
    invariant 4. -/
theorem fanOK_of_fanSys (m : Mesh) (fs : FanSys (hLive m) (fanStep m) m.hVertex) : FanOK m := by
  intro h h1 h2 g g1 g2 e
  obtain ⟨k, hk⟩ := fs.2.2 h g ⟨h1, h2⟩ ⟨g1, g2⟩ e
  exact reach_bound fs m.nH (fun x hx => hx.1) h g ⟨h1, h2⟩ k hk

/-- The fans after a collapse, when the two triangles share the collapsed edge
    only: `X`, `Y`, `S`, `W` are the twins of the four other sides. -/
theorem fanSys_collapse_generic {P : Nat → Prop} {σ L : Nat → Nat} (fs : FanSys P σ L)
    (h0 h1 x1 y1 s w X Y S W a b v : Nat)
    (nd : [h0, h1, x1, y1, s, w, X, Y, S, W].Nodup)
    (ph0 : P h0) (ph1 : P h1) (px : P x1) (py : P y1) (ps : P s) (pw : P w)
    (pX : P X) (pY : P Y) (pS : P S) (pW : P W)
    (e0 : σ h0 = s) (e1 : σ h1 = x1) (eY : σ Y = h0) (eW : σ W = h1) (eX : σ X = y1)
    (eS : σ S = w)
    (l0 : L h0 = a) (l1 : L h1 = b) (ab : a ≠ b) (fresh : ∀ g, P g → L g ≠ v) :
    FanSys (fun g => P g ∧ g ≠ h0 ∧ g ≠ h1 ∧ g ≠ x1 ∧ g ≠ y1 ∧ g ≠ s ∧ g ≠ w)
      (upd (upd (upd (upd σ X (σ y1)) Y (σ x1)) S (σ w)) W (σ s))
      (fun g => mergedVertex a b v (L g)) := by
  simp only [List.nodup_cons, List.mem_cons, List.mem_singleton, List.not_mem_nil, not_or,
    List.nodup_nil, not_false_eq_true, and_true, or_false] at nd
  obtain ⟨⟨a1, a2, a3, a4, a5, a6, a7, a8, a9⟩, ⟨b2, b3, b4, b5, b6, b7, b8, b9⟩,
    ⟨c3, c4, c5, c6, c7, c8, c9⟩, ⟨d4, d5, d6, d7, d8, d9⟩, ⟨g5, g6, g7, g8, g9⟩,
    ⟨i6, i7, i8, i9⟩, ⟨j7, j8, j9⟩, ⟨k8, k9⟩, l9⟩ := nd
  have a1r : ¬ h1 = h0 := fun h => a1 h.symm
  have a2r : ¬ x1 = h0 := fun h => a2 h.symm
  have a3r : ¬ y1 = h0 := fun h => a3 h.symm
  have a4r : ¬ s = h0 := fun h => a4 h.symm
  have a5r : ¬ w = h0 := fun h => a5 h.symm
  have a6r : ¬ X = h0 := fun h => a6 h.symm
  have a7r : ¬ Y = h0 := fun h => a7 h.symm
  have a8r : ¬ S = h0 := fun h => a8 h.symm
  have a9r : ¬ W = h0 := fun h => a9 h.symm
  have b2r : ¬ x1 = h1 := fun h => b2 h.symm
  have b3r : ¬ y1 = h1 := fun h => b3 h.symm
  have b4r : ¬ s = h1 := fun h => b4 h.symm
  have b5r : ¬ w = h1 := fun h => b5 h.symm
  have b6r : ¬ X = h1 := fun h => b6 h.symm
  have b7r : ¬ Y = h1 := fun h => b7 h.symm
  have b8r : ¬ S = h1 := fun h => b8 h.symm
  have b9r : ¬ W = h1 := fun h => b9 h.symm
  have c3r : ¬ y1 = x1 := fun h => c3 h.symm
  have c4r : ¬ s = x1 := fun h => c4 h.symm
  have c5r : ¬ w = x1 := fun h => c5 h.symm
  have c6r : ¬ X = x1 := fun h => c6 h.symm
  have c7r : ¬ Y = x1 := fun h => c7 h.symm
  have c8r : ¬ S = x1 := fun h => c8 h.symm
  have c9r : ¬ W = x1 := fun h => c9 h.symm
  have d4r : ¬ s = y1 := fun h => d4 h.symm
  have d5r : ¬ w = y1 := fun h => d5 h.symm
  have d6r : ¬ X = y1 := fun h => d6 h.symm
  have d7r : ¬ Y = y1 := fun h => d7 h.symm
  have d8r : ¬ S = y1 := fun h => d8 h.symm
  have d9r : ¬ W = y1 := fun h => d9 h.symm
  have g5r : ¬ w = s := fun h => g5 h.symm
  have g6r : ¬ X = s := fun h => g6 h.symm
  have g7r : ¬ Y = s := fun h => g7 h.symm
  have g8r : ¬ S = s := fun h => g8 h.symm
  have g9r : ¬ W = s := fun h => g9 h.symm
  have i6r : ¬ X = w := fun h => i6 h.symm
  have i7r : ¬ Y = w := fun h => i7 h.symm
  have i8r : ¬ S = w := fun h => i8 h.symm
  have i9r : ¬ W = w := fun h => i9 h.symm
  have j7r : ¬ Y = X := fun h => j7 h.symm
  have j8r : ¬ S = X := fun h => j8 h.symm
  have j9r : ¬ W = X := fun h => j9 h.symm
  have k8r : ¬ S = Y := fun h => k8 h.symm
  have k9r : ¬ W = Y := fun h => k9 h.symm
  have l9r : ¬ W = S := fun h => l9 h.symm
  have f1 := fanSys_swap fs h0 h1 a b v ph0 ph1 l0 l1 ab fresh
  have f2 := fanSys_remove f1 h0 Y ph0 pY (by simp [upd_apply, *])
  have f3 := fanSys_remove f2 h1 W ⟨ph1, Ne.symm a1⟩ ⟨pW, Ne.symm a9⟩ (by simp [upd_apply, *])
  have f4 := fanSys_remove f3 x1 Y ⟨⟨px, Ne.symm a2⟩, Ne.symm b2⟩ ⟨⟨pY, Ne.symm a7⟩, Ne.symm b7⟩
    (by simp [upd_apply, *])
  have f5 := fanSys_remove f4 s W ⟨⟨⟨ps, Ne.symm a4⟩, Ne.symm b4⟩, Ne.symm c4⟩
    ⟨⟨⟨pW, Ne.symm a9⟩, Ne.symm b9⟩, Ne.symm c9⟩ (by simp [upd_apply, *])
  have f6 := fanSys_remove f5 y1 X
    ⟨⟨⟨⟨py, Ne.symm a3⟩, Ne.symm b3⟩, Ne.symm c3⟩, d4⟩
    ⟨⟨⟨⟨pX, Ne.symm a6⟩, Ne.symm b6⟩, Ne.symm c6⟩, Ne.symm g6⟩ (by simp [upd_apply, *])
  have f7 := fanSys_remove f6 w S
    ⟨⟨⟨⟨⟨pw, Ne.symm a5⟩, Ne.symm b5⟩, Ne.symm c5⟩, Ne.symm g5⟩, Ne.symm d5⟩
    ⟨⟨⟨⟨⟨pS, Ne.symm a8⟩, Ne.symm b8⟩, Ne.symm c8⟩, Ne.symm g8⟩, Ne.symm d8⟩ (by simp [upd_apply, *])
  refine fanSys_congr f7 ?_ ?_ ?_
  · intro g
    constructor
    · rintro ⟨q, q0, q1, q2, q3, q4, q5⟩
      exact ⟨⟨⟨⟨⟨⟨q, q0⟩, q1⟩, q2⟩, q4⟩, q3⟩, q5⟩
    · rintro ⟨⟨⟨⟨⟨⟨q, q0⟩, q1⟩, q2⟩, q4⟩, q3⟩, q5⟩
      exact ⟨q, q0, q1, q2, q3, q4, q5⟩
  · rintro g ⟨⟨⟨⟨⟨⟨q, q0⟩, q1⟩, q2⟩, q4⟩, q3⟩, q5⟩
    simp only [upd_apply]
    by_cases t1 : g = W
    · subst t1
      simp [*]
    · by_cases t2 : g = S
      · subst t2
        simp [*]
      · by_cases t3 : g = Y
        · subst t3
          simp [*]
        · by_cases t4 : g = X
          · subst t4
            simp [*]
          · simp [*]
  · intro g _
    rfl

/-- The fans after a collapse, when the two triangles share the side `x1`,
    whose twin is `w`: `Y` and `S` are the twins of the two other sides. -/
theorem fanSys_collapse_pocket1 {P : Nat → Prop} {σ L : Nat → Nat} (fs : FanSys P σ L)
    (h0 h1 x1 y1 s w Y S a b v : Nat)
    (nd : [h0, h1, x1, y1, s, w, Y, S].Nodup)
    (ph0 : P h0) (ph1 : P h1) (px : P x1) (py : P y1) (ps : P s) (pw : P w)
    (pY : P Y) (pS : P S)
    (e0 : σ h0 = s) (e1 : σ h1 = x1) (eY : σ Y = h0) (ex : σ x1 = h1) (ew : σ w = y1)
    (eS : σ S = w)
    (l0 : L h0 = a) (l1 : L h1 = b) (ab : a ≠ b) (fresh : ∀ g, P g → L g ≠ v) :
    FanSys (fun g => P g ∧ g ≠ h0 ∧ g ≠ h1 ∧ g ≠ x1 ∧ g ≠ y1 ∧ g ≠ s ∧ g ≠ w)
      (upd (upd σ Y (σ s)) S (σ y1))
      (fun g => mergedVertex a b v (L g)) := by
  simp only [List.nodup_cons, List.mem_cons, List.mem_singleton, List.not_mem_nil, not_or,
    List.nodup_nil, not_false_eq_true, and_true, or_false] at nd
  obtain ⟨⟨n0_1, n0_2, n0_3, n0_4, n0_5, n0_6, n0_7⟩, ⟨n1_2, n1_3, n1_4, n1_5, n1_6, n1_7⟩, ⟨n2_3, n2_4, n2_5, n2_6, n2_7⟩, ⟨n3_4, n3_5, n3_6, n3_7⟩, ⟨n4_5, n4_6, n4_7⟩, ⟨n5_6, n5_7⟩, n6_7⟩ := nd
  have n1_0 : ¬ h1 = h0 := fun h => n0_1 h.symm
  have n2_0 : ¬ x1 = h0 := fun h => n0_2 h.symm
  have n3_0 : ¬ y1 = h0 := fun h => n0_3 h.symm
  have n4_0 : ¬ s = h0 := fun h => n0_4 h.symm
  have n5_0 : ¬ w = h0 := fun h => n0_5 h.symm
  have n6_0 : ¬ Y = h0 := fun h => n0_6 h.symm
  have n7_0 : ¬ S = h0 := fun h => n0_7 h.symm
  have n2_1 : ¬ x1 = h1 := fun h => n1_2 h.symm
  have n3_1 : ¬ y1 = h1 := fun h => n1_3 h.symm
  have n4_1 : ¬ s = h1 := fun h => n1_4 h.symm
  have n5_1 : ¬ w = h1 := fun h => n1_5 h.symm
  have n6_1 : ¬ Y = h1 := fun h => n1_6 h.symm
  have n7_1 : ¬ S = h1 := fun h => n1_7 h.symm
  have n3_2 : ¬ y1 = x1 := fun h => n2_3 h.symm
  have n4_2 : ¬ s = x1 := fun h => n2_4 h.symm
  have n5_2 : ¬ w = x1 := fun h => n2_5 h.symm
  have n6_2 : ¬ Y = x1 := fun h => n2_6 h.symm
  have n7_2 : ¬ S = x1 := fun h => n2_7 h.symm
  have n4_3 : ¬ s = y1 := fun h => n3_4 h.symm
  have n5_3 : ¬ w = y1 := fun h => n3_5 h.symm
  have n6_3 : ¬ Y = y1 := fun h => n3_6 h.symm
  have n7_3 : ¬ S = y1 := fun h => n3_7 h.symm
  have n5_4 : ¬ w = s := fun h => n4_5 h.symm
  have n6_4 : ¬ Y = s := fun h => n4_6 h.symm
  have n7_4 : ¬ S = s := fun h => n4_7 h.symm
  have n6_5 : ¬ Y = w := fun h => n5_6 h.symm
  have n7_5 : ¬ S = w := fun h => n5_7 h.symm
  have n7_6 : ¬ S = Y := fun h => n6_7 h.symm
  have f1 := fanSys_swap fs h0 h1 a b v ph0 ph1 l0 l1 ab fresh
  have f2 := fanSys_remove f1 h0 Y ph0 pY (by simp [upd_apply, *])
  have f3 := fanSys_remove f2 h1 x1 (by simp [*]) (by simp [*]) (by simp [upd_apply, *])
  have f4 := fanSys_remove f3 x1 Y (by simp [*]) (by simp [*]) (by simp [upd_apply, *])
  have f5 := fanSys_remove f4 s Y (by simp [*]) (by simp [*]) (by simp [upd_apply, *])
  have f6 := fanSys_remove f5 y1 w (by simp [*]) (by simp [*]) (by simp [upd_apply, *])
  have f7 := fanSys_remove f6 w S (by simp [*]) (by simp [*]) (by simp [upd_apply, *])
  refine fanSys_congr f7 ?_ ?_ ?_
  · intro g
    constructor
    · rintro ⟨q, q0, q1, q2, q3, q4, q5⟩
      exact ⟨⟨⟨⟨⟨⟨q, q0⟩, q1⟩, q2⟩, q4⟩, q3⟩, q5⟩
    · rintro ⟨⟨⟨⟨⟨⟨q, q0⟩, q1⟩, q2⟩, q4⟩, q3⟩, q5⟩
      exact ⟨q, q0, q1, q2, q3, q4, q5⟩
  · rintro g ⟨⟨⟨⟨⟨⟨q, q0⟩, q1⟩, q2⟩, q4⟩, q3⟩, q5⟩
    simp only [upd_apply]
    by_cases t1 : g = S
    · subst t1
      simp [*]
    · by_cases t2 : g = Y
      · subst t2
        simp [*]
      · simp [*]
  · intro g _
    rfl

/-- The fans after a collapse, when the two triangles share the side `y1`,
    whose twin is `s`: `X` and `W` are the twins of the two other sides. -/
theorem fanSys_collapse_pocket2 {P : Nat → Prop} {σ L : Nat → Nat} (fs : FanSys P σ L)
    (h0 h1 x1 y1 s w X W a b v : Nat)
    (nd : [h0, h1, x1, y1, s, w, X, W].Nodup)
    (ph0 : P h0) (ph1 : P h1) (px : P x1) (py : P y1) (ps : P s) (pw : P w)
    (pX : P X) (pW : P W)
    (e0 : σ h0 = s) (e1 : σ h1 = x1) (es : σ s = h0) (eW : σ W = h1) (eX : σ X = y1)
    (ey : σ y1 = w)
    (l0 : L h0 = a) (l1 : L h1 = b) (ab : a ≠ b) (fresh : ∀ g, P g → L g ≠ v) :
    FanSys (fun g => P g ∧ g ≠ h0 ∧ g ≠ h1 ∧ g ≠ x1 ∧ g ≠ y1 ∧ g ≠ s ∧ g ≠ w)
      (upd (upd σ W (σ x1)) X (σ w))
      (fun g => mergedVertex a b v (L g)) := by
  simp only [List.nodup_cons, List.mem_cons, List.mem_singleton, List.not_mem_nil, not_or,
    List.nodup_nil, not_false_eq_true, and_true, or_false] at nd
  obtain ⟨⟨n0_1, n0_2, n0_3, n0_4, n0_5, n0_6, n0_7⟩, ⟨n1_2, n1_3, n1_4, n1_5, n1_6, n1_7⟩, ⟨n2_3, n2_4, n2_5, n2_6, n2_7⟩, ⟨n3_4, n3_5, n3_6, n3_7⟩, ⟨n4_5, n4_6, n4_7⟩, ⟨n5_6, n5_7⟩, n6_7⟩ := nd
  have n1_0 : ¬ h1 = h0 := fun h => n0_1 h.symm
  have n2_0 : ¬ x1 = h0 := fun h => n0_2 h.symm
  have n3_0 : ¬ y1 = h0 := fun h => n0_3 h.symm
  have n4_0 : ¬ s = h0 := fun h => n0_4 h.symm
  have n5_0 : ¬ w = h0 := fun h => n0_5 h.symm
  have n6_0 : ¬ X = h0 := fun h => n0_6 h.symm
  have n7_0 : ¬ W = h0 := fun h => n0_7 h.symm
  have n2_1 : ¬ x1 = h1 := fun h => n1_2 h.symm
  have n3_1 : ¬ y1 = h1 := fun h => n1_3 h.symm
  have n4_1 : ¬ s = h1 := fun h => n1_4 h.symm
  have n5_1 : ¬ w = h1 := fun h => n1_5 h.symm
  have n6_1 : ¬ X = h1 := fun h => n1_6 h.symm
  have n7_1 : ¬ W = h1 := fun h => n1_7 h.symm
  have n3_2 : ¬ y1 = x1 := fun h => n2_3 h.symm
  have n4_2 : ¬ s = x1 := fun h => n2_4 h.symm
  have n5_2 : ¬ w = x1 := fun h => n2_5 h.symm
  have n6_2 : ¬ X = x1 := fun h => n2_6 h.symm
  have n7_2 : ¬ W = x1 := fun h => n2_7 h.symm
  have n4_3 : ¬ s = y1 := fun h => n3_4 h.symm
  have n5_3 : ¬ w = y1 := fun h => n3_5 h.symm
  have n6_3 : ¬ X = y1 := fun h => n3_6 h.symm
  have n7_3 : ¬ W = y1 := fun h => n3_7 h.symm
  have n5_4 : ¬ w = s := fun h => n4_5 h.symm
  have n6_4 : ¬ X = s := fun h => n4_6 h.symm
  have n7_4 : ¬ W = s := fun h => n4_7 h.symm
  have n6_5 : ¬ X = w := fun h => n5_6 h.symm
  have n7_5 : ¬ W = w := fun h => n5_7 h.symm
  have n7_6 : ¬ W = X := fun h => n6_7 h.symm
  have f1 := fanSys_swap fs h0 h1 a b v ph0 ph1 l0 l1 ab fresh
  have f2 := fanSys_remove f1 h0 s ph0 ps (by simp [upd_apply, *])
  have f3 := fanSys_remove f2 h1 W (by simp [*]) (by simp [*]) (by simp [upd_apply, *])
  have f4 := fanSys_remove f3 s W (by simp [*]) (by simp [*]) (by simp [upd_apply, *])
  have f5 := fanSys_remove f4 x1 W (by simp [*]) (by simp [*]) (by simp [upd_apply, *])
  have f6 := fanSys_remove f5 y1 X (by simp [*]) (by simp [*]) (by simp [upd_apply, *])
  have f7 := fanSys_remove f6 w X (by simp [*]) (by simp [*]) (by simp [upd_apply, *])
  refine fanSys_congr f7 ?_ ?_ ?_
  · intro g
    constructor
    · rintro ⟨q, q0, q1, q2, q3, q4, q5⟩
      exact ⟨⟨⟨⟨⟨⟨q, q0⟩, q1⟩, q4⟩, q2⟩, q3⟩, q5⟩
    · rintro ⟨⟨⟨⟨⟨⟨q, q0⟩, q1⟩, q4⟩, q2⟩, q3⟩, q5⟩
      exact ⟨q, q0, q1, q2, q3, q4, q5⟩
  · rintro g ⟨⟨⟨⟨⟨⟨q, q0⟩, q1⟩, q4⟩, q2⟩, q3⟩, q5⟩
    simp only [upd_apply]
    by_cases t1 : g = X
    · subst t1
      simp [*]
    · by_cases t2 : g = W
      · subst t2
        simp [*]
      · simp [*]
  · intro g _
    rfl

/-- A system of fans keeps being one under labels that tell the same
    half-edges apart. -/
theorem fanSys_relabel {P : Nat → Prop} {σ L L' : Nat → Nat} (fs : FanSys P σ L)
    (h : ∀ g g', P g → P g' → (L' g = L' g' ↔ L g = L g')) : FanSys P σ L' := by
  refine ⟨?_, fs.2.1, ?_⟩
  · intro g pg
    obtain ⟨a, b⟩ := fs.1 g pg
    exact ⟨a, (h _ _ a pg).2 b⟩
  · intro x g px pg e
    exact fs.2.2 x g px pg ((h _ _ px pg).1 e)

/-- A fan of two half-edges holds its two half-edges only. -/
theorem fan_of_two {P : Nat → Prop} {σ L : Nat → Nat} (fs : FanSys P σ L) {c d : Nat}
    (pc : P c) (pd : P d) (e1 : σ c = d) (e2 : σ d = c) (g : Nat) (pg : P g)
    (lg : L g = L c) : g = c ∨ g = d := by
  obtain ⟨k, hk⟩ := fs.2.2 c g pc pg lg.symm
  have : ∀ k, σ^[k] c = c ∨ σ^[k] c = d := by
    intro k
    induction k with
    | zero => exact Or.inl rfl
    | succ k ih =>
      rw [Function.iterate_succ_apply']
      rcases ih with r | r
      · rw [r, e1]; exact Or.inr rfl
      · rw [r, e2]; exact Or.inl rfl
  rw [← hk]
  exact this k

/-- The fans after a collapse on two triangles that share all three sides:
    of the three fans of two half-edges each, the half-edges `s` and `w` stay,
    each as a fan of its own. -/
theorem fanSys_collapse_pillow {P : Nat → Prop} {σ L : Nat → Nat} (fs : FanSys P σ L)
    (h0 h1 x1 y1 s w a b v : Nat)
    (nd : [h0, h1, x1, y1, s, w].Nodup)
    (ph0 : P h0) (ph1 : P h1) (px : P x1) (py : P y1) (ps : P s) (pw : P w)
    (e0 : σ h0 = s) (es : σ s = h0) (e1 : σ h1 = x1) (ex : σ x1 = h1)
    (ey : σ y1 = w) (ew : σ w = y1)
    (l0 : L h0 = a) (l1 : L h1 = b) (ab : a ≠ b) (fresh : ∀ g, P g → L g ≠ v) :
    FanSys (fun g => P g ∧ g ≠ h0 ∧ g ≠ h1 ∧ g ≠ x1 ∧ g ≠ y1)
      (upd (upd σ s s) w w) (fun g => mergedVertex a b v (L g)) := by
  simp only [List.nodup_cons, List.mem_cons, List.mem_singleton, List.not_mem_nil, not_or,
    List.nodup_nil, not_false_eq_true, and_true, or_false] at nd
  obtain ⟨⟨a1, a2, a3, a4, a5⟩, ⟨b2, b3, b4, b5⟩, ⟨c3, c4, c5⟩, ⟨d4, d5⟩, g5⟩ := nd
  have f1 := fanSys_remove fs h0 s ph0 ps es
  have q1 : upd σ s (σ h0) w = y1 := by
    rw [upd_apply, if_neg (Ne.symm g5), ew]
  have f2 := fanSys_remove f1 y1 w ⟨py, Ne.symm a3⟩ ⟨pw, Ne.symm a5⟩ q1
  have q2 : upd (upd σ s (σ h0)) w (upd σ s (σ h0) y1) x1 = h1 := by
    rw [upd_apply, if_neg c5, upd_apply, if_neg c4, ex]
  have f3 := fanSys_remove f2 h1 x1 ⟨⟨ph1, Ne.symm a1⟩, b3⟩ ⟨⟨px, Ne.symm a2⟩, c3⟩ q2
  have q3 : upd (upd (upd σ s (σ h0)) w (upd σ s (σ h0) y1)) x1
      (upd (upd σ s (σ h0)) w (upd σ s (σ h0) y1) h1) x1 = x1 := by
    rw [upd_apply, if_pos rfl, upd_apply, if_neg b5, upd_apply, if_neg b4, e1]
  have f4 := fanSys_remove f3 x1 x1 ⟨⟨⟨px, Ne.symm a2⟩, c3⟩, Ne.symm b2⟩
    ⟨⟨⟨px, Ne.symm a2⟩, c3⟩, Ne.symm b2⟩ q3
  have f5 : FanSys (fun g => P g ∧ g ≠ h0 ∧ g ≠ h1 ∧ g ≠ x1 ∧ g ≠ y1)
      (upd (upd σ s s) w w) L := by
    refine fanSys_congr f4 ?_ ?_ ?_
    · intro g
      constructor
      · rintro ⟨p, q0, q1', q2', q3'⟩
        exact ⟨⟨⟨⟨p, q0⟩, q3'⟩, q1'⟩, q2'⟩
      · rintro ⟨⟨⟨⟨p, q0⟩, q3'⟩, q1'⟩, q2'⟩
        exact ⟨p, q0, q1', q2', q3'⟩
    · rintro g ⟨⟨⟨⟨p, q0⟩, q3'⟩, q1'⟩, q2'⟩
      simp only [upd_apply, if_neg q2', e0, if_neg d4, ey, if_neg b5, if_neg b4, e1, if_pos]
    · intro g _
      rfl
  refine fanSys_relabel f5 ?_
  rintro g g' ⟨p, q0, q1', q2', q3'⟩ ⟨p', q0', q1'', q2'', q3''⟩
  have nb : ∀ u, P u → u ≠ h1 → u ≠ x1 → L u ≠ b := by
    intro u pu u1 u2 lu
    rcases fan_of_two fs ph1 px e1 ex u pu (lu.trans l1.symm) with r | r
    · exact u1 r
    · exact u2 r
  have n1 := nb g p q1' q2'
  have n2 := nb g' p' q1'' q2''
  have n3 := fresh g p
  have n4 := fresh g' p'
  unfold mergedVertex
  constructor
  · intro h
    by_cases c : L g = a ∨ L g = b <;> by_cases c' : L g' = a ∨ L g' = b
    · rcases c with c | c
      · rcases c' with c' | c'
        · rw [c, c']
        · exact absurd c' n2
      · exact absurd c n1
    · rw [if_pos c, if_neg c'] at h
      exact absurd h.symm n4
    · rw [if_neg c, if_pos c'] at h
      exact absurd h n3
    · rw [if_neg c, if_neg c'] at h
      exact h
  · intro h
    rw [h]

/-- The six half-edges of the two triangles of an edge and the twins of the
    four sides other than the edge: which of them differ in every triangle
    mesh. -/
theorem collapse_darts {m : Mesh} {e h0 h1 x1 y1 s a b f0 f1 w : Nat}
    (nb : EdgeNbhd m e h0 h1 x1 y1 s a b f0 f1)
    (tn : TriNbhd m h0 h1 x1 y1 s w a b f0 f1) (wf : WellFormed m) (lw : hLive m w) :
    [h0, h1, x1, y1, s, w].Nodup ∧
    (hLive m (m.hTwin x1) ∧ hLive m (m.hTwin y1) ∧ hLive m (m.hTwin s) ∧ hLive m (m.hTwin w)) ∧
    [m.hTwin x1, m.hTwin y1, m.hTwin s, m.hTwin w].Nodup ∧
    (∀ g ∈ [m.hTwin x1, m.hTwin y1, m.hTwin s, m.hTwin w], g ≠ h0 ∧ g ≠ h1) ∧
    (m.hTwin x1 ≠ x1 ∧ m.hTwin x1 ≠ y1 ∧ m.hTwin x1 ≠ s) ∧
    (m.hTwin y1 ≠ x1 ∧ m.hTwin y1 ≠ y1 ∧ m.hTwin y1 ≠ w) ∧
    (m.hTwin s ≠ x1 ∧ m.hTwin s ≠ s ∧ m.hTwin s ≠ w) ∧
    (m.hTwin w ≠ y1 ∧ m.hTwin w ≠ s ∧ m.hTwin w ≠ w) ∧
    (m.hTwin x1 = w ↔ m.hTwin w = x1) ∧ (m.hTwin y1 = s ↔ m.hTwin s = y1) := by
  have c0 : ∀ g g', m.hFace g = f0 → m.hFace g' = f1 → g ≠ g' :=
    fun g g' h h' => ne_of_f m.hFace h h' nb.ff
  have tx := wf_twin wf nb.lx
  have ty := wf_twin wf nb.ly
  have ts := wf_twin wf nb.ls
  have tw := wf_twin wf lw
  have inj : ∀ {p q : Nat}, hLive m p → hLive m q → p ≠ q → m.hTwin p ≠ m.hTwin q :=
    fun hp hq n h => n (twin_inj wf hp hq h)
  have swap : ∀ {p q : Nat}, hLive m p → m.hTwin p = q → m.hTwin q = p := by
    intro p q hp h
    rw [← h, (wf_twin wf hp).2.2]
  have a1 := c0 _ _ nb.f0a nb.f1b
  have a4 := c0 _ _ nb.f0a nb.f1s
  have a5 := c0 _ _ nb.f0a tn.fw
  have b2 := c0 _ _ nb.f0x nb.f1b
  have b3 := c0 _ _ nb.f0y nb.f1b
  have c4 := c0 _ _ nb.f0x nb.f1s
  have c5 := c0 _ _ nb.f0x tn.fw
  have d4 := c0 _ _ nb.f0y nb.f1s
  have d5 := c0 _ _ nb.f0y tn.fw
  have xs : m.hTwin x1 ≠ s := by
    intro h
    have := tn.vtx
    rw [h, nb.vs] at this
    exact tn.vya this.symm
  have yw : m.hTwin y1 ≠ w := by
    intro h
    have := tn.vty
    rw [h] at this
    exact tn.vwa this
  have ws : m.hTwin w ≠ s := by
    intro h
    have := tn.vtw
    rw [h, nb.vs] at this
    exact nb.ab this
  have xy : m.hTwin x1 ≠ y1 := by
    intro h
    have := (wf_edge wf nb.lx).2.1
    rw [h] at this
    exact tn.exy this.symm
  refine ⟨?_, ⟨tx.1, ty.1, ts.1, tw.1⟩, ?_, ?_, ⟨tx.2.1, xy, xs⟩, ⟨?_, ty.2.1, yw⟩,
    ⟨?_, ts.2.1, ?_⟩, ⟨?_, ws, tw.2.1⟩, ?_, ?_⟩
  · simp only [List.nodup_cons, List.mem_cons, List.mem_singleton, List.not_mem_nil, not_or,
      List.nodup_nil, not_false_eq_true, and_true, or_false]
    exact ⟨⟨a1, tn.x0.symm, tn.y0.symm, a4, a5⟩, ⟨b2.symm, b3.symm, tn.s1.symm, tn.w1.symm⟩,
      ⟨tn.xy, c4, c5⟩, ⟨d4, d5⟩, tn.sw⟩
  · simp only [List.nodup_cons, List.mem_cons, List.mem_singleton, List.not_mem_nil, not_or,
      List.nodup_nil, not_false_eq_true, and_true, or_false]
    exact ⟨⟨inj nb.lx nb.ly tn.xy, inj nb.lx nb.ls c4, inj nb.lx lw c5⟩,
      ⟨inj nb.ly nb.ls d4, inj nb.ly lw d5⟩, inj nb.ls lw tn.sw⟩
  · intro g hg
    simp only [List.mem_cons, List.mem_singleton, List.not_mem_nil, or_false] at hg
    have t0 : m.hTwin h1 = h0 := nb.t1
    have t1 : m.hTwin h0 = h1 := nb.t0
    rcases hg with rfl | rfl | rfl | rfl
    · exact ⟨fun h => inj nb.lx nb.l1 b2 (h.trans t0.symm),
        fun h => inj nb.lx nb.l0 tn.x0 (h.trans t1.symm)⟩
    · exact ⟨fun h => inj nb.ly nb.l1 b3 (h.trans t0.symm),
        fun h => inj nb.ly nb.l0 tn.y0 (h.trans t1.symm)⟩
    · exact ⟨fun h => inj nb.ls nb.l1 tn.s1 (h.trans t0.symm),
        fun h => inj nb.ls nb.l0 a4.symm (h.trans t1.symm)⟩
    · exact ⟨fun h => inj lw nb.l1 tn.w1 (h.trans t0.symm),
        fun h => inj lw nb.l0 a5.symm (h.trans t1.symm)⟩
  · intro h
    exact xy ((swap nb.ly h).symm ▸ rfl : m.hTwin x1 = y1).symm.symm
  · intro h
    exact xs (swap nb.ls h)
  · intro h
    exact ws (swap nb.ls h)
  · intro h
    exact yw (swap lw h)
  · exact ⟨fun h => swap nb.lx h, fun h => swap lw h⟩
  · exact ⟨fun h => swap nb.ly h, fun h => swap nb.ls h⟩

/-- The walk step of the mesh before the collapse at the half-edges of the two
    triangles and at the twins of their sides. -/
theorem collapse_fanStep_pre {m : Mesh} {e h0 h1 x1 y1 s a b f0 f1 w : Nat}
    (nb : EdgeNbhd m e h0 h1 x1 y1 s a b f0 f1)
    (tn : TriNbhd m h0 h1 x1 y1 s w a b f0 f1) (wf : WellFormed m) (lw : hLive m w)
    (n3 : m.hNext w = h1) :
    fanStep m h0 = s ∧ fanStep m h1 = x1 ∧ fanStep m (m.hTwin y1) = h0 ∧
    fanStep m (m.hTwin w) = h1 ∧ fanStep m (m.hTwin x1) = y1 ∧ fanStep m (m.hTwin s) = w := by
  unfold fanStep
  rw [nb.t0, nb.t1, nb.n2, nb.n0, (wf_twin wf nb.ly).2.2, (wf_twin wf lw).2.2,
    (wf_twin wf nb.lx).2.2, (wf_twin wf nb.ls).2.2, tn.ny, n3, nb.n1, tn.ns]
  exact ⟨rfl, rfl, rfl, rfl, rfl, rfl⟩

/-- The step `next ∘ twin` after the two merges, away from the six half-edges
    of the two triangles: the case of four different twins. -/
theorem twinNext_generic (T N : Nat → Nat) (h0 h1 x1 y1 s w X Y S W g : Nat)
    (nd : [h0, h1, x1, y1, s, w, X, Y, S, W].Nodup)
    (tX : T x1 = X) (tY : T y1 = Y) (tS : T s = S) (tW : T w = W)
    (u1 : g ≠ Y → T g ≠ y1) (u2 : g ≠ W → T g ≠ w) :
    upd (upd N y1 x1) w s (mergeTwin (mergeTwin T true x1 y1) true s w g) =
      upd (upd (upd (upd (fun u => N (T u)) X (N (T y1))) Y (N (T x1))) S (N (T w))) W
        (N (T s)) g := by
  simp only [List.nodup_cons, List.mem_cons, List.mem_singleton, List.not_mem_nil, not_or,
    List.nodup_nil, not_false_eq_true, and_true, or_false] at nd
  obtain ⟨⟨n0_1, n0_2, n0_3, n0_4, n0_5, n0_6, n0_7, n0_8, n0_9⟩, ⟨n1_2, n1_3, n1_4, n1_5, n1_6, n1_7, n1_8, n1_9⟩, ⟨n2_3, n2_4, n2_5, n2_6, n2_7, n2_8, n2_9⟩, ⟨n3_4, n3_5, n3_6, n3_7, n3_8, n3_9⟩, ⟨n4_5, n4_6, n4_7, n4_8, n4_9⟩, ⟨n5_6, n5_7, n5_8, n5_9⟩, ⟨n6_7, n6_8, n6_9⟩, ⟨n7_8, n7_9⟩, n8_9⟩ := nd
  have n1_0 : ¬ h1 = h0 := fun h => n0_1 h.symm
  have n2_0 : ¬ x1 = h0 := fun h => n0_2 h.symm
  have n3_0 : ¬ y1 = h0 := fun h => n0_3 h.symm
  have n4_0 : ¬ s = h0 := fun h => n0_4 h.symm
  have n5_0 : ¬ w = h0 := fun h => n0_5 h.symm
  have n6_0 : ¬ X = h0 := fun h => n0_6 h.symm
  have n7_0 : ¬ Y = h0 := fun h => n0_7 h.symm
  have n8_0 : ¬ S = h0 := fun h => n0_8 h.symm
  have n9_0 : ¬ W = h0 := fun h => n0_9 h.symm
  have n2_1 : ¬ x1 = h1 := fun h => n1_2 h.symm
  have n3_1 : ¬ y1 = h1 := fun h => n1_3 h.symm
  have n4_1 : ¬ s = h1 := fun h => n1_4 h.symm
  have n5_1 : ¬ w = h1 := fun h => n1_5 h.symm
  have n6_1 : ¬ X = h1 := fun h => n1_6 h.symm
  have n7_1 : ¬ Y = h1 := fun h => n1_7 h.symm
  have n8_1 : ¬ S = h1 := fun h => n1_8 h.symm
  have n9_1 : ¬ W = h1 := fun h => n1_9 h.symm
  have n3_2 : ¬ y1 = x1 := fun h => n2_3 h.symm
  have n4_2 : ¬ s = x1 := fun h => n2_4 h.symm
  have n5_2 : ¬ w = x1 := fun h => n2_5 h.symm
  have n6_2 : ¬ X = x1 := fun h => n2_6 h.symm
  have n7_2 : ¬ Y = x1 := fun h => n2_7 h.symm
  have n8_2 : ¬ S = x1 := fun h => n2_8 h.symm
  have n9_2 : ¬ W = x1 := fun h => n2_9 h.symm
  have n4_3 : ¬ s = y1 := fun h => n3_4 h.symm
  have n5_3 : ¬ w = y1 := fun h => n3_5 h.symm
  have n6_3 : ¬ X = y1 := fun h => n3_6 h.symm
  have n7_3 : ¬ Y = y1 := fun h => n3_7 h.symm
  have n8_3 : ¬ S = y1 := fun h => n3_8 h.symm
  have n9_3 : ¬ W = y1 := fun h => n3_9 h.symm
  have n5_4 : ¬ w = s := fun h => n4_5 h.symm
  have n6_4 : ¬ X = s := fun h => n4_6 h.symm
  have n7_4 : ¬ Y = s := fun h => n4_7 h.symm
  have n8_4 : ¬ S = s := fun h => n4_8 h.symm
  have n9_4 : ¬ W = s := fun h => n4_9 h.symm
  have n6_5 : ¬ X = w := fun h => n5_6 h.symm
  have n7_5 : ¬ Y = w := fun h => n5_7 h.symm
  have n8_5 : ¬ S = w := fun h => n5_8 h.symm
  have n9_5 : ¬ W = w := fun h => n5_9 h.symm
  have n7_6 : ¬ Y = X := fun h => n6_7 h.symm
  have n8_6 : ¬ S = X := fun h => n6_8 h.symm
  have n9_6 : ¬ W = X := fun h => n6_9 h.symm
  have n8_7 : ¬ S = Y := fun h => n7_8 h.symm
  have n9_7 : ¬ W = Y := fun h => n7_9 h.symm
  have n9_8 : ¬ W = S := fun h => n8_9 h.symm
  simp only [mergeTwin, if_true, tX, tY, tS, tW]
  have a1 : upd (upd T X Y) Y X s = S := by simp [upd_apply, *]
  have a2 : upd (upd T X Y) Y X w = W := by simp [upd_apply, *]
  rw [a1, a2]
  by_cases t1 : g = W
  · subst t1
    simp [upd_apply, *]
  · by_cases t2 : g = S
    · subst t2
      simp [upd_apply, *]
    · by_cases t3 : g = Y
      · subst t3
        simp [upd_apply, *]
      · by_cases t4 : g = X
        · subst t4
          simp [upd_apply, *]
        · have := u1 t3
          have := u2 t1
          simp [upd_apply, *]

/-- The fans of the mesh a collapse leaves, from the fans before it: the case in
    which the two triangles share the collapsed edge only. -/
theorem collapse_fans_generic {m m' : Mesh} {e v h0 h1 x1 y1 s a b f0 f1 w : Nat}
    (nb : EdgeNbhd m e h0 h1 x1 y1 s a b f0 f1)
    (cx : CollapseCtx m m' e v h0 h1 x1 y1 s w true true)
    (rp : CollapseReps m m' v h0 h1 x1 y1 s w y1 true true)
    (tn : TriNbhd m h0 h1 x1 y1 s w a b f0 f1) (hv : Valid m)
    (g1 : m.hTwin x1 ≠ w) (g2 : m.hTwin y1 ≠ s) :
    FanSys (hLive m') (fanStep m') m'.hVertex := by
  have wf := hv.1
  obtain ⟨n6, ⟨lX, lY, lS, lW⟩, n4, n01, ⟨x1', x2, x3⟩, ⟨y1', y2, y3⟩, ⟨s1', s2, s3⟩,
    ⟨w1', w2, w3⟩, i1, i2⟩ := collapse_darts nb tn wf cx.lw
  obtain ⟨e0, e1, eY, eW, eX, eS⟩ := collapse_fanStep_pre nb tn wf cx.lw cx.n3
  have g3 : m.hTwin w ≠ x1 := fun h => g1 (i1.2 h)
  have g4 : m.hTwin s ≠ y1 := fun h => g2 (i2.2 h)
  have nd : [h0, h1, x1, y1, s, w, m.hTwin x1, m.hTwin y1, m.hTwin s, m.hTwin w].Nodup := by
    show ([h0, h1, x1, y1, s, w] ++ [m.hTwin x1, m.hTwin y1, m.hTwin s, m.hTwin w]).Nodup
    rw [List.nodup_append]
    refine ⟨n6, n4, ?_⟩
    intro p hp hq
    have q := n01 p hq
    simp only [List.mem_cons, List.mem_singleton, List.not_mem_nil, or_false] at hp hq
    rcases hp with rfl | rfl | rfl | rfl | rfl | rfl
    · exact q.1 rfl
    · exact q.2 rfl
    · rcases hq with h | h | h | h
      · exact x1' h.symm
      · exact y1' h.symm
      · exact s1' h.symm
      · exact g3 h.symm
    · rcases hq with h | h | h | h
      · exact x2 h.symm
      · exact y2 h.symm
      · exact g4 h.symm
      · exact w1' h.symm
    · rcases hq with h | h | h | h
      · exact x3 h.symm
      · exact g2 h.symm
      · exact s2 h.symm
      · exact w2 h.symm
    · rcases hq with h | h | h | h
      · exact g1 h.symm
      · exact y3 h.symm
      · exact s3 h.symm
      · exact w3 h.symm
  have fresh : ∀ g, hLive m g → m.hVertex g ≠ v := by
    intro g lg h
    have := (wf.2.2.2.1 g lg.1 lg.2).1
    rw [h, cx.vnew] at this
    exact Nat.lt_irrefl _ this
  have fs := fanSys_collapse_generic (fanSys_of_valid m hv) h0 h1 x1 y1 s w
    (m.hTwin x1) (m.hTwin y1) (m.hTwin s) (m.hTwin w) a b v nd nb.l0 nb.l1 nb.lx nb.ly nb.ls
    cx.lw lX lY lS lW e0 e1 eY eW eX eS nb.va nb.vb nb.ab fresh
  have tt : ∀ {p q : Nat}, hLive m p → m.hTwin p = q → p = m.hTwin q := by
    intro p q hp h
    rw [← h, (wf_twin wf hp).2.2]
  refine fanSys_congr fs ?_ ?_ ?_
  · intro g
    rw [collapse_hlive_tri cx g]
    constructor
    · rintro ⟨q, q0, q1, q2, q3, q4⟩
      exact ⟨q, q0, q1, q2, q3, (q4 rfl).1, (q4 rfl).2⟩
    · rintro ⟨q, q0, q1, q2, q3, q4, q5⟩
      exact ⟨q, q0, q1, q2, q3, fun _ => ⟨q4, q5⟩⟩
  · rintro g ⟨q, q0, q1, q2, q3, q4, q5⟩
    show m'.hNext (m'.hTwin g) = _
    rw [cx.twin, rp.next]
    exact twinNext_generic m.hTwin m.hNext h0 h1 x1 y1 s w _ _ _ _ g nd rfl rfl rfl rfl
      (fun t h => t (tt q h)) (fun t h => t (tt q h))
  · rintro g ⟨q, q0, q1, q2, q3, q4, q5⟩
    have := cx.vert g q q0 q1
    rw [nb.va, nb.vb] at this
    exact this

/-- The step `next ∘ twin` after the two merges, away from the six half-edges
    of the two triangles: the case in which `x1` and `w` are twins. -/
theorem twinNext_pocket1 (T N : Nat → Nat) (h0 h1 x1 y1 s w Y S g : Nat)
    (nd : [h0, h1, x1, y1, s, w, Y, S].Nodup)
    (tX : T x1 = w) (tY : T y1 = Y) (tS : T s = S) (tW : T w = x1)
    (gw : g ≠ w) (u1 : g ≠ Y → T g ≠ y1) (u2 : T g ≠ w) :
    upd (upd N y1 x1) w s (mergeTwin (mergeTwin T true x1 y1) true s w g) =
      upd (upd (fun u => N (T u)) Y (N (T s))) S (N (T y1)) g := by
  simp only [List.nodup_cons, List.mem_cons, List.mem_singleton, List.not_mem_nil, not_or,
    List.nodup_nil, not_false_eq_true, and_true, or_false] at nd
  obtain ⟨⟨n0_1, n0_2, n0_3, n0_4, n0_5, n0_6, n0_7⟩, ⟨n1_2, n1_3, n1_4, n1_5, n1_6, n1_7⟩, ⟨n2_3, n2_4, n2_5, n2_6, n2_7⟩, ⟨n3_4, n3_5, n3_6, n3_7⟩, ⟨n4_5, n4_6, n4_7⟩, ⟨n5_6, n5_7⟩, n6_7⟩ := nd
  have n1_0 : ¬ h1 = h0 := fun h => n0_1 h.symm
  have n2_0 : ¬ x1 = h0 := fun h => n0_2 h.symm
  have n3_0 : ¬ y1 = h0 := fun h => n0_3 h.symm
  have n4_0 : ¬ s = h0 := fun h => n0_4 h.symm
  have n5_0 : ¬ w = h0 := fun h => n0_5 h.symm
  have n6_0 : ¬ Y = h0 := fun h => n0_6 h.symm
  have n7_0 : ¬ S = h0 := fun h => n0_7 h.symm
  have n2_1 : ¬ x1 = h1 := fun h => n1_2 h.symm
  have n3_1 : ¬ y1 = h1 := fun h => n1_3 h.symm
  have n4_1 : ¬ s = h1 := fun h => n1_4 h.symm
  have n5_1 : ¬ w = h1 := fun h => n1_5 h.symm
  have n6_1 : ¬ Y = h1 := fun h => n1_6 h.symm
  have n7_1 : ¬ S = h1 := fun h => n1_7 h.symm
  have n3_2 : ¬ y1 = x1 := fun h => n2_3 h.symm
  have n4_2 : ¬ s = x1 := fun h => n2_4 h.symm
  have n5_2 : ¬ w = x1 := fun h => n2_5 h.symm
  have n6_2 : ¬ Y = x1 := fun h => n2_6 h.symm
  have n7_2 : ¬ S = x1 := fun h => n2_7 h.symm
  have n4_3 : ¬ s = y1 := fun h => n3_4 h.symm
  have n5_3 : ¬ w = y1 := fun h => n3_5 h.symm
  have n6_3 : ¬ Y = y1 := fun h => n3_6 h.symm
  have n7_3 : ¬ S = y1 := fun h => n3_7 h.symm
  have n5_4 : ¬ w = s := fun h => n4_5 h.symm
  have n6_4 : ¬ Y = s := fun h => n4_6 h.symm
  have n7_4 : ¬ S = s := fun h => n4_7 h.symm
  have n6_5 : ¬ Y = w := fun h => n5_6 h.symm
  have n7_5 : ¬ S = w := fun h => n5_7 h.symm
  have n7_6 : ¬ S = Y := fun h => n6_7 h.symm
  simp only [mergeTwin, if_true, tX, tY, tS, tW]
  have a1 : upd (upd T w Y) Y w s = S := by simp [upd_apply, *]
  have a2 : upd (upd T w Y) Y w w = Y := by simp [upd_apply, *]
  rw [a1, a2]
  by_cases t1 : g = S
  · subst t1
    simp [upd_apply, *]
  · by_cases t2 : g = Y
    · subst t2
      simp [upd_apply, *]
    · have := u1 t2
      simp [upd_apply, *]

/-- The fans of the mesh a collapse leaves: the case in which the two triangles
    share the side `x1`. -/
theorem collapse_fans_pocket1 {m m' : Mesh} {e v h0 h1 x1 y1 s a b f0 f1 w : Nat}
    (nb : EdgeNbhd m e h0 h1 x1 y1 s a b f0 f1)
    (cx : CollapseCtx m m' e v h0 h1 x1 y1 s w true true)
    (rp : CollapseReps m m' v h0 h1 x1 y1 s w y1 true true)
    (tn : TriNbhd m h0 h1 x1 y1 s w a b f0 f1) (hv : Valid m)
    (g1 : m.hTwin x1 = w) (g2 : m.hTwin y1 ≠ s) :
    FanSys (hLive m') (fanStep m') m'.hVertex := by
  have wf := hv.1
  obtain ⟨n6, ⟨lX, lY, lS, lW⟩, n4, n01, ⟨x1', x2, x3⟩, ⟨y1', y2, y3⟩, ⟨s1', s2, s3⟩,
    ⟨w1', w2, w3⟩, i1, i2⟩ := collapse_darts nb tn wf cx.lw
  obtain ⟨e0, e1, eY, eW, eX, eS⟩ := collapse_fanStep_pre nb tn wf cx.lw cx.n3
  have fresh : ∀ g, hLive m g → m.hVertex g ≠ v := by
    intro g lg h
    have := (wf.2.2.2.1 g lg.1 lg.2).1
    rw [h, cx.vnew] at this
    exact Nat.lt_irrefl _ this
  have tt : ∀ {p q : Nat}, hLive m p → m.hTwin p = q → p = m.hTwin q := by
    intro p q hp h
    rw [← h, (wf_twin wf hp).2.2]
  simp only [List.nodup_cons, List.mem_cons, List.mem_singleton, List.not_mem_nil, not_or,
    List.nodup_nil, not_false_eq_true, and_true, or_false] at n6 n4
  have g3 : m.hTwin w = x1 := i1.1 g1
  have g4 : m.hTwin s ≠ y1 := fun h => g2 (i2.2 h)
  have q01 := n01 (m.hTwin y1) (by simp)
  have q02 := n01 (m.hTwin s) (by simp)
  have nd : [h0, h1, x1, y1, s, w, m.hTwin y1, m.hTwin s].Nodup := by
    simp only [List.nodup_cons, List.mem_cons, List.mem_singleton, List.not_mem_nil, not_or,
      List.nodup_nil, not_false_eq_true, and_true, or_false]
    exact ⟨⟨n6.1.1, n6.1.2.1, n6.1.2.2.1, n6.1.2.2.2.1, n6.1.2.2.2.2, Ne.symm q01.1,
        Ne.symm q02.1⟩,
      ⟨n6.2.1.1, n6.2.1.2.1, n6.2.1.2.2.1, n6.2.1.2.2.2, Ne.symm q01.2, Ne.symm q02.2⟩,
      ⟨n6.2.2.1.1, n6.2.2.1.2.1, n6.2.2.1.2.2, Ne.symm y1', Ne.symm s1'⟩,
      ⟨n6.2.2.2.1.1, n6.2.2.2.1.2, Ne.symm y2, Ne.symm g4⟩,
      ⟨n6.2.2.2.2, Ne.symm g2, Ne.symm s2⟩, ⟨Ne.symm y3, Ne.symm s3⟩, n4.2.1.1⟩
  have ex : fanStep m x1 = h1 := by unfold fanStep; rw [g1, cx.n3]
  have ew : fanStep m w = y1 := by unfold fanStep; rw [g3, nb.n1]
  have fs := fanSys_collapse_pocket1 (fanSys_of_valid m hv) h0 h1 x1 y1 s w
    (m.hTwin y1) (m.hTwin s) a b v nd nb.l0 nb.l1 nb.lx nb.ly nb.ls
    cx.lw lY lS e0 e1 eY ex ew eS nb.va nb.vb nb.ab fresh
  refine fanSys_congr fs ?_ ?_ ?_
  · intro g
    rw [collapse_hlive_tri cx g]
    constructor
    · rintro ⟨q, q0, q1, q2, q3, q4⟩
      exact ⟨q, q0, q1, q2, q3, (q4 rfl).1, (q4 rfl).2⟩
    · rintro ⟨q, q0, q1, q2, q3, q4, q5⟩
      exact ⟨q, q0, q1, q2, q3, fun _ => ⟨q4, q5⟩⟩
  · rintro g ⟨q, q0, q1, q2, q3, q4, q5⟩
    show m'.hNext (m'.hTwin g) = _
    rw [cx.twin, rp.next]
    exact twinNext_pocket1 m.hTwin m.hNext h0 h1 x1 y1 s w _ _ g nd g1 rfl rfl g3 q5
      (fun t h => t (tt q h)) (fun h => q2 ((tt q h).trans g3))
  · rintro g ⟨q, q0, q1, q2, q3, q4, q5⟩
    have := cx.vert g q q0 q1
    rw [nb.va, nb.vb] at this
    exact this

/-- The step `next ∘ twin` after the two merges, away from the six half-edges
    of the two triangles: the case in which `y1` and `s` are twins. -/
theorem twinNext_pocket2 (T N : Nat → Nat) (h0 h1 x1 y1 s w X W g : Nat)
    (nd : [h0, h1, x1, y1, s, w, X, W].Nodup)
    (tX : T x1 = X) (tY : T y1 = s) (tS : T s = y1) (tW : T w = W)
    (gs : g ≠ s) (u1 : T g ≠ y1) (u2 : g ≠ W → T g ≠ w) :
    upd (upd N y1 x1) w s (mergeTwin (mergeTwin T true x1 y1) true s w g) =
      upd (upd (fun u => N (T u)) W (N (T x1))) X (N (T w)) g := by
  simp only [List.nodup_cons, List.mem_cons, List.mem_singleton, List.not_mem_nil, not_or,
    List.nodup_nil, not_false_eq_true, and_true, or_false] at nd
  obtain ⟨⟨n0_1, n0_2, n0_3, n0_4, n0_5, n0_6, n0_7⟩, ⟨n1_2, n1_3, n1_4, n1_5, n1_6, n1_7⟩, ⟨n2_3, n2_4, n2_5, n2_6, n2_7⟩, ⟨n3_4, n3_5, n3_6, n3_7⟩, ⟨n4_5, n4_6, n4_7⟩, ⟨n5_6, n5_7⟩, n6_7⟩ := nd
  have n1_0 : ¬ h1 = h0 := fun h => n0_1 h.symm
  have n2_0 : ¬ x1 = h0 := fun h => n0_2 h.symm
  have n3_0 : ¬ y1 = h0 := fun h => n0_3 h.symm
  have n4_0 : ¬ s = h0 := fun h => n0_4 h.symm
  have n5_0 : ¬ w = h0 := fun h => n0_5 h.symm
  have n6_0 : ¬ X = h0 := fun h => n0_6 h.symm
  have n7_0 : ¬ W = h0 := fun h => n0_7 h.symm
  have n2_1 : ¬ x1 = h1 := fun h => n1_2 h.symm
  have n3_1 : ¬ y1 = h1 := fun h => n1_3 h.symm
  have n4_1 : ¬ s = h1 := fun h => n1_4 h.symm
  have n5_1 : ¬ w = h1 := fun h => n1_5 h.symm
  have n6_1 : ¬ X = h1 := fun h => n1_6 h.symm
  have n7_1 : ¬ W = h1 := fun h => n1_7 h.symm
  have n3_2 : ¬ y1 = x1 := fun h => n2_3 h.symm
  have n4_2 : ¬ s = x1 := fun h => n2_4 h.symm
  have n5_2 : ¬ w = x1 := fun h => n2_5 h.symm
  have n6_2 : ¬ X = x1 := fun h => n2_6 h.symm
  have n7_2 : ¬ W = x1 := fun h => n2_7 h.symm
  have n4_3 : ¬ s = y1 := fun h => n3_4 h.symm
  have n5_3 : ¬ w = y1 := fun h => n3_5 h.symm
  have n6_3 : ¬ X = y1 := fun h => n3_6 h.symm
  have n7_3 : ¬ W = y1 := fun h => n3_7 h.symm
  have n5_4 : ¬ w = s := fun h => n4_5 h.symm
  have n6_4 : ¬ X = s := fun h => n4_6 h.symm
  have n7_4 : ¬ W = s := fun h => n4_7 h.symm
  have n6_5 : ¬ X = w := fun h => n5_6 h.symm
  have n7_5 : ¬ W = w := fun h => n5_7 h.symm
  have n7_6 : ¬ W = X := fun h => n6_7 h.symm
  simp only [mergeTwin, if_true, tX, tY, tS, tW]
  have a1 : upd (upd T X s) s X s = X := by simp [upd_apply, *]
  have a2 : upd (upd T X s) s X w = W := by simp [upd_apply, *]
  rw [a1, a2]
  by_cases t1 : g = X
  · subst t1
    simp [upd_apply, *]
  · by_cases t2 : g = W
    · subst t2
      simp [upd_apply, *]
    · have := u2 t2
      simp [upd_apply, *]

/-- The fans of the mesh a collapse leaves: the case in which the two triangles
    share the side `y1`. -/
theorem collapse_fans_pocket2 {m m' : Mesh} {e v h0 h1 x1 y1 s a b f0 f1 w : Nat}
    (nb : EdgeNbhd m e h0 h1 x1 y1 s a b f0 f1)
    (cx : CollapseCtx m m' e v h0 h1 x1 y1 s w true true)
    (rp : CollapseReps m m' v h0 h1 x1 y1 s w y1 true true)
    (tn : TriNbhd m h0 h1 x1 y1 s w a b f0 f1) (hv : Valid m)
    (g1 : m.hTwin x1 ≠ w) (g2 : m.hTwin y1 = s) :
    FanSys (hLive m') (fanStep m') m'.hVertex := by
  have wf := hv.1
  obtain ⟨n6, ⟨lX, lY, lS, lW⟩, n4, n01, ⟨x1', x2, x3⟩, ⟨y1', y2, y3⟩, ⟨s1', s2, s3⟩,
    ⟨w1', w2, w3⟩, i1, i2⟩ := collapse_darts nb tn wf cx.lw
  obtain ⟨e0, e1, eY, eW, eX, eS⟩ := collapse_fanStep_pre nb tn wf cx.lw cx.n3
  have fresh : ∀ g, hLive m g → m.hVertex g ≠ v := by
    intro g lg h
    have := (wf.2.2.2.1 g lg.1 lg.2).1
    rw [h, cx.vnew] at this
    exact Nat.lt_irrefl _ this
  have tt : ∀ {p q : Nat}, hLive m p → m.hTwin p = q → p = m.hTwin q := by
    intro p q hp h
    rw [← h, (wf_twin wf hp).2.2]
  simp only [List.nodup_cons, List.mem_cons, List.mem_singleton, List.not_mem_nil, not_or,
    List.nodup_nil, not_false_eq_true, and_true, or_false] at n6 n4
  have g3 : m.hTwin w ≠ x1 := fun h => g1 (i1.2 h)
  have g4 : m.hTwin s = y1 := i2.1 g2
  have q01 := n01 (m.hTwin x1) (by simp)
  have q02 := n01 (m.hTwin w) (by simp)
  have nd : [h0, h1, x1, y1, s, w, m.hTwin x1, m.hTwin w].Nodup := by
    simp only [List.nodup_cons, List.mem_cons, List.mem_singleton, List.not_mem_nil, not_or,
      List.nodup_nil, not_false_eq_true, and_true, or_false]
    exact ⟨⟨n6.1.1, n6.1.2.1, n6.1.2.2.1, n6.1.2.2.2.1, n6.1.2.2.2.2, Ne.symm q01.1,
        Ne.symm q02.1⟩,
      ⟨n6.2.1.1, n6.2.1.2.1, n6.2.1.2.2.1, n6.2.1.2.2.2, Ne.symm q01.2, Ne.symm q02.2⟩,
      ⟨n6.2.2.1.1, n6.2.2.1.2.1, n6.2.2.1.2.2, Ne.symm x1', Ne.symm g3⟩,
      ⟨n6.2.2.2.1.1, n6.2.2.2.1.2, Ne.symm x2, Ne.symm w1'⟩,
      ⟨n6.2.2.2.2, Ne.symm x3, Ne.symm w2⟩, ⟨Ne.symm g1, Ne.symm w3⟩, n4.1.2.2⟩
  have es : fanStep m s = h0 := by unfold fanStep; rw [g4, tn.ny]
  have ey : fanStep m y1 = w := by unfold fanStep; rw [g2, tn.ns]
  have fs := fanSys_collapse_pocket2 (fanSys_of_valid m hv) h0 h1 x1 y1 s w
    (m.hTwin x1) (m.hTwin w) a b v nd nb.l0 nb.l1 nb.lx nb.ly nb.ls
    cx.lw lX lW e0 e1 es eW eX ey nb.va nb.vb nb.ab fresh
  refine fanSys_congr fs ?_ ?_ ?_
  · intro g
    rw [collapse_hlive_tri cx g]
    constructor
    · rintro ⟨q, q0, q1, q2, q3, q4⟩
      exact ⟨q, q0, q1, q2, q3, (q4 rfl).1, (q4 rfl).2⟩
    · rintro ⟨q, q0, q1, q2, q3, q4, q5⟩
      exact ⟨q, q0, q1, q2, q3, fun _ => ⟨q4, q5⟩⟩
  · rintro g ⟨q, q0, q1, q2, q3, q4, q5⟩
    show m'.hNext (m'.hTwin g) = _
    rw [cx.twin, rp.next]
    exact twinNext_pocket2 m.hTwin m.hNext h0 h1 x1 y1 s w _ _ g nd rfl g2 g4 rfl q4
      (fun h => q4 ((tt q h).trans g2)) (fun t h => t (tt q h))
  · rintro g ⟨q, q0, q1, q2, q3, q4, q5⟩
    have := cx.vert g q q0 q1
    rw [nb.va, nb.vb] at this
    exact this

/-- What a completed fan walk of `can_collapse_edge` has checked, within the
    walk: a visited half-edge whose end is the end of a half-edge visited
    before it, or was in the set the walk started with, has one of its two
    faces in the whitelist. -/
theorem fanScan_within (dbg : Bool) (m : Mesh) (wl : List Nat) (hstart : Nat) :
    ∀ (fuel h : Nat) (seen seen' : List Nat),
      fanScan dbg m wl hstart fuel h seen = some (some seen') →
      ∃ t, (fanStep m)^[t + 1] h = hstart ∧
        (∀ j, j ≤ t → m.hVertex (m.hTwin ((fanStep m)^[j] h)) ∈ seen →
          m.hFace ((fanStep m)^[j] h) ∈ wl ∨ m.hFace (m.hTwin ((fanStep m)^[j] h)) ∈ wl) ∧
        (∀ i j, i < j → j ≤ t →
          m.hVertex (m.hTwin ((fanStep m)^[i] h)) = m.hVertex (m.hTwin ((fanStep m)^[j] h)) →
          m.hFace ((fanStep m)^[j] h) ∈ wl ∨ m.hFace (m.hTwin ((fanStep m)^[j] h)) ∈ wl) := by
  intro fuel
  induction fuel with
  | zero => intro h seen seen' hh; simp [fanScan] at hh
  | succ n ih =>
    intro h seen seen' hh
    unfold fanScan at hh
    simp only at hh
    split_ifs at hh with c1 c2 c3
    · simp at hh
    · have wlh : m.hVertex (m.hTwin h) ∈ seen →
          m.hFace h ∈ wl ∨ m.hFace (m.hTwin h) ∈ wl := by
        intro hs
        by_contra hn
        simp only [not_or] at hn
        apply c2
        simp [hs, hn.1, hn.2]
      refine ⟨0, by simpa [fanStep] using c3, ?_, ?_⟩
      · intro j hj
        obtain rfl : j = 0 := by omega
        simpa using wlh
      · intro i j hij hj
        omega
    · obtain ⟨t, e1, e4, e5⟩ := ih _ _ _ hh
      have wlh : m.hVertex (m.hTwin h) ∈ seen →
          m.hFace h ∈ wl ∨ m.hFace (m.hTwin h) ∈ wl := by
        intro hs
        by_contra hn
        simp only [not_or] at hn
        apply c2
        simp [hs, hn.1, hn.2]
      have it : ∀ j, (fanStep m)^[j] (m.hNext (m.hTwin h)) = (fanStep m)^[j + 1] h := by
        intro j; rw [Function.iterate_succ_apply]; rfl
      refine ⟨t + 1, by rw [← it]; exact e1, ?_, ?_⟩
      · intro j hj hs
        rcases Nat.eq_zero_or_pos j with rfl | hp
        · simpa using wlh (by simpa using hs)
        · obtain ⟨i, rfl⟩ : ∃ i, j = i + 1 := ⟨j - 1, by omega⟩
          rw [← it] at hs ⊢
          exact e4 i (by omega) (by simp [hs])
      · intro i j hij hj he
        obtain ⟨j', rfl⟩ : ∃ j', j = j' + 1 := ⟨j - 1, by omega⟩
        rw [← it] at he ⊢
        rcases Nat.eq_zero_or_pos i with rfl | hp
        · refine e4 j' (by omega) ?_
          rw [← he]
          simp
        · obtain ⟨i', rfl⟩ : ∃ i', i = i' + 1 := ⟨i - 1, by omega⟩
          rw [← it] at he
          exact e5 i' j' (by omega) (by omega) he

/-- What `can_collapse_edge` has checked when it returns `true`, within the
    walk around the second end of `e`: a half-edge that ends where a half-edge
    visited before it ends has a face of `e` on one of its two sides. -/
theorem can_collapse_within (dbg : Bool) (m : Mesh) (e : Nat)
    (h : can_collapse_edge dbg m e = some true) :
    ∃ t, (fanStep m)^[t + 1] (m.hTwin (m.eHalfedge e)) = m.hTwin (m.eHalfedge e) ∧
      ∀ i j, i < j → j ≤ t →
        m.hVertex (m.hTwin ((fanStep m)^[i] (m.hTwin (m.eHalfedge e)))) =
          m.hVertex (m.hTwin ((fanStep m)^[j] (m.hTwin (m.eHalfedge e)))) →
        (m.hFace ((fanStep m)^[j] (m.hTwin (m.eHalfedge e))) = m.hFace (m.eHalfedge e) ∨
         m.hFace ((fanStep m)^[j] (m.hTwin (m.eHalfedge e))) =
            m.hFace (m.hTwin (m.eHalfedge e))) ∨
        (m.hFace (m.hTwin ((fanStep m)^[j] (m.hTwin (m.eHalfedge e)))) =
            m.hFace (m.eHalfedge e) ∨
         m.hFace (m.hTwin ((fanStep m)^[j] (m.hTwin (m.eHalfedge e)))) =
            m.hFace (m.hTwin (m.eHalfedge e))) := by
  unfold can_collapse_edge at h
  split_ifs at h with g
  · simp at h
  simp only at h
  split at h
  · simp at h
  · simp at h
  · rename_i seen hs1
    split at h
    · simp at h
    · simp at h
    · rename_i seen2 hs2
      obtain ⟨t2, b1, -, b5⟩ := fanScan_within dbg m _ _ _ _ _ _ hs2
      refine ⟨t2, b1, ?_⟩
      intro i j hij hj he
      have := b5 i j hij hj he
      simpa using this

/-- When `can_collapse_edge` returns `true` on a triangle mesh, the edge is
    the only edge between its two ends: a live half-edge from `b` to `a` is the
    half-edge `h1` of the edge. -/
theorem no_second_edge {dbg : Bool} {m : Mesh} {e h0 h1 x1 y1 s a b f0 f1 w : Nat}
    (nb : EdgeNbhd m e h0 h1 x1 y1 s a b f0 f1)
    (tn : TriNbhd m h0 h1 x1 y1 s w a b f0 f1) (hv : Valid m)
    (hcc : can_collapse_edge dbg m e = some true)
    (g : Nat) (lg : hLive m g) (vg : m.hVertex g = b) (tg : m.hVertex (m.hTwin g) = a) :
    g = h1 := by
  have wf := hv.1
  obtain ⟨t, per, key⟩ := can_collapse_within dbg m e hcc
  rw [nb.e0, nb.t0, nb.f0a, nb.f1b] at key
  rw [nb.e0, nb.t0] at per
  obtain ⟨k, -, hk⟩ := hv.2.1 h1 nb.l1.1 nb.l1.2 g lg.1 lg.2 (nb.vb.trans vg.symm)
  have hp : Function.IsPeriodicPt (fanStep m) (t + 1) h1 := per
  have hj : (fanStep m)^[k % (t + 1)] h1 = g := by rw [hp.iterate_mod_apply k, hk]
  have jt : k % (t + 1) ≤ t := Nat.lt_succ_iff.1 (Nat.mod_lt _ (Nat.succ_pos t))
  rcases Nat.eq_zero_or_pos (k % (t + 1)) with z | pos
  · rw [z] at hj
    exact hj.symm
  · have := key 0 (k % (t + 1)) pos jt (by
      rw [hj, Function.iterate_zero, id_eq, nb.t1, nb.va, tg])
    rw [hj] at this
    have ltg := (wf_twin wf lg).1
    have ttg := (wf_twin wf lg).2.2
    rcases this with (h | h) | (h | h)
    · rcases tn.on0 g lg h with r | r | r
      · rw [r, nb.va] at vg; exact absurd vg nb.ab
      · rw [r, tn.vtx] at tg; exact absurd tg tn.vya
      · rw [r] at vg; exact absurd vg tn.vyb
    · rcases tn.on1 g lg h with r | r | r
      · exact r
      · rw [r, nb.vs] at vg; exact absurd vg nb.ab
      · rw [r] at vg; exact absurd vg tn.vwb
    · rcases tn.on0 _ ltg h with r | r | r
      · rw [← ttg, r, nb.t0]
      · rw [r, nb.vx] at tg; exact absurd tg.symm nb.ab
      · rw [r] at tg; exact absurd tg tn.vya
    · rcases tn.on1 _ ltg h with r | r | r
      · rw [r, nb.vb] at tg; exact absurd tg.symm nb.ab
      · rw [← ttg, r, tn.vts] at vg; exact absurd vg tn.vwb
      · rw [r] at tg; exact absurd tg tn.vwa

/-- A collapse in a triangle mesh leaves no loop edge. -/
theorem collapse_noLoops {dbg : Bool} {m m' : Mesh} {e v h0 h1 x1 y1 s a b f0 f1 w : Nat}
    {A2 : Bool}
    (nb : EdgeNbhd m e h0 h1 x1 y1 s a b f0 f1)
    (cx : CollapseCtx m m' e v h0 h1 x1 y1 s w true A2)
    (tn : TriNbhd m h0 h1 x1 y1 s w a b f0 f1) (hv : Valid m) (wf' : WellFormed m')
    (hcc : can_collapse_edge dbg m e = some true) : NoLoops m' := by
  have wf := hv.1
  intro g g1 g2
  have lg' : hLive m' g := ⟨g1, g2⟩
  have lt' := (wf_twin wf' lg').1
  obtain ⟨lg, gh0, gh1, -⟩ := (collapse_hlive_tri cx g).1 lg'
  obtain ⟨lt, th0, th1, -⟩ := (collapse_hlive_tri cx _).1 lt'
  have vg := cx.vert g lg gh0 gh1
  have vt := cx.vert _ lt th0 th1
  rw [nb.va, nb.vb] at vg vt
  rw [vg, vt, (collapse_heads nb cx tn wf g).2]
  intro h
  have nl := hv.2.2 g lg.1 lg.2
  have ltg := (wf_twin wf lg).1
  have ttg := (wf_twin wf lg).2.2
  have fr : ∀ p, hLive m p → m.hVertex p ≠ v := by
    intro p lp q
    have := (wf.2.2.2.1 p lp.1 lp.2).1
    rw [q, cx.vnew] at this
    exact Nat.lt_irrefl _ this
  unfold mergedVertex at h
  by_cases c1 : m.hVertex (m.hTwin g) = a ∨ m.hVertex (m.hTwin g) = b
  · by_cases c2 : m.hVertex g = a ∨ m.hVertex g = b
    · rcases c1 with p | p <;> rcases c2 with q | q
      · exact nl (p.trans q.symm)
      · exact gh1 (no_second_edge nb tn hv hcc g lg q p)
      · have := no_second_edge nb tn hv hcc _ ltg p (by rw [ttg]; exact q)
        rw [← ttg, this, nb.t1] at gh0
        exact gh0 rfl
      · exact nl (p.trans q.symm)
    · rw [if_pos c1, if_neg c2] at h
      exact fr g lg h.symm
  · by_cases c2 : m.hVertex g = a ∨ m.hVertex g = b
    · rw [if_neg c1, if_pos c2] at h
      exact fr _ ltg h
    · rw [if_neg c1, if_neg c2] at h
      exact nl h

/-- A collapse that removes both triangles of its edge leaves a triangle
    mesh. -/
theorem collapse_triangle {m m' : Mesh} {e v h0 h1 x1 y1 s a b f0 f1 w : Nat}
    (nb : EdgeNbhd m e h0 h1 x1 y1 s a b f0 f1)
    (cx : CollapseCtx m m' e v h0 h1 x1 y1 s w true true)
    (rp : CollapseReps m m' v h0 h1 x1 y1 s w y1 true true)
    (tn : TriNbhd m h0 h1 x1 y1 s w a b f0 f1) (wf : WellFormed m) (tm : TriangleMesh m) :
    TriangleMesh m' := by
  intro g g1 g2
  obtain ⟨lg, -, -, -, -, -⟩ := (collapse_hlive_tri cx g).1 ⟨g1, g2⟩
  have out : ∀ p, hLive m p → m.hFace p = m.hFace g →
      p ≠ y1 ∧ p ≠ w ∧ m.hFace p ≠ f0 ∧ m.hFace p ≠ f1 := by
    intro p lp fp
    obtain ⟨-, q0, q1, q2, q3, q4⟩ := (collapse_hlive_tri cx g).1 ⟨g1, g2⟩
    have k0 : m.hFace g ≠ f0 := by
      intro h
      rcases tn.on0 g lg h with r | r | r
      · exact q0 r
      · exact q2 r
      · exact q3 r
    have k1 : m.hFace g ≠ f1 := by
      intro h
      rcases tn.on1 g lg h with r | r | r
      · exact q1 r
      · exact (q4 rfl).1 r
      · exact (q4 rfl).2 r
    refine ⟨?_, ?_, by rw [fp]; exact k0, by rw [fp]; exact k1⟩
    · intro h
      rw [h, nb.f0y] at fp
      exact k0 fp.symm
    · intro h
      rw [h, tn.fw] at fp
      exact k1 fp.symm
  have nx : ∀ p, hLive m p → m.hFace p = m.hFace g → m'.hNext p = m.hNext p := by
    intro p lp fp
    obtain ⟨a1, a2, -, -⟩ := out p lp fp
    rw [rp.next, upd_apply, if_neg a2, upd_apply, if_neg a1]
  obtain ⟨l1, f1', -⟩ := wf_next wf lg
  obtain ⟨l2, f2', -⟩ := wf_next wf l1
  obtain ⟨t1, t2⟩ := tm g lg.1 lg.2
  obtain ⟨-, -, k0, k1⟩ := out g lg rfl
  have fh : m'.fHalfedge (m'.hFace g) = m.fHalfedge (m.hFace g) := by
    rw [cx.face, rp.frep, nb.f0a, nb.f1b, upd_apply, if_neg k1, upd_apply, if_neg k0]
  rw [nx g lg rfl, nx _ l1 f1', nx _ l2 (f2'.trans f1'), fh]
  exact ⟨t1, t2⟩

/-- The two triangles of the edge `e` do not share both of their other
    sides. -/
theorem not_pillow_of_merge {m m' : Mesh} {e v h0 h1 x1 y1 s a b f0 f1 w : Nat}
    (nb : EdgeNbhd m e h0 h1 x1 y1 s a b f0 f1)
    (cx : CollapseCtx m m' e v h0 h1 x1 y1 s w true true)
    (tn : TriNbhd m h0 h1 x1 y1 s w a b f0 f1) (wf : WellFormed m) :
    ¬ (m.hTwin x1 = w ∧ m.hTwin y1 = s) := by
  rintro ⟨p1, p2⟩
  have c := (cx.c2.1 rfl).2
  apply c
  have sx : s ≠ m.hTwin x1 := by
    rw [p1]; exact tn.sw
  simp only [mergeEdge, if_true, upd_apply, p1, if_neg tn.sw, if_pos]
  rw [← p2, (wf_edge wf nb.ly).2.1]

/-- A collapse that removes both triangles of its edge keeps the invariants
    1 to 5 and leaves a triangle mesh. -/
theorem collapse_valid_ctx {dbg : Bool} {m m' : Mesh} {e v h0 h1 x1 y1 s a b f0 f1 w : Nat}
    (nb : EdgeNbhd m e h0 h1 x1 y1 s a b f0 f1)
    (cx : CollapseCtx m m' e v h0 h1 x1 y1 s w true true)
    (rp : CollapseReps m m' v h0 h1 x1 y1 s w y1 true true)
    (tn : TriNbhd m h0 h1 x1 y1 s w a b f0 f1) (hv : Valid m) (tm : TriangleMesh m)
    (hcc : can_collapse_edge dbg m e = some true) :
    Valid m' ∧ TriangleMesh m' := by
  have wf' := (collapse_tri_wf nb cx rp tn hv.1 (triLens_of_triangle tm)).1
  have np := not_pillow_of_merge nb cx tn hv.1
  have fs : FanSys (hLive m') (fanStep m') m'.hVertex := by
    by_cases p1 : m.hTwin x1 = w
    · by_cases p2 : m.hTwin y1 = s
      · exact absurd ⟨p1, p2⟩ np
      · exact collapse_fans_pocket1 nb cx rp tn hv p1 p2
    · by_cases p2 : m.hTwin y1 = s
      · exact collapse_fans_pocket2 nb cx rp tn hv p1 p2
      · exact collapse_fans_generic nb cx rp tn hv p1 p2
  exact ⟨⟨wf', fanOK_of_fanSys m' fs, collapse_noLoops nb cx tn hv wf' hcc⟩,
    collapse_triangle nb cx rp tn hv.1 tm⟩

/-- On a mesh that satisfies the invariants 1 to 5 and whose faces are all
    triangles, a collapse that returns a vertex, on a live edge whose two
    triangles do not share both of their other sides, leaves a mesh that
    satisfies the invariants and whose faces are all triangles, with the
    counts of C28. -/
theorem collapse_edge_valid (dbg : Bool) (m m' : Mesh) (e v : Nat)
    (hv : Valid m) (tm : TriangleMesh m) (he : eLive m e)
    (hc : collapse_edge dbg m e = some (some v, m'))
    (hd : m.hEdge (m.hNext (m.eHalfedge e)) ≠
        m.hEdge (m.hNext (m.hNext (m.hTwin (m.eHalfedge e)))) ∨
      m.hEdge (m.hNext (m.hNext (m.eHalfedge e))) ≠
        m.hEdge (m.hNext (m.hTwin (m.eHalfedge e)))) :
    Valid m' ∧ TriangleMesh m' := by
  have sf := triangleMesh_simpleFaces hv tm
  obtain ⟨w, z, A1, A2, nb, cx, rp⟩ := collapse_full dbg m m' e v hv sf he hc
  have tn := triNbhd_of nb hv tm cx.lw cx.n3
  have a1 : A1 = true := cx.c1.2 ⟨tn.ny, tn.exy⟩
  have zy : z = m.hNext (m.hNext (m.eHalfedge e)) :=
    next_inj m hv.1 _ _ rp.lz nb.ly (by rw [rp.n4, tn.ny])
  subst a1
  subst zy
  rw [tn.ns] at hd
  obtain ⟨a2, -⟩ := collapse_second_merge nb cx tn hv.1 hd
  subst a2
  exact collapse_valid_ctx nb cx rp tn hv tm (collapse_edge_spec dbg m m' e v hc).1

/-- The step `next ∘ twin` after a collapse on two triangles that share all
    three sides, away from the four half-edges the collapse erases. -/
theorem twinNext_pillow (T N : Nat → Nat) (x1 y1 s w g : Nat)
    (sw : s ≠ w) (sy : s ≠ y1) (tX : T x1 = w) (tY : T y1 = s) (nS : N s = w)
    (u1 : g ≠ s → T g ≠ y1) (u2 : T g ≠ w) :
    upd (upd N y1 x1) w s (mergeTwin (mergeTwin T true x1 y1) false s w g) =
      upd (upd (fun u => N (T u)) s s) w w g := by
  have ws : w ≠ s := Ne.symm sw
  simp only [mergeTwin, if_true, tX, tY, Bool.false_eq_true, if_false]
  by_cases t1 : g = w
  · subst t1
    simp [upd_apply, sw, ws, sy, nS]
  · by_cases t2 : g = s
    · subst t2
      simp [upd_apply, sw, ws]
    · have := u1 t2
      simp [upd_apply, t1, t2, this, u2]

/-- When the second call of `process_outbound_edges` in a collapse on two
    triangles merges nothing, the two triangles share all three sides. -/
theorem pillow_of_no_merge {m m' : Mesh} {e v h0 h1 x1 y1 s a b f0 f1 w : Nat}
    (nb : EdgeNbhd m e h0 h1 x1 y1 s a b f0 f1)
    (cx : CollapseCtx m m' e v h0 h1 x1 y1 s w true false)
    (tn : TriNbhd m h0 h1 x1 y1 s w a b f0 f1) (wf : WellFormed m) :
    m.hTwin x1 = w ∧ m.hTwin y1 = s := by
  have eq : mergeEdge m.hTwin m.hEdge true x1 y1 s = mergeEdge m.hTwin m.hEdge true x1 y1 w := by
    by_contra h
    exact Bool.noConfusion (cx.c2.2 ⟨tn.ns, h⟩)
  have stx : s ≠ m.hTwin x1 := by
    intro h
    have := tn.vtx
    rw [← h, nb.vs] at this
    exact tn.vya this.symm
  simp only [mergeEdge, if_true, upd_apply, if_neg stx] at eq
  by_cases wx : w = m.hTwin x1
  · rw [if_pos wx] at eq
    refine ⟨wx.symm, ?_⟩
    rcases (wf_edge wf nb.ly).2.2 s nb.ls eq with r | r
    · exact absurd r (ne_of_f m.hFace nb.f1s nb.f0y nb.ff.symm)
    · exact r.symm
  · rw [if_neg wx] at eq
    exfalso
    rcases (wf_edge wf cx.lw).2.2 s nb.ls eq with r | r
    · exact tn.sw r
    · have := tn.vtw
      rw [← r, nb.vs] at this
      exact nb.ab this

/-- The fans of the mesh a collapse leaves: the case in which the two triangles
    share all three sides. -/
theorem collapse_fans_pillow {m m' : Mesh} {e v h0 h1 x1 y1 s a b f0 f1 w : Nat}
    (nb : EdgeNbhd m e h0 h1 x1 y1 s a b f0 f1)
    (cx : CollapseCtx m m' e v h0 h1 x1 y1 s w true false)
    (rp : CollapseReps m m' v h0 h1 x1 y1 s w y1 true false)
    (tn : TriNbhd m h0 h1 x1 y1 s w a b f0 f1) (hv : Valid m)
    (g1 : m.hTwin x1 = w) (g2 : m.hTwin y1 = s) :
    FanSys (hLive m') (fanStep m') m'.hVertex := by
  have wf := hv.1
  obtain ⟨n6, -, -, -, -, -, -, -, i1, i2⟩ := collapse_darts nb tn wf cx.lw
  obtain ⟨e0, e1, eY, eW, eX, eS⟩ := collapse_fanStep_pre nb tn wf cx.lw cx.n3
  have g3 : m.hTwin w = x1 := i1.1 g1
  have g4 : m.hTwin s = y1 := i2.1 g2
  rw [g2] at eY
  rw [g3] at eW
  rw [g1] at eX
  rw [g4] at eS
  have fresh : ∀ g, hLive m g → m.hVertex g ≠ v := by
    intro g lg h
    have := (wf.2.2.2.1 g lg.1 lg.2).1
    rw [h, cx.vnew] at this
    exact Nat.lt_irrefl _ this
  have tt : ∀ {p q : Nat}, hLive m p → m.hTwin p = q → p = m.hTwin q := by
    intro p q hp h
    rw [← h, (wf_twin wf hp).2.2]
  have fs := fanSys_collapse_pillow (fanSys_of_valid m hv) h0 h1 x1 y1 s w a b v n6
    nb.l0 nb.l1 nb.lx nb.ly nb.ls cx.lw e0 eY e1 eW eS eX nb.va nb.vb nb.ab fresh
  have sy : s ≠ y1 := ne_of_f m.hFace nb.f1s nb.f0y nb.ff.symm
  refine fanSys_congr fs ?_ ?_ ?_
  · intro g
    rw [collapse_hlive_tri cx g]
    constructor
    · rintro ⟨q, q0, q1, q2, q3, -⟩
      exact ⟨q, q0, q1, q2, q3⟩
    · rintro ⟨q, q0, q1, q2, q3⟩
      exact ⟨q, q0, q1, q2, q3, fun h => Bool.noConfusion h⟩
  · rintro g ⟨q, q0, q1, q2, q3⟩
    show m'.hNext (m'.hTwin g) = _
    rw [cx.twin, rp.next]
    exact twinNext_pillow m.hTwin m.hNext x1 y1 s w g tn.sw sy g1 g2 tn.ns
      (fun t h => t ((tt q h).trans g2)) (fun h => q2 ((tt q h).trans g3))
  · rintro g ⟨q, q0, q1, q2, q3⟩
    have := cx.vert g q q0 q1
    rw [nb.va, nb.vb] at this
    exact this

/-- The twin table after the merges of a collapse, at a half-edge that is not
    the twin of one of the four merged sides. -/
theorem mergeTwin_away (T : Nat → Nat) (A2 : Bool) (x1 y1 s w g : Nat)
    (a : g ≠ T x1) (b : g ≠ T y1) (c : g ≠ T s) (d : g ≠ T w) :
    mergeTwin (mergeTwin T true x1 y1) A2 s w g = T g := by
  have i1 : upd (upd T (T x1) (T y1)) (T y1) (T x1) g = T g := by
    rw [upd_apply, if_neg b, upd_apply, if_neg a]
  cases A2 with
  | false =>
    simp only [mergeTwin, if_true, Bool.false_eq_true, if_false]
    exact i1
  | true =>
    simp only [mergeTwin, if_true]
    have k : ∀ u, g ≠ T u → g ≠ upd (upd T (T x1) (T y1)) (T y1) (T x1) u := by
      intro u hu
      rw [upd_apply]
      split_ifs with c1
      · exact a
      · rw [upd_apply]
        split_ifs with c2
        · exact b
        · exact hu
    rw [upd_apply, if_neg (k w d), upd_apply, if_neg (k s c)]
    exact i1

/-- A collapse on two triangles of a mesh of triangles and two-sided faces
    leaves a mesh of triangles and two-sided faces. -/
theorem collapse_triLens {m m' : Mesh} {e v h0 h1 x1 y1 s a b f0 f1 w : Nat} {A2 : Bool}
    (nb : EdgeNbhd m e h0 h1 x1 y1 s a b f0 f1)
    (cx : CollapseCtx m m' e v h0 h1 x1 y1 s w true A2)
    (rp : CollapseReps m m' v h0 h1 x1 y1 s w y1 true A2)
    (tn : TriNbhd m h0 h1 x1 y1 s w a b f0 f1) (wf : WellFormed m) (lt : TriLensMesh m) :
    TriLensMesh m' := by
  intro g g1 g2
  obtain ⟨lg, q0, q1, q2, q3, q4⟩ := (collapse_hlive_tri cx g).1 ⟨g1, g2⟩
  have k0 : m.hFace g ≠ f0 := by
    intro h
    rcases tn.on0 g lg h with r | r | r
    · exact q0 r
    · exact q2 r
    · exact q3 r
  have sy : s ≠ y1 := ne_of_f m.hFace nb.f1s nb.f0y nb.ff.symm
  have wy : w ≠ y1 := ne_of_f m.hFace tn.fw nb.f0y nb.ff.symm
  by_cases gs : g = s ∨ g = w
  · have a2 : A2 = false := by
      cases hA : A2 with
      | false => rfl
      | true =>
        exfalso
        rcases gs with r | r
        · exact (q4 hA).1 r
        · exact (q4 hA).2 r
    subst a2
    obtain ⟨p1, p2⟩ := pillow_of_no_merge nb cx tn wf
    have nW : m'.hNext w = s := by rw [rp.next, upd_apply, if_pos rfl]
    have nS : m'.hNext s = w := by
      rw [rp.next, upd_apply, if_neg tn.sw, upd_apply, if_neg sy, tn.ns]
    have tS : m'.hTwin s = w := by
      rw [cx.twin]
      simp only [mergeTwin, if_true, Bool.false_eq_true, if_false, p1, p2, upd_apply]
    have tW : m'.hTwin w = s := by
      rw [cx.twin]
      simp only [mergeTwin, if_true, Bool.false_eq_true, if_false, p1, p2, upd_apply,
        if_neg (Ne.symm tn.sw), if_pos]
    have fH : m'.fHalfedge f1 = s := by
      rw [rp.frep, nb.f1b, upd_apply, if_pos rfl]
    right
    rcases gs with r | r
    · rw [r]
      exact ⟨by rw [nS, nW], by rw [tS, nS], Or.inl (by rw [cx.face, nb.f1s, fH])⟩
    · rw [r]
      exact ⟨by rw [nW, nS], by rw [tW, nW], Or.inr (by rw [cx.face, tn.fw, fH, nW])⟩
  · simp only [not_or] at gs
    have k1 : m.hFace g ≠ f1 := by
      intro h
      rcases tn.on1 g lg h with r | r | r
      · exact q1 r
      · exact gs.1 r
      · exact gs.2 r
    have nx : ∀ p, hLive m p → m.hFace p = m.hFace g → m'.hNext p = m.hNext p := by
      intro p lp fp
      have a1 : p ≠ y1 := by
        intro h
        rw [h, nb.f0y] at fp
        exact k0 fp.symm
      have a2 : p ≠ w := by
        intro h
        rw [h, tn.fw] at fp
        exact k1 fp.symm
      rw [rp.next, upd_apply, if_neg a2, upd_apply, if_neg a1]
    obtain ⟨l1, f1', -⟩ := wf_next wf lg
    obtain ⟨l2, f2', -⟩ := wf_next wf l1
    have fh : m'.fHalfedge (m'.hFace g) = m.fHalfedge (m.hFace g) := by
      rw [cx.face, rp.frep, nb.f0a, nb.f1b, upd_apply, if_neg k1, upd_apply, if_neg k0]
    rcases lt g lg.1 lg.2 with ⟨t1, t2⟩ | ⟨t1, t2, t3⟩
    · left
      unfold TriSide
      rw [nx g lg rfl, nx _ l1 f1', nx _ l2 (f2'.trans f1'), fh]
      exact ⟨t1, t2⟩
    · right
      unfold LensSide
      have tw : m'.hTwin g = m.hTwin g := by
        rw [cx.twin]
        have key : ∀ u, hLive m u → (m.hFace u = f0 ∨ m.hFace u = f1) → g ≠ m.hTwin u := by
          intro u lu fu h
          have : m.hTwin g = u := by rw [h, (wf_twin wf lu).2.2]
          rw [t2] at this
          have fg : m.hFace u = m.hFace g := by rw [← this, f1']
          rcases fu with c | c
          · exact k0 (fg.symm.trans c)
          · exact k1 (fg.symm.trans c)
        exact mergeTwin_away m.hTwin A2 x1 y1 s w g
          (key x1 nb.lx (Or.inl nb.f0x)) (key y1 nb.ly (Or.inl nb.f0y))
          (key s nb.ls (Or.inr nb.f1s)) (key w cx.lw (Or.inr tn.fw))
      rw [nx g lg rfl, nx _ l1 f1', fh, tw]
      exact ⟨t1, t2, t3⟩

/-- A collapse that returns a vertex, on two triangles of a mesh of triangles
    and two-sided faces that satisfies the invariants 1 to 5, keeps the
    invariants and leaves a mesh of triangles and two-sided faces. -/
theorem collapse_valid_gen {dbg : Bool} {m m' : Mesh} {e v h0 h1 x1 y1 s a b f0 f1 w : Nat}
    {A2 : Bool}
    (nb : EdgeNbhd m e h0 h1 x1 y1 s a b f0 f1)
    (cx : CollapseCtx m m' e v h0 h1 x1 y1 s w true A2)
    (rp : CollapseReps m m' v h0 h1 x1 y1 s w y1 true A2)
    (tn : TriNbhd m h0 h1 x1 y1 s w a b f0 f1) (hv : Valid m) (lt : TriLensMesh m)
    (hcc : can_collapse_edge dbg m e = some true) :
    Valid m' ∧ TriLensMesh m' := by
  have wf' := (collapse_tri_wf nb cx rp tn hv.1 lt).1
  have fs : FanSys (hLive m') (fanStep m') m'.hVertex := by
    cases A2 with
    | false =>
      obtain ⟨p1, p2⟩ := pillow_of_no_merge nb cx tn hv.1
      exact collapse_fans_pillow nb cx rp tn hv p1 p2
    | true =>
      have np := not_pillow_of_merge nb cx tn hv.1
      by_cases p1 : m.hTwin x1 = w
      · by_cases p2 : m.hTwin y1 = s
        · exact absurd ⟨p1, p2⟩ np
        · exact collapse_fans_pocket1 nb cx rp tn hv p1 p2
      · by_cases p2 : m.hTwin y1 = s
        · exact collapse_fans_pocket2 nb cx rp tn hv p1 p2
        · exact collapse_fans_generic nb cx rp tn hv p1 p2
  exact ⟨⟨wf', fanOK_of_fanSys m' fs, collapse_noLoops nb cx tn hv wf' hcc⟩,
    collapse_triLens nb cx rp tn hv.1 lt⟩

/-- The half-edges around a live edge on which a collapse returns a vertex, in
    a mesh of triangles and two-sided faces: the two faces of the edge are
    triangles. -/
theorem collapse_full_tri (dbg : Bool) (m m' : Mesh) (e v : Nat)
    (hv : Valid m) (lt : TriLensMesh m) (he : eLive m e)
    (hc : collapse_edge dbg m e = some (some v, m')) :
    ∃ w A2,
      EdgeNbhd m e (m.eHalfedge e) (m.hTwin (m.eHalfedge e)) (m.hNext (m.eHalfedge e))
        (m.hNext (m.hNext (m.eHalfedge e))) (m.hNext (m.hTwin (m.eHalfedge e)))
        (m.hVertex (m.eHalfedge e)) (m.hVertex (m.hTwin (m.eHalfedge e)))
        (m.hFace (m.eHalfedge e)) (m.hFace (m.hTwin (m.eHalfedge e))) ∧
      CollapseCtx m m' e v (m.eHalfedge e) (m.hTwin (m.eHalfedge e)) (m.hNext (m.eHalfedge e))
        (m.hNext (m.hNext (m.eHalfedge e))) (m.hNext (m.hTwin (m.eHalfedge e))) w true A2 ∧
      CollapseReps m m' v (m.eHalfedge e) (m.hTwin (m.eHalfedge e)) (m.hNext (m.eHalfedge e))
        (m.hNext (m.hNext (m.eHalfedge e))) (m.hNext (m.hTwin (m.eHalfedge e))) w
        (m.hNext (m.hNext (m.eHalfedge e))) true A2 ∧
      TriNbhd m (m.eHalfedge e) (m.hTwin (m.eHalfedge e)) (m.hNext (m.eHalfedge e))
        (m.hNext (m.hNext (m.eHalfedge e))) (m.hNext (m.hTwin (m.eHalfedge e))) w
        (m.hVertex (m.eHalfedge e)) (m.hVertex (m.hTwin (m.eHalfedge e)))
        (m.hFace (m.eHalfedge e)) (m.hFace (m.hTwin (m.eHalfedge e))) := by
  have sf := triLens_simpleFaces hv lt
  obtain ⟨w, z, A1, A2, nb, cx, rp⟩ := collapse_full dbg m m' e v hv sf he hc
  have guard := (can_collapse_spec dbg m e (collapse_edge_spec dbg m m' e v hc).1).1
  obtain ⟨t0, t1⟩ := triSides_of_guard hv.1 lt nb.l0 guard
  have tn := triNbhd_local nb hv lt t0 t1 cx.lw cx.n3
  have a1 : A1 = true := cx.c1.2 ⟨tn.ny, tn.exy⟩
  have zy : z = m.hNext (m.hNext (m.eHalfedge e)) :=
    next_inj m hv.1 _ _ rp.lz nb.ly (by rw [rp.n4, tn.ny])
  subst a1
  subst zy
  exact ⟨w, A2, nb, cx, rp, tn⟩

/-- On a mesh of triangles and two-sided faces that satisfies the invariants
    1 to 5, a collapse that returns a vertex leaves a mesh of triangles and
    two-sided faces that satisfies the invariants. -/
theorem collapse_edge_valid_gen (dbg : Bool) (m m' : Mesh) (e v : Nat)
    (hv : Valid m) (lt : TriLensMesh m) (he : eLive m e)
    (hc : collapse_edge dbg m e = some (some v, m')) :
    Valid m' ∧ TriLensMesh m' := by
  obtain ⟨w, A2, nb, cx, rp, tn⟩ := collapse_full_tri dbg m m' e v hv lt he hc
  exact collapse_valid_gen nb cx rp tn hv lt (collapse_edge_spec dbg m m' e v hc).1

theorem mem_removeTouching (lib : VecLib) (recs : Nat → Option Edge_Record) :
    ∀ (t : List Nat) (q : List Edge_Record) (r : Edge_Record),
      r ∈ removeTouching lib recs t q ↔
        (r ∈ q ∧ ∀ x ∈ t, ∀ rx, recs x = some rx →
          (Edge_Record.lt lib r rx = true ∨ Edge_Record.lt lib rx r = true)) := by
  intro t
  induction t with
  | nil => intro q r; simp [removeTouching]
  | cons x t ih =>
    intro q r
    unfold removeTouching
    cases hx : recs x with
    | none =>
      simp only
      rw [ih]
      constructor
      · rintro ⟨a, b⟩
        refine ⟨a, ?_⟩
        intro y hy ry hr
        rcases List.mem_cons.1 hy with rfl | h
        · rw [hx] at hr; exact Option.noConfusion hr
        · exact b y h ry hr
      · rintro ⟨a, b⟩
        exact ⟨a, fun y hy => b y (List.mem_cons_of_mem _ hy)⟩
    | some rx =>
      simp only
      rw [ih, pqueue_mem_remove]
      constructor
      · rintro ⟨⟨a, c⟩, b⟩
        refine ⟨a, ?_⟩
        intro y hy ry hr
        rcases List.mem_cons.1 hy with rfl | h
        · rw [hx] at hr
          obtain rfl := Option.some.inj hr
          exact c
        · exact b y h ry hr
      · rintro ⟨a, b⟩
        exact ⟨⟨a, b x (List.mem_cons_self _ _) rx hx⟩,
          fun y hy => b y (List.mem_cons_of_mem _ hy)⟩

theorem removeTouching_sorted (lib : VecLib) (recs : Nat → Option Edge_Record) :
    ∀ (t : List Nat) (q : List Edge_Record), PQueue.Sorted lib q →
      PQueue.Sorted lib (removeTouching lib recs t q) := by
  intro t
  induction t with
  | nil => intro q h; exact h
  | cons x t ih =>
    intro q h
    unfold removeTouching
    cases hx : recs x with
    | none => exact ih q h
    | some rx => exact ih _ (pqueue_remove_sorted lib rx q h)

theorem pqueue_mem_insert_old (lib : VecLib) (r : Edge_Record) (q : List Edge_Record)
    (x : Edge_Record) (hx : x ∈ q) : x ∈ PQueue.insert lib r q := by
  induction q with
  | nil => exact absurd hx (List.not_mem_nil _)
  | cons r0 q ih =>
    simp only [PQueue.insert]
    split_ifs with c1 c2
    · exact List.mem_cons_of_mem _ hx
    · rcases List.mem_cons.1 hx with h | h
      · rw [h]; exact List.mem_cons_self _ _
      · exact List.mem_cons_of_mem _ (ih h)
    · exact hx

theorem pqueue_mem_insert_new (lib : VecLib) (r : Edge_Record) (q : List Edge_Record)
    (hn : ∀ x ∈ q, Edge_Record.lt lib r x = true ∨ Edge_Record.lt lib x r = true) :
    r ∈ PQueue.insert lib r q :=
  (pqueue_mem_insert_self lib r q hn).1

theorem addBack_mesh (lib : VecLib) : ∀ (L : List Nat) (s : SimplifyState),
    (addBack lib L s).mesh = s.mesh := by
  intro L
  induction L with
  | nil => intro s; rfl
  | cons x L ih =>
    intro s
    unfold addBack
    cases hx : s.edge_records x with
    | none => exact ih s
    | some r => exact (ih _).trans rfl

/-- What the loop that adds records back keeps and gives: the order of the
    queue, the agreement between the queue and the tracked records, the
    records of the edges outside the list, and the records already in the
    queue. -/
theorem addBack_inv (lib : VecLib) : ∀ (L : List Nat) (s : SimplifyState), L.Nodup →
    PQueue.Sorted lib s.edge_queue →
    (∀ x r, s.edge_records x = some r → r.edge = x) →
    (∀ r, r ∈ s.edge_queue → s.edge_records r.edge = some r) →
    (∀ r, r ∈ s.edge_queue → r.edge ∉ L) →
    PQueue.Sorted lib (addBack lib L s).edge_queue ∧
    (∀ x r, (addBack lib L s).edge_records x = some r → r.edge = x) ∧
    (∀ r, r ∈ (addBack lib L s).edge_queue → (addBack lib L s).edge_records r.edge = some r) ∧
    (∀ r, r ∈ (addBack lib L s).edge_queue → r ∈ s.edge_queue ∨ r.edge ∈ L) ∧
    (∀ x, x ∉ L → (addBack lib L s).edge_records x = s.edge_records x) ∧
    (∀ r, r ∈ s.edge_queue → r ∈ (addBack lib L s).edge_queue) := by
  intro L
  induction L with
  | nil =>
    intro s _ hS hR hI hQ
    exact ⟨hS, hR, hI, fun r hr => Or.inl hr, fun _ _ => rfl, fun r hr => hr⟩
  | cons x L ih =>
    intro s nd hS hR hI hQ
    obtain ⟨xL, ndL⟩ := List.nodup_cons.1 nd
    unfold addBack
    cases hx : s.edge_records x with
    | none =>
      simp only
      obtain ⟨a1, a2, a3, a4, a5, a6⟩ := ih s ndL hS hR hI
        (fun r hr h => hQ r hr (List.mem_cons_of_mem _ h))
      refine ⟨a1, a2, a3, ?_, ?_, a6⟩
      · intro r hr
        rcases a4 r hr with h | h
        · exact Or.inl h
        · exact Or.inr (List.mem_cons_of_mem _ h)
      · intro y hy
        exact a5 y (fun h => hy (List.mem_cons_of_mem _ h))
    | some r0 =>
      simp only
      have ed : (Edge_Record.create lib s.mesh s.vertex_quadrics x).1.edge = x := rfl
      obtain ⟨a1, a2, a3, a4, a5, a6⟩ := ih (addRecord lib s x) ndL
        (pqueue_insert_sorted lib _ _ hS)
        (by
          intro y r hr
          show r.edge = y
          have hr' : upd s.edge_records x
              (some (Edge_Record.create lib s.mesh s.vertex_quadrics x).1) y = some r := hr
          rw [upd_apply] at hr'
          by_cases c : y = x
          · rw [if_pos c] at hr'
            rw [← Option.some.inj hr', c]
            exact ed
          · rw [if_neg c] at hr'
            exact hR y r hr')
        (by
          intro r hr
          show upd s.edge_records x
              (some (Edge_Record.create lib s.mesh s.vertex_quadrics x).1) r.edge = some r
          rcases pqueue_mem_insert lib _ _ r hr with h | h
          · rw [h, upd_apply, if_pos ed]
          · have : r.edge ≠ x := fun c => hQ r h (c ▸ List.mem_cons_self _ _)
            rw [upd_apply, if_neg this]
            exact hI r h)
        (by
          intro r hr hL
          rcases pqueue_mem_insert lib _ _ r hr with h | h
          · rw [h] at hL
            exact xL hL
          · exact hQ r h (List.mem_cons_of_mem _ hL))
      refine ⟨a1, a2, a3, ?_, ?_, ?_⟩
      · intro r hr
        rcases a4 r hr with h | h
        · rcases pqueue_mem_insert lib _ _ r h with h' | h'
          · refine Or.inr ?_
            rw [h']
            exact List.mem_cons_self _ _
          · exact Or.inl h'
        · exact Or.inr (List.mem_cons_of_mem _ h)
      · intro y hy
        rw [a5 y (fun h => hy (List.mem_cons_of_mem _ h))]
        show upd s.edge_records x _ y = _
        rw [upd_apply, if_neg (fun c : y = x => hy (c ▸ List.mem_cons_self _ _))]
      · intro r hr
        exact a6 r (pqueue_mem_insert_old lib _ _ r hr)

/-- The loop that adds records back gives every edge of its list that has a
    tracked record a record in the queue, when different edges have different
    addresses. -/
theorem addBack_adds (lib : VecLib) (inj : Function.Injective lib.addr) :
    ∀ (L : List Nat) (s : SimplifyState), L.Nodup →
    PQueue.Sorted lib s.edge_queue →
    (∀ x r, s.edge_records x = some r → r.edge = x) →
    (∀ r, r ∈ s.edge_queue → s.edge_records r.edge = some r) →
    (∀ r, r ∈ s.edge_queue → r.edge ∉ L) →
    ∀ x, x ∈ L → s.edge_records x ≠ none →
      ∃ r, (addBack lib L s).edge_records x = some r ∧ r ∈ (addBack lib L s).edge_queue := by
  intro L
  induction L with
  | nil => intro s _ _ _ _ _ x hx; exact absurd hx (List.not_mem_nil _)
  | cons y L ih =>
    intro s nd hS hR hI hQ x hx hn
    obtain ⟨yL, ndL⟩ := List.nodup_cons.1 nd
    have ed : (Edge_Record.create lib s.mesh s.vertex_quadrics y).1.edge = y := rfl
    have hS' : PQueue.Sorted lib (addRecord lib s y).edge_queue :=
      pqueue_insert_sorted lib _ _ hS
    have hR' : ∀ z r, (addRecord lib s y).edge_records z = some r → r.edge = z := by
      intro z r hr
      have hr' : upd s.edge_records y
          (some (Edge_Record.create lib s.mesh s.vertex_quadrics y).1) z = some r := hr
      rw [upd_apply] at hr'
      by_cases c : z = y
      · rw [if_pos c] at hr'
        rw [← Option.some.inj hr', c]
        exact ed
      · rw [if_neg c] at hr'
        exact hR z r hr'
    have hI' : ∀ r, r ∈ (addRecord lib s y).edge_queue →
        (addRecord lib s y).edge_records r.edge = some r := by
      intro r hr
      show upd s.edge_records y
          (some (Edge_Record.create lib s.mesh s.vertex_quadrics y).1) r.edge = some r
      rcases pqueue_mem_insert lib _ _ r hr with h | h
      · rw [h, upd_apply, if_pos ed]
      · have : r.edge ≠ y := fun c => hQ r h (c ▸ List.mem_cons_self _ _)
        rw [upd_apply, if_neg this]
        exact hI r h
    have hQ' : ∀ r, r ∈ (addRecord lib s y).edge_queue → r.edge ∉ L := by
      intro r hr hL
      rcases pqueue_mem_insert lib _ _ r hr with h | h
      · rw [h] at hL
        exact yL hL
      · exact hQ r h (List.mem_cons_of_mem _ hL)
    unfold addBack
    cases hy : s.edge_records y with
    | none =>
      simp only
      rcases List.mem_cons.1 hx with c | c
      · rw [c] at hn; exact absurd hy hn
      · exact ih s ndL hS hR hI (fun r hr h => hQ r hr (List.mem_cons_of_mem _ h)) x c hn
    | some r0 =>
      simp only
      rcases List.mem_cons.1 hx with c | c
      · obtain ⟨-, -, -, -, a5, a6⟩ := addBack_inv lib L (addRecord lib s y) ndL hS' hR' hI' hQ'
        refine ⟨(Edge_Record.create lib s.mesh s.vertex_quadrics y).1, ?_, ?_⟩
        · rw [c, a5 y yL]
          show upd s.edge_records y _ y = _
          rw [upd_apply, if_pos rfl]
        · apply a6
          apply pqueue_mem_insert_new
          intro z hz
          refine recLt_total lib inj _ z (Or.inr ?_)
          rw [ed]
          intro h
          exact hQ z hz (h ▸ List.mem_cons_self _ _)
      · refine ih (addRecord lib s y) ndL hS' hR' hI' hQ' x c ?_
        show upd s.edge_records y _ x ≠ none
        rw [upd_apply]
        by_cases d : x = y
        · rw [if_pos d]; exact Option.noConfusion
        · rw [if_neg d]; exact hn

theorem valid_setPos (m : Mesh) (v : Nat) (p : Vec3) :
    (Valid (m.setPos v p) ↔ Valid m) ∧ (TriangleMesh (m.setPos v p) ↔ TriangleMesh m) ∧
    (TriLensMesh (m.setPos v p) ↔ TriLensMesh m) :=
  ⟨Iff.rfl, Iff.rfl, Iff.rfl⟩

/-- The edges around a live vertex of a mesh that satisfies the invariants:
    the walk comes back, and the set it returns holds the edges of the live
    half-edges that leave the vertex. -/
theorem touching_to_vertex_spec (m : Mesh) (hv : Valid m) (p : Nat) (lp : vLive m p) :
    ∃ t, get_touching_edges_to_vertex m p = some t ∧ t.Nodup ∧
      ∀ x, x ∈ t ↔ ∃ g, hLive m g ∧ m.hVertex g = p ∧ m.hEdge g = x := by
  refine ⟨((vertexFan m p).map m.hEdge).dedup, ?_, List.nodup_dedup _, ?_⟩
  · unfold get_touching_edges_to_vertex
    rw [fanWalk_vertex m hv p lp]
    rfl
  · intro x
    obtain ⟨-, mem, -⟩ := vertexFan_spec m hv p lp.1 lp.2
    rw [List.mem_dedup, List.mem_map]
    constructor
    · rintro ⟨g, hg, rfl⟩
      exact ⟨g, ((mem g).1 hg).1, ((mem g).1 hg).2, rfl⟩
    · rintro ⟨g, lg, vg, rfl⟩
      exact ⟨g, (mem g).2 ⟨lg, vg⟩, rfl⟩

/-- The edges that touch a live edge `e` of a mesh that satisfies the
    invariants: the edges other than `e` of the live half-edges that leave one
    of the two ends of `e`. -/
theorem touching_spec (m : Mesh) (hv : Valid m) (e : Nat) (he : eLive m e) :
    ∃ t, get_touching_edges m e = some t ∧ t.Nodup ∧
      ∀ x, x ∈ t ↔ (x ≠ e ∧ ∃ g, hLive m g ∧
        (m.hVertex g = m.hVertex (m.eHalfedge e) ∨
          m.hVertex g = m.hVertex (m.hTwin (m.eHalfedge e))) ∧ m.hEdge g = x) := by
  have wf := hv.1
  have l0 := (wf.2.2.1.2 e he.1 he.2).1
  have l1 := (wf_twin wf l0).1
  have la := wf.2.2.2.1 _ l0.1 l0.2
  have lb := wf.2.2.2.1 _ l1.1 l1.2
  obtain ⟨t1, h1, -, m1⟩ := touching_to_vertex_spec m hv _ la
  obtain ⟨t2, h2, -, m2⟩ := touching_to_vertex_spec m hv _ lb
  refine ⟨(t1 ++ t2).dedup.erase e, ?_, (List.nodup_dedup _).erase _, ?_⟩
  · unfold get_touching_edges
    rw [h1, h2]
  · intro x
    rw [(List.nodup_dedup _).mem_erase_iff, List.mem_dedup, List.mem_append, m1, m2]
    constructor
    · rintro ⟨ne, ⟨g, lg, vg, eg⟩ | ⟨g, lg, vg, eg⟩⟩
      · exact ⟨ne, g, lg, Or.inl vg, eg⟩
      · exact ⟨ne, g, lg, Or.inr vg, eg⟩
    · rintro ⟨ne, g, lg, vg | vg, eg⟩
      · exact ⟨ne, Or.inl ⟨g, lg, vg, eg⟩⟩
      · exact ⟨ne, Or.inr ⟨g, lg, vg, eg⟩⟩

/-- A collapse that is declined leaves the mesh as it is. -/
theorem collapse_declined_mesh (dbg : Bool) (m m' : Mesh) (e : Nat)
    (hc : collapse_edge dbg m e = some (none, m')) : m' = m := by
  unfold collapse_edge at hc
  split at hc
  · simp at hc
  · simp only [Option.some.injEq, Prod.mk.injEq, true_and] at hc
    exact hc.symm
  · simp only at hc
    split at hc
    · simp at hc
    · split at hc
      · simp at hc
      · simp at hc

/-- The edges around the vertex a collapse on two triangles returns: a live
    half-edge leaves the new vertex exactly when it was live, left one of the
    two ends of `e` and its edge is still live; it keeps its edge, which is not
    `e`; and an edge that the collapse has erased is `e` or the edge of a
    half-edge that left one of the two ends. -/
theorem collapse_touching_ctx {m m' : Mesh} {e v h0 h1 x1 y1 s a b f0 f1 w z : Nat}
    {A2 : Bool}
    (nb : EdgeNbhd m e h0 h1 x1 y1 s a b f0 f1)
    (cx : CollapseCtx m m' e v h0 h1 x1 y1 s w true A2)
    (rp : CollapseReps m m' v h0 h1 x1 y1 s w z true A2)
    (tn : TriNbhd m h0 h1 x1 y1 s w a b f0 f1) (wf : WellFormed m) :
    vLive m' v ∧
    (∀ g, hLive m' g → m'.hVertex g = v →
      hLive m g ∧ (m.hVertex g = a ∨ m.hVertex g = b) ∧ m'.hEdge g = m.hEdge g ∧
        m.hEdge g ≠ e) ∧
    (∀ g, hLive m g → (m.hVertex g = a ∨ m.hVertex g = b) → eLive m' (m.hEdge g) →
      hLive m' g ∧ m'.hVertex g = v ∧ m'.hEdge g = m.hEdge g) ∧
    (∀ y, eLive m' y → eLive m y ∧ y ≠ e) ∧
    (∀ y, eLive m y → ¬ eLive m' y →
      y = e ∨ ∃ g, hLive m g ∧ (m.hVertex g = a ∨ m.hVertex g = b) ∧ m.hEdge g = y) := by
  have fr : ∀ p, hLive m p → m.hVertex p ≠ v := by
    intro p lp q
    have := (wf.2.2.2.1 p lp.1 lp.2).1
    rw [q, cx.vnew] at this
    exact Nat.lt_irrefl _ this
  have mvv : ∀ p, hLive m p → (mergedVertex a b v (m.hVertex p) = v ↔
      (m.hVertex p = a ∨ m.hVertex p = b)) := by
    intro p lp
    unfold mergedVertex
    constructor
    · intro h
      by_contra c
      rw [if_neg c] at h
      exact fr p lp h
    · intro h
      rw [if_pos h]
  have stx : s ≠ m.hTwin x1 := by
    intro h
    have := tn.vtx
    rw [← h, nb.vs] at this
    exact tn.vya this.symm
  have es : mergeEdge m.hTwin m.hEdge true x1 y1 s = m.hEdge s := by
    simp [mergeEdge, upd_apply, stx]
  have el : ∀ y, eLive m' y ↔
      (eLive m y ∧ y ≠ e ∧ y ≠ m.hEdge x1 ∧ (A2 = true → y ≠ m.hEdge s)) := by
    intro y
    rw [collapse_elive cx y, es]
    simp
  have ltx := (wf_twin wf nb.lx).1
  have lts := (wf_twin wf nb.ls).1
  -- the two half-edges whose edge the merges rewrite do not leave `a` or `b`
  have keep : ∀ g, hLive m g → (m.hVertex g = a ∨ m.hVertex g = b) →
      m'.hEdge g = m.hEdge g := by
    intro g lg vg
    have g1 : g ≠ m.hTwin x1 := by
      intro h
      rw [h, tn.vtx] at vg
      rcases vg with q | q
      · exact tn.vya q
      · exact tn.vyb q
    have g2 : g ≠ mergeTwin m.hTwin true x1 y1 s := by
      intro h
      have k := (collapse_heads nb cx tn wf s).1
      rw [← h, tn.vts, (mvv g lg).2 vg] at k
      have : ¬ (m.hVertex w = a ∨ m.hVertex w = b) := by
        rintro (q | q)
        · exact tn.vwa q
        · exact tn.vwb q
      unfold mergedVertex at k
      rw [if_neg this] at k
      exact fr w cx.lw k.symm
    rw [cx.edge]
    cases A2 with
    | false =>
      simp only [mergeEdge, if_true, Bool.false_eq_true, if_false, upd_apply]
      rw [if_neg g1]
    | true =>
      simp only [mergeEdge, if_true, upd_apply]
      rw [if_neg g2, if_neg g1]
  have ne_e : ∀ g, hLive m g → g ≠ h0 → g ≠ h1 → m.hEdge g ≠ e := by
    intro g lg g0 g1 h
    rcases (wf_edge wf nb.l0).2.2 g lg (by rw [h, nb.ed0]) with k | k
    · exact g0 k
    · rw [nb.t0] at k; exact g1 k
  refine ⟨(collapse_vlive nb cx rp wf v).2 (Or.inl rfl), ?_, ?_, ?_, ?_⟩
  · intro g lg' vg'
    obtain ⟨lg, q0, q1, -⟩ := (collapse_hlive_tri cx g).1 lg'
    have k := cx.vert g lg q0 q1
    rw [nb.va, nb.vb, vg'] at k
    have vg := (mvv g lg).1 k.symm
    exact ⟨lg, vg, keep g lg vg, ne_e g lg q0 q1⟩
  · intro g lg vg le'
    obtain ⟨-, k0, k1, k2⟩ := (el _).1 le'
    have q0 : g ≠ h0 := fun h => k0 (by rw [h, nb.ed0])
    have q1 : g ≠ h1 := fun h => k0 (by rw [h, nb.ed1])
    have q2 : g ≠ x1 := fun h => k1 (by rw [h])
    have q4 : A2 = true → g ≠ s := fun a2 h => k2 a2 (by rw [h])
    have q3 : g ≠ y1 := by
      intro h
      rw [h] at vg
      rcases vg with q | q
      · exact tn.vya q
      · exact tn.vyb q
    have q5 : g ≠ w := by
      intro h
      rw [h] at vg
      rcases vg with q | q
      · exact tn.vwa q
      · exact tn.vwb q
    refine ⟨(collapse_hlive_tri cx g).2 ⟨lg, q0, q1, q2, q3, fun a2 => ⟨q4 a2, q5⟩⟩, ?_,
      keep g lg vg⟩
    have k := cx.vert g lg q0 q1
    rw [nb.va, nb.vb] at k
    rw [k]
    exact (mvv g lg).2 vg
  · intro y ly
    obtain ⟨k, k0, -, -⟩ := (el y).1 ly
    exact ⟨k, k0⟩
  · intro y ly nly
    by_contra c
    simp only [not_or, not_exists, not_and] at c
    apply nly
    rw [el]
    refine ⟨ly, c.1, ?_, ?_⟩
    · intro h
      exact c.2 x1 nb.lx (Or.inr nb.vx) h.symm
    · intro _ h
      exact c.2 s nb.ls (Or.inl nb.vs) h.symm

/-- The edges around the vertex a collapse returns, in a mesh of triangles and
    two-sided faces that satisfies the invariants 1 to 5: the mesh the collapse
    leaves is such a mesh again, the vertex returned is live, and the edges
    around it are the live edges that touched `e`; when the two triangles of
    `e` do not share all three sides, a triangle mesh stays a triangle mesh
    and the counts are those of C28. -/
theorem collapse_edge_touching (dbg : Bool) (m m' : Mesh) (e v : Nat)
    (hv : Valid m) (lt : TriLensMesh m) (he : eLive m e)
    (hc : collapse_edge dbg m e = some (some v, m')) :
    (Valid m' ∧ TriLensMesh m') ∧ vLive m' v ∧
    (∀ g, hLive m' g → m'.hVertex g = v →
      hLive m g ∧ (m.hVertex g = m.hVertex (m.eHalfedge e) ∨
        m.hVertex g = m.hVertex (m.hTwin (m.eHalfedge e))) ∧ m'.hEdge g = m.hEdge g ∧
        m.hEdge g ≠ e) ∧
    (∀ g, hLive m g → (m.hVertex g = m.hVertex (m.eHalfedge e) ∨
        m.hVertex g = m.hVertex (m.hTwin (m.eHalfedge e))) → eLive m' (m.hEdge g) →
      hLive m' g ∧ m'.hVertex g = v ∧ m'.hEdge g = m.hEdge g) ∧
    (∀ y, eLive m' y → eLive m y ∧ y ≠ e) ∧
    (∀ y, eLive m y → ¬ eLive m' y →
      y = e ∨ ∃ g, hLive m g ∧ (m.hVertex g = m.hVertex (m.eHalfedge e) ∨
        m.hVertex g = m.hVertex (m.hTwin (m.eHalfedge e))) ∧ m.hEdge g = y) ∧
    (¬ PillowEdge m e →
      (TriangleMesh m → TriangleMesh m') ∧
      n_vertices m' + 1 = n_vertices m ∧ n_edges m' + 3 = n_edges m ∧
      n_faces m' + 2 = n_faces m ∧ n_halfedges m' + 6 = n_halfedges m) := by
  obtain ⟨w, A2, nb, cx, rp, tn⟩ := collapse_full_tri dbg m m' e v hv lt he hc
  obtain ⟨t1, t2, t3, t4, t5⟩ := collapse_touching_ctx nb cx rp tn hv.1
  refine ⟨collapse_valid_gen nb cx rp tn hv lt (collapse_edge_spec dbg m m' e v hc).1,
    t1, t2, t3, t4, t5, ?_⟩
  intro np
  have hd : m.hEdge (m.hNext (m.eHalfedge e)) ≠
        m.hEdge (m.hNext (m.hNext (m.hTwin (m.eHalfedge e)))) ∨
      m.hEdge (m.hNext (m.hNext (m.eHalfedge e))) ≠
        m.hEdge (m.hNext (m.hTwin (m.eHalfedge e))) := by
    unfold PillowEdge at np
    by_contra c
    simp only [not_or, not_not] at c
    exact np c
  rw [tn.ns] at hd
  obtain ⟨a2, es, se, xe, sx⟩ := collapse_second_merge nb cx tn hv.1 hd
  subst a2
  exact ⟨fun tm => collapse_triangle nb cx rp tn hv.1 tm,
    collapse_counts_ctx nb cx rp tn hv.1 he es se xe sx⟩

/-- The part of a round before the collapse, from a state that satisfies the
    invariant of the loop: the walks around the two ends of the popped edge
    come back, the touching edges are the edges other than the popped one of
    the live half-edges that leave one of its two ends, and the queue that
    remains holds no record of the popped edge and no record of a touching
    edge. -/
theorem beforeCollapse_spec (lib : VecLib) (s : SimplifyState) (inv : SimplifyInv lib s)
    (er : Edge_Record) (ht : PQueue.top s.edge_queue = some er) :
    ∃ t, beforeCollapse lib s = some (er,
        ⟨s.mesh, quadricsErased lib s er, s.edge_records,
          removeTouching lib s.edge_records t (PQueue.pop s.edge_queue)⟩,
        quadricNew lib s er, t) ∧
      t.Nodup ∧
      (∀ x, x ∈ t ↔ (x ≠ er.edge ∧ ∃ g, hLive s.mesh g ∧
        (s.mesh.hVertex g = s.mesh.hVertex (s.mesh.eHalfedge er.edge) ∨
          s.mesh.hVertex g = s.mesh.hVertex (s.mesh.hTwin (s.mesh.eHalfedge er.edge))) ∧
        s.mesh.hEdge g = x)) ∧
      (∀ r, r ∈ removeTouching lib s.edge_records t (PQueue.pop s.edge_queue) →
        r ∈ s.edge_queue ∧ r.edge ≠ er.edge ∧ r.edge ∉ t) := by
  obtain ⟨⟨hv, tm⟩, hS, hR, hI, hJ⟩ := inv
  have hq : s.edge_queue = er :: PQueue.pop s.edge_queue := by
    unfold PQueue.top at ht
    unfold PQueue.pop
    cases h : s.edge_queue with
    | nil => rw [h] at ht; exact Option.noConfusion ht
    | cons r q =>
      rw [h] at ht
      simp only [List.head?_cons, Option.some.injEq] at ht
      rw [ht]
      rfl
  have em : er ∈ s.edge_queue := by rw [hq]; exact List.mem_cons_self _ _
  obtain ⟨t, h1, nd, mem⟩ := touching_spec s.mesh hv er.edge (hJ er em)
  refine ⟨t, ?_, nd, mem, ?_⟩
  · unfold beforeCollapse
    rw [ht]
    simp only
    rw [h1]
  · intro r hr
    obtain ⟨rq, cl⟩ := (mem_removeTouching lib s.edge_records t _ r).1 hr
    have rq' : r ∈ s.edge_queue := by rw [hq]; exact List.mem_cons_of_mem _ rq
    have lt : Edge_Record.lt lib er r = true := by
      unfold PQueue.Sorted at hS
      rw [hq] at hS
      exact (List.pairwise_cons.1 hS).1 r rq
    refine ⟨rq', ?_, ?_⟩
    · intro h
      have h1 := hI r rq'
      have h2 := hI er em
      rw [h, h2] at h1
      rw [Option.some.inj h1, recLt_irrefl] at lt
      exact Bool.noConfusion lt
    · intro h
      rcases cl r.edge h r (hI r rq') with c | c
      · rw [recLt_irrefl] at c; exact Bool.noConfusion c
      · rw [recLt_irrefl] at c; exact Bool.noConfusion c

/-- A round whose collapse is declined: the round finishes, the mesh is as it
    was, and the invariant of the loop holds again. -/
theorem simplifyIter_declined (dbg : Bool) (lib : VecLib) (s : SimplifyState)
    (inv : SimplifyInv lib s) (er : Edge_Record) (ht : PQueue.top s.edge_queue = some er)
    (m2 : Mesh) (hc : collapse_edge dbg s.mesh er.edge = some (none, m2)) :
    ∃ s', simplifyIter dbg lib s = some s' ∧ s'.mesh = s.mesh ∧ SimplifyInv lib s' := by
  obtain ⟨t, hb, nd, mem, clean⟩ := beforeCollapse_spec lib s inv er ht
  obtain ⟨⟨hv, tm⟩, hS, hR, hI, hJ⟩ := inv
  obtain rfl := collapse_declined_mesh dbg s.mesh m2 er.edge hc
  have hS1 : PQueue.Sorted lib (removeTouching lib s.edge_records t (PQueue.pop s.edge_queue)) := by
    apply removeTouching_sorted
    unfold PQueue.Sorted PQueue.pop at *
    exact List.Pairwise.sublist (List.tail_sublist _) hS
  obtain ⟨a1, a2, a3, a4, a5, a6⟩ := addBack_inv lib t
    ⟨s.mesh, quadricsErased lib s er, upd s.edge_records er.edge none,
      removeTouching lib s.edge_records t (PQueue.pop s.edge_queue)⟩ nd hS1
    (by
      intro x r hr
      have hr' : upd s.edge_records er.edge none x = some r := hr
      rw [upd_apply] at hr'
      by_cases c : x = er.edge
      · rw [if_pos c] at hr'; exact Option.noConfusion hr'
      · rw [if_neg c] at hr'; exact hR x r hr')
    (by
      intro r hr
      obtain ⟨rq, ne, -⟩ := clean r hr
      show upd s.edge_records er.edge none r.edge = some r
      rw [upd_apply, if_neg ne]
      exact hI r rq)
    (fun r hr => (clean r hr).2.2)
  refine ⟨addBack lib t
    ⟨s.mesh, quadricsErased lib s er, upd s.edge_records er.edge none,
      removeTouching lib s.edge_records t (PQueue.pop s.edge_queue)⟩, ?_,
    addBack_mesh lib _ _, ?_⟩
  · unfold simplifyIter
    rw [hb]
    simp only
    have : collapse_edge_erase dbg s.mesh er.edge = some (none, s.mesh) := hc
    rw [this]
  · refine ⟨?_, a1, a2, a3, ?_⟩
    · rw [addBack_mesh]
      exact ⟨hv, tm⟩
    · intro r hr
      rw [addBack_mesh]
      rcases a4 r hr with h | h
      · exact hJ r (clean r h).1
      · obtain ⟨-, g, lg, -, eg⟩ := (mem _).1 h
        rw [← eg]
        exact (wf_edge hv.1 lg).1

/-- A round whose collapse returns a vertex: the round finishes, its mesh is
    the mesh of the collapse with the new vertex at the position of the
    record, the invariant of the loop holds again, when different edges have
    different addresses, every live edge has its record in the queue if that
    was so before, and the edges of the records that the queue holds when the
    collapse is called are live in the mesh the collapse leaves. -/
theorem simplifyIter_success (dbg : Bool) (lib : VecLib) (s : SimplifyState)
    (inv : SimplifyInv lib s) (er : Edge_Record) (ht : PQueue.top s.edge_queue = some er)
    (v : Nat) (m2 : Mesh)
    (hc : collapse_edge dbg s.mesh er.edge = some (some v, m2)) :
    ∃ s', simplifyIter dbg lib s = some s' ∧ s'.mesh = m2.setPos v er.optimal ∧
      SimplifyInv lib s' ∧
      (Function.Injective lib.addr →
        (∀ x, eLive s.mesh x → ∃ r, s.edge_records x = some r ∧ r ∈ s.edge_queue) →
        (∀ x, eLive s'.mesh x → ∃ r, s'.edge_records x = some r ∧ r ∈ s'.edge_queue)) ∧
      (∀ er' s1 qn t, beforeCollapse lib s = some (er', s1, qn, t) →
        ∀ r, r ∈ s1.edge_queue → eLive m2 r.edge) := by
  obtain ⟨t, hb, nd, mem, clean⟩ := beforeCollapse_spec lib s inv er ht
  obtain ⟨⟨hv, tm⟩, hS, hR, hI, hJ⟩ := inv
  have em : er ∈ s.edge_queue := by
    unfold PQueue.top at ht
    exact List.mem_of_mem_head? ht
  obtain ⟨⟨hv2, tm2⟩, lv, M1, M2, M4, M3, -⟩ :=
    collapse_edge_touching dbg s.mesh m2 er.edge v hv tm (hJ er em) hc
  have hv' : Valid (m2.setPos v er.optimal) := hv2
  have tm' : TriLensMesh (m2.setPos v er.optimal) := tm2
  obtain ⟨t', ht', nd', mem'⟩ := touching_to_vertex_spec (m2.setPos v er.optimal) hv' v lv
  have sub : ∀ x, x ∈ t' → x ∈ t := by
    intro x hx
    obtain ⟨g, lg, vg, eg⟩ := (mem' x).1 hx
    obtain ⟨lg0, vg0, eq, ne⟩ := M1 g lg vg
    have eg' : m2.hEdge g = x := eg
    rw [eq] at eg'
    exact (mem x).2 ⟨by rw [← eg']; exact ne, g, lg0, vg0, eg'⟩
  have hS1 : PQueue.Sorted lib (removeTouching lib s.edge_records t (PQueue.pop s.edge_queue)) := by
    apply removeTouching_sorted
    unfold PQueue.Sorted PQueue.pop at *
    exact List.Pairwise.sublist (List.tail_sublist _) hS
  have hR1 : ∀ x r, upd s.edge_records er.edge none x = some r → r.edge = x := by
    intro x r hr
    rw [upd_apply] at hr
    by_cases c : x = er.edge
    · rw [if_pos c] at hr; exact Option.noConfusion hr
    · rw [if_neg c] at hr; exact hR x r hr
  have hI1 : ∀ r, r ∈ removeTouching lib s.edge_records t (PQueue.pop s.edge_queue) →
      upd s.edge_records er.edge none r.edge = some r := by
    intro r hr
    obtain ⟨rq, ne, -⟩ := clean r hr
    rw [upd_apply, if_neg ne]
    exact hI r rq
  have hQ1 : ∀ r, r ∈ removeTouching lib s.edge_records t (PQueue.pop s.edge_queue) →
      r.edge ∉ t' := fun r hr h => (clean r hr).2.2 (sub _ h)
  obtain ⟨a1, a2, a3, a4, a5, a6⟩ := addBack_inv lib t'
    ⟨m2.setPos v er.optimal, upd (quadricsErased lib s er) v (some (quadricNew lib s er)),
      upd s.edge_records er.edge none,
      removeTouching lib s.edge_records t (PQueue.pop s.edge_queue)⟩ nd' hS1 hR1 hI1 hQ1
  have stay : ∀ y, eLive s.mesh y → y ≠ er.edge → y ∉ t → eLive m2 y := by
    intro y ly ne nt
    by_contra c
    rcases M3 y ly c with h | ⟨g, lg, vg, eg⟩
    · exact ne h
    · exact nt ((mem y).2 ⟨ne, g, lg, vg, eg⟩)
  refine ⟨addBack lib t'
    ⟨m2.setPos v er.optimal, upd (quadricsErased lib s er) v (some (quadricNew lib s er)),
      upd s.edge_records er.edge none,
      removeTouching lib s.edge_records t (PQueue.pop s.edge_queue)⟩, ?_,
    addBack_mesh lib _ _, ⟨?_, a1, a2, a3, ?_⟩, ?_, ?_⟩
  · unfold simplifyIter
    rw [hb]
    simp only
    have : collapse_edge_erase dbg s.mesh er.edge = some (some v, m2) := hc
    rw [this]
    simp only
    rw [ht']
  · rw [addBack_mesh]
    exact ⟨hv', tm'⟩
  · intro r hr
    rw [addBack_mesh]
    show eLive m2 r.edge
    rcases a4 r hr with h | h
    · obtain ⟨rq, ne, nt⟩ := clean r h
      exact stay _ (hJ r rq) ne nt
    · obtain ⟨g, lg, -, eg⟩ := (mem' _).1 h
      have : m2.hEdge g = r.edge := eg
      rw [← this]
      exact (wf_edge hv2.1 lg).1
  · intro inj hK x lx
    rw [addBack_mesh] at lx
    have lx2 : eLive m2 x := lx
    obtain ⟨lx0, xe⟩ := M4 x lx2
    obtain ⟨r, hr, rq⟩ := hK x lx0
    by_cases c : x ∈ t'
    · refine addBack_adds lib inj t' _ nd' hS1 hR1 hI1 hQ1 x c ?_
      show upd s.edge_records er.edge none x ≠ none
      rw [upd_apply, if_neg xe, hr]
      exact Option.noConfusion
    · have xt : x ∉ t := by
        intro h
        obtain ⟨-, g, lg, vg, eg⟩ := (mem x).1 h
        obtain ⟨lg', vg', eg'⟩ := M2 g lg vg (by rw [eg]; exact lx2)
        exact c ((mem' x).2 ⟨g, lg', vg', by show m2.hEdge g = x; rw [eg', eg]⟩)
      refine ⟨r, ?_, ?_⟩
      · rw [a5 x c]
        show upd s.edge_records er.edge none x = some r
        rw [upd_apply, if_neg xe, hr]
      · apply a6
        rw [mem_removeTouching]
        have rx : r.edge = x := hR x r hr
        have hq : s.edge_queue = er :: PQueue.pop s.edge_queue := by
          unfold PQueue.top at ht
          unfold PQueue.pop
          cases h : s.edge_queue with
          | nil => rw [h] at ht; exact Option.noConfusion ht
          | cons r q =>
            rw [h] at ht
            simp only [List.head?_cons, Option.some.injEq] at ht
            rw [ht]
            rfl
        refine ⟨?_, ?_⟩
        · rw [hq] at rq
          rcases List.mem_cons.1 rq with h | h
          · rw [h] at rx
            exact absurd rx.symm xe
          · exact h
        · intro y hy ry hry
          have ey : ry.edge = y := hR y ry hry
          refine recLt_total lib inj r ry (Or.inr ?_)
          rw [rx, ey]
          intro h
          exact xt (h ▸ hy)
  · intro er' s1 qn t1 hb1 r hr
    rw [hb] at hb1
    simp only [Option.some.injEq, Prod.mk.injEq] at hb1
    obtain ⟨-, e1, -, -⟩ := hb1
    rw [← e1] at hr
    obtain ⟨rq, ne, nt⟩ := clean r hr
    exact stay _ (hJ r rq) ne nt

/-- A round from a state that satisfies the invariant of the loop leaves a
    state that satisfies the invariant. -/
theorem simplifyIter_inv (dbg : Bool) (lib : VecLib) (s : SimplifyState)
    (inv : SimplifyInv lib s) (er : Edge_Record) (ht : PQueue.top s.edge_queue = some er)
    (s' : SimplifyState)
    (hs : simplifyIter dbg lib s = some s') : SimplifyInv lib s' := by
  cases hc : collapse_edge dbg s.mesh er.edge with
  | none =>
    obtain ⟨t, hb, -⟩ := beforeCollapse_spec lib s inv er ht
    unfold simplifyIter at hs
    rw [hb] at hs
    simp only at hs
    have : collapse_edge_erase dbg s.mesh er.edge = none := hc
    rw [this] at hs
    exact Option.noConfusion hs
  | some r =>
    obtain ⟨vo, m2⟩ := r
    cases vo with
    | none =>
      obtain ⟨s2, h2, -, i2⟩ := simplifyIter_declined dbg lib s inv er ht m2 hc
      rw [h2] at hs
      rw [← Option.some.inj hs]
      exact i2
    | some v =>
      obtain ⟨s2, h2, -, i2, -⟩ := simplifyIter_success dbg lib s inv er ht v m2 hc
      rw [h2] at hs
      rw [← Option.some.inj hs]
      exact i2

theorem liveList_nodup (n : Nat) (er : Nat → Bool) : (liveList n er).Nodup :=
  (List.nodup_range n).filter _

/-- A positive count of live records gives a live record. -/
theorem liveCount_pos (n : Nat) (er : Nat → Bool) (h : 0 < liveCount n er) :
    ∃ i, i < n ∧ er i = false := by
  unfold liveCount at h
  obtain ⟨i, hi, hp⟩ := List.countP_pos_iff.1 h
  refine ⟨i, List.mem_range.1 hi, ?_⟩
  cases c : er i with
  | false => rfl
  | true => rw [c] at hp; exact Bool.noConfusion hp

/-- The loop that builds the records (lines 1060-1063), over a list of edges
    without repetition none of which has a record in the queue yet. -/
theorem foldl_addRecord_inv (lib : VecLib) : ∀ (L : List Nat) (s : SimplifyState), L.Nodup →
    PQueue.Sorted lib s.edge_queue →
    (∀ x r, s.edge_records x = some r → r.edge = x) →
    (∀ r, r ∈ s.edge_queue → s.edge_records r.edge = some r) →
    (∀ r, r ∈ s.edge_queue → r.edge ∉ L) →
    PQueue.Sorted lib (L.foldl (addRecord lib) s).edge_queue ∧
    (∀ x r, (L.foldl (addRecord lib) s).edge_records x = some r → r.edge = x) ∧
    (∀ r, r ∈ (L.foldl (addRecord lib) s).edge_queue →
      (L.foldl (addRecord lib) s).edge_records r.edge = some r) ∧
    (∀ r, r ∈ (L.foldl (addRecord lib) s).edge_queue → r ∈ s.edge_queue ∨ r.edge ∈ L) ∧
    (∀ x, x ∉ L → (L.foldl (addRecord lib) s).edge_records x = s.edge_records x) ∧
    (∀ r, r ∈ s.edge_queue → r ∈ (L.foldl (addRecord lib) s).edge_queue) ∧
    (Function.Injective lib.addr → ∀ x, x ∈ L →
      ∃ r, (L.foldl (addRecord lib) s).edge_records x = some r ∧
        r ∈ (L.foldl (addRecord lib) s).edge_queue) := by
  intro L
  induction L with
  | nil =>
    intro s _ hS hR hI hQ
    exact ⟨hS, hR, hI, fun r hr => Or.inl hr, fun _ _ => rfl, fun r hr => hr,
      fun _ x hx => absurd hx (List.not_mem_nil _)⟩
  | cons y L ih =>
    intro s nd hS hR hI hQ
    obtain ⟨yL, ndL⟩ := List.nodup_cons.1 nd
    have ed : (Edge_Record.create lib s.mesh s.vertex_quadrics y).1.edge = y := rfl
    have hS' : PQueue.Sorted lib (addRecord lib s y).edge_queue :=
      pqueue_insert_sorted lib _ _ hS
    have hR' : ∀ z r, (addRecord lib s y).edge_records z = some r → r.edge = z := by
      intro z r hr
      have hr' : upd s.edge_records y
          (some (Edge_Record.create lib s.mesh s.vertex_quadrics y).1) z = some r := hr
      rw [upd_apply] at hr'
      by_cases c : z = y
      · rw [if_pos c] at hr'
        rw [← Option.some.inj hr', c]
        exact ed
      · rw [if_neg c] at hr'
        exact hR z r hr'
    have hI' : ∀ r, r ∈ (addRecord lib s y).edge_queue →
        (addRecord lib s y).edge_records r.edge = some r := by
      intro r hr
      show upd s.edge_records y
          (some (Edge_Record.create lib s.mesh s.vertex_quadrics y).1) r.edge = some r
      rcases pqueue_mem_insert lib _ _ r hr with h | h
      · rw [h, upd_apply, if_pos ed]
      · have : r.edge ≠ y := fun c => hQ r h (c ▸ List.mem_cons_self _ _)
        rw [upd_apply, if_neg this]
        exact hI r h
    have hQ' : ∀ r, r ∈ (addRecord lib s y).edge_queue → r.edge ∉ L := by
      intro r hr hL
      rcases pqueue_mem_insert lib _ _ r hr with h | h
      · rw [h] at hL
        exact yL hL
      · exact hQ r h (List.mem_cons_of_mem _ hL)
    obtain ⟨a1, a2, a3, a4, a5, a6, a7⟩ := ih (addRecord lib s y) ndL hS' hR' hI' hQ'
    rw [List.foldl_cons]
    refine ⟨a1, a2, a3, ?_, ?_, ?_, ?_⟩
    · intro r hr
      rcases a4 r hr with h | h
      · rcases pqueue_mem_insert lib _ _ r h with h' | h'
        · refine Or.inr ?_
          rw [h']
          exact List.mem_cons_self _ _
        · exact Or.inl h'
      · exact Or.inr (List.mem_cons_of_mem _ h)
    · intro z hz
      rw [a5 z (fun h => hz (List.mem_cons_of_mem _ h))]
      show upd s.edge_records y _ z = _
      rw [upd_apply, if_neg (fun c : z = y => hz (c ▸ List.mem_cons_self _ _))]
    · intro r hr
      exact a6 r (pqueue_mem_insert_old lib _ _ r hr)
    · intro inj x hx
      rcases List.mem_cons.1 hx with c | c
      · refine ⟨(Edge_Record.create lib s.mesh s.vertex_quadrics y).1, ?_, ?_⟩
        · rw [c, a5 y yL]
          show upd s.edge_records y _ y = _
          rw [upd_apply, if_pos rfl]
        · apply a6
          apply pqueue_mem_insert_new
          intro z hz
          refine recLt_total lib inj _ z (Or.inr ?_)
          rw [ed]
          intro h
          exact hQ z hz (h ▸ List.mem_cons_self _ _)
      · exact a7 inj x c

/-- The state at the head of the loop of `simplify`, on a triangle mesh that
    satisfies the invariants 1 to 5: its mesh is the mesh given, it satisfies
    the invariant of the loop, and, when different edges have different
    addresses, every live edge has its record in the queue. -/
theorem simplifyInit_inv (lib : VecLib) (m : Mesh) (hv : Valid m) (tm : TriangleMesh m) :
    ∃ s, simplifyInit lib m = some s ∧ s.mesh = m ∧ SimplifyInv lib s ∧
      (Function.Injective lib.addr →
        ∀ x, eLive s.mesh x → ∃ r, s.edge_records x = some r ∧ r ∈ s.edge_queue) := by
  obtain ⟨vq, h⟩ := initVertexQuadrics_some lib m (faceQuadrics lib m) hv
    (liveList m.nV m.vErased) (fun _ => none) (fun v hv' => (mem_liveList _ _ v).1 hv')
  have e : simplifyInit lib m =
      some ((liveList m.nE m.eErased).foldl (addRecord lib) ⟨m, vq, fun _ => none, []⟩) := by
    unfold simplifyInit
    rw [h]
  have hm := foldl_addRecord_mesh lib (liveList m.nE m.eErased) ⟨m, vq, fun _ => none, []⟩
  obtain ⟨a1, a2, a3, a4, -, -, a7⟩ := foldl_addRecord_inv lib (liveList m.nE m.eErased)
    ⟨m, vq, fun _ => none, []⟩ (liveList_nodup _ _)
    (by simp [PQueue.Sorted])
    (fun x r hr => Option.noConfusion hr)
    (fun r hr => absurd hr (List.not_mem_nil _))
    (fun r hr => absurd hr (List.not_mem_nil _))
  refine ⟨_, e, hm, ⟨?_, a1, a2, a3, ?_⟩, ?_⟩
  · rw [hm]; exact ⟨hv, triLens_of_triangle tm⟩
  · intro r hr
    rw [hm]
    rcases a4 r hr with c | c
    · exact absurd c (List.not_mem_nil _)
    · exact (mem_liveList _ _ _).1 c
  · intro inj x lx
    rw [hm] at lx
    exact a7 inj x ((mem_liveList _ _ _).2 lx)

theorem simplifyIter_top (dbg : Bool) (lib : VecLib) (s s' : SimplifyState)
    (hs : simplifyIter dbg lib s = some s') : ∃ er, PQueue.top s.edge_queue = some er := by
  cases h : PQueue.top s.edge_queue with
  | some er => exact ⟨er, rfl⟩
  | none =>
    unfold simplifyIter beforeCollapse at hs
    rw [h] at hs
    exact Option.noConfusion hs

/-- The invariant of the loop holds after every number of rounds. -/
theorem simplifyLoop_inv (dbg : Bool) (lib : VecLib) :
    ∀ (k : Nat) (s : SimplifyState), SimplifyInv lib s →
      ∀ s', simplifyLoop dbg lib k s = some s' → SimplifyInv lib s' := by
  intro k
  induction k with
  | zero =>
    intro s inv s' hs
    unfold simplifyLoop at hs
    rw [← Option.some.inj hs]
    exact inv
  | succ k ih =>
    intro s inv s' hs
    unfold simplifyLoop at hs
    cases h1 : simplifyIter dbg lib s with
    | none => rw [h1] at hs; exact Option.noConfusion hs
    | some s1 =>
      rw [h1] at hs
      simp only at hs
      obtain ⟨er, ht⟩ := simplifyIter_top dbg lib s s1 h1
      exact ih s1 (simplifyIter_inv dbg lib s inv er ht s1 h1) s' hs

/-- A mesh that satisfies the invariants and has a face has an edge. -/
theorem live_edge_of_face (m : Mesh) (hv : Valid m) (hF : 0 < n_faces m) :
    ∃ x, eLive m x := by
  obtain ⟨f, hf, ef⟩ := liveCount_pos m.nF m.fErased hF
  have lh := (hv.1.2.1.2 f hf ef).1
  exact ⟨_, (wf_edge hv.1 lh).1⟩

/-- The loop of `simplify` over `k` rounds in which no collapse is declined and
    no popped edge has two triangles that share all three sides, on a triangle
    mesh in which every live edge has its record in the queue: the `k` rounds
    finish, each takes away two faces, three edges and one vertex, and the
    mesh is a triangle mesh that satisfies the invariants. -/
theorem simplifyLoop_counts (dbg : Bool) (lib : VecLib) (inj : Function.Injective lib.addr) :
    ∀ (k : Nat) (s : SimplifyState), SimplifyInv lib s → TriangleMesh s.mesh →
      (∀ x, eLive s.mesh x → ∃ r, s.edge_records x = some r ∧ r ∈ s.edge_queue) →
      allCollapsed dbg lib k s = true → pillowFree dbg lib k s = true →
      2 * k < n_faces s.mesh + 2 →
      ∃ s', simplifyLoop dbg lib k s = some s' ∧ Valid s'.mesh ∧ TriangleMesh s'.mesh ∧
        n_faces s'.mesh + 2 * k = n_faces s.mesh ∧
        n_edges s'.mesh + 3 * k = n_edges s.mesh ∧
        n_vertices s'.mesh + k = n_vertices s.mesh := by
  intro k
  induction k with
  | zero =>
    intro s inv tm hK _ _ _
    exact ⟨s, rfl, inv.1.1, tm, rfl, rfl, rfl⟩
  | succ k ih =>
    intro s inv tm hK ac pf hF
    obtain ⟨x, lx⟩ := live_edge_of_face s.mesh inv.1.1 (by omega)
    obtain ⟨r0, -, rq0⟩ := hK x lx
    obtain ⟨er, ht⟩ : ∃ er, PQueue.top s.edge_queue = some er := by
      unfold PQueue.top
      cases h : s.edge_queue with
      | nil => rw [h] at rq0; exact absurd rq0 (List.not_mem_nil _)
      | cons r q => exact ⟨r, rfl⟩
    have em : er ∈ s.edge_queue := by
      unfold PQueue.top at ht
      exact List.mem_of_mem_head? ht
    unfold allCollapsed at ac
    unfold pillowFree at pf
    rw [ht] at ac pf
    simp only [Bool.and_eq_true, Bool.not_eq_true', decide_eq_false_iff_not] at ac pf
    obtain ⟨ac1, ac2⟩ := ac
    obtain ⟨np, pf2⟩ := pf
    obtain ⟨v, m2, hc⟩ : ∃ v m2, collapse_edge dbg s.mesh er.edge = some (some v, m2) := by
      cases h : collapse_edge_erase dbg s.mesh er.edge with
      | none => rw [h] at ac1; exact Bool.noConfusion ac1
      | some r =>
        obtain ⟨vo, m2⟩ := r
        cases vo with
        | none => rw [h] at ac1; exact Bool.noConfusion ac1
        | some v => exact ⟨v, m2, h⟩
    obtain ⟨s1, h1, hm1, inv1, hK1, -⟩ := simplifyIter_success dbg lib s inv er ht v m2 hc
    obtain ⟨-, -, -, -, -, -, cnt⟩ :=
      collapse_edge_touching dbg s.mesh m2 er.edge v inv.1.1 inv.1.2 (inv.2.2.2.2 er em) hc
    obtain ⟨tm2, c1, c2, c3, -⟩ := cnt np
    rw [h1] at ac2 pf2
    simp only at ac2 pf2
    have f1 : n_faces s1.mesh = n_faces m2 := by rw [hm1]; rfl
    have f2 : n_edges s1.mesh = n_edges m2 := by rw [hm1]; rfl
    have f3 : n_vertices s1.mesh = n_vertices m2 := by rw [hm1]; rfl
    have tm1 : TriangleMesh s1.mesh := by rw [hm1]; exact tm2 tm
    obtain ⟨s', hs', v', t', k1, k2, k3⟩ := ih s1 inv1 tm1 (hK1 inj hK) ac2 pf2 (by omega)
    refine ⟨s', ?_, v', t', by omega, by omega, by omega⟩
    unfold simplifyLoop
    rw [h1]
    exact hs'

/-- The comparison `num_deletions >= faces.size() - min_faces` of `simplify`
    in arithmetic modulo `2^64` holds exactly when the mesh has one face. -/
theorem simplify_guard_iff (F : Nat) (hF : F < 2 ^ 64) :
    F / 4 ≥ (F + (2 ^ 64 - 1)) % 2 ^ 64 ↔ F = 1 := by
  rcases Nat.eq_zero_or_pos F with z | p
  · subst z
    constructor
    · intro h
      norm_num at h
    · intro h
      omega
  · have : (F + (2 ^ 64 - 1)) % 2 ^ 64 = F - 1 := by
      have e : F + (2 ^ 64 - 1) = (F - 1) + 2 ^ 64 := by omega
      rw [e, Nat.add_mod_right, Nat.mod_eq_of_lt (by omega)]
    rw [this]
    omega

/-- What `simplify` returns on a mesh that satisfies the invariants, by the
    comparison at its head. -/
theorem simplify_cases (dbg : Bool) (lib : VecLib) (m : Mesh) (hv : Valid m) :
    ∃ s, simplifyInit lib m = some s ∧ s.mesh = m ∧
      simplify dbg lib m =
        if n_faces m / 4 ≥ (n_faces m + (2 ^ 64 - 1)) % 2 ^ 64 then some (false, m)
        else (simplifyLoop dbg lib (n_faces m / 4) s).map (fun s' => (true, s'.mesh)) := by
  obtain ⟨s, h, hm⟩ := simplifyInit_some lib m hv
  refine ⟨s, h, hm, ?_⟩
  unfold simplify
  rw [h]
  simp only
  split_ifs
  · rfl
  · cases simplifyLoop dbg lib (n_faces m / 4) s <;> rfl

/-- C25: the mesh without elements satisfies the invariants and has `F = 0`
    faces, and the target `D = 0` is at least `F - 1 = -1` in the integers;
    `faces.size() - min_faces` is computed in `size_t`, where it is `2^64 - 1`,
    so the comparison at the head of `simplify` fails and `simplify` returns
    success, with the mesh as it was, for every setting of the assertions and
    every library. -/
theorem simplify_empty_mesh_not_declined :
    Valid emptyMesh ∧ n_faces emptyMesh = 0 ∧
    ((n_faces emptyMesh / 4 : Nat) : Int) ≥ (n_faces emptyMesh : Int) - 1 ∧
    ∀ dbg lib, simplify dbg lib emptyMesh = some (true, emptyMesh) :=
  ⟨by decide, by decide, by decide, fun dbg lib => simplify_empty dbg lib⟩

/-- C26: on a triangle mesh that satisfies the invariants 1 to 5,
    when different edges have different addresses, `simplify` proceeds, none
    of the `D = F / 4` collapses is declined and none is applied to an edge
    whose two triangles share all three sides, `simplify` returns success after
    `D` collapses and leaves `F - 2 D` faces, `E - 3 D` edges and `V - D`
    vertices, in a triangle mesh that satisfies the invariants. -/
theorem simplify_halves_faces (dbg : Bool) (lib : VecLib) (m : Mesh)
    (inj : Function.Injective lib.addr) (hv : Valid m) (tm : TriangleMesh m)
    (hp : ¬ (n_faces m / 4 ≥ (n_faces m + (2 ^ 64 - 1)) % 2 ^ 64))
    (nd : noneDeclined dbg lib m = true) (npl : noPillowPopped dbg lib m = true) :
    ∃ m', simplify dbg lib m = some (true, m') ∧ Valid m' ∧ TriangleMesh m' ∧
      n_faces m' + 2 * (n_faces m / 4) = n_faces m ∧
      n_edges m' + 3 * (n_faces m / 4) = n_edges m ∧
      n_vertices m' + n_faces m / 4 = n_vertices m := by
  obtain ⟨s0, h0, hm, inv0, hK0⟩ := simplifyInit_inv lib m hv tm
  unfold noneDeclined at nd
  unfold noPillowPopped at npl
  rw [h0] at nd npl
  simp only at nd npl
  have tm0 : TriangleMesh s0.mesh := by rw [hm]; exact tm
  obtain ⟨s', hs', v', t', k1, k2, k3⟩ :=
    simplifyLoop_counts dbg lib inj (n_faces m / 4) s0 inv0 tm0 (hK0 inj) nd npl
      (by rw [hm]; omega)
  rw [hm] at k1 k2 k3
  refine ⟨s'.mesh, ?_, v', t', k1, k2, k3⟩
  unfold simplify
  rw [h0]
  simp only
  rw [if_neg hp, hs']

theorem icosa_valid : Valid icosa := by decide!

theorem icosa_triangle : TriangleMesh icosa := by decide!

theorem icosa_none_declined : noneDeclined true plainLib icosa = true := by decide!

theorem icosa_no_pillow : noPillowPopped true plainLib icosa = true := by decide!

/-- Witness for C26: the icosahedron with 12 vertices, 30 edges and 20 faces;
    the five collapses are not declined, and `simplify` leaves 10 faces, 15
    edges and 7 vertices. -/
theorem simplify_halves_faces_witness :
    Function.Injective plainLib.addr ∧ Valid icosa ∧ TriangleMesh icosa ∧
    n_faces icosa = 20 ∧ n_edges icosa = 30 ∧ n_vertices icosa = 12 ∧
    noneDeclined true plainLib icosa = true ∧ noPillowPopped true plainLib icosa = true ∧
    ∃ m', simplify true plainLib icosa = some (true, m') ∧ Valid m' ∧ TriangleMesh m' ∧
      n_faces m' = 10 ∧ n_edges m' = 15 ∧ n_vertices m' = 7 := by
  have f : n_faces icosa = 20 := by decide
  have e : n_edges icosa = 30 := by decide
  have n : n_vertices icosa = 12 := by decide
  obtain ⟨m', h1, h2, h3, h4, h5, h6⟩ :=
    simplify_halves_faces true plainLib icosa (fun _ _ h => h) icosa_valid icosa_triangle
      (by rw [f]; decide) icosa_none_declined icosa_no_pillow
  rw [f] at h4 h5 h6
  rw [e] at h5
  rw [n] at h6
  exact ⟨fun _ _ h => h, icosa_valid, icosa_triangle, f, e, n, icosa_none_declined,
    icosa_no_pillow, m', h1, h2, h3, by omega, by omega, by omega⟩

/-- Counterexample for C26: two pillows side by side, a triangle mesh of 4
    faces and 6 edges that satisfies the invariants; `simplify` proceeds, its
    one collapse is not declined, and it leaves 3 faces and 4 edges, not 2 and
    3: the collapse is on an edge whose two triangles share all three sides,
    where `collapse_edge` keeps the second two-sided face. -/
theorem simplify_pillow_counterexample :
    Valid twoPillows ∧ TriangleMesh twoPillows ∧
    n_faces twoPillows = 4 ∧ n_edges twoPillows = 6 ∧
    ¬ (n_faces twoPillows / 4 ≥ (n_faces twoPillows + (2 ^ 64 - 1)) % 2 ^ 64) ∧
    noneDeclined true plainLib twoPillows = true ∧
    (simplify true plainLib twoPillows).map (fun r => (r.1, n_faces r.2, n_edges r.2)) =
      some (true, 3, 4) := by
  refine ⟨by decide, by decide, by decide, by decide, by decide!, by decide!, by decide!⟩

/-- C27: in the run of `simplify` on a triangle mesh that satisfies the
    invariants 1 to 5, at the head of every round the edge of every record in
    the queue is live; and in the round, when the collapse is called, the
    queue holds no record of the popped edge and no record of an edge that
    touches one of its two ends, and the edges of the records it holds are
    live in the mesh the collapse leaves. -/
theorem simplify_queue_no_stale_record (dbg : Bool) (lib : VecLib) (m : Mesh)
    (hv : Valid m) (tm : TriangleMesh m) (k : Nat) (s : SimplifyState)
    (hs : stateAfter dbg lib m k = some s) :
    (∀ r, r ∈ s.edge_queue → eLive s.mesh r.edge) ∧
    ∀ er s1 qn t, beforeCollapse lib s = some (er, s1, qn, t) →
      PQueue.top s.edge_queue = some er ∧ s1.mesh = s.mesh ∧
      (∀ x, x ∈ t ↔ (x ≠ er.edge ∧ ∃ g, hLive s.mesh g ∧
        (s.mesh.hVertex g = s.mesh.hVertex (s.mesh.eHalfedge er.edge) ∨
          s.mesh.hVertex g = s.mesh.hVertex (s.mesh.hTwin (s.mesh.eHalfedge er.edge))) ∧
        s.mesh.hEdge g = x)) ∧
      (∀ r, r ∈ s1.edge_queue → r.edge ≠ er.edge ∧ r.edge ∉ t) ∧
      (∀ v m2, collapse_edge_erase dbg s1.mesh er.edge = some (some v, m2) →
        ∀ r, r ∈ s1.edge_queue → eLive m2 r.edge) := by
  obtain ⟨s0, h0, hm, inv0, -⟩ := simplifyInit_inv lib m hv tm
  unfold stateAfter at hs
  rw [h0] at hs
  simp only at hs
  have inv := simplifyLoop_inv dbg lib k s0 inv0 s hs
  refine ⟨inv.2.2.2.2, ?_⟩
  intro er s1 qn t hb
  obtain ⟨er0, ht⟩ : ∃ er0, PQueue.top s.edge_queue = some er0 := by
    cases h : PQueue.top s.edge_queue with
    | some er0 => exact ⟨er0, rfl⟩
    | none =>
      unfold beforeCollapse at hb
      rw [h] at hb
      exact Option.noConfusion hb
  obtain ⟨t0, hb0, -, mem, clean⟩ := beforeCollapse_spec lib s inv er0 ht
  have hb' := hb
  rw [hb0] at hb'
  simp only [Option.some.injEq, Prod.mk.injEq] at hb'
  obtain ⟨e1, e2, -, e4⟩ := hb'
  subst e1
  subst e4
  refine ⟨ht, by rw [← e2], mem, ?_, ?_⟩
  · intro r hr
    rw [← e2] at hr
    exact (clean r hr).2
  · intro v m2 hc r hr
    have hc' : collapse_edge dbg s.mesh er0.edge = some (some v, m2) := by
      rw [← e2] at hc
      exact hc
    obtain ⟨-, -, -, -, -, stay⟩ := simplifyIter_success dbg lib s inv er0 ht v m2 hc'
    exact stay er0 s1 qn t0 hb r hr

/-- Witness for C27: the octahedron, at the head of the second round. -/
theorem simplify_queue_no_stale_record_witness :
    Valid octa ∧ TriangleMesh octa ∧
    ∃ s, stateAfter true plainLib octa 1 = some s ∧
      (∀ r, r ∈ s.edge_queue → eLive s.mesh r.edge) ∧
      ∀ er s1 qn t, beforeCollapse plainLib s = some (er, s1, qn, t) →
        PQueue.top s.edge_queue = some er ∧ s1.mesh = s.mesh ∧
        (∀ x, x ∈ t ↔ (x ≠ er.edge ∧ ∃ g, hLive s.mesh g ∧
          (s.mesh.hVertex g = s.mesh.hVertex (s.mesh.eHalfedge er.edge) ∨
            s.mesh.hVertex g = s.mesh.hVertex (s.mesh.hTwin (s.mesh.eHalfedge er.edge))) ∧
          s.mesh.hEdge g = x)) ∧
        (∀ r, r ∈ s1.edge_queue → r.edge ≠ er.edge ∧ r.edge ∉ t) ∧
        (∀ v m2, collapse_edge_erase true s1.mesh er.edge = some (some v, m2) →
          ∀ r, r ∈ s1.edge_queue → eLive m2 r.edge) :=
  have h : (stateAfter true plainLib octa 1).isSome = true := by decide!
  have hs : stateAfter true plainLib octa 1 = some ((stateAfter true plainLib octa 1).get h) :=
    (Option.some_get h).symm
  ⟨by decide, by decide, _, hs,
    simplify_queue_no_stale_record true plainLib octa (by decide) (by decide) 1 _ hs⟩

/-- C31: on a mesh that satisfies the invariants 1 to 5, with the number of
    faces a `size_t` and `faces.size() - min_faces` computed modulo `2^64`,
    `simplify` returns failure exactly when the mesh has one face, and then it
    leaves the mesh as it is; on a mesh with 0, 2 or 3 faces the number of
    rounds is 0 and `simplify` returns success with the mesh as it was. -/
theorem simplify_fails_iff_one_face (dbg : Bool) (lib : VecLib) (m : Mesh)
    (hv : Valid m) (hF : n_faces m < 2 ^ 64) :
    ((∃ m', simplify dbg lib m = some (false, m')) ↔ n_faces m = 1) ∧
    (n_faces m = 1 → simplify dbg lib m = some (false, m)) ∧
    (n_faces m = 0 ∨ n_faces m = 2 ∨ n_faces m = 3 →
      n_faces m / 4 = 0 ∧ simplify dbg lib m = some (true, m)) := by
  obtain ⟨s, h0, hm, e⟩ := simplify_cases dbg lib m hv
  have g := simplify_guard_iff (n_faces m) hF
  refine ⟨⟨?_, ?_⟩, ?_, ?_⟩
  · rintro ⟨m', h⟩
    by_contra c
    rw [e, if_neg (fun q => c (g.1 q))] at h
    cases hl : simplifyLoop dbg lib (n_faces m / 4) s with
    | none => rw [hl] at h; exact Option.noConfusion h
    | some s' =>
      rw [hl] at h
      simp only [Option.map_some', Option.some.injEq, Prod.mk.injEq] at h
      exact Bool.noConfusion h.1
  · intro c
    exact ⟨m, by rw [e, if_pos (g.2 c)]⟩
  · intro c
    rw [e, if_pos (g.2 c)]
  · intro c
    have d0 : n_faces m / 4 = 0 := by omega
    have c1 : n_faces m ≠ 1 := by omega
    refine ⟨d0, ?_⟩
    rw [e, if_neg (fun q => c1 (g.1 q)), d0]
    show some (true, s.mesh) = some (true, m)
    rw [hm]

/-- Witness for C31: the lens has one face and `simplify` returns failure on
    it; the pillow has two faces and `simplify` returns success without a
    collapse. -/
theorem simplify_fails_iff_one_face_witness :
    (Valid lens ∧ n_faces lens < 2 ^ 64 ∧ n_faces lens = 1 ∧
      simplify true plainLib lens = some (false, lens)) ∧
    (Valid pillow ∧ n_faces pillow < 2 ^ 64 ∧ n_faces pillow = 2 ∧
      simplify true plainLib pillow = some (true, pillow)) :=
  ⟨⟨by decide, by decide, by decide,
      (simplify_fails_iff_one_face true plainLib lens (by decide) (by decide)).2.1 (by decide)⟩,
    ⟨by decide, by decide, by decide,
      ((simplify_fails_iff_one_face true plainLib pillow (by decide) (by decide)).2.2
        (Or.inr (Or.inl (by decide)))).2⟩⟩

/-- In a triangle mesh the two faces of `e` are removed by the collapse, or
    one of them is left as a face of two sides on one edge: no two vertices
    of the mesh the collapse leaves are joined by more than one edge. -/
theorem collapse_tri_simpleGraph (dbg : Bool) (m m' : Mesh) (e v : Nat)
    (hv : Valid m) (tm : TriangleMesh m) (he : eLive m e)
    (hc : collapse_edge dbg m e = some (some v, m'))
    (se : SimpleExcept m' (m.hFace (m.eHalfedge e)) (m.hFace (m.hTwin (m.eHalfedge e)))) :
    SimpleGraph m' := by
  have lt := triLens_of_triangle tm
  obtain ⟨w, A2, nb, cx, rp, tn⟩ := collapse_full_tri dbg m m' e v hv lt he hc
  obtain ⟨hv', -⟩ := collapse_valid_gen nb cx rp tn hv lt (collapse_edge_spec dbg m m' e v hc).1
  have wf := hv.1
  have wf' := hv'.1
  intro g hg g' hg' eg eg' same
  rcases se g hg g' hg' eg eg' (wf_edge wf' ⟨hg, eg⟩).1 (wf_edge wf' ⟨hg', eg'⟩).1 same
    with r | r | r
  · exact r
  · have fl := (collapse_flive cx _).1 ⟨r.1, r.2.1⟩
    exact absurd nb.f0x.symm (fl.2.1 rfl)
  · have fl := (collapse_flive cx _).1 ⟨r.1, r.2.1⟩
    have a2 : A2 = false := by
      cases hA : A2 with
      | false => rfl
      | true => exact absurd nb.f1s.symm (fl.2.2 hA)
    subst a2
    obtain ⟨p1, p2⟩ := pillow_of_no_merge nb cx tn wf
    have sy : (m.hNext (m.hTwin (m.eHalfedge e))) ≠ (m.hNext (m.hNext (m.eHalfedge e))) :=
      ne_of_f m.hFace nb.f1s nb.f0y nb.ff.symm
    have sx : (m.hNext (m.hTwin (m.eHalfedge e))) ≠ (m.hNext (m.eHalfedge e)) :=
      ne_of_f m.hFace nb.f1s nb.f0x nb.ff.symm
    have s0 : (m.hNext (m.hTwin (m.eHalfedge e))) ≠ m.eHalfedge e :=
      ne_of_f m.hFace nb.f1s nb.f0a nb.ff.symm
    have wy : w ≠ (m.hNext (m.hNext (m.eHalfedge e))) :=
      ne_of_f m.hFace tn.fw nb.f0y nb.ff.symm
    have wx : w ≠ (m.hNext (m.eHalfedge e)) := ne_of_f m.hFace tn.fw nb.f0x nb.ff.symm
    have w0 : w ≠ m.eHalfedge e := ne_of_f m.hFace tn.fw nb.f0a nb.ff.symm
    have nW : m'.hNext w = m.hNext (m.hTwin (m.eHalfedge e)) := by
      rw [rp.next, upd_apply, if_pos rfl]
    have nS : m'.hNext (m.hNext (m.hTwin (m.eHalfedge e))) = w := by
      rw [rp.next, upd_apply, if_neg tn.sw, upd_apply, if_neg sy, tn.ns]
    have tS : m'.hTwin (m.hNext (m.hTwin (m.eHalfedge e))) = w := by
      rw [cx.twin]
      simp only [mergeTwin, if_true, Bool.false_eq_true, if_false, p1, p2, upd_apply]
    have tW : m'.hTwin w = m.hNext (m.hTwin (m.eHalfedge e)) := by
      rw [cx.twin]
      simp only [mergeTwin, if_true, Bool.false_eq_true, if_false, p1, p2, upd_apply,
        if_neg (Ne.symm tn.sw), if_pos]
    have ls' : hLive m' (m.hNext (m.hTwin (m.eHalfedge e))) :=
      (collapse_hlive_tri cx _).2 ⟨nb.ls, s0, tn.s1, sx, sy, fun h => Bool.noConfusion h⟩
    have lw' : hLive m' w :=
      (collapse_hlive_tri cx _).2 ⟨cx.lw, w0, tn.w1, wx, wy, fun h => Bool.noConfusion h⟩
    have only : ∀ c u, hLive m' c → fanStep m' c = c → hLive m' u →
        m'.hVertex u = m'.hVertex c → u = c := by
      intro c u lc fc lu h
      obtain ⟨k, -, hk⟩ := hv'.2.1 c lc.1 lc.2 u lu.1 lu.2 h.symm
      rw [Function.iterate_fixed fc] at hk
      exact hk.symm
    have fS : fanStep m' (m.hNext (m.hTwin (m.eHalfedge e))) =
        m.hNext (m.hTwin (m.eHalfedge e)) := by
      unfold fanStep; rw [tS, nW]
    have fW : fanStep m' w = w := by
      unfold fanStep; rw [tW, nS]
    have onf : ∀ p, FaceHas m' (m.hFace (m.hTwin (m.eHalfedge e))) p →
        p = m'.hVertex (m.hNext (m.hTwin (m.eHalfedge e))) ∨ p = m'.hVertex w := by
      rintro p ⟨h, h1, h2, h3, h4⟩
      obtain ⟨lh, q0, q1, -⟩ := (collapse_hlive_tri cx h).1 ⟨h1, h2⟩
      rw [cx.face] at h3
      rcases tn.on1 h lh h3 with c | c | c
      · exact absurd c q1
      · left; rw [← h4, c]
      · right; rw [← h4, c]
    have inn : ∀ u, hLive m' u →
        (m'.hVertex u = m'.hVertex (m.hNext (m.hTwin (m.eHalfedge e))) ∨
          m'.hVertex u = m'.hVertex w) →
        m'.hEdge u = m'.hEdge w := by
      intro u lu h
      rcases h with h | h
      · rw [only _ u ls' fS lu h]
        have := (wf_edge wf' ls').2.1
        rw [tS] at this
        exact this.symm
      · rw [only _ u lw' fW lu h]
    rw [inn g ⟨hg, eg⟩ (onf _ r.2.2.1)]
    refine (inn g' ⟨hg', eg'⟩ ?_).symm
    rcases same with ⟨s1, -⟩ | ⟨-, s2⟩
    · rw [← s1]; exact onf _ r.2.2.1
    · rw [← s2]; exact onf _ r.2.2.2

/-- The test `can_collapse_edge` is what keeps the double edge out.  It
    declines edge 1 of the bipyramid; the rewiring of `collapse_edge` run on
    that edge all the same (the new vertex 5, the two calls of
    `process_outbound_edges`, the erase of the edge) leaves a well-formed mesh
    in which two vertices are joined by two edges, with both faces of the edge
    erased. -/
theorem collapse_rewiring_needs_test :
    can_collapse_edge true bipyramid 1 = some false ∧
    bipyramid.new_vertex.1 = 5 ∧
    ∃ M1 M2 : Mesh,
      (let m0 := bipyramid.new_vertex.2
       let m1 := m0.setVHalfedge 5 (m0.hNext (m0.eHalfedge 1))
       let m2 := m1.setPos 5 (m1.center 1)
       process_outbound_edges true 5 m2 (m2.eHalfedge 1) = some M1) ∧
      process_outbound_edges true 5 M1 (M1.hTwin (M1.eHalfedge 1)) = some M2 ∧
      WellFormed (M2.eraseE 1) ∧ ¬ SimpleGraph (M2.eraseE 1) ∧
      ¬ SimpleExcept (M2.eraseE 1) (bipyramid.hFace (bipyramid.eHalfedge 1))
        (bipyramid.hFace (bipyramid.hTwin (bipyramid.eHalfedge 1))) :=
  ⟨by decide!, rfl, _, _, rfl, rfl, by decide!, by decide!, by decide!⟩

/-- C9: on a mesh that satisfies the invariants 1 to 5 (the well-formedness
    predicate, closed fans, no loop edges, no two half-edges of one face
    leaving the same vertex) and in which no two vertices are joined by more
    than one edge, when `collapse_edge` returns a vertex for a live edge `e`,
    two vertices of the mesh it leaves are joined by more than one live edge
    only if one of the two faces of `e`, the faces the whitelist of
    `can_collapse_edge` names, is still live and contains both of them; on a
    triangle mesh no two vertices of the mesh it leaves are joined by more
    than one edge. -/
theorem collapse_edge_no_double_edge (dbg : Bool) (m m' : Mesh) (e v : Nat)
    (hv : Valid m) (sf : SimpleFaces m) (sg : SimpleGraph m) (he : eLive m e)
    (hc : collapse_edge dbg m e = some (some v, m')) :
    SimpleExcept m' (m.hFace (m.eHalfedge e)) (m.hFace (m.hTwin (m.eHalfedge e))) ∧
      (TriangleMesh m → SimpleGraph m') :=
  ⟨collapse_simpleExcept dbg m m' e v hv sf sg he hc,
    fun tm => collapse_tri_simpleGraph dbg m m' e v hv tm he hc
      (collapse_simpleExcept dbg m m' e v hv sf sg he hc)⟩

/-- Witness for C9: the tetrahedron is a triangle mesh that satisfies the
    hypotheses; collapsing its edge 0 returns the new vertex 4 and leaves a
    mesh in which no two vertices are joined by more than one edge. -/
theorem collapse_edge_no_double_edge_witness :
    Valid tetra ∧ SimpleFaces tetra ∧ SimpleGraph tetra ∧ TriangleMesh tetra ∧
    ∃ m', collapse_edge true tetra 0 = some (some 4, m') ∧ SimpleGraph m' :=
  ⟨by decide, by decide, by decide, by decide, _, rfl,
    (collapse_edge_no_double_edge true tetra _ 0 4 (by decide) (by decide) (by decide)
      (by decide) rfl).2 (by decide)⟩

end Cardinal3D
